import Mathlib

/-! Dense kernels of `etl/impl/vec/gemm.hpp`

A shallow embedding of the GEMV / GEVM / GEMM kernels and entry points of
`include/etl/impl/vec/gemm.hpp`, followed by theorems about them.

Conventions of the embedding

* A `const T*` operand is a function `Nat → T` from element index to value.
* A destination `T*` is a `Buffer T`: the values together with a ghost counter
  of the stores each element has received.
* `size_t` indices are natural numbers; dimensions are assumed to be those of
  buffers that exist, so index arithmetic does not wrap.  The one expression
  whose meaning depends on the 64-bit width, `size_t(-vec_size)`, is modelled
  with an explicit reduction modulo `2^64` (`neg_size_t`).
* Every `for` loop is `forLoop`, run with a fuel equal to the bound of its
  condition; the theorems show that this fuel is never exhausted.
-/

namespace Etl

/-! ## Scalars, vector registers, buffers, loops -/

/-- Arithmetic of the element type `T`: the value `T()`, `+`, `*` and the fused
multiply-add `fmadd a b c` (meaning `a * b + c`) of one vector lane. -/
structure Arith (T : Type) where
  zero : T
  add : T → T → T
  mul : T → T → T
  fmadd : T → T → T → T

/-- Exact arithmetic: every operation is the one of the ring `T`. -/
def Arith.exact (T : Type) [Zero T] [Add T] [Mul T] : Arith T :=
  ⟨0, fun a b => a + b, fun a b => a * b, fun a b c => a * b + c⟩

/-- Modelled from the spec: the vector type `V` (its header is not part of the
sources at hand).  A register of `vec_size` lanes is a lane-indexed function;
only the lanes below `vec_size` are observed, by `hadd` and `storeu`. -/
abbrev Vec (T : Type) := Nat → T

/-- Modelled from the spec: `vec_type::zero<T>()`, every lane is `T()`. -/
def Vec.zero {T : Type} (A : Arith T) : Vec T := fun _ => A.zero

/-- Modelled from the spec: `vec_type::set(x)`, the scalar broadcast to every lane. -/
def Vec.set {T : Type} (x : T) : Vec T := fun _ => x

/-- Modelled from the spec: `vec_type::load(p + k)`, lane `l` is `p[k + l]`. -/
def Vec.load {T : Type} (p : Nat → T) (k : Nat) : Vec T := fun l => p (k + l)

/-- Modelled from the spec: `vec_type::loadu(p + k)`, lane `l` is `p[k + l]`. -/
def Vec.loadu {T : Type} (p : Nat → T) (k : Nat) : Vec T := fun l => p (k + l)

/-- Modelled from the spec: `vec_type::fmadd(a, b, c)`, lane-wise `a * b + c`. -/
def Vec.fmadd {T : Type} (A : Arith T) (a b c : Vec T) : Vec T :=
  fun l => A.fmadd (a l) (b l) (c l)

/-- Modelled from the spec: `vec_type::add(a, b)`, lane-wise `a + b`. -/
def Vec.add {T : Type} (A : Arith T) (a b : Vec T) : Vec T :=
  fun l => A.add (a l) (b l)

/-- Modelled from the spec: `vec_type::hadd(r)`, the sum of the `vec_size`
lanes of `r`, added from lane 0 upwards. -/
def Vec.hadd {T : Type} (A : Arith T) : Nat → Vec T → T
  | 0, _ => A.zero
  | 1, r => r 0
  | n + 2, r => A.add (Vec.hadd A (n + 1) r) (r (n + 1))

/-- A destination buffer: `val x` is the element at index `x`, `stores x` counts
the stores that element has received (ghost state). -/
structure Buffer (T : Type) where
  val : Nat → T
  stores : Nat → Nat

/-- The scalar store `c[x] = v`. -/
def Buffer.write {T : Type} (c : Buffer T) (x : Nat) (v : T) : Buffer T :=
  ⟨fun y => if y = x then v else c.val y,
   fun y => if y = x then c.stores y + 1 else c.stores y⟩

/-- The compound assignment `c[x] += v`: one load of `c[x]` and one store. -/
def Buffer.add_assign {T : Type} (A : Arith T) (c : Buffer T) (x : Nat) (v : T) : Buffer T :=
  c.write x (A.add (c.val x) v)

/-- Modelled from the spec: `vec_type::storeu(c + j, r)`, lane `l < vec_size` of
`r` is stored to `c[j + l]`. -/
def Vec.storeu {T : Type} (c : Buffer T) (j vec_size : Nat) (r : Vec T) : Buffer T :=
  ⟨fun y => if j ≤ y ∧ y < j + vec_size then r (y - j) else c.val y,
   fun y => if j ≤ y ∧ y < j + vec_size then c.stores y + 1 else c.stores y⟩

/-- Modelled from the spec: `vec_type::loadu(c + j)` on a destination buffer. -/
def Buffer.loadu {T : Type} (c : Buffer T) (j : Nat) : Vec T := fun l => c.val (j + l)

/-- The statement `vec_type::storeu(c + j, vec_type::add(r, vec_type::loadu(c + j)))`. -/
def Vec.add_storeu {T : Type} (A : Arith T) (c : Buffer T) (j vec_size : Nat) (r : Vec T) :
    Buffer T :=
  Vec.storeu c j vec_size (Vec.add A r (c.loadu j))

/-- The `size_t` value of `-x`, i.e. `2^64 - x` reduced modulo `2^64`. -/
def neg_size_t (x : Nat) : Nat := (2 ^ 64 - x % 2 ^ 64) % 2 ^ 64

/-- The loop `for (; cond i; i += step) s = body i s`, started at index `i` in
state `s`; it returns the index and the state at exit.  `fuel` bounds the number
of iterations. -/
def forLoop {S : Type} (fuel : Nat) (cond : Nat → Bool) (step : Nat)
    (body : Nat → S → S) (i : Nat) (s : S) : Nat × S :=
  match fuel with
  | 0 => (i, s)
  | fuel + 1 =>
    if cond i then forLoop fuel cond step body (i + step) (body i s) else (i, s)

/-! ## GEMV, row-major kernels -/

/-- The bound `last` of the vectorised inner loops:
`remainder ? (n & size_t(-vec_size)) : n`. -/
def gemv_last (vec_size : Nat) (remainder : Bool) (n : Nat) : Nat :=
  if remainder then n &&& neg_size_t vec_size else n

/-- Body of the `8-Unrolled outer loop` of `gemv_small_kernel` (rows `i .. i+7`). -/
def gemv_small_rows8 {T : Type} (A : Arith T) (vec_size : Nat) (remainder : Bool)
    (last : Nat) (aa : Nat → T) (n : Nat) (bb : Nat → T) (i : Nat) (cc : Buffer T) :
    Buffer T :=
  let r1 := Vec.zero A
  let r2 := Vec.zero A
  let r3 := Vec.zero A
  let r4 := Vec.zero A
  let r5 := Vec.zero A
  let r6 := Vec.zero A
  let r7 := Vec.zero A
  let r8 := Vec.zero A
  -- Vectorized inner loop
  let v := forLoop last (fun k => decide (k < last)) vec_size
    (fun k (r1, r2, r3, r4, r5, r6, r7, r8) =>
      let b1 := Vec.load bb k
      let a1 := Vec.loadu aa ((i + 0) * n + k)
      let a2 := Vec.loadu aa ((i + 1) * n + k)
      let a3 := Vec.loadu aa ((i + 2) * n + k)
      let a4 := Vec.loadu aa ((i + 3) * n + k)
      let a5 := Vec.loadu aa ((i + 4) * n + k)
      let a6 := Vec.loadu aa ((i + 5) * n + k)
      let a7 := Vec.loadu aa ((i + 6) * n + k)
      let a8 := Vec.loadu aa ((i + 7) * n + k)
      (Vec.fmadd A a1 b1 r1, Vec.fmadd A a2 b1 r2, Vec.fmadd A a3 b1 r3,
       Vec.fmadd A a4 b1 r4, Vec.fmadd A a5 b1 r5, Vec.fmadd A a6 b1 r6,
       Vec.fmadd A a7 b1 r7, Vec.fmadd A a8 b1 r8))
    0 (r1, r2, r3, r4, r5, r6, r7, r8)
  let k := v.1
  let cc := cc.write (i + 0) (Vec.hadd A vec_size v.2.1)
  let cc := cc.write (i + 1) (Vec.hadd A vec_size v.2.2.1)
  let cc := cc.write (i + 2) (Vec.hadd A vec_size v.2.2.2.1)
  let cc := cc.write (i + 3) (Vec.hadd A vec_size v.2.2.2.2.1)
  let cc := cc.write (i + 4) (Vec.hadd A vec_size v.2.2.2.2.2.1)
  let cc := cc.write (i + 5) (Vec.hadd A vec_size v.2.2.2.2.2.2.1)
  let cc := cc.write (i + 6) (Vec.hadd A vec_size v.2.2.2.2.2.2.2.1)
  let cc := cc.write (i + 7) (Vec.hadd A vec_size v.2.2.2.2.2.2.2.2)
  -- Remainder inner loop
  (forLoop n (fun k => remainder && decide (k < n)) 1
    (fun k cc =>
      let cc := cc.add_assign A (i + 0) (A.mul (aa ((i + 0) * n + k)) (bb k))
      let cc := cc.add_assign A (i + 1) (A.mul (aa ((i + 1) * n + k)) (bb k))
      let cc := cc.add_assign A (i + 2) (A.mul (aa ((i + 2) * n + k)) (bb k))
      let cc := cc.add_assign A (i + 3) (A.mul (aa ((i + 3) * n + k)) (bb k))
      let cc := cc.add_assign A (i + 4) (A.mul (aa ((i + 4) * n + k)) (bb k))
      let cc := cc.add_assign A (i + 5) (A.mul (aa ((i + 5) * n + k)) (bb k))
      let cc := cc.add_assign A (i + 6) (A.mul (aa ((i + 6) * n + k)) (bb k))
      let cc := cc.add_assign A (i + 7) (A.mul (aa ((i + 7) * n + k)) (bb k))
      cc)
    k cc).2

/-- Body of the `2-Unrolled outer loop` of `gemv_small_kernel` (rows `i`, `i+1`). -/
def gemv_small_rows2 {T : Type} (A : Arith T) (vec_size : Nat) (remainder : Bool)
    (last : Nat) (aa : Nat → T) (n : Nat) (bb : Nat → T) (i : Nat) (cc : Buffer T) :
    Buffer T :=
  let r1 := Vec.zero A
  let r2 := Vec.zero A
  -- Vectorized inner loop
  let v := forLoop last (fun k => decide (k < last)) vec_size
    (fun k (r1, r2) =>
      let b1 := Vec.load bb k
      let a1 := Vec.loadu aa ((i + 0) * n + k)
      let a2 := Vec.loadu aa ((i + 1) * n + k)
      (Vec.fmadd A a1 b1 r1, Vec.fmadd A a2 b1 r2))
    0 (r1, r2)
  let k := v.1
  let cc := cc.write (i + 0) (Vec.hadd A vec_size v.2.1)
  let cc := cc.write (i + 1) (Vec.hadd A vec_size v.2.2)
  -- Remainder inner loop
  (forLoop n (fun k => remainder && decide (k < n)) 1
    (fun k cc =>
      let cc := cc.add_assign A (i + 0) (A.mul (aa ((i + 0) * n + k)) (bb k))
      let cc := cc.add_assign A (i + 1) (A.mul (aa ((i + 1) * n + k)) (bb k))
      cc)
    k cc).2

/-- Body of the final `Remainder loop` of `gemv_small_kernel` (the single row `i`). -/
def gemv_small_row1 {T : Type} (A : Arith T) (vec_size : Nat) (remainder : Bool)
    (last : Nat) (aa : Nat → T) (n : Nat) (bb : Nat → T) (i : Nat) (cc : Buffer T) :
    Buffer T :=
  let r1 := Vec.zero A
  -- Vectorized inner loop
  let v := forLoop last (fun k => decide (k < last)) vec_size
    (fun k r1 =>
      let b1 := Vec.load bb k
      let a1 := Vec.loadu aa ((i + 0) * n + k)
      Vec.fmadd A a1 b1 r1)
    0 r1
  let k := v.1
  let result := Vec.hadd A vec_size v.2
  -- Remainder inner loop
  let result := (forLoop n (fun k => remainder && decide (k < n)) 1
    (fun k result => A.add result (A.mul (aa (i * n + k)) (bb k)))
    k result).2
  cc.write i result

/-- The function `gemv_small_kernel<V, Padded, T>(aa, m, n, bb, cc)`. -/
def gemv_small_kernel {T : Type} (A : Arith T) (vec_size : Nat)
    (advanced_padding Padded : Bool) (aa : Nat → T) (m n : Nat) (bb : Nat → T)
    (cc : Buffer T) : Buffer T :=
  let remainder := !advanced_padding || !Padded
  let last := gemv_last vec_size remainder n
  -- 8-Unrolled outer loop
  let s := forLoop m (fun i => decide (i + 7 < m)) 8
    (gemv_small_rows8 A vec_size remainder last aa n bb) 0 cc
  -- 2-Unrolled outer loop
  let s := forLoop m (fun i => decide (i + 1 < m)) 2
    (gemv_small_rows2 A vec_size remainder last aa n bb) s.1 s.2
  -- Remainder loop
  if s.1 < m then gemv_small_row1 A vec_size remainder last aa n bb s.1 s.2 else s.2

/-- Body of the `8-Unrolled outer loop` of `gemv_large_kernel` (rows `i .. i+7`). -/
def gemv_large_rows8 {T : Type} (A : Arith T) (vec_size : Nat) (remainder : Bool)
    (last : Nat) (aa : Nat → T) (n : Nat) (bb : Nat → T) (i : Nat) (cc : Buffer T) :
    Buffer T :=
  let r1 := Vec.zero A
  let r2 := Vec.zero A
  let r3 := Vec.zero A
  let r4 := Vec.zero A
  let r5 := Vec.zero A
  let r6 := Vec.zero A
  let r7 := Vec.zero A
  let r8 := Vec.zero A
  -- 4-Unrolled Vectorized inner loop
  let v := forLoop last (fun k => decide (k + (vec_size * 3) < last)) (vec_size * 4)
    (fun k (r1, r2, r3, r4, r5, r6, r7, r8) =>
      let k1 := k + 0 * vec_size
      let k2 := k + 1 * vec_size
      let k3 := k + 2 * vec_size
      let k4 := k + 3 * vec_size
      let b1 := Vec.load bb k1
      let b2 := Vec.load bb k2
      let b3 := Vec.load bb k3
      let b4 := Vec.load bb k4
      let r1 := Vec.fmadd A (Vec.loadu aa ((i + 0) * n + k1)) b1 r1
      let r2 := Vec.fmadd A (Vec.loadu aa ((i + 1) * n + k1)) b1 r2
      let r3 := Vec.fmadd A (Vec.loadu aa ((i + 2) * n + k1)) b1 r3
      let r4 := Vec.fmadd A (Vec.loadu aa ((i + 3) * n + k1)) b1 r4
      let r5 := Vec.fmadd A (Vec.loadu aa ((i + 4) * n + k1)) b1 r5
      let r6 := Vec.fmadd A (Vec.loadu aa ((i + 5) * n + k1)) b1 r6
      let r7 := Vec.fmadd A (Vec.loadu aa ((i + 6) * n + k1)) b1 r7
      let r8 := Vec.fmadd A (Vec.loadu aa ((i + 7) * n + k1)) b1 r8
      let r1 := Vec.fmadd A (Vec.loadu aa ((i + 0) * n + k2)) b2 r1
      let r2 := Vec.fmadd A (Vec.loadu aa ((i + 1) * n + k2)) b2 r2
      let r3 := Vec.fmadd A (Vec.loadu aa ((i + 2) * n + k2)) b2 r3
      let r4 := Vec.fmadd A (Vec.loadu aa ((i + 3) * n + k2)) b2 r4
      let r5 := Vec.fmadd A (Vec.loadu aa ((i + 4) * n + k2)) b2 r5
      let r6 := Vec.fmadd A (Vec.loadu aa ((i + 5) * n + k2)) b2 r6
      let r7 := Vec.fmadd A (Vec.loadu aa ((i + 6) * n + k2)) b2 r7
      let r8 := Vec.fmadd A (Vec.loadu aa ((i + 7) * n + k2)) b2 r8
      let r1 := Vec.fmadd A (Vec.loadu aa ((i + 0) * n + k3)) b3 r1
      let r2 := Vec.fmadd A (Vec.loadu aa ((i + 1) * n + k3)) b3 r2
      let r3 := Vec.fmadd A (Vec.loadu aa ((i + 2) * n + k3)) b3 r3
      let r4 := Vec.fmadd A (Vec.loadu aa ((i + 3) * n + k3)) b3 r4
      let r5 := Vec.fmadd A (Vec.loadu aa ((i + 4) * n + k3)) b3 r5
      let r6 := Vec.fmadd A (Vec.loadu aa ((i + 5) * n + k3)) b3 r6
      let r7 := Vec.fmadd A (Vec.loadu aa ((i + 6) * n + k3)) b3 r7
      let r8 := Vec.fmadd A (Vec.loadu aa ((i + 7) * n + k3)) b3 r8
      let r1 := Vec.fmadd A (Vec.loadu aa ((i + 0) * n + k4)) b4 r1
      let r2 := Vec.fmadd A (Vec.loadu aa ((i + 1) * n + k4)) b4 r2
      let r3 := Vec.fmadd A (Vec.loadu aa ((i + 2) * n + k4)) b4 r3
      let r4 := Vec.fmadd A (Vec.loadu aa ((i + 3) * n + k4)) b4 r4
      let r5 := Vec.fmadd A (Vec.loadu aa ((i + 4) * n + k4)) b4 r5
      let r6 := Vec.fmadd A (Vec.loadu aa ((i + 5) * n + k4)) b4 r6
      let r7 := Vec.fmadd A (Vec.loadu aa ((i + 6) * n + k4)) b4 r7
      let r8 := Vec.fmadd A (Vec.loadu aa ((i + 7) * n + k4)) b4 r8
      (r1, r2, r3, r4, r5, r6, r7, r8))
    0 (r1, r2, r3, r4, r5, r6, r7, r8)
  -- 2-Unrolled Vectorized inner loop
  let v := forLoop last (fun k => decide (k + vec_size < last)) (vec_size * 2)
    (fun k (r1, r2, r3, r4, r5, r6, r7, r8) =>
      let k1 := k + 0 * vec_size
      let k2 := k + 1 * vec_size
      let b1 := Vec.load bb k1
      let b2 := Vec.load bb k2
      let r1 := Vec.fmadd A (Vec.loadu aa ((i + 0) * n + k1)) b1 r1
      let r2 := Vec.fmadd A (Vec.loadu aa ((i + 1) * n + k1)) b1 r2
      let r3 := Vec.fmadd A (Vec.loadu aa ((i + 2) * n + k1)) b1 r3
      let r4 := Vec.fmadd A (Vec.loadu aa ((i + 3) * n + k1)) b1 r4
      let r5 := Vec.fmadd A (Vec.loadu aa ((i + 4) * n + k1)) b1 r5
      let r6 := Vec.fmadd A (Vec.loadu aa ((i + 5) * n + k1)) b1 r6
      let r7 := Vec.fmadd A (Vec.loadu aa ((i + 6) * n + k1)) b1 r7
      let r8 := Vec.fmadd A (Vec.loadu aa ((i + 7) * n + k1)) b1 r8
      let r1 := Vec.fmadd A (Vec.loadu aa ((i + 0) * n + k2)) b2 r1
      let r2 := Vec.fmadd A (Vec.loadu aa ((i + 1) * n + k2)) b2 r2
      let r3 := Vec.fmadd A (Vec.loadu aa ((i + 2) * n + k2)) b2 r3
      let r4 := Vec.fmadd A (Vec.loadu aa ((i + 3) * n + k2)) b2 r4
      let r5 := Vec.fmadd A (Vec.loadu aa ((i + 4) * n + k2)) b2 r5
      let r6 := Vec.fmadd A (Vec.loadu aa ((i + 5) * n + k2)) b2 r6
      let r7 := Vec.fmadd A (Vec.loadu aa ((i + 6) * n + k2)) b2 r7
      let r8 := Vec.fmadd A (Vec.loadu aa ((i + 7) * n + k2)) b2 r8
      (r1, r2, r3, r4, r5, r6, r7, r8))
    v.1 v.2
  -- Vectorized inner loop
  let v := if v.1 < last then
      let k := v.1
      let b1 := Vec.load bb k
      let r1 := Vec.fmadd A (Vec.loadu aa ((i + 0) * n + k)) b1 v.2.1
      let r2 := Vec.fmadd A (Vec.loadu aa ((i + 1) * n + k)) b1 v.2.2.1
      let r3 := Vec.fmadd A (Vec.loadu aa ((i + 2) * n + k)) b1 v.2.2.2.1
      let r4 := Vec.fmadd A (Vec.loadu aa ((i + 3) * n + k)) b1 v.2.2.2.2.1
      let r5 := Vec.fmadd A (Vec.loadu aa ((i + 4) * n + k)) b1 v.2.2.2.2.2.1
      let r6 := Vec.fmadd A (Vec.loadu aa ((i + 5) * n + k)) b1 v.2.2.2.2.2.2.1
      let r7 := Vec.fmadd A (Vec.loadu aa ((i + 6) * n + k)) b1 v.2.2.2.2.2.2.2.1
      let r8 := Vec.fmadd A (Vec.loadu aa ((i + 7) * n + k)) b1 v.2.2.2.2.2.2.2.2
      (k + vec_size, r1, r2, r3, r4, r5, r6, r7, r8)
    else v
  let k := v.1
  let cc := cc.write (i + 0) (Vec.hadd A vec_size v.2.1)
  let cc := cc.write (i + 1) (Vec.hadd A vec_size v.2.2.1)
  let cc := cc.write (i + 2) (Vec.hadd A vec_size v.2.2.2.1)
  let cc := cc.write (i + 3) (Vec.hadd A vec_size v.2.2.2.2.1)
  let cc := cc.write (i + 4) (Vec.hadd A vec_size v.2.2.2.2.2.1)
  let cc := cc.write (i + 5) (Vec.hadd A vec_size v.2.2.2.2.2.2.1)
  let cc := cc.write (i + 6) (Vec.hadd A vec_size v.2.2.2.2.2.2.2.1)
  let cc := cc.write (i + 7) (Vec.hadd A vec_size v.2.2.2.2.2.2.2.2)
  -- Remainder inner loop
  (forLoop n (fun k => remainder && decide (k < n)) 1
    (fun k cc =>
      let cc := cc.add_assign A (i + 0) (A.mul (aa ((i + 0) * n + k)) (bb k))
      let cc := cc.add_assign A (i + 1) (A.mul (aa ((i + 1) * n + k)) (bb k))
      let cc := cc.add_assign A (i + 2) (A.mul (aa ((i + 2) * n + k)) (bb k))
      let cc := cc.add_assign A (i + 3) (A.mul (aa ((i + 3) * n + k)) (bb k))
      let cc := cc.add_assign A (i + 4) (A.mul (aa ((i + 4) * n + k)) (bb k))
      let cc := cc.add_assign A (i + 5) (A.mul (aa ((i + 5) * n + k)) (bb k))
      let cc := cc.add_assign A (i + 6) (A.mul (aa ((i + 6) * n + k)) (bb k))
      let cc := cc.add_assign A (i + 7) (A.mul (aa ((i + 7) * n + k)) (bb k))
      cc)
    k cc).2

/-- Body of the `2-Unrolled outer loop` of `gemv_large_kernel` (rows `i`, `i+1`).  Its
remainder inner loop reads `aa[i + 0 * n + k]` and `aa[i + 1 * n + k]`, as the source does. -/
def gemv_large_rows2 {T : Type} (A : Arith T) (vec_size : Nat) (remainder : Bool)
    (last : Nat) (aa : Nat → T) (n : Nat) (bb : Nat → T) (i : Nat) (cc : Buffer T) :
    Buffer T :=
  let r1 := Vec.zero A
  let r2 := Vec.zero A
  -- 4-Unrolled Vectorized inner loop
  let v := forLoop last (fun k => decide (k + (vec_size * 3) < last)) (vec_size * 4)
    (fun k (r1, r2) =>
      let k1 := k + 0 * vec_size
      let k2 := k + 1 * vec_size
      let k3 := k + 2 * vec_size
      let k4 := k + 3 * vec_size
      let b1 := Vec.load bb k1
      let b2 := Vec.load bb k2
      let b3 := Vec.load bb k3
      let b4 := Vec.load bb k4
      let r1 := Vec.fmadd A (Vec.loadu aa ((i + 0) * n + k1)) b1 r1
      let r2 := Vec.fmadd A (Vec.loadu aa ((i + 1) * n + k1)) b1 r2
      let r1 := Vec.fmadd A (Vec.loadu aa ((i + 0) * n + k2)) b2 r1
      let r2 := Vec.fmadd A (Vec.loadu aa ((i + 1) * n + k2)) b2 r2
      let r1 := Vec.fmadd A (Vec.loadu aa ((i + 0) * n + k3)) b3 r1
      let r2 := Vec.fmadd A (Vec.loadu aa ((i + 1) * n + k3)) b3 r2
      let r1 := Vec.fmadd A (Vec.loadu aa ((i + 0) * n + k4)) b4 r1
      let r2 := Vec.fmadd A (Vec.loadu aa ((i + 1) * n + k4)) b4 r2
      (r1, r2))
    0 (r1, r2)
  -- 2-Unrolled Vectorized inner loop
  let v := forLoop last (fun k => decide (k + vec_size < last)) (vec_size * 2)
    (fun k (r1, r2) =>
      let k1 := k + 0 * vec_size
      let k2 := k + 1 * vec_size
      let b1 := Vec.load bb k1
      let b2 := Vec.load bb k2
      let r1 := Vec.fmadd A (Vec.loadu aa ((i + 0) * n + k1)) b1 r1
      let r2 := Vec.fmadd A (Vec.loadu aa ((i + 1) * n + k1)) b1 r2
      let r1 := Vec.fmadd A (Vec.loadu aa ((i + 0) * n + k2)) b2 r1
      let r2 := Vec.fmadd A (Vec.loadu aa ((i + 1) * n + k2)) b2 r2
      (r1, r2))
    v.1 v.2
  -- Vectorized inner loop
  let v := if v.1 < last then
      let k := v.1
      let b1 := Vec.load bb k
      let r1 := Vec.fmadd A (Vec.loadu aa ((i + 0) * n + k)) b1 v.2.1
      let r2 := Vec.fmadd A (Vec.loadu aa ((i + 1) * n + k)) b1 v.2.2
      (k + vec_size, r1, r2)
    else v
  let k := v.1
  let cc := cc.write (i + 0) (Vec.hadd A vec_size v.2.1)
  let cc := cc.write (i + 1) (Vec.hadd A vec_size v.2.2)
  -- Remainder inner loop
  (forLoop n (fun k => remainder && decide (k < n)) 1
    (fun k cc =>
      let cc := cc.add_assign A (i + 0) (A.mul (aa (i + 0 * n + k)) (bb k))
      let cc := cc.add_assign A (i + 1) (A.mul (aa (i + 1 * n + k)) (bb k))
      cc)
    k cc).2

/-- Body of the final `Remainder loop` of `gemv_large_kernel` (the single row `i`). -/
def gemv_large_row1 {T : Type} (A : Arith T) (vec_size : Nat) (remainder : Bool)
    (last : Nat) (aa : Nat → T) (n : Nat) (bb : Nat → T) (i : Nat) (cc : Buffer T) :
    Buffer T :=
  let r1 := Vec.zero A
  -- Vectorized inner loop
  let v := forLoop last (fun k => decide (k < last)) vec_size
    (fun k r1 =>
      let b1 := Vec.load bb k
      Vec.fmadd A (Vec.loadu aa ((i + 0) * n + k)) b1 r1)
    0 r1
  let k := v.1
  let result := Vec.hadd A vec_size v.2
  -- Remainder inner loop
  let result := (forLoop n (fun k => remainder && decide (k < n)) 1
    (fun k result => A.add result (A.mul (aa (i * n + k)) (bb k)))
    k result).2
  cc.write i result

/-- The function `gemv_large_kernel<V, Padded, T>(aa, m, n, bb, cc)`. -/
def gemv_large_kernel {T : Type} (A : Arith T) (vec_size : Nat)
    (advanced_padding Padded : Bool) (aa : Nat → T) (m n : Nat) (bb : Nat → T)
    (cc : Buffer T) : Buffer T :=
  let remainder := !advanced_padding || !Padded
  let last := gemv_last vec_size remainder n
  -- 8-Unrolled outer loop
  let s := forLoop m (fun i => decide (i + 7 < m)) 8
    (gemv_large_rows8 A vec_size remainder last aa n bb) 0 cc
  -- 2-Unrolled outer loop
  let s := forLoop m (fun i => decide (i + 1 < m)) 2
    (gemv_large_rows2 A vec_size remainder last aa n bb) s.1 s.2
  -- Remainder loop
  if s.1 < m then gemv_large_row1 A vec_size remainder last aa n bb s.1 s.2 else s.2

/-! ## GEVM, row-major kernels -/

/-- Body of the first column loop of `gevm_small_kernel` (8 vectors of columns from `j`). -/
def gevm_small_cols8 {T : Type} (A : Arith T) (vec_size : Nat) (aa : Nat → T) (m n : Nat)
    (bb : Nat → T) (j : Nat) (cc : Buffer T) : Buffer T :=
  let r1 := Vec.zero A
  let r2 := Vec.zero A
  let r3 := Vec.zero A
  let r4 := Vec.zero A
  let r5 := Vec.zero A
  let r6 := Vec.zero A
  let r7 := Vec.zero A
  let r8 := Vec.zero A
  let v := forLoop m (fun k => decide (k < m)) 1
    (fun k (r1, r2, r3, r4, r5, r6, r7, r8) =>
      let a1 := Vec.set (aa k)
      let b1 := Vec.loadu bb (k * n + j + 0 * vec_size)
      let b2 := Vec.loadu bb (k * n + j + 1 * vec_size)
      let b3 := Vec.loadu bb (k * n + j + 2 * vec_size)
      let b4 := Vec.loadu bb (k * n + j + 3 * vec_size)
      let b5 := Vec.loadu bb (k * n + j + 4 * vec_size)
      let b6 := Vec.loadu bb (k * n + j + 5 * vec_size)
      let b7 := Vec.loadu bb (k * n + j + 6 * vec_size)
      let b8 := Vec.loadu bb (k * n + j + 7 * vec_size)
      let r1 := Vec.fmadd A a1 b1 r1
      let r2 := Vec.fmadd A a1 b2 r2
      let r3 := Vec.fmadd A a1 b3 r3
      let r4 := Vec.fmadd A a1 b4 r4
      let r5 := Vec.fmadd A a1 b5 r5
      let r6 := Vec.fmadd A a1 b6 r6
      let r7 := Vec.fmadd A a1 b7 r7
      let r8 := Vec.fmadd A a1 b8 r8
      (r1, r2, r3, r4, r5, r6, r7, r8))
    0 (r1, r2, r3, r4, r5, r6, r7, r8)
  let cc := Vec.storeu cc (j + 0 * vec_size) vec_size v.2.1
  let cc := Vec.storeu cc (j + 1 * vec_size) vec_size v.2.2.1
  let cc := Vec.storeu cc (j + 2 * vec_size) vec_size v.2.2.2.1
  let cc := Vec.storeu cc (j + 3 * vec_size) vec_size v.2.2.2.2.1
  let cc := Vec.storeu cc (j + 4 * vec_size) vec_size v.2.2.2.2.2.1
  let cc := Vec.storeu cc (j + 5 * vec_size) vec_size v.2.2.2.2.2.2.1
  let cc := Vec.storeu cc (j + 6 * vec_size) vec_size v.2.2.2.2.2.2.2.1
  let cc := Vec.storeu cc (j + 7 * vec_size) vec_size v.2.2.2.2.2.2.2.2
  cc

/-- Body of the second column loop of `gevm_small_kernel` (4 vectors of columns from `j`). -/
def gevm_small_cols4 {T : Type} (A : Arith T) (vec_size : Nat) (aa : Nat → T) (m n : Nat)
    (bb : Nat → T) (j : Nat) (cc : Buffer T) : Buffer T :=
  let r1 := Vec.zero A
  let r2 := Vec.zero A
  let r3 := Vec.zero A
  let r4 := Vec.zero A
  let v := forLoop m (fun k => decide (k < m)) 1
    (fun k (r1, r2, r3, r4) =>
      let a1 := Vec.set (aa k)
      let b1 := Vec.loadu bb (k * n + j + 0 * vec_size)
      let b2 := Vec.loadu bb (k * n + j + 1 * vec_size)
      let b3 := Vec.loadu bb (k * n + j + 2 * vec_size)
      let b4 := Vec.loadu bb (k * n + j + 3 * vec_size)
      let r1 := Vec.fmadd A a1 b1 r1
      let r2 := Vec.fmadd A a1 b2 r2
      let r3 := Vec.fmadd A a1 b3 r3
      let r4 := Vec.fmadd A a1 b4 r4
      (r1, r2, r3, r4))
    0 (r1, r2, r3, r4)
  let cc := Vec.storeu cc (j + 0 * vec_size) vec_size v.2.1
  let cc := Vec.storeu cc (j + 1 * vec_size) vec_size v.2.2.1
  let cc := Vec.storeu cc (j + 2 * vec_size) vec_size v.2.2.2.1
  let cc := Vec.storeu cc (j + 3 * vec_size) vec_size v.2.2.2.2
  cc

/-- Body of the third column loop of `gevm_small_kernel` (one vector of columns from `j`). -/
def gevm_small_cols1 {T : Type} (A : Arith T) (vec_size : Nat) (aa : Nat → T) (m n : Nat)
    (bb : Nat → T) (j : Nat) (cc : Buffer T) : Buffer T :=
  let r1 := Vec.zero A
  let v := forLoop m (fun k => decide (k < m)) 1
    (fun k r1 =>
      let a1 := Vec.set (aa k)
      let b1 := Vec.loadu bb (k * n + j + 0 * vec_size)
      let r1 := Vec.fmadd A a1 b1 r1
      r1)
    0 r1
  let cc := Vec.storeu cc (j + 0 * vec_size) vec_size v.2
  cc

/-- Body of the last column loop of `gevm_small_kernel` (the scalar column `j`). -/
def gevm_small_col {T : Type} (A : Arith T) (aa : Nat → T) (m n : Nat)
    (bb : Nat → T) (j : Nat) (cc : Buffer T) : Buffer T :=
  let value := A.zero
  let value := (forLoop m (fun k => decide (k < m)) 1
    (fun k value => A.add value (A.mul (aa k) (bb (k * n + j))))
    0 value).2
  cc.write j value

/-- The function `gevm_small_kernel<V, T>(aa, m, n, bb, cc)`.  The loop conditions
`j + vec_size * 8 - 1 < n` use truncated subtraction, which agrees with `size_t`
as soon as `vec_size` is at least 1. -/
def gevm_small_kernel {T : Type} (A : Arith T) (vec_size : Nat) (aa : Nat → T) (m n : Nat)
    (bb : Nat → T) (cc : Buffer T) : Buffer T :=
  let s := forLoop n (fun j => decide (j + vec_size * 8 - 1 < n)) (vec_size * 8)
    (gevm_small_cols8 A vec_size aa m n bb) 0 cc
  let s := forLoop n (fun j => decide (j + vec_size * 4 - 1 < n)) (vec_size * 4)
    (gevm_small_cols4 A vec_size aa m n bb) s.1 s.2
  let s := forLoop n (fun j => decide (j + vec_size - 1 < n)) vec_size
    (gevm_small_cols1 A vec_size aa m n bb) s.1 s.2
  let s := forLoop n (fun j => decide (j < n)) 1
    (gevm_small_col A aa m n bb) s.1 s.2
  s.2

/-- Body of the `8-Unrolled Vectorized loop` of `gevm_large_kernel`. -/
def gevm_large_cols8 {T : Type} (A : Arith T) (vec_size : Nat) (aa : Nat → T) (n : Nat)
    (bb : Nat → T) (block_k m_end : Nat) (j : Nat) (cc : Buffer T) : Buffer T :=
  let r1 := Vec.zero A
  let r2 := Vec.zero A
  let r3 := Vec.zero A
  let r4 := Vec.zero A
  let r5 := Vec.zero A
  let r6 := Vec.zero A
  let r7 := Vec.zero A
  let r8 := Vec.zero A
  let v := forLoop m_end (fun k => decide (k < m_end)) 1
    (fun k (r1, r2, r3, r4, r5, r6, r7, r8) =>
      let a1 := Vec.set (aa k)
      let b1 := Vec.loadu bb (k * n + j + 0 * vec_size)
      let b2 := Vec.loadu bb (k * n + j + 1 * vec_size)
      let b3 := Vec.loadu bb (k * n + j + 2 * vec_size)
      let b4 := Vec.loadu bb (k * n + j + 3 * vec_size)
      let b5 := Vec.loadu bb (k * n + j + 4 * vec_size)
      let b6 := Vec.loadu bb (k * n + j + 5 * vec_size)
      let b7 := Vec.loadu bb (k * n + j + 6 * vec_size)
      let b8 := Vec.loadu bb (k * n + j + 7 * vec_size)
      let r1 := Vec.fmadd A a1 b1 r1
      let r2 := Vec.fmadd A a1 b2 r2
      let r3 := Vec.fmadd A a1 b3 r3
      let r4 := Vec.fmadd A a1 b4 r4
      let r5 := Vec.fmadd A a1 b5 r5
      let r6 := Vec.fmadd A a1 b6 r6
      let r7 := Vec.fmadd A a1 b7 r7
      let r8 := Vec.fmadd A a1 b8 r8
      (r1, r2, r3, r4, r5, r6, r7, r8))
    block_k (r1, r2, r3, r4, r5, r6, r7, r8)
  let cc := Vec.add_storeu A cc (j + 0 * vec_size) vec_size v.2.1
  let cc := Vec.add_storeu A cc (j + 1 * vec_size) vec_size v.2.2.1
  let cc := Vec.add_storeu A cc (j + 2 * vec_size) vec_size v.2.2.2.1
  let cc := Vec.add_storeu A cc (j + 3 * vec_size) vec_size v.2.2.2.2.1
  let cc := Vec.add_storeu A cc (j + 4 * vec_size) vec_size v.2.2.2.2.2.1
  let cc := Vec.add_storeu A cc (j + 5 * vec_size) vec_size v.2.2.2.2.2.2.1
  let cc := Vec.add_storeu A cc (j + 6 * vec_size) vec_size v.2.2.2.2.2.2.2.1
  let cc := Vec.add_storeu A cc (j + 7 * vec_size) vec_size v.2.2.2.2.2.2.2.2
  cc

/-- Body of the `4-Unrolled vectorized loop` of `gevm_large_kernel`. -/
def gevm_large_cols4 {T : Type} (A : Arith T) (vec_size : Nat) (aa : Nat → T) (n : Nat)
    (bb : Nat → T) (block_k m_end : Nat) (j : Nat) (cc : Buffer T) : Buffer T :=
  let r1 := Vec.zero A
  let r2 := Vec.zero A
  let r3 := Vec.zero A
  let r4 := Vec.zero A
  let v := forLoop m_end (fun k => decide (k < m_end)) 1
    (fun k (r1, r2, r3, r4) =>
      let a1 := Vec.set (aa k)
      let b1 := Vec.loadu bb (k * n + j + 0 * vec_size)
      let b2 := Vec.loadu bb (k * n + j + 1 * vec_size)
      let b3 := Vec.loadu bb (k * n + j + 2 * vec_size)
      let b4 := Vec.loadu bb (k * n + j + 3 * vec_size)
      let r1 := Vec.fmadd A a1 b1 r1
      let r2 := Vec.fmadd A a1 b2 r2
      let r3 := Vec.fmadd A a1 b3 r3
      let r4 := Vec.fmadd A a1 b4 r4
      (r1, r2, r3, r4))
    block_k (r1, r2, r3, r4)
  let cc := Vec.add_storeu A cc (j + 0 * vec_size) vec_size v.2.1
  let cc := Vec.add_storeu A cc (j + 1 * vec_size) vec_size v.2.2.1
  let cc := Vec.add_storeu A cc (j + 2 * vec_size) vec_size v.2.2.2.1
  let cc := Vec.add_storeu A cc (j + 3 * vec_size) vec_size v.2.2.2.2
  cc

/-- Body of the `Base vectorized loop` of `gevm_large_kernel`. -/
def gevm_large_cols1 {T : Type} (A : Arith T) (vec_size : Nat) (aa : Nat → T) (n : Nat)
    (bb : Nat → T) (block_k m_end : Nat) (j : Nat) (cc : Buffer T) : Buffer T :=
  let r1 := Vec.zero A
  let v := forLoop m_end (fun k => decide (k < m_end)) 1
    (fun k r1 =>
      let a1 := Vec.set (aa k)
      let b1 := Vec.loadu bb (k * n + j + 0 * vec_size)
      let r1 := Vec.fmadd A a1 b1 r1
      r1)
    block_k r1
  let cc := Vec.add_storeu A cc (j + 0 * vec_size) vec_size v.2
  cc

/-- Body of the `Remainder non-vectorized loop` of `gevm_large_kernel`. -/
def gevm_large_col {T : Type} (A : Arith T) (aa : Nat → T) (n : Nat)
    (bb : Nat → T) (block_k m_end : Nat) (j : Nat) (cc : Buffer T) : Buffer T :=
  let r1 := A.zero
  let r1 := (forLoop m_end (fun k => decide (k < m_end)) 1
    (fun k r1 => A.add r1 (A.mul (aa k) (bb (k * n + j))))
    block_k r1).2
  cc.add_assign A j r1

/-- Body of the `block_k` loop of `gevm_large_kernel`, for the column block that
starts at `block_j`. -/
def gevm_large_block {T : Type} (A : Arith T) (vec_size : Nat) (aa : Nat → T) (m n : Nat)
    (bb : Nat → T) (n_block m_block block_j : Nat) (block_k : Nat) (cc : Buffer T) :
    Buffer T :=
  let m_end := min (block_k + m_block) m
  let n_end := min (block_j + n_block) n &&& neg_size_t vec_size
  let j := block_j
  -- 8-Unrolled Vectorized loop
  let s := forLoop n_end (fun j => decide (j + vec_size * 8 - 1 < n_end)) (vec_size * 8)
    (gevm_large_cols8 A vec_size aa n bb block_k m_end) j cc
  -- 4-Unrolled vectorized loop
  let s := forLoop n_end (fun j => decide (j + vec_size * 4 - 1 < n_end)) (vec_size * 4)
    (gevm_large_cols4 A vec_size aa n bb block_k m_end) s.1 s.2
  -- Base vectorized loop
  let s := forLoop n_end (fun j => decide (j + vec_size - 1 < n_end)) vec_size
    (gevm_large_cols1 A vec_size aa n bb block_k m_end) s.1 s.2
  -- Remainder non-vectorized loop
  let s := forLoop n_end (fun j => decide (j < n_end)) 1
    (gevm_large_col A aa n bb block_k m_end) s.1 s.2
  s.2

/-- The function `gevm_large_kernel<V, T>(aa, m, n, bb, cc)`; `sizeof_T` is
`sizeof(T)`, so that `n_block = (32 * 1024) / sizeof(T)`. -/
def gevm_large_kernel {T : Type} (A : Arith T) (vec_size sizeof_T : Nat) (aa : Nat → T)
    (m n : Nat) (bb : Nat → T) (cc : Buffer T) : Buffer T :=
  let n_block := (32 * 1024) / sizeof_T
  let m_block := if n < n_block then 8 else 4
  (forLoop n (fun block_j => decide (block_j < n)) n_block
    (fun block_j cc =>
      (forLoop m (fun block_k => decide (block_k < m)) m_block
        (gevm_large_block A vec_size aa m n bb n_block m_block block_j) 0 cc).2)
    0 cc).2

/-! ## GEMM, row-major kernels -/

/-- Body of the row loop in the first column loop of `gemm_small_kernel` (8 vectors of columns, row `i`). -/
def gemm_small_c8_r1 {T : Type} (A : Arith T) (vec_size : Nat) (a b : Nat → T)
    (N K j : Nat) (i : Nat) (c : Buffer T) : Buffer T :=
  let r1 := Vec.zero A
  let r2 := Vec.zero A
  let r3 := Vec.zero A
  let r4 := Vec.zero A
  let r5 := Vec.zero A
  let r6 := Vec.zero A
  let r7 := Vec.zero A
  let r8 := Vec.zero A
  let v := forLoop K (fun k => decide (k < K)) 1
    (fun k (r1, r2, r3, r4, r5, r6, r7, r8) =>
      let a1 := Vec.set (a (i * K + k))
      let b1 := Vec.loadu b (k * N + j + vec_size * 0)
      let b2 := Vec.loadu b (k * N + j + vec_size * 1)
      let b3 := Vec.loadu b (k * N + j + vec_size * 2)
      let b4 := Vec.loadu b (k * N + j + vec_size * 3)
      let b5 := Vec.loadu b (k * N + j + vec_size * 4)
      let b6 := Vec.loadu b (k * N + j + vec_size * 5)
      let b7 := Vec.loadu b (k * N + j + vec_size * 6)
      let b8 := Vec.loadu b (k * N + j + vec_size * 7)
      let r1 := Vec.fmadd A a1 b1 r1
      let r2 := Vec.fmadd A a1 b2 r2
      let r3 := Vec.fmadd A a1 b3 r3
      let r4 := Vec.fmadd A a1 b4 r4
      let r5 := Vec.fmadd A a1 b5 r5
      let r6 := Vec.fmadd A a1 b6 r6
      let r7 := Vec.fmadd A a1 b7 r7
      let r8 := Vec.fmadd A a1 b8 r8
      (r1, r2, r3, r4, r5, r6, r7, r8))
    0 (r1, r2, r3, r4, r5, r6, r7, r8)
  let c := Vec.storeu c (i * N + j + 0 * vec_size) vec_size v.2.1
  let c := Vec.storeu c (i * N + j + 1 * vec_size) vec_size v.2.2.1
  let c := Vec.storeu c (i * N + j + 2 * vec_size) vec_size v.2.2.2.1
  let c := Vec.storeu c (i * N + j + 3 * vec_size) vec_size v.2.2.2.2.1
  let c := Vec.storeu c (i * N + j + 4 * vec_size) vec_size v.2.2.2.2.2.1
  let c := Vec.storeu c (i * N + j + 5 * vec_size) vec_size v.2.2.2.2.2.2.1
  let c := Vec.storeu c (i * N + j + 6 * vec_size) vec_size v.2.2.2.2.2.2.2.1
  let c := Vec.storeu c (i * N + j + 7 * vec_size) vec_size v.2.2.2.2.2.2.2.2
  c

/-- Body of the two-row loop in the second column loop of `gemm_small_kernel` (4 vectors of columns, rows `i`, `i+1`). -/
def gemm_small_c4_r2 {T : Type} (A : Arith T) (vec_size : Nat) (a b : Nat → T)
    (N K j : Nat) (i : Nat) (c : Buffer T) : Buffer T :=
  let r11 := Vec.zero A
  let r12 := Vec.zero A
  let r21 := Vec.zero A
  let r22 := Vec.zero A
  let r31 := Vec.zero A
  let r32 := Vec.zero A
  let r41 := Vec.zero A
  let r42 := Vec.zero A
  let v := forLoop K (fun k => decide (k < K)) 1
    (fun k (r11, r12, r21, r22, r31, r32, r41, r42) =>
      let b1 := Vec.loadu b (k * N + j + vec_size * 0)
      let b2 := Vec.loadu b (k * N + j + vec_size * 1)
      let b3 := Vec.loadu b (k * N + j + vec_size * 2)
      let b4 := Vec.loadu b (k * N + j + vec_size * 3)
      let a1 := Vec.set (a ((i + 0) * K + k))
      let a2 := Vec.set (a ((i + 1) * K + k))
      let r11 := Vec.fmadd A a1 b1 r11
      let r12 := Vec.fmadd A a2 b1 r12
      let r21 := Vec.fmadd A a1 b2 r21
      let r22 := Vec.fmadd A a2 b2 r22
      let r31 := Vec.fmadd A a1 b3 r31
      let r32 := Vec.fmadd A a2 b3 r32
      let r41 := Vec.fmadd A a1 b4 r41
      let r42 := Vec.fmadd A a2 b4 r42
      (r11, r12, r21, r22, r31, r32, r41, r42))
    0 (r11, r12, r21, r22, r31, r32, r41, r42)
  let c := Vec.storeu c ((i + 0) * N + j + 0 * vec_size) vec_size v.2.1
  let c := Vec.storeu c ((i + 1) * N + j + 0 * vec_size) vec_size v.2.2.1
  let c := Vec.storeu c ((i + 0) * N + j + 1 * vec_size) vec_size v.2.2.2.1
  let c := Vec.storeu c ((i + 1) * N + j + 1 * vec_size) vec_size v.2.2.2.2.1
  let c := Vec.storeu c ((i + 0) * N + j + 2 * vec_size) vec_size v.2.2.2.2.2.1
  let c := Vec.storeu c ((i + 1) * N + j + 2 * vec_size) vec_size v.2.2.2.2.2.2.1
  let c := Vec.storeu c ((i + 0) * N + j + 3 * vec_size) vec_size v.2.2.2.2.2.2.2.1
  let c := Vec.storeu c ((i + 1) * N + j + 3 * vec_size) vec_size v.2.2.2.2.2.2.2.2
  c

/-- Body of the last-row step in the second column loop of `gemm_small_kernel` (4 vectors of columns, row `i`). -/
def gemm_small_c4_r1 {T : Type} (A : Arith T) (vec_size : Nat) (a b : Nat → T)
    (N K j : Nat) (i : Nat) (c : Buffer T) : Buffer T :=
  let r11 := Vec.zero A
  let r21 := Vec.zero A
  let r31 := Vec.zero A
  let r41 := Vec.zero A
  let v := forLoop K (fun k => decide (k < K)) 1
    (fun k (r11, r21, r31, r41) =>
      let b1 := Vec.loadu b (k * N + j + vec_size * 0)
      let b2 := Vec.loadu b (k * N + j + vec_size * 1)
      let b3 := Vec.loadu b (k * N + j + vec_size * 2)
      let b4 := Vec.loadu b (k * N + j + vec_size * 3)
      let a1 := Vec.set (a ((i + 0) * K + k))
      let r11 := Vec.fmadd A a1 b1 r11
      let r21 := Vec.fmadd A a1 b2 r21
      let r31 := Vec.fmadd A a1 b3 r31
      let r41 := Vec.fmadd A a1 b4 r41
      (r11, r21, r31, r41))
    0 (r11, r21, r31, r41)
  let c := Vec.storeu c (i * N + j + 0 * vec_size) vec_size v.2.1
  let c := Vec.storeu c (i * N + j + 1 * vec_size) vec_size v.2.2.1
  let c := Vec.storeu c (i * N + j + 2 * vec_size) vec_size v.2.2.2.1
  let c := Vec.storeu c (i * N + j + 3 * vec_size) vec_size v.2.2.2.2
  c

/-- Body of the four-row loop in the third column loop of `gemm_small_kernel` (2 vectors of columns, rows `i .. i+3`). -/
def gemm_small_c2_r4 {T : Type} (A : Arith T) (vec_size : Nat) (a b : Nat → T)
    (N K j : Nat) (i : Nat) (c : Buffer T) : Buffer T :=
  let r11 := Vec.zero A
  let r12 := Vec.zero A
  let r13 := Vec.zero A
  let r14 := Vec.zero A
  let r21 := Vec.zero A
  let r22 := Vec.zero A
  let r23 := Vec.zero A
  let r24 := Vec.zero A
  let v := forLoop K (fun k => decide (k < K)) 1
    (fun k (r11, r12, r13, r14, r21, r22, r23, r24) =>
      let b1 := Vec.loadu b (k * N + j + vec_size * 0)
      let b2 := Vec.loadu b (k * N + j + vec_size * 1)
      let a1 := Vec.set (a ((i + 0) * K + k))
      let a2 := Vec.set (a ((i + 1) * K + k))
      let a3 := Vec.set (a ((i + 2) * K + k))
      let a4 := Vec.set (a ((i + 3) * K + k))
      let r11 := Vec.fmadd A a1 b1 r11
      let r12 := Vec.fmadd A a2 b1 r12
      let r13 := Vec.fmadd A a3 b1 r13
      let r14 := Vec.fmadd A a4 b1 r14
      let r21 := Vec.fmadd A a1 b2 r21
      let r22 := Vec.fmadd A a2 b2 r22
      let r23 := Vec.fmadd A a3 b2 r23
      let r24 := Vec.fmadd A a4 b2 r24
      (r11, r12, r13, r14, r21, r22, r23, r24))
    0 (r11, r12, r13, r14, r21, r22, r23, r24)
  let c := Vec.storeu c ((i + 0) * N + j + 0 * vec_size) vec_size v.2.1
  let c := Vec.storeu c ((i + 1) * N + j + 0 * vec_size) vec_size v.2.2.1
  let c := Vec.storeu c ((i + 2) * N + j + 0 * vec_size) vec_size v.2.2.2.1
  let c := Vec.storeu c ((i + 3) * N + j + 0 * vec_size) vec_size v.2.2.2.2.1
  let c := Vec.storeu c ((i + 0) * N + j + 1 * vec_size) vec_size v.2.2.2.2.2.1
  let c := Vec.storeu c ((i + 1) * N + j + 1 * vec_size) vec_size v.2.2.2.2.2.2.1
  let c := Vec.storeu c ((i + 2) * N + j + 1 * vec_size) vec_size v.2.2.2.2.2.2.2.1
  let c := Vec.storeu c ((i + 3) * N + j + 1 * vec_size) vec_size v.2.2.2.2.2.2.2.2
  c

/-- Body of the two-row loop in the third column loop of `gemm_small_kernel` (2 vectors of columns, rows `i`, `i+1`). -/
def gemm_small_c2_r2 {T : Type} (A : Arith T) (vec_size : Nat) (a b : Nat → T)
    (N K j : Nat) (i : Nat) (c : Buffer T) : Buffer T :=
  let r11 := Vec.zero A
  let r12 := Vec.zero A
  let r21 := Vec.zero A
  let r22 := Vec.zero A
  let v := forLoop K (fun k => decide (k < K)) 1
    (fun k (r11, r12, r21, r22) =>
      let b1 := Vec.loadu b (k * N + j + vec_size * 0)
      let b2 := Vec.loadu b (k * N + j + vec_size * 1)
      let a1 := Vec.set (a ((i + 0) * K + k))
      let a2 := Vec.set (a ((i + 1) * K + k))
      let r11 := Vec.fmadd A a1 b1 r11
      let r12 := Vec.fmadd A a2 b1 r12
      let r21 := Vec.fmadd A a1 b2 r21
      let r22 := Vec.fmadd A a2 b2 r22
      (r11, r12, r21, r22))
    0 (r11, r12, r21, r22)
  let c := Vec.storeu c ((i + 0) * N + j + 0 * vec_size) vec_size v.2.1
  let c := Vec.storeu c ((i + 1) * N + j + 0 * vec_size) vec_size v.2.2.1
  let c := Vec.storeu c ((i + 0) * N + j + 1 * vec_size) vec_size v.2.2.2.1
  let c := Vec.storeu c ((i + 1) * N + j + 1 * vec_size) vec_size v.2.2.2.2
  c

/-- Body of the last-row step in the third column loop of `gemm_small_kernel` (2 vectors of columns, row `i`). -/
def gemm_small_c2_r1 {T : Type} (A : Arith T) (vec_size : Nat) (a b : Nat → T)
    (N K j : Nat) (i : Nat) (c : Buffer T) : Buffer T :=
  let r11 := Vec.zero A
  let r21 := Vec.zero A
  let v := forLoop K (fun k => decide (k < K)) 1
    (fun k (r11, r21) =>
      let b1 := Vec.loadu b (k * N + j + vec_size * 0)
      let b2 := Vec.loadu b (k * N + j + vec_size * 1)
      let a1 := Vec.set (a ((i + 0) * K + k))
      let r11 := Vec.fmadd A a1 b1 r11
      let r21 := Vec.fmadd A a1 b2 r21
      (r11, r21))
    0 (r11, r21)
  let c := Vec.storeu c ((i + 0) * N + j + 0 * vec_size) vec_size v.2.1
  let c := Vec.storeu c ((i + 0) * N + j + 1 * vec_size) vec_size v.2.2
  c

/-- Body of the two-row loop in the fourth column loop of `gemm_small_kernel` (1 vector of columns, rows `i`, `i+1`). -/
def gemm_small_c1_r2 {T : Type} (A : Arith T) (vec_size : Nat) (a b : Nat → T)
    (N K j : Nat) (i : Nat) (c : Buffer T) : Buffer T :=
  let r1 := Vec.zero A
  let r2 := Vec.zero A
  let v := forLoop K (fun k => decide (k < K)) 1
    (fun k (r1, r2) =>
      let b1 := Vec.loadu b (k * N + j + vec_size * 0)
      let a1 := Vec.set (a ((i + 0) * K + k))
      let a2 := Vec.set (a ((i + 1) * K + k))
      let r1 := Vec.fmadd A a1 b1 r1
      let r2 := Vec.fmadd A a2 b1 r2
      (r1, r2))
    0 (r1, r2)
  let c := Vec.storeu c ((i + 0) * N + j) vec_size v.2.1
  let c := Vec.storeu c ((i + 1) * N + j) vec_size v.2.2
  c

/-- Body of the last-row step in the fourth column loop of `gemm_small_kernel` (1 vector of columns, row `i`). -/
def gemm_small_c1_r1 {T : Type} (A : Arith T) (vec_size : Nat) (a b : Nat → T)
    (N K j : Nat) (i : Nat) (c : Buffer T) : Buffer T :=
  let r1 := Vec.zero A
  let v := forLoop K (fun k => decide (k < K)) 1
    (fun k r1 =>
      let b1 := Vec.loadu b (k * N + j + vec_size * 0)
      let a1 := Vec.set (a ((i + 0) * K + k))
      let r1 := Vec.fmadd A a1 b1 r1
      r1)
    0 r1
  let c := Vec.storeu c ((i + 0) * N + j) vec_size v.2
  c

/-- Body of the two-row loop in the two-scalar-column loop of `gemm_small_kernel`
(columns `j1 = j + 0`, `j2 = j + 1`, rows `i`, `i+1`). -/
def gemm_small_s2_r2 {T : Type} (A : Arith T) (a b : Nat → T)
    (N K j : Nat) (i : Nat) (c : Buffer T) : Buffer T :=
  let j1 := j + 0
  let j2 := j + 1
  let r11 := A.zero
  let r12 := A.zero
  let r21 := A.zero
  let r22 := A.zero
  let v := forLoop K (fun k => decide (k < K)) 1
    (fun k (r11, r12, r21, r22) =>
      let r11 := A.add r11 (A.mul (a ((i + 0) * K + k)) (b (k * N + j1)))
      let r21 := A.add r21 (A.mul (a ((i + 0) * K + k)) (b (k * N + j2)))
      let r12 := A.add r12 (A.mul (a ((i + 1) * K + k)) (b (k * N + j1)))
      let r22 := A.add r22 (A.mul (a ((i + 1) * K + k)) (b (k * N + j2)))
      (r11, r12, r21, r22))
    0 (r11, r12, r21, r22)
  let c := c.write ((i + 0) * N + j1) v.2.1
  let c := c.write ((i + 0) * N + j2) v.2.2.2.1
  let c := c.write ((i + 1) * N + j1) v.2.2.1
  let c := c.write ((i + 1) * N + j2) v.2.2.2.2
  c

/-- Body of the last-row step in the two-scalar-column loop of `gemm_small_kernel`
(columns `j1 = j + 0`, `j2 = j + 1`, row `i`). -/
def gemm_small_s2_r1 {T : Type} (A : Arith T) (a b : Nat → T)
    (N K j : Nat) (i : Nat) (c : Buffer T) : Buffer T :=
  let j1 := j + 0
  let j2 := j + 1
  let r1 := A.zero
  let r2 := A.zero
  let v := forLoop K (fun k => decide (k < K)) 1
    (fun k (r1, r2) =>
      let r1 := A.add r1 (A.mul (a (i * K + k)) (b (k * N + j1)))
      let r2 := A.add r2 (A.mul (a (i * K + k)) (b (k * N + j2)))
      (r1, r2))
    0 (r1, r2)
  let c := c.write (i * N + j1) v.2.1
  let c := c.write (i * N + j2) v.2.2
  c

/-- Body of the two-row loop of the last scalar column of `gemm_small_kernel`
(column `j`, rows `i`, `i+1`). -/
def gemm_small_s1_r2 {T : Type} (A : Arith T) (a b : Nat → T)
    (N K j : Nat) (i : Nat) (c : Buffer T) : Buffer T :=
  let r1 := A.zero
  let r2 := A.zero
  let v := forLoop K (fun k => decide (k < K)) 1
    (fun k (r1, r2) =>
      let r1 := A.add r1 (A.mul (a ((i + 0) * K + k)) (b (k * N + j)))
      let r2 := A.add r2 (A.mul (a ((i + 1) * K + k)) (b (k * N + j)))
      (r1, r2))
    0 (r1, r2)
  let c := c.write ((i + 0) * N + j) v.2.1
  let c := c.write ((i + 1) * N + j) v.2.2
  c

/-- Body of the last-row step of the last scalar column of `gemm_small_kernel`
(column `j`, row `i`). -/
def gemm_small_s1_r1 {T : Type} (A : Arith T) (a b : Nat → T)
    (N K j : Nat) (i : Nat) (c : Buffer T) : Buffer T :=
  let r1 := A.zero
  let v := forLoop K (fun k => decide (k < K)) 1
    (fun k r1 => A.add r1 (A.mul (a (i * K + k)) (b (k * N + j))))
    0 r1
  c.write (i * N + j) v.2

/-- Body of the first column loop of `gemm_small_kernel`: all rows, for the 8 vectors
of columns from `j`. -/
def gemm_small_cols8 {T : Type} (A : Arith T) (vec_size : Nat) (a b : Nat → T)
    (M N K : Nat) (j : Nat) (c : Buffer T) : Buffer T :=
  (forLoop M (fun i => decide (i < M)) 1 (gemm_small_c8_r1 A vec_size a b N K j) 0 c).2

/-- Body of the second column loop of `gemm_small_kernel`: rows two at a time, then
the last row, for the 4 vectors of columns from `j`. -/
def gemm_small_cols4 {T : Type} (A : Arith T) (vec_size : Nat) (a b : Nat → T)
    (M N K : Nat) (j : Nat) (c : Buffer T) : Buffer T :=
  let t := forLoop M (fun i => decide (i + 1 < M)) 2 (gemm_small_c4_r2 A vec_size a b N K j) 0 c
  if t.1 < M then gemm_small_c4_r1 A vec_size a b N K j t.1 t.2 else t.2

/-- Body of the third column loop of `gemm_small_kernel`: rows four at a time, two at
a time, then the last row, for the 2 vectors of columns from `j`. -/
def gemm_small_cols2 {T : Type} (A : Arith T) (vec_size : Nat) (a b : Nat → T)
    (M N K : Nat) (j : Nat) (c : Buffer T) : Buffer T :=
  let t := forLoop M (fun i => decide (i + 3 < M)) 4 (gemm_small_c2_r4 A vec_size a b N K j) 0 c
  let t := forLoop M (fun i => decide (i + 1 < M)) 2 (gemm_small_c2_r2 A vec_size a b N K j) t.1 t.2
  if t.1 < M then gemm_small_c2_r1 A vec_size a b N K j t.1 t.2 else t.2

/-- Body of the fourth column loop of `gemm_small_kernel`: rows two at a time, then
the last row, for the vector of columns from `j`. -/
def gemm_small_cols1 {T : Type} (A : Arith T) (vec_size : Nat) (a b : Nat → T)
    (M N K : Nat) (j : Nat) (c : Buffer T) : Buffer T :=
  let t := forLoop M (fun i => decide (i + 1 < M)) 2 (gemm_small_c1_r2 A vec_size a b N K j) 0 c
  if t.1 < M then gemm_small_c1_r1 A vec_size a b N K j t.1 t.2 else t.2

/-- Body of the fifth column loop of `gemm_small_kernel`: rows two at a time, then the
last row, for the two scalar columns `j`, `j + 1`. -/
def gemm_small_scalar2 {T : Type} (A : Arith T) (a b : Nat → T)
    (M N K : Nat) (j : Nat) (c : Buffer T) : Buffer T :=
  let t := forLoop M (fun i => decide (i + 1 < M)) 2 (gemm_small_s2_r2 A a b N K j) 0 c
  if t.1 < M then gemm_small_s2_r1 A a b N K j t.1 t.2 else t.2

/-- Body of the final `if (j < N)` of `gemm_small_kernel`: rows two at a time, then the
last row, for the scalar column `j`. -/
def gemm_small_scalar1 {T : Type} (A : Arith T) (a b : Nat → T)
    (M N K : Nat) (j : Nat) (c : Buffer T) : Buffer T :=
  let t := forLoop M (fun i => decide (i + 1 < M)) 2 (gemm_small_s1_r2 A a b N K j) 0 c
  if t.1 < M then gemm_small_s1_r1 A a b N K j t.1 t.2 else t.2

/-- The function `gemm_small_kernel<V, T>(a, b, c, M, N, K)`.  The loop conditions
`j + vec_size * 8 - 1 < N` use truncated subtraction, which agrees with `size_t`
as soon as `vec_size` is at least 1. -/
def gemm_small_kernel {T : Type} (A : Arith T) (vec_size : Nat) (a b : Nat → T)
    (c : Buffer T) (M N K : Nat) : Buffer T :=
  let s := forLoop N (fun j => decide (j + vec_size * 8 - 1 < N)) (vec_size * 8)
    (gemm_small_cols8 A vec_size a b M N K) 0 c
  let s := forLoop N (fun j => decide (j + (4 * vec_size) - 1 < N)) (4 * vec_size)
    (gemm_small_cols4 A vec_size a b M N K) s.1 s.2
  let s := forLoop N (fun j => decide (j + (2 * vec_size) - 1 < N)) (2 * vec_size)
    (gemm_small_cols2 A vec_size a b M N K) s.1 s.2
  let s := forLoop N (fun j => decide (j + vec_size - 1 < N)) vec_size
    (gemm_small_cols1 A vec_size a b M N K) s.1 s.2
  let s := forLoop N (fun j => decide (j + 1 < N)) 2
    (gemm_small_scalar2 A a b M N K) s.1 s.2
  if s.1 < N then gemm_small_scalar1 A a b M N K s.1 s.2 else s.2

/-- Body of the two-row loop in the first column loop of `gemm_large_kernel` (4 vectors of columns, rows `i`, `i+1`, shared indices `block_k .. k_end`). -/
def gemm_large_c4_r2 {T : Type} (A : Arith T) (vec_size : Nat) (a b : Nat → T)
    (N K block_k k_end j : Nat) (i : Nat) (c : Buffer T) : Buffer T :=
  let j1 := j + vec_size * 1
  let j2 := j + vec_size * 2
  let j3 := j + vec_size * 3
  let r11 := c.loadu ((i + 0) * N + j)
  let r12 := c.loadu ((i + 0) * N + j1)
  let r13 := c.loadu ((i + 0) * N + j2)
  let r14 := c.loadu ((i + 0) * N + j3)
  let r21 := c.loadu ((i + 1) * N + j)
  let r22 := c.loadu ((i + 1) * N + j1)
  let r23 := c.loadu ((i + 1) * N + j2)
  let r24 := c.loadu ((i + 1) * N + j3)
  let v := forLoop k_end (fun k => decide (k < k_end)) 1
    (fun k (r11, r12, r13, r14, r21, r22, r23, r24) =>
      let a1 := Vec.set (a ((i + 0) * K + k))
      let a2 := Vec.set (a ((i + 1) * K + k))
      let b1 := Vec.loadu b (k * N + j)
      let b2 := Vec.loadu b (k * N + j1)
      let b3 := Vec.loadu b (k * N + j2)
      let b4 := Vec.loadu b (k * N + j3)
      let r11 := Vec.fmadd A a1 b1 r11
      let r12 := Vec.fmadd A a1 b2 r12
      let r13 := Vec.fmadd A a1 b3 r13
      let r14 := Vec.fmadd A a1 b4 r14
      let r21 := Vec.fmadd A a2 b1 r21
      let r22 := Vec.fmadd A a2 b2 r22
      let r23 := Vec.fmadd A a2 b3 r23
      let r24 := Vec.fmadd A a2 b4 r24
      (r11, r12, r13, r14, r21, r22, r23, r24))
    block_k (r11, r12, r13, r14, r21, r22, r23, r24)
  let c := Vec.storeu c ((i + 0) * N + j) vec_size v.2.1
  let c := Vec.storeu c ((i + 0) * N + j1) vec_size v.2.2.1
  let c := Vec.storeu c ((i + 0) * N + j2) vec_size v.2.2.2.1
  let c := Vec.storeu c ((i + 0) * N + j3) vec_size v.2.2.2.2.1
  let c := Vec.storeu c ((i + 1) * N + j) vec_size v.2.2.2.2.2.1
  let c := Vec.storeu c ((i + 1) * N + j1) vec_size v.2.2.2.2.2.2.1
  let c := Vec.storeu c ((i + 1) * N + j2) vec_size v.2.2.2.2.2.2.2.1
  let c := Vec.storeu c ((i + 1) * N + j3) vec_size v.2.2.2.2.2.2.2.2
  c

/-- Body of the last-row step in the first column loop of `gemm_large_kernel` (4 vectors of columns, row `i`). -/
def gemm_large_c4_r1 {T : Type} (A : Arith T) (vec_size : Nat) (a b : Nat → T)
    (N K block_k k_end j : Nat) (i : Nat) (c : Buffer T) : Buffer T :=
  let j1 := j + vec_size * 1
  let j2 := j + vec_size * 2
  let j3 := j + vec_size * 3
  let r1 := c.loadu ((i + 0) * N + j)
  let r2 := c.loadu ((i + 0) * N + j1)
  let r3 := c.loadu ((i + 0) * N + j2)
  let r4 := c.loadu ((i + 0) * N + j3)
  let v := forLoop k_end (fun k => decide (k < k_end)) 1
    (fun k (r1, r2, r3, r4) =>
      let a1 := Vec.set (a ((i + 0) * K + k))
      let b1 := Vec.loadu b (k * N + j)
      let b2 := Vec.loadu b (k * N + j1)
      let b3 := Vec.loadu b (k * N + j2)
      let b4 := Vec.loadu b (k * N + j3)
      let r1 := Vec.fmadd A a1 b1 r1
      let r2 := Vec.fmadd A a1 b2 r2
      let r3 := Vec.fmadd A a1 b3 r3
      let r4 := Vec.fmadd A a1 b4 r4
      (r1, r2, r3, r4))
    block_k (r1, r2, r3, r4)
  let c := Vec.storeu c ((i + 0) * N + j) vec_size v.2.1
  let c := Vec.storeu c ((i + 0) * N + j1) vec_size v.2.2.1
  let c := Vec.storeu c ((i + 0) * N + j2) vec_size v.2.2.2.1
  let c := Vec.storeu c ((i + 0) * N + j3) vec_size v.2.2.2.2
  c

/-- Body of the four-row loop in the second column loop of `gemm_large_kernel` (2 vectors of columns, rows `i .. i+3`). -/
def gemm_large_c2_r4 {T : Type} (A : Arith T) (vec_size : Nat) (a b : Nat → T)
    (N K block_k k_end j : Nat) (i : Nat) (c : Buffer T) : Buffer T :=
  let j1 := j + vec_size
  let r11 := c.loadu ((i + 0) * N + j)
  let r12 := c.loadu ((i + 0) * N + j1)
  let r21 := c.loadu ((i + 1) * N + j)
  let r22 := c.loadu ((i + 1) * N + j1)
  let r31 := c.loadu ((i + 2) * N + j)
  let r32 := c.loadu ((i + 2) * N + j1)
  let r41 := c.loadu ((i + 3) * N + j)
  let r42 := c.loadu ((i + 3) * N + j1)
  let v := forLoop k_end (fun k => decide (k < k_end)) 1
    (fun k (r11, r12, r21, r22, r31, r32, r41, r42) =>
      let a1 := Vec.set (a ((i + 0) * K + k))
      let a2 := Vec.set (a ((i + 1) * K + k))
      let a3 := Vec.set (a ((i + 2) * K + k))
      let a4 := Vec.set (a ((i + 3) * K + k))
      let b1 := Vec.loadu b (k * N + j)
      let b2 := Vec.loadu b (k * N + j1)
      let r11 := Vec.fmadd A a1 b1 r11
      let r12 := Vec.fmadd A a1 b2 r12
      let r21 := Vec.fmadd A a2 b1 r21
      let r22 := Vec.fmadd A a2 b2 r22
      let r31 := Vec.fmadd A a3 b1 r31
      let r32 := Vec.fmadd A a3 b2 r32
      let r41 := Vec.fmadd A a4 b1 r41
      let r42 := Vec.fmadd A a4 b2 r42
      (r11, r12, r21, r22, r31, r32, r41, r42))
    block_k (r11, r12, r21, r22, r31, r32, r41, r42)
  let c := Vec.storeu c ((i + 0) * N + j) vec_size v.2.1
  let c := Vec.storeu c ((i + 0) * N + j1) vec_size v.2.2.1
  let c := Vec.storeu c ((i + 1) * N + j) vec_size v.2.2.2.1
  let c := Vec.storeu c ((i + 1) * N + j1) vec_size v.2.2.2.2.1
  let c := Vec.storeu c ((i + 2) * N + j) vec_size v.2.2.2.2.2.1
  let c := Vec.storeu c ((i + 2) * N + j1) vec_size v.2.2.2.2.2.2.1
  let c := Vec.storeu c ((i + 3) * N + j) vec_size v.2.2.2.2.2.2.2.1
  let c := Vec.storeu c ((i + 3) * N + j1) vec_size v.2.2.2.2.2.2.2.2
  c

/-- Body of the two-row loop in the second column loop of `gemm_large_kernel` (2 vectors of columns, rows `i`, `i+1`). -/
def gemm_large_c2_r2 {T : Type} (A : Arith T) (vec_size : Nat) (a b : Nat → T)
    (N K block_k k_end j : Nat) (i : Nat) (c : Buffer T) : Buffer T :=
  let j1 := j + vec_size
  let r11 := c.loadu ((i + 0) * N + j)
  let r12 := c.loadu ((i + 0) * N + j1)
  let r21 := c.loadu ((i + 1) * N + j)
  let r22 := c.loadu ((i + 1) * N + j1)
  let v := forLoop k_end (fun k => decide (k < k_end)) 1
    (fun k (r11, r12, r21, r22) =>
      let a1 := Vec.set (a ((i + 0) * K + k))
      let a2 := Vec.set (a ((i + 1) * K + k))
      let b1 := Vec.loadu b (k * N + j)
      let b2 := Vec.loadu b (k * N + j1)
      let r11 := Vec.fmadd A a1 b1 r11
      let r12 := Vec.fmadd A a1 b2 r12
      let r21 := Vec.fmadd A a2 b1 r21
      let r22 := Vec.fmadd A a2 b2 r22
      (r11, r12, r21, r22))
    block_k (r11, r12, r21, r22)
  let c := Vec.storeu c ((i + 0) * N + j) vec_size v.2.1
  let c := Vec.storeu c ((i + 0) * N + j1) vec_size v.2.2.1
  let c := Vec.storeu c ((i + 1) * N + j) vec_size v.2.2.2.1
  let c := Vec.storeu c ((i + 1) * N + j1) vec_size v.2.2.2.2
  c

/-- Body of the last-row step in the second column loop of `gemm_large_kernel` (2 vectors of columns, row `i`). -/
def gemm_large_c2_r1 {T : Type} (A : Arith T) (vec_size : Nat) (a b : Nat → T)
    (N K block_k k_end j : Nat) (i : Nat) (c : Buffer T) : Buffer T :=
  let j1 := j + vec_size
  let r1 := c.loadu ((i + 0) * N + j)
  let r2 := c.loadu ((i + 0) * N + j1)
  let v := forLoop k_end (fun k => decide (k < k_end)) 1
    (fun k (r1, r2) =>
      let a1 := Vec.set (a ((i + 0) * K + k))
      let b1 := Vec.loadu b (k * N + j)
      let b2 := Vec.loadu b (k * N + j1)
      let r1 := Vec.fmadd A a1 b1 r1
      let r2 := Vec.fmadd A a1 b2 r2
      (r1, r2))
    block_k (r1, r2)
  let c := Vec.storeu c ((i + 0) * N + j) vec_size v.2.1
  let c := Vec.storeu c ((i + 0) * N + j1) vec_size v.2.2
  c

/-- Body of the row loop in the third column loop of `gemm_large_kernel` (1 vector of columns, row `i`). -/
def gemm_large_c1_r1 {T : Type} (A : Arith T) (vec_size : Nat) (a b : Nat → T)
    (N K block_k k_end j : Nat) (i : Nat) (c : Buffer T) : Buffer T :=
  let r1 := c.loadu ((i + 0) * N + j)
  let v := forLoop k_end (fun k => decide (k < k_end)) 1
    (fun k r1 =>
      let a1 := Vec.set (a ((i + 0) * K + k))
      let b1 := Vec.loadu b (k * N + j)
      let r1 := Vec.fmadd A a1 b1 r1
      r1)
    block_k r1
  let c := Vec.storeu c ((i + 0) * N + j) vec_size v.2
  c

/-- Body of the row loop in the last (scalar) column loop of `gemm_large_kernel`
(column `j`, row `i`). -/
def gemm_large_s1_r1 {T : Type} (A : Arith T) (a b : Nat → T)
    (N K block_k k_end j : Nat) (i : Nat) (c : Buffer T) : Buffer T :=
  let value := c.val (i * N + j)
  let v := forLoop k_end (fun k => decide (k < k_end)) 1
    (fun k value => A.add value (A.mul (a (i * K + k)) (b (k * N + j))))
    block_k value
  c.write (i * N + j) v.2

/-- Body of the first column loop of `gemm_large_kernel`: rows `block_i .. i_end` two
at a time, then the last row, for the 4 vectors of columns from `j`. -/
def gemm_large_cols4 {T : Type} (A : Arith T) (vec_size : Nat) (a b : Nat → T)
    (N K block_k k_end block_i i_end : Nat) (j : Nat) (c : Buffer T) : Buffer T :=
  let i := block_i
  let t := forLoop i_end (fun i => decide (i + 1 < i_end)) 2
    (gemm_large_c4_r2 A vec_size a b N K block_k k_end j) i c
  if t.1 < i_end then gemm_large_c4_r1 A vec_size a b N K block_k k_end j t.1 t.2 else t.2

/-- Body of the second column loop of `gemm_large_kernel`: rows four at a time, two at
a time, then the last row, for the 2 vectors of columns from `j`. -/
def gemm_large_cols2 {T : Type} (A : Arith T) (vec_size : Nat) (a b : Nat → T)
    (N K block_k k_end block_i i_end : Nat) (j : Nat) (c : Buffer T) : Buffer T :=
  let i := block_i
  let t := forLoop i_end (fun i => decide (i + 3 < i_end)) 4
    (gemm_large_c2_r4 A vec_size a b N K block_k k_end j) i c
  let t := forLoop i_end (fun i => decide (i + 2 - 1 < i_end)) 2
    (gemm_large_c2_r2 A vec_size a b N K block_k k_end j) t.1 t.2
  if t.1 < i_end then gemm_large_c2_r1 A vec_size a b N K block_k k_end j t.1 t.2 else t.2

/-- Body of the third column loop of `gemm_large_kernel`: every row of the tile, for
the vector of columns from `j`. -/
def gemm_large_cols1 {T : Type} (A : Arith T) (vec_size : Nat) (a b : Nat → T)
    (N K block_k k_end block_i i_end : Nat) (j : Nat) (c : Buffer T) : Buffer T :=
  (forLoop i_end (fun i => decide (i < i_end)) 1
    (gemm_large_c1_r1 A vec_size a b N K block_k k_end j) block_i c).2

/-- Body of the last column loop of `gemm_large_kernel`: every row of the tile, for
the scalar column `j`. -/
def gemm_large_scalar1 {T : Type} (A : Arith T) (a b : Nat → T)
    (N K block_k k_end block_i i_end : Nat) (j : Nat) (c : Buffer T) : Buffer T :=
  (forLoop i_end (fun i => decide (i < i_end)) 1
    (gemm_large_s1_r1 A a b N K block_k k_end j) block_i c).2

/-- Body of the `block_k` loop of `gemm_large_kernel`, for the tile of rows
`block_i .. i_end` and columns `block_j .. j_end`. -/
def gemm_large_block {T : Type} (A : Arith T) (vec_size : Nat) (a b : Nat → T)
    (N K k_block_size block_j j_end block_i i_end : Nat) (block_k : Nat) (c : Buffer T) :
    Buffer T :=
  let k_end := min (block_k + k_block_size) K
  let j := block_j
  let s := forLoop j_end (fun j => decide (j + vec_size * 4 - 1 < j_end)) (vec_size * 4)
    (gemm_large_cols4 A vec_size a b N K block_k k_end block_i i_end) j c
  let s := forLoop j_end (fun j => decide (j + vec_size * 2 - 1 < j_end)) (vec_size * 2)
    (gemm_large_cols2 A vec_size a b N K block_k k_end block_i i_end) s.1 s.2
  let s := forLoop j_end (fun j => decide (j + vec_size - 1 < j_end)) vec_size
    (gemm_large_cols1 A vec_size a b N K block_k k_end block_i i_end) s.1 s.2
  let s := forLoop j_end (fun j => decide (j < j_end)) 1
    (gemm_large_scalar1 A a b N K block_k k_end block_i i_end) s.1 s.2
  s.2

/-- The tile-zeroing loops of `gemm_large_kernel`: `c[i * N + j] = 0` for the rows
`block_i .. i_end` and the columns `block_j .. j_end`. -/
def gemm_large_zero {T : Type} (A : Arith T) (N block_j j_end block_i i_end : Nat)
    (c : Buffer T) : Buffer T :=
  (forLoop i_end (fun i => decide (i < i_end)) 1
    (fun i c =>
      (forLoop j_end (fun j => decide (j < j_end)) 1
        (fun j c => c.write (i * N + j) A.zero) block_j c).2)
    block_i c).2

/-- Body of the `block_i` loop of `gemm_large_kernel`: the tile of rows
`block_i .. i_end` and columns `block_j .. j_end` is zeroed, then every block of
shared indices is accumulated into it. -/
def gemm_large_tile {T : Type} (A : Arith T) (vec_size : Nat) (a b : Nat → T)
    (M N K m_block_size k_block_size block_j j_end : Nat) (block_i : Nat) (c : Buffer T) :
    Buffer T :=
  let i_end := min (block_i + m_block_size) M
  let c := gemm_large_zero A N block_j j_end block_i i_end c
  (forLoop K (fun block_k => decide (block_k < K)) k_block_size
    (gemm_large_block A vec_size a b N K k_block_size block_j j_end block_i i_end)
    0 c).2

/-- The function `gemm_large_kernel<V, T>(a, b, c, M, N, K)`. -/
def gemm_large_kernel {T : Type} (A : Arith T) (vec_size : Nat) (a b : Nat → T)
    (c : Buffer T) (M N K : Nat) : Buffer T :=
  let n_block_size := 128
  let m_block_size := 64
  let k_block_size := 128
  (forLoop N (fun block_j => decide (block_j < N)) n_block_size
    (fun block_j c =>
      let j_end := min (block_j + n_block_size) N
      (forLoop M (fun block_i => decide (block_i < M)) m_block_size
        (gemm_large_tile A vec_size a b M N K m_block_size k_block_size block_j j_end)
        0 c).2)
    0 c).2

/-! ## Operands and entry points -/

/-- The constants the entry points take from the library configuration (their
headers are not part of the sources at hand): the lane count of `default_vec` for
`T`, `advanced_padding`, the three `*_small_threshold` values and `sizeof(T)`. -/
structure Config where
  vec_size : Nat
  advanced_padding : Bool
  gemv_small_threshold : Nat
  gevm_small_threshold : Nat
  gemm_small_threshold : Nat
  sizeof_T : Nat

/-- A dense operand: its extents, its storage order and padding traits, its
memory, and the two freshness flags of its host and accelerator copies.  A
vector of size `s` has `rows = s` and `columns = 1`. -/
structure Dense (T : Type) where
  rows : Nat
  columns : Nat
  row_major : Bool
  padded : Bool
  memory : Buffer T
  cpu_up_to_date : Bool
  gpu_up_to_date : Bool

/-- The element count `etl::size(x)`. -/
def Dense.size {T : Type} (x : Dense T) : Nat := x.rows * x.columns

/-- The pointer `x.memory_start()`, as the function from index to element. -/
def Dense.memory_start {T : Type} (x : Dense T) : Nat → T := x.memory.val

/-- Modelled from the spec: `x.ensure_cpu_up_to_date()`, the synchronize-to-host
call; afterwards the host copy is current, the contents are unchanged. -/
def Dense.ensure_cpu_up_to_date {T : Type} (x : Dense T) : Dense T :=
  ⟨x.rows, x.columns, x.row_major, x.padded, x.memory, true, x.gpu_up_to_date⟩

/-- Modelled from the spec: `x.invalidate_gpu()`, the accelerator copy is marked
invalid, the contents are unchanged. -/
def Dense.invalidate_gpu {T : Type} (x : Dense T) : Dense T :=
  ⟨x.rows, x.columns, x.row_major, x.padded, x.memory, x.cpu_up_to_date, false⟩

/-- The operand `x` after a kernel has run on its memory. -/
def Dense.with_memory {T : Type} (x : Dense T) (mem : Buffer T) : Dense T :=
  ⟨x.rows, x.columns, x.row_major, x.padded, mem, x.cpu_up_to_date, x.gpu_up_to_date⟩

/-- The storage index of the logical element `(i, j)` of a matrix: `i * columns + j`
when row-major, `j * rows + i` when column-major. -/
def Dense.index {T : Type} (x : Dense T) (i j : Nat) : Nat :=
  if x.row_major then i * x.columns + j else j * x.rows + i

/-- The logical matrix element `x(i, j)`. -/
def Dense.at2 {T : Type} (x : Dense T) (i j : Nat) : T := x.memory.val (x.index i j)

/-- The logical vector element `x(i)`. -/
def Dense.at1 {T : Type} (x : Dense T) (i : Nat) : T := x.memory.val i

/-- The assignment `c = 0`: every one of the `size(c)` elements is stored as `T()`. -/
def Dense.assign_zero {T : Type} (A : Arith T) (c : Dense T) : Dense T :=
  c.with_memory
    ⟨fun y => if y < c.size then A.zero else c.memory.val y,
     fun y => if y < c.size then c.memory.stores y + 1 else c.memory.stores y⟩

/-- The trait `all_padded<A, B, C>::value`. -/
def all_padded {T : Type} (a b c : Dense T) : Bool := a.padded && b.padded && c.padded

/-- The trait `all_row_major<A, B, C>::value`, which selects between each entry
point's two overloads. -/
def all_row_major {T : Type} (a b c : Dense T) : Bool :=
  a.row_major && b.row_major && c.row_major

/-- The overload of `gemv(a, b, c)` enabled when `all_row_major`; it returns the
three operands as the call leaves them.  The assertion on `vec_enabled` is taken
to hold. -/
def gemv {T : Type} (cfg : Config) (A : Arith T) (a b c : Dense T) :
    Dense T × Dense T × Dense T :=
  let a := a.ensure_cpu_up_to_date
  let b := b.ensure_cpu_up_to_date
  let m := a.rows
  let n := a.columns
  let c :=
    if a.size < cfg.gemv_small_threshold then
      c.with_memory (gemv_small_kernel A cfg.vec_size cfg.advanced_padding (all_padded a b c)
        a.memory_start m n b.memory_start c.memory)
    else
      c.with_memory (gemv_large_kernel A cfg.vec_size cfg.advanced_padding (all_padded a b c)
        a.memory_start m n b.memory_start c.memory)
  (a, b, c.invalidate_gpu)

/-- The overload of `gemv(a, b, c)` enabled when not `all_row_major`: the
layout-agnostic double loop; it returns `c`. -/
def gemv_fallback {T : Type} (A : Arith T) (a b c : Dense T) : Dense T :=
  let m := a.rows
  let n := a.columns
  let c := c.assign_zero A
  (forLoop m (fun i => decide (i < m)) 1
    (fun i c =>
      (forLoop n (fun k => decide (k < n)) 1
        (fun k c => c.with_memory (c.memory.add_assign A i (A.mul (a.at2 i k) (b.at1 k))))
        0 c).2)
    0 c).2

/-- The overload of `gevm(a, b, c)` enabled when `all_row_major`; it returns the
three operands as the call leaves them. -/
def gevm {T : Type} (cfg : Config) (A : Arith T) (a b c : Dense T) :
    Dense T × Dense T × Dense T :=
  let a := a.ensure_cpu_up_to_date
  let b := b.ensure_cpu_up_to_date
  let m := b.rows
  let n := b.columns
  let c :=
    if b.size < cfg.gevm_small_threshold then
      c.with_memory (gevm_small_kernel A cfg.vec_size a.memory_start m n b.memory_start c.memory)
    else
      let c := c.assign_zero A
      c.with_memory (gevm_large_kernel A cfg.vec_size cfg.sizeof_T a.memory_start m n
        b.memory_start c.memory)
  (a, b, c.invalidate_gpu)

/-- The overload of `gevm(a, b, c)` enabled when not `all_row_major`: the
layout-agnostic double loop; it returns `c`. -/
def gevm_fallback {T : Type} (A : Arith T) (a b c : Dense T) : Dense T :=
  let c := c.assign_zero A
  (forLoop a.rows (fun k => decide (k < a.rows)) 1
    (fun k c =>
      (forLoop b.columns (fun j => decide (j < b.columns)) 1
        (fun j c => c.with_memory (c.memory.add_assign A j (A.mul (a.at1 k) (b.at2 k j))))
        0 c).2)
    0 c).2

/-- The overload of `gemm(a, b, c)` enabled when `all_row_major`; it returns the
three operands as the call leaves them. -/
def gemm {T : Type} (cfg : Config) (A : Arith T) (a b c : Dense T) :
    Dense T × Dense T × Dense T :=
  let a := a.ensure_cpu_up_to_date
  let b := b.ensure_cpu_up_to_date
  let M := a.rows
  let N := b.columns
  let K := a.columns
  let c :=
    if b.size ≤ cfg.gemm_small_threshold then
      c.with_memory (gemm_small_kernel A cfg.vec_size a.memory_start b.memory_start c.memory M N K)
    else
      c.with_memory (gemm_large_kernel A cfg.vec_size a.memory_start b.memory_start c.memory M N K)
  (a, b, c.invalidate_gpu)

/-- The overload of `gemm(a, b, c)` enabled when not `all_row_major`: the
layout-agnostic triple loop over `i`, `k`, `j`; it returns `c`. -/
def gemm_fallback {T : Type} (A : Arith T) (a b c : Dense T) : Dense T :=
  let c := c.assign_zero A
  (forLoop a.rows (fun i => decide (i < a.rows)) 1
    (fun i c =>
      (forLoop a.columns (fun k => decide (k < a.columns)) 1
        (fun k c =>
          (forLoop b.columns (fun j => decide (j < b.columns)) 1
            (fun j c =>
              c.with_memory (c.memory.add_assign A (c.index i j) (A.mul (a.at2 i k) (b.at2 k j))))
            0 c).2)
        0 c).2)
    0 c).2

/-! ## Reference values -/

/-- The exact value `Σ_k aa[i * n + k] * bb[k]` of row `i` of a row-major
matrix-vector product. -/
def dot {T : Type} [CommRing T] (aa bb : Nat → T) (n i : Nat) : T :=
  ∑ k ∈ Finset.range n, aa (i * n + k) * bb k

/-- The least multiple of `vec_size` that is at least `last`: the index at which
a loop `for (k = 0; k < last; k += vec_size)` exits. -/
def round_up (vec_size last : Nat) : Nat := vec_size * ((last + vec_size - 1) / vec_size)

/-- The exact value `gemv_small_kernel` leaves in row `x`: the vectorised columns
`0 .. kend`, then the scalar columns `kend .. n` when the remainder loop is enabled. -/
def gemv_small_value {T : Type} [CommRing T] (aa bb : Nat → T) (vec_size : Nat)
    (remainder : Bool) (n x : Nat) : T :=
  ∑ k ∈ Finset.range (round_up vec_size (gemv_last vec_size remainder n)), aa (x * n + k) * bb k +
    (if remainder = true then
      ∑ k ∈ Finset.Ico (round_up vec_size (gemv_last vec_size remainder n)) n,
        aa (x * n + k) * bb k
    else 0)

/-- The exact value `gemv_large_kernel` leaves in row `x` of `m`: as for the small
kernel, except that in the rows of the 2-unrolled outer loop (from `8 * (m / 8)`
up to `2 * (m / 2)`) the scalar columns read `aa[i + d * n + k]`, where `i` is the
first row of the pair and `d` is 0 or 1. -/
def gemv_large_value {T : Type} [CommRing T] (aa bb : Nat → T) (vec_size : Nat)
    (remainder : Bool) (m n x : Nat) : T :=
  ∑ k ∈ Finset.range (round_up vec_size (gemv_last vec_size remainder n)), aa (x * n + k) * bb k +
    (if remainder = true then
      ∑ k ∈ Finset.Ico (round_up vec_size (gemv_last vec_size remainder n)) n,
        aa (if 8 * (m / 8) ≤ x ∧ x < 2 * (m / 2) then 2 * (x / 2) + (x % 2) * n + k
            else x * n + k) * bb k
    else 0)

/-- `Updated c0 c P V`: buffer `c` holds `V x` at every index `x` in `P` and the value of
`c0` at every other index. -/
def Updated {T : Type} (c0 c : Buffer T) (P : Nat → Prop) (V : Nat → T) : Prop :=
  (∀ x, P x → c.val x = V x) ∧ (∀ x, ¬ P x → c.val x = c0.val x)

/-- `Filled c0 c P V`: buffer `c` is `c0` after exactly one store of `V x` to every
index `x` in `P`, and no store to any other index. -/
def Filled {T : Type} (c0 c : Buffer T) (P : Nat → Prop) (V : Nat → T) : Prop :=
  (∀ x, P x → c.val x = V x ∧ c.stores x = c0.stores x + 1) ∧
    (∀ x, ¬ P x → c.val x = c0.val x ∧ c.stores x = c0.stores x)

/-- Exact element of a row-major matrix product, at the flat index `x` of `c`. -/
def mdot {T : Type} [CommRing T] (a b : Nat → T) (N K x : Nat) : T :=
  ∑ k ∈ Finset.range K, a ((x / N) * K + k) * b (k * N + x % N)

/-- Exact column sum of a row-major vector-matrix product. -/
def cdot {T : Type} [CommRing T] (aa bb : Nat → T) (m n j : Nat) : T :=
  ∑ k ∈ Finset.range m, aa k * bb (k * n + j)

/-- Exact contribution of the shared indices `k0 .. k1` to the element at flat index `x`. -/
def mdot_blk {T : Type} [CommRing T] (a b : Nat → T) (N K k0 k1 x : Nat) : T :=
  ∑ k ∈ Finset.Ico k0 k1, a ((x / N) * K + k) * b (k * N + x % N)

/-- The buffer transformer `f` leaves the value at every index `x ≥ B` unchanged. -/
def Below {T : Type} (B : Nat) (f : Buffer T → Buffer T) : Prop :=
  ∀ c x, B ≤ x → (f c).val x = c.val x

/-- The operands `x` and `y` have the same extents and the same storage order. -/
def Dense.same_shape {T : Type} (x y : Dense T) : Prop :=
  x.rows = y.rows ∧ x.columns = y.columns ∧ x.row_major = y.row_major

/-- The left-to-right fold `step (... (step (step z 0) 1) ...) (n - 1)` over the
indices `0, 1, ..., n - 1`. -/
def fold_left {T : Type} (step : T → Nat → T) (z : T) (n : Nat) : T :=
  (List.range n).foldl step z

/-- The value `x` clamped to the interval `[-B, B]`. -/
def clamp (B x : Int) : Int := max (-B) (min B x)

/-- Saturating integer arithmetic with bound `B`: every operation is the exact one
followed by `clamp B`.  Its `+` has the neutral element 0 and is commutative, and
it is not associative. -/
def Arith.sat (B : Int) : Arith Int :=
  ⟨0, fun a b => clamp B (a + b), fun a b => clamp B (a * b),
    fun a b c => clamp B (a * b + c)⟩

/-- The routines a row-major entry point calls on the destination: the six kernels
and the assignment `c = 0`. -/
inductive Call where
  | gemv_small
  | gemv_large
  | gevm_small
  | gevm_large
  | gemm_small
  | gemm_large
  | assign_zero
  deriving DecidableEq

/-- Whether the call is one of the six kernels. -/
def Call.is_kernel : Call → Bool
  | Call.assign_zero => false
  | _ => true

/-- The destination after the call `k`, made with the arguments the entry point that
owns `k` passes to it. -/
def Call.run {T : Type} (cfg : Config) (A : Arith T) (a b : Dense T) (k : Call)
    (c : Dense T) : Dense T :=
  match k with
  | Call.gemv_small =>
    c.with_memory (gemv_small_kernel A cfg.vec_size cfg.advanced_padding (all_padded a b c)
      a.memory_start a.rows a.columns b.memory_start c.memory)
  | Call.gemv_large =>
    c.with_memory (gemv_large_kernel A cfg.vec_size cfg.advanced_padding (all_padded a b c)
      a.memory_start a.rows a.columns b.memory_start c.memory)
  | Call.gevm_small =>
    c.with_memory (gevm_small_kernel A cfg.vec_size a.memory_start b.rows b.columns
      b.memory_start c.memory)
  | Call.gevm_large =>
    c.with_memory (gevm_large_kernel A cfg.vec_size cfg.sizeof_T a.memory_start b.rows
      b.columns b.memory_start c.memory)
  | Call.gemm_small =>
    c.with_memory (gemm_small_kernel A cfg.vec_size a.memory_start b.memory_start c.memory
      a.rows b.columns a.columns)
  | Call.gemm_large =>
    c.with_memory (gemm_large_kernel A cfg.vec_size a.memory_start b.memory_start c.memory
      a.rows b.columns a.columns)
  | Call.assign_zero => c.assign_zero A

/-- The calls the row-major `gemv(a, b, c)` makes on `c`, in order (lines 393-400):
the branch on `etl::size(a) < gemv_small_threshold`. -/
def gemv_calls {T : Type} (cfg : Config) (a : Dense T) : List Call :=
  if a.size < cfg.gemv_small_threshold then [Call.gemv_small]
  else [Call.gemv_large]

/-- The calls the row-major `gevm(a, b, c)` makes on `c`, in order (lines 669-675):
the branch on `etl::size(b) < gevm_small_threshold`. -/
def gevm_calls {T : Type} (cfg : Config) (b : Dense T) : List Call :=
  if b.size < cfg.gevm_small_threshold then [Call.gevm_small]
  else [Call.assign_zero, Call.gevm_large]

/-- The calls the row-major `gemm(a, b, c)` makes on `c`, in order (lines 1281-1285):
the branch on `etl::size(b) <= gemm_small_threshold`. -/
def gemm_calls {T : Type} (cfg : Config) (b : Dense T) : List Call :=
  if b.size ≤ cfg.gemm_small_threshold then [Call.gemm_small]
  else [Call.gemm_large]

/-- The left-to-right fold `step (... (step z k0) ...) (k1 - 1)` over the indices
`k0, k0 + 1, ..., k1 - 1`. -/
def fold_range {T : Type} (step : T → Nat → T) (z : T) (k0 k1 : Nat) : T :=
  (List.range' k0 (k1 - k0)).foldl step z

/-- One accumulation step of a vectorised column of a row-major matrix product, for
the element at flat index `x`: `fmadd(a[i*K+k], b[k*N+j], acc)`. -/
def gemm_vec_step {T : Type} (A : Arith T) (a b : Nat → T) (N K x : Nat) : T → Nat → T :=
  fun acc k => A.fmadd (a ((x / N) * K + k)) (b (k * N + x % N)) acc

/-- One accumulation step of a scalar column of a row-major matrix product, for the
element at flat index `x`: `acc + a[i*K+k] * b[k*N+j]`. -/
def gemm_scalar_step {T : Type} (A : Arith T) (a b : Nat → T) (N K x : Nat) : T → Nat → T :=
  fun acc k => A.add acc (A.mul (a ((x / N) * K + k)) (b (k * N + x % N)))

/-- The accumulation step of the element at flat index `x`: the vector step in the
columns below `n0`, the scalar step in the others. -/
def gemm_step {T : Type} (A : Arith T) (n0 : Nat) (a b : Nat → T) (N K x : Nat) :
    T → Nat → T :=
  if x % N < n0 then gemm_vec_step A a b N K x else gemm_scalar_step A a b N K x

/-- The value of the element at flat index `x` of a row-major matrix product
accumulated in the order `k = 0, ..., K - 1` from `T()`, with the vector step in the
columns below `n0` and the scalar step in the others. -/
def gemm_value {T : Type} (A : Arith T) (n0 : Nat) (a b : Nat → T) (N K x : Nat) : T :=
  fold_left (gemm_step A n0 a b N K x) A.zero K

/-- The value of a vectorised column element: the fold of `gemm_vec_step` over
`k = 0, ..., K - 1` from `T()`. -/
def gemm_vec_value {T : Type} (A : Arith T) (a b : Nat → T) (N K x : Nat) : T :=
  fold_left (gemm_vec_step A a b N K x) A.zero K

/-- The value of a scalar column element: the fold of `gemm_scalar_step` over
`k = 0, ..., K - 1` from `T()`. -/
def gemm_scalar_value {T : Type} (A : Arith T) (a b : Nat → T) (N K x : Nat) : T :=
  fold_left (gemm_scalar_step A a b N K x) A.zero K

/-- The arithmetic `A` on values that may be missing: an operation with a missing
operand gives a missing result. -/
def Arith.checked {T : Type} (A : Arith T) : Arith (Option T) :=
  ⟨some A.zero,
   fun x y => match x, y with
     | some u, some v => some (A.add u v)
     | _, _ => none,
   fun x y => match x, y with
     | some u, some v => some (A.mul u v)
     | _, _ => none,
   fun x y z => match x, y, z with
     | some u, some v, some w => some (A.fmadd u v w)
     | _, _, _ => none⟩

/-- The array of exactly `len` elements `f 0, ..., f (len - 1)`: a read at an index
at or past `len` takes the out-of-bounds branch and gives a missing value. -/
def checked_view {T : Type} (len : Nat) (f : Nat → T) : Nat → Option T :=
  fun x => if x < len then some (f x) else none

/-- The values satisfying `P` contain `T()` and are closed under the operations of
`A`. -/
def Closed {T : Type} (A : Arith T) (P : T → Prop) : Prop :=
  P A.zero ∧ (∀ x y, P x → P y → P (A.add x y)) ∧ (∀ x y, P x → P y → P (A.mul x y)) ∧
    (∀ x y z, P x → P y → P z → P (A.fmadd x y z))

/-! ## The thread engine (`etl/thread_engine.hpp`) -/

/-- The part of `etl::local_context()` the thread engine uses: the flag `serial`. -/
structure Context where
  serial : Bool

/-- The function `conf_thread_engine::acquire()`: its three assertions, in order, then
`local_context().serial = true`.  `parallel_support` and `threads` are the library
constants `etl::parallel_support` and `etl::threads`; the result is `none` when an
assertion fails. -/
def conf_thread_engine.acquire (parallel_support : Bool) (threads : Nat) (ctx : Context) :
    Option Context :=
  if !parallel_support then none
  else if !(!ctx.serial) then none
  else if !(decide (threads > 1)) then none
  else some ⟨true⟩

/-- The function `conf_thread_engine::schedule(fun, args...)`: the task is handed to
the pool; the context of the calling thread is not touched. -/
def conf_thread_engine.schedule (ctx : Context) : Context := ctx

/-- The function `conf_thread_engine::wait()`: after the pool has finished,
`local_context().serial = false`. -/
def conf_thread_engine.wait (_ctx : Context) : Context := ⟨false⟩

/-- A call of one of the three operations of the thread engine. -/
inductive EngineCall where
  | acquire
  | schedule
  | wait
  deriving DecidableEq

/-- The context after one call; `none` when an assertion of the call fails. -/
def EngineCall.step (parallel_support : Bool) (threads : Nat) (ctx : Context) :
    EngineCall → Option Context
  | EngineCall.acquire => conf_thread_engine.acquire parallel_support threads ctx
  | EngineCall.schedule => some (conf_thread_engine.schedule ctx)
  | EngineCall.wait => some (conf_thread_engine.wait ctx)

/-- The context after a sequence of calls made in order from `ctx`; `none` when an
assertion fails on the way, `some` for an assertion-free run. -/
def engine_run (parallel_support : Bool) (threads : Nat) : Context → List EngineCall →
    Option Context
  | ctx, [] => some ctx
  | ctx, k :: ks =>
    match EngineCall.step parallel_support threads ctx k with
    | none => none
    | some ctx2 => engine_run parallel_support threads ctx2 ks

/-! ## Adapters (`etl/adapters/hermitian.hpp`, `etl/adapters/strictly_lower.hpp`)

The operators of the two adapters call ETL functions whose headers are not part of the
sources at hand (`is_hermitian`, `is_strictly_lower_triangular`, `validate_assign`,
`validate_expression`, the `*_evaluate` family and `detail::scalar_*::apply`).  Each
operator below takes the functions it calls as parameters, in the order it calls them. -/

/-- The exception types of the two adapters. -/
inductive AdapterException where
  | hermitian_exception
  | strictly_lower_exception
  deriving DecidableEq

/-- How a call of an adapter operator ends: it returns, it throws, or the assertion of
a validation fails. -/
inductive Status where
  | returned
  | thrown (e : AdapterException)
  | assert_failed
  deriving DecidableEq

/-- The end of a call, with the adapted matrix as the call leaves it. -/
structure Outcome (M : Type) where
  status : Status
  matrix : M

/-- The operator `hermitian_matrix::operator=` taking an ETL expression. -/
def hermitian_matrix.assign {M E : Type} (is_hermitian : E → Bool)
    (validate_assign : M → E → Bool) (assign_evaluate : E → M → M) (self : M) (rhs : E) : Outcome M :=
  -- Make sure the other matrix is hermitian
  if !is_hermitian rhs then ⟨Status.thrown AdapterException.hermitian_exception, self⟩
  else if !validate_assign self rhs then ⟨Status.assert_failed, self⟩
  else ⟨Status.returned, assign_evaluate rhs self⟩

/-- The operator `hermitian_matrix::operator+=` taking an ETL expression. -/
def hermitian_matrix.add_assign {M E : Type} (is_hermitian : E → Bool)
    (validate_expression : M → E → Bool) (add_evaluate : E → M → M) (self : M) (rhs : E) : Outcome M :=
  -- Make sure the other matrix is hermitian
  if !is_hermitian rhs then ⟨Status.thrown AdapterException.hermitian_exception, self⟩
  else if !validate_expression self rhs then ⟨Status.assert_failed, self⟩
  else ⟨Status.returned, add_evaluate rhs self⟩

/-- The operator `hermitian_matrix::operator-=` taking an ETL expression. -/
def hermitian_matrix.sub_assign {M E : Type} (is_hermitian : E → Bool)
    (validate_expression : M → E → Bool) (sub_evaluate : E → M → M) (self : M) (rhs : E) : Outcome M :=
  -- Make sure the other matrix is hermitian
  if !is_hermitian rhs then ⟨Status.thrown AdapterException.hermitian_exception, self⟩
  else if !validate_expression self rhs then ⟨Status.assert_failed, self⟩
  else ⟨Status.returned, sub_evaluate rhs self⟩

/-- The operator `hermitian_matrix::operator*=` taking an ETL expression. -/
def hermitian_matrix.mul_assign {M E : Type} (is_hermitian : E → Bool)
    (validate_expression : M → E → Bool) (mul_evaluate : E → M → M) (self : M) (rhs : E) : Outcome M :=
  -- Make sure the other matrix is hermitian
  if !is_hermitian rhs then ⟨Status.thrown AdapterException.hermitian_exception, self⟩
  else if !validate_expression self rhs then ⟨Status.assert_failed, self⟩
  else ⟨Status.returned, mul_evaluate rhs self⟩

/-- The operator `hermitian_matrix::operator>>=` taking an ETL expression. -/
def hermitian_matrix.shr_assign {M E : Type} (is_hermitian : E → Bool)
    (validate_expression : M → E → Bool) (mul_evaluate : E → M → M) (self : M) (rhs : E) : Outcome M :=
  -- Make sure the other matrix is hermitian
  if !is_hermitian rhs then ⟨Status.thrown AdapterException.hermitian_exception, self⟩
  else if !validate_expression self rhs then ⟨Status.assert_failed, self⟩
  else ⟨Status.returned, mul_evaluate rhs self⟩

/-- The operator `hermitian_matrix::operator/=` taking an ETL expression. -/
def hermitian_matrix.div_assign {M E : Type} (is_hermitian : E → Bool)
    (validate_expression : M → E → Bool) (div_evaluate : E → M → M) (self : M) (rhs : E) : Outcome M :=
  -- Make sure the other matrix is hermitian
  if !is_hermitian rhs then ⟨Status.thrown AdapterException.hermitian_exception, self⟩
  else if !validate_expression self rhs then ⟨Status.assert_failed, self⟩
  else ⟨Status.returned, div_evaluate rhs self⟩

/-- The operator `hermitian_matrix::operator%=` taking an ETL expression. -/
def hermitian_matrix.mod_assign {M E : Type} (is_hermitian : E → Bool)
    (validate_expression : M → E → Bool) (mod_evaluate : E → M → M) (self : M) (rhs : E) : Outcome M :=
  -- Make sure the other matrix is hermitian
  if !is_hermitian rhs then ⟨Status.thrown AdapterException.hermitian_exception, self⟩
  else if !validate_expression self rhs then ⟨Status.assert_failed, self⟩
  else ⟨Status.returned, mod_evaluate rhs self⟩

/-- The operator `strictly_lower_matrix::operator=` taking an ETL expression. -/
def strictly_lower_matrix.assign {M E : Type} (is_strictly_lower_triangular : E → Bool)
    (validate_assign : M → E → Bool) (assign_evaluate : E → M → M) (self : M) (rhs : E) : Outcome M :=
  -- Make sure the other matrix is strictly lower triangular
  if !is_strictly_lower_triangular rhs then
    ⟨Status.thrown AdapterException.strictly_lower_exception, self⟩
  else if !validate_assign self rhs then ⟨Status.assert_failed, self⟩
  else ⟨Status.returned, assign_evaluate rhs self⟩

/-- The operator `strictly_lower_matrix::operator+=` taking an ETL expression. -/
def strictly_lower_matrix.add_assign {M E : Type} (is_strictly_lower_triangular : E → Bool)
    (validate_expression : M → E → Bool) (add_evaluate : E → M → M) (self : M) (rhs : E) : Outcome M :=
  -- Make sure the other matrix is strictly lower triangular
  if !is_strictly_lower_triangular rhs then
    ⟨Status.thrown AdapterException.strictly_lower_exception, self⟩
  else if !validate_expression self rhs then ⟨Status.assert_failed, self⟩
  else ⟨Status.returned, add_evaluate rhs self⟩

/-- The operator `strictly_lower_matrix::operator-=` taking an ETL expression. -/
def strictly_lower_matrix.sub_assign {M E : Type} (is_strictly_lower_triangular : E → Bool)
    (validate_expression : M → E → Bool) (sub_evaluate : E → M → M) (self : M) (rhs : E) : Outcome M :=
  -- Make sure the other matrix is strictly lower triangular
  if !is_strictly_lower_triangular rhs then
    ⟨Status.thrown AdapterException.strictly_lower_exception, self⟩
  else if !validate_expression self rhs then ⟨Status.assert_failed, self⟩
  else ⟨Status.returned, sub_evaluate rhs self⟩

/-- The operator `strictly_lower_matrix::operator*=` taking an ETL expression. -/
def strictly_lower_matrix.mul_assign {M E : Type} (is_strictly_lower_triangular : E → Bool)
    (validate_expression : M → E → Bool) (mul_evaluate : E → M → M) (self : M) (rhs : E) : Outcome M :=
  -- Make sure the other matrix is strictly lower triangular
  if !is_strictly_lower_triangular rhs then
    ⟨Status.thrown AdapterException.strictly_lower_exception, self⟩
  else if !validate_expression self rhs then ⟨Status.assert_failed, self⟩
  else ⟨Status.returned, mul_evaluate rhs self⟩

/-- The operator `strictly_lower_matrix::operator>>=` taking an ETL expression. -/
def strictly_lower_matrix.shr_assign {M E : Type} (is_strictly_lower_triangular : E → Bool)
    (validate_expression : M → E → Bool) (mul_evaluate : E → M → M) (self : M) (rhs : E) : Outcome M :=
  -- Make sure the other matrix is strictly lower triangular
  if !is_strictly_lower_triangular rhs then
    ⟨Status.thrown AdapterException.strictly_lower_exception, self⟩
  else if !validate_expression self rhs then ⟨Status.assert_failed, self⟩
  else ⟨Status.returned, mul_evaluate rhs self⟩

/-- The operator `strictly_lower_matrix::operator/=` taking an ETL expression. -/
def strictly_lower_matrix.div_assign {M E : Type} (is_strictly_lower_triangular : E → Bool)
    (validate_expression : M → E → Bool) (div_evaluate : E → M → M) (self : M) (rhs : E) : Outcome M :=
  -- Make sure the other matrix is strictly lower triangular
  if !is_strictly_lower_triangular rhs then
    ⟨Status.thrown AdapterException.strictly_lower_exception, self⟩
  else if !validate_expression self rhs then ⟨Status.assert_failed, self⟩
  else ⟨Status.returned, div_evaluate rhs self⟩

/-- The operator `strictly_lower_matrix::operator%=` taking an ETL expression. -/
def strictly_lower_matrix.mod_assign {M E : Type} (is_strictly_lower_triangular : E → Bool)
    (validate_expression : M → E → Bool) (mod_evaluate : E → M → M) (self : M) (rhs : E) : Outcome M :=
  -- Make sure the other matrix is strictly lower triangular
  if !is_strictly_lower_triangular rhs then
    ⟨Status.thrown AdapterException.strictly_lower_exception, self⟩
  else if !validate_expression self rhs then ⟨Status.assert_failed, self⟩
  else ⟨Status.returned, mod_evaluate rhs self⟩

/-- The operator `strictly_lower_matrix::operator+=` taking a scalar (`noexcept`):
the call `detail::scalar_add::apply(*this, rhs)`. -/
def strictly_lower_matrix.add_assign_scalar {M T : Type} (scalar_add_apply : M → T → M) (self : M)
    (rhs : T) : Outcome M :=
  ⟨Status.returned, scalar_add_apply self rhs⟩

/-- The operator `strictly_lower_matrix::operator-=` taking a scalar (`noexcept`):
the call `detail::scalar_sub::apply(*this, rhs)`. -/
def strictly_lower_matrix.sub_assign_scalar {M T : Type} (scalar_sub_apply : M → T → M) (self : M)
    (rhs : T) : Outcome M :=
  ⟨Status.returned, scalar_sub_apply self rhs⟩

/-- The operator `strictly_lower_matrix::operator*=` taking a scalar (`noexcept`):
the call `detail::scalar_mul::apply(*this, rhs)`. -/
def strictly_lower_matrix.mul_assign_scalar {M T : Type} (scalar_mul_apply : M → T → M) (self : M)
    (rhs : T) : Outcome M :=
  ⟨Status.returned, scalar_mul_apply self rhs⟩

/-- The operator `strictly_lower_matrix::operator>>=` taking a scalar (`noexcept`):
the call `detail::scalar_mul::apply(*this, rhs)`. -/
def strictly_lower_matrix.shr_assign_scalar {M T : Type} (scalar_mul_apply : M → T → M) (self : M)
    (rhs : T) : Outcome M :=
  ⟨Status.returned, scalar_mul_apply self rhs⟩

/-- The operator `strictly_lower_matrix::operator/=` taking a scalar (`noexcept`):
the call `detail::scalar_div::apply(*this, rhs)`. -/
def strictly_lower_matrix.div_assign_scalar {M T : Type} (scalar_div_apply : M → T → M) (self : M)
    (rhs : T) : Outcome M :=
  ⟨Status.returned, scalar_div_apply self rhs⟩

/-- The operator `strictly_lower_matrix::operator%=` taking a scalar (`noexcept`):
the call `detail::scalar_mod::apply(*this, rhs)`. -/
def strictly_lower_matrix.mod_assign_scalar {M T : Type} (scalar_mod_apply : M → T → M) (self : M)
    (rhs : T) : Outcome M :=
  ⟨Status.returned, scalar_mod_apply self rhs⟩

/-- A square matrix as the adapters see it: the element at row `i`, column `j`. -/
abbrev Matrix (T : Type) := Nat → Nat → T

/-- The matrix `m` of dimension `dim` is strictly lower triangular: every element on or
above the diagonal is zero. -/
def StrictlyLower {T : Type} [Zero T] (dim : Nat) (m : Matrix T) : Prop :=
  ∀ i j, i < dim → j < dim → i ≤ j → m i j = 0

/-- Modelled from the spec: `is_strictly_lower_triangular(e)` (its header is not part
of the sources at hand), whether every element of `e` on or above the diagonal is
zero. -/
def is_strictly_lower_triangular {T : Type} [Zero T] [DecidableEq T] (dim : Nat)
    (e : Matrix T) : Bool :=
  decide (∀ i, i < dim → ∀ j, j < dim → i ≤ j → e i j = 0)

/-- Modelled from the spec: `detail::scalar_add::apply(m, rhs)` (its header is not part
of the sources at hand), the scalar form applies the scalar to each element: every
element of `m` becomes itself plus `rhs`. -/
def scalar_add_apply {T : Type} [Add T] (m : Matrix T) (rhs : T) : Matrix T :=
  fun i j => m i j + rhs

/-- Modelled from the spec: `add_evaluate(rhs, m)` (its header is not part of the
sources at hand), the compound assignment element by element: every element of `m`
becomes itself plus the element of `rhs` at the same place. -/
def add_evaluate {T : Type} [Add T] (rhs : Matrix T) (m : Matrix T) : Matrix T :=
  fun i j => m i j + rhs i j

/-! ## Uninterpreted arithmetic -/

/-- The expressions over the operand elements `a[x]`, `b[x]` and `T()`, with `+` and
`*` as uninterpreted binary operations. -/
inductive Expr where
  | zero
  | a (x : Nat)
  | b (x : Nat)
  | add (l r : Expr)
  | mul (l r : Expr)
  deriving DecidableEq

/-- The arithmetic that builds expressions: `+` and `*` are the uninterpreted
operations, and `fmadd a b c` is `a * b + c`. -/
def Arith.free : Arith Expr :=
  ⟨Expr.zero, Expr.add, Expr.mul, fun x y z => Expr.add (Expr.mul x y) z⟩

/-- The first three loops of `gevm_large_block` (the 8-unrolled, the 4-unrolled and the
base vectorised loop): the column index and the destination with which the
`Remainder non-vectorized loop` starts. -/
def gevm_large_vector_loops {T : Type} (A : Arith T) (vec_size : Nat) (aa : Nat → T)
    (m n : Nat) (bb : Nat → T) (n_block m_block block_j : Nat) (block_k : Nat)
    (cc : Buffer T) : Nat × Buffer T :=
  let m_end := min (block_k + m_block) m
  let n_end := min (block_j + n_block) n &&& neg_size_t vec_size
  let j := block_j
  -- 8-Unrolled Vectorized loop
  let s := forLoop n_end (fun j => decide (j + vec_size * 8 - 1 < n_end)) (vec_size * 8)
    (gevm_large_cols8 A vec_size aa n bb block_k m_end) j cc
  -- 4-Unrolled vectorized loop
  let s := forLoop n_end (fun j => decide (j + vec_size * 4 - 1 < n_end)) (vec_size * 4)
    (gevm_large_cols4 A vec_size aa n bb block_k m_end) s.1 s.2
  -- Base vectorized loop
  forLoop n_end (fun j => decide (j + vec_size - 1 < n_end)) vec_size
    (gevm_large_cols1 A vec_size aa n bb block_k m_end) s.1 s.2

/-- `Within c0 B P c`: every element of `c` below `B` satisfies `P`, and at or past `B`
the buffer `c` holds the values and the store counts of `c0`. -/
def Within {T : Type} (c0 : Buffer T) (B : Nat) (P : T → Prop) (c : Buffer T) : Prop :=
  (∀ x, x < B → P (c.val x)) ∧ ∀ x, B ≤ x → c.val x = c0.val x ∧ c.stores x = c0.stores x

/-! ## The kernels with explicit fuel

Each kernel and each loop body is given a second time, with every loop run by
`runLoop` on a fuel passed as a parameter; a loop that runs out of fuel while its
condition still holds gives `none`. -/

/-- The loop `for (; cond i; i += step) s = body i s` run with the fuel `fuel`, where a
body may itself give no result: `none` when the fuel runs out while the condition
still holds, or when a body gives `none`; otherwise the index and the state at exit. -/
def runLoop {S : Type} (fuel : Nat) (cond : Nat → Bool) (step : Nat)
    (body : Nat → S → Option S) (i : Nat) (s : S) : Option (Nat × S) :=
  match fuel with
  | 0 => if cond i then none else some (i, s)
  | fuel + 1 =>
    if cond i then (body i s).bind (fun s2 => runLoop fuel cond step body (i + step) s2)
    else some (i, s)

/-- Body of the `8-Unrolled outer loop` of `gemv_small_kernel` (rows `i .. i+7`).  Every loop runs with the fuel `fuel`. -/
def gemv_small_rows8_fuel {T : Type} (fuel : Nat) (A : Arith T) (vec_size : Nat) (remainder : Bool)
    (last : Nat) (aa : Nat → T) (n : Nat) (bb : Nat → T) (i : Nat) (cc : Buffer T) :
    Option (Buffer T) :=
  let r1 := Vec.zero A
  let r2 := Vec.zero A
  let r3 := Vec.zero A
  let r4 := Vec.zero A
  let r5 := Vec.zero A
  let r6 := Vec.zero A
  let r7 := Vec.zero A
  let r8 := Vec.zero A
  -- Vectorized inner loop
  (runLoop fuel (fun k => decide (k < last)) vec_size
    (fun k s => some ((fun k (r1, r2, r3, r4, r5, r6, r7, r8) =>
      let b1 := Vec.load bb k
      let a1 := Vec.loadu aa ((i + 0) * n + k)
      let a2 := Vec.loadu aa ((i + 1) * n + k)
      let a3 := Vec.loadu aa ((i + 2) * n + k)
      let a4 := Vec.loadu aa ((i + 3) * n + k)
      let a5 := Vec.loadu aa ((i + 4) * n + k)
      let a6 := Vec.loadu aa ((i + 5) * n + k)
      let a7 := Vec.loadu aa ((i + 6) * n + k)
      let a8 := Vec.loadu aa ((i + 7) * n + k)
      (Vec.fmadd A a1 b1 r1, Vec.fmadd A a2 b1 r2, Vec.fmadd A a3 b1 r3,
       Vec.fmadd A a4 b1 r4, Vec.fmadd A a5 b1 r5, Vec.fmadd A a6 b1 r6,
       Vec.fmadd A a7 b1 r7, Vec.fmadd A a8 b1 r8)) k s))
    0 (r1, r2, r3, r4, r5, r6, r7, r8)).bind fun v =>
  let k := v.1
  let cc := cc.write (i + 0) (Vec.hadd A vec_size v.2.1)
  let cc := cc.write (i + 1) (Vec.hadd A vec_size v.2.2.1)
  let cc := cc.write (i + 2) (Vec.hadd A vec_size v.2.2.2.1)
  let cc := cc.write (i + 3) (Vec.hadd A vec_size v.2.2.2.2.1)
  let cc := cc.write (i + 4) (Vec.hadd A vec_size v.2.2.2.2.2.1)
  let cc := cc.write (i + 5) (Vec.hadd A vec_size v.2.2.2.2.2.2.1)
  let cc := cc.write (i + 6) (Vec.hadd A vec_size v.2.2.2.2.2.2.2.1)
  let cc := cc.write (i + 7) (Vec.hadd A vec_size v.2.2.2.2.2.2.2.2)
  -- Remainder inner loop
  (runLoop fuel (fun k => remainder && decide (k < n)) 1
    (fun k s => some ((fun k cc =>
      let cc := cc.add_assign A (i + 0) (A.mul (aa ((i + 0) * n + k)) (bb k))
      let cc := cc.add_assign A (i + 1) (A.mul (aa ((i + 1) * n + k)) (bb k))
      let cc := cc.add_assign A (i + 2) (A.mul (aa ((i + 2) * n + k)) (bb k))
      let cc := cc.add_assign A (i + 3) (A.mul (aa ((i + 3) * n + k)) (bb k))
      let cc := cc.add_assign A (i + 4) (A.mul (aa ((i + 4) * n + k)) (bb k))
      let cc := cc.add_assign A (i + 5) (A.mul (aa ((i + 5) * n + k)) (bb k))
      let cc := cc.add_assign A (i + 6) (A.mul (aa ((i + 6) * n + k)) (bb k))
      let cc := cc.add_assign A (i + 7) (A.mul (aa ((i + 7) * n + k)) (bb k))
      cc) k s))
    k cc).bind fun w => some w.2

/-- Body of the `2-Unrolled outer loop` of `gemv_small_kernel` (rows `i`, `i+1`).  Every loop runs with the fuel `fuel`. -/
def gemv_small_rows2_fuel {T : Type} (fuel : Nat) (A : Arith T) (vec_size : Nat) (remainder : Bool)
    (last : Nat) (aa : Nat → T) (n : Nat) (bb : Nat → T) (i : Nat) (cc : Buffer T) :
    Option (Buffer T) :=
  let r1 := Vec.zero A
  let r2 := Vec.zero A
  -- Vectorized inner loop
  (runLoop fuel (fun k => decide (k < last)) vec_size
    (fun k s => some ((fun k (r1, r2) =>
      let b1 := Vec.load bb k
      let a1 := Vec.loadu aa ((i + 0) * n + k)
      let a2 := Vec.loadu aa ((i + 1) * n + k)
      (Vec.fmadd A a1 b1 r1, Vec.fmadd A a2 b1 r2)) k s))
    0 (r1, r2)).bind fun v =>
  let k := v.1
  let cc := cc.write (i + 0) (Vec.hadd A vec_size v.2.1)
  let cc := cc.write (i + 1) (Vec.hadd A vec_size v.2.2)
  -- Remainder inner loop
  (runLoop fuel (fun k => remainder && decide (k < n)) 1
    (fun k s => some ((fun k cc =>
      let cc := cc.add_assign A (i + 0) (A.mul (aa ((i + 0) * n + k)) (bb k))
      let cc := cc.add_assign A (i + 1) (A.mul (aa ((i + 1) * n + k)) (bb k))
      cc) k s))
    k cc).bind fun w => some w.2

/-- Body of the final `Remainder loop` of `gemv_small_kernel` (the single row `i`).  Every loop runs with the fuel `fuel`. -/
def gemv_small_row1_fuel {T : Type} (fuel : Nat) (A : Arith T) (vec_size : Nat) (remainder : Bool)
    (last : Nat) (aa : Nat → T) (n : Nat) (bb : Nat → T) (i : Nat) (cc : Buffer T) :
    Option (Buffer T) :=
  let r1 := Vec.zero A
  -- Vectorized inner loop
  (runLoop fuel (fun k => decide (k < last)) vec_size
    (fun k s => some ((fun k r1 =>
      let b1 := Vec.load bb k
      let a1 := Vec.loadu aa ((i + 0) * n + k)
      Vec.fmadd A a1 b1 r1) k s))
    0 r1).bind fun v =>
  let k := v.1
  let result := Vec.hadd A vec_size v.2
  -- Remainder inner loop
  (runLoop fuel (fun k => remainder && decide (k < n)) 1
    (fun k s => some ((fun k result => A.add result (A.mul (aa (i * n + k)) (bb k))) k s))
    k result).bind fun w =>
  let result := w.2
  some (cc.write i result)

/-- The function `gemv_small_kernel<V, Padded, T>(aa, m, n, bb, cc)`.  Every loop runs with the fuel `fuel`. -/
def gemv_small_kernel_fuel {T : Type} (fuel : Nat) (A : Arith T) (vec_size : Nat)
    (advanced_padding Padded : Bool) (aa : Nat → T) (m n : Nat) (bb : Nat → T)
    (cc : Buffer T) : Option (Buffer T) :=
  let remainder := !advanced_padding || !Padded
  let last := gemv_last vec_size remainder n
  -- 8-Unrolled outer loop
  (runLoop fuel (fun i => decide (i + 7 < m)) 8
    (gemv_small_rows8_fuel fuel A vec_size remainder last aa n bb)
    0 cc).bind fun s =>
  -- 2-Unrolled outer loop
  (runLoop fuel (fun i => decide (i + 1 < m)) 2
    (gemv_small_rows2_fuel fuel A vec_size remainder last aa n bb)
    s.1 s.2).bind fun s =>
  -- Remainder loop
  if s.1 < m then gemv_small_row1_fuel fuel A vec_size remainder last aa n bb s.1 s.2 else some (s.2)

/-- Body of the `8-Unrolled outer loop` of `gemv_large_kernel` (rows `i .. i+7`).  Every loop runs with the fuel `fuel`. -/
def gemv_large_rows8_fuel {T : Type} (fuel : Nat) (A : Arith T) (vec_size : Nat) (remainder : Bool)
    (last : Nat) (aa : Nat → T) (n : Nat) (bb : Nat → T) (i : Nat) (cc : Buffer T) :
    Option (Buffer T) :=
  let r1 := Vec.zero A
  let r2 := Vec.zero A
  let r3 := Vec.zero A
  let r4 := Vec.zero A
  let r5 := Vec.zero A
  let r6 := Vec.zero A
  let r7 := Vec.zero A
  let r8 := Vec.zero A
  -- 4-Unrolled Vectorized inner loop
  (runLoop fuel (fun k => decide (k + (vec_size * 3) < last)) (vec_size * 4)
    (fun k s => some ((fun k (r1, r2, r3, r4, r5, r6, r7, r8) =>
      let k1 := k + 0 * vec_size
      let k2 := k + 1 * vec_size
      let k3 := k + 2 * vec_size
      let k4 := k + 3 * vec_size
      let b1 := Vec.load bb k1
      let b2 := Vec.load bb k2
      let b3 := Vec.load bb k3
      let b4 := Vec.load bb k4
      let r1 := Vec.fmadd A (Vec.loadu aa ((i + 0) * n + k1)) b1 r1
      let r2 := Vec.fmadd A (Vec.loadu aa ((i + 1) * n + k1)) b1 r2
      let r3 := Vec.fmadd A (Vec.loadu aa ((i + 2) * n + k1)) b1 r3
      let r4 := Vec.fmadd A (Vec.loadu aa ((i + 3) * n + k1)) b1 r4
      let r5 := Vec.fmadd A (Vec.loadu aa ((i + 4) * n + k1)) b1 r5
      let r6 := Vec.fmadd A (Vec.loadu aa ((i + 5) * n + k1)) b1 r6
      let r7 := Vec.fmadd A (Vec.loadu aa ((i + 6) * n + k1)) b1 r7
      let r8 := Vec.fmadd A (Vec.loadu aa ((i + 7) * n + k1)) b1 r8
      let r1 := Vec.fmadd A (Vec.loadu aa ((i + 0) * n + k2)) b2 r1
      let r2 := Vec.fmadd A (Vec.loadu aa ((i + 1) * n + k2)) b2 r2
      let r3 := Vec.fmadd A (Vec.loadu aa ((i + 2) * n + k2)) b2 r3
      let r4 := Vec.fmadd A (Vec.loadu aa ((i + 3) * n + k2)) b2 r4
      let r5 := Vec.fmadd A (Vec.loadu aa ((i + 4) * n + k2)) b2 r5
      let r6 := Vec.fmadd A (Vec.loadu aa ((i + 5) * n + k2)) b2 r6
      let r7 := Vec.fmadd A (Vec.loadu aa ((i + 6) * n + k2)) b2 r7
      let r8 := Vec.fmadd A (Vec.loadu aa ((i + 7) * n + k2)) b2 r8
      let r1 := Vec.fmadd A (Vec.loadu aa ((i + 0) * n + k3)) b3 r1
      let r2 := Vec.fmadd A (Vec.loadu aa ((i + 1) * n + k3)) b3 r2
      let r3 := Vec.fmadd A (Vec.loadu aa ((i + 2) * n + k3)) b3 r3
      let r4 := Vec.fmadd A (Vec.loadu aa ((i + 3) * n + k3)) b3 r4
      let r5 := Vec.fmadd A (Vec.loadu aa ((i + 4) * n + k3)) b3 r5
      let r6 := Vec.fmadd A (Vec.loadu aa ((i + 5) * n + k3)) b3 r6
      let r7 := Vec.fmadd A (Vec.loadu aa ((i + 6) * n + k3)) b3 r7
      let r8 := Vec.fmadd A (Vec.loadu aa ((i + 7) * n + k3)) b3 r8
      let r1 := Vec.fmadd A (Vec.loadu aa ((i + 0) * n + k4)) b4 r1
      let r2 := Vec.fmadd A (Vec.loadu aa ((i + 1) * n + k4)) b4 r2
      let r3 := Vec.fmadd A (Vec.loadu aa ((i + 2) * n + k4)) b4 r3
      let r4 := Vec.fmadd A (Vec.loadu aa ((i + 3) * n + k4)) b4 r4
      let r5 := Vec.fmadd A (Vec.loadu aa ((i + 4) * n + k4)) b4 r5
      let r6 := Vec.fmadd A (Vec.loadu aa ((i + 5) * n + k4)) b4 r6
      let r7 := Vec.fmadd A (Vec.loadu aa ((i + 6) * n + k4)) b4 r7
      let r8 := Vec.fmadd A (Vec.loadu aa ((i + 7) * n + k4)) b4 r8
      (r1, r2, r3, r4, r5, r6, r7, r8)) k s))
    0 (r1, r2, r3, r4, r5, r6, r7, r8)).bind fun v =>
  -- 2-Unrolled Vectorized inner loop
  (runLoop fuel (fun k => decide (k + vec_size < last)) (vec_size * 2)
    (fun k s => some ((fun k (r1, r2, r3, r4, r5, r6, r7, r8) =>
      let k1 := k + 0 * vec_size
      let k2 := k + 1 * vec_size
      let b1 := Vec.load bb k1
      let b2 := Vec.load bb k2
      let r1 := Vec.fmadd A (Vec.loadu aa ((i + 0) * n + k1)) b1 r1
      let r2 := Vec.fmadd A (Vec.loadu aa ((i + 1) * n + k1)) b1 r2
      let r3 := Vec.fmadd A (Vec.loadu aa ((i + 2) * n + k1)) b1 r3
      let r4 := Vec.fmadd A (Vec.loadu aa ((i + 3) * n + k1)) b1 r4
      let r5 := Vec.fmadd A (Vec.loadu aa ((i + 4) * n + k1)) b1 r5
      let r6 := Vec.fmadd A (Vec.loadu aa ((i + 5) * n + k1)) b1 r6
      let r7 := Vec.fmadd A (Vec.loadu aa ((i + 6) * n + k1)) b1 r7
      let r8 := Vec.fmadd A (Vec.loadu aa ((i + 7) * n + k1)) b1 r8
      let r1 := Vec.fmadd A (Vec.loadu aa ((i + 0) * n + k2)) b2 r1
      let r2 := Vec.fmadd A (Vec.loadu aa ((i + 1) * n + k2)) b2 r2
      let r3 := Vec.fmadd A (Vec.loadu aa ((i + 2) * n + k2)) b2 r3
      let r4 := Vec.fmadd A (Vec.loadu aa ((i + 3) * n + k2)) b2 r4
      let r5 := Vec.fmadd A (Vec.loadu aa ((i + 4) * n + k2)) b2 r5
      let r6 := Vec.fmadd A (Vec.loadu aa ((i + 5) * n + k2)) b2 r6
      let r7 := Vec.fmadd A (Vec.loadu aa ((i + 6) * n + k2)) b2 r7
      let r8 := Vec.fmadd A (Vec.loadu aa ((i + 7) * n + k2)) b2 r8
      (r1, r2, r3, r4, r5, r6, r7, r8)) k s))
    v.1 v.2).bind fun v =>
  -- Vectorized inner loop
  let v := if v.1 < last then
      let k := v.1
      let b1 := Vec.load bb k
      let r1 := Vec.fmadd A (Vec.loadu aa ((i + 0) * n + k)) b1 v.2.1
      let r2 := Vec.fmadd A (Vec.loadu aa ((i + 1) * n + k)) b1 v.2.2.1
      let r3 := Vec.fmadd A (Vec.loadu aa ((i + 2) * n + k)) b1 v.2.2.2.1
      let r4 := Vec.fmadd A (Vec.loadu aa ((i + 3) * n + k)) b1 v.2.2.2.2.1
      let r5 := Vec.fmadd A (Vec.loadu aa ((i + 4) * n + k)) b1 v.2.2.2.2.2.1
      let r6 := Vec.fmadd A (Vec.loadu aa ((i + 5) * n + k)) b1 v.2.2.2.2.2.2.1
      let r7 := Vec.fmadd A (Vec.loadu aa ((i + 6) * n + k)) b1 v.2.2.2.2.2.2.2.1
      let r8 := Vec.fmadd A (Vec.loadu aa ((i + 7) * n + k)) b1 v.2.2.2.2.2.2.2.2
      (k + vec_size, r1, r2, r3, r4, r5, r6, r7, r8)
    else v
  let k := v.1
  let cc := cc.write (i + 0) (Vec.hadd A vec_size v.2.1)
  let cc := cc.write (i + 1) (Vec.hadd A vec_size v.2.2.1)
  let cc := cc.write (i + 2) (Vec.hadd A vec_size v.2.2.2.1)
  let cc := cc.write (i + 3) (Vec.hadd A vec_size v.2.2.2.2.1)
  let cc := cc.write (i + 4) (Vec.hadd A vec_size v.2.2.2.2.2.1)
  let cc := cc.write (i + 5) (Vec.hadd A vec_size v.2.2.2.2.2.2.1)
  let cc := cc.write (i + 6) (Vec.hadd A vec_size v.2.2.2.2.2.2.2.1)
  let cc := cc.write (i + 7) (Vec.hadd A vec_size v.2.2.2.2.2.2.2.2)
  -- Remainder inner loop
  (runLoop fuel (fun k => remainder && decide (k < n)) 1
    (fun k s => some ((fun k cc =>
      let cc := cc.add_assign A (i + 0) (A.mul (aa ((i + 0) * n + k)) (bb k))
      let cc := cc.add_assign A (i + 1) (A.mul (aa ((i + 1) * n + k)) (bb k))
      let cc := cc.add_assign A (i + 2) (A.mul (aa ((i + 2) * n + k)) (bb k))
      let cc := cc.add_assign A (i + 3) (A.mul (aa ((i + 3) * n + k)) (bb k))
      let cc := cc.add_assign A (i + 4) (A.mul (aa ((i + 4) * n + k)) (bb k))
      let cc := cc.add_assign A (i + 5) (A.mul (aa ((i + 5) * n + k)) (bb k))
      let cc := cc.add_assign A (i + 6) (A.mul (aa ((i + 6) * n + k)) (bb k))
      let cc := cc.add_assign A (i + 7) (A.mul (aa ((i + 7) * n + k)) (bb k))
      cc) k s))
    k cc).bind fun w => some w.2

/-- Body of the `2-Unrolled outer loop` of `gemv_large_kernel` (rows `i`, `i+1`).  Its
remainder inner loop reads `aa[i + 0 * n + k]` and `aa[i + 1 * n + k]`, as the source does.  Every loop runs with the fuel `fuel`. -/
def gemv_large_rows2_fuel {T : Type} (fuel : Nat) (A : Arith T) (vec_size : Nat) (remainder : Bool)
    (last : Nat) (aa : Nat → T) (n : Nat) (bb : Nat → T) (i : Nat) (cc : Buffer T) :
    Option (Buffer T) :=
  let r1 := Vec.zero A
  let r2 := Vec.zero A
  -- 4-Unrolled Vectorized inner loop
  (runLoop fuel (fun k => decide (k + (vec_size * 3) < last)) (vec_size * 4)
    (fun k s => some ((fun k (r1, r2) =>
      let k1 := k + 0 * vec_size
      let k2 := k + 1 * vec_size
      let k3 := k + 2 * vec_size
      let k4 := k + 3 * vec_size
      let b1 := Vec.load bb k1
      let b2 := Vec.load bb k2
      let b3 := Vec.load bb k3
      let b4 := Vec.load bb k4
      let r1 := Vec.fmadd A (Vec.loadu aa ((i + 0) * n + k1)) b1 r1
      let r2 := Vec.fmadd A (Vec.loadu aa ((i + 1) * n + k1)) b1 r2
      let r1 := Vec.fmadd A (Vec.loadu aa ((i + 0) * n + k2)) b2 r1
      let r2 := Vec.fmadd A (Vec.loadu aa ((i + 1) * n + k2)) b2 r2
      let r1 := Vec.fmadd A (Vec.loadu aa ((i + 0) * n + k3)) b3 r1
      let r2 := Vec.fmadd A (Vec.loadu aa ((i + 1) * n + k3)) b3 r2
      let r1 := Vec.fmadd A (Vec.loadu aa ((i + 0) * n + k4)) b4 r1
      let r2 := Vec.fmadd A (Vec.loadu aa ((i + 1) * n + k4)) b4 r2
      (r1, r2)) k s))
    0 (r1, r2)).bind fun v =>
  -- 2-Unrolled Vectorized inner loop
  (runLoop fuel (fun k => decide (k + vec_size < last)) (vec_size * 2)
    (fun k s => some ((fun k (r1, r2) =>
      let k1 := k + 0 * vec_size
      let k2 := k + 1 * vec_size
      let b1 := Vec.load bb k1
      let b2 := Vec.load bb k2
      let r1 := Vec.fmadd A (Vec.loadu aa ((i + 0) * n + k1)) b1 r1
      let r2 := Vec.fmadd A (Vec.loadu aa ((i + 1) * n + k1)) b1 r2
      let r1 := Vec.fmadd A (Vec.loadu aa ((i + 0) * n + k2)) b2 r1
      let r2 := Vec.fmadd A (Vec.loadu aa ((i + 1) * n + k2)) b2 r2
      (r1, r2)) k s))
    v.1 v.2).bind fun v =>
  -- Vectorized inner loop
  let v := if v.1 < last then
      let k := v.1
      let b1 := Vec.load bb k
      let r1 := Vec.fmadd A (Vec.loadu aa ((i + 0) * n + k)) b1 v.2.1
      let r2 := Vec.fmadd A (Vec.loadu aa ((i + 1) * n + k)) b1 v.2.2
      (k + vec_size, r1, r2)
    else v
  let k := v.1
  let cc := cc.write (i + 0) (Vec.hadd A vec_size v.2.1)
  let cc := cc.write (i + 1) (Vec.hadd A vec_size v.2.2)
  -- Remainder inner loop
  (runLoop fuel (fun k => remainder && decide (k < n)) 1
    (fun k s => some ((fun k cc =>
      let cc := cc.add_assign A (i + 0) (A.mul (aa (i + 0 * n + k)) (bb k))
      let cc := cc.add_assign A (i + 1) (A.mul (aa (i + 1 * n + k)) (bb k))
      cc) k s))
    k cc).bind fun w => some w.2

/-- Body of the final `Remainder loop` of `gemv_large_kernel` (the single row `i`).  Every loop runs with the fuel `fuel`. -/
def gemv_large_row1_fuel {T : Type} (fuel : Nat) (A : Arith T) (vec_size : Nat) (remainder : Bool)
    (last : Nat) (aa : Nat → T) (n : Nat) (bb : Nat → T) (i : Nat) (cc : Buffer T) :
    Option (Buffer T) :=
  let r1 := Vec.zero A
  -- Vectorized inner loop
  (runLoop fuel (fun k => decide (k < last)) vec_size
    (fun k s => some ((fun k r1 =>
      let b1 := Vec.load bb k
      Vec.fmadd A (Vec.loadu aa ((i + 0) * n + k)) b1 r1) k s))
    0 r1).bind fun v =>
  let k := v.1
  let result := Vec.hadd A vec_size v.2
  -- Remainder inner loop
  (runLoop fuel (fun k => remainder && decide (k < n)) 1
    (fun k s => some ((fun k result => A.add result (A.mul (aa (i * n + k)) (bb k))) k s))
    k result).bind fun w =>
  let result := w.2
  some (cc.write i result)

/-- The function `gemv_large_kernel<V, Padded, T>(aa, m, n, bb, cc)`.  Every loop runs with the fuel `fuel`. -/
def gemv_large_kernel_fuel {T : Type} (fuel : Nat) (A : Arith T) (vec_size : Nat)
    (advanced_padding Padded : Bool) (aa : Nat → T) (m n : Nat) (bb : Nat → T)
    (cc : Buffer T) : Option (Buffer T) :=
  let remainder := !advanced_padding || !Padded
  let last := gemv_last vec_size remainder n
  -- 8-Unrolled outer loop
  (runLoop fuel (fun i => decide (i + 7 < m)) 8
    (gemv_large_rows8_fuel fuel A vec_size remainder last aa n bb)
    0 cc).bind fun s =>
  -- 2-Unrolled outer loop
  (runLoop fuel (fun i => decide (i + 1 < m)) 2
    (gemv_large_rows2_fuel fuel A vec_size remainder last aa n bb)
    s.1 s.2).bind fun s =>
  -- Remainder loop
  if s.1 < m then gemv_large_row1_fuel fuel A vec_size remainder last aa n bb s.1 s.2 else some (s.2)

/-- Body of the first column loop of `gevm_small_kernel` (8 vectors of columns from `j`).  Every loop runs with the fuel `fuel`. -/
def gevm_small_cols8_fuel {T : Type} (fuel : Nat) (A : Arith T) (vec_size : Nat) (aa : Nat → T) (m n : Nat)
    (bb : Nat → T) (j : Nat) (cc : Buffer T) : Option (Buffer T) :=
  let r1 := Vec.zero A
  let r2 := Vec.zero A
  let r3 := Vec.zero A
  let r4 := Vec.zero A
  let r5 := Vec.zero A
  let r6 := Vec.zero A
  let r7 := Vec.zero A
  let r8 := Vec.zero A
  (runLoop fuel (fun k => decide (k < m)) 1
    (fun k s => some ((fun k (r1, r2, r3, r4, r5, r6, r7, r8) =>
      let a1 := Vec.set (aa k)
      let b1 := Vec.loadu bb (k * n + j + 0 * vec_size)
      let b2 := Vec.loadu bb (k * n + j + 1 * vec_size)
      let b3 := Vec.loadu bb (k * n + j + 2 * vec_size)
      let b4 := Vec.loadu bb (k * n + j + 3 * vec_size)
      let b5 := Vec.loadu bb (k * n + j + 4 * vec_size)
      let b6 := Vec.loadu bb (k * n + j + 5 * vec_size)
      let b7 := Vec.loadu bb (k * n + j + 6 * vec_size)
      let b8 := Vec.loadu bb (k * n + j + 7 * vec_size)
      let r1 := Vec.fmadd A a1 b1 r1
      let r2 := Vec.fmadd A a1 b2 r2
      let r3 := Vec.fmadd A a1 b3 r3
      let r4 := Vec.fmadd A a1 b4 r4
      let r5 := Vec.fmadd A a1 b5 r5
      let r6 := Vec.fmadd A a1 b6 r6
      let r7 := Vec.fmadd A a1 b7 r7
      let r8 := Vec.fmadd A a1 b8 r8
      (r1, r2, r3, r4, r5, r6, r7, r8)) k s))
    0 (r1, r2, r3, r4, r5, r6, r7, r8)).bind fun v =>
  let cc := Vec.storeu cc (j + 0 * vec_size) vec_size v.2.1
  let cc := Vec.storeu cc (j + 1 * vec_size) vec_size v.2.2.1
  let cc := Vec.storeu cc (j + 2 * vec_size) vec_size v.2.2.2.1
  let cc := Vec.storeu cc (j + 3 * vec_size) vec_size v.2.2.2.2.1
  let cc := Vec.storeu cc (j + 4 * vec_size) vec_size v.2.2.2.2.2.1
  let cc := Vec.storeu cc (j + 5 * vec_size) vec_size v.2.2.2.2.2.2.1
  let cc := Vec.storeu cc (j + 6 * vec_size) vec_size v.2.2.2.2.2.2.2.1
  let cc := Vec.storeu cc (j + 7 * vec_size) vec_size v.2.2.2.2.2.2.2.2
  some (cc)

/-- Body of the second column loop of `gevm_small_kernel` (4 vectors of columns from `j`).  Every loop runs with the fuel `fuel`. -/
def gevm_small_cols4_fuel {T : Type} (fuel : Nat) (A : Arith T) (vec_size : Nat) (aa : Nat → T) (m n : Nat)
    (bb : Nat → T) (j : Nat) (cc : Buffer T) : Option (Buffer T) :=
  let r1 := Vec.zero A
  let r2 := Vec.zero A
  let r3 := Vec.zero A
  let r4 := Vec.zero A
  (runLoop fuel (fun k => decide (k < m)) 1
    (fun k s => some ((fun k (r1, r2, r3, r4) =>
      let a1 := Vec.set (aa k)
      let b1 := Vec.loadu bb (k * n + j + 0 * vec_size)
      let b2 := Vec.loadu bb (k * n + j + 1 * vec_size)
      let b3 := Vec.loadu bb (k * n + j + 2 * vec_size)
      let b4 := Vec.loadu bb (k * n + j + 3 * vec_size)
      let r1 := Vec.fmadd A a1 b1 r1
      let r2 := Vec.fmadd A a1 b2 r2
      let r3 := Vec.fmadd A a1 b3 r3
      let r4 := Vec.fmadd A a1 b4 r4
      (r1, r2, r3, r4)) k s))
    0 (r1, r2, r3, r4)).bind fun v =>
  let cc := Vec.storeu cc (j + 0 * vec_size) vec_size v.2.1
  let cc := Vec.storeu cc (j + 1 * vec_size) vec_size v.2.2.1
  let cc := Vec.storeu cc (j + 2 * vec_size) vec_size v.2.2.2.1
  let cc := Vec.storeu cc (j + 3 * vec_size) vec_size v.2.2.2.2
  some (cc)

/-- Body of the third column loop of `gevm_small_kernel` (one vector of columns from `j`).  Every loop runs with the fuel `fuel`. -/
def gevm_small_cols1_fuel {T : Type} (fuel : Nat) (A : Arith T) (vec_size : Nat) (aa : Nat → T) (m n : Nat)
    (bb : Nat → T) (j : Nat) (cc : Buffer T) : Option (Buffer T) :=
  let r1 := Vec.zero A
  (runLoop fuel (fun k => decide (k < m)) 1
    (fun k s => some ((fun k r1 =>
      let a1 := Vec.set (aa k)
      let b1 := Vec.loadu bb (k * n + j + 0 * vec_size)
      let r1 := Vec.fmadd A a1 b1 r1
      r1) k s))
    0 r1).bind fun v =>
  let cc := Vec.storeu cc (j + 0 * vec_size) vec_size v.2
  some (cc)

/-- Body of the last column loop of `gevm_small_kernel` (the scalar column `j`).  Every loop runs with the fuel `fuel`. -/
def gevm_small_col_fuel {T : Type} (fuel : Nat) (A : Arith T) (aa : Nat → T) (m n : Nat)
    (bb : Nat → T) (j : Nat) (cc : Buffer T) : Option (Buffer T) :=
  let value := A.zero
  (runLoop fuel (fun k => decide (k < m)) 1
    (fun k s => some ((fun k value => A.add value (A.mul (aa k) (bb (k * n + j)))) k s))
    0 value).bind fun w =>
  let value := w.2
  some (cc.write j value)

/-- The function `gevm_small_kernel<V, T>(aa, m, n, bb, cc)`.  The loop conditions
`j + vec_size * 8 - 1 < n` use truncated subtraction, which agrees with `size_t`
as soon as `vec_size` is at least 1.  Every loop runs with the fuel `fuel`. -/
def gevm_small_kernel_fuel {T : Type} (fuel : Nat) (A : Arith T) (vec_size : Nat) (aa : Nat → T) (m n : Nat)
    (bb : Nat → T) (cc : Buffer T) : Option (Buffer T) :=
  (runLoop fuel (fun j => decide (j + vec_size * 8 - 1 < n)) (vec_size * 8)
    (gevm_small_cols8_fuel fuel A vec_size aa m n bb)
    0 cc).bind fun s =>
  (runLoop fuel (fun j => decide (j + vec_size * 4 - 1 < n)) (vec_size * 4)
    (gevm_small_cols4_fuel fuel A vec_size aa m n bb)
    s.1 s.2).bind fun s =>
  (runLoop fuel (fun j => decide (j + vec_size - 1 < n)) vec_size
    (gevm_small_cols1_fuel fuel A vec_size aa m n bb)
    s.1 s.2).bind fun s =>
  (runLoop fuel (fun j => decide (j < n)) 1
    (gevm_small_col_fuel fuel A aa m n bb)
    s.1 s.2).bind fun s =>
  some (s.2)

/-- Body of the `8-Unrolled Vectorized loop` of `gevm_large_kernel`.  Every loop runs with the fuel `fuel`. -/
def gevm_large_cols8_fuel {T : Type} (fuel : Nat) (A : Arith T) (vec_size : Nat) (aa : Nat → T) (n : Nat)
    (bb : Nat → T) (block_k m_end : Nat) (j : Nat) (cc : Buffer T) : Option (Buffer T) :=
  let r1 := Vec.zero A
  let r2 := Vec.zero A
  let r3 := Vec.zero A
  let r4 := Vec.zero A
  let r5 := Vec.zero A
  let r6 := Vec.zero A
  let r7 := Vec.zero A
  let r8 := Vec.zero A
  (runLoop fuel (fun k => decide (k < m_end)) 1
    (fun k s => some ((fun k (r1, r2, r3, r4, r5, r6, r7, r8) =>
      let a1 := Vec.set (aa k)
      let b1 := Vec.loadu bb (k * n + j + 0 * vec_size)
      let b2 := Vec.loadu bb (k * n + j + 1 * vec_size)
      let b3 := Vec.loadu bb (k * n + j + 2 * vec_size)
      let b4 := Vec.loadu bb (k * n + j + 3 * vec_size)
      let b5 := Vec.loadu bb (k * n + j + 4 * vec_size)
      let b6 := Vec.loadu bb (k * n + j + 5 * vec_size)
      let b7 := Vec.loadu bb (k * n + j + 6 * vec_size)
      let b8 := Vec.loadu bb (k * n + j + 7 * vec_size)
      let r1 := Vec.fmadd A a1 b1 r1
      let r2 := Vec.fmadd A a1 b2 r2
      let r3 := Vec.fmadd A a1 b3 r3
      let r4 := Vec.fmadd A a1 b4 r4
      let r5 := Vec.fmadd A a1 b5 r5
      let r6 := Vec.fmadd A a1 b6 r6
      let r7 := Vec.fmadd A a1 b7 r7
      let r8 := Vec.fmadd A a1 b8 r8
      (r1, r2, r3, r4, r5, r6, r7, r8)) k s))
    block_k (r1, r2, r3, r4, r5, r6, r7, r8)).bind fun v =>
  let cc := Vec.add_storeu A cc (j + 0 * vec_size) vec_size v.2.1
  let cc := Vec.add_storeu A cc (j + 1 * vec_size) vec_size v.2.2.1
  let cc := Vec.add_storeu A cc (j + 2 * vec_size) vec_size v.2.2.2.1
  let cc := Vec.add_storeu A cc (j + 3 * vec_size) vec_size v.2.2.2.2.1
  let cc := Vec.add_storeu A cc (j + 4 * vec_size) vec_size v.2.2.2.2.2.1
  let cc := Vec.add_storeu A cc (j + 5 * vec_size) vec_size v.2.2.2.2.2.2.1
  let cc := Vec.add_storeu A cc (j + 6 * vec_size) vec_size v.2.2.2.2.2.2.2.1
  let cc := Vec.add_storeu A cc (j + 7 * vec_size) vec_size v.2.2.2.2.2.2.2.2
  some (cc)

/-- Body of the `4-Unrolled vectorized loop` of `gevm_large_kernel`.  Every loop runs with the fuel `fuel`. -/
def gevm_large_cols4_fuel {T : Type} (fuel : Nat) (A : Arith T) (vec_size : Nat) (aa : Nat → T) (n : Nat)
    (bb : Nat → T) (block_k m_end : Nat) (j : Nat) (cc : Buffer T) : Option (Buffer T) :=
  let r1 := Vec.zero A
  let r2 := Vec.zero A
  let r3 := Vec.zero A
  let r4 := Vec.zero A
  (runLoop fuel (fun k => decide (k < m_end)) 1
    (fun k s => some ((fun k (r1, r2, r3, r4) =>
      let a1 := Vec.set (aa k)
      let b1 := Vec.loadu bb (k * n + j + 0 * vec_size)
      let b2 := Vec.loadu bb (k * n + j + 1 * vec_size)
      let b3 := Vec.loadu bb (k * n + j + 2 * vec_size)
      let b4 := Vec.loadu bb (k * n + j + 3 * vec_size)
      let r1 := Vec.fmadd A a1 b1 r1
      let r2 := Vec.fmadd A a1 b2 r2
      let r3 := Vec.fmadd A a1 b3 r3
      let r4 := Vec.fmadd A a1 b4 r4
      (r1, r2, r3, r4)) k s))
    block_k (r1, r2, r3, r4)).bind fun v =>
  let cc := Vec.add_storeu A cc (j + 0 * vec_size) vec_size v.2.1
  let cc := Vec.add_storeu A cc (j + 1 * vec_size) vec_size v.2.2.1
  let cc := Vec.add_storeu A cc (j + 2 * vec_size) vec_size v.2.2.2.1
  let cc := Vec.add_storeu A cc (j + 3 * vec_size) vec_size v.2.2.2.2
  some (cc)

/-- Body of the `Base vectorized loop` of `gevm_large_kernel`.  Every loop runs with the fuel `fuel`. -/
def gevm_large_cols1_fuel {T : Type} (fuel : Nat) (A : Arith T) (vec_size : Nat) (aa : Nat → T) (n : Nat)
    (bb : Nat → T) (block_k m_end : Nat) (j : Nat) (cc : Buffer T) : Option (Buffer T) :=
  let r1 := Vec.zero A
  (runLoop fuel (fun k => decide (k < m_end)) 1
    (fun k s => some ((fun k r1 =>
      let a1 := Vec.set (aa k)
      let b1 := Vec.loadu bb (k * n + j + 0 * vec_size)
      let r1 := Vec.fmadd A a1 b1 r1
      r1) k s))
    block_k r1).bind fun v =>
  let cc := Vec.add_storeu A cc (j + 0 * vec_size) vec_size v.2
  some (cc)

/-- Body of the `Remainder non-vectorized loop` of `gevm_large_kernel`.  Every loop runs with the fuel `fuel`. -/
def gevm_large_col_fuel {T : Type} (fuel : Nat) (A : Arith T) (aa : Nat → T) (n : Nat)
    (bb : Nat → T) (block_k m_end : Nat) (j : Nat) (cc : Buffer T) : Option (Buffer T) :=
  let r1 := A.zero
  (runLoop fuel (fun k => decide (k < m_end)) 1
    (fun k s => some ((fun k r1 => A.add r1 (A.mul (aa k) (bb (k * n + j)))) k s))
    block_k r1).bind fun w =>
  let r1 := w.2
  some (cc.add_assign A j r1)

/-- Body of the `block_k` loop of `gevm_large_kernel`, for the column block that
starts at `block_j`.  Every loop runs with the fuel `fuel`. -/
def gevm_large_block_fuel {T : Type} (fuel : Nat) (A : Arith T) (vec_size : Nat) (aa : Nat → T) (m n : Nat)
    (bb : Nat → T) (n_block m_block block_j : Nat) (block_k : Nat) (cc : Buffer T) :
    Option (Buffer T) :=
  let m_end := min (block_k + m_block) m
  let n_end := min (block_j + n_block) n &&& neg_size_t vec_size
  let j := block_j
  -- 8-Unrolled Vectorized loop
  (runLoop fuel (fun j => decide (j + vec_size * 8 - 1 < n_end)) (vec_size * 8)
    (gevm_large_cols8_fuel fuel A vec_size aa n bb block_k m_end)
    j cc).bind fun s =>
  -- 4-Unrolled vectorized loop
  (runLoop fuel (fun j => decide (j + vec_size * 4 - 1 < n_end)) (vec_size * 4)
    (gevm_large_cols4_fuel fuel A vec_size aa n bb block_k m_end)
    s.1 s.2).bind fun s =>
  -- Base vectorized loop
  (runLoop fuel (fun j => decide (j + vec_size - 1 < n_end)) vec_size
    (gevm_large_cols1_fuel fuel A vec_size aa n bb block_k m_end)
    s.1 s.2).bind fun s =>
  -- Remainder non-vectorized loop
  (runLoop fuel (fun j => decide (j < n_end)) 1
    (gevm_large_col_fuel fuel A aa n bb block_k m_end)
    s.1 s.2).bind fun s =>
  some (s.2)

/-- The function `gevm_large_kernel<V, T>(aa, m, n, bb, cc)`; `sizeof_T` is
`sizeof(T)`, so that `n_block = (32 * 1024) / sizeof(T)`.  Every loop runs with the fuel `fuel`. -/
def gevm_large_kernel_fuel {T : Type} (fuel : Nat) (A : Arith T) (vec_size sizeof_T : Nat)
    (aa : Nat → T) (m n : Nat) (bb : Nat → T) (cc : Buffer T) : Option (Buffer T) :=
  let n_block := (32 * 1024) / sizeof_T
  let m_block := if n < n_block then 8 else 4
  (runLoop fuel (fun block_j => decide (block_j < n)) n_block
    (fun block_j cc =>
      (runLoop fuel (fun block_k => decide (block_k < m)) m_block
        (gevm_large_block_fuel fuel A vec_size aa m n bb n_block m_block block_j) 0 cc).bind
        fun w => some w.2)
    0 cc).bind fun w => some w.2

/-- Body of the row loop in the first column loop of `gemm_small_kernel` (8 vectors of columns, row `i`).  Every loop runs with the fuel `fuel`. -/
def gemm_small_c8_r1_fuel {T : Type} (fuel : Nat) (A : Arith T) (vec_size : Nat) (a b : Nat → T)
    (N K j : Nat) (i : Nat) (c : Buffer T) : Option (Buffer T) :=
  let r1 := Vec.zero A
  let r2 := Vec.zero A
  let r3 := Vec.zero A
  let r4 := Vec.zero A
  let r5 := Vec.zero A
  let r6 := Vec.zero A
  let r7 := Vec.zero A
  let r8 := Vec.zero A
  (runLoop fuel (fun k => decide (k < K)) 1
    (fun k s => some ((fun k (r1, r2, r3, r4, r5, r6, r7, r8) =>
      let a1 := Vec.set (a (i * K + k))
      let b1 := Vec.loadu b (k * N + j + vec_size * 0)
      let b2 := Vec.loadu b (k * N + j + vec_size * 1)
      let b3 := Vec.loadu b (k * N + j + vec_size * 2)
      let b4 := Vec.loadu b (k * N + j + vec_size * 3)
      let b5 := Vec.loadu b (k * N + j + vec_size * 4)
      let b6 := Vec.loadu b (k * N + j + vec_size * 5)
      let b7 := Vec.loadu b (k * N + j + vec_size * 6)
      let b8 := Vec.loadu b (k * N + j + vec_size * 7)
      let r1 := Vec.fmadd A a1 b1 r1
      let r2 := Vec.fmadd A a1 b2 r2
      let r3 := Vec.fmadd A a1 b3 r3
      let r4 := Vec.fmadd A a1 b4 r4
      let r5 := Vec.fmadd A a1 b5 r5
      let r6 := Vec.fmadd A a1 b6 r6
      let r7 := Vec.fmadd A a1 b7 r7
      let r8 := Vec.fmadd A a1 b8 r8
      (r1, r2, r3, r4, r5, r6, r7, r8)) k s))
    0 (r1, r2, r3, r4, r5, r6, r7, r8)).bind fun v =>
  let c := Vec.storeu c (i * N + j + 0 * vec_size) vec_size v.2.1
  let c := Vec.storeu c (i * N + j + 1 * vec_size) vec_size v.2.2.1
  let c := Vec.storeu c (i * N + j + 2 * vec_size) vec_size v.2.2.2.1
  let c := Vec.storeu c (i * N + j + 3 * vec_size) vec_size v.2.2.2.2.1
  let c := Vec.storeu c (i * N + j + 4 * vec_size) vec_size v.2.2.2.2.2.1
  let c := Vec.storeu c (i * N + j + 5 * vec_size) vec_size v.2.2.2.2.2.2.1
  let c := Vec.storeu c (i * N + j + 6 * vec_size) vec_size v.2.2.2.2.2.2.2.1
  let c := Vec.storeu c (i * N + j + 7 * vec_size) vec_size v.2.2.2.2.2.2.2.2
  some (c)

/-- Body of the two-row loop in the second column loop of `gemm_small_kernel` (4 vectors of columns, rows `i`, `i+1`).  Every loop runs with the fuel `fuel`. -/
def gemm_small_c4_r2_fuel {T : Type} (fuel : Nat) (A : Arith T) (vec_size : Nat) (a b : Nat → T)
    (N K j : Nat) (i : Nat) (c : Buffer T) : Option (Buffer T) :=
  let r11 := Vec.zero A
  let r12 := Vec.zero A
  let r21 := Vec.zero A
  let r22 := Vec.zero A
  let r31 := Vec.zero A
  let r32 := Vec.zero A
  let r41 := Vec.zero A
  let r42 := Vec.zero A
  (runLoop fuel (fun k => decide (k < K)) 1
    (fun k s => some ((fun k (r11, r12, r21, r22, r31, r32, r41, r42) =>
      let b1 := Vec.loadu b (k * N + j + vec_size * 0)
      let b2 := Vec.loadu b (k * N + j + vec_size * 1)
      let b3 := Vec.loadu b (k * N + j + vec_size * 2)
      let b4 := Vec.loadu b (k * N + j + vec_size * 3)
      let a1 := Vec.set (a ((i + 0) * K + k))
      let a2 := Vec.set (a ((i + 1) * K + k))
      let r11 := Vec.fmadd A a1 b1 r11
      let r12 := Vec.fmadd A a2 b1 r12
      let r21 := Vec.fmadd A a1 b2 r21
      let r22 := Vec.fmadd A a2 b2 r22
      let r31 := Vec.fmadd A a1 b3 r31
      let r32 := Vec.fmadd A a2 b3 r32
      let r41 := Vec.fmadd A a1 b4 r41
      let r42 := Vec.fmadd A a2 b4 r42
      (r11, r12, r21, r22, r31, r32, r41, r42)) k s))
    0 (r11, r12, r21, r22, r31, r32, r41, r42)).bind fun v =>
  let c := Vec.storeu c ((i + 0) * N + j + 0 * vec_size) vec_size v.2.1
  let c := Vec.storeu c ((i + 1) * N + j + 0 * vec_size) vec_size v.2.2.1
  let c := Vec.storeu c ((i + 0) * N + j + 1 * vec_size) vec_size v.2.2.2.1
  let c := Vec.storeu c ((i + 1) * N + j + 1 * vec_size) vec_size v.2.2.2.2.1
  let c := Vec.storeu c ((i + 0) * N + j + 2 * vec_size) vec_size v.2.2.2.2.2.1
  let c := Vec.storeu c ((i + 1) * N + j + 2 * vec_size) vec_size v.2.2.2.2.2.2.1
  let c := Vec.storeu c ((i + 0) * N + j + 3 * vec_size) vec_size v.2.2.2.2.2.2.2.1
  let c := Vec.storeu c ((i + 1) * N + j + 3 * vec_size) vec_size v.2.2.2.2.2.2.2.2
  some (c)

/-- Body of the last-row step in the second column loop of `gemm_small_kernel` (4 vectors of columns, row `i`).  Every loop runs with the fuel `fuel`. -/
def gemm_small_c4_r1_fuel {T : Type} (fuel : Nat) (A : Arith T) (vec_size : Nat) (a b : Nat → T)
    (N K j : Nat) (i : Nat) (c : Buffer T) : Option (Buffer T) :=
  let r11 := Vec.zero A
  let r21 := Vec.zero A
  let r31 := Vec.zero A
  let r41 := Vec.zero A
  (runLoop fuel (fun k => decide (k < K)) 1
    (fun k s => some ((fun k (r11, r21, r31, r41) =>
      let b1 := Vec.loadu b (k * N + j + vec_size * 0)
      let b2 := Vec.loadu b (k * N + j + vec_size * 1)
      let b3 := Vec.loadu b (k * N + j + vec_size * 2)
      let b4 := Vec.loadu b (k * N + j + vec_size * 3)
      let a1 := Vec.set (a ((i + 0) * K + k))
      let r11 := Vec.fmadd A a1 b1 r11
      let r21 := Vec.fmadd A a1 b2 r21
      let r31 := Vec.fmadd A a1 b3 r31
      let r41 := Vec.fmadd A a1 b4 r41
      (r11, r21, r31, r41)) k s))
    0 (r11, r21, r31, r41)).bind fun v =>
  let c := Vec.storeu c (i * N + j + 0 * vec_size) vec_size v.2.1
  let c := Vec.storeu c (i * N + j + 1 * vec_size) vec_size v.2.2.1
  let c := Vec.storeu c (i * N + j + 2 * vec_size) vec_size v.2.2.2.1
  let c := Vec.storeu c (i * N + j + 3 * vec_size) vec_size v.2.2.2.2
  some (c)

/-- Body of the four-row loop in the third column loop of `gemm_small_kernel` (2 vectors of columns, rows `i .. i+3`).  Every loop runs with the fuel `fuel`. -/
def gemm_small_c2_r4_fuel {T : Type} (fuel : Nat) (A : Arith T) (vec_size : Nat) (a b : Nat → T)
    (N K j : Nat) (i : Nat) (c : Buffer T) : Option (Buffer T) :=
  let r11 := Vec.zero A
  let r12 := Vec.zero A
  let r13 := Vec.zero A
  let r14 := Vec.zero A
  let r21 := Vec.zero A
  let r22 := Vec.zero A
  let r23 := Vec.zero A
  let r24 := Vec.zero A
  (runLoop fuel (fun k => decide (k < K)) 1
    (fun k s => some ((fun k (r11, r12, r13, r14, r21, r22, r23, r24) =>
      let b1 := Vec.loadu b (k * N + j + vec_size * 0)
      let b2 := Vec.loadu b (k * N + j + vec_size * 1)
      let a1 := Vec.set (a ((i + 0) * K + k))
      let a2 := Vec.set (a ((i + 1) * K + k))
      let a3 := Vec.set (a ((i + 2) * K + k))
      let a4 := Vec.set (a ((i + 3) * K + k))
      let r11 := Vec.fmadd A a1 b1 r11
      let r12 := Vec.fmadd A a2 b1 r12
      let r13 := Vec.fmadd A a3 b1 r13
      let r14 := Vec.fmadd A a4 b1 r14
      let r21 := Vec.fmadd A a1 b2 r21
      let r22 := Vec.fmadd A a2 b2 r22
      let r23 := Vec.fmadd A a3 b2 r23
      let r24 := Vec.fmadd A a4 b2 r24
      (r11, r12, r13, r14, r21, r22, r23, r24)) k s))
    0 (r11, r12, r13, r14, r21, r22, r23, r24)).bind fun v =>
  let c := Vec.storeu c ((i + 0) * N + j + 0 * vec_size) vec_size v.2.1
  let c := Vec.storeu c ((i + 1) * N + j + 0 * vec_size) vec_size v.2.2.1
  let c := Vec.storeu c ((i + 2) * N + j + 0 * vec_size) vec_size v.2.2.2.1
  let c := Vec.storeu c ((i + 3) * N + j + 0 * vec_size) vec_size v.2.2.2.2.1
  let c := Vec.storeu c ((i + 0) * N + j + 1 * vec_size) vec_size v.2.2.2.2.2.1
  let c := Vec.storeu c ((i + 1) * N + j + 1 * vec_size) vec_size v.2.2.2.2.2.2.1
  let c := Vec.storeu c ((i + 2) * N + j + 1 * vec_size) vec_size v.2.2.2.2.2.2.2.1
  let c := Vec.storeu c ((i + 3) * N + j + 1 * vec_size) vec_size v.2.2.2.2.2.2.2.2
  some (c)

/-- Body of the two-row loop in the third column loop of `gemm_small_kernel` (2 vectors of columns, rows `i`, `i+1`).  Every loop runs with the fuel `fuel`. -/
def gemm_small_c2_r2_fuel {T : Type} (fuel : Nat) (A : Arith T) (vec_size : Nat) (a b : Nat → T)
    (N K j : Nat) (i : Nat) (c : Buffer T) : Option (Buffer T) :=
  let r11 := Vec.zero A
  let r12 := Vec.zero A
  let r21 := Vec.zero A
  let r22 := Vec.zero A
  (runLoop fuel (fun k => decide (k < K)) 1
    (fun k s => some ((fun k (r11, r12, r21, r22) =>
      let b1 := Vec.loadu b (k * N + j + vec_size * 0)
      let b2 := Vec.loadu b (k * N + j + vec_size * 1)
      let a1 := Vec.set (a ((i + 0) * K + k))
      let a2 := Vec.set (a ((i + 1) * K + k))
      let r11 := Vec.fmadd A a1 b1 r11
      let r12 := Vec.fmadd A a2 b1 r12
      let r21 := Vec.fmadd A a1 b2 r21
      let r22 := Vec.fmadd A a2 b2 r22
      (r11, r12, r21, r22)) k s))
    0 (r11, r12, r21, r22)).bind fun v =>
  let c := Vec.storeu c ((i + 0) * N + j + 0 * vec_size) vec_size v.2.1
  let c := Vec.storeu c ((i + 1) * N + j + 0 * vec_size) vec_size v.2.2.1
  let c := Vec.storeu c ((i + 0) * N + j + 1 * vec_size) vec_size v.2.2.2.1
  let c := Vec.storeu c ((i + 1) * N + j + 1 * vec_size) vec_size v.2.2.2.2
  some (c)

/-- Body of the last-row step in the third column loop of `gemm_small_kernel` (2 vectors of columns, row `i`).  Every loop runs with the fuel `fuel`. -/
def gemm_small_c2_r1_fuel {T : Type} (fuel : Nat) (A : Arith T) (vec_size : Nat) (a b : Nat → T)
    (N K j : Nat) (i : Nat) (c : Buffer T) : Option (Buffer T) :=
  let r11 := Vec.zero A
  let r21 := Vec.zero A
  (runLoop fuel (fun k => decide (k < K)) 1
    (fun k s => some ((fun k (r11, r21) =>
      let b1 := Vec.loadu b (k * N + j + vec_size * 0)
      let b2 := Vec.loadu b (k * N + j + vec_size * 1)
      let a1 := Vec.set (a ((i + 0) * K + k))
      let r11 := Vec.fmadd A a1 b1 r11
      let r21 := Vec.fmadd A a1 b2 r21
      (r11, r21)) k s))
    0 (r11, r21)).bind fun v =>
  let c := Vec.storeu c ((i + 0) * N + j + 0 * vec_size) vec_size v.2.1
  let c := Vec.storeu c ((i + 0) * N + j + 1 * vec_size) vec_size v.2.2
  some (c)

/-- Body of the two-row loop in the fourth column loop of `gemm_small_kernel` (1 vector of columns, rows `i`, `i+1`).  Every loop runs with the fuel `fuel`. -/
def gemm_small_c1_r2_fuel {T : Type} (fuel : Nat) (A : Arith T) (vec_size : Nat) (a b : Nat → T)
    (N K j : Nat) (i : Nat) (c : Buffer T) : Option (Buffer T) :=
  let r1 := Vec.zero A
  let r2 := Vec.zero A
  (runLoop fuel (fun k => decide (k < K)) 1
    (fun k s => some ((fun k (r1, r2) =>
      let b1 := Vec.loadu b (k * N + j + vec_size * 0)
      let a1 := Vec.set (a ((i + 0) * K + k))
      let a2 := Vec.set (a ((i + 1) * K + k))
      let r1 := Vec.fmadd A a1 b1 r1
      let r2 := Vec.fmadd A a2 b1 r2
      (r1, r2)) k s))
    0 (r1, r2)).bind fun v =>
  let c := Vec.storeu c ((i + 0) * N + j) vec_size v.2.1
  let c := Vec.storeu c ((i + 1) * N + j) vec_size v.2.2
  some (c)

/-- Body of the last-row step in the fourth column loop of `gemm_small_kernel` (1 vector of columns, row `i`).  Every loop runs with the fuel `fuel`. -/
def gemm_small_c1_r1_fuel {T : Type} (fuel : Nat) (A : Arith T) (vec_size : Nat) (a b : Nat → T)
    (N K j : Nat) (i : Nat) (c : Buffer T) : Option (Buffer T) :=
  let r1 := Vec.zero A
  (runLoop fuel (fun k => decide (k < K)) 1
    (fun k s => some ((fun k r1 =>
      let b1 := Vec.loadu b (k * N + j + vec_size * 0)
      let a1 := Vec.set (a ((i + 0) * K + k))
      let r1 := Vec.fmadd A a1 b1 r1
      r1) k s))
    0 r1).bind fun v =>
  let c := Vec.storeu c ((i + 0) * N + j) vec_size v.2
  some (c)

/-- Body of the two-row loop in the two-scalar-column loop of `gemm_small_kernel`
(columns `j1 = j + 0`, `j2 = j + 1`, rows `i`, `i+1`).  Every loop runs with the fuel `fuel`. -/
def gemm_small_s2_r2_fuel {T : Type} (fuel : Nat) (A : Arith T) (a b : Nat → T)
    (N K j : Nat) (i : Nat) (c : Buffer T) : Option (Buffer T) :=
  let j1 := j + 0
  let j2 := j + 1
  let r11 := A.zero
  let r12 := A.zero
  let r21 := A.zero
  let r22 := A.zero
  (runLoop fuel (fun k => decide (k < K)) 1
    (fun k s => some ((fun k (r11, r12, r21, r22) =>
      let r11 := A.add r11 (A.mul (a ((i + 0) * K + k)) (b (k * N + j1)))
      let r21 := A.add r21 (A.mul (a ((i + 0) * K + k)) (b (k * N + j2)))
      let r12 := A.add r12 (A.mul (a ((i + 1) * K + k)) (b (k * N + j1)))
      let r22 := A.add r22 (A.mul (a ((i + 1) * K + k)) (b (k * N + j2)))
      (r11, r12, r21, r22)) k s))
    0 (r11, r12, r21, r22)).bind fun v =>
  let c := c.write ((i + 0) * N + j1) v.2.1
  let c := c.write ((i + 0) * N + j2) v.2.2.2.1
  let c := c.write ((i + 1) * N + j1) v.2.2.1
  let c := c.write ((i + 1) * N + j2) v.2.2.2.2
  some (c)

/-- Body of the last-row step in the two-scalar-column loop of `gemm_small_kernel`
(columns `j1 = j + 0`, `j2 = j + 1`, row `i`).  Every loop runs with the fuel `fuel`. -/
def gemm_small_s2_r1_fuel {T : Type} (fuel : Nat) (A : Arith T) (a b : Nat → T)
    (N K j : Nat) (i : Nat) (c : Buffer T) : Option (Buffer T) :=
  let j1 := j + 0
  let j2 := j + 1
  let r1 := A.zero
  let r2 := A.zero
  (runLoop fuel (fun k => decide (k < K)) 1
    (fun k s => some ((fun k (r1, r2) =>
      let r1 := A.add r1 (A.mul (a (i * K + k)) (b (k * N + j1)))
      let r2 := A.add r2 (A.mul (a (i * K + k)) (b (k * N + j2)))
      (r1, r2)) k s))
    0 (r1, r2)).bind fun v =>
  let c := c.write (i * N + j1) v.2.1
  let c := c.write (i * N + j2) v.2.2
  some (c)

/-- Body of the two-row loop of the last scalar column of `gemm_small_kernel`
(column `j`, rows `i`, `i+1`).  Every loop runs with the fuel `fuel`. -/
def gemm_small_s1_r2_fuel {T : Type} (fuel : Nat) (A : Arith T) (a b : Nat → T)
    (N K j : Nat) (i : Nat) (c : Buffer T) : Option (Buffer T) :=
  let r1 := A.zero
  let r2 := A.zero
  (runLoop fuel (fun k => decide (k < K)) 1
    (fun k s => some ((fun k (r1, r2) =>
      let r1 := A.add r1 (A.mul (a ((i + 0) * K + k)) (b (k * N + j)))
      let r2 := A.add r2 (A.mul (a ((i + 1) * K + k)) (b (k * N + j)))
      (r1, r2)) k s))
    0 (r1, r2)).bind fun v =>
  let c := c.write ((i + 0) * N + j) v.2.1
  let c := c.write ((i + 1) * N + j) v.2.2
  some (c)

/-- Body of the last-row step of the last scalar column of `gemm_small_kernel`
(column `j`, row `i`).  Every loop runs with the fuel `fuel`. -/
def gemm_small_s1_r1_fuel {T : Type} (fuel : Nat) (A : Arith T) (a b : Nat → T)
    (N K j : Nat) (i : Nat) (c : Buffer T) : Option (Buffer T) :=
  let r1 := A.zero
  (runLoop fuel (fun k => decide (k < K)) 1
    (fun k s => some ((fun k r1 => A.add r1 (A.mul (a (i * K + k)) (b (k * N + j)))) k s))
    0 r1).bind fun v =>
  some (c.write (i * N + j) v.2)

/-- Body of the first column loop of `gemm_small_kernel`: all rows, for the 8 vectors
of columns from `j`.  Every loop runs with the fuel `fuel`. -/
def gemm_small_cols8_fuel {T : Type} (fuel : Nat) (A : Arith T) (vec_size : Nat) (a b : Nat → T)
    (M N K : Nat) (j : Nat) (c : Buffer T) : Option (Buffer T) :=
  (runLoop fuel (fun i => decide (i < M)) 1
    (gemm_small_c8_r1_fuel fuel A vec_size a b N K j)
    0 c).bind fun w => some w.2

/-- Body of the second column loop of `gemm_small_kernel`: rows two at a time, then
the last row, for the 4 vectors of columns from `j`.  Every loop runs with the fuel `fuel`. -/
def gemm_small_cols4_fuel {T : Type} (fuel : Nat) (A : Arith T) (vec_size : Nat) (a b : Nat → T)
    (M N K : Nat) (j : Nat) (c : Buffer T) : Option (Buffer T) :=
  (runLoop fuel (fun i => decide (i + 1 < M)) 2
    (gemm_small_c4_r2_fuel fuel A vec_size a b N K j)
    0 c).bind fun t =>
  if t.1 < M then gemm_small_c4_r1_fuel fuel A vec_size a b N K j t.1 t.2 else some (t.2)

/-- Body of the third column loop of `gemm_small_kernel`: rows four at a time, two at
a time, then the last row, for the 2 vectors of columns from `j`.  Every loop runs with the fuel `fuel`. -/
def gemm_small_cols2_fuel {T : Type} (fuel : Nat) (A : Arith T) (vec_size : Nat) (a b : Nat → T)
    (M N K : Nat) (j : Nat) (c : Buffer T) : Option (Buffer T) :=
  (runLoop fuel (fun i => decide (i + 3 < M)) 4
    (gemm_small_c2_r4_fuel fuel A vec_size a b N K j)
    0 c).bind fun t =>
  (runLoop fuel (fun i => decide (i + 1 < M)) 2
    (gemm_small_c2_r2_fuel fuel A vec_size a b N K j)
    t.1 t.2).bind fun t =>
  if t.1 < M then gemm_small_c2_r1_fuel fuel A vec_size a b N K j t.1 t.2 else some (t.2)

/-- Body of the fourth column loop of `gemm_small_kernel`: rows two at a time, then
the last row, for the vector of columns from `j`.  Every loop runs with the fuel `fuel`. -/
def gemm_small_cols1_fuel {T : Type} (fuel : Nat) (A : Arith T) (vec_size : Nat) (a b : Nat → T)
    (M N K : Nat) (j : Nat) (c : Buffer T) : Option (Buffer T) :=
  (runLoop fuel (fun i => decide (i + 1 < M)) 2
    (gemm_small_c1_r2_fuel fuel A vec_size a b N K j)
    0 c).bind fun t =>
  if t.1 < M then gemm_small_c1_r1_fuel fuel A vec_size a b N K j t.1 t.2 else some (t.2)

/-- Body of the fifth column loop of `gemm_small_kernel`: rows two at a time, then the
last row, for the two scalar columns `j`, `j + 1`.  Every loop runs with the fuel `fuel`. -/
def gemm_small_scalar2_fuel {T : Type} (fuel : Nat) (A : Arith T) (a b : Nat → T)
    (M N K : Nat) (j : Nat) (c : Buffer T) : Option (Buffer T) :=
  (runLoop fuel (fun i => decide (i + 1 < M)) 2
    (gemm_small_s2_r2_fuel fuel A a b N K j)
    0 c).bind fun t =>
  if t.1 < M then gemm_small_s2_r1_fuel fuel A a b N K j t.1 t.2 else some (t.2)

/-- Body of the final `if (j < N)` of `gemm_small_kernel`: rows two at a time, then the
last row, for the scalar column `j`.  Every loop runs with the fuel `fuel`. -/
def gemm_small_scalar1_fuel {T : Type} (fuel : Nat) (A : Arith T) (a b : Nat → T)
    (M N K : Nat) (j : Nat) (c : Buffer T) : Option (Buffer T) :=
  (runLoop fuel (fun i => decide (i + 1 < M)) 2
    (gemm_small_s1_r2_fuel fuel A a b N K j)
    0 c).bind fun t =>
  if t.1 < M then gemm_small_s1_r1_fuel fuel A a b N K j t.1 t.2 else some (t.2)

/-- The function `gemm_small_kernel<V, T>(a, b, c, M, N, K)`.  The loop conditions
`j + vec_size * 8 - 1 < N` use truncated subtraction, which agrees with `size_t`
as soon as `vec_size` is at least 1.  Every loop runs with the fuel `fuel`. -/
def gemm_small_kernel_fuel {T : Type} (fuel : Nat) (A : Arith T) (vec_size : Nat) (a b : Nat → T)
    (c : Buffer T) (M N K : Nat) : Option (Buffer T) :=
  (runLoop fuel (fun j => decide (j + vec_size * 8 - 1 < N)) (vec_size * 8)
    (gemm_small_cols8_fuel fuel A vec_size a b M N K)
    0 c).bind fun s =>
  (runLoop fuel (fun j => decide (j + (4 * vec_size) - 1 < N)) (4 * vec_size)
    (gemm_small_cols4_fuel fuel A vec_size a b M N K)
    s.1 s.2).bind fun s =>
  (runLoop fuel (fun j => decide (j + (2 * vec_size) - 1 < N)) (2 * vec_size)
    (gemm_small_cols2_fuel fuel A vec_size a b M N K)
    s.1 s.2).bind fun s =>
  (runLoop fuel (fun j => decide (j + vec_size - 1 < N)) vec_size
    (gemm_small_cols1_fuel fuel A vec_size a b M N K)
    s.1 s.2).bind fun s =>
  (runLoop fuel (fun j => decide (j + 1 < N)) 2
    (gemm_small_scalar2_fuel fuel A a b M N K)
    s.1 s.2).bind fun s =>
  if s.1 < N then gemm_small_scalar1_fuel fuel A a b M N K s.1 s.2 else some (s.2)

/-- Body of the two-row loop in the first column loop of `gemm_large_kernel` (4 vectors of columns, rows `i`, `i+1`, shared indices `block_k .. k_end`).  Every loop runs with the fuel `fuel`. -/
def gemm_large_c4_r2_fuel {T : Type} (fuel : Nat) (A : Arith T) (vec_size : Nat) (a b : Nat → T)
    (N K block_k k_end j : Nat) (i : Nat) (c : Buffer T) : Option (Buffer T) :=
  let j1 := j + vec_size * 1
  let j2 := j + vec_size * 2
  let j3 := j + vec_size * 3
  let r11 := c.loadu ((i + 0) * N + j)
  let r12 := c.loadu ((i + 0) * N + j1)
  let r13 := c.loadu ((i + 0) * N + j2)
  let r14 := c.loadu ((i + 0) * N + j3)
  let r21 := c.loadu ((i + 1) * N + j)
  let r22 := c.loadu ((i + 1) * N + j1)
  let r23 := c.loadu ((i + 1) * N + j2)
  let r24 := c.loadu ((i + 1) * N + j3)
  (runLoop fuel (fun k => decide (k < k_end)) 1
    (fun k s => some ((fun k (r11, r12, r13, r14, r21, r22, r23, r24) =>
      let a1 := Vec.set (a ((i + 0) * K + k))
      let a2 := Vec.set (a ((i + 1) * K + k))
      let b1 := Vec.loadu b (k * N + j)
      let b2 := Vec.loadu b (k * N + j1)
      let b3 := Vec.loadu b (k * N + j2)
      let b4 := Vec.loadu b (k * N + j3)
      let r11 := Vec.fmadd A a1 b1 r11
      let r12 := Vec.fmadd A a1 b2 r12
      let r13 := Vec.fmadd A a1 b3 r13
      let r14 := Vec.fmadd A a1 b4 r14
      let r21 := Vec.fmadd A a2 b1 r21
      let r22 := Vec.fmadd A a2 b2 r22
      let r23 := Vec.fmadd A a2 b3 r23
      let r24 := Vec.fmadd A a2 b4 r24
      (r11, r12, r13, r14, r21, r22, r23, r24)) k s))
    block_k (r11, r12, r13, r14, r21, r22, r23, r24)).bind fun v =>
  let c := Vec.storeu c ((i + 0) * N + j) vec_size v.2.1
  let c := Vec.storeu c ((i + 0) * N + j1) vec_size v.2.2.1
  let c := Vec.storeu c ((i + 0) * N + j2) vec_size v.2.2.2.1
  let c := Vec.storeu c ((i + 0) * N + j3) vec_size v.2.2.2.2.1
  let c := Vec.storeu c ((i + 1) * N + j) vec_size v.2.2.2.2.2.1
  let c := Vec.storeu c ((i + 1) * N + j1) vec_size v.2.2.2.2.2.2.1
  let c := Vec.storeu c ((i + 1) * N + j2) vec_size v.2.2.2.2.2.2.2.1
  let c := Vec.storeu c ((i + 1) * N + j3) vec_size v.2.2.2.2.2.2.2.2
  some (c)

/-- Body of the last-row step in the first column loop of `gemm_large_kernel` (4 vectors of columns, row `i`).  Every loop runs with the fuel `fuel`. -/
def gemm_large_c4_r1_fuel {T : Type} (fuel : Nat) (A : Arith T) (vec_size : Nat) (a b : Nat → T)
    (N K block_k k_end j : Nat) (i : Nat) (c : Buffer T) : Option (Buffer T) :=
  let j1 := j + vec_size * 1
  let j2 := j + vec_size * 2
  let j3 := j + vec_size * 3
  let r1 := c.loadu ((i + 0) * N + j)
  let r2 := c.loadu ((i + 0) * N + j1)
  let r3 := c.loadu ((i + 0) * N + j2)
  let r4 := c.loadu ((i + 0) * N + j3)
  (runLoop fuel (fun k => decide (k < k_end)) 1
    (fun k s => some ((fun k (r1, r2, r3, r4) =>
      let a1 := Vec.set (a ((i + 0) * K + k))
      let b1 := Vec.loadu b (k * N + j)
      let b2 := Vec.loadu b (k * N + j1)
      let b3 := Vec.loadu b (k * N + j2)
      let b4 := Vec.loadu b (k * N + j3)
      let r1 := Vec.fmadd A a1 b1 r1
      let r2 := Vec.fmadd A a1 b2 r2
      let r3 := Vec.fmadd A a1 b3 r3
      let r4 := Vec.fmadd A a1 b4 r4
      (r1, r2, r3, r4)) k s))
    block_k (r1, r2, r3, r4)).bind fun v =>
  let c := Vec.storeu c ((i + 0) * N + j) vec_size v.2.1
  let c := Vec.storeu c ((i + 0) * N + j1) vec_size v.2.2.1
  let c := Vec.storeu c ((i + 0) * N + j2) vec_size v.2.2.2.1
  let c := Vec.storeu c ((i + 0) * N + j3) vec_size v.2.2.2.2
  some (c)

/-- Body of the four-row loop in the second column loop of `gemm_large_kernel` (2 vectors of columns, rows `i .. i+3`).  Every loop runs with the fuel `fuel`. -/
def gemm_large_c2_r4_fuel {T : Type} (fuel : Nat) (A : Arith T) (vec_size : Nat) (a b : Nat → T)
    (N K block_k k_end j : Nat) (i : Nat) (c : Buffer T) : Option (Buffer T) :=
  let j1 := j + vec_size
  let r11 := c.loadu ((i + 0) * N + j)
  let r12 := c.loadu ((i + 0) * N + j1)
  let r21 := c.loadu ((i + 1) * N + j)
  let r22 := c.loadu ((i + 1) * N + j1)
  let r31 := c.loadu ((i + 2) * N + j)
  let r32 := c.loadu ((i + 2) * N + j1)
  let r41 := c.loadu ((i + 3) * N + j)
  let r42 := c.loadu ((i + 3) * N + j1)
  (runLoop fuel (fun k => decide (k < k_end)) 1
    (fun k s => some ((fun k (r11, r12, r21, r22, r31, r32, r41, r42) =>
      let a1 := Vec.set (a ((i + 0) * K + k))
      let a2 := Vec.set (a ((i + 1) * K + k))
      let a3 := Vec.set (a ((i + 2) * K + k))
      let a4 := Vec.set (a ((i + 3) * K + k))
      let b1 := Vec.loadu b (k * N + j)
      let b2 := Vec.loadu b (k * N + j1)
      let r11 := Vec.fmadd A a1 b1 r11
      let r12 := Vec.fmadd A a1 b2 r12
      let r21 := Vec.fmadd A a2 b1 r21
      let r22 := Vec.fmadd A a2 b2 r22
      let r31 := Vec.fmadd A a3 b1 r31
      let r32 := Vec.fmadd A a3 b2 r32
      let r41 := Vec.fmadd A a4 b1 r41
      let r42 := Vec.fmadd A a4 b2 r42
      (r11, r12, r21, r22, r31, r32, r41, r42)) k s))
    block_k (r11, r12, r21, r22, r31, r32, r41, r42)).bind fun v =>
  let c := Vec.storeu c ((i + 0) * N + j) vec_size v.2.1
  let c := Vec.storeu c ((i + 0) * N + j1) vec_size v.2.2.1
  let c := Vec.storeu c ((i + 1) * N + j) vec_size v.2.2.2.1
  let c := Vec.storeu c ((i + 1) * N + j1) vec_size v.2.2.2.2.1
  let c := Vec.storeu c ((i + 2) * N + j) vec_size v.2.2.2.2.2.1
  let c := Vec.storeu c ((i + 2) * N + j1) vec_size v.2.2.2.2.2.2.1
  let c := Vec.storeu c ((i + 3) * N + j) vec_size v.2.2.2.2.2.2.2.1
  let c := Vec.storeu c ((i + 3) * N + j1) vec_size v.2.2.2.2.2.2.2.2
  some (c)

/-- Body of the two-row loop in the second column loop of `gemm_large_kernel` (2 vectors of columns, rows `i`, `i+1`).  Every loop runs with the fuel `fuel`. -/
def gemm_large_c2_r2_fuel {T : Type} (fuel : Nat) (A : Arith T) (vec_size : Nat) (a b : Nat → T)
    (N K block_k k_end j : Nat) (i : Nat) (c : Buffer T) : Option (Buffer T) :=
  let j1 := j + vec_size
  let r11 := c.loadu ((i + 0) * N + j)
  let r12 := c.loadu ((i + 0) * N + j1)
  let r21 := c.loadu ((i + 1) * N + j)
  let r22 := c.loadu ((i + 1) * N + j1)
  (runLoop fuel (fun k => decide (k < k_end)) 1
    (fun k s => some ((fun k (r11, r12, r21, r22) =>
      let a1 := Vec.set (a ((i + 0) * K + k))
      let a2 := Vec.set (a ((i + 1) * K + k))
      let b1 := Vec.loadu b (k * N + j)
      let b2 := Vec.loadu b (k * N + j1)
      let r11 := Vec.fmadd A a1 b1 r11
      let r12 := Vec.fmadd A a1 b2 r12
      let r21 := Vec.fmadd A a2 b1 r21
      let r22 := Vec.fmadd A a2 b2 r22
      (r11, r12, r21, r22)) k s))
    block_k (r11, r12, r21, r22)).bind fun v =>
  let c := Vec.storeu c ((i + 0) * N + j) vec_size v.2.1
  let c := Vec.storeu c ((i + 0) * N + j1) vec_size v.2.2.1
  let c := Vec.storeu c ((i + 1) * N + j) vec_size v.2.2.2.1
  let c := Vec.storeu c ((i + 1) * N + j1) vec_size v.2.2.2.2
  some (c)

/-- Body of the last-row step in the second column loop of `gemm_large_kernel` (2 vectors of columns, row `i`).  Every loop runs with the fuel `fuel`. -/
def gemm_large_c2_r1_fuel {T : Type} (fuel : Nat) (A : Arith T) (vec_size : Nat) (a b : Nat → T)
    (N K block_k k_end j : Nat) (i : Nat) (c : Buffer T) : Option (Buffer T) :=
  let j1 := j + vec_size
  let r1 := c.loadu ((i + 0) * N + j)
  let r2 := c.loadu ((i + 0) * N + j1)
  (runLoop fuel (fun k => decide (k < k_end)) 1
    (fun k s => some ((fun k (r1, r2) =>
      let a1 := Vec.set (a ((i + 0) * K + k))
      let b1 := Vec.loadu b (k * N + j)
      let b2 := Vec.loadu b (k * N + j1)
      let r1 := Vec.fmadd A a1 b1 r1
      let r2 := Vec.fmadd A a1 b2 r2
      (r1, r2)) k s))
    block_k (r1, r2)).bind fun v =>
  let c := Vec.storeu c ((i + 0) * N + j) vec_size v.2.1
  let c := Vec.storeu c ((i + 0) * N + j1) vec_size v.2.2
  some (c)

/-- Body of the row loop in the third column loop of `gemm_large_kernel` (1 vector of columns, row `i`).  Every loop runs with the fuel `fuel`. -/
def gemm_large_c1_r1_fuel {T : Type} (fuel : Nat) (A : Arith T) (vec_size : Nat) (a b : Nat → T)
    (N K block_k k_end j : Nat) (i : Nat) (c : Buffer T) : Option (Buffer T) :=
  let r1 := c.loadu ((i + 0) * N + j)
  (runLoop fuel (fun k => decide (k < k_end)) 1
    (fun k s => some ((fun k r1 =>
      let a1 := Vec.set (a ((i + 0) * K + k))
      let b1 := Vec.loadu b (k * N + j)
      let r1 := Vec.fmadd A a1 b1 r1
      r1) k s))
    block_k r1).bind fun v =>
  let c := Vec.storeu c ((i + 0) * N + j) vec_size v.2
  some (c)

/-- Body of the row loop in the last (scalar) column loop of `gemm_large_kernel`
(column `j`, row `i`).  Every loop runs with the fuel `fuel`. -/
def gemm_large_s1_r1_fuel {T : Type} (fuel : Nat) (A : Arith T) (a b : Nat → T)
    (N K block_k k_end j : Nat) (i : Nat) (c : Buffer T) : Option (Buffer T) :=
  let value := c.val (i * N + j)
  (runLoop fuel (fun k => decide (k < k_end)) 1
    (fun k s => some ((fun k value => A.add value (A.mul (a (i * K + k)) (b (k * N + j)))) k s))
    block_k value).bind fun v =>
  some (c.write (i * N + j) v.2)

/-- Body of the first column loop of `gemm_large_kernel`: rows `block_i .. i_end` two
at a time, then the last row, for the 4 vectors of columns from `j`.  Every loop runs with the fuel `fuel`. -/
def gemm_large_cols4_fuel {T : Type} (fuel : Nat) (A : Arith T) (vec_size : Nat) (a b : Nat → T)
    (N K block_k k_end block_i i_end : Nat) (j : Nat) (c : Buffer T) : Option (Buffer T) :=
  let i := block_i
  (runLoop fuel (fun i => decide (i + 1 < i_end)) 2
    (gemm_large_c4_r2_fuel fuel A vec_size a b N K block_k k_end j)
    i c).bind fun t =>
  if t.1 < i_end then gemm_large_c4_r1_fuel fuel A vec_size a b N K block_k k_end j t.1 t.2 else some (t.2)

/-- Body of the second column loop of `gemm_large_kernel`: rows four at a time, two at
a time, then the last row, for the 2 vectors of columns from `j`.  Every loop runs with the fuel `fuel`. -/
def gemm_large_cols2_fuel {T : Type} (fuel : Nat) (A : Arith T) (vec_size : Nat) (a b : Nat → T)
    (N K block_k k_end block_i i_end : Nat) (j : Nat) (c : Buffer T) : Option (Buffer T) :=
  let i := block_i
  (runLoop fuel (fun i => decide (i + 3 < i_end)) 4
    (gemm_large_c2_r4_fuel fuel A vec_size a b N K block_k k_end j)
    i c).bind fun t =>
  (runLoop fuel (fun i => decide (i + 2 - 1 < i_end)) 2
    (gemm_large_c2_r2_fuel fuel A vec_size a b N K block_k k_end j)
    t.1 t.2).bind fun t =>
  if t.1 < i_end then gemm_large_c2_r1_fuel fuel A vec_size a b N K block_k k_end j t.1 t.2 else some (t.2)

/-- Body of the third column loop of `gemm_large_kernel`: every row of the tile, for
the vector of columns from `j`.  Every loop runs with the fuel `fuel`. -/
def gemm_large_cols1_fuel {T : Type} (fuel : Nat) (A : Arith T) (vec_size : Nat) (a b : Nat → T)
    (N K block_k k_end block_i i_end : Nat) (j : Nat) (c : Buffer T) : Option (Buffer T) :=
  (runLoop fuel (fun i => decide (i < i_end)) 1
    (gemm_large_c1_r1_fuel fuel A vec_size a b N K block_k k_end j)
    block_i c).bind fun w => some w.2

/-- Body of the last column loop of `gemm_large_kernel`: every row of the tile, for
the scalar column `j`.  Every loop runs with the fuel `fuel`. -/
def gemm_large_scalar1_fuel {T : Type} (fuel : Nat) (A : Arith T) (a b : Nat → T)
    (N K block_k k_end block_i i_end : Nat) (j : Nat) (c : Buffer T) : Option (Buffer T) :=
  (runLoop fuel (fun i => decide (i < i_end)) 1
    (gemm_large_s1_r1_fuel fuel A a b N K block_k k_end j)
    block_i c).bind fun w => some w.2

/-- Body of the `block_k` loop of `gemm_large_kernel`, for the tile of rows
`block_i .. i_end` and columns `block_j .. j_end`.  Every loop runs with the fuel `fuel`. -/
def gemm_large_block_fuel {T : Type} (fuel : Nat) (A : Arith T) (vec_size : Nat) (a b : Nat → T)
    (N K k_block_size block_j j_end block_i i_end : Nat) (block_k : Nat) (c : Buffer T) :
    Option (Buffer T) :=
  let k_end := min (block_k + k_block_size) K
  let j := block_j
  (runLoop fuel (fun j => decide (j + vec_size * 4 - 1 < j_end)) (vec_size * 4)
    (gemm_large_cols4_fuel fuel A vec_size a b N K block_k k_end block_i i_end)
    j c).bind fun s =>
  (runLoop fuel (fun j => decide (j + vec_size * 2 - 1 < j_end)) (vec_size * 2)
    (gemm_large_cols2_fuel fuel A vec_size a b N K block_k k_end block_i i_end)
    s.1 s.2).bind fun s =>
  (runLoop fuel (fun j => decide (j + vec_size - 1 < j_end)) vec_size
    (gemm_large_cols1_fuel fuel A vec_size a b N K block_k k_end block_i i_end)
    s.1 s.2).bind fun s =>
  (runLoop fuel (fun j => decide (j < j_end)) 1
    (gemm_large_scalar1_fuel fuel A a b N K block_k k_end block_i i_end)
    s.1 s.2).bind fun s =>
  some (s.2)

/-- The tile-zeroing loops of `gemm_large_kernel`: `c[i * N + j] = 0` for the rows
`block_i .. i_end` and the columns `block_j .. j_end`.  Every loop runs with the fuel `fuel`. -/
def gemm_large_zero_fuel {T : Type} (fuel : Nat) (A : Arith T) (N block_j j_end block_i i_end : Nat)
    (c : Buffer T) : Option (Buffer T) :=
  (runLoop fuel (fun i => decide (i < i_end)) 1
    (fun i c =>
      (runLoop fuel (fun j => decide (j < j_end)) 1
        (fun j c => some (c.write (i * N + j) A.zero)) block_j c).bind fun w => some w.2)
    block_i c).bind fun w => some w.2

/-- Body of the `block_i` loop of `gemm_large_kernel`: the tile of rows
`block_i .. i_end` and columns `block_j .. j_end` is zeroed, then every block of
shared indices is accumulated into it.  Every loop runs with the fuel `fuel`. -/
def gemm_large_tile_fuel {T : Type} (fuel : Nat) (A : Arith T) (vec_size : Nat) (a b : Nat → T)
    (M N K m_block_size k_block_size block_j j_end : Nat) (block_i : Nat) (c : Buffer T) :
    Option (Buffer T) :=
  let i_end := min (block_i + m_block_size) M
  (gemm_large_zero_fuel fuel A N block_j j_end block_i i_end c).bind fun c =>
  (runLoop fuel (fun block_k => decide (block_k < K)) k_block_size
    (gemm_large_block_fuel fuel A vec_size a b N K k_block_size block_j j_end block_i i_end)
    0 c).bind fun w => some w.2

/-- The function `gemm_large_kernel<V, T>(a, b, c, M, N, K)`.  Every loop runs with the fuel `fuel`. -/
def gemm_large_kernel_fuel {T : Type} (fuel : Nat) (A : Arith T) (vec_size : Nat) (a b : Nat → T)
    (c : Buffer T) (M N K : Nat) : Option (Buffer T) :=
  let n_block_size := 128
  let m_block_size := 64
  let k_block_size := 128
  (runLoop fuel (fun block_j => decide (block_j < N)) n_block_size
    (fun block_j c =>
      let j_end := min (block_j + n_block_size) N
      (runLoop fuel (fun block_i => decide (block_i < M)) m_block_size
        (gemm_large_tile_fuel fuel A vec_size a b M N K m_block_size k_block_size block_j j_end)
        0 c).bind fun w => some w.2)
    0 c).bind fun w => some w.2

/-! ## Compile-time helpers of `tmp.hpp` -/

/-- The template `mul_all<F, Dims...>::value` (tmp.hpp, lines 16-20), a `std::size_t`:
`mul_all<F>` has the value `F`, and `mul_all<F, Dims...>` the value
`F * mul_all<Dims...>::value`, the product taken modulo `2^64`. -/
def mul_all : Nat → List Nat → Nat
  | F, [] => F
  | F, d :: Dims => (F * mul_all d Dims) % 2 ^ 64

/-- The template `nth_size<S, I, F, Dims...>::value` (tmp.hpp, lines 22-31): the
specialisation of `nth_size_int` chosen when `S == I` has the value `F`; the primary
template has the value of `nth_size<S, I+1, Dims...>`, which does not exist when `Dims`
is empty (there the program is ill-formed: `none`).  `I + 1` is a `std::size_t`. -/
def nth_size (S : Nat) : Nat → Nat → List Nat → Option Nat
  | I, F, [] => if S = I then some F else none
  | I, F, d :: Dims => if S = I then some F else nth_size S ((I + 1) % 2 ^ 64) d Dims

/-- The character of the decimal digit `d`: `'0' + d`. -/
def digit_char (d : Nat) : Char := Char.ofNat (48 + d)

/-- The decimal digits of `v`, most significant first, put in front of `acc`; each unit
of `fuel` gives one digit. -/
def to_string_digits : Nat → Nat → List Char → List Char
  | 0, _, acc => acc
  | fuel + 1, v, acc =>
    if v / 10 = 0 then digit_char (v % 10) :: acc
    else to_string_digits fuel (v / 10) (digit_char (v % 10) :: acc)

/-- The standard `std::to_string(unsigned long)`: the decimal rendering of `v`, as
`"%lu"` prints it.  A `std::string` is a list of characters. -/
def to_string (v : Nat) : List Char := to_string_digits (v + 1) v []

/-- The function `concat_sizes(sizes...)` (tmp.hpp, lines 34-45): the range-for loop over
the array `tmp` of the sizes, on the state `(result, sep)`, both empty at first; each
turn does `result += sep; result += std::to_string(v); sep = ","`. -/
def concat_sizes (sizes : List Nat) : List Char :=
  (sizes.foldl (fun (st : List Char × List Char) (v : Nat) =>
      let result := st.1 ++ st.2
      let result := result ++ to_string v
      (result, [','])) ([], [])).1

/-- Reading of a string of decimal digits, most significant first, from the value `acc`;
`none` at a character that is no digit. -/
def parse_digits : List Char → Nat → Option Nat
  | [], acc => some acc
  | c :: cs, acc =>
    if c.isDigit then parse_digits cs (10 * acc + (c.toNat - 48)) else none

/-- Parsing of one piece as a size: a non-empty string of decimal digits. -/
def parse_size (cs : List Char) : Option Nat :=
  if cs = [] then none else parse_digits cs 0

/-- A string of decimal digits that reads as `v` after any value read so far. -/
def Renders (ds : List Char) (v : Nat) : Prop :=
  ds ≠ [] ∧ (∀ c ∈ ds, c.isDigit = true ∧ c ≠ ',') ∧
    ∀ a, parse_digits ds a = some (a * 10 ^ ds.length + v)


/-! ## Expressions up to the order of operands -/

/-- The value of an expression in the arithmetic `A`, with `fa x` for `a[x]` and
`fb x` for `b[x]`. -/
def Expr.eval {T : Type} (A : Arith T) (fa fb : Nat → T) : Expr → T
  | Expr.zero => A.zero
  | Expr.a x => fa x
  | Expr.b x => fb x
  | Expr.add l r => A.add (Expr.eval A fa fb l) (Expr.eval A fa fb r)
  | Expr.mul l r => A.mul (Expr.eval A fa fb l) (Expr.eval A fa fb r)

/-- Equality of expressions up to the order of the two operands of `+` and of `*`,
anywhere in the expression: the congruence generated by `l + r ~ r + l` and
`l * r ~ r * l`.  Nothing is re-associated, and `T()` is not dropped. -/
inductive Expr.CommEq : Expr → Expr → Prop where
  | same (e : Expr) : Expr.CommEq e e
  | flip {e f : Expr} : Expr.CommEq e f → Expr.CommEq f e
  | chain {e f g : Expr} : Expr.CommEq e f → Expr.CommEq f g → Expr.CommEq e g
  | swap_add (l r : Expr) : Expr.CommEq (Expr.add l r) (Expr.add r l)
  | swap_mul (l r : Expr) : Expr.CommEq (Expr.mul l r) (Expr.mul r l)
  | under_add {l l2 r r2 : Expr} :
      Expr.CommEq l l2 → Expr.CommEq r r2 → Expr.CommEq (Expr.add l r) (Expr.add l2 r2)
  | under_mul {l l2 r r2 : Expr} :
      Expr.CommEq l l2 → Expr.CommEq r r2 → Expr.CommEq (Expr.mul l r) (Expr.mul l2 r2)

/-- The row of `vs` ones followed by minus ones. -/
def ones_then_minus (vs : Nat) (k : Nat) : Int := if k < vs then 1 else -1


/-! ## Entry points with the record of their calls -/

/-- The three operands of an entry point. -/
inductive Operand where
  | a
  | b
  | c
  deriving DecidableEq

/-- The calls an entry point makes: the two freshness calls, on an operand, and the
routines of `Call`, on the destination. -/
inductive Action where
  | ensure_cpu_up_to_date (x : Operand)
  | invalidate_gpu (x : Operand)
  | run (k : Call)
  deriving DecidableEq

/-- A call that was made, with the three operands as the call found them. -/
structure Step (T : Type) where
  action : Action
  a : Dense T
  b : Dense T
  c : Dense T

/-- A running entry point: the three operands, and the calls made so far, the oldest
first. -/
structure Trace (T : Type) where
  a : Dense T
  b : Dense T
  c : Dense T
  log : List (Step T)

/-- The operands after the call `act`. -/
def Action.apply {T : Type} (cfg : Config) (A : Arith T) (act : Action) (a b c : Dense T) :
    Dense T × Dense T × Dense T :=
  match act with
  | Action.ensure_cpu_up_to_date Operand.a => (a.ensure_cpu_up_to_date, b, c)
  | Action.ensure_cpu_up_to_date Operand.b => (a, b.ensure_cpu_up_to_date, c)
  | Action.ensure_cpu_up_to_date Operand.c => (a, b, c.ensure_cpu_up_to_date)
  | Action.invalidate_gpu Operand.a => (a.invalidate_gpu, b, c)
  | Action.invalidate_gpu Operand.b => (a, b.invalidate_gpu, c)
  | Action.invalidate_gpu Operand.c => (a, b, c.invalidate_gpu)
  | Action.run k => (a, b, k.run cfg A a b c)

/-- The entry point makes the call `act`: the call is recorded with the operands it
finds, and the operands become those it leaves. -/
def Trace.call {T : Type} (cfg : Config) (A : Arith T) (s : Trace T) (act : Action) :
    Trace T :=
  let r := act.apply cfg A s.a s.b s.c
  ⟨r.1, r.2.1, r.2.2, s.log ++ [⟨act, s.a, s.b, s.c⟩]⟩

/-- The row-major `gemv(a, b, c)` (lines 386-403), one call after the other, with the
record of the calls. -/
def gemv_traced {T : Type} (cfg : Config) (A : Arith T) (a b c : Dense T) : Trace T :=
  let s : Trace T := ⟨a, b, c, []⟩
  let s := s.call cfg A (Action.ensure_cpu_up_to_date Operand.a)
  let s := s.call cfg A (Action.ensure_cpu_up_to_date Operand.b)
  let s :=
    if s.a.size < cfg.gemv_small_threshold then
      s.call cfg A (Action.run Call.gemv_small)
    else
      s.call cfg A (Action.run Call.gemv_large)
  s.call cfg A (Action.invalidate_gpu Operand.c)

/-- The row-major `gevm(a, b, c)` (lines 659-678), one call after the other, with the
record of the calls. -/
def gevm_traced {T : Type} (cfg : Config) (A : Arith T) (a b c : Dense T) : Trace T :=
  let s : Trace T := ⟨a, b, c, []⟩
  let s := s.call cfg A (Action.ensure_cpu_up_to_date Operand.a)
  let s := s.call cfg A (Action.ensure_cpu_up_to_date Operand.b)
  let s :=
    if s.b.size < cfg.gevm_small_threshold then
      s.call cfg A (Action.run Call.gevm_small)
    else
      let s := s.call cfg A (Action.run Call.assign_zero)
      s.call cfg A (Action.run Call.gevm_large)
  s.call cfg A (Action.invalidate_gpu Operand.c)

/-- The row-major `gemm(a, b, c)` (lines 1270-1288), one call after the other, with the
record of the calls. -/
def gemm_traced {T : Type} (cfg : Config) (A : Arith T) (a b c : Dense T) : Trace T :=
  let s : Trace T := ⟨a, b, c, []⟩
  let s := s.call cfg A (Action.ensure_cpu_up_to_date Operand.a)
  let s := s.call cfg A (Action.ensure_cpu_up_to_date Operand.b)
  let s :=
    if s.b.size ≤ cfg.gemm_small_threshold then
      s.call cfg A (Action.run Call.gemm_small)
    else
      s.call cfg A (Action.run Call.gemm_large)
  s.call cfg A (Action.invalidate_gpu Operand.c)


/-! # Theorems -/

open Finset

/-! ## Loops, lanes and buffers -/

theorem forLoop_spec {S : Type} (Inv : Nat → S → Prop) (cond : Nat → Bool) (step : Nat)
    (body : Nat → S → S) (bound : Nat) (hstep : 0 < step)
    (hcond : ∀ i, cond i = true → i < bound)
    (hbody : ∀ i s, Inv i s → cond i = true → Inv (i + step) (body i s)) :
    ∀ (fuel i : Nat) (s : S), bound ≤ fuel + i → Inv i s →
      Inv (forLoop fuel cond step body i s).1 (forLoop fuel cond step body i s).2 ∧
      cond (forLoop fuel cond step body i s).1 = false := by
  intro fuel
  induction fuel with
  | zero =>
    intro i s hf h0
    refine ⟨h0, ?_⟩
    cases hc : cond i with
    | false => simpa [forLoop] using hc
    | true => exact absurd (hcond i hc) (by omega)
  | succ f ih =>
    intro i s hf h0
    cases hc : cond i with
    | false => simp [forLoop, hc, h0]
    | true =>
      simp only [forLoop, hc, if_true]
      exact ih (i + step) (body i s) (by omega) (hbody i s h0 hc)

theorem hadd_exact {T : Type} [CommRing T] (vs : Nat) (r : Vec T) :
    Vec.hadd (Arith.exact T) vs r = ∑ l ∈ range vs, r l := by
  induction vs using Nat.strong_induction_on with
  | _ vs ih =>
    match vs with
    | 0 => simp [Vec.hadd, Arith.exact]
    | 1 => simp [Vec.hadd]
    | n + 2 =>
      rw [Vec.hadd, ih (n + 1) (by omega), Finset.sum_range_succ _ (n + 1)]
      rfl

theorem neg_size_t_pow (p : Nat) (hp : p < 64) : neg_size_t (2 ^ p) = 2 ^ 64 - 2 ^ p := by
  have h1 : 2 ^ p < 2 ^ 64 := Nat.pow_lt_pow_right (by norm_num) hp
  have h2 : 0 < 2 ^ p := Nat.pos_pow_of_pos p (by norm_num)
  unfold neg_size_t
  rw [Nat.mod_eq_of_lt h1, Nat.mod_eq_of_lt (by omega)]

theorem land_neg_pow (p n : Nat) (hp : p < 64) (hn : n < 2 ^ 64) :
    n &&& neg_size_t (2 ^ p) = 2 ^ p * (n / 2 ^ p) := by
  rw [neg_size_t_pow p hp]
  apply Nat.eq_of_testBit_eq
  intro i
  have e : 2 ^ 64 - 2 ^ p = 2 ^ p * (2 ^ (64 - p) - 1) := by
    rw [Nat.mul_sub, ← pow_add]
    congr 2 <;> omega
  rw [Nat.testBit_land, e, Nat.testBit_mul_pow_two, Nat.testBit_mul_pow_two,
    Nat.testBit_two_pow_sub_one, ← Nat.shiftRight_eq_div_pow, Nat.testBit_shiftRight]
  by_cases h : p ≤ i
  · have e2 : p + (i - p) = i := by omega
    simp only [h, decide_True, Bool.true_and, e2]
    by_cases h2 : i - p < 64 - p
    · simp [h2]
    · simp only [h2, decide_False, Bool.and_false]
      have : 64 ≤ i := by omega
      exact (Nat.testBit_lt_two_pow (lt_of_lt_of_le hn (Nat.pow_le_pow_right (by norm_num) this))).symm ▸ rfl
  · simp [h]

@[simp] theorem exact_zero {T : Type} [CommRing T] : (Arith.exact T).zero = 0 := rfl
@[simp] theorem exact_add {T : Type} [CommRing T] (a b : T) : (Arith.exact T).add a b = a + b := rfl
@[simp] theorem exact_mul {T : Type} [CommRing T] (a b : T) : (Arith.exact T).mul a b = a * b := rfl
@[simp] theorem exact_fmadd {T : Type} [CommRing T] (a b c : T) :
    (Arith.exact T).fmadd a b c = a * b + c := rfl

theorem gemv_last_eq (p n : Nat) (hp : p < 64) (hn : n < 2 ^ 64) :
    gemv_last (2 ^ p) true n = 2 ^ p * (n / 2 ^ p) := by
  simp [gemv_last, land_neg_pow p n hp hn]

theorem gemv_last_dvd (p n : Nat) (hp : p < 64) (hn : n < 2 ^ 64) :
    2 ^ p ∣ gemv_last (2 ^ p) true n := by
  rw [gemv_last_eq p n hp hn]
  exact Dvd.intro _ rfl

theorem gemv_last_le (p n : Nat) (hp : p < 64) (hn : n < 2 ^ 64) :
    gemv_last (2 ^ p) true n ≤ n := by
  rw [gemv_last_eq p n hp hn]
  exact Nat.mul_div_le n (2 ^ p)

theorem hadd_fmadd_step {T : Type} [CommRing T] (vs : Nat) (aa bb : Nat → T) (base k : Nat)
    (r : Vec T) (h : Vec.hadd (Arith.exact T) vs r = ∑ x ∈ range k, aa (base + x) * bb x) :
    Vec.hadd (Arith.exact T) vs
        (Vec.fmadd (Arith.exact T) (Vec.loadu aa (base + k)) (Vec.load bb k) r)
      = ∑ x ∈ range (k + vs), aa (base + x) * bb x := by
  rw [hadd_exact] at h ⊢
  simp only [Vec.fmadd, Vec.loadu, Vec.load, exact_fmadd]
  rw [Finset.sum_add_distrib, h, Finset.sum_range_add, add_comm]
  simp only [add_assoc]

theorem step_le_of_dvd {vs k last : Nat} (hk : vs ∣ k) (hd : vs ∣ last) (hc : k < last) :
    k + vs ≤ last := by
  obtain ⟨a, rfl⟩ := hk
  obtain ⟨b, rfl⟩ := hd
  have : a < b := lt_of_mul_lt_mul_left hc (Nat.zero_le _)
  calc vs * a + vs = vs * (a + 1) := by ring
    _ ≤ vs * b := Nat.mul_le_mul_left _ this

theorem write_val {T : Type} (c : Buffer T) (x : Nat) (v : T) (y : Nat) :
    (c.write x v).val y = if y = x then v else c.val y := rfl

theorem write_val_ne {T : Type} (c : Buffer T) (x : Nat) (v : T) (y : Nat) (h : y ≠ x) :
    (c.write x v).val y = c.val y := by simp [write_val, h]

theorem write_val_eq {T : Type} (c : Buffer T) (x : Nat) (v : T) :
    (c.write x v).val x = v := by simp [write_val]

theorem add_assign_val_ne {T : Type} (A : Arith T) (c : Buffer T) (x : Nat) (v : T) (y : Nat)
    (h : y ≠ x) : (c.add_assign A x v).val y = c.val y := by
  simp [Buffer.add_assign, write_val, h]

theorem add_assign_val_eq {T : Type} (A : Arith T) (c : Buffer T) (x : Nat) (v : T) :
    (c.add_assign A x v).val x = A.add (c.val x) v := by
  simp [Buffer.add_assign, write_val]

/-! ## GEMV kernels: what each row group and each kernel computes -/

theorem hadd_fmadd_step_at {T : Type} [CommRing T] (vs : Nat) (aa bb : Nat → T) (base k : Nat)
    (r : Vec T) (h : Vec.hadd (Arith.exact T) vs r = ∑ x ∈ range k, aa (base + x) * bb x)
    (k1 k2 : Nat) (e1 : k1 = k) (e2 : k2 = k + vs) :
    Vec.hadd (Arith.exact T) vs
        (Vec.fmadd (Arith.exact T) (Vec.loadu aa (base + k1)) (Vec.load bb k1) r)
      = ∑ x ∈ range k2, aa (base + x) * bb x := by
  subst e1 e2
  exact hadd_fmadd_step vs aa bb base _ r h

theorem hadd_fmadd_step2 {T : Type} [CommRing T] (vs : Nat) (aa bb : Nat → T) (base k : Nat)
    (r : Vec T) (h : Vec.hadd (Arith.exact T) vs r = ∑ x ∈ range k, aa (base + x) * bb x) :
    Vec.hadd (Arith.exact T) vs
        (Vec.fmadd (Arith.exact T) (Vec.loadu aa (base + (k + 1 * vs))) (Vec.load bb (k + 1 * vs))
          (Vec.fmadd (Arith.exact T) (Vec.loadu aa (base + (k + 0 * vs)))
            (Vec.load bb (k + 0 * vs)) r))
      = ∑ x ∈ range (k + vs * 2), aa (base + x) * bb x :=
  hadd_fmadd_step_at vs aa bb base (k + vs) _
    (hadd_fmadd_step_at vs aa bb base k _ h _ _ (by omega) rfl) _ _ (by omega) (by omega)

theorem hadd_fmadd_step4 {T : Type} [CommRing T] (vs : Nat) (aa bb : Nat → T) (base k : Nat)
    (r : Vec T) (h : Vec.hadd (Arith.exact T) vs r = ∑ x ∈ range k, aa (base + x) * bb x) :
    Vec.hadd (Arith.exact T) vs
        (Vec.fmadd (Arith.exact T) (Vec.loadu aa (base + (k + 3 * vs))) (Vec.load bb (k + 3 * vs))
          (Vec.fmadd (Arith.exact T) (Vec.loadu aa (base + (k + 2 * vs)))
            (Vec.load bb (k + 2 * vs))
            (Vec.fmadd (Arith.exact T) (Vec.loadu aa (base + (k + 1 * vs)))
              (Vec.load bb (k + 1 * vs))
              (Vec.fmadd (Arith.exact T) (Vec.loadu aa (base + (k + 0 * vs)))
                (Vec.load bb (k + 0 * vs)) r))))
      = ∑ x ∈ range (k + vs * 4), aa (base + x) * bb x :=
  hadd_fmadd_step_at vs aa bb base (k + vs * 3) _
    (hadd_fmadd_step_at vs aa bb base (k + vs * 2) _
      (hadd_fmadd_step2 vs aa bb base k r h) _ _ (by omega) (by omega))
    _ _ (by omega) (by omega)

theorem eq_of_dvd_window {vs a b last : Nat} (ha : vs ∣ a) (hb : vs ∣ b) (h1 : last ≤ a)
    (h2 : a < last + vs) (h3 : last ≤ b) (h4 : b < last + vs) : a = b := by
  obtain ⟨p, rfl⟩ := ha
  obtain ⟨q, rfl⟩ := hb
  rcases Nat.lt_trichotomy p q with h | h | h
  · have : vs * (p + 1) ≤ vs * q := Nat.mul_le_mul_left _ h
    rw [Nat.mul_add] at this
    omega
  · rw [h]
  · have : vs * (q + 1) ≤ vs * p := Nat.mul_le_mul_left _ h
    rw [Nat.mul_add] at this
    omega

theorem rem_sum_eq {T : Type} [CommRing T] (rem : Bool) (kend n k : Nat)
    (hkn : k ≤ n ∨ k = kend) (hr : rem = false → k = kend)
    (hex : (rem && decide (k < n)) = false) (f : Nat → T) :
    ∑ x ∈ Ico kend k, f x = if rem = true then ∑ x ∈ Ico kend n, f x else 0 := by
  cases rem with
  | false => simp [hr rfl]
  | true =>
    have hnk : ¬ k < n := by simpa using hex
    rcases hkn with h | h
    · have : k = n := by omega
      simp [this]
    · subst h
      simp [Finset.Ico_eq_empty_of_le (Nat.le_of_not_lt hnk)]

theorem gemv_small_rows8_val {T : Type} [CommRing T] (vs : Nat) (hvs : 0 < vs) (rem : Bool)
    (last n kend : Nat) (hk1 : vs ∣ kend) (hk2 : last ≤ kend) (hk3 : kend < last + vs)
    (aa bb : Nat → T) (i : Nat) (cc : Buffer T) (x : Nat) :
    (gemv_small_rows8 (Arith.exact T) vs rem last aa n bb i cc).val x =
      if i ≤ x ∧ x < i + 8 then
        ∑ k ∈ range kend, aa (x * n + k) * bb k +
          (if rem = true then ∑ k ∈ Ico kend n, aa (x * n + k) * bb k else 0)
      else cc.val x := by
  unfold gemv_small_rows8
  simp only []
  let Inv : Nat → Vec T × Vec T × Vec T × Vec T × Vec T × Vec T × Vec T × Vec T → Prop :=
    fun k r => vs ∣ k ∧ k < last + vs ∧
      Vec.hadd (Arith.exact T) vs r.1 = ∑ x ∈ range k, aa ((i + 0) * n + x) * bb x ∧
      Vec.hadd (Arith.exact T) vs r.2.1 = ∑ x ∈ range k, aa ((i + 1) * n + x) * bb x ∧
      Vec.hadd (Arith.exact T) vs r.2.2.1 = ∑ x ∈ range k, aa ((i + 2) * n + x) * bb x ∧
      Vec.hadd (Arith.exact T) vs r.2.2.2.1 = ∑ x ∈ range k, aa ((i + 3) * n + x) * bb x ∧
      Vec.hadd (Arith.exact T) vs r.2.2.2.2.1 = ∑ x ∈ range k, aa ((i + 4) * n + x) * bb x ∧
      Vec.hadd (Arith.exact T) vs r.2.2.2.2.2.1 = ∑ x ∈ range k, aa ((i + 5) * n + x) * bb x ∧
      Vec.hadd (Arith.exact T) vs r.2.2.2.2.2.2.1 = ∑ x ∈ range k, aa ((i + 6) * n + x) * bb x ∧
      Vec.hadd (Arith.exact T) vs r.2.2.2.2.2.2.2 = ∑ x ∈ range k, aa ((i + 7) * n + x) * bb x
  generalize hv : forLoop last (fun k => decide (k < last)) vs _ 0 _ = v
  have hV : Inv v.1 v.2 ∧ decide (v.1 < last) = false := by
    rw [← hv]
    refine forLoop_spec Inv _ vs _ last hvs (fun k hk => by simpa using hk) ?_ last 0 _
      (by omega) ?_
    · rintro k ⟨r1, r2, r3, r4, r5, r6, r7, r8⟩ ⟨hk, hkl, h1, h2, h3, h4, h5, h6, h7, h8⟩ hc
      have hc' : k < last := by simpa using hc
      exact ⟨Dvd.dvd.add hk (dvd_refl _), by omega,
        hadd_fmadd_step vs aa bb _ k _ h1, hadd_fmadd_step vs aa bb _ k _ h2, hadd_fmadd_step vs aa bb _ k _ h3, hadd_fmadd_step vs aa bb _ k _ h4, hadd_fmadd_step vs aa bb _ k _ h5, hadd_fmadd_step vs aa bb _ k _ h6, hadd_fmadd_step vs aa bb _ k _ h7, hadd_fmadd_step vs aa bb _ k _ h8⟩
    · simp [Inv, hadd_exact, Vec.zero, hvs]
  obtain ⟨⟨hk, hkl, h1, h2, h3, h4, h5, h6, h7, h8⟩, hex⟩ := hV
  have hke : v.1 = kend := by
    have : ¬ v.1 < last := by simpa using hex
    exact eq_of_dvd_window hk hk1 (by omega) hkl hk2 hk3
  rw [hke] at h1 h2 h3 h4 h5 h6 h7 h8
  rw [hke, h1, h2, h3, h4, h5, h6, h7, h8]
  clear hv h1 h2 h3 h4 h5 h6 h7 h8 hex hke hk hkl
  generalize hc0 : Buffer.write _ (i + 7) _ = c0
  generalize hw : forLoop n _ 1 _ kend c0 = w
  let Inv2 : Nat → Buffer T → Prop :=
    fun k c => kend ≤ k ∧ (k ≤ n ∨ k = kend) ∧ (rem = false → k = kend) ∧
      (∀ y, ¬ (i ≤ y ∧ y < i + 8) → c.val y = cc.val y) ∧
      c.val (i + 0) = ∑ x ∈ range kend, aa ((i + 0) * n + x) * bb x +
        ∑ x ∈ Ico kend k, aa ((i + 0) * n + x) * bb x ∧
      c.val (i + 1) = ∑ x ∈ range kend, aa ((i + 1) * n + x) * bb x +
        ∑ x ∈ Ico kend k, aa ((i + 1) * n + x) * bb x ∧
      c.val (i + 2) = ∑ x ∈ range kend, aa ((i + 2) * n + x) * bb x +
        ∑ x ∈ Ico kend k, aa ((i + 2) * n + x) * bb x ∧
      c.val (i + 3) = ∑ x ∈ range kend, aa ((i + 3) * n + x) * bb x +
        ∑ x ∈ Ico kend k, aa ((i + 3) * n + x) * bb x ∧
      c.val (i + 4) = ∑ x ∈ range kend, aa ((i + 4) * n + x) * bb x +
        ∑ x ∈ Ico kend k, aa ((i + 4) * n + x) * bb x ∧
      c.val (i + 5) = ∑ x ∈ range kend, aa ((i + 5) * n + x) * bb x +
        ∑ x ∈ Ico kend k, aa ((i + 5) * n + x) * bb x ∧
      c.val (i + 6) = ∑ x ∈ range kend, aa ((i + 6) * n + x) * bb x +
        ∑ x ∈ Ico kend k, aa ((i + 6) * n + x) * bb x ∧
      c.val (i + 7) = ∑ x ∈ range kend, aa ((i + 7) * n + x) * bb x +
        ∑ x ∈ Ico kend k, aa ((i + 7) * n + x) * bb x
  have hW : Inv2 w.1 w.2 ∧ (rem && decide (w.1 < n)) = false := by
    rw [← hw]
    refine forLoop_spec Inv2 _ 1 _ n Nat.one_pos (fun k hk => ?_) ?_ n kend _
      (by omega) ?_
    · have := Bool.and_eq_true_iff.1 hk
      simpa using this.2
    · rintro k c ⟨hlk, hkn, hr, hf, h1, h2, h3, h4, h5, h6, h7, h8⟩ hc
      have hc2 := Bool.and_eq_true_iff.1 hc
      have hc' : k < n := by simpa using hc2.2
      refine ⟨by omega, Or.inl hc', fun h => ?_, ?_, ?_, ?_, ?_, ?_, ?_, ?_, ?_, ?_⟩
      · rw [h] at hc2; exact absurd hc2.1 (by decide)
      · intro y hy
        rw [← hf y hy]
        simp (disch := omega) only [add_assign_val_ne]
      all_goals
        simp (disch := omega) only [add_assign_val_ne, add_assign_val_eq, exact_add, exact_mul,
          Finset.sum_Ico_succ_top hlk, h1, h2, h3, h4, h5, h6, h7, h8, add_assoc]
    · subst hc0
      refine ⟨le_refl _, Or.inr rfl, fun _ => rfl, ?_, ?_, ?_, ?_, ?_, ?_, ?_, ?_, ?_⟩
      · intro y hy
        simp (disch := omega) only [write_val_ne]
      all_goals simp (disch := omega) only [write_val_ne, write_val_eq, Finset.Ico_self,
        Finset.sum_empty, add_zero]
  obtain ⟨⟨hlk, hkn, hr, hf, h1, h2, h3, h4, h5, h6, h7, h8⟩, hex⟩ := hW
  have hsum : ∀ f : Nat → T, ∑ x ∈ Ico kend w.1, f x =
      if rem = true then ∑ x ∈ Ico kend n, f x else 0 :=
    fun f => rem_sum_eq rem kend n w.1 hkn hr hex f
  rw [hsum] at h1 h2 h3 h4 h5 h6 h7 h8
  by_cases hx : i ≤ x ∧ x < i + 8
  · rw [if_pos hx]
    obtain ⟨d, rfl⟩ : ∃ d, x = i + d := ⟨x - i, by omega⟩
    have hd8 : d < 8 := by omega
    interval_cases d
    · simpa only [Nat.add_sub_cancel_left] using h1
    · simpa only [Nat.add_sub_cancel_left] using h2
    · simpa only [Nat.add_sub_cancel_left] using h3
    · simpa only [Nat.add_sub_cancel_left] using h4
    · simpa only [Nat.add_sub_cancel_left] using h5
    · simpa only [Nat.add_sub_cancel_left] using h6
    · simpa only [Nat.add_sub_cancel_left] using h7
    · simpa only [Nat.add_sub_cancel_left] using h8
  · rw [if_neg hx]
    exact hf x hx

theorem gemv_small_rows2_val {T : Type} [CommRing T] (vs : Nat) (hvs : 0 < vs) (rem : Bool)
    (last n kend : Nat) (hk1 : vs ∣ kend) (hk2 : last ≤ kend) (hk3 : kend < last + vs)
    (aa bb : Nat → T) (i : Nat) (cc : Buffer T) (x : Nat) :
    (gemv_small_rows2 (Arith.exact T) vs rem last aa n bb i cc).val x =
      if i ≤ x ∧ x < i + 2 then
        ∑ k ∈ range kend, aa (x * n + k) * bb k +
          (if rem = true then ∑ k ∈ Ico kend n, aa (x * n + k) * bb k else 0)
      else cc.val x := by
  unfold gemv_small_rows2
  simp only []
  let Inv : Nat → Vec T × Vec T → Prop :=
    fun k r => vs ∣ k ∧ k < last + vs ∧
      Vec.hadd (Arith.exact T) vs r.1 = ∑ x ∈ range k, aa ((i + 0) * n + x) * bb x ∧
      Vec.hadd (Arith.exact T) vs r.2 = ∑ x ∈ range k, aa ((i + 1) * n + x) * bb x
  generalize hv : forLoop last (fun k => decide (k < last)) vs _ 0 _ = v
  have hV : Inv v.1 v.2 ∧ decide (v.1 < last) = false := by
    rw [← hv]
    refine forLoop_spec Inv _ vs _ last hvs (fun k hk => by simpa using hk) ?_ last 0 _
      (by omega) ?_
    · rintro k ⟨r1, r2⟩ ⟨hk, hkl, h1, h2⟩ hc
      have hc' : k < last := by simpa using hc
      exact ⟨Dvd.dvd.add hk (dvd_refl _), by omega,
        hadd_fmadd_step vs aa bb _ k _ h1, hadd_fmadd_step vs aa bb _ k _ h2⟩
    · simp [Inv, hadd_exact, Vec.zero, hvs]
  obtain ⟨⟨hk, hkl, h1, h2⟩, hex⟩ := hV
  have hke : v.1 = kend := by
    have : ¬ v.1 < last := by simpa using hex
    exact eq_of_dvd_window hk hk1 (by omega) hkl hk2 hk3
  rw [hke] at h1 h2
  rw [hke, h1, h2]
  clear hv h1 h2 hex hke hk hkl
  generalize hc0 : Buffer.write _ (i + 1) _ = c0
  generalize hw : forLoop n _ 1 _ kend c0 = w
  let Inv2 : Nat → Buffer T → Prop :=
    fun k c => kend ≤ k ∧ (k ≤ n ∨ k = kend) ∧ (rem = false → k = kend) ∧
      (∀ y, ¬ (i ≤ y ∧ y < i + 2) → c.val y = cc.val y) ∧
      c.val (i + 0) = ∑ x ∈ range kend, aa ((i + 0) * n + x) * bb x +
        ∑ x ∈ Ico kend k, aa ((i + 0) * n + x) * bb x ∧
      c.val (i + 1) = ∑ x ∈ range kend, aa ((i + 1) * n + x) * bb x +
        ∑ x ∈ Ico kend k, aa ((i + 1) * n + x) * bb x
  have hW : Inv2 w.1 w.2 ∧ (rem && decide (w.1 < n)) = false := by
    rw [← hw]
    refine forLoop_spec Inv2 _ 1 _ n Nat.one_pos (fun k hk => ?_) ?_ n kend _
      (by omega) ?_
    · have := Bool.and_eq_true_iff.1 hk
      simpa using this.2
    · rintro k c ⟨hlk, hkn, hr, hf, h1, h2⟩ hc
      have hc2 := Bool.and_eq_true_iff.1 hc
      have hc' : k < n := by simpa using hc2.2
      refine ⟨by omega, Or.inl hc', fun h => ?_, ?_, ?_, ?_⟩
      · rw [h] at hc2; exact absurd hc2.1 (by decide)
      · intro y hy
        rw [← hf y hy]
        simp (disch := omega) only [add_assign_val_ne]
      all_goals
        simp (disch := omega) only [add_assign_val_ne, add_assign_val_eq, exact_add, exact_mul,
          Finset.sum_Ico_succ_top hlk, h1, h2, add_assoc]
    · subst hc0
      refine ⟨le_refl _, Or.inr rfl, fun _ => rfl, ?_, ?_, ?_⟩
      · intro y hy
        simp (disch := omega) only [write_val_ne]
      all_goals simp (disch := omega) only [write_val_ne, write_val_eq, Finset.Ico_self,
        Finset.sum_empty, add_zero]
  obtain ⟨⟨hlk, hkn, hr, hf, h1, h2⟩, hex⟩ := hW
  have hsum : ∀ f : Nat → T, ∑ x ∈ Ico kend w.1, f x =
      if rem = true then ∑ x ∈ Ico kend n, f x else 0 :=
    fun f => rem_sum_eq rem kend n w.1 hkn hr hex f
  rw [hsum] at h1 h2
  by_cases hx : i ≤ x ∧ x < i + 2
  · rw [if_pos hx]
    obtain ⟨d, rfl⟩ : ∃ d, x = i + d := ⟨x - i, by omega⟩
    have hd8 : d < 2 := by omega
    interval_cases d
    · simpa only [Nat.add_sub_cancel_left] using h1
    · simpa only [Nat.add_sub_cancel_left] using h2
  · rw [if_neg hx]
    exact hf x hx

theorem gemv_small_row1_val {T : Type} [CommRing T] (vs : Nat) (hvs : 0 < vs) (rem : Bool)
    (last n kend : Nat) (hk1 : vs ∣ kend) (hk2 : last ≤ kend) (hk3 : kend < last + vs)
    (aa bb : Nat → T) (i : Nat) (cc : Buffer T) (x : Nat) :
    (gemv_small_row1 (Arith.exact T) vs rem last aa n bb i cc).val x =
      if x = i then
        ∑ k ∈ range kend, aa (x * n + k) * bb k +
          (if rem = true then ∑ k ∈ Ico kend n, aa (x * n + k) * bb k else 0)
      else cc.val x := by
  unfold gemv_small_row1
  simp only []
  let Inv : Nat → Vec T → Prop :=
    fun k r => vs ∣ k ∧ k < last + vs ∧
      Vec.hadd (Arith.exact T) vs r = ∑ x ∈ range k, aa ((i + 0) * n + x) * bb x
  generalize hv : forLoop last (fun k => decide (k < last)) vs _ 0 _ = v
  have hV : Inv v.1 v.2 ∧ decide (v.1 < last) = false := by
    rw [← hv]
    refine forLoop_spec Inv _ vs _ last hvs (fun k hk => by simpa using hk) ?_ last 0 _
      (by omega) ?_
    · rintro k r1 ⟨hk, hkl, h1⟩ hc
      have hc' : k < last := by simpa using hc
      exact ⟨Dvd.dvd.add hk (dvd_refl _), by omega,
        hadd_fmadd_step vs aa bb _ k _ h1⟩
    · simp [Inv, hadd_exact, Vec.zero, hvs]
  obtain ⟨⟨hk, hkl, h1⟩, hex⟩ := hV
  have hke : v.1 = kend := by
    have : ¬ v.1 < last := by simpa using hex
    exact eq_of_dvd_window hk hk1 (by omega) hkl hk2 hk3
  rw [hke] at h1
  rw [hke, h1]
  clear hv h1 hex hke hk hkl
  generalize hw : forLoop n _ 1 _ kend _ = w
  let Inv2 : Nat → T → Prop :=
    fun k c => kend ≤ k ∧ (k ≤ n ∨ k = kend) ∧ (rem = false → k = kend) ∧
      c = ∑ x ∈ range kend, aa ((i + 0) * n + x) * bb x + ∑ x ∈ Ico kend k, aa (i * n + x) * bb x
  have hW : Inv2 w.1 w.2 ∧ (rem && decide (w.1 < n)) = false := by
    rw [← hw]
    refine forLoop_spec Inv2 _ 1 _ n Nat.one_pos (fun k hk => ?_) ?_ n kend _
      (by omega) ?_
    · have := Bool.and_eq_true_iff.1 hk
      simpa using this.2
    · rintro k c ⟨hlk, hkn, hr, h1⟩ hc
      have hc2 := Bool.and_eq_true_iff.1 hc
      have hc' : k < n := by simpa using hc2.2
      refine ⟨by omega, Or.inl hc', fun h => ?_, ?_⟩
      · rw [h] at hc2; exact absurd hc2.1 (by decide)
      · simp only [exact_add, exact_mul, Finset.sum_Ico_succ_top hlk, h1, add_assoc]
    · exact ⟨le_refl _, Or.inr rfl, fun _ => rfl, by simp⟩
  obtain ⟨⟨hlk, hkn, hr, h1⟩, hex⟩ := hW
  rw [rem_sum_eq rem kend n w.1 hkn hr hex] at h1
  rw [write_val, h1]
  by_cases hx : x = i
  · subst hx; simp
  · simp [hx]

theorem gemv_large_rows8_val {T : Type} [CommRing T] (vs : Nat) (hvs : 0 < vs) (rem : Bool)
    (last n kend : Nat) (hk1 : vs ∣ kend) (hk2 : last ≤ kend) (hk3 : kend < last + vs)
    (aa bb : Nat → T) (i : Nat) (cc : Buffer T) (x : Nat) :
    (gemv_large_rows8 (Arith.exact T) vs rem last aa n bb i cc).val x =
      if i ≤ x ∧ x < i + 8 then
        ∑ k ∈ range kend, aa (x * n + k) * bb k +
          (if rem = true then ∑ k ∈ Ico kend n, aa (x * n + k) * bb k else 0)
      else cc.val x := by
  unfold gemv_large_rows8
  simp only []
  let Inv : Nat → Vec T × Vec T × Vec T × Vec T × Vec T × Vec T × Vec T × Vec T → Prop :=
    fun k r => vs ∣ k ∧ k < last + vs ∧
      Vec.hadd (Arith.exact T) vs r.1 = ∑ x ∈ range k, aa ((i + 0) * n + x) * bb x ∧
      Vec.hadd (Arith.exact T) vs r.2.1 = ∑ x ∈ range k, aa ((i + 1) * n + x) * bb x ∧
      Vec.hadd (Arith.exact T) vs r.2.2.1 = ∑ x ∈ range k, aa ((i + 2) * n + x) * bb x ∧
      Vec.hadd (Arith.exact T) vs r.2.2.2.1 = ∑ x ∈ range k, aa ((i + 3) * n + x) * bb x ∧
      Vec.hadd (Arith.exact T) vs r.2.2.2.2.1 = ∑ x ∈ range k, aa ((i + 4) * n + x) * bb x ∧
      Vec.hadd (Arith.exact T) vs r.2.2.2.2.2.1 = ∑ x ∈ range k, aa ((i + 5) * n + x) * bb x ∧
      Vec.hadd (Arith.exact T) vs r.2.2.2.2.2.2.1 = ∑ x ∈ range k, aa ((i + 6) * n + x) * bb x ∧
      Vec.hadd (Arith.exact T) vs r.2.2.2.2.2.2.2 = ∑ x ∈ range k, aa ((i + 7) * n + x) * bb x
  generalize hv4 : forLoop last (fun k => decide (k + vs * 3 < last)) (vs * 4) _ 0 _ = v4
  have hV4 : Inv v4.1 v4.2 ∧ decide (v4.1 + vs * 3 < last) = false := by
    rw [← hv4]
    refine forLoop_spec Inv _ (vs * 4) _ last (by omega)
      (fun k hk => by have : k + vs * 3 < last := by simpa using hk
                      omega) ?_ last 0 _ (by omega) ?_
    · rintro k ⟨r1, r2, r3, r4, r5, r6, r7, r8⟩ ⟨hk, hkl, h1, h2, h3, h4, h5, h6, h7, h8⟩ hc
      have hc' : k + vs * 3 < last := by simpa using hc
      exact ⟨Dvd.dvd.add hk (Dvd.intro _ rfl), by omega,
        hadd_fmadd_step4 vs aa bb _ k _ h1, hadd_fmadd_step4 vs aa bb _ k _ h2, hadd_fmadd_step4 vs aa bb _ k _ h3, hadd_fmadd_step4 vs aa bb _ k _ h4, hadd_fmadd_step4 vs aa bb _ k _ h5, hadd_fmadd_step4 vs aa bb _ k _ h6, hadd_fmadd_step4 vs aa bb _ k _ h7, hadd_fmadd_step4 vs aa bb _ k _ h8⟩
    · simp [Inv, hadd_exact, Vec.zero, hvs]
  generalize hv2 : forLoop last (fun k => decide (k + vs < last)) (vs * 2) _ v4.1 v4.2 = v2
  have hV2 : Inv v2.1 v2.2 ∧ decide (v2.1 + vs < last) = false := by
    rw [← hv2]
    refine forLoop_spec Inv _ (vs * 2) _ last (by omega)
      (fun k hk => by have : k + vs < last := by simpa using hk
                      omega) ?_ last _ _ (by omega) hV4.1
    rintro k ⟨r1, r2, r3, r4, r5, r6, r7, r8⟩ ⟨hk, hkl, h1, h2, h3, h4, h5, h6, h7, h8⟩ hc
    have hc' : k + vs < last := by simpa using hc
    exact ⟨Dvd.dvd.add hk (Dvd.intro _ rfl), by omega,
      hadd_fmadd_step2 vs aa bb _ k _ h1, hadd_fmadd_step2 vs aa bb _ k _ h2, hadd_fmadd_step2 vs aa bb _ k _ h3, hadd_fmadd_step2 vs aa bb _ k _ h4, hadd_fmadd_step2 vs aa bb _ k _ h5, hadd_fmadd_step2 vs aa bb _ k _ h6, hadd_fmadd_step2 vs aa bb _ k _ h7, hadd_fmadd_step2 vs aa bb _ k _ h8⟩
  clear hV4 hv4 hv2
  obtain ⟨⟨hk, hkl, h1, h2, h3, h4, h5, h6, h7, h8⟩, hex⟩ := hV2
  have hex' : ¬ v2.1 + vs < last := by simpa using hex
  generalize hv : (if v2.1 < last then _ else v2 : Nat × Vec T × Vec T × Vec T × Vec T × Vec T × Vec T × Vec T × Vec T) = v
  have hV : v.1 = kend ∧
      Vec.hadd (Arith.exact T) vs v.2.1 = ∑ x ∈ range kend, aa ((i + 0) * n + x) * bb x ∧
      Vec.hadd (Arith.exact T) vs v.2.2.1 = ∑ x ∈ range kend, aa ((i + 1) * n + x) * bb x ∧
      Vec.hadd (Arith.exact T) vs v.2.2.2.1 = ∑ x ∈ range kend, aa ((i + 2) * n + x) * bb x ∧
      Vec.hadd (Arith.exact T) vs v.2.2.2.2.1 = ∑ x ∈ range kend, aa ((i + 3) * n + x) * bb x ∧
      Vec.hadd (Arith.exact T) vs v.2.2.2.2.2.1 = ∑ x ∈ range kend, aa ((i + 4) * n + x) * bb x ∧
      Vec.hadd (Arith.exact T) vs v.2.2.2.2.2.2.1 = ∑ x ∈ range kend, aa ((i + 5) * n + x) * bb x ∧
      Vec.hadd (Arith.exact T) vs v.2.2.2.2.2.2.2.1 = ∑ x ∈ range kend, aa ((i + 6) * n + x) * bb x ∧
      Vec.hadd (Arith.exact T) vs v.2.2.2.2.2.2.2.2 = ∑ x ∈ range kend, aa ((i + 7) * n + x) * bb x := by
    rw [← hv]
    by_cases hlt : v2.1 < last
    · have he : v2.1 + vs = kend :=
        eq_of_dvd_window (Dvd.dvd.add hk (dvd_refl _)) hk1 (by omega) (by omega) hk2 hk3
      rw [if_pos hlt]
      refine ⟨he, ?_, ?_, ?_, ?_, ?_, ?_, ?_, ?_⟩
      all_goals rw [← he]
      · exact hadd_fmadd_step vs aa bb _ _ _ h1
      · exact hadd_fmadd_step vs aa bb _ _ _ h2
      · exact hadd_fmadd_step vs aa bb _ _ _ h3
      · exact hadd_fmadd_step vs aa bb _ _ _ h4
      · exact hadd_fmadd_step vs aa bb _ _ _ h5
      · exact hadd_fmadd_step vs aa bb _ _ _ h6
      · exact hadd_fmadd_step vs aa bb _ _ _ h7
      · exact hadd_fmadd_step vs aa bb _ _ _ h8
    · have he : v2.1 = kend := eq_of_dvd_window hk hk1 (by omega) hkl hk2 hk3
      rw [if_neg hlt, ← he]
      exact ⟨rfl, h1, h2, h3, h4, h5, h6, h7, h8⟩
  clear hv h1 h2 h3 h4 h5 h6 h7 h8 hex hex' hk hkl
  obtain ⟨hke, h1, h2, h3, h4, h5, h6, h7, h8⟩ := hV
  rw [hke, h1, h2, h3, h4, h5, h6, h7, h8]
  clear h1 h2 h3 h4 h5 h6 h7 h8 hke
  generalize hc0 : Buffer.write _ (i + 7) _ = c0
  generalize hw : forLoop n _ 1 _ kend c0 = w
  let Inv2 : Nat → Buffer T → Prop :=
    fun k c => kend ≤ k ∧ (k ≤ n ∨ k = kend) ∧ (rem = false → k = kend) ∧
      (∀ y, ¬ (i ≤ y ∧ y < i + 8) → c.val y = cc.val y) ∧
      c.val (i + 0) = ∑ x ∈ range kend, aa ((i + 0) * n + x) * bb x +
        ∑ x ∈ Ico kend k, aa ((i + 0) * n + x) * bb x ∧
      c.val (i + 1) = ∑ x ∈ range kend, aa ((i + 1) * n + x) * bb x +
        ∑ x ∈ Ico kend k, aa ((i + 1) * n + x) * bb x ∧
      c.val (i + 2) = ∑ x ∈ range kend, aa ((i + 2) * n + x) * bb x +
        ∑ x ∈ Ico kend k, aa ((i + 2) * n + x) * bb x ∧
      c.val (i + 3) = ∑ x ∈ range kend, aa ((i + 3) * n + x) * bb x +
        ∑ x ∈ Ico kend k, aa ((i + 3) * n + x) * bb x ∧
      c.val (i + 4) = ∑ x ∈ range kend, aa ((i + 4) * n + x) * bb x +
        ∑ x ∈ Ico kend k, aa ((i + 4) * n + x) * bb x ∧
      c.val (i + 5) = ∑ x ∈ range kend, aa ((i + 5) * n + x) * bb x +
        ∑ x ∈ Ico kend k, aa ((i + 5) * n + x) * bb x ∧
      c.val (i + 6) = ∑ x ∈ range kend, aa ((i + 6) * n + x) * bb x +
        ∑ x ∈ Ico kend k, aa ((i + 6) * n + x) * bb x ∧
      c.val (i + 7) = ∑ x ∈ range kend, aa ((i + 7) * n + x) * bb x +
        ∑ x ∈ Ico kend k, aa ((i + 7) * n + x) * bb x
  have hW : Inv2 w.1 w.2 ∧ (rem && decide (w.1 < n)) = false := by
    rw [← hw]
    refine forLoop_spec Inv2 _ 1 _ n Nat.one_pos (fun k hk => ?_) ?_ n kend _
      (by omega) ?_
    · have := Bool.and_eq_true_iff.1 hk
      simpa using this.2
    · rintro k c ⟨hlk, hkn, hr, hf, h1, h2, h3, h4, h5, h6, h7, h8⟩ hc
      have hc2 := Bool.and_eq_true_iff.1 hc
      have hc' : k < n := by simpa using hc2.2
      refine ⟨by omega, Or.inl hc', fun h => ?_, ?_, ?_, ?_, ?_, ?_, ?_, ?_, ?_, ?_⟩
      · rw [h] at hc2; exact absurd hc2.1 (by decide)
      · intro y hy
        rw [← hf y hy]
        simp (disch := omega) only [add_assign_val_ne]
      all_goals
        simp (disch := omega) only [add_assign_val_ne, add_assign_val_eq, exact_add, exact_mul,
          Finset.sum_Ico_succ_top hlk, h1, h2, h3, h4, h5, h6, h7, h8, add_assoc]
    · subst hc0
      refine ⟨le_refl _, Or.inr rfl, fun _ => rfl, ?_, ?_, ?_, ?_, ?_, ?_, ?_, ?_, ?_⟩
      · intro y hy
        simp (disch := omega) only [write_val_ne]
      all_goals simp (disch := omega) only [write_val_ne, write_val_eq, Finset.Ico_self,
        Finset.sum_empty, add_zero]
  obtain ⟨⟨hlk, hkn, hr, hf, h1, h2, h3, h4, h5, h6, h7, h8⟩, hex⟩ := hW
  have hsum : ∀ f : Nat → T, ∑ x ∈ Ico kend w.1, f x =
      if rem = true then ∑ x ∈ Ico kend n, f x else 0 :=
    fun f => rem_sum_eq rem kend n w.1 hkn hr hex f
  rw [hsum] at h1 h2 h3 h4 h5 h6 h7 h8
  by_cases hx : i ≤ x ∧ x < i + 8
  · rw [if_pos hx]
    obtain ⟨d, rfl⟩ : ∃ d, x = i + d := ⟨x - i, by omega⟩
    have hd8 : d < 8 := by omega
    interval_cases d
    · simpa only [Nat.add_sub_cancel_left] using h1
    · simpa only [Nat.add_sub_cancel_left] using h2
    · simpa only [Nat.add_sub_cancel_left] using h3
    · simpa only [Nat.add_sub_cancel_left] using h4
    · simpa only [Nat.add_sub_cancel_left] using h5
    · simpa only [Nat.add_sub_cancel_left] using h6
    · simpa only [Nat.add_sub_cancel_left] using h7
    · simpa only [Nat.add_sub_cancel_left] using h8
  · rw [if_neg hx]
    exact hf x hx

theorem gemv_large_rows2_val {T : Type} [CommRing T] (vs : Nat) (hvs : 0 < vs) (rem : Bool)
    (last n kend : Nat) (hk1 : vs ∣ kend) (hk2 : last ≤ kend) (hk3 : kend < last + vs)
    (aa bb : Nat → T) (i : Nat) (cc : Buffer T) (x : Nat) :
    (gemv_large_rows2 (Arith.exact T) vs rem last aa n bb i cc).val x =
      if i ≤ x ∧ x < i + 2 then
        ∑ k ∈ range kend, aa (x * n + k) * bb k +
          (if rem = true then ∑ k ∈ Ico kend n, aa (i + (x - i) * n + k) * bb k else 0)
      else cc.val x := by
  unfold gemv_large_rows2
  simp only []
  let Inv : Nat → Vec T × Vec T → Prop :=
    fun k r => vs ∣ k ∧ k < last + vs ∧
      Vec.hadd (Arith.exact T) vs r.1 = ∑ x ∈ range k, aa ((i + 0) * n + x) * bb x ∧
      Vec.hadd (Arith.exact T) vs r.2 = ∑ x ∈ range k, aa ((i + 1) * n + x) * bb x
  generalize hv4 : forLoop last (fun k => decide (k + vs * 3 < last)) (vs * 4) _ 0 _ = v4
  have hV4 : Inv v4.1 v4.2 ∧ decide (v4.1 + vs * 3 < last) = false := by
    rw [← hv4]
    refine forLoop_spec Inv _ (vs * 4) _ last (by omega)
      (fun k hk => by have : k + vs * 3 < last := by simpa using hk
                      omega) ?_ last 0 _ (by omega) ?_
    · rintro k ⟨r1, r2⟩ ⟨hk, hkl, h1, h2⟩ hc
      have hc' : k + vs * 3 < last := by simpa using hc
      exact ⟨Dvd.dvd.add hk (Dvd.intro _ rfl), by omega,
        hadd_fmadd_step4 vs aa bb _ k _ h1, hadd_fmadd_step4 vs aa bb _ k _ h2⟩
    · simp [Inv, hadd_exact, Vec.zero, hvs]
  generalize hv2 : forLoop last (fun k => decide (k + vs < last)) (vs * 2) _ v4.1 v4.2 = v2
  have hV2 : Inv v2.1 v2.2 ∧ decide (v2.1 + vs < last) = false := by
    rw [← hv2]
    refine forLoop_spec Inv _ (vs * 2) _ last (by omega)
      (fun k hk => by have : k + vs < last := by simpa using hk
                      omega) ?_ last _ _ (by omega) hV4.1
    rintro k ⟨r1, r2⟩ ⟨hk, hkl, h1, h2⟩ hc
    have hc' : k + vs < last := by simpa using hc
    exact ⟨Dvd.dvd.add hk (Dvd.intro _ rfl), by omega,
      hadd_fmadd_step2 vs aa bb _ k _ h1, hadd_fmadd_step2 vs aa bb _ k _ h2⟩
  clear hV4 hv4 hv2
  obtain ⟨⟨hk, hkl, h1, h2⟩, hex⟩ := hV2
  have hex' : ¬ v2.1 + vs < last := by simpa using hex
  generalize hv : (if v2.1 < last then _ else v2 : Nat × Vec T × Vec T) = v
  have hV : v.1 = kend ∧
      Vec.hadd (Arith.exact T) vs v.2.1 = ∑ x ∈ range kend, aa ((i + 0) * n + x) * bb x ∧
      Vec.hadd (Arith.exact T) vs v.2.2 = ∑ x ∈ range kend, aa ((i + 1) * n + x) * bb x := by
    rw [← hv]
    by_cases hlt : v2.1 < last
    · have he : v2.1 + vs = kend :=
        eq_of_dvd_window (Dvd.dvd.add hk (dvd_refl _)) hk1 (by omega) (by omega) hk2 hk3
      rw [if_pos hlt]
      refine ⟨he, ?_, ?_⟩
      all_goals rw [← he]
      · exact hadd_fmadd_step vs aa bb _ _ _ h1
      · exact hadd_fmadd_step vs aa bb _ _ _ h2
    · have he : v2.1 = kend := eq_of_dvd_window hk hk1 (by omega) hkl hk2 hk3
      rw [if_neg hlt, ← he]
      exact ⟨rfl, h1, h2⟩
  clear hv h1 h2 hex hex' hk hkl
  obtain ⟨hke, h1, h2⟩ := hV
  rw [hke, h1, h2]
  clear h1 h2 hke
  generalize hc0 : Buffer.write _ (i + 1) _ = c0
  generalize hw : forLoop n _ 1 _ kend c0 = w
  let Inv2 : Nat → Buffer T → Prop :=
    fun k c => kend ≤ k ∧ (k ≤ n ∨ k = kend) ∧ (rem = false → k = kend) ∧
      (∀ y, ¬ (i ≤ y ∧ y < i + 2) → c.val y = cc.val y) ∧
      c.val (i + 0) = ∑ x ∈ range kend, aa ((i + 0) * n + x) * bb x +
        ∑ x ∈ Ico kend k, aa (i + 0 * n + x) * bb x ∧
      c.val (i + 1) = ∑ x ∈ range kend, aa ((i + 1) * n + x) * bb x +
        ∑ x ∈ Ico kend k, aa (i + 1 * n + x) * bb x
  have hW : Inv2 w.1 w.2 ∧ (rem && decide (w.1 < n)) = false := by
    rw [← hw]
    refine forLoop_spec Inv2 _ 1 _ n Nat.one_pos (fun k hk => ?_) ?_ n kend _
      (by omega) ?_
    · have := Bool.and_eq_true_iff.1 hk
      simpa using this.2
    · rintro k c ⟨hlk, hkn, hr, hf, h1, h2⟩ hc
      have hc2 := Bool.and_eq_true_iff.1 hc
      have hc' : k < n := by simpa using hc2.2
      refine ⟨by omega, Or.inl hc', fun h => ?_, ?_, ?_, ?_⟩
      · rw [h] at hc2; exact absurd hc2.1 (by decide)
      · intro y hy
        rw [← hf y hy]
        simp (disch := omega) only [add_assign_val_ne]
      all_goals
        simp (disch := omega) only [add_assign_val_ne, add_assign_val_eq, exact_add, exact_mul,
          Finset.sum_Ico_succ_top hlk, h1, h2, add_assoc]
    · subst hc0
      refine ⟨le_refl _, Or.inr rfl, fun _ => rfl, ?_, ?_, ?_⟩
      · intro y hy
        simp (disch := omega) only [write_val_ne]
      all_goals simp (disch := omega) only [write_val_ne, write_val_eq, Finset.Ico_self,
        Finset.sum_empty, add_zero]
  obtain ⟨⟨hlk, hkn, hr, hf, h1, h2⟩, hex⟩ := hW
  have hsum : ∀ f : Nat → T, ∑ x ∈ Ico kend w.1, f x =
      if rem = true then ∑ x ∈ Ico kend n, f x else 0 :=
    fun f => rem_sum_eq rem kend n w.1 hkn hr hex f
  rw [hsum] at h1 h2
  by_cases hx : i ≤ x ∧ x < i + 2
  · rw [if_pos hx]
    obtain ⟨d, rfl⟩ : ∃ d, x = i + d := ⟨x - i, by omega⟩
    have hd8 : d < 2 := by omega
    interval_cases d
    · simpa only [Nat.add_sub_cancel_left] using h1
    · simpa only [Nat.add_sub_cancel_left] using h2
  · rw [if_neg hx]
    exact hf x hx

theorem gemv_large_row1_val {T : Type} [CommRing T] (vs : Nat) (hvs : 0 < vs) (rem : Bool)
    (last n kend : Nat) (hk1 : vs ∣ kend) (hk2 : last ≤ kend) (hk3 : kend < last + vs)
    (aa bb : Nat → T) (i : Nat) (cc : Buffer T) (x : Nat) :
    (gemv_large_row1 (Arith.exact T) vs rem last aa n bb i cc).val x =
      if x = i then
        ∑ k ∈ range kend, aa (x * n + k) * bb k +
          (if rem = true then ∑ k ∈ Ico kend n, aa (x * n + k) * bb k else 0)
      else cc.val x := by
  unfold gemv_large_row1
  simp only []
  let Inv : Nat → Vec T → Prop :=
    fun k r => vs ∣ k ∧ k < last + vs ∧
      Vec.hadd (Arith.exact T) vs r = ∑ x ∈ range k, aa ((i + 0) * n + x) * bb x
  generalize hv : forLoop last (fun k => decide (k < last)) vs _ 0 _ = v
  have hV : Inv v.1 v.2 ∧ decide (v.1 < last) = false := by
    rw [← hv]
    refine forLoop_spec Inv _ vs _ last hvs (fun k hk => by simpa using hk) ?_ last 0 _
      (by omega) ?_
    · rintro k r1 ⟨hk, hkl, h1⟩ hc
      have hc' : k < last := by simpa using hc
      exact ⟨Dvd.dvd.add hk (dvd_refl _), by omega,
        hadd_fmadd_step vs aa bb _ k _ h1⟩
    · simp [Inv, hadd_exact, Vec.zero, hvs]
  obtain ⟨⟨hk, hkl, h1⟩, hex⟩ := hV
  have hke : v.1 = kend := by
    have : ¬ v.1 < last := by simpa using hex
    exact eq_of_dvd_window hk hk1 (by omega) hkl hk2 hk3
  rw [hke] at h1
  rw [hke, h1]
  clear hv h1 hex hke hk hkl
  generalize hw : forLoop n _ 1 _ kend _ = w
  let Inv2 : Nat → T → Prop :=
    fun k c => kend ≤ k ∧ (k ≤ n ∨ k = kend) ∧ (rem = false → k = kend) ∧
      c = ∑ x ∈ range kend, aa ((i + 0) * n + x) * bb x + ∑ x ∈ Ico kend k, aa (i * n + x) * bb x
  have hW : Inv2 w.1 w.2 ∧ (rem && decide (w.1 < n)) = false := by
    rw [← hw]
    refine forLoop_spec Inv2 _ 1 _ n Nat.one_pos (fun k hk => ?_) ?_ n kend _
      (by omega) ?_
    · have := Bool.and_eq_true_iff.1 hk
      simpa using this.2
    · rintro k c ⟨hlk, hkn, hr, h1⟩ hc
      have hc2 := Bool.and_eq_true_iff.1 hc
      have hc' : k < n := by simpa using hc2.2
      refine ⟨by omega, Or.inl hc', fun h => ?_, ?_⟩
      · rw [h] at hc2; exact absurd hc2.1 (by decide)
      · simp only [exact_add, exact_mul, Finset.sum_Ico_succ_top hlk, h1, add_assoc]
    · exact ⟨le_refl _, Or.inr rfl, fun _ => rfl, by simp⟩
  obtain ⟨⟨hlk, hkn, hr, h1⟩, hex⟩ := hW
  rw [rem_sum_eq rem kend n w.1 hkn hr hex] at h1
  rw [write_val, h1]
  by_cases hx : x = i
  · subst hx; simp
  · simp [hx]

theorem round_up_dvd (vs last : Nat) : vs ∣ round_up vs last := Dvd.intro _ rfl

theorem le_round_up (vs last : Nat) (hvs : 0 < vs) : last ≤ round_up vs last := by
  unfold round_up
  have h := Nat.div_add_mod (last + vs - 1) vs
  have h2 := Nat.mod_lt (last + vs - 1) hvs
  omega

theorem round_up_lt (vs last : Nat) (hvs : 0 < vs) : round_up vs last < last + vs := by
  unfold round_up
  have h := Nat.div_add_mod (last + vs - 1) vs
  omega

theorem round_up_of_dvd (vs last : Nat) (hvs : 0 < vs) (h : vs ∣ last) :
    round_up vs last = last :=
  eq_of_dvd_window (round_up_dvd vs last) h (le_round_up vs last hvs) (round_up_lt vs last hvs)
    (le_refl _) (by omega)

theorem gemv_small_kernel_val {T : Type} [CommRing T] (vs : Nat) (hvs : 0 < vs)
    (adv padded : Bool) (m n : Nat) (aa bb : Nat → T) (cc : Buffer T) (x : Nat) :
    (gemv_small_kernel (Arith.exact T) vs adv padded aa m n bb cc).val x =
      if x < m then gemv_small_value aa bb vs (!adv || !padded) n x else cc.val x := by
  unfold gemv_small_kernel
  simp only []
  generalize hrem : (!adv || !padded) = rem
  generalize hlast : gemv_last vs rem n = last
  have hk1 := round_up_dvd vs last
  have hk2 := le_round_up vs last hvs
  have hk3 := round_up_lt vs last hvs
  generalize hs8 : forLoop m (fun i => decide (i + 7 < m)) 8 _ 0 cc = s8
  have h8 : (8 ∣ s8.1 ∧ s8.1 ≤ m ∧
      ∀ y, s8.2.val y = if y < s8.1 then gemv_small_value aa bb vs rem n y else cc.val y) ∧
      decide (s8.1 + 7 < m) = false := by
    rw [← hs8]
    refine forLoop_spec (fun i (c : Buffer T) => 8 ∣ i ∧ i ≤ m ∧
      ∀ y, c.val y = if y < i then gemv_small_value aa bb vs rem n y else cc.val y)
      _ 8 _ m (by norm_num) (fun k hk => ?_) ?_ m 0 _ (by omega) ?_
    · have : k + 7 < m := by simpa using hk
      omega
    · rintro i c ⟨hdi, him, hc⟩ hcond
      have hcond' : i + 7 < m := by simpa using hcond
      refine ⟨by omega, by omega, fun y => ?_⟩
      rw [gemv_small_rows8_val vs hvs rem last n _ hk1 hk2 hk3, hc y]
      by_cases h1 : i ≤ y ∧ y < i + 8
      · rw [if_pos h1, if_pos (show y < i + 8 by omega), gemv_small_value, hlast]
      · rw [if_neg h1]
        by_cases h2 : y < i
        · rw [if_pos h2, if_pos (show y < i + 8 by omega)]
        · rw [if_neg h2, if_neg (show ¬ y < i + 8 by omega)]
    · exact ⟨by norm_num, Nat.zero_le _, fun y => by simp⟩
  obtain ⟨⟨h8d, h8m, h8v⟩, h8e⟩ := h8
  have h8e' : ¬ s8.1 + 7 < m := by simpa using h8e
  generalize hs2 : forLoop m (fun i => decide (i + 1 < m)) 2 _ s8.1 s8.2 = s2
  have h2 : (2 ∣ s2.1 ∧ s8.1 ≤ s2.1 ∧ s2.1 ≤ m ∧
      ∀ y, s2.2.val y = if y < s2.1 then gemv_small_value aa bb vs rem n y else cc.val y) ∧
      decide (s2.1 + 1 < m) = false := by
    rw [← hs2]
    refine forLoop_spec (fun i (c : Buffer T) => 2 ∣ i ∧ s8.1 ≤ i ∧ i ≤ m ∧
      ∀ y, c.val y = if y < i then gemv_small_value aa bb vs rem n y else cc.val y)
      _ 2 _ m (by norm_num) (fun k hk => ?_) ?_ m _ _ (by omega) ⟨by omega, le_refl _, h8m, h8v⟩
    · have : k + 1 < m := by simpa using hk
      omega
    · rintro i c ⟨hdi, h8i, him, hc⟩ hcond
      have hcond' : i + 1 < m := by simpa using hcond
      refine ⟨by omega, by omega, by omega, fun y => ?_⟩
      rw [gemv_small_rows2_val vs hvs rem last n _ hk1 hk2 hk3, hc y]
      by_cases h1 : i ≤ y ∧ y < i + 2
      · rw [if_pos h1, if_pos (show y < i + 2 by omega), gemv_small_value, hlast]
      · rw [if_neg h1]
        by_cases h2 : y < i
        · rw [if_pos h2, if_pos (show y < i + 2 by omega)]
        · rw [if_neg h2, if_neg (show ¬ y < i + 2 by omega)]
  obtain ⟨⟨h2d, h28, h2m, h2v⟩, h2e⟩ := h2
  have h2e' : ¬ s2.1 + 1 < m := by simpa using h2e
  by_cases hlt : s2.1 < m
  · rw [if_pos hlt, gemv_small_row1_val vs hvs rem last n _ hk1 hk2 hk3, h2v x]
    by_cases h1 : x = s2.1
    · rw [if_pos h1, if_pos (show x < m by omega), gemv_small_value, hlast]
    · rw [if_neg h1]
      by_cases h2 : x < s2.1
      · rw [if_pos h2, if_pos (show x < m by omega)]
      · rw [if_neg h2, if_neg (show ¬ x < m by omega)]
  · rw [if_neg hlt, h2v x]
    by_cases h2 : x < s2.1
    · rw [if_pos h2, if_pos (show x < m by omega)]
    · rw [if_neg h2, if_neg (show ¬ x < m by omega)]

theorem gemv_large_kernel_val {T : Type} [CommRing T] (vs : Nat) (hvs : 0 < vs)
    (adv padded : Bool) (m n : Nat) (aa bb : Nat → T) (cc : Buffer T) (x : Nat) :
    (gemv_large_kernel (Arith.exact T) vs adv padded aa m n bb cc).val x =
      if x < m then gemv_large_value aa bb vs (!adv || !padded) m n x else cc.val x := by
  unfold gemv_large_kernel
  simp only []
  generalize hrem : (!adv || !padded) = rem
  generalize hlast : gemv_last vs rem n = last
  have hk1 := round_up_dvd vs last
  have hk2 := le_round_up vs last hvs
  have hk3 := round_up_lt vs last hvs
  generalize hs8 : forLoop m (fun i => decide (i + 7 < m)) 8 _ 0 cc = s8
  have h8 : (8 ∣ s8.1 ∧ s8.1 ≤ m ∧
      ∀ y, s8.2.val y = if y < s8.1 then gemv_large_value aa bb vs rem m n y else cc.val y) ∧
      decide (s8.1 + 7 < m) = false := by
    rw [← hs8]
    refine forLoop_spec (fun i (c : Buffer T) => 8 ∣ i ∧ i ≤ m ∧
      ∀ y, c.val y = if y < i then gemv_large_value aa bb vs rem m n y else cc.val y)
      _ 8 _ m (by norm_num) (fun k hk => ?_) ?_ m 0 _ (by omega) ?_
    · have : k + 7 < m := by simpa using hk
      omega
    · rintro i c ⟨hdi, him, hc⟩ hcond
      have hcond' : i + 7 < m := by simpa using hcond
      refine ⟨by omega, by omega, fun y => ?_⟩
      rw [gemv_large_rows8_val vs hvs rem last n _ hk1 hk2 hk3, hc y]
      by_cases h1 : i ≤ y ∧ y < i + 8
      · rw [if_pos h1, if_pos (show y < i + 8 by omega), gemv_large_value, hlast]
        have hn : ¬ (8 * (m / 8) ≤ y ∧ y < 2 * (m / 2)) := by omega
        simp only [hn, if_false]
      · rw [if_neg h1]
        by_cases h2 : y < i
        · rw [if_pos h2, if_pos (show y < i + 8 by omega)]
        · rw [if_neg h2, if_neg (show ¬ y < i + 8 by omega)]
    · exact ⟨by norm_num, Nat.zero_le _, fun y => by simp⟩
  obtain ⟨⟨h8d, h8m, h8v⟩, h8e⟩ := h8
  have h8e' : ¬ s8.1 + 7 < m := by simpa using h8e
  generalize hs2 : forLoop m (fun i => decide (i + 1 < m)) 2 _ s8.1 s8.2 = s2
  have h2 : (2 ∣ s2.1 ∧ s8.1 ≤ s2.1 ∧ s2.1 ≤ m ∧
      ∀ y, s2.2.val y = if y < s2.1 then gemv_large_value aa bb vs rem m n y else cc.val y) ∧
      decide (s2.1 + 1 < m) = false := by
    rw [← hs2]
    refine forLoop_spec (fun i (c : Buffer T) => 2 ∣ i ∧ s8.1 ≤ i ∧ i ≤ m ∧
      ∀ y, c.val y = if y < i then gemv_large_value aa bb vs rem m n y else cc.val y)
      _ 2 _ m (by norm_num) (fun k hk => ?_) ?_ m _ _ (by omega) ⟨by omega, le_refl _, h8m, h8v⟩
    · have : k + 1 < m := by simpa using hk
      omega
    · rintro i c ⟨hdi, h8i, him, hc⟩ hcond
      have hcond' : i + 1 < m := by simpa using hcond
      refine ⟨by omega, by omega, by omega, fun y => ?_⟩
      rw [gemv_large_rows2_val vs hvs rem last n _ hk1 hk2 hk3, hc y]
      by_cases h1 : i ≤ y ∧ y < i + 2
      · rw [if_pos h1, if_pos (show y < i + 2 by omega), gemv_large_value, hlast]
        have hn : 8 * (m / 8) ≤ y ∧ y < 2 * (m / 2) := by omega
        have e1 : 2 * (y / 2) = i := by omega
        have e2 : y % 2 = y - i := by omega
        simp only [hn, and_self, if_true, e1, e2]
      · rw [if_neg h1]
        by_cases h2 : y < i
        · rw [if_pos h2, if_pos (show y < i + 2 by omega)]
        · rw [if_neg h2, if_neg (show ¬ y < i + 2 by omega)]
  obtain ⟨⟨h2d, h28, h2m, h2v⟩, h2e⟩ := h2
  have h2e' : ¬ s2.1 + 1 < m := by simpa using h2e
  by_cases hlt : s2.1 < m
  · rw [if_pos hlt, gemv_large_row1_val vs hvs rem last n _ hk1 hk2 hk3, h2v x]
    by_cases h1 : x = s2.1
    · rw [if_pos h1, if_pos (show x < m by omega), gemv_large_value, hlast]
      have hn : ¬ (8 * (m / 8) ≤ x ∧ x < 2 * (m / 2)) := by omega
      simp only [hn, if_false]
    · rw [if_neg h1]
      by_cases h2 : x < s2.1
      · rw [if_pos h2, if_pos (show x < m by omega)]
      · rw [if_neg h2, if_neg (show ¬ x < m by omega)]
  · rw [if_neg hlt, h2v x]
    by_cases h2 : x < s2.1
    · rw [if_pos h2, if_pos (show x < m by omega)]
    · rw [if_neg h2, if_neg (show ¬ x < m by omega)]

/-! ## GEMV: claims C1 to C4 -/

theorem gemv_value_exact {T : Type} [CommRing T] (aa bb : Nat → T) (p n x : Nat) (hp : p < 64)
    (hn : n < 2 ^ 64) : gemv_small_value aa bb (2 ^ p) true n x = dot aa bb n x := by
  have hvs : 0 < 2 ^ p := Nat.pos_pow_of_pos p (by norm_num)
  unfold gemv_small_value dot
  rw [round_up_of_dvd _ _ hvs (gemv_last_dvd p n hp hn), if_pos rfl,
    Finset.sum_range_add_sum_Ico _ (gemv_last_le p n hp hn)]

/-- C1: with the remainder loop enabled, for every `m`, `n`, every power-of-two
`vec_size = 2^p` and all `aa`, `bb`, `gemv_small_kernel` leaves
`cc[i] = Σ_{k<n} aa[i*n+k] * bb[k]` in every row `i < m` (exact arithmetic). -/
theorem gemv_small_kernel_correct {T : Type} [CommRing T] (p : Nat) (hp : p < 64)
    (advanced_padding Padded : Bool) (hrem : (!advanced_padding || !Padded) = true)
    (m n : Nat) (hn : n < 2 ^ 64) (aa bb : Nat → T) (cc : Buffer T) (i : Nat) (hi : i < m) :
    (gemv_small_kernel (Arith.exact T) (2 ^ p) advanced_padding Padded aa m n bb cc).val i =
      ∑ k ∈ Finset.range n, aa (i * n + k) * bb k := by
  rw [gemv_small_kernel_val (2 ^ p) (Nat.pos_pow_of_pos p (by norm_num)), if_pos hi, hrem,
    gemv_value_exact aa bb p n i hp hn]
  rfl

/-- Witness of C1: a 3 x 5 product with 4 lanes. -/
theorem gemv_small_kernel_correct_witness :
    (gemv_small_kernel (Arith.exact Int) (2 ^ 2) false false (fun x => (x : Int)) 3 5
        (fun x => (x : Int) + 1) ⟨fun _ => 7, fun _ => 0⟩).val 2 =
      ∑ k ∈ Finset.range 5, ((2 * 5 + k : Nat) : Int) * ((k : Int) + 1) :=
  gemv_small_kernel_correct 2 (by decide) false false rfl 3 5 (by norm_num) _ _ _ 2 (by decide)

/-- C2 (defect): on a 4 x 3 matrix with 2 lanes `gemv_large_kernel` leaves 158 in
row 2, whose exact value `Σ_k aa[2*3+k] * bb[k]` is 194: the remainder inner loop of
the 2-unrolled outer loop reads `aa[i + 0 * n + k]` in place of `aa[(i + 0) * n + k]`. -/
theorem gemv_large_kernel_row_mismatch :
    (gemv_large_kernel (Arith.exact Int) 2 false false (fun x => (x : Int) + 1) 4 3
        (fun k => (k : Int) + 7) ⟨fun _ => 0, fun _ => 0⟩).val 2 = 158 ∧
      ∑ k ∈ Finset.range 3, (((2 * 3 + k : Nat) : Int) + 1) * ((k : Int) + 7) = 194 := by
  decide

theorem gemv_memory {T : Type} (cfg : Config) (A : Arith T) (a b c : Dense T) :
    (gemv cfg A a b c).2.2.memory =
      if a.rows * a.columns < cfg.gemv_small_threshold then
        gemv_small_kernel A cfg.vec_size cfg.advanced_padding (all_padded a b c)
          a.memory.val a.rows a.columns b.memory.val c.memory
      else
        gemv_large_kernel A cfg.vec_size cfg.advanced_padding (all_padded a b c)
          a.memory.val a.rows a.columns b.memory.val c.memory := by
  unfold gemv
  simp only [Dense.size, Dense.ensure_cpu_up_to_date, Dense.memory_start, all_padded]
  split <;> rfl

/-- C3 (defect): for every threshold `thr` and every lane count `2^(q+1)` (2, 4, ...,
`2^63`), the row-major `gemv` with `N = vec_size + 1`, `M = 8 * thr + 4` and
`Padded = false` runs the large kernel and leaves 0 in row `M - 2`, whose exact value
`Σ_k A[M-2,k] * B[k]` is 1 (`A` is 1 at `(M-2, N-1)` and 0 elsewhere, `B` is all ones). -/
theorem gemv_boundary_mismatch (thr : Nat) (q : Fin 63) (adv : Bool) :
    (gemv ⟨2 ^ (q.val + 1), adv, thr, 0, 0, 4⟩ (Arith.exact Int)
        ⟨8 * thr + 4, 2 ^ (q.val + 1) + 1, true, false,
          ⟨fun x => if x = (8 * thr + 2) * (2 ^ (q.val + 1) + 1) + 2 ^ (q.val + 1) then 1 else 0,
           fun _ => 0⟩, true, false⟩
        ⟨2 ^ (q.val + 1) + 1, 1, true, false, ⟨fun _ => 1, fun _ => 0⟩, true, false⟩
        ⟨8 * thr + 4, 1, true, false, ⟨fun _ => 0, fun _ => 0⟩, true, false⟩).2.2.memory.val
        (8 * thr + 2) = 0 ∧
      ∑ k ∈ Finset.range (2 ^ (q.val + 1) + 1),
        (if (8 * thr + 2) * (2 ^ (q.val + 1) + 1) + k =
            (8 * thr + 2) * (2 ^ (q.val + 1) + 1) + 2 ^ (q.val + 1) then (1 : Int) else 0) * 1
        = 1 := by
  have hq : q.val + 1 < 64 := by have := q.isLt; omega
  have hvs2 : 2 ≤ 2 ^ (q.val + 1) := by
    calc 2 = 2 ^ 1 := rfl
      _ ≤ 2 ^ (q.val + 1) := Nat.pow_le_pow_right (by norm_num) (by omega)
  have hvs64 : 2 ^ (q.val + 1) ≤ 2 ^ 63 := Nat.pow_le_pow_right (by norm_num) (by omega)
  generalize hvs : 2 ^ (q.val + 1) = vs at hvs2 hvs64 ⊢
  have hN : vs + 1 < 2 ^ 64 := by
    have : (2 : Nat) ^ 63 + 1 < 2 ^ 64 := by norm_num
    omega
  have hlast : gemv_last vs true (vs + 1) = vs := by
    rw [← hvs, gemv_last_eq _ _ hq (by rw [hvs]; exact hN), hvs]
    have : (vs + 1) / vs = 1 := by
      rw [Nat.add_div_left 1 (by omega : 0 < vs)]
      have h1 : 1 / vs = 0 := Nat.div_eq_of_lt (by omega)
      rw [h1]
    rw [this, Nat.mul_one]
  have hru : round_up vs vs = vs := round_up_of_dvd vs vs (by omega) (dvd_refl _)
  constructor
  · rw [gemv_memory]
    have hsz : ¬ (8 * thr + 4) * (vs + 1) < thr := by
      have : 8 * thr + 4 ≤ (8 * thr + 4) * (vs + 1) := Nat.le_mul_of_pos_right _ (by omega)
      omega
    simp only [hsz, if_false, all_padded, Bool.and_false, Bool.false_and]
    rw [gemv_large_kernel_val vs (by omega), if_pos (by omega)]
    unfold gemv_large_value
    have hrem : (!adv || !false) = true := by simp
    simp only [hrem, hlast, hru, if_true]
    rw [Nat.Ico_succ_singleton, Finset.sum_singleton]
    have hreg : 8 * ((8 * thr + 4) / 8) ≤ 8 * thr + 2 ∧ 8 * thr + 2 < 2 * ((8 * thr + 4) / 2) := by
      omega
    have e1 : 2 * ((8 * thr + 2) / 2) = 8 * thr + 2 := by omega
    have e2 : (8 * thr + 2) % 2 = 0 := by omega
    rw [if_pos hreg, e1, e2]
    have hne : ¬ (8 * thr + 2 + 0 * (vs + 1) + vs = (8 * thr + 2) * (vs + 1) + vs) := by
      have : (8 * thr + 2) * (vs + 1) = (8 * thr + 2) * vs + (8 * thr + 2) := by ring
      have h2 : 2 * 2 ≤ (8 * thr + 2) * vs := Nat.mul_le_mul (by omega) hvs2
      omega
    rw [if_neg hne]
    have hz : ∑ k ∈ range vs,
        (if (8 * thr + 2) * (vs + 1) + k = (8 * thr + 2) * (vs + 1) + vs then (1 : Int) else 0) * 1
        = 0 := by
      apply Finset.sum_eq_zero
      intro k hk
      have : k < vs := Finset.mem_range.1 hk
      rw [if_neg (by omega)]
      simp
    rw [hz]
    simp
  · rw [Finset.sum_eq_single vs]
    · simp
    · intro k _ hk
      rw [if_neg (by omega)]
      simp
    · intro h
      exact absurd (Finset.mem_range.2 (by omega)) h

theorem gemv_large_value_exact_of_lt {T : Type} [CommRing T] (aa bb : Nat → T) (p m n x : Nat)
    (hp : p < 64) (hn : n < 2 ^ 64) (hm : m < 4) :
    gemv_large_value aa bb (2 ^ p) true m n x = dot aa bb n x := by
  rw [← gemv_value_exact aa bb p n x hp hn]
  unfold gemv_large_value gemv_small_value
  congr 1
  rw [if_pos rfl, if_pos rfl]
  apply Finset.sum_congr rfl
  intro k _
  by_cases h : 8 * (m / 8) ≤ x ∧ x < 2 * (m / 2)
  · rw [if_pos h]
    have hx : x = 0 ∨ x = 1 := by omega
    rcases hx with rfl | rfl <;> simp
  · rw [if_neg h]

theorem gemv_large_kernel_correct_of_lt {T : Type} [CommRing T] (p : Nat) (hp : p < 64)
    (advanced_padding Padded : Bool) (hrem : (!advanced_padding || !Padded) = true)
    (m n : Nat) (hm : m < 4) (hn : n < 2 ^ 64) (aa bb : Nat → T) (cc : Buffer T) (i : Nat)
    (hi : i < m) :
    (gemv_large_kernel (Arith.exact T) (2 ^ p) advanced_padding Padded aa m n bb cc).val i =
      ∑ k ∈ Finset.range n, aa (i * n + k) * bb k := by
  rw [gemv_large_kernel_val (2 ^ p) (Nat.pos_pow_of_pos p (by norm_num)), if_pos hi, hrem,
    gemv_large_value_exact_of_lt aa bb p m n i hp hn hm]
  rfl

theorem scenario1_sums (aa bb : Nat → Int) (ha : ∀ x, x < 6 → aa x = (x : Int) + 1)
    (hb : ∀ k, k < 3 → bb k = (k : Int) + 7) :
    ∑ k ∈ Finset.range 3, aa (0 * 3 + k) * bb k = 50 ∧
      ∑ k ∈ Finset.range 3, aa (1 * 3 + k) * bb k = 122 := by
  simp [Finset.sum_range_succ, ha 0 (by norm_num), ha 1 (by norm_num), ha 2 (by norm_num),
    ha 3 (by norm_num), ha 4 (by norm_num), ha 5 (by norm_num), hb 0 (by norm_num),
    hb 1 (by norm_num), hb 2 (by norm_num)]

theorem scenario2_sums (aa bb : Nat → Int) (ha : ∀ x, x < 10 → aa x = (x : Int) + 1)
    (hb : ∀ k, k < 5 → bb k = (k : Int) + 7) :
    ∑ k ∈ Finset.range 5, aa (0 * 5 + k) * bb k = 145 ∧
      ∑ k ∈ Finset.range 5, aa (1 * 5 + k) * bb k = 370 := by
  simp [Finset.sum_range_succ, ha 0 (by norm_num), ha 1 (by norm_num), ha 2 (by norm_num),
    ha 3 (by norm_num), ha 4 (by norm_num), ha 5 (by norm_num), ha 6 (by norm_num),
    ha 7 (by norm_num), ha 8 (by norm_num), ha 9 (by norm_num), hb 0 (by norm_num),
    hb 1 (by norm_num), hb 2 (by norm_num), hb 3 (by norm_num), hb 4 (by norm_num)]

theorem pow_of_mem_lanes (vs : Nat) (h : vs ∈ [1, 2, 4, 8, 16]) : ∃ p, p < 64 ∧ vs = 2 ^ p := by
  simp only [List.mem_cons, List.mem_singleton, List.mem_nil_iff, or_false] at h
  rcases h with h | h | h | h | h
  · exact ⟨0, by norm_num, h⟩
  · exact ⟨1, by norm_num, h⟩
  · exact ⟨2, by norm_num, h⟩
  · exact ⟨3, by norm_num, h⟩
  · exact ⟨4, by norm_num, h⟩

/-- C4: for every `vec_size` in {1, 2, 4, 8, 16}, with the remainder loop enabled,
`A = [[1,2,3],[4,5,6]]`, `B = [7,8,9]` give `C = [50, 122]` and `A = 2x5` holding
1..10, `B = [7,8,9,10,11]` give `C = [145, 370]`: from `gemv_small_kernel`, from
`gemv_large_kernel`, and from the row-major `gemv` whatever `gemv_small_threshold` is. -/
theorem gemv_concrete_scenarios (cfg : Config) (hvs : cfg.vec_size ∈ [1, 2, 4, 8, 16])
    (a1 b1 a2 b2 c : Dense Int)
    (hrem1 : (!cfg.advanced_padding || !all_padded a1 b1 c) = true)
    (hrem2 : (!cfg.advanced_padding || !all_padded a2 b2 c) = true)
    (hm1 : a1.rows = 2) (hn1 : a1.columns = 3)
    (ha1 : ∀ x, x < 6 → a1.memory.val x = (x : Int) + 1)
    (hb1 : ∀ k, k < 3 → b1.memory.val k = (k : Int) + 7)
    (hm2 : a2.rows = 2) (hn2 : a2.columns = 5)
    (ha2 : ∀ x, x < 10 → a2.memory.val x = (x : Int) + 1)
    (hb2 : ∀ k, k < 5 → b2.memory.val k = (k : Int) + 7) :
    ((gemv_small_kernel (Arith.exact Int) cfg.vec_size cfg.advanced_padding
          (all_padded a1 b1 c) a1.memory.val 2 3 b1.memory.val c.memory).val 0 = 50 ∧
      (gemv_small_kernel (Arith.exact Int) cfg.vec_size cfg.advanced_padding
          (all_padded a1 b1 c) a1.memory.val 2 3 b1.memory.val c.memory).val 1 = 122 ∧
      (gemv_large_kernel (Arith.exact Int) cfg.vec_size cfg.advanced_padding
          (all_padded a1 b1 c) a1.memory.val 2 3 b1.memory.val c.memory).val 0 = 50 ∧
      (gemv_large_kernel (Arith.exact Int) cfg.vec_size cfg.advanced_padding
          (all_padded a1 b1 c) a1.memory.val 2 3 b1.memory.val c.memory).val 1 = 122 ∧
      (gemv cfg (Arith.exact Int) a1 b1 c).2.2.memory.val 0 = 50 ∧
      (gemv cfg (Arith.exact Int) a1 b1 c).2.2.memory.val 1 = 122) ∧
    ((gemv_small_kernel (Arith.exact Int) cfg.vec_size cfg.advanced_padding
          (all_padded a2 b2 c) a2.memory.val 2 5 b2.memory.val c.memory).val 0 = 145 ∧
      (gemv_small_kernel (Arith.exact Int) cfg.vec_size cfg.advanced_padding
          (all_padded a2 b2 c) a2.memory.val 2 5 b2.memory.val c.memory).val 1 = 370 ∧
      (gemv_large_kernel (Arith.exact Int) cfg.vec_size cfg.advanced_padding
          (all_padded a2 b2 c) a2.memory.val 2 5 b2.memory.val c.memory).val 0 = 145 ∧
      (gemv_large_kernel (Arith.exact Int) cfg.vec_size cfg.advanced_padding
          (all_padded a2 b2 c) a2.memory.val 2 5 b2.memory.val c.memory).val 1 = 370 ∧
      (gemv cfg (Arith.exact Int) a2 b2 c).2.2.memory.val 0 = 145 ∧
      (gemv cfg (Arith.exact Int) a2 b2 c).2.2.memory.val 1 = 370) := by
  obtain ⟨p, hp, hvp⟩ := pow_of_mem_lanes _ hvs
  have hpos : 0 < 2 ^ p := Nat.pos_pow_of_pos p (by norm_num)
  have key : ∀ (pd : Bool) (aa bb : Nat → Int), (!cfg.advanced_padding || !pd) = true →
      ∀ n, n < 2 ^ 64 → ∀ i, i < 2 →
      (gemv_small_kernel (Arith.exact Int) cfg.vec_size cfg.advanced_padding
          pd aa 2 n bb c.memory).val i = ∑ k ∈ Finset.range n, aa (i * n + k) * bb k ∧
      (gemv_large_kernel (Arith.exact Int) cfg.vec_size cfg.advanced_padding
          pd aa 2 n bb c.memory).val i = ∑ k ∈ Finset.range n, aa (i * n + k) * bb k := by
    intro pd aa bb hrem n hn i hi
    rw [hvp]
    refine ⟨?_, gemv_large_kernel_correct_of_lt p hp _ _ hrem 2 n (by norm_num) hn _ _ _ i hi⟩
    rw [gemv_small_kernel_val (2 ^ p) hpos, if_pos hi, hrem, gemv_value_exact aa bb p n i hp hn]
    rfl
  constructor
  · obtain ⟨s0, s1⟩ := scenario1_sums _ _ ha1 hb1
    have k0 := key _ a1.memory.val b1.memory.val hrem1 3 (by norm_num) 0 (by norm_num)
    have k1 := key _ a1.memory.val b1.memory.val hrem1 3 (by norm_num) 1 (by norm_num)
    rw [s0] at k0
    rw [s1] at k1
    refine ⟨k0.1, k1.1, k0.2, k1.2, ?_⟩
    rw [gemv_memory, hm1, hn1]
    split
    · exact ⟨k0.1, k1.1⟩
    · exact ⟨k0.2, k1.2⟩
  · obtain ⟨s0, s1⟩ := scenario2_sums _ _ ha2 hb2
    have k0 := key _ a2.memory.val b2.memory.val hrem2 5 (by norm_num) 0 (by norm_num)
    have k1 := key _ a2.memory.val b2.memory.val hrem2 5 (by norm_num) 1 (by norm_num)
    rw [s0] at k0
    rw [s1] at k1
    refine ⟨k0.1, k1.1, k0.2, k1.2, ?_⟩
    rw [gemv_memory, hm2, hn2]
    split
    · exact ⟨k0.1, k1.1⟩
    · exact ⟨k0.2, k1.2⟩

/-- Witness of C4: 4 lanes, threshold 100 (small kernel), a destination that held 9. -/
theorem gemv_concrete_scenarios_witness :
    (gemv ⟨4, false, 100, 0, 0, 4⟩ (Arith.exact Int)
        ⟨2, 3, true, false, ⟨fun x => (x : Int) + 1, fun _ => 0⟩, true, false⟩
        ⟨3, 1, true, false, ⟨fun k => (k : Int) + 7, fun _ => 0⟩, true, false⟩
        ⟨2, 1, true, false, ⟨fun _ => 9, fun _ => 0⟩, true, false⟩).2.2.memory.val 1 = 122 ∧
      (gemv ⟨4, false, 100, 0, 0, 4⟩ (Arith.exact Int)
        ⟨2, 5, true, false, ⟨fun x => (x : Int) + 1, fun _ => 0⟩, true, false⟩
        ⟨5, 1, true, false, ⟨fun k => (k : Int) + 7, fun _ => 0⟩, true, false⟩
        ⟨2, 1, true, false, ⟨fun _ => 9, fun _ => 0⟩, true, false⟩).2.2.memory.val 1 = 370 :=
  ⟨(gemv_concrete_scenarios ⟨4, false, 100, 0, 0, 4⟩ (by decide)
      ⟨2, 3, true, false, ⟨fun x => (x : Int) + 1, fun _ => 0⟩, true, false⟩
      ⟨3, 1, true, false, ⟨fun k => (k : Int) + 7, fun _ => 0⟩, true, false⟩
      ⟨2, 5, true, false, ⟨fun x => (x : Int) + 1, fun _ => 0⟩, true, false⟩
      ⟨5, 1, true, false, ⟨fun k => (k : Int) + 7, fun _ => 0⟩, true, false⟩
      ⟨2, 1, true, false, ⟨fun _ => 9, fun _ => 0⟩, true, false⟩
      rfl rfl rfl rfl (fun _ _ => rfl) (fun _ _ => rfl) rfl rfl (fun _ _ => rfl)
      (fun _ _ => rfl)).1.2.2.2.2.2,
   (gemv_concrete_scenarios ⟨4, false, 100, 0, 0, 4⟩ (by decide)
      ⟨2, 3, true, false, ⟨fun x => (x : Int) + 1, fun _ => 0⟩, true, false⟩
      ⟨3, 1, true, false, ⟨fun k => (k : Int) + 7, fun _ => 0⟩, true, false⟩
      ⟨2, 5, true, false, ⟨fun x => (x : Int) + 1, fun _ => 0⟩, true, false⟩
      ⟨5, 1, true, false, ⟨fun k => (k : Int) + 7, fun _ => 0⟩, true, false⟩
      ⟨2, 1, true, false, ⟨fun _ => 9, fun _ => 0⟩, true, false⟩
      rfl rfl rfl rfl (fun _ _ => rfl) (fun _ _ => rfl) rfl rfl (fun _ _ => rfl)
      (fun _ _ => rfl)).2.2.2.2.2.2⟩

/-! ## Buffers: what a sequence of stores leaves behind -/

theorem Updated.upd_refl {T : Type} (c : Buffer T) (V : Nat → T) : Updated c c (fun _ => False) V :=
  ⟨fun _ h => h.elim, fun _ _ => rfl⟩

theorem Updated.upd_seq {T : Type} {c0 c c' : Buffer T} {P Q : Nat → Prop} {V V' : Nat → T}
    (h1 : Updated c0 c P V) (h2 : Updated c c' Q V') (R : Nat → Prop) (W : Nat → T)
    (hR : ∀ x, R x ↔ P x ∨ Q x) (hW1 : ∀ x, Q x → W x = V' x)
    (hW2 : ∀ x, P x → ¬ Q x → W x = V x) : Updated c0 c' R W := by
  constructor
  · intro x hx
    by_cases hq : Q x
    · rw [h2.1 x hq, hW1 x hq]
    · have hp : P x := ((hR x).1 hx).resolve_right hq
      rw [h2.2 x hq, h1.1 x hp, hW2 x hp hq]
  · intro x hx
    have hp : ¬ P x := fun h => hx ((hR x).2 (Or.inl h))
    have hq : ¬ Q x := fun h => hx ((hR x).2 (Or.inr h))
    rw [h2.2 x hq, h1.2 x hp]

theorem Updated.upd_congr {T : Type} {c0 c : Buffer T} {P : Nat → Prop} {V : Nat → T}
    (h : Updated c0 c P V) (R : Nat → Prop) (W : Nat → T) (hR : ∀ x, R x ↔ P x)
    (hW : ∀ x, P x → W x = V x) : Updated c0 c R W :=
  ⟨fun x hx => by rw [h.1 x ((hR x).1 hx), hW x ((hR x).1 hx)],
   fun x hx => h.2 x (fun hp => hx ((hR x).2 hp))⟩

theorem storeu_val {T : Type} (c : Buffer T) (j vs : Nat) (r : Vec T) (y : Nat) :
    (Vec.storeu c j vs r).val y = if j ≤ y ∧ y < j + vs then r (y - j) else c.val y := rfl

theorem storeu_stores {T : Type} (c : Buffer T) (j vs : Nat) (r : Vec T) (y : Nat) :
    (Vec.storeu c j vs r).stores y =
      if j ≤ y ∧ y < j + vs then c.stores y + 1 else c.stores y := rfl

theorem write_stores {T : Type} (c : Buffer T) (x : Nat) (v : T) (y : Nat) :
    (c.write x v).stores y = if y = x then c.stores y + 1 else c.stores y := rfl

/-- One vector store after an update: the stored lanes join the updated set. -/
theorem Updated.upd_storeu {T : Type} {c0 c : Buffer T} {P : Nat → Prop} {V : Nat → T}
    (h : Updated c0 c P V) (idx vs : Nat) (r : Vec T)
    (hr : ∀ l, l < vs → r l = V (idx + l)) :
    Updated c0 (Vec.storeu c idx vs r) (fun x => P x ∨ (idx ≤ x ∧ x < idx + vs)) V := by
  constructor
  · intro x hx
    rw [storeu_val]
    by_cases hq : idx ≤ x ∧ x < idx + vs
    · rw [if_pos hq, hr (x - idx) (by omega)]
      congr 1
      omega
    · rw [if_neg hq]
      exact h.1 x (hx.resolve_right hq)
  · intro x hx
    rw [storeu_val, if_neg (fun hq => hx (Or.inr hq))]
    exact h.2 x (fun hp => hx (Or.inl hp))

/-- One scalar store after an update. -/
theorem Updated.upd_write {T : Type} {c0 c : Buffer T} {P : Nat → Prop} {V : Nat → T}
    (h : Updated c0 c P V) (idx : Nat) (v : T) (hv : v = V idx) :
    Updated c0 (c.write idx v) (fun x => P x ∨ x = idx) V := by
  constructor
  · intro x hx
    rw [write_val]
    by_cases hq : x = idx
    · rw [if_pos hq, hv, hq]
    · rw [if_neg hq]
      exact h.1 x (hx.resolve_right hq)
  · intro x hx
    rw [write_val, if_neg (fun hq => hx (Or.inr hq))]
    exact h.2 x (fun hp => hx (Or.inl hp))

theorem Filled.fill_refl {T : Type} (c : Buffer T) (V : Nat → T) : Filled c c (fun _ => False) V :=
  ⟨fun _ h => h.elim, fun _ _ => ⟨rfl, rfl⟩⟩

theorem Filled.updated {T : Type} {c0 c : Buffer T} {P : Nat → Prop} {V : Nat → T}
    (h : Filled c0 c P V) : Updated c0 c P V :=
  ⟨fun x hx => (h.1 x hx).1, fun x hx => (h.2 x hx).1⟩

theorem Filled.fill_seq {T : Type} {c0 c c' : Buffer T} {P Q : Nat → Prop} {V : Nat → T}
    (h1 : Filled c0 c P V) (h2 : Filled c c' Q V) (R : Nat → Prop)
    (hR : ∀ x, R x ↔ P x ∨ Q x) (hd : ∀ x, P x → ¬ Q x) : Filled c0 c' R V := by
  constructor
  · intro x hx
    by_cases hq : Q x
    · have hp : ¬ P x := fun hp => hd x hp hq
      exact ⟨(h2.1 x hq).1, by rw [(h2.1 x hq).2, (h1.2 x hp).2]⟩
    · have hp : P x := ((hR x).1 hx).resolve_right hq
      exact ⟨by rw [(h2.2 x hq).1, (h1.1 x hp).1], by rw [(h2.2 x hq).2, (h1.1 x hp).2]⟩
  · intro x hx
    have hp : ¬ P x := fun h => hx ((hR x).2 (Or.inl h))
    have hq : ¬ Q x := fun h => hx ((hR x).2 (Or.inr h))
    exact ⟨by rw [(h2.2 x hq).1, (h1.2 x hp).1], by rw [(h2.2 x hq).2, (h1.2 x hp).2]⟩

theorem Filled.fill_congr {T : Type} {c0 c : Buffer T} {P : Nat → Prop} {V : Nat → T}
    (h : Filled c0 c P V) (R : Nat → Prop) (hR : ∀ x, R x ↔ P x) : Filled c0 c R V :=
  ⟨fun x hx => h.1 x ((hR x).1 hx), fun x hx => h.2 x (fun hp => hx ((hR x).2 hp))⟩

/-- One vector store to fresh lanes after a fill. -/
theorem Filled.fill_storeu {T : Type} {c0 c : Buffer T} {P : Nat → Prop} {V : Nat → T}
    (h : Filled c0 c P V) (idx vs : Nat) (r : Vec T)
    (hr : ∀ l, l < vs → r l = V (idx + l))
    (hd : ∀ x, P x → ¬ (idx ≤ x ∧ x < idx + vs)) :
    Filled c0 (Vec.storeu c idx vs r) (fun x => P x ∨ (idx ≤ x ∧ x < idx + vs)) V := by
  constructor
  · intro x hx
    rw [storeu_val, storeu_stores]
    by_cases hq : idx ≤ x ∧ x < idx + vs
    · have hp : ¬ P x := fun hp => hd x hp hq
      rw [if_pos hq, if_pos hq, hr (x - idx) (by omega), (h.2 x hp).2]
      refine ⟨?_, rfl⟩
      congr 1
      omega
    · rw [if_neg hq, if_neg hq]
      exact h.1 x (hx.resolve_right hq)
  · intro x hx
    rw [storeu_val, storeu_stores, if_neg (fun hq => hx (Or.inr hq)),
      if_neg (fun hq => hx (Or.inr hq))]
    exact h.2 x (fun hp => hx (Or.inl hp))

/-- One scalar store to a fresh index after a fill. -/
theorem Filled.fill_write {T : Type} {c0 c : Buffer T} {P : Nat → Prop} {V : Nat → T}
    (h : Filled c0 c P V) (idx : Nat) (v : T) (hv : v = V idx) (hd : ¬ P idx) :
    Filled c0 (c.write idx v) (fun x => P x ∨ x = idx) V := by
  constructor
  · intro x hx
    rw [write_val, write_stores]
    by_cases hq : x = idx
    · subst hq
      rw [if_pos rfl, if_pos rfl, hv, (h.2 x hd).2]
      exact ⟨rfl, rfl⟩
    · rw [if_neg hq, if_neg hq]
      exact h.1 x (hx.resolve_right hq)
  · intro x hx
    rw [write_val, write_stores, if_neg (fun hq => hx (Or.inr hq)),
      if_neg (fun hq => hx (Or.inr hq))]
    exact h.2 x (fun hp => hx (Or.inl hp))

theorem mem_row_iff (N i lo hi x : Nat) (h : hi ≤ N) :
    (i * N + lo ≤ x ∧ x < i * N + hi) ↔ (x / N = i ∧ lo ≤ x % N ∧ x % N < hi) := by
  constructor
  · rintro ⟨h1, h2⟩
    have hN : 0 < N := by omega
    have hq : x / N = i := by
      apply Nat.div_eq_of_lt_le
      · calc i * N ≤ i * N + lo := Nat.le_add_right _ _
          _ ≤ x := h1
      · calc x < i * N + hi := h2
          _ ≤ i * N + N := by omega
          _ = (i + 1) * N := by ring
    have hm := Nat.div_add_mod x N
    rw [hq, Nat.mul_comm] at hm
    omega
  · rintro ⟨h1, h2, h3⟩
    have hm := Nat.div_add_mod x N
    rw [h1, Nat.mul_comm] at hm
    omega

theorem row_div (N i c : Nat) (h : c < N) : (i * N + c) / N = i ∧ (i * N + c) % N = c := by
  have := (mem_row_iff N i c (c + 1) (i * N + c) (by omega)).1 ⟨le_refl _, by omega⟩
  omega

theorem mdot_at {T : Type} [CommRing T] (a b : Nat → T) (N K i c : Nat) (h : c < N) :
    mdot a b N K (i * N + c) = ∑ k ∈ Finset.range K, a (i * K + k) * b (k * N + c) := by
  unfold mdot
  rw [(row_div N i c h).1, (row_div N i c h).2]

theorem fmadd_set_step {T : Type} [CommRing T] (a : T) (bb : Nat → T) (idx : Nat) (r : Vec T)
    (l : Nat) :
    Vec.fmadd (Arith.exact T) (Vec.set a) (Vec.loadu bb idx) r l = r l + a * bb (idx + l) := by
  simp only [Vec.fmadd, Vec.set, Vec.loadu, exact_fmadd]
  ring

/-- A loop whose body fills the slab `j ≤ g x < j + step` (within `C`) fills, slab after
slab, the range from `lo` to its exit index. -/
theorem sweep_fill {T : Type} (g : Nat → Nat) (C : Nat → Prop) (cc : Buffer T) (V : Nat → T)
    (n step : Nat) (body : Nat → Buffer T → Buffer T) (cond : Nat → Bool) (hstep : 0 < step)
    (hcond : ∀ j, cond j = true → j + step ≤ n)
    (hbody : ∀ j c, cond j = true →
      Filled c (body j c) (fun x => (j ≤ g x ∧ g x < j + step) ∧ C x) V)
    (lo j0 : Nat) (c0 : Buffer T) (hlo : lo ≤ j0) (h0 : j0 ≤ n)
    (hf : Filled cc c0 (fun x => (lo ≤ g x ∧ g x < j0) ∧ C x) V) :
    (j0 ≤ (forLoop n cond step body j0 c0).1 ∧ (forLoop n cond step body j0 c0).1 ≤ n ∧
      Filled cc (forLoop n cond step body j0 c0).2
        (fun x => (lo ≤ g x ∧ g x < (forLoop n cond step body j0 c0).1) ∧ C x) V) ∧
      cond (forLoop n cond step body j0 c0).1 = false := by
  refine forLoop_spec (fun j c => j0 ≤ j ∧ j ≤ n ∧
      Filled cc c (fun x => (lo ≤ g x ∧ g x < j) ∧ C x) V) cond step body n hstep
    (fun j hj => by have := hcond j hj; omega) ?_ n j0 c0 (by omega) ⟨le_refl _, h0, hf⟩
  rintro j c ⟨h1, h2, h3⟩ hc
  refine ⟨by omega, hcond j hc, ?_⟩
  refine Filled.fill_seq h3 (hbody j c hc) _ (fun x => ?_) (fun x hp hq => ?_)
  · constructor
    · rintro ⟨⟨ha, hb⟩, hC⟩
      by_cases hlt : g x < j
      · exact Or.inl ⟨⟨ha, hlt⟩, hC⟩
      · exact Or.inr ⟨⟨by omega, hb⟩, hC⟩
    · rintro (⟨⟨ha, hb⟩, hC⟩ | ⟨⟨ha, hb⟩, hC⟩)
      · exact ⟨⟨ha, by omega⟩, hC⟩
      · exact ⟨⟨by omega, hb⟩, hC⟩
  · have := hp.1.2
    have := hq.1.1
    omega

/-- A loop whose body adds `G x` to the slab `j ≤ g x < j + step` (within `C`) adds `G x`,
slab after slab, to the range from `lo` to its exit index. -/
theorem sweep_acc {T : Type} [CommRing T] (g : Nat → Nat) (C : Nat → Prop) (cc : Buffer T)
    (G : Nat → T)
    (n step : Nat) (body : Nat → Buffer T → Buffer T) (cond : Nat → Bool) (hstep : 0 < step)
    (hcond : ∀ j, cond j = true → j + step ≤ n)
    (hbody : ∀ j c, cond j = true →
      Updated c (body j c) (fun x => (j ≤ g x ∧ g x < j + step) ∧ C x)
        (fun x => c.val x + G x))
    (lo j0 : Nat) (c0 : Buffer T) (hlo : lo ≤ j0) (h0 : j0 ≤ n)
    (hf : Updated cc c0 (fun x => (lo ≤ g x ∧ g x < j0) ∧ C x) (fun x => cc.val x + G x)) :
    (j0 ≤ (forLoop n cond step body j0 c0).1 ∧ (forLoop n cond step body j0 c0).1 ≤ n ∧
      Updated cc (forLoop n cond step body j0 c0).2
        (fun x => (lo ≤ g x ∧ g x < (forLoop n cond step body j0 c0).1) ∧ C x)
        (fun x => cc.val x + G x)) ∧
      cond (forLoop n cond step body j0 c0).1 = false := by
  refine forLoop_spec (fun j c => j0 ≤ j ∧ j ≤ n ∧
      Updated cc c (fun x => (lo ≤ g x ∧ g x < j) ∧ C x) (fun x => cc.val x + G x))
    cond step body n hstep
    (fun j hj => by have := hcond j hj; omega) ?_ n j0 c0 (by omega) ⟨le_refl _, h0, hf⟩
  rintro j c ⟨h1, h2, h3⟩ hc
  refine ⟨by omega, hcond j hc, ?_⟩
  refine Updated.upd_seq h3 (hbody j c hc) _ _ (fun x => ?_) (fun x hq => ?_) (fun x _ _ => rfl)
  · constructor
    · rintro ⟨⟨ha, hb⟩, hC⟩
      by_cases hlt : g x < j
      · exact Or.inl ⟨⟨ha, hlt⟩, hC⟩
      · exact Or.inr ⟨⟨by omega, hb⟩, hC⟩
    · rintro (⟨⟨ha, hb⟩, hC⟩ | ⟨⟨ha, hb⟩, hC⟩)
      · exact ⟨⟨ha, by omega⟩, hC⟩
      · exact ⟨⟨by omega, hb⟩, hC⟩
  · have hnp : ¬ ((lo ≤ g x ∧ g x < j) ∧ C x) := by
      have := hq.1.1
      intro hp
      have := hp.1.2
      omega
    show cc.val x + G x = c.val x + G x
    rw [h3.2 x hnp]

theorem mdot_blk_at {T : Type} [CommRing T] (a b : Nat → T) (N K k0 k1 i c : Nat) (h : c < N) :
    mdot_blk a b N K k0 k1 (i * N + c) =
      ∑ k ∈ Finset.Ico k0 k1, a (i * K + k) * b (k * N + c) := by
  unfold mdot_blk
  rw [(row_div N i c h).1, (row_div N i c h).2]

theorem eq_row_iff (N row col x : Nat) (h : col < N) :
    x = row * N + col ↔ (x / N = row ∧ x % N = col) := by
  have := mem_row_iff N row col (col + 1) x (by omega)
  omega

/-- A vector store inside one row after a fill; the stored lanes join the filled set. -/
theorem Filled.fill_storeu_row {T : Type} {c0 c : Buffer T} {P : Nat → Prop} {V : Nat → T}
    (h : Filled c0 c P V) (N row lo vs idx : Nat) (r : Vec T)
    (hidx : idx = row * N + lo) (hN : lo + vs ≤ N)
    (hr : ∀ l, l < vs → r l = V (row * N + (lo + l)))
    (hd : ∀ x, P x → ¬ (x / N = row ∧ lo ≤ x % N ∧ x % N < lo + vs)) :
    Filled c0 (Vec.storeu c idx vs r)
      (fun x => P x ∨ (x / N = row ∧ lo ≤ x % N ∧ x % N < lo + vs)) V := by
  have key : ∀ x, (idx ≤ x ∧ x < idx + vs) ↔ (x / N = row ∧ lo ≤ x % N ∧ x % N < lo + vs) := by
    intro x
    rw [hidx, Nat.add_assoc]
    exact mem_row_iff N row lo (lo + vs) x hN
  refine (h.fill_storeu idx vs r (fun l hl => by rw [hr l hl, hidx, Nat.add_assoc])
    (fun x hp hq => hd x hp ((key x).1 hq))).fill_congr _ (fun x => ?_)
  rw [key x]

/-- A scalar store inside one row after a fill. -/
theorem Filled.fill_write_row {T : Type} {c0 c : Buffer T} {P : Nat → Prop} {V : Nat → T}
    (h : Filled c0 c P V) (N row col idx : Nat) (v : T)
    (hidx : idx = row * N + col) (hN : col < N) (hv : v = V (row * N + col))
    (hd : ∀ x, P x → ¬ (x / N = row ∧ x % N = col)) :
    Filled c0 (c.write idx v) (fun x => P x ∨ (x / N = row ∧ x % N = col)) V := by
  refine (h.fill_write idx v (by rw [hv, hidx])
    (fun hp => hd idx hp ((eq_row_iff N row col idx hN).1 hidx))).fill_congr _ (fun x => ?_)
  rw [hidx, eq_row_iff N row col x hN]

/-- A vector store inside one row after an update. -/
theorem Updated.upd_storeu_row {T : Type} {c0 c : Buffer T} {P : Nat → Prop} {V : Nat → T}
    (h : Updated c0 c P V) (N row lo vs idx : Nat) (r : Vec T)
    (hidx : idx = row * N + lo) (hN : lo + vs ≤ N)
    (hr : ∀ l, l < vs → r l = V (row * N + (lo + l))) :
    Updated c0 (Vec.storeu c idx vs r)
      (fun x => P x ∨ (x / N = row ∧ lo ≤ x % N ∧ x % N < lo + vs)) V := by
  have key : ∀ x, (idx ≤ x ∧ x < idx + vs) ↔ (x / N = row ∧ lo ≤ x % N ∧ x % N < lo + vs) := by
    intro x
    rw [hidx, Nat.add_assoc]
    exact mem_row_iff N row lo (lo + vs) x hN
  refine (h.upd_storeu idx vs r (fun l hl => by rw [hr l hl, hidx, Nat.add_assoc])).upd_congr _ _
    (fun x => ?_) (fun _ _ => rfl)
  rw [key x]

/-- A scalar store inside one row after an update. -/
theorem Updated.upd_write_row {T : Type} {c0 c : Buffer T} {P : Nat → Prop} {V : Nat → T}
    (h : Updated c0 c P V) (N row col idx : Nat) (v : T)
    (hidx : idx = row * N + col) (hN : col < N) (hv : v = V (row * N + col)) :
    Updated c0 (c.write idx v) (fun x => P x ∨ (x / N = row ∧ x % N = col)) V := by
  refine (h.upd_write idx v (by rw [hv, hidx])).upd_congr _ _ (fun x => ?_) (fun _ _ => rfl)
  rw [hidx, eq_row_iff N row col x hN]

/-- A loop over clipped slabs `j ≤ g x < min (j + step) n` whose body leaves `V` in
its slab leaves `V` in the whole range `g x < n`. -/
theorem sweep_upd_clip {T : Type} (g : Nat → Nat) (C : Nat → Prop) (cc : Buffer T)
    (V : Nat → T) (n step : Nat) (body : Nat → Buffer T → Buffer T) (hstep : 0 < step)
    (hbody : ∀ j c, j < n →
      Updated c (body j c) (fun x => (j ≤ g x ∧ g x < min (j + step) n) ∧ C x) V) :
    Updated cc (forLoop n (fun j => decide (j < n)) step body 0 cc).2
      (fun x => g x < n ∧ C x) V := by
  have h := forLoop_spec (fun j c => Updated cc c (fun x => g x < min j n ∧ C x) V)
    (fun j => decide (j < n)) step body n hstep (fun j hj => of_decide_eq_true hj) ?_ n 0 cc
    (by omega) ((Updated.upd_refl cc V).upd_congr _ _ (fun x => by
      constructor
      · rintro ⟨h1, _⟩
        rw [Nat.zero_min] at h1
        omega
      · intro h; exact h.elim) (fun _ _ => rfl))
  · obtain ⟨hf, hex⟩ := h
    have hex' : ¬ (forLoop n (fun j => decide (j < n)) step body 0 cc).1 < n :=
      of_decide_eq_false hex
    exact hf.upd_congr _ _ (fun x => by rw [Nat.min_eq_right (by omega)]) (fun _ _ => rfl)
  · intro j c h3 hc
    have hc' : j < n := of_decide_eq_true hc
    refine Updated.upd_seq h3 (hbody j c hc') _ _ (fun x => ?_) (fun _ _ => rfl) (fun _ _ _ => rfl)
    beta_reduce
    generalize g x = y
    rw [Nat.min_eq_left (Nat.le_of_lt hc')]
    generalize hm : min (j + step) n = e
    have he : j < e ∧ e ≤ n := by
      rcases Nat.le_total (j + step) n with h | h
      · rw [Nat.min_eq_left h] at hm; omega
      · rw [Nat.min_eq_right h] at hm; omega
    constructor
    · rintro ⟨ha, hC⟩
      by_cases hlt : y < j
      · exact Or.inl ⟨hlt, hC⟩
      · exact Or.inr ⟨⟨by omega, ha⟩, hC⟩
    · rintro (⟨ha, hC⟩ | ⟨⟨ha, hb⟩, hC⟩)
      · exact ⟨by omega, hC⟩
      · exact ⟨hb, hC⟩

/-- The same for a fill: every element of the range is stored exactly once. -/
theorem sweep_fill_clip {T : Type} (g : Nat → Nat) (C : Nat → Prop) (cc : Buffer T)
    (V : Nat → T) (n step lo : Nat) (body : Nat → Buffer T → Buffer T) (hstep : 0 < step)
    (hbody : ∀ j c, j < n →
      Filled c (body j c) (fun x => (j ≤ g x ∧ g x < min (j + step) n) ∧ C x) V) :
    Filled cc (forLoop n (fun j => decide (j < n)) step body lo cc).2
      (fun x => (lo ≤ g x ∧ g x < n) ∧ C x) V := by
  have h := forLoop_spec
    (fun j c => lo ≤ j ∧ Filled cc c (fun x => (lo ≤ g x ∧ g x < min j n) ∧ C x) V)
    (fun j => decide (j < n)) step body n hstep (fun j hj => of_decide_eq_true hj) ?_ n lo cc
    (by omega) ⟨le_refl _, (Filled.fill_refl cc V).fill_congr _ (fun x => by
      generalize g x = y
      constructor
      · rintro ⟨⟨h1, h2⟩, _⟩
        have := Nat.min_le_left lo n
        omega
      · intro h; exact h.elim)⟩
  · obtain ⟨⟨_, hf⟩, hex⟩ := h
    have hex' : ¬ (forLoop n (fun j => decide (j < n)) step body lo cc).1 < n :=
      of_decide_eq_false hex
    exact hf.fill_congr _ (fun x => by rw [Nat.min_eq_right (by omega)])
  · rintro j c ⟨hlo, h3⟩ hc
    have hc' : j < n := of_decide_eq_true hc
    refine ⟨by omega, Filled.fill_seq h3 (hbody j c hc') _ (fun x => ?_) (fun x hp hq => ?_)⟩
    · beta_reduce
      generalize g x = y
      rw [Nat.min_eq_left (Nat.le_of_lt hc')]
      generalize hm : min (j + step) n = e
      have he : j < e ∧ e ≤ n := by
        rcases Nat.le_total (j + step) n with h | h
        · rw [Nat.min_eq_left h] at hm; omega
        · rw [Nat.min_eq_right h] at hm; omega
      constructor
      · rintro ⟨⟨h0, ha⟩, hC⟩
        by_cases hlt : y < j
        · exact Or.inl ⟨⟨h0, hlt⟩, hC⟩
        · exact Or.inr ⟨⟨by omega, ha⟩, hC⟩
      · rintro (⟨⟨h0, ha⟩, hC⟩ | ⟨⟨ha, hb⟩, hC⟩)
        · exact ⟨⟨h0, by omega⟩, hC⟩
        · exact ⟨⟨by omega, hb⟩, hC⟩
    · beta_reduce at hp hq
      generalize g x = y at hp hq
      rw [Nat.min_eq_left (Nat.le_of_lt hc')] at hp
      have := hp.1.2
      have := hq.1.1
      omega

/-! ## GEVM small kernel -/

theorem gevm_small_cols8_fill {T : Type} [CommRing T] (vs : Nat) (aa bb : Nat → T)
    (m n j : Nat) (cc : Buffer T) :
    Filled cc (gevm_small_cols8 (Arith.exact T) vs aa m n bb j cc)
      (fun x => (j ≤ x ∧ x < j + vs * 8) ∧ True) (cdot aa bb m n) := by
  unfold gevm_small_cols8
  simp only []
  generalize hv : forLoop m (fun k => decide (k < m)) 1 _ 0 _ = v
  let Inv : Nat → Vec T × Vec T × Vec T × Vec T × Vec T × Vec T × Vec T × Vec T → Prop :=
    fun k r => k ≤ m ∧
      (∀ l, r.1 l = ∑ x ∈ range k, aa x * bb (x * n + j + 0 * vs + l)) ∧
      (∀ l, r.2.1 l = ∑ x ∈ range k, aa x * bb (x * n + j + 1 * vs + l)) ∧
      (∀ l, r.2.2.1 l = ∑ x ∈ range k, aa x * bb (x * n + j + 2 * vs + l)) ∧
      (∀ l, r.2.2.2.1 l = ∑ x ∈ range k, aa x * bb (x * n + j + 3 * vs + l)) ∧
      (∀ l, r.2.2.2.2.1 l = ∑ x ∈ range k, aa x * bb (x * n + j + 4 * vs + l)) ∧
      (∀ l, r.2.2.2.2.2.1 l = ∑ x ∈ range k, aa x * bb (x * n + j + 5 * vs + l)) ∧
      (∀ l, r.2.2.2.2.2.2.1 l = ∑ x ∈ range k, aa x * bb (x * n + j + 6 * vs + l)) ∧
      (∀ l, r.2.2.2.2.2.2.2 l = ∑ x ∈ range k, aa x * bb (x * n + j + 7 * vs + l))
  have hV : Inv v.1 v.2 ∧ decide (v.1 < m) = false := by
    rw [← hv]
    refine forLoop_spec Inv _ 1 _ m Nat.one_pos (fun k hk => by simpa using hk) ?_ m 0 _
      (by omega) ?_
    · rintro k ⟨r1, r2, r3, r4, r5, r6, r7, r8⟩ ⟨hk, h1, h2, h3, h4, h5, h6, h7, h8⟩ hc
      have hc' : k < m := by simpa using hc
      try dsimp only at h1 h2 h3 h4 h5 h6 h7 h8
      refine ⟨hc', ?_, ?_, ?_, ?_, ?_, ?_, ?_, ?_⟩
      all_goals
        intro l
        simp only [fmadd_set_step, Finset.sum_range_succ, h1, h2, h3, h4, h5, h6, h7, h8]
    · simp [Inv, Vec.zero]
  obtain ⟨⟨hk, h1, h2, h3, h4, h5, h6, h7, h8⟩, hex⟩ := hV
  have hke : v.1 = m := by
    have : ¬ v.1 < m := by simpa using hex
    omega
  rw [hke] at h1 h2 h3 h4 h5 h6 h7 h8
  have u0 := Filled.fill_refl cc (cdot aa bb m n)
  have u1 := u0.fill_storeu (j + 0 * vs) vs v.2.1
    (fun l _ => by simp only [cdot, h1, Nat.add_assoc])
    (fun x hx => hx.elim)
  have u2 := u1.fill_storeu (j + 1 * vs) vs v.2.2.1
    (fun l _ => by simp only [cdot, h2, Nat.add_assoc])
    (fun x hx => by simp only [false_or] at hx; omega)
  have u3 := u2.fill_storeu (j + 2 * vs) vs v.2.2.2.1
    (fun l _ => by simp only [cdot, h3, Nat.add_assoc])
    (fun x hx => by simp only [false_or] at hx; omega)
  have u4 := u3.fill_storeu (j + 3 * vs) vs v.2.2.2.2.1
    (fun l _ => by simp only [cdot, h4, Nat.add_assoc])
    (fun x hx => by simp only [false_or] at hx; omega)
  have u5 := u4.fill_storeu (j + 4 * vs) vs v.2.2.2.2.2.1
    (fun l _ => by simp only [cdot, h5, Nat.add_assoc])
    (fun x hx => by simp only [false_or] at hx; omega)
  have u6 := u5.fill_storeu (j + 5 * vs) vs v.2.2.2.2.2.2.1
    (fun l _ => by simp only [cdot, h6, Nat.add_assoc])
    (fun x hx => by simp only [false_or] at hx; omega)
  have u7 := u6.fill_storeu (j + 6 * vs) vs v.2.2.2.2.2.2.2.1
    (fun l _ => by simp only [cdot, h7, Nat.add_assoc])
    (fun x hx => by simp only [false_or] at hx; omega)
  have u8 := u7.fill_storeu (j + 7 * vs) vs v.2.2.2.2.2.2.2.2
    (fun l _ => by simp only [cdot, h8, Nat.add_assoc])
    (fun x hx => by simp only [false_or] at hx; omega)
  exact u8.fill_congr _ (fun x => by simp only [and_true, false_or]; omega)

theorem gevm_small_cols4_fill {T : Type} [CommRing T] (vs : Nat) (aa bb : Nat → T)
    (m n j : Nat) (cc : Buffer T) :
    Filled cc (gevm_small_cols4 (Arith.exact T) vs aa m n bb j cc)
      (fun x => (j ≤ x ∧ x < j + vs * 4) ∧ True) (cdot aa bb m n) := by
  unfold gevm_small_cols4
  simp only []
  generalize hv : forLoop m (fun k => decide (k < m)) 1 _ 0 _ = v
  let Inv : Nat → Vec T × Vec T × Vec T × Vec T → Prop :=
    fun k r => k ≤ m ∧
      (∀ l, r.1 l = ∑ x ∈ range k, aa x * bb (x * n + j + 0 * vs + l)) ∧
      (∀ l, r.2.1 l = ∑ x ∈ range k, aa x * bb (x * n + j + 1 * vs + l)) ∧
      (∀ l, r.2.2.1 l = ∑ x ∈ range k, aa x * bb (x * n + j + 2 * vs + l)) ∧
      (∀ l, r.2.2.2 l = ∑ x ∈ range k, aa x * bb (x * n + j + 3 * vs + l))
  have hV : Inv v.1 v.2 ∧ decide (v.1 < m) = false := by
    rw [← hv]
    refine forLoop_spec Inv _ 1 _ m Nat.one_pos (fun k hk => by simpa using hk) ?_ m 0 _
      (by omega) ?_
    · rintro k ⟨r1, r2, r3, r4⟩ ⟨hk, h1, h2, h3, h4⟩ hc
      have hc' : k < m := by simpa using hc
      try dsimp only at h1 h2 h3 h4
      refine ⟨hc', ?_, ?_, ?_, ?_⟩
      all_goals
        intro l
        simp only [fmadd_set_step, Finset.sum_range_succ, h1, h2, h3, h4]
    · simp [Inv, Vec.zero]
  obtain ⟨⟨hk, h1, h2, h3, h4⟩, hex⟩ := hV
  have hke : v.1 = m := by
    have : ¬ v.1 < m := by simpa using hex
    omega
  rw [hke] at h1 h2 h3 h4
  have u0 := Filled.fill_refl cc (cdot aa bb m n)
  have u1 := u0.fill_storeu (j + 0 * vs) vs v.2.1
    (fun l _ => by simp only [cdot, h1, Nat.add_assoc])
    (fun x hx => hx.elim)
  have u2 := u1.fill_storeu (j + 1 * vs) vs v.2.2.1
    (fun l _ => by simp only [cdot, h2, Nat.add_assoc])
    (fun x hx => by simp only [false_or] at hx; omega)
  have u3 := u2.fill_storeu (j + 2 * vs) vs v.2.2.2.1
    (fun l _ => by simp only [cdot, h3, Nat.add_assoc])
    (fun x hx => by simp only [false_or] at hx; omega)
  have u4 := u3.fill_storeu (j + 3 * vs) vs v.2.2.2.2
    (fun l _ => by simp only [cdot, h4, Nat.add_assoc])
    (fun x hx => by simp only [false_or] at hx; omega)
  exact u4.fill_congr _ (fun x => by simp only [and_true, false_or]; omega)

theorem gevm_small_cols1_fill {T : Type} [CommRing T] (vs : Nat) (aa bb : Nat → T)
    (m n j : Nat) (cc : Buffer T) :
    Filled cc (gevm_small_cols1 (Arith.exact T) vs aa m n bb j cc)
      (fun x => (j ≤ x ∧ x < j + vs * 1) ∧ True) (cdot aa bb m n) := by
  unfold gevm_small_cols1
  simp only []
  generalize hv : forLoop m (fun k => decide (k < m)) 1 _ 0 _ = v
  let Inv : Nat → Vec T → Prop :=
    fun k r => k ≤ m ∧
      (∀ l, r l = ∑ x ∈ range k, aa x * bb (x * n + j + 0 * vs + l))
  have hV : Inv v.1 v.2 ∧ decide (v.1 < m) = false := by
    rw [← hv]
    refine forLoop_spec Inv _ 1 _ m Nat.one_pos (fun k hk => by simpa using hk) ?_ m 0 _
      (by omega) ?_
    · rintro k r1 ⟨hk, h1⟩ hc
      have hc' : k < m := by simpa using hc
      try dsimp only at h1
      refine ⟨hc', ?_⟩
      all_goals
        intro l
        simp only [fmadd_set_step, Finset.sum_range_succ, h1]
    · simp [Inv, Vec.zero]
  obtain ⟨⟨hk, h1⟩, hex⟩ := hV
  have hke : v.1 = m := by
    have : ¬ v.1 < m := by simpa using hex
    omega
  rw [hke] at h1
  have u0 := Filled.fill_refl cc (cdot aa bb m n)
  have u1 := u0.fill_storeu (j + 0 * vs) vs v.2
    (fun l _ => by simp only [cdot, h1, Nat.add_assoc])
    (fun x hx => hx.elim)
  exact u1.fill_congr _ (fun x => by simp only [and_true, false_or]; omega)

theorem gevm_small_col_fill {T : Type} [CommRing T] (aa bb : Nat → T)
    (m n j : Nat) (cc : Buffer T) :
    Filled cc (gevm_small_col (Arith.exact T) aa m n bb j cc)
      (fun x => (j ≤ x ∧ x < j + 1) ∧ True) (cdot aa bb m n) := by
  unfold gevm_small_col
  simp only []
  generalize hv : forLoop m (fun k => decide (k < m)) 1 _ 0 _ = v
  have hV : (v.1 ≤ m ∧ v.2 = ∑ x ∈ range v.1, aa x * bb (x * n + j)) ∧
      decide (v.1 < m) = false := by
    rw [← hv]
    refine forLoop_spec (fun k (r : T) => k ≤ m ∧ r = ∑ x ∈ range k, aa x * bb (x * n + j))
      _ 1 _ m Nat.one_pos (fun k hk => by simpa using hk) ?_ m 0 _ (by omega) ?_
    · rintro k r ⟨hk, h1⟩ hc
      have hc' : k < m := by simpa using hc
      exact ⟨hc', by simp only [exact_add, exact_mul, Finset.sum_range_succ, h1]⟩
    · simp
  obtain ⟨⟨hk, h1⟩, hex⟩ := hV
  have hke : v.1 = m := by
    have : ¬ v.1 < m := by simpa using hex
    omega
  rw [hke] at h1
  exact ((Filled.fill_refl cc (cdot aa bb m n)).fill_write j v.2 (by rw [h1]; rfl) (fun h => h)).fill_congr _
    (fun x => by simp only [and_true, false_or]; omega)

/-- What `gevm_small_kernel` leaves: every column `j < n` stored once, with the exact
sum, and nothing else touched. -/
theorem gevm_small_kernel_fill {T : Type} [CommRing T] (vs : Nat) (hvs : 0 < vs)
    (aa bb : Nat → T) (m n : Nat) (cc : Buffer T) :
    Filled cc (gevm_small_kernel (Arith.exact T) vs aa m n bb cc) (fun x => x < n)
      (cdot aa bb m n) := by
  unfold gevm_small_kernel
  simp only []
  have s8 := sweep_fill (fun x => x) (fun _ => True) cc (cdot aa bb m n) n (vs * 8)
    (gevm_small_cols8 (Arith.exact T) vs aa m n bb) (fun j => decide (j + vs * 8 - 1 < n))
    (by omega) (fun j hj => by have : j + vs * 8 - 1 < n := by simpa using hj
                               omega)
    (fun j c _ => gevm_small_cols8_fill vs aa bb m n j c) 0 0 cc (le_refl _) (Nat.zero_le _)
    ((Filled.fill_refl cc _).fill_congr _ (fun x => by simp))
  generalize forLoop n (fun j => decide (j + vs * 8 - 1 < n)) (vs * 8) _ 0 cc = t8 at s8 ⊢
  have s4 := sweep_fill (fun x => x) (fun _ => True) cc (cdot aa bb m n) n (vs * 4)
    (gevm_small_cols4 (Arith.exact T) vs aa m n bb) (fun j => decide (j + vs * 4 - 1 < n))
    (by omega) (fun j hj => by have : j + vs * 4 - 1 < n := by simpa using hj
                               omega)
    (fun j c _ => gevm_small_cols4_fill vs aa bb m n j c) 0 t8.1 t8.2 (Nat.zero_le _) s8.1.2.1
    s8.1.2.2
  generalize forLoop n (fun j => decide (j + vs * 4 - 1 < n)) (vs * 4) _ t8.1 t8.2 = t4 at s4 ⊢
  have s1 := sweep_fill (fun x => x) (fun _ => True) cc (cdot aa bb m n) n vs
    (gevm_small_cols1 (Arith.exact T) vs aa m n bb) (fun j => decide (j + vs - 1 < n))
    hvs (fun j hj => by have : j + vs - 1 < n := by simpa using hj
                        omega)
    (fun j c _ => by simpa using gevm_small_cols1_fill vs aa bb m n j c) 0 t4.1 t4.2
    (Nat.zero_le _) s4.1.2.1 s4.1.2.2
  generalize forLoop n (fun j => decide (j + vs - 1 < n)) vs _ t4.1 t4.2 = t1 at s1 ⊢
  have s0 := sweep_fill (fun x => x) (fun _ => True) cc (cdot aa bb m n) n 1
    (gevm_small_col (Arith.exact T) aa m n bb) (fun j => decide (j < n))
    Nat.one_pos (fun j hj => by have : j < n := by simpa using hj
                                omega)
    (fun j c _ => gevm_small_col_fill aa bb m n j c) 0 t1.1 t1.2
    (Nat.zero_le _) s1.1.2.1 s1.1.2.2
  generalize forLoop n (fun j => decide (j < n)) 1 _ t1.1 t1.2 = t0 at s0 ⊢
  obtain ⟨⟨_, hle, hf⟩, hex⟩ := s0
  have hex' : ¬ t0.1 < n := by simpa using hex
  have he : t0.1 = n := by omega
  rw [he] at hf
  exact hf.fill_congr _ (fun x => by simp)

/-! ## GEMM small kernel -/

theorem gemm_small_c8_r1_fill {T : Type} [CommRing T] (vs : Nat) (a b : Nat → T)
    (N K j i : Nat) (hj : j + vs * 8 ≤ N) (c : Buffer T) :
    Filled c (gemm_small_c8_r1 (Arith.exact T) vs a b N K j i c)
      (fun x => (i ≤ x / N ∧ x / N < i + 1) ∧ (j ≤ x % N ∧ x % N < j + vs * 8))
      (mdot a b N K) := by
  unfold gemm_small_c8_r1
  simp only []
  generalize hv : forLoop K (fun k => decide (k < K)) 1 _ 0 _ = v
  let Inv : Nat → Vec T × Vec T × Vec T × Vec T × Vec T × Vec T × Vec T × Vec T → Prop :=
    fun k r => k ≤ K ∧
      (∀ l, r.1 l = ∑ x ∈ range k, a (i * K + x) * b (x * N + j + vs * 0 + l)) ∧
      (∀ l, r.2.1 l = ∑ x ∈ range k, a (i * K + x) * b (x * N + j + vs * 1 + l)) ∧
      (∀ l, r.2.2.1 l = ∑ x ∈ range k, a (i * K + x) * b (x * N + j + vs * 2 + l)) ∧
      (∀ l, r.2.2.2.1 l = ∑ x ∈ range k, a (i * K + x) * b (x * N + j + vs * 3 + l)) ∧
      (∀ l, r.2.2.2.2.1 l = ∑ x ∈ range k, a (i * K + x) * b (x * N + j + vs * 4 + l)) ∧
      (∀ l, r.2.2.2.2.2.1 l = ∑ x ∈ range k, a (i * K + x) * b (x * N + j + vs * 5 + l)) ∧
      (∀ l, r.2.2.2.2.2.2.1 l = ∑ x ∈ range k, a (i * K + x) * b (x * N + j + vs * 6 + l)) ∧
      (∀ l, r.2.2.2.2.2.2.2 l = ∑ x ∈ range k, a (i * K + x) * b (x * N + j + vs * 7 + l))
  have hV : Inv v.1 v.2 ∧ decide (v.1 < K) = false := by
    rw [← hv]
    refine forLoop_spec Inv _ 1 _ K Nat.one_pos (fun k hk => by simpa using hk) ?_ K 0 _
      (by omega) ?_
    · rintro k ⟨r1, r2, r3, r4, r5, r6, r7, r8⟩ ⟨hk, h1, h2, h3, h4, h5, h6, h7, h8⟩ hc
      have hc' : k < K := by simpa using hc
      try dsimp only at h1 h2 h3 h4 h5 h6 h7 h8
      refine ⟨hc', ?_, ?_, ?_, ?_, ?_, ?_, ?_, ?_⟩
      all_goals
        intro l
        simp only [fmadd_set_step, Finset.sum_range_succ, h1, h2, h3, h4, h5, h6, h7, h8]
    · simp [Inv, Vec.zero]
  obtain ⟨⟨hk, h1, h2, h3, h4, h5, h6, h7, h8⟩, hex⟩ := hV
  have hke : v.1 = K := by
    have : ¬ v.1 < K := by simpa using hex
    omega
  rw [hke] at h1 h2 h3 h4 h5 h6 h7 h8
  have u0 := Filled.fill_refl c (mdot a b N K)
  have u1 := u0.fill_storeu_row N i (j + 0 * vs) vs (i * N + j + 0 * vs) v.2.1
    (by ring) (by omega)
    (fun l hl => by
      rw [h1 l, mdot_at a b N K i (j + 0 * vs + l) (by omega)]
      exact Finset.sum_congr rfl (fun k _ => by congr 2; ring))
    (fun x hx => hx.elim)
  have u2 := u1.fill_storeu_row N i (j + 1 * vs) vs (i * N + j + 1 * vs) v.2.2.1
    (by ring) (by omega)
    (fun l hl => by
      rw [h2 l, mdot_at a b N K i (j + 1 * vs + l) (by omega)]
      exact Finset.sum_congr rfl (fun k _ => by congr 2; ring))
    (fun x hx => by simp only [false_or] at hx; omega)
  have u3 := u2.fill_storeu_row N i (j + 2 * vs) vs (i * N + j + 2 * vs) v.2.2.2.1
    (by ring) (by omega)
    (fun l hl => by
      rw [h3 l, mdot_at a b N K i (j + 2 * vs + l) (by omega)]
      exact Finset.sum_congr rfl (fun k _ => by congr 2; ring))
    (fun x hx => by simp only [false_or] at hx; omega)
  have u4 := u3.fill_storeu_row N i (j + 3 * vs) vs (i * N + j + 3 * vs) v.2.2.2.2.1
    (by ring) (by omega)
    (fun l hl => by
      rw [h4 l, mdot_at a b N K i (j + 3 * vs + l) (by omega)]
      exact Finset.sum_congr rfl (fun k _ => by congr 2; ring))
    (fun x hx => by simp only [false_or] at hx; omega)
  have u5 := u4.fill_storeu_row N i (j + 4 * vs) vs (i * N + j + 4 * vs) v.2.2.2.2.2.1
    (by ring) (by omega)
    (fun l hl => by
      rw [h5 l, mdot_at a b N K i (j + 4 * vs + l) (by omega)]
      exact Finset.sum_congr rfl (fun k _ => by congr 2; ring))
    (fun x hx => by simp only [false_or] at hx; omega)
  have u6 := u5.fill_storeu_row N i (j + 5 * vs) vs (i * N + j + 5 * vs) v.2.2.2.2.2.2.1
    (by ring) (by omega)
    (fun l hl => by
      rw [h6 l, mdot_at a b N K i (j + 5 * vs + l) (by omega)]
      exact Finset.sum_congr rfl (fun k _ => by congr 2; ring))
    (fun x hx => by simp only [false_or] at hx; omega)
  have u7 := u6.fill_storeu_row N i (j + 6 * vs) vs (i * N + j + 6 * vs) v.2.2.2.2.2.2.2.1
    (by ring) (by omega)
    (fun l hl => by
      rw [h7 l, mdot_at a b N K i (j + 6 * vs + l) (by omega)]
      exact Finset.sum_congr rfl (fun k _ => by congr 2; ring))
    (fun x hx => by simp only [false_or] at hx; omega)
  have u8 := u7.fill_storeu_row N i (j + 7 * vs) vs (i * N + j + 7 * vs) v.2.2.2.2.2.2.2.2
    (by ring) (by omega)
    (fun l hl => by
      rw [h8 l, mdot_at a b N K i (j + 7 * vs + l) (by omega)]
      exact Finset.sum_congr rfl (fun k _ => by congr 2; ring))
    (fun x hx => by simp only [false_or] at hx; omega)
  exact u8.fill_congr _ (fun x => by simp only [false_or]; omega)

theorem gemm_small_c4_r2_fill {T : Type} [CommRing T] (vs : Nat) (a b : Nat → T)
    (N K j i : Nat) (hj : j + 4 * vs ≤ N) (c : Buffer T) :
    Filled c (gemm_small_c4_r2 (Arith.exact T) vs a b N K j i c)
      (fun x => (i ≤ x / N ∧ x / N < i + 2) ∧ (j ≤ x % N ∧ x % N < j + 4 * vs))
      (mdot a b N K) := by
  unfold gemm_small_c4_r2
  simp only []
  generalize hv : forLoop K (fun k => decide (k < K)) 1 _ 0 _ = v
  let Inv : Nat → Vec T × Vec T × Vec T × Vec T × Vec T × Vec T × Vec T × Vec T → Prop :=
    fun k r => k ≤ K ∧
      (∀ l, r.1 l = ∑ x ∈ range k, a ((i + 0) * K + x) * b (x * N + j + vs * 0 + l)) ∧
      (∀ l, r.2.1 l = ∑ x ∈ range k, a ((i + 1) * K + x) * b (x * N + j + vs * 0 + l)) ∧
      (∀ l, r.2.2.1 l = ∑ x ∈ range k, a ((i + 0) * K + x) * b (x * N + j + vs * 1 + l)) ∧
      (∀ l, r.2.2.2.1 l = ∑ x ∈ range k, a ((i + 1) * K + x) * b (x * N + j + vs * 1 + l)) ∧
      (∀ l, r.2.2.2.2.1 l = ∑ x ∈ range k, a ((i + 0) * K + x) * b (x * N + j + vs * 2 + l)) ∧
      (∀ l, r.2.2.2.2.2.1 l = ∑ x ∈ range k, a ((i + 1) * K + x) * b (x * N + j + vs * 2 + l)) ∧
      (∀ l, r.2.2.2.2.2.2.1 l = ∑ x ∈ range k, a ((i + 0) * K + x) * b (x * N + j + vs * 3 + l)) ∧
      (∀ l, r.2.2.2.2.2.2.2 l = ∑ x ∈ range k, a ((i + 1) * K + x) * b (x * N + j + vs * 3 + l))
  have hV : Inv v.1 v.2 ∧ decide (v.1 < K) = false := by
    rw [← hv]
    refine forLoop_spec Inv _ 1 _ K Nat.one_pos (fun k hk => by simpa using hk) ?_ K 0 _
      (by omega) ?_
    · rintro k ⟨r11, r12, r21, r22, r31, r32, r41, r42⟩ ⟨hk, h1, h2, h3, h4, h5, h6, h7, h8⟩ hc
      have hc' : k < K := by simpa using hc
      try dsimp only at h1 h2 h3 h4 h5 h6 h7 h8
      refine ⟨hc', ?_, ?_, ?_, ?_, ?_, ?_, ?_, ?_⟩
      all_goals
        intro l
        simp only [fmadd_set_step, Finset.sum_range_succ, h1, h2, h3, h4, h5, h6, h7, h8]
    · simp [Inv, Vec.zero]
  obtain ⟨⟨hk, h1, h2, h3, h4, h5, h6, h7, h8⟩, hex⟩ := hV
  have hke : v.1 = K := by
    have : ¬ v.1 < K := by simpa using hex
    omega
  rw [hke] at h1 h2 h3 h4 h5 h6 h7 h8
  have u0 := Filled.fill_refl c (mdot a b N K)
  have u1 := u0.fill_storeu_row N (i + 0) (j + 0 * vs) vs ((i + 0) * N + j + 0 * vs) v.2.1
    (by ring) (by omega)
    (fun l hl => by
      rw [h1 l, mdot_at a b N K (i + 0) (j + 0 * vs + l) (by omega)]
      exact Finset.sum_congr rfl (fun k _ => by congr 2; ring))
    (fun x hx => hx.elim)
  have u2 := u1.fill_storeu_row N (i + 1) (j + 0 * vs) vs ((i + 1) * N + j + 0 * vs) v.2.2.1
    (by ring) (by omega)
    (fun l hl => by
      rw [h2 l, mdot_at a b N K (i + 1) (j + 0 * vs + l) (by omega)]
      exact Finset.sum_congr rfl (fun k _ => by congr 2; ring))
    (fun x hx => by simp only [false_or] at hx; omega)
  have u3 := u2.fill_storeu_row N (i + 0) (j + 1 * vs) vs ((i + 0) * N + j + 1 * vs) v.2.2.2.1
    (by ring) (by omega)
    (fun l hl => by
      rw [h3 l, mdot_at a b N K (i + 0) (j + 1 * vs + l) (by omega)]
      exact Finset.sum_congr rfl (fun k _ => by congr 2; ring))
    (fun x hx => by simp only [false_or] at hx; omega)
  have u4 := u3.fill_storeu_row N (i + 1) (j + 1 * vs) vs ((i + 1) * N + j + 1 * vs) v.2.2.2.2.1
    (by ring) (by omega)
    (fun l hl => by
      rw [h4 l, mdot_at a b N K (i + 1) (j + 1 * vs + l) (by omega)]
      exact Finset.sum_congr rfl (fun k _ => by congr 2; ring))
    (fun x hx => by simp only [false_or] at hx; omega)
  have u5 := u4.fill_storeu_row N (i + 0) (j + 2 * vs) vs ((i + 0) * N + j + 2 * vs) v.2.2.2.2.2.1
    (by ring) (by omega)
    (fun l hl => by
      rw [h5 l, mdot_at a b N K (i + 0) (j + 2 * vs + l) (by omega)]
      exact Finset.sum_congr rfl (fun k _ => by congr 2; ring))
    (fun x hx => by simp only [false_or] at hx; omega)
  have u6 := u5.fill_storeu_row N (i + 1) (j + 2 * vs) vs ((i + 1) * N + j + 2 * vs) v.2.2.2.2.2.2.1
    (by ring) (by omega)
    (fun l hl => by
      rw [h6 l, mdot_at a b N K (i + 1) (j + 2 * vs + l) (by omega)]
      exact Finset.sum_congr rfl (fun k _ => by congr 2; ring))
    (fun x hx => by simp only [false_or] at hx; omega)
  have u7 := u6.fill_storeu_row N (i + 0) (j + 3 * vs) vs ((i + 0) * N + j + 3 * vs) v.2.2.2.2.2.2.2.1
    (by ring) (by omega)
    (fun l hl => by
      rw [h7 l, mdot_at a b N K (i + 0) (j + 3 * vs + l) (by omega)]
      exact Finset.sum_congr rfl (fun k _ => by congr 2; ring))
    (fun x hx => by simp only [false_or] at hx; omega)
  have u8 := u7.fill_storeu_row N (i + 1) (j + 3 * vs) vs ((i + 1) * N + j + 3 * vs) v.2.2.2.2.2.2.2.2
    (by ring) (by omega)
    (fun l hl => by
      rw [h8 l, mdot_at a b N K (i + 1) (j + 3 * vs + l) (by omega)]
      exact Finset.sum_congr rfl (fun k _ => by congr 2; ring))
    (fun x hx => by simp only [false_or] at hx; omega)
  exact u8.fill_congr _ (fun x => by simp only [false_or]; omega)

theorem gemm_small_c4_r1_fill {T : Type} [CommRing T] (vs : Nat) (a b : Nat → T)
    (N K j i : Nat) (hj : j + 4 * vs ≤ N) (c : Buffer T) :
    Filled c (gemm_small_c4_r1 (Arith.exact T) vs a b N K j i c)
      (fun x => (i ≤ x / N ∧ x / N < i + 1) ∧ (j ≤ x % N ∧ x % N < j + 4 * vs))
      (mdot a b N K) := by
  unfold gemm_small_c4_r1
  simp only []
  generalize hv : forLoop K (fun k => decide (k < K)) 1 _ 0 _ = v
  let Inv : Nat → Vec T × Vec T × Vec T × Vec T → Prop :=
    fun k r => k ≤ K ∧
      (∀ l, r.1 l = ∑ x ∈ range k, a ((i + 0) * K + x) * b (x * N + j + vs * 0 + l)) ∧
      (∀ l, r.2.1 l = ∑ x ∈ range k, a ((i + 0) * K + x) * b (x * N + j + vs * 1 + l)) ∧
      (∀ l, r.2.2.1 l = ∑ x ∈ range k, a ((i + 0) * K + x) * b (x * N + j + vs * 2 + l)) ∧
      (∀ l, r.2.2.2 l = ∑ x ∈ range k, a ((i + 0) * K + x) * b (x * N + j + vs * 3 + l))
  have hV : Inv v.1 v.2 ∧ decide (v.1 < K) = false := by
    rw [← hv]
    refine forLoop_spec Inv _ 1 _ K Nat.one_pos (fun k hk => by simpa using hk) ?_ K 0 _
      (by omega) ?_
    · rintro k ⟨r11, r21, r31, r41⟩ ⟨hk, h1, h2, h3, h4⟩ hc
      have hc' : k < K := by simpa using hc
      try dsimp only at h1 h2 h3 h4
      refine ⟨hc', ?_, ?_, ?_, ?_⟩
      all_goals
        intro l
        simp only [fmadd_set_step, Finset.sum_range_succ, h1, h2, h3, h4]
    · simp [Inv, Vec.zero]
  obtain ⟨⟨hk, h1, h2, h3, h4⟩, hex⟩ := hV
  have hke : v.1 = K := by
    have : ¬ v.1 < K := by simpa using hex
    omega
  rw [hke] at h1 h2 h3 h4
  have u0 := Filled.fill_refl c (mdot a b N K)
  have u1 := u0.fill_storeu_row N i (j + 0 * vs) vs (i * N + j + 0 * vs) v.2.1
    (by ring) (by omega)
    (fun l hl => by
      rw [h1 l, mdot_at a b N K i (j + 0 * vs + l) (by omega)]
      exact Finset.sum_congr rfl (fun k _ => by congr 2; ring))
    (fun x hx => hx.elim)
  have u2 := u1.fill_storeu_row N i (j + 1 * vs) vs (i * N + j + 1 * vs) v.2.2.1
    (by ring) (by omega)
    (fun l hl => by
      rw [h2 l, mdot_at a b N K i (j + 1 * vs + l) (by omega)]
      exact Finset.sum_congr rfl (fun k _ => by congr 2; ring))
    (fun x hx => by simp only [false_or] at hx; omega)
  have u3 := u2.fill_storeu_row N i (j + 2 * vs) vs (i * N + j + 2 * vs) v.2.2.2.1
    (by ring) (by omega)
    (fun l hl => by
      rw [h3 l, mdot_at a b N K i (j + 2 * vs + l) (by omega)]
      exact Finset.sum_congr rfl (fun k _ => by congr 2; ring))
    (fun x hx => by simp only [false_or] at hx; omega)
  have u4 := u3.fill_storeu_row N i (j + 3 * vs) vs (i * N + j + 3 * vs) v.2.2.2.2
    (by ring) (by omega)
    (fun l hl => by
      rw [h4 l, mdot_at a b N K i (j + 3 * vs + l) (by omega)]
      exact Finset.sum_congr rfl (fun k _ => by congr 2; ring))
    (fun x hx => by simp only [false_or] at hx; omega)
  exact u4.fill_congr _ (fun x => by simp only [false_or]; omega)

theorem gemm_small_c2_r4_fill {T : Type} [CommRing T] (vs : Nat) (a b : Nat → T)
    (N K j i : Nat) (hj : j + 2 * vs ≤ N) (c : Buffer T) :
    Filled c (gemm_small_c2_r4 (Arith.exact T) vs a b N K j i c)
      (fun x => (i ≤ x / N ∧ x / N < i + 4) ∧ (j ≤ x % N ∧ x % N < j + 2 * vs))
      (mdot a b N K) := by
  unfold gemm_small_c2_r4
  simp only []
  generalize hv : forLoop K (fun k => decide (k < K)) 1 _ 0 _ = v
  let Inv : Nat → Vec T × Vec T × Vec T × Vec T × Vec T × Vec T × Vec T × Vec T → Prop :=
    fun k r => k ≤ K ∧
      (∀ l, r.1 l = ∑ x ∈ range k, a ((i + 0) * K + x) * b (x * N + j + vs * 0 + l)) ∧
      (∀ l, r.2.1 l = ∑ x ∈ range k, a ((i + 1) * K + x) * b (x * N + j + vs * 0 + l)) ∧
      (∀ l, r.2.2.1 l = ∑ x ∈ range k, a ((i + 2) * K + x) * b (x * N + j + vs * 0 + l)) ∧
      (∀ l, r.2.2.2.1 l = ∑ x ∈ range k, a ((i + 3) * K + x) * b (x * N + j + vs * 0 + l)) ∧
      (∀ l, r.2.2.2.2.1 l = ∑ x ∈ range k, a ((i + 0) * K + x) * b (x * N + j + vs * 1 + l)) ∧
      (∀ l, r.2.2.2.2.2.1 l = ∑ x ∈ range k, a ((i + 1) * K + x) * b (x * N + j + vs * 1 + l)) ∧
      (∀ l, r.2.2.2.2.2.2.1 l = ∑ x ∈ range k, a ((i + 2) * K + x) * b (x * N + j + vs * 1 + l)) ∧
      (∀ l, r.2.2.2.2.2.2.2 l = ∑ x ∈ range k, a ((i + 3) * K + x) * b (x * N + j + vs * 1 + l))
  have hV : Inv v.1 v.2 ∧ decide (v.1 < K) = false := by
    rw [← hv]
    refine forLoop_spec Inv _ 1 _ K Nat.one_pos (fun k hk => by simpa using hk) ?_ K 0 _
      (by omega) ?_
    · rintro k ⟨r11, r12, r13, r14, r21, r22, r23, r24⟩ ⟨hk, h1, h2, h3, h4, h5, h6, h7, h8⟩ hc
      have hc' : k < K := by simpa using hc
      try dsimp only at h1 h2 h3 h4 h5 h6 h7 h8
      refine ⟨hc', ?_, ?_, ?_, ?_, ?_, ?_, ?_, ?_⟩
      all_goals
        intro l
        simp only [fmadd_set_step, Finset.sum_range_succ, h1, h2, h3, h4, h5, h6, h7, h8]
    · simp [Inv, Vec.zero]
  obtain ⟨⟨hk, h1, h2, h3, h4, h5, h6, h7, h8⟩, hex⟩ := hV
  have hke : v.1 = K := by
    have : ¬ v.1 < K := by simpa using hex
    omega
  rw [hke] at h1 h2 h3 h4 h5 h6 h7 h8
  have u0 := Filled.fill_refl c (mdot a b N K)
  have u1 := u0.fill_storeu_row N (i + 0) (j + 0 * vs) vs ((i + 0) * N + j + 0 * vs) v.2.1
    (by ring) (by omega)
    (fun l hl => by
      rw [h1 l, mdot_at a b N K (i + 0) (j + 0 * vs + l) (by omega)]
      exact Finset.sum_congr rfl (fun k _ => by congr 2; ring))
    (fun x hx => hx.elim)
  have u2 := u1.fill_storeu_row N (i + 1) (j + 0 * vs) vs ((i + 1) * N + j + 0 * vs) v.2.2.1
    (by ring) (by omega)
    (fun l hl => by
      rw [h2 l, mdot_at a b N K (i + 1) (j + 0 * vs + l) (by omega)]
      exact Finset.sum_congr rfl (fun k _ => by congr 2; ring))
    (fun x hx => by simp only [false_or] at hx; omega)
  have u3 := u2.fill_storeu_row N (i + 2) (j + 0 * vs) vs ((i + 2) * N + j + 0 * vs) v.2.2.2.1
    (by ring) (by omega)
    (fun l hl => by
      rw [h3 l, mdot_at a b N K (i + 2) (j + 0 * vs + l) (by omega)]
      exact Finset.sum_congr rfl (fun k _ => by congr 2; ring))
    (fun x hx => by simp only [false_or] at hx; omega)
  have u4 := u3.fill_storeu_row N (i + 3) (j + 0 * vs) vs ((i + 3) * N + j + 0 * vs) v.2.2.2.2.1
    (by ring) (by omega)
    (fun l hl => by
      rw [h4 l, mdot_at a b N K (i + 3) (j + 0 * vs + l) (by omega)]
      exact Finset.sum_congr rfl (fun k _ => by congr 2; ring))
    (fun x hx => by simp only [false_or] at hx; omega)
  have u5 := u4.fill_storeu_row N (i + 0) (j + 1 * vs) vs ((i + 0) * N + j + 1 * vs) v.2.2.2.2.2.1
    (by ring) (by omega)
    (fun l hl => by
      rw [h5 l, mdot_at a b N K (i + 0) (j + 1 * vs + l) (by omega)]
      exact Finset.sum_congr rfl (fun k _ => by congr 2; ring))
    (fun x hx => by simp only [false_or] at hx; omega)
  have u6 := u5.fill_storeu_row N (i + 1) (j + 1 * vs) vs ((i + 1) * N + j + 1 * vs) v.2.2.2.2.2.2.1
    (by ring) (by omega)
    (fun l hl => by
      rw [h6 l, mdot_at a b N K (i + 1) (j + 1 * vs + l) (by omega)]
      exact Finset.sum_congr rfl (fun k _ => by congr 2; ring))
    (fun x hx => by simp only [false_or] at hx; omega)
  have u7 := u6.fill_storeu_row N (i + 2) (j + 1 * vs) vs ((i + 2) * N + j + 1 * vs) v.2.2.2.2.2.2.2.1
    (by ring) (by omega)
    (fun l hl => by
      rw [h7 l, mdot_at a b N K (i + 2) (j + 1 * vs + l) (by omega)]
      exact Finset.sum_congr rfl (fun k _ => by congr 2; ring))
    (fun x hx => by simp only [false_or] at hx; omega)
  have u8 := u7.fill_storeu_row N (i + 3) (j + 1 * vs) vs ((i + 3) * N + j + 1 * vs) v.2.2.2.2.2.2.2.2
    (by ring) (by omega)
    (fun l hl => by
      rw [h8 l, mdot_at a b N K (i + 3) (j + 1 * vs + l) (by omega)]
      exact Finset.sum_congr rfl (fun k _ => by congr 2; ring))
    (fun x hx => by simp only [false_or] at hx; omega)
  exact u8.fill_congr _ (fun x => by simp only [false_or]; omega)

theorem gemm_small_c2_r2_fill {T : Type} [CommRing T] (vs : Nat) (a b : Nat → T)
    (N K j i : Nat) (hj : j + 2 * vs ≤ N) (c : Buffer T) :
    Filled c (gemm_small_c2_r2 (Arith.exact T) vs a b N K j i c)
      (fun x => (i ≤ x / N ∧ x / N < i + 2) ∧ (j ≤ x % N ∧ x % N < j + 2 * vs))
      (mdot a b N K) := by
  unfold gemm_small_c2_r2
  simp only []
  generalize hv : forLoop K (fun k => decide (k < K)) 1 _ 0 _ = v
  let Inv : Nat → Vec T × Vec T × Vec T × Vec T → Prop :=
    fun k r => k ≤ K ∧
      (∀ l, r.1 l = ∑ x ∈ range k, a ((i + 0) * K + x) * b (x * N + j + vs * 0 + l)) ∧
      (∀ l, r.2.1 l = ∑ x ∈ range k, a ((i + 1) * K + x) * b (x * N + j + vs * 0 + l)) ∧
      (∀ l, r.2.2.1 l = ∑ x ∈ range k, a ((i + 0) * K + x) * b (x * N + j + vs * 1 + l)) ∧
      (∀ l, r.2.2.2 l = ∑ x ∈ range k, a ((i + 1) * K + x) * b (x * N + j + vs * 1 + l))
  have hV : Inv v.1 v.2 ∧ decide (v.1 < K) = false := by
    rw [← hv]
    refine forLoop_spec Inv _ 1 _ K Nat.one_pos (fun k hk => by simpa using hk) ?_ K 0 _
      (by omega) ?_
    · rintro k ⟨r11, r12, r21, r22⟩ ⟨hk, h1, h2, h3, h4⟩ hc
      have hc' : k < K := by simpa using hc
      try dsimp only at h1 h2 h3 h4
      refine ⟨hc', ?_, ?_, ?_, ?_⟩
      all_goals
        intro l
        simp only [fmadd_set_step, Finset.sum_range_succ, h1, h2, h3, h4]
    · simp [Inv, Vec.zero]
  obtain ⟨⟨hk, h1, h2, h3, h4⟩, hex⟩ := hV
  have hke : v.1 = K := by
    have : ¬ v.1 < K := by simpa using hex
    omega
  rw [hke] at h1 h2 h3 h4
  have u0 := Filled.fill_refl c (mdot a b N K)
  have u1 := u0.fill_storeu_row N (i + 0) (j + 0 * vs) vs ((i + 0) * N + j + 0 * vs) v.2.1
    (by ring) (by omega)
    (fun l hl => by
      rw [h1 l, mdot_at a b N K (i + 0) (j + 0 * vs + l) (by omega)]
      exact Finset.sum_congr rfl (fun k _ => by congr 2; ring))
    (fun x hx => hx.elim)
  have u2 := u1.fill_storeu_row N (i + 1) (j + 0 * vs) vs ((i + 1) * N + j + 0 * vs) v.2.2.1
    (by ring) (by omega)
    (fun l hl => by
      rw [h2 l, mdot_at a b N K (i + 1) (j + 0 * vs + l) (by omega)]
      exact Finset.sum_congr rfl (fun k _ => by congr 2; ring))
    (fun x hx => by simp only [false_or] at hx; omega)
  have u3 := u2.fill_storeu_row N (i + 0) (j + 1 * vs) vs ((i + 0) * N + j + 1 * vs) v.2.2.2.1
    (by ring) (by omega)
    (fun l hl => by
      rw [h3 l, mdot_at a b N K (i + 0) (j + 1 * vs + l) (by omega)]
      exact Finset.sum_congr rfl (fun k _ => by congr 2; ring))
    (fun x hx => by simp only [false_or] at hx; omega)
  have u4 := u3.fill_storeu_row N (i + 1) (j + 1 * vs) vs ((i + 1) * N + j + 1 * vs) v.2.2.2.2
    (by ring) (by omega)
    (fun l hl => by
      rw [h4 l, mdot_at a b N K (i + 1) (j + 1 * vs + l) (by omega)]
      exact Finset.sum_congr rfl (fun k _ => by congr 2; ring))
    (fun x hx => by simp only [false_or] at hx; omega)
  exact u4.fill_congr _ (fun x => by simp only [false_or]; omega)

theorem gemm_small_c2_r1_fill {T : Type} [CommRing T] (vs : Nat) (a b : Nat → T)
    (N K j i : Nat) (hj : j + 2 * vs ≤ N) (c : Buffer T) :
    Filled c (gemm_small_c2_r1 (Arith.exact T) vs a b N K j i c)
      (fun x => (i ≤ x / N ∧ x / N < i + 1) ∧ (j ≤ x % N ∧ x % N < j + 2 * vs))
      (mdot a b N K) := by
  unfold gemm_small_c2_r1
  simp only []
  generalize hv : forLoop K (fun k => decide (k < K)) 1 _ 0 _ = v
  let Inv : Nat → Vec T × Vec T → Prop :=
    fun k r => k ≤ K ∧
      (∀ l, r.1 l = ∑ x ∈ range k, a ((i + 0) * K + x) * b (x * N + j + vs * 0 + l)) ∧
      (∀ l, r.2 l = ∑ x ∈ range k, a ((i + 0) * K + x) * b (x * N + j + vs * 1 + l))
  have hV : Inv v.1 v.2 ∧ decide (v.1 < K) = false := by
    rw [← hv]
    refine forLoop_spec Inv _ 1 _ K Nat.one_pos (fun k hk => by simpa using hk) ?_ K 0 _
      (by omega) ?_
    · rintro k ⟨r11, r21⟩ ⟨hk, h1, h2⟩ hc
      have hc' : k < K := by simpa using hc
      try dsimp only at h1 h2
      refine ⟨hc', ?_, ?_⟩
      all_goals
        intro l
        simp only [fmadd_set_step, Finset.sum_range_succ, h1, h2]
    · simp [Inv, Vec.zero]
  obtain ⟨⟨hk, h1, h2⟩, hex⟩ := hV
  have hke : v.1 = K := by
    have : ¬ v.1 < K := by simpa using hex
    omega
  rw [hke] at h1 h2
  have u0 := Filled.fill_refl c (mdot a b N K)
  have u1 := u0.fill_storeu_row N (i + 0) (j + 0 * vs) vs ((i + 0) * N + j + 0 * vs) v.2.1
    (by ring) (by omega)
    (fun l hl => by
      rw [h1 l, mdot_at a b N K (i + 0) (j + 0 * vs + l) (by omega)]
      exact Finset.sum_congr rfl (fun k _ => by congr 2; ring))
    (fun x hx => hx.elim)
  have u2 := u1.fill_storeu_row N (i + 0) (j + 1 * vs) vs ((i + 0) * N + j + 1 * vs) v.2.2
    (by ring) (by omega)
    (fun l hl => by
      rw [h2 l, mdot_at a b N K (i + 0) (j + 1 * vs + l) (by omega)]
      exact Finset.sum_congr rfl (fun k _ => by congr 2; ring))
    (fun x hx => by simp only [false_or] at hx; omega)
  exact u2.fill_congr _ (fun x => by simp only [false_or]; omega)

theorem gemm_small_c1_r2_fill {T : Type} [CommRing T] (vs : Nat) (a b : Nat → T)
    (N K j i : Nat) (hj : j + vs ≤ N) (c : Buffer T) :
    Filled c (gemm_small_c1_r2 (Arith.exact T) vs a b N K j i c)
      (fun x => (i ≤ x / N ∧ x / N < i + 2) ∧ (j ≤ x % N ∧ x % N < j + vs))
      (mdot a b N K) := by
  unfold gemm_small_c1_r2
  simp only []
  generalize hv : forLoop K (fun k => decide (k < K)) 1 _ 0 _ = v
  let Inv : Nat → Vec T × Vec T → Prop :=
    fun k r => k ≤ K ∧
      (∀ l, r.1 l = ∑ x ∈ range k, a ((i + 0) * K + x) * b (x * N + j + vs * 0 + l)) ∧
      (∀ l, r.2 l = ∑ x ∈ range k, a ((i + 1) * K + x) * b (x * N + j + vs * 0 + l))
  have hV : Inv v.1 v.2 ∧ decide (v.1 < K) = false := by
    rw [← hv]
    refine forLoop_spec Inv _ 1 _ K Nat.one_pos (fun k hk => by simpa using hk) ?_ K 0 _
      (by omega) ?_
    · rintro k ⟨r1, r2⟩ ⟨hk, h1, h2⟩ hc
      have hc' : k < K := by simpa using hc
      try dsimp only at h1 h2
      refine ⟨hc', ?_, ?_⟩
      all_goals
        intro l
        simp only [fmadd_set_step, Finset.sum_range_succ, h1, h2]
    · simp [Inv, Vec.zero]
  obtain ⟨⟨hk, h1, h2⟩, hex⟩ := hV
  have hke : v.1 = K := by
    have : ¬ v.1 < K := by simpa using hex
    omega
  rw [hke] at h1 h2
  have u0 := Filled.fill_refl c (mdot a b N K)
  have u1 := u0.fill_storeu_row N (i + 0) (j) vs ((i + 0) * N + j) v.2.1
    (by ring) (by omega)
    (fun l hl => by
      rw [h1 l, mdot_at a b N K (i + 0) (j + l) (by omega)]
      exact Finset.sum_congr rfl (fun k _ => by congr 2; ring))
    (fun x hx => hx.elim)
  have u2 := u1.fill_storeu_row N (i + 1) (j) vs ((i + 1) * N + j) v.2.2
    (by ring) (by omega)
    (fun l hl => by
      rw [h2 l, mdot_at a b N K (i + 1) (j + l) (by omega)]
      exact Finset.sum_congr rfl (fun k _ => by congr 2; ring))
    (fun x hx => by simp only [false_or] at hx; omega)
  exact u2.fill_congr _ (fun x => by simp only [false_or]; omega)

theorem gemm_small_c1_r1_fill {T : Type} [CommRing T] (vs : Nat) (a b : Nat → T)
    (N K j i : Nat) (hj : j + vs ≤ N) (c : Buffer T) :
    Filled c (gemm_small_c1_r1 (Arith.exact T) vs a b N K j i c)
      (fun x => (i ≤ x / N ∧ x / N < i + 1) ∧ (j ≤ x % N ∧ x % N < j + vs))
      (mdot a b N K) := by
  unfold gemm_small_c1_r1
  simp only []
  generalize hv : forLoop K (fun k => decide (k < K)) 1 _ 0 _ = v
  let Inv : Nat → Vec T → Prop :=
    fun k r => k ≤ K ∧
      (∀ l, r l = ∑ x ∈ range k, a ((i + 0) * K + x) * b (x * N + j + vs * 0 + l))
  have hV : Inv v.1 v.2 ∧ decide (v.1 < K) = false := by
    rw [← hv]
    refine forLoop_spec Inv _ 1 _ K Nat.one_pos (fun k hk => by simpa using hk) ?_ K 0 _
      (by omega) ?_
    · rintro k r1 ⟨hk, h1⟩ hc
      have hc' : k < K := by simpa using hc
      try dsimp only at h1
      refine ⟨hc', ?_⟩
      all_goals
        intro l
        simp only [fmadd_set_step, Finset.sum_range_succ, h1]
    · simp [Inv, Vec.zero]
  obtain ⟨⟨hk, h1⟩, hex⟩ := hV
  have hke : v.1 = K := by
    have : ¬ v.1 < K := by simpa using hex
    omega
  rw [hke] at h1
  have u0 := Filled.fill_refl c (mdot a b N K)
  have u1 := u0.fill_storeu_row N (i + 0) (j) vs ((i + 0) * N + j) v.2
    (by ring) (by omega)
    (fun l hl => by
      rw [h1 l, mdot_at a b N K (i + 0) (j + l) (by omega)]
      exact Finset.sum_congr rfl (fun k _ => by congr 2; ring))
    (fun x hx => hx.elim)
  exact u1.fill_congr _ (fun x => by simp only [false_or]; omega)

theorem gemm_small_s2_r2_fill {T : Type} [CommRing T] (a b : Nat → T)
    (N K j i : Nat) (hj : j + 2 ≤ N) (c : Buffer T) :
    Filled c (gemm_small_s2_r2 (Arith.exact T) a b N K j i c)
      (fun x => (i ≤ x / N ∧ x / N < i + 2) ∧ (j ≤ x % N ∧ x % N < j + 2))
      (mdot a b N K) := by
  unfold gemm_small_s2_r2
  simp only []
  generalize hv : forLoop K (fun k => decide (k < K)) 1 _ 0 _ = v
  let Inv : Nat → T × T × T × T → Prop :=
    fun k r => k ≤ K ∧
      r.1 = ∑ x ∈ range k, a ((i + 0) * K + x) * b (x * N + (j + 0)) ∧
      r.2.1 = ∑ x ∈ range k, a ((i + 1) * K + x) * b (x * N + (j + 0)) ∧
      r.2.2.1 = ∑ x ∈ range k, a ((i + 0) * K + x) * b (x * N + (j + 1)) ∧
      r.2.2.2 = ∑ x ∈ range k, a ((i + 1) * K + x) * b (x * N + (j + 1))
  have hV : Inv v.1 v.2 ∧ decide (v.1 < K) = false := by
    rw [← hv]
    refine forLoop_spec Inv _ 1 _ K Nat.one_pos (fun k hk => by simpa using hk) ?_ K 0 _
      (by omega) ?_
    · rintro k ⟨r11, r12, r21, r22⟩ ⟨hk, h1, h2, h3, h4⟩ hc
      have hc' : k < K := by simpa using hc
      try dsimp only at h1 h2 h3 h4
      refine ⟨hc', ?_, ?_, ?_, ?_⟩
      all_goals
        simp only [exact_add, exact_mul, Finset.sum_range_succ, h1, h2, h3, h4]
    · simp [Inv]
  obtain ⟨⟨hk, h1, h2, h3, h4⟩, hex⟩ := hV
  have hke : v.1 = K := by
    have : ¬ v.1 < K := by simpa using hex
    omega
  rw [hke] at h1 h2 h3 h4
  have u0 := Filled.fill_refl c (mdot a b N K)
  have u1 := u0.fill_write_row N (i + 0) ((j + 0)) ((i + 0) * N + (j + 0)) v.2.1
    (by ring) (by omega)
    (by rw [h1, mdot_at a b N K (i + 0) ((j + 0)) (by omega)])
    (fun x hx => hx.elim)
  have u2 := u1.fill_write_row N (i + 0) ((j + 1)) ((i + 0) * N + (j + 1)) v.2.2.2.1
    (by ring) (by omega)
    (by rw [h3, mdot_at a b N K (i + 0) ((j + 1)) (by omega)])
    (fun x hx => by simp only [false_or] at hx; omega)
  have u3 := u2.fill_write_row N (i + 1) ((j + 0)) ((i + 1) * N + (j + 0)) v.2.2.1
    (by ring) (by omega)
    (by rw [h2, mdot_at a b N K (i + 1) ((j + 0)) (by omega)])
    (fun x hx => by simp only [false_or] at hx; omega)
  have u4 := u3.fill_write_row N (i + 1) ((j + 1)) ((i + 1) * N + (j + 1)) v.2.2.2.2
    (by ring) (by omega)
    (by rw [h4, mdot_at a b N K (i + 1) ((j + 1)) (by omega)])
    (fun x hx => by simp only [false_or] at hx; omega)
  exact u4.fill_congr _ (fun x => by simp only [false_or]; omega)

theorem gemm_small_s2_r1_fill {T : Type} [CommRing T] (a b : Nat → T)
    (N K j i : Nat) (hj : j + 2 ≤ N) (c : Buffer T) :
    Filled c (gemm_small_s2_r1 (Arith.exact T) a b N K j i c)
      (fun x => (i ≤ x / N ∧ x / N < i + 1) ∧ (j ≤ x % N ∧ x % N < j + 2))
      (mdot a b N K) := by
  unfold gemm_small_s2_r1
  simp only []
  generalize hv : forLoop K (fun k => decide (k < K)) 1 _ 0 _ = v
  let Inv : Nat → T × T → Prop :=
    fun k r => k ≤ K ∧
      r.1 = ∑ x ∈ range k, a (i * K + x) * b (x * N + (j + 0)) ∧
      r.2 = ∑ x ∈ range k, a (i * K + x) * b (x * N + (j + 1))
  have hV : Inv v.1 v.2 ∧ decide (v.1 < K) = false := by
    rw [← hv]
    refine forLoop_spec Inv _ 1 _ K Nat.one_pos (fun k hk => by simpa using hk) ?_ K 0 _
      (by omega) ?_
    · rintro k ⟨r1, r2⟩ ⟨hk, h1, h2⟩ hc
      have hc' : k < K := by simpa using hc
      try dsimp only at h1 h2
      refine ⟨hc', ?_, ?_⟩
      all_goals
        simp only [exact_add, exact_mul, Finset.sum_range_succ, h1, h2]
    · simp [Inv]
  obtain ⟨⟨hk, h1, h2⟩, hex⟩ := hV
  have hke : v.1 = K := by
    have : ¬ v.1 < K := by simpa using hex
    omega
  rw [hke] at h1 h2
  have u0 := Filled.fill_refl c (mdot a b N K)
  have u1 := u0.fill_write_row N i ((j + 0)) (i * N + (j + 0)) v.2.1
    (by ring) (by omega)
    (by rw [h1, mdot_at a b N K i ((j + 0)) (by omega)])
    (fun x hx => hx.elim)
  have u2 := u1.fill_write_row N i ((j + 1)) (i * N + (j + 1)) v.2.2
    (by ring) (by omega)
    (by rw [h2, mdot_at a b N K i ((j + 1)) (by omega)])
    (fun x hx => by simp only [false_or] at hx; omega)
  exact u2.fill_congr _ (fun x => by simp only [false_or]; omega)

theorem gemm_small_s1_r2_fill {T : Type} [CommRing T] (a b : Nat → T)
    (N K j i : Nat) (hj : j + 1 ≤ N) (c : Buffer T) :
    Filled c (gemm_small_s1_r2 (Arith.exact T) a b N K j i c)
      (fun x => (i ≤ x / N ∧ x / N < i + 2) ∧ (j ≤ x % N ∧ x % N < j + 1))
      (mdot a b N K) := by
  unfold gemm_small_s1_r2
  simp only []
  generalize hv : forLoop K (fun k => decide (k < K)) 1 _ 0 _ = v
  let Inv : Nat → T × T → Prop :=
    fun k r => k ≤ K ∧
      r.1 = ∑ x ∈ range k, a ((i + 0) * K + x) * b (x * N + j) ∧
      r.2 = ∑ x ∈ range k, a ((i + 1) * K + x) * b (x * N + j)
  have hV : Inv v.1 v.2 ∧ decide (v.1 < K) = false := by
    rw [← hv]
    refine forLoop_spec Inv _ 1 _ K Nat.one_pos (fun k hk => by simpa using hk) ?_ K 0 _
      (by omega) ?_
    · rintro k ⟨r1, r2⟩ ⟨hk, h1, h2⟩ hc
      have hc' : k < K := by simpa using hc
      try dsimp only at h1 h2
      refine ⟨hc', ?_, ?_⟩
      all_goals
        simp only [exact_add, exact_mul, Finset.sum_range_succ, h1, h2]
    · simp [Inv]
  obtain ⟨⟨hk, h1, h2⟩, hex⟩ := hV
  have hke : v.1 = K := by
    have : ¬ v.1 < K := by simpa using hex
    omega
  rw [hke] at h1 h2
  have u0 := Filled.fill_refl c (mdot a b N K)
  have u1 := u0.fill_write_row N (i + 0) (j) ((i + 0) * N + j) v.2.1
    (by ring) (by omega)
    (by rw [h1, mdot_at a b N K (i + 0) (j) (by omega)])
    (fun x hx => hx.elim)
  have u2 := u1.fill_write_row N (i + 1) (j) ((i + 1) * N + j) v.2.2
    (by ring) (by omega)
    (by rw [h2, mdot_at a b N K (i + 1) (j) (by omega)])
    (fun x hx => by simp only [false_or] at hx; omega)
  exact u2.fill_congr _ (fun x => by simp only [false_or]; omega)

theorem gemm_small_s1_r1_fill {T : Type} [CommRing T] (a b : Nat → T)
    (N K j i : Nat) (hj : j + 1 ≤ N) (c : Buffer T) :
    Filled c (gemm_small_s1_r1 (Arith.exact T) a b N K j i c)
      (fun x => (i ≤ x / N ∧ x / N < i + 1) ∧ (j ≤ x % N ∧ x % N < j + 1))
      (mdot a b N K) := by
  unfold gemm_small_s1_r1
  simp only []
  generalize hv : forLoop K (fun k => decide (k < K)) 1 _ 0 _ = v
  let Inv : Nat → T → Prop :=
    fun k r => k ≤ K ∧
      r = ∑ x ∈ range k, a (i * K + x) * b (x * N + j)
  have hV : Inv v.1 v.2 ∧ decide (v.1 < K) = false := by
    rw [← hv]
    refine forLoop_spec Inv _ 1 _ K Nat.one_pos (fun k hk => by simpa using hk) ?_ K 0 _
      (by omega) ?_
    · rintro k r1 ⟨hk, h1⟩ hc
      have hc' : k < K := by simpa using hc
      try dsimp only at h1
      refine ⟨hc', ?_⟩
      all_goals
        simp only [exact_add, exact_mul, Finset.sum_range_succ, h1]
    · simp [Inv]
  obtain ⟨⟨hk, h1⟩, hex⟩ := hV
  have hke : v.1 = K := by
    have : ¬ v.1 < K := by simpa using hex
    omega
  rw [hke] at h1
  have u0 := Filled.fill_refl c (mdot a b N K)
  have u1 := u0.fill_write_row N i (j) (i * N + j) v.2
    (by ring) (by omega)
    (by rw [h1, mdot_at a b N K i (j) (by omega)])
    (fun x hx => hx.elim)
  exact u1.fill_congr _ (fun x => by simp only [false_or]; omega)

theorem gemm_small_cols8_fill {T : Type} [CommRing T] (vs : Nat) (a b : Nat → T)
    (M N K j : Nat) (hj : j + vs * 8 ≤ N) (c : Buffer T) :
    Filled c (gemm_small_cols8 (Arith.exact T) vs a b M N K j c)
      (fun x => (j ≤ x % N ∧ x % N < j + vs * 8) ∧ x / N < M) (mdot a b N K) := by
  unfold gemm_small_cols8
  try simp only []
  have s0 := sweep_fill (fun x => x / N) (fun x => j ≤ x % N ∧ x % N < j + vs * 8) c
    (mdot a b N K) M 1 (gemm_small_c8_r1 (Arith.exact T) vs a b N K j) (fun i => decide (i < M))
    (by norm_num) (fun i hi => by have h := of_decide_eq_true hi; omega)
    (fun i c' _ => gemm_small_c8_r1_fill vs a b N K j i hj c') 0 0 c (Nat.zero_le _) (Nat.zero_le _)
    ((Filled.fill_refl c _).fill_congr _ (fun x => by simp))
  generalize forLoop M (fun i => decide (i < M)) 1 _ 0 c = t0 at s0 ⊢
  obtain ⟨⟨_, hle, hf⟩, hex⟩ := s0
  have hex' : ¬ t0.1 < M := by simpa using hex
  exact hf.fill_congr _ (fun x => by beta_reduce; generalize x / N = q; generalize x % N = r; omega)

theorem gemm_small_cols4_fill {T : Type} [CommRing T] (vs : Nat) (a b : Nat → T)
    (M N K j : Nat) (hj : j + 4 * vs ≤ N) (c : Buffer T) :
    Filled c (gemm_small_cols4 (Arith.exact T) vs a b M N K j c)
      (fun x => (j ≤ x % N ∧ x % N < j + 4 * vs) ∧ x / N < M) (mdot a b N K) := by
  unfold gemm_small_cols4
  try simp only []
  have s0 := sweep_fill (fun x => x / N) (fun x => j ≤ x % N ∧ x % N < j + 4 * vs) c
    (mdot a b N K) M 2 (gemm_small_c4_r2 (Arith.exact T) vs a b N K j) (fun i => decide (i + 1 < M))
    (by norm_num) (fun i hi => by have h := of_decide_eq_true hi; omega)
    (fun i c' _ => gemm_small_c4_r2_fill vs a b N K j i hj c') 0 0 c (Nat.zero_le _) (Nat.zero_le _)
    ((Filled.fill_refl c _).fill_congr _ (fun x => by simp))
  generalize forLoop M (fun i => decide (i + 1 < M)) 2 _ 0 c = t0 at s0 ⊢
  obtain ⟨⟨_, hle, hf⟩, hex⟩ := s0
  have hex' : ¬ t0.1 + 1 < M := by simpa using hex
  by_cases hlt : t0.1 < M
  · rw [if_pos hlt]
    exact Filled.fill_seq hf (gemm_small_c4_r1_fill vs a b N K j t0.1 hj t0.2) _
      (fun x => by beta_reduce; generalize x / N = q; generalize x % N = r; omega)
      (fun x hp hq => by beta_reduce at hp hq; generalize x / N = q at hp hq
                         generalize x % N = r at hp hq; omega)
  · rw [if_neg hlt]
    exact hf.fill_congr _ (fun x => by beta_reduce; generalize x / N = q; generalize x % N = r; omega)

theorem gemm_small_cols2_fill {T : Type} [CommRing T] (vs : Nat) (a b : Nat → T)
    (M N K j : Nat) (hj : j + 2 * vs ≤ N) (c : Buffer T) :
    Filled c (gemm_small_cols2 (Arith.exact T) vs a b M N K j c)
      (fun x => (j ≤ x % N ∧ x % N < j + 2 * vs) ∧ x / N < M) (mdot a b N K) := by
  unfold gemm_small_cols2
  try simp only []
  have s0 := sweep_fill (fun x => x / N) (fun x => j ≤ x % N ∧ x % N < j + 2 * vs) c
    (mdot a b N K) M 4 (gemm_small_c2_r4 (Arith.exact T) vs a b N K j) (fun i => decide (i + 3 < M))
    (by norm_num) (fun i hi => by have h := of_decide_eq_true hi; omega)
    (fun i c' _ => gemm_small_c2_r4_fill vs a b N K j i hj c') 0 0 c (Nat.zero_le _) (Nat.zero_le _)
    ((Filled.fill_refl c _).fill_congr _ (fun x => by simp))
  generalize forLoop M (fun i => decide (i + 3 < M)) 4 _ 0 c = t0 at s0 ⊢
  have s1 := sweep_fill (fun x => x / N) (fun x => j ≤ x % N ∧ x % N < j + 2 * vs) c
    (mdot a b N K) M 2 (gemm_small_c2_r2 (Arith.exact T) vs a b N K j) (fun i => decide (i + 1 < M))
    (by norm_num) (fun i hi => by have h := of_decide_eq_true hi; omega)
    (fun i c' _ => gemm_small_c2_r2_fill vs a b N K j i hj c') 0 t0.1 t0.2 (Nat.zero_le _) s0.1.2.1
    s0.1.2.2
  generalize forLoop M (fun i => decide (i + 1 < M)) 2 _ t0.1 t0.2 = t1 at s1 ⊢
  obtain ⟨⟨_, hle, hf⟩, hex⟩ := s1
  have hex' : ¬ t1.1 + 1 < M := by simpa using hex
  by_cases hlt : t1.1 < M
  · rw [if_pos hlt]
    exact Filled.fill_seq hf (gemm_small_c2_r1_fill vs a b N K j t1.1 hj t1.2) _
      (fun x => by beta_reduce; generalize x / N = q; generalize x % N = r; omega)
      (fun x hp hq => by beta_reduce at hp hq; generalize x / N = q at hp hq
                         generalize x % N = r at hp hq; omega)
  · rw [if_neg hlt]
    exact hf.fill_congr _ (fun x => by beta_reduce; generalize x / N = q; generalize x % N = r; omega)

theorem gemm_small_cols1_fill {T : Type} [CommRing T] (vs : Nat) (a b : Nat → T)
    (M N K j : Nat) (hj : j + vs ≤ N) (c : Buffer T) :
    Filled c (gemm_small_cols1 (Arith.exact T) vs a b M N K j c)
      (fun x => (j ≤ x % N ∧ x % N < j + vs) ∧ x / N < M) (mdot a b N K) := by
  unfold gemm_small_cols1
  try simp only []
  have s0 := sweep_fill (fun x => x / N) (fun x => j ≤ x % N ∧ x % N < j + vs) c
    (mdot a b N K) M 2 (gemm_small_c1_r2 (Arith.exact T) vs a b N K j) (fun i => decide (i + 1 < M))
    (by norm_num) (fun i hi => by have h := of_decide_eq_true hi; omega)
    (fun i c' _ => gemm_small_c1_r2_fill vs a b N K j i hj c') 0 0 c (Nat.zero_le _) (Nat.zero_le _)
    ((Filled.fill_refl c _).fill_congr _ (fun x => by simp))
  generalize forLoop M (fun i => decide (i + 1 < M)) 2 _ 0 c = t0 at s0 ⊢
  obtain ⟨⟨_, hle, hf⟩, hex⟩ := s0
  have hex' : ¬ t0.1 + 1 < M := by simpa using hex
  by_cases hlt : t0.1 < M
  · rw [if_pos hlt]
    exact Filled.fill_seq hf (gemm_small_c1_r1_fill vs a b N K j t0.1 hj t0.2) _
      (fun x => by beta_reduce; generalize x / N = q; generalize x % N = r; omega)
      (fun x hp hq => by beta_reduce at hp hq; generalize x / N = q at hp hq
                         generalize x % N = r at hp hq; omega)
  · rw [if_neg hlt]
    exact hf.fill_congr _ (fun x => by beta_reduce; generalize x / N = q; generalize x % N = r; omega)

theorem gemm_small_scalar2_fill {T : Type} [CommRing T] (a b : Nat → T)
    (M N K j : Nat) (hj : j + 2 ≤ N) (c : Buffer T) :
    Filled c (gemm_small_scalar2 (Arith.exact T) a b M N K j c)
      (fun x => (j ≤ x % N ∧ x % N < j + 2) ∧ x / N < M) (mdot a b N K) := by
  unfold gemm_small_scalar2
  try simp only []
  have s0 := sweep_fill (fun x => x / N) (fun x => j ≤ x % N ∧ x % N < j + 2) c
    (mdot a b N K) M 2 (gemm_small_s2_r2 (Arith.exact T) a b N K j) (fun i => decide (i + 1 < M))
    (by norm_num) (fun i hi => by have h := of_decide_eq_true hi; omega)
    (fun i c' _ => gemm_small_s2_r2_fill a b N K j i hj c') 0 0 c (Nat.zero_le _) (Nat.zero_le _)
    ((Filled.fill_refl c _).fill_congr _ (fun x => by simp))
  generalize forLoop M (fun i => decide (i + 1 < M)) 2 _ 0 c = t0 at s0 ⊢
  obtain ⟨⟨_, hle, hf⟩, hex⟩ := s0
  have hex' : ¬ t0.1 + 1 < M := by simpa using hex
  by_cases hlt : t0.1 < M
  · rw [if_pos hlt]
    exact Filled.fill_seq hf (gemm_small_s2_r1_fill a b N K j t0.1 hj t0.2) _
      (fun x => by beta_reduce; generalize x / N = q; generalize x % N = r; omega)
      (fun x hp hq => by beta_reduce at hp hq; generalize x / N = q at hp hq
                         generalize x % N = r at hp hq; omega)
  · rw [if_neg hlt]
    exact hf.fill_congr _ (fun x => by beta_reduce; generalize x / N = q; generalize x % N = r; omega)

theorem gemm_small_scalar1_fill {T : Type} [CommRing T] (a b : Nat → T)
    (M N K j : Nat) (hj : j + 1 ≤ N) (c : Buffer T) :
    Filled c (gemm_small_scalar1 (Arith.exact T) a b M N K j c)
      (fun x => (j ≤ x % N ∧ x % N < j + 1) ∧ x / N < M) (mdot a b N K) := by
  unfold gemm_small_scalar1
  try simp only []
  have s0 := sweep_fill (fun x => x / N) (fun x => j ≤ x % N ∧ x % N < j + 1) c
    (mdot a b N K) M 2 (gemm_small_s1_r2 (Arith.exact T) a b N K j) (fun i => decide (i + 1 < M))
    (by norm_num) (fun i hi => by have h := of_decide_eq_true hi; omega)
    (fun i c' _ => gemm_small_s1_r2_fill a b N K j i hj c') 0 0 c (Nat.zero_le _) (Nat.zero_le _)
    ((Filled.fill_refl c _).fill_congr _ (fun x => by simp))
  generalize forLoop M (fun i => decide (i + 1 < M)) 2 _ 0 c = t0 at s0 ⊢
  obtain ⟨⟨_, hle, hf⟩, hex⟩ := s0
  have hex' : ¬ t0.1 + 1 < M := by simpa using hex
  by_cases hlt : t0.1 < M
  · rw [if_pos hlt]
    exact Filled.fill_seq hf (gemm_small_s1_r1_fill a b N K j t0.1 hj t0.2) _
      (fun x => by beta_reduce; generalize x / N = q; generalize x % N = r; omega)
      (fun x hp hq => by beta_reduce at hp hq; generalize x / N = q at hp hq
                         generalize x % N = r at hp hq; omega)
  · rw [if_neg hlt]
    exact hf.fill_congr _ (fun x => by beta_reduce; generalize x / N = q; generalize x % N = r; omega)

/-- What `gemm_small_kernel` leaves: every element `(i, j)` with `i < M`, `j < N` stored
exactly once, with the exact sum, and nothing else touched. -/
theorem gemm_small_kernel_fill {T : Type} [CommRing T] (vs : Nat) (hvs : 0 < vs)
    (a b : Nat → T) (c : Buffer T) (M N K : Nat) :
    Filled c (gemm_small_kernel (Arith.exact T) vs a b c M N K)
      (fun x => x / N < M ∧ x % N < N) (mdot a b N K) := by
  unfold gemm_small_kernel
  try simp only []
  have s0 := sweep_fill (fun x => x % N) (fun x => x / N < M) c
    (mdot a b N K) N (vs * 8) (gemm_small_cols8 (Arith.exact T) vs a b M N K) (fun j => decide (j + vs * 8 - 1 < N))
    (by omega) (fun j hj => by have h := of_decide_eq_true hj; omega)
    (fun j c' hj => gemm_small_cols8_fill vs a b M N K j
      (by have h := of_decide_eq_true hj; omega) c')
    0 0 c (Nat.zero_le _) (Nat.zero_le _)
    ((Filled.fill_refl c _).fill_congr _ (fun x => by simp))
  generalize forLoop N (fun j => decide (j + vs * 8 - 1 < N)) (vs * 8) _ 0 c = t0 at s0 ⊢
  have s1 := sweep_fill (fun x => x % N) (fun x => x / N < M) c
    (mdot a b N K) N (4 * vs) (gemm_small_cols4 (Arith.exact T) vs a b M N K) (fun j => decide (j + 4 * vs - 1 < N))
    (by omega) (fun j hj => by have h := of_decide_eq_true hj; omega)
    (fun j c' hj => gemm_small_cols4_fill vs a b M N K j
      (by have h := of_decide_eq_true hj; omega) c')
    0 t0.1 t0.2 (Nat.zero_le _) s0.1.2.1
    s0.1.2.2
  generalize forLoop N (fun j => decide (j + 4 * vs - 1 < N)) (4 * vs) _ t0.1 t0.2 = t1 at s1 ⊢
  have s2 := sweep_fill (fun x => x % N) (fun x => x / N < M) c
    (mdot a b N K) N (2 * vs) (gemm_small_cols2 (Arith.exact T) vs a b M N K) (fun j => decide (j + 2 * vs - 1 < N))
    (by omega) (fun j hj => by have h := of_decide_eq_true hj; omega)
    (fun j c' hj => gemm_small_cols2_fill vs a b M N K j
      (by have h := of_decide_eq_true hj; omega) c')
    0 t1.1 t1.2 (Nat.zero_le _) s1.1.2.1
    s1.1.2.2
  generalize forLoop N (fun j => decide (j + 2 * vs - 1 < N)) (2 * vs) _ t1.1 t1.2 = t2 at s2 ⊢
  have s3 := sweep_fill (fun x => x % N) (fun x => x / N < M) c
    (mdot a b N K) N (vs) (gemm_small_cols1 (Arith.exact T) vs a b M N K) (fun j => decide (j + vs - 1 < N))
    hvs (fun j hj => by have h := of_decide_eq_true hj; omega)
    (fun j c' hj => gemm_small_cols1_fill vs a b M N K j
      (by have h := of_decide_eq_true hj; omega) c')
    0 t2.1 t2.2 (Nat.zero_le _) s2.1.2.1
    s2.1.2.2
  generalize forLoop N (fun j => decide (j + vs - 1 < N)) (vs) _ t2.1 t2.2 = t3 at s3 ⊢
  have s4 := sweep_fill (fun x => x % N) (fun x => x / N < M) c
    (mdot a b N K) N (2) (gemm_small_scalar2 (Arith.exact T) a b M N K) (fun j => decide (j + 1 < N))
    (by norm_num) (fun j hj => by have h := of_decide_eq_true hj; omega)
    (fun j c' hj => gemm_small_scalar2_fill a b M N K j
      (by have h := of_decide_eq_true hj; omega) c')
    0 t3.1 t3.2 (Nat.zero_le _) s3.1.2.1
    s3.1.2.2
  generalize forLoop N (fun j => decide (j + 1 < N)) (2) _ t3.1 t3.2 = t4 at s4 ⊢
  obtain ⟨⟨_, hle, hf⟩, hex⟩ := s4
  have hex' : ¬ t4.1 + 1 < N := by simpa using hex
  by_cases hlt : t4.1 < N
  · rw [if_pos hlt]
    exact Filled.fill_seq hf (gemm_small_scalar1_fill a b M N K t4.1 (by omega) t4.2) _
      (fun x => by beta_reduce; generalize x / N = q; generalize x % N = r; omega)
      (fun x hp hq => by beta_reduce at hp hq; generalize x / N = q at hp hq
                         generalize x % N = r at hp hq; omega)
  · rw [if_neg hlt]
    exact hf.fill_congr _ (fun x => by beta_reduce; generalize x / N = q; generalize x % N = r; omega)

/-! ## GEMM large kernel -/

theorem gemm_large_c4_r2_upd {T : Type} [CommRing T] (vs : Nat) (a b : Nat → T)
    (N K block_k k_end j i : Nat) (hk : block_k ≤ k_end) (hj : j + vs * 4 ≤ N) (c : Buffer T) :
    Updated c (gemm_large_c4_r2 (Arith.exact T) vs a b N K block_k k_end j i c)
      (fun x => (i ≤ x / N ∧ x / N < i + 2) ∧ (j ≤ x % N ∧ x % N < j + vs * 4))
      (fun x => c.val x + mdot_blk a b N K block_k k_end x) := by
  unfold gemm_large_c4_r2
  simp only []
  generalize hv : forLoop k_end (fun k => decide (k < k_end)) 1 _ block_k _ = v
  let Inv : Nat → Vec T × Vec T × Vec T × Vec T × Vec T × Vec T × Vec T × Vec T → Prop :=
    fun k r => block_k ≤ k ∧ k ≤ k_end ∧
      (∀ l, r.1 l = c.val ((i + 0) * N + j + l) +
        ∑ x ∈ Ico block_k k, a ((i + 0) * K + x) * b (x * N + j + l)) ∧
      (∀ l, r.2.1 l = c.val ((i + 0) * N + (j + vs * 1) + l) +
        ∑ x ∈ Ico block_k k, a ((i + 0) * K + x) * b (x * N + (j + vs * 1) + l)) ∧
      (∀ l, r.2.2.1 l = c.val ((i + 0) * N + (j + vs * 2) + l) +
        ∑ x ∈ Ico block_k k, a ((i + 0) * K + x) * b (x * N + (j + vs * 2) + l)) ∧
      (∀ l, r.2.2.2.1 l = c.val ((i + 0) * N + (j + vs * 3) + l) +
        ∑ x ∈ Ico block_k k, a ((i + 0) * K + x) * b (x * N + (j + vs * 3) + l)) ∧
      (∀ l, r.2.2.2.2.1 l = c.val ((i + 1) * N + j + l) +
        ∑ x ∈ Ico block_k k, a ((i + 1) * K + x) * b (x * N + j + l)) ∧
      (∀ l, r.2.2.2.2.2.1 l = c.val ((i + 1) * N + (j + vs * 1) + l) +
        ∑ x ∈ Ico block_k k, a ((i + 1) * K + x) * b (x * N + (j + vs * 1) + l)) ∧
      (∀ l, r.2.2.2.2.2.2.1 l = c.val ((i + 1) * N + (j + vs * 2) + l) +
        ∑ x ∈ Ico block_k k, a ((i + 1) * K + x) * b (x * N + (j + vs * 2) + l)) ∧
      (∀ l, r.2.2.2.2.2.2.2 l = c.val ((i + 1) * N + (j + vs * 3) + l) +
        ∑ x ∈ Ico block_k k, a ((i + 1) * K + x) * b (x * N + (j + vs * 3) + l))
  have hV : Inv v.1 v.2 ∧ decide (v.1 < k_end) = false := by
    rw [← hv]
    refine forLoop_spec Inv _ 1 _ k_end Nat.one_pos (fun k hk => by simpa using hk) ?_ k_end
      block_k _ (by omega) ?_
    · rintro k ⟨r11, r12, r13, r14, r21, r22, r23, r24⟩ ⟨hbk, hk, h1, h2, h3, h4, h5, h6, h7, h8⟩ hc
      have hc' : k < k_end := by simpa using hc
      try dsimp only at h1 h2 h3 h4 h5 h6 h7 h8
      refine ⟨by omega, hc', ?_, ?_, ?_, ?_, ?_, ?_, ?_, ?_⟩
      all_goals
        intro l
        simp only [fmadd_set_step, Finset.sum_Ico_succ_top hbk, h1, h2, h3, h4, h5, h6, h7, h8, add_assoc]
    · simp [Inv, Buffer.loadu, hk]
  obtain ⟨⟨hbk, hk', h1, h2, h3, h4, h5, h6, h7, h8⟩, hex⟩ := hV
  have hke : v.1 = k_end := by
    have : ¬ v.1 < k_end := by simpa using hex
    omega
  rw [hke] at h1 h2 h3 h4 h5 h6 h7 h8
  have u0 := Updated.upd_refl c (fun x => c.val x + mdot_blk a b N K block_k k_end x)
  have u1 := u0.upd_storeu_row N (i + 0) (j) vs ((i + 0) * N + j) v.2.1
    rfl (by omega)
    (fun l hl => by
      rw [h1 l]
      rw [mdot_blk_at a b N K block_k k_end (i + 0) (j + l) (by omega)]
      refine congrArg₂ HAdd.hAdd (congrArg c.val (by ring))
        (Finset.sum_congr rfl (fun k _ => by congr 2; ring)))
  have u2 := u1.upd_storeu_row N (i + 0) ((j + vs * 1)) vs ((i + 0) * N + (j + vs * 1)) v.2.2.1
    rfl (by omega)
    (fun l hl => by
      rw [h2 l]
      rw [mdot_blk_at a b N K block_k k_end (i + 0) ((j + vs * 1) + l) (by omega)]
      refine congrArg₂ HAdd.hAdd (congrArg c.val (by ring))
        (Finset.sum_congr rfl (fun k _ => by congr 2; ring)))
  have u3 := u2.upd_storeu_row N (i + 0) ((j + vs * 2)) vs ((i + 0) * N + (j + vs * 2)) v.2.2.2.1
    rfl (by omega)
    (fun l hl => by
      rw [h3 l]
      rw [mdot_blk_at a b N K block_k k_end (i + 0) ((j + vs * 2) + l) (by omega)]
      refine congrArg₂ HAdd.hAdd (congrArg c.val (by ring))
        (Finset.sum_congr rfl (fun k _ => by congr 2; ring)))
  have u4 := u3.upd_storeu_row N (i + 0) ((j + vs * 3)) vs ((i + 0) * N + (j + vs * 3)) v.2.2.2.2.1
    rfl (by omega)
    (fun l hl => by
      rw [h4 l]
      rw [mdot_blk_at a b N K block_k k_end (i + 0) ((j + vs * 3) + l) (by omega)]
      refine congrArg₂ HAdd.hAdd (congrArg c.val (by ring))
        (Finset.sum_congr rfl (fun k _ => by congr 2; ring)))
  have u5 := u4.upd_storeu_row N (i + 1) (j) vs ((i + 1) * N + j) v.2.2.2.2.2.1
    rfl (by omega)
    (fun l hl => by
      rw [h5 l]
      rw [mdot_blk_at a b N K block_k k_end (i + 1) (j + l) (by omega)]
      refine congrArg₂ HAdd.hAdd (congrArg c.val (by ring))
        (Finset.sum_congr rfl (fun k _ => by congr 2; ring)))
  have u6 := u5.upd_storeu_row N (i + 1) ((j + vs * 1)) vs ((i + 1) * N + (j + vs * 1)) v.2.2.2.2.2.2.1
    rfl (by omega)
    (fun l hl => by
      rw [h6 l]
      rw [mdot_blk_at a b N K block_k k_end (i + 1) ((j + vs * 1) + l) (by omega)]
      refine congrArg₂ HAdd.hAdd (congrArg c.val (by ring))
        (Finset.sum_congr rfl (fun k _ => by congr 2; ring)))
  have u7 := u6.upd_storeu_row N (i + 1) ((j + vs * 2)) vs ((i + 1) * N + (j + vs * 2)) v.2.2.2.2.2.2.2.1
    rfl (by omega)
    (fun l hl => by
      rw [h7 l]
      rw [mdot_blk_at a b N K block_k k_end (i + 1) ((j + vs * 2) + l) (by omega)]
      refine congrArg₂ HAdd.hAdd (congrArg c.val (by ring))
        (Finset.sum_congr rfl (fun k _ => by congr 2; ring)))
  have u8 := u7.upd_storeu_row N (i + 1) ((j + vs * 3)) vs ((i + 1) * N + (j + vs * 3)) v.2.2.2.2.2.2.2.2
    rfl (by omega)
    (fun l hl => by
      rw [h8 l]
      rw [mdot_blk_at a b N K block_k k_end (i + 1) ((j + vs * 3) + l) (by omega)]
      refine congrArg₂ HAdd.hAdd (congrArg c.val (by ring))
        (Finset.sum_congr rfl (fun k _ => by congr 2; ring)))
  exact u8.upd_congr _ _ (fun x => by simp only [false_or]; omega) (fun _ _ => rfl)

theorem gemm_large_c4_r1_upd {T : Type} [CommRing T] (vs : Nat) (a b : Nat → T)
    (N K block_k k_end j i : Nat) (hk : block_k ≤ k_end) (hj : j + vs * 4 ≤ N) (c : Buffer T) :
    Updated c (gemm_large_c4_r1 (Arith.exact T) vs a b N K block_k k_end j i c)
      (fun x => (i ≤ x / N ∧ x / N < i + 1) ∧ (j ≤ x % N ∧ x % N < j + vs * 4))
      (fun x => c.val x + mdot_blk a b N K block_k k_end x) := by
  unfold gemm_large_c4_r1
  simp only []
  generalize hv : forLoop k_end (fun k => decide (k < k_end)) 1 _ block_k _ = v
  let Inv : Nat → Vec T × Vec T × Vec T × Vec T → Prop :=
    fun k r => block_k ≤ k ∧ k ≤ k_end ∧
      (∀ l, r.1 l = c.val ((i + 0) * N + j + l) +
        ∑ x ∈ Ico block_k k, a ((i + 0) * K + x) * b (x * N + j + l)) ∧
      (∀ l, r.2.1 l = c.val ((i + 0) * N + (j + vs * 1) + l) +
        ∑ x ∈ Ico block_k k, a ((i + 0) * K + x) * b (x * N + (j + vs * 1) + l)) ∧
      (∀ l, r.2.2.1 l = c.val ((i + 0) * N + (j + vs * 2) + l) +
        ∑ x ∈ Ico block_k k, a ((i + 0) * K + x) * b (x * N + (j + vs * 2) + l)) ∧
      (∀ l, r.2.2.2 l = c.val ((i + 0) * N + (j + vs * 3) + l) +
        ∑ x ∈ Ico block_k k, a ((i + 0) * K + x) * b (x * N + (j + vs * 3) + l))
  have hV : Inv v.1 v.2 ∧ decide (v.1 < k_end) = false := by
    rw [← hv]
    refine forLoop_spec Inv _ 1 _ k_end Nat.one_pos (fun k hk => by simpa using hk) ?_ k_end
      block_k _ (by omega) ?_
    · rintro k ⟨r1, r2, r3, r4⟩ ⟨hbk, hk, h1, h2, h3, h4⟩ hc
      have hc' : k < k_end := by simpa using hc
      try dsimp only at h1 h2 h3 h4
      refine ⟨by omega, hc', ?_, ?_, ?_, ?_⟩
      all_goals
        intro l
        simp only [fmadd_set_step, Finset.sum_Ico_succ_top hbk, h1, h2, h3, h4, add_assoc]
    · simp [Inv, Buffer.loadu, hk]
  obtain ⟨⟨hbk, hk', h1, h2, h3, h4⟩, hex⟩ := hV
  have hke : v.1 = k_end := by
    have : ¬ v.1 < k_end := by simpa using hex
    omega
  rw [hke] at h1 h2 h3 h4
  have u0 := Updated.upd_refl c (fun x => c.val x + mdot_blk a b N K block_k k_end x)
  have u1 := u0.upd_storeu_row N (i + 0) (j) vs ((i + 0) * N + j) v.2.1
    rfl (by omega)
    (fun l hl => by
      rw [h1 l]
      rw [mdot_blk_at a b N K block_k k_end (i + 0) (j + l) (by omega)]
      refine congrArg₂ HAdd.hAdd (congrArg c.val (by ring))
        (Finset.sum_congr rfl (fun k _ => by congr 2; ring)))
  have u2 := u1.upd_storeu_row N (i + 0) ((j + vs * 1)) vs ((i + 0) * N + (j + vs * 1)) v.2.2.1
    rfl (by omega)
    (fun l hl => by
      rw [h2 l]
      rw [mdot_blk_at a b N K block_k k_end (i + 0) ((j + vs * 1) + l) (by omega)]
      refine congrArg₂ HAdd.hAdd (congrArg c.val (by ring))
        (Finset.sum_congr rfl (fun k _ => by congr 2; ring)))
  have u3 := u2.upd_storeu_row N (i + 0) ((j + vs * 2)) vs ((i + 0) * N + (j + vs * 2)) v.2.2.2.1
    rfl (by omega)
    (fun l hl => by
      rw [h3 l]
      rw [mdot_blk_at a b N K block_k k_end (i + 0) ((j + vs * 2) + l) (by omega)]
      refine congrArg₂ HAdd.hAdd (congrArg c.val (by ring))
        (Finset.sum_congr rfl (fun k _ => by congr 2; ring)))
  have u4 := u3.upd_storeu_row N (i + 0) ((j + vs * 3)) vs ((i + 0) * N + (j + vs * 3)) v.2.2.2.2
    rfl (by omega)
    (fun l hl => by
      rw [h4 l]
      rw [mdot_blk_at a b N K block_k k_end (i + 0) ((j + vs * 3) + l) (by omega)]
      refine congrArg₂ HAdd.hAdd (congrArg c.val (by ring))
        (Finset.sum_congr rfl (fun k _ => by congr 2; ring)))
  exact u4.upd_congr _ _ (fun x => by simp only [false_or]; omega) (fun _ _ => rfl)

theorem gemm_large_c2_r4_upd {T : Type} [CommRing T] (vs : Nat) (a b : Nat → T)
    (N K block_k k_end j i : Nat) (hk : block_k ≤ k_end) (hj : j + vs * 2 ≤ N) (c : Buffer T) :
    Updated c (gemm_large_c2_r4 (Arith.exact T) vs a b N K block_k k_end j i c)
      (fun x => (i ≤ x / N ∧ x / N < i + 4) ∧ (j ≤ x % N ∧ x % N < j + vs * 2))
      (fun x => c.val x + mdot_blk a b N K block_k k_end x) := by
  unfold gemm_large_c2_r4
  simp only []
  generalize hv : forLoop k_end (fun k => decide (k < k_end)) 1 _ block_k _ = v
  let Inv : Nat → Vec T × Vec T × Vec T × Vec T × Vec T × Vec T × Vec T × Vec T → Prop :=
    fun k r => block_k ≤ k ∧ k ≤ k_end ∧
      (∀ l, r.1 l = c.val ((i + 0) * N + j + l) +
        ∑ x ∈ Ico block_k k, a ((i + 0) * K + x) * b (x * N + j + l)) ∧
      (∀ l, r.2.1 l = c.val ((i + 0) * N + (j + vs) + l) +
        ∑ x ∈ Ico block_k k, a ((i + 0) * K + x) * b (x * N + (j + vs) + l)) ∧
      (∀ l, r.2.2.1 l = c.val ((i + 1) * N + j + l) +
        ∑ x ∈ Ico block_k k, a ((i + 1) * K + x) * b (x * N + j + l)) ∧
      (∀ l, r.2.2.2.1 l = c.val ((i + 1) * N + (j + vs) + l) +
        ∑ x ∈ Ico block_k k, a ((i + 1) * K + x) * b (x * N + (j + vs) + l)) ∧
      (∀ l, r.2.2.2.2.1 l = c.val ((i + 2) * N + j + l) +
        ∑ x ∈ Ico block_k k, a ((i + 2) * K + x) * b (x * N + j + l)) ∧
      (∀ l, r.2.2.2.2.2.1 l = c.val ((i + 2) * N + (j + vs) + l) +
        ∑ x ∈ Ico block_k k, a ((i + 2) * K + x) * b (x * N + (j + vs) + l)) ∧
      (∀ l, r.2.2.2.2.2.2.1 l = c.val ((i + 3) * N + j + l) +
        ∑ x ∈ Ico block_k k, a ((i + 3) * K + x) * b (x * N + j + l)) ∧
      (∀ l, r.2.2.2.2.2.2.2 l = c.val ((i + 3) * N + (j + vs) + l) +
        ∑ x ∈ Ico block_k k, a ((i + 3) * K + x) * b (x * N + (j + vs) + l))
  have hV : Inv v.1 v.2 ∧ decide (v.1 < k_end) = false := by
    rw [← hv]
    refine forLoop_spec Inv _ 1 _ k_end Nat.one_pos (fun k hk => by simpa using hk) ?_ k_end
      block_k _ (by omega) ?_
    · rintro k ⟨r11, r12, r21, r22, r31, r32, r41, r42⟩ ⟨hbk, hk, h1, h2, h3, h4, h5, h6, h7, h8⟩ hc
      have hc' : k < k_end := by simpa using hc
      try dsimp only at h1 h2 h3 h4 h5 h6 h7 h8
      refine ⟨by omega, hc', ?_, ?_, ?_, ?_, ?_, ?_, ?_, ?_⟩
      all_goals
        intro l
        simp only [fmadd_set_step, Finset.sum_Ico_succ_top hbk, h1, h2, h3, h4, h5, h6, h7, h8, add_assoc]
    · simp [Inv, Buffer.loadu, hk]
  obtain ⟨⟨hbk, hk', h1, h2, h3, h4, h5, h6, h7, h8⟩, hex⟩ := hV
  have hke : v.1 = k_end := by
    have : ¬ v.1 < k_end := by simpa using hex
    omega
  rw [hke] at h1 h2 h3 h4 h5 h6 h7 h8
  have u0 := Updated.upd_refl c (fun x => c.val x + mdot_blk a b N K block_k k_end x)
  have u1 := u0.upd_storeu_row N (i + 0) (j) vs ((i + 0) * N + j) v.2.1
    rfl (by omega)
    (fun l hl => by
      rw [h1 l]
      rw [mdot_blk_at a b N K block_k k_end (i + 0) (j + l) (by omega)]
      refine congrArg₂ HAdd.hAdd (congrArg c.val (by ring))
        (Finset.sum_congr rfl (fun k _ => by congr 2; ring)))
  have u2 := u1.upd_storeu_row N (i + 0) ((j + vs)) vs ((i + 0) * N + (j + vs)) v.2.2.1
    rfl (by omega)
    (fun l hl => by
      rw [h2 l]
      rw [mdot_blk_at a b N K block_k k_end (i + 0) ((j + vs) + l) (by omega)]
      refine congrArg₂ HAdd.hAdd (congrArg c.val (by ring))
        (Finset.sum_congr rfl (fun k _ => by congr 2; ring)))
  have u3 := u2.upd_storeu_row N (i + 1) (j) vs ((i + 1) * N + j) v.2.2.2.1
    rfl (by omega)
    (fun l hl => by
      rw [h3 l]
      rw [mdot_blk_at a b N K block_k k_end (i + 1) (j + l) (by omega)]
      refine congrArg₂ HAdd.hAdd (congrArg c.val (by ring))
        (Finset.sum_congr rfl (fun k _ => by congr 2; ring)))
  have u4 := u3.upd_storeu_row N (i + 1) ((j + vs)) vs ((i + 1) * N + (j + vs)) v.2.2.2.2.1
    rfl (by omega)
    (fun l hl => by
      rw [h4 l]
      rw [mdot_blk_at a b N K block_k k_end (i + 1) ((j + vs) + l) (by omega)]
      refine congrArg₂ HAdd.hAdd (congrArg c.val (by ring))
        (Finset.sum_congr rfl (fun k _ => by congr 2; ring)))
  have u5 := u4.upd_storeu_row N (i + 2) (j) vs ((i + 2) * N + j) v.2.2.2.2.2.1
    rfl (by omega)
    (fun l hl => by
      rw [h5 l]
      rw [mdot_blk_at a b N K block_k k_end (i + 2) (j + l) (by omega)]
      refine congrArg₂ HAdd.hAdd (congrArg c.val (by ring))
        (Finset.sum_congr rfl (fun k _ => by congr 2; ring)))
  have u6 := u5.upd_storeu_row N (i + 2) ((j + vs)) vs ((i + 2) * N + (j + vs)) v.2.2.2.2.2.2.1
    rfl (by omega)
    (fun l hl => by
      rw [h6 l]
      rw [mdot_blk_at a b N K block_k k_end (i + 2) ((j + vs) + l) (by omega)]
      refine congrArg₂ HAdd.hAdd (congrArg c.val (by ring))
        (Finset.sum_congr rfl (fun k _ => by congr 2; ring)))
  have u7 := u6.upd_storeu_row N (i + 3) (j) vs ((i + 3) * N + j) v.2.2.2.2.2.2.2.1
    rfl (by omega)
    (fun l hl => by
      rw [h7 l]
      rw [mdot_blk_at a b N K block_k k_end (i + 3) (j + l) (by omega)]
      refine congrArg₂ HAdd.hAdd (congrArg c.val (by ring))
        (Finset.sum_congr rfl (fun k _ => by congr 2; ring)))
  have u8 := u7.upd_storeu_row N (i + 3) ((j + vs)) vs ((i + 3) * N + (j + vs)) v.2.2.2.2.2.2.2.2
    rfl (by omega)
    (fun l hl => by
      rw [h8 l]
      rw [mdot_blk_at a b N K block_k k_end (i + 3) ((j + vs) + l) (by omega)]
      refine congrArg₂ HAdd.hAdd (congrArg c.val (by ring))
        (Finset.sum_congr rfl (fun k _ => by congr 2; ring)))
  exact u8.upd_congr _ _ (fun x => by simp only [false_or]; omega) (fun _ _ => rfl)

theorem gemm_large_c2_r2_upd {T : Type} [CommRing T] (vs : Nat) (a b : Nat → T)
    (N K block_k k_end j i : Nat) (hk : block_k ≤ k_end) (hj : j + vs * 2 ≤ N) (c : Buffer T) :
    Updated c (gemm_large_c2_r2 (Arith.exact T) vs a b N K block_k k_end j i c)
      (fun x => (i ≤ x / N ∧ x / N < i + 2) ∧ (j ≤ x % N ∧ x % N < j + vs * 2))
      (fun x => c.val x + mdot_blk a b N K block_k k_end x) := by
  unfold gemm_large_c2_r2
  simp only []
  generalize hv : forLoop k_end (fun k => decide (k < k_end)) 1 _ block_k _ = v
  let Inv : Nat → Vec T × Vec T × Vec T × Vec T → Prop :=
    fun k r => block_k ≤ k ∧ k ≤ k_end ∧
      (∀ l, r.1 l = c.val ((i + 0) * N + j + l) +
        ∑ x ∈ Ico block_k k, a ((i + 0) * K + x) * b (x * N + j + l)) ∧
      (∀ l, r.2.1 l = c.val ((i + 0) * N + (j + vs) + l) +
        ∑ x ∈ Ico block_k k, a ((i + 0) * K + x) * b (x * N + (j + vs) + l)) ∧
      (∀ l, r.2.2.1 l = c.val ((i + 1) * N + j + l) +
        ∑ x ∈ Ico block_k k, a ((i + 1) * K + x) * b (x * N + j + l)) ∧
      (∀ l, r.2.2.2 l = c.val ((i + 1) * N + (j + vs) + l) +
        ∑ x ∈ Ico block_k k, a ((i + 1) * K + x) * b (x * N + (j + vs) + l))
  have hV : Inv v.1 v.2 ∧ decide (v.1 < k_end) = false := by
    rw [← hv]
    refine forLoop_spec Inv _ 1 _ k_end Nat.one_pos (fun k hk => by simpa using hk) ?_ k_end
      block_k _ (by omega) ?_
    · rintro k ⟨r11, r12, r21, r22⟩ ⟨hbk, hk, h1, h2, h3, h4⟩ hc
      have hc' : k < k_end := by simpa using hc
      try dsimp only at h1 h2 h3 h4
      refine ⟨by omega, hc', ?_, ?_, ?_, ?_⟩
      all_goals
        intro l
        simp only [fmadd_set_step, Finset.sum_Ico_succ_top hbk, h1, h2, h3, h4, add_assoc]
    · simp [Inv, Buffer.loadu, hk]
  obtain ⟨⟨hbk, hk', h1, h2, h3, h4⟩, hex⟩ := hV
  have hke : v.1 = k_end := by
    have : ¬ v.1 < k_end := by simpa using hex
    omega
  rw [hke] at h1 h2 h3 h4
  have u0 := Updated.upd_refl c (fun x => c.val x + mdot_blk a b N K block_k k_end x)
  have u1 := u0.upd_storeu_row N (i + 0) (j) vs ((i + 0) * N + j) v.2.1
    rfl (by omega)
    (fun l hl => by
      rw [h1 l]
      rw [mdot_blk_at a b N K block_k k_end (i + 0) (j + l) (by omega)]
      refine congrArg₂ HAdd.hAdd (congrArg c.val (by ring))
        (Finset.sum_congr rfl (fun k _ => by congr 2; ring)))
  have u2 := u1.upd_storeu_row N (i + 0) ((j + vs)) vs ((i + 0) * N + (j + vs)) v.2.2.1
    rfl (by omega)
    (fun l hl => by
      rw [h2 l]
      rw [mdot_blk_at a b N K block_k k_end (i + 0) ((j + vs) + l) (by omega)]
      refine congrArg₂ HAdd.hAdd (congrArg c.val (by ring))
        (Finset.sum_congr rfl (fun k _ => by congr 2; ring)))
  have u3 := u2.upd_storeu_row N (i + 1) (j) vs ((i + 1) * N + j) v.2.2.2.1
    rfl (by omega)
    (fun l hl => by
      rw [h3 l]
      rw [mdot_blk_at a b N K block_k k_end (i + 1) (j + l) (by omega)]
      refine congrArg₂ HAdd.hAdd (congrArg c.val (by ring))
        (Finset.sum_congr rfl (fun k _ => by congr 2; ring)))
  have u4 := u3.upd_storeu_row N (i + 1) ((j + vs)) vs ((i + 1) * N + (j + vs)) v.2.2.2.2
    rfl (by omega)
    (fun l hl => by
      rw [h4 l]
      rw [mdot_blk_at a b N K block_k k_end (i + 1) ((j + vs) + l) (by omega)]
      refine congrArg₂ HAdd.hAdd (congrArg c.val (by ring))
        (Finset.sum_congr rfl (fun k _ => by congr 2; ring)))
  exact u4.upd_congr _ _ (fun x => by simp only [false_or]; omega) (fun _ _ => rfl)

theorem gemm_large_c2_r1_upd {T : Type} [CommRing T] (vs : Nat) (a b : Nat → T)
    (N K block_k k_end j i : Nat) (hk : block_k ≤ k_end) (hj : j + vs * 2 ≤ N) (c : Buffer T) :
    Updated c (gemm_large_c2_r1 (Arith.exact T) vs a b N K block_k k_end j i c)
      (fun x => (i ≤ x / N ∧ x / N < i + 1) ∧ (j ≤ x % N ∧ x % N < j + vs * 2))
      (fun x => c.val x + mdot_blk a b N K block_k k_end x) := by
  unfold gemm_large_c2_r1
  simp only []
  generalize hv : forLoop k_end (fun k => decide (k < k_end)) 1 _ block_k _ = v
  let Inv : Nat → Vec T × Vec T → Prop :=
    fun k r => block_k ≤ k ∧ k ≤ k_end ∧
      (∀ l, r.1 l = c.val ((i + 0) * N + j + l) +
        ∑ x ∈ Ico block_k k, a ((i + 0) * K + x) * b (x * N + j + l)) ∧
      (∀ l, r.2 l = c.val ((i + 0) * N + (j + vs) + l) +
        ∑ x ∈ Ico block_k k, a ((i + 0) * K + x) * b (x * N + (j + vs) + l))
  have hV : Inv v.1 v.2 ∧ decide (v.1 < k_end) = false := by
    rw [← hv]
    refine forLoop_spec Inv _ 1 _ k_end Nat.one_pos (fun k hk => by simpa using hk) ?_ k_end
      block_k _ (by omega) ?_
    · rintro k ⟨r1, r2⟩ ⟨hbk, hk, h1, h2⟩ hc
      have hc' : k < k_end := by simpa using hc
      try dsimp only at h1 h2
      refine ⟨by omega, hc', ?_, ?_⟩
      all_goals
        intro l
        simp only [fmadd_set_step, Finset.sum_Ico_succ_top hbk, h1, h2, add_assoc]
    · simp [Inv, Buffer.loadu, hk]
  obtain ⟨⟨hbk, hk', h1, h2⟩, hex⟩ := hV
  have hke : v.1 = k_end := by
    have : ¬ v.1 < k_end := by simpa using hex
    omega
  rw [hke] at h1 h2
  have u0 := Updated.upd_refl c (fun x => c.val x + mdot_blk a b N K block_k k_end x)
  have u1 := u0.upd_storeu_row N (i + 0) (j) vs ((i + 0) * N + j) v.2.1
    rfl (by omega)
    (fun l hl => by
      rw [h1 l]
      rw [mdot_blk_at a b N K block_k k_end (i + 0) (j + l) (by omega)]
      refine congrArg₂ HAdd.hAdd (congrArg c.val (by ring))
        (Finset.sum_congr rfl (fun k _ => by congr 2; ring)))
  have u2 := u1.upd_storeu_row N (i + 0) ((j + vs)) vs ((i + 0) * N + (j + vs)) v.2.2
    rfl (by omega)
    (fun l hl => by
      rw [h2 l]
      rw [mdot_blk_at a b N K block_k k_end (i + 0) ((j + vs) + l) (by omega)]
      refine congrArg₂ HAdd.hAdd (congrArg c.val (by ring))
        (Finset.sum_congr rfl (fun k _ => by congr 2; ring)))
  exact u2.upd_congr _ _ (fun x => by simp only [false_or]; omega) (fun _ _ => rfl)

theorem gemm_large_c1_r1_upd {T : Type} [CommRing T] (vs : Nat) (a b : Nat → T)
    (N K block_k k_end j i : Nat) (hk : block_k ≤ k_end) (hj : j + vs ≤ N) (c : Buffer T) :
    Updated c (gemm_large_c1_r1 (Arith.exact T) vs a b N K block_k k_end j i c)
      (fun x => (i ≤ x / N ∧ x / N < i + 1) ∧ (j ≤ x % N ∧ x % N < j + vs))
      (fun x => c.val x + mdot_blk a b N K block_k k_end x) := by
  unfold gemm_large_c1_r1
  simp only []
  generalize hv : forLoop k_end (fun k => decide (k < k_end)) 1 _ block_k _ = v
  let Inv : Nat → Vec T → Prop :=
    fun k r => block_k ≤ k ∧ k ≤ k_end ∧
      (∀ l, r l = c.val ((i + 0) * N + j + l) +
        ∑ x ∈ Ico block_k k, a ((i + 0) * K + x) * b (x * N + j + l))
  have hV : Inv v.1 v.2 ∧ decide (v.1 < k_end) = false := by
    rw [← hv]
    refine forLoop_spec Inv _ 1 _ k_end Nat.one_pos (fun k hk => by simpa using hk) ?_ k_end
      block_k _ (by omega) ?_
    · rintro k r1 ⟨hbk, hk, h1⟩ hc
      have hc' : k < k_end := by simpa using hc
      try dsimp only at h1
      refine ⟨by omega, hc', ?_⟩
      all_goals
        intro l
        simp only [fmadd_set_step, Finset.sum_Ico_succ_top hbk, h1, add_assoc]
    · simp [Inv, Buffer.loadu, hk]
  obtain ⟨⟨hbk, hk', h1⟩, hex⟩ := hV
  have hke : v.1 = k_end := by
    have : ¬ v.1 < k_end := by simpa using hex
    omega
  rw [hke] at h1
  have u0 := Updated.upd_refl c (fun x => c.val x + mdot_blk a b N K block_k k_end x)
  have u1 := u0.upd_storeu_row N (i + 0) (j) vs ((i + 0) * N + j) v.2
    rfl (by omega)
    (fun l hl => by
      rw [h1 l]
      rw [mdot_blk_at a b N K block_k k_end (i + 0) (j + l) (by omega)]
      refine congrArg₂ HAdd.hAdd (congrArg c.val (by ring))
        (Finset.sum_congr rfl (fun k _ => by congr 2; ring)))
  exact u1.upd_congr _ _ (fun x => by simp only [false_or]; omega) (fun _ _ => rfl)

theorem gemm_large_s1_r1_upd {T : Type} [CommRing T] (a b : Nat → T)
    (N K block_k k_end j i : Nat) (hk : block_k ≤ k_end) (hj : j + 1 ≤ N) (c : Buffer T) :
    Updated c (gemm_large_s1_r1 (Arith.exact T) a b N K block_k k_end j i c)
      (fun x => (i ≤ x / N ∧ x / N < i + 1) ∧ (j ≤ x % N ∧ x % N < j + 1))
      (fun x => c.val x + mdot_blk a b N K block_k k_end x) := by
  unfold gemm_large_s1_r1
  simp only []
  generalize hv : forLoop k_end (fun k => decide (k < k_end)) 1 _ block_k _ = v
  have hV : (block_k ≤ v.1 ∧ v.1 ≤ k_end ∧
      v.2 = c.val (i * N + j) + ∑ x ∈ Ico block_k v.1, a (i * K + x) * b (x * N + j)) ∧
      decide (v.1 < k_end) = false := by
    rw [← hv]
    refine forLoop_spec (fun k (r : T) => block_k ≤ k ∧ k ≤ k_end ∧
        r = c.val (i * N + j) + ∑ x ∈ Ico block_k k, a (i * K + x) * b (x * N + j))
      _ 1 _ k_end Nat.one_pos (fun k hk => by simpa using hk) ?_ k_end block_k _ (by omega) ?_
    · rintro k r ⟨hbk, hk, h1⟩ hc
      have hc' : k < k_end := by simpa using hc
      refine ⟨by omega, hc', ?_⟩
      simp only [exact_add, exact_mul, Finset.sum_Ico_succ_top hbk, h1, add_assoc]
    · simp [hk]
  obtain ⟨⟨hbk, hk', h1⟩, hex⟩ := hV
  have hke : v.1 = k_end := by
    have : ¬ v.1 < k_end := by simpa using hex
    omega
  rw [hke] at h1
  have u1 := (Updated.upd_refl c (fun x => c.val x + mdot_blk a b N K block_k k_end x)).upd_write_row
    N i j (i * N + j) v.2 rfl (by omega)
    (by rw [h1, mdot_blk_at a b N K block_k k_end i j (by omega)])
  exact u1.upd_congr _ _ (fun x => by simp only [false_or]; omega) (fun _ _ => rfl)

theorem gemm_large_zero_upd {T : Type} [CommRing T] (N block_j j_end block_i i_end : Nat)
    (hj : j_end ≤ N) (c : Buffer T) :
    Updated c (gemm_large_zero (Arith.exact T) N block_j j_end block_i i_end c)
      (fun x => (block_i ≤ x / N ∧ x / N < i_end) ∧ (block_j ≤ x % N ∧ x % N < j_end))
      (fun _ => 0) := by
  unfold gemm_large_zero
  refine (sweep_fill_clip (fun x => x / N) (fun x => block_j ≤ x % N ∧ x % N < j_end) c
    (fun _ => (0 : T)) i_end 1 block_i _ Nat.one_pos (fun i c' hi => ?_)).updated
  refine (sweep_fill_clip (fun x => x % N) (fun x => x / N = i) c'
    (fun _ => (0 : T)) j_end 1 block_j _ Nat.one_pos (fun j c'' hjl => ?_)).fill_congr _ (fun x => ?_)
  · refine ((Filled.fill_refl c'' (fun _ => (0 : T))).fill_write_row N i j (i * N + j) _ rfl (by omega) rfl
      (fun x hx => hx.elim)).fill_congr _ (fun x => ?_)
    simp only [false_or]
    omega
  · beta_reduce
    generalize x / N = q
    generalize x % N = r
    omega

theorem Updated.empty {T : Type} (c : Buffer T) (P : Nat → Prop) (V : Nat → T)
    (h : ∀ x, ¬ P x) : Updated c c P V :=
  ⟨fun x hx => (h x hx).elim, fun _ _ => rfl⟩

theorem Updated.seq_acc {T : Type} [CommRing T] {c0 c c' : Buffer T} {P Q : Nat → Prop}
    {G : Nat → T} (h1 : Updated c0 c P (fun x => c0.val x + G x))
    (h2 : Updated c c' Q (fun x => c.val x + G x)) (hd : ∀ x, P x → ¬ Q x)
    (R : Nat → Prop) (hR : ∀ x, R x ↔ P x ∨ Q x) :
    Updated c0 c' R (fun x => c0.val x + G x) :=
  Updated.upd_seq h1 h2 R _ hR
    (fun x hq => by
      show c0.val x + G x = c.val x + G x
      rw [h1.2 x (fun hp => hd x hp hq)])
    (fun _ _ _ => rfl)

theorem gemm_large_cols4_upd {T : Type} [CommRing T] (vs : Nat) (a b : Nat → T)
    (N K block_k k_end block_i i_end j : Nat) (hk : block_k ≤ k_end) (hi : block_i ≤ i_end)
    (hj : j + vs * 4 ≤ N) (c : Buffer T) :
    Updated c (gemm_large_cols4 (Arith.exact T) vs a b N K block_k k_end block_i i_end j c)
      (fun x => (j ≤ x % N ∧ x % N < j + vs * 4) ∧ (block_i ≤ x / N ∧ x / N < i_end))
      (fun x => c.val x + mdot_blk a b N K block_k k_end x) := by
  unfold gemm_large_cols4
  try simp only []
  have s0 := sweep_acc (fun x => x / N) (fun x => j ≤ x % N ∧ x % N < j + vs * 4) c
    (mdot_blk a b N K block_k k_end) i_end 2 (gemm_large_c4_r2 (Arith.exact T) vs a b N K block_k k_end j)
    (fun i => decide (i + 1 < i_end))
    (by norm_num) (fun i hi => by have h := of_decide_eq_true hi; omega)
    (fun i c' _ => gemm_large_c4_r2_upd vs a b N K block_k k_end j i hk hj c') block_i block_i c
    (le_refl _) hi (Updated.empty c _ _ (fun x h => by omega))
  generalize forLoop i_end (fun i => decide (i + 1 < i_end)) 2 _ block_i c = t0 at s0 ⊢
  have hlo0 : block_i ≤ t0.1 := by have := s0.1.1; omega
  obtain ⟨⟨_, hle, hf⟩, hex⟩ := s0
  have hex' : ¬ t0.1 + 1 < i_end := of_decide_eq_false hex
  by_cases hlt : t0.1 < i_end
  · rw [if_pos hlt]
    exact Updated.seq_acc hf (gemm_large_c4_r1_upd vs a b N K block_k k_end j t0.1 hk hj t0.2)
      (fun x hp hq => by beta_reduce at hp hq; generalize x / N = q at hp hq
                         generalize x % N = r at hp hq; omega) _
      (fun x => by beta_reduce; generalize x / N = q; generalize x % N = r; omega)
  · rw [if_neg hlt]
    exact hf.upd_congr _ _ (fun x => by beta_reduce; generalize x / N = q; generalize x % N = r; omega)
      (fun _ _ => rfl)

theorem gemm_large_cols2_upd {T : Type} [CommRing T] (vs : Nat) (a b : Nat → T)
    (N K block_k k_end block_i i_end j : Nat) (hk : block_k ≤ k_end) (hi : block_i ≤ i_end)
    (hj : j + vs * 2 ≤ N) (c : Buffer T) :
    Updated c (gemm_large_cols2 (Arith.exact T) vs a b N K block_k k_end block_i i_end j c)
      (fun x => (j ≤ x % N ∧ x % N < j + vs * 2) ∧ (block_i ≤ x / N ∧ x / N < i_end))
      (fun x => c.val x + mdot_blk a b N K block_k k_end x) := by
  unfold gemm_large_cols2
  try simp only []
  have s0 := sweep_acc (fun x => x / N) (fun x => j ≤ x % N ∧ x % N < j + vs * 2) c
    (mdot_blk a b N K block_k k_end) i_end 4 (gemm_large_c2_r4 (Arith.exact T) vs a b N K block_k k_end j)
    (fun i => decide (i + 3 < i_end))
    (by norm_num) (fun i hi => by have h := of_decide_eq_true hi; omega)
    (fun i c' _ => gemm_large_c2_r4_upd vs a b N K block_k k_end j i hk hj c') block_i block_i c
    (le_refl _) hi (Updated.empty c _ _ (fun x h => by omega))
  generalize forLoop i_end (fun i => decide (i + 3 < i_end)) 4 _ block_i c = t0 at s0 ⊢
  have hlo0 : block_i ≤ t0.1 := by have := s0.1.1; omega
  have s1 := sweep_acc (fun x => x / N) (fun x => j ≤ x % N ∧ x % N < j + vs * 2) c
    (mdot_blk a b N K block_k k_end) i_end 2 (gemm_large_c2_r2 (Arith.exact T) vs a b N K block_k k_end j)
    (fun i => decide (i + 2 - 1 < i_end))
    (by norm_num) (fun i hi => by have h := of_decide_eq_true hi; omega)
    (fun i c' _ => gemm_large_c2_r2_upd vs a b N K block_k k_end j i hk hj c') block_i t0.1 t0.2
    hlo0 s0.1.2.1 s0.1.2.2
  generalize forLoop i_end (fun i => decide (i + 2 - 1 < i_end)) 2 _ t0.1 t0.2 = t1 at s1 ⊢
  have hlo1 : block_i ≤ t1.1 := by have := s1.1.1; omega
  obtain ⟨⟨_, hle, hf⟩, hex⟩ := s1
  have hex' : ¬ t1.1 + 2 - 1 < i_end := of_decide_eq_false hex
  by_cases hlt : t1.1 < i_end
  · rw [if_pos hlt]
    exact Updated.seq_acc hf (gemm_large_c2_r1_upd vs a b N K block_k k_end j t1.1 hk hj t1.2)
      (fun x hp hq => by beta_reduce at hp hq; generalize x / N = q at hp hq
                         generalize x % N = r at hp hq; omega) _
      (fun x => by beta_reduce; generalize x / N = q; generalize x % N = r; omega)
  · rw [if_neg hlt]
    exact hf.upd_congr _ _ (fun x => by beta_reduce; generalize x / N = q; generalize x % N = r; omega)
      (fun _ _ => rfl)

theorem gemm_large_cols1_upd {T : Type} [CommRing T] (vs : Nat) (a b : Nat → T)
    (N K block_k k_end block_i i_end j : Nat) (hk : block_k ≤ k_end) (hi : block_i ≤ i_end)
    (hj : j + vs ≤ N) (c : Buffer T) :
    Updated c (gemm_large_cols1 (Arith.exact T) vs a b N K block_k k_end block_i i_end j c)
      (fun x => (j ≤ x % N ∧ x % N < j + vs) ∧ (block_i ≤ x / N ∧ x / N < i_end))
      (fun x => c.val x + mdot_blk a b N K block_k k_end x) := by
  unfold gemm_large_cols1
  try simp only []
  have s0 := sweep_acc (fun x => x / N) (fun x => j ≤ x % N ∧ x % N < j + vs) c
    (mdot_blk a b N K block_k k_end) i_end 1 (gemm_large_c1_r1 (Arith.exact T) vs a b N K block_k k_end j)
    (fun i => decide (i < i_end))
    (by norm_num) (fun i hi => by have h := of_decide_eq_true hi; omega)
    (fun i c' _ => gemm_large_c1_r1_upd vs a b N K block_k k_end j i hk hj c') block_i block_i c
    (le_refl _) hi (Updated.empty c _ _ (fun x h => by omega))
  generalize forLoop i_end (fun i => decide (i < i_end)) 1 _ block_i c = t0 at s0 ⊢
  have hlo0 : block_i ≤ t0.1 := by have := s0.1.1; omega
  obtain ⟨⟨_, hle, hf⟩, hex⟩ := s0
  have hex' : ¬ t0.1 < i_end := of_decide_eq_false hex
  exact hf.upd_congr _ _ (fun x => by beta_reduce; generalize x / N = q; generalize x % N = r; omega)
    (fun _ _ => rfl)

theorem gemm_large_scalar1_upd {T : Type} [CommRing T] (a b : Nat → T)
    (N K block_k k_end block_i i_end j : Nat) (hk : block_k ≤ k_end) (hi : block_i ≤ i_end)
    (hj : j + 1 ≤ N) (c : Buffer T) :
    Updated c (gemm_large_scalar1 (Arith.exact T) a b N K block_k k_end block_i i_end j c)
      (fun x => (j ≤ x % N ∧ x % N < j + 1) ∧ (block_i ≤ x / N ∧ x / N < i_end))
      (fun x => c.val x + mdot_blk a b N K block_k k_end x) := by
  unfold gemm_large_scalar1
  try simp only []
  have s0 := sweep_acc (fun x => x / N) (fun x => j ≤ x % N ∧ x % N < j + 1) c
    (mdot_blk a b N K block_k k_end) i_end 1 (gemm_large_s1_r1 (Arith.exact T) a b N K block_k k_end j)
    (fun i => decide (i < i_end))
    (by norm_num) (fun i hi => by have h := of_decide_eq_true hi; omega)
    (fun i c' _ => gemm_large_s1_r1_upd a b N K block_k k_end j i hk hj c') block_i block_i c
    (le_refl _) hi (Updated.empty c _ _ (fun x h => by omega))
  generalize forLoop i_end (fun i => decide (i < i_end)) 1 _ block_i c = t0 at s0 ⊢
  have hlo0 : block_i ≤ t0.1 := by have := s0.1.1; omega
  obtain ⟨⟨_, hle, hf⟩, hex⟩ := s0
  have hex' : ¬ t0.1 < i_end := of_decide_eq_false hex
  exact hf.upd_congr _ _ (fun x => by beta_reduce; generalize x / N = q; generalize x % N = r; omega)
    (fun _ _ => rfl)

/-- What one pass of the `block_k` loop does to its tile: it adds the contribution of
the shared indices `block_k .. min (block_k + k_block_size) K`, to the tile only. -/
theorem gemm_large_block_upd {T : Type} [CommRing T] (vs : Nat) (hvs : 0 < vs)
    (a b : Nat → T) (N K kbs block_j j_end block_i i_end block_k : Nat) (hbk : block_k ≤ K)
    (hj1 : block_j ≤ j_end) (hj2 : j_end ≤ N) (hi : block_i ≤ i_end) (c : Buffer T) :
    Updated c (gemm_large_block (Arith.exact T) vs a b N K kbs block_j j_end block_i i_end
        block_k c)
      (fun x => (block_j ≤ x % N ∧ x % N < j_end) ∧ (block_i ≤ x / N ∧ x / N < i_end))
      (fun x => c.val x + mdot_blk a b N K block_k (min (block_k + kbs) K) x) := by
  unfold gemm_large_block
  simp only []
  have hk : block_k ≤ min (block_k + kbs) K := Nat.le_min.2 ⟨Nat.le_add_right _ _, hbk⟩
  generalize min (block_k + kbs) K = k_end at hk ⊢
  have s0 := sweep_acc (fun x => x % N) (fun x => block_i ≤ x / N ∧ x / N < i_end) c
    (mdot_blk a b N K block_k k_end) j_end (vs * 4)
    (gemm_large_cols4 (Arith.exact T) vs a b N K block_k k_end block_i i_end)
    (fun j => decide (j + vs * 4 - 1 < j_end))
    (by omega) (fun j hj => by have h := of_decide_eq_true hj; omega)
    (fun j c' hj => gemm_large_cols4_upd vs a b N K block_k k_end block_i i_end j hk hi
      (by have h := of_decide_eq_true hj; omega) c')
    block_j block_j c (le_refl _) hj1 (Updated.empty c _ _ (fun x h => by omega))
  generalize forLoop j_end (fun j => decide (j + vs * 4 - 1 < j_end)) (vs * 4) _ block_j c = t0 at s0 ⊢
  have hlo0 : block_j ≤ t0.1 := by have := s0.1.1; omega
  have s1 := sweep_acc (fun x => x % N) (fun x => block_i ≤ x / N ∧ x / N < i_end) c
    (mdot_blk a b N K block_k k_end) j_end (vs * 2)
    (gemm_large_cols2 (Arith.exact T) vs a b N K block_k k_end block_i i_end)
    (fun j => decide (j + vs * 2 - 1 < j_end))
    (by omega) (fun j hj => by have h := of_decide_eq_true hj; omega)
    (fun j c' hj => gemm_large_cols2_upd vs a b N K block_k k_end block_i i_end j hk hi
      (by have h := of_decide_eq_true hj; omega) c')
    block_j t0.1 t0.2 hlo0 s0.1.2.1 s0.1.2.2
  generalize forLoop j_end (fun j => decide (j + vs * 2 - 1 < j_end)) (vs * 2) _ t0.1 t0.2 = t1 at s1 ⊢
  have hlo1 : block_j ≤ t1.1 := by have := s1.1.1; omega
  have s2 := sweep_acc (fun x => x % N) (fun x => block_i ≤ x / N ∧ x / N < i_end) c
    (mdot_blk a b N K block_k k_end) j_end (vs)
    (gemm_large_cols1 (Arith.exact T) vs a b N K block_k k_end block_i i_end)
    (fun j => decide (j + vs - 1 < j_end))
    hvs (fun j hj => by have h := of_decide_eq_true hj; omega)
    (fun j c' hj => gemm_large_cols1_upd vs a b N K block_k k_end block_i i_end j hk hi
      (by have h := of_decide_eq_true hj; omega) c')
    block_j t1.1 t1.2 hlo1 s1.1.2.1 s1.1.2.2
  generalize forLoop j_end (fun j => decide (j + vs - 1 < j_end)) (vs) _ t1.1 t1.2 = t2 at s2 ⊢
  have hlo2 : block_j ≤ t2.1 := by have := s2.1.1; omega
  have s3 := sweep_acc (fun x => x % N) (fun x => block_i ≤ x / N ∧ x / N < i_end) c
    (mdot_blk a b N K block_k k_end) j_end (1)
    (gemm_large_scalar1 (Arith.exact T) a b N K block_k k_end block_i i_end)
    (fun j => decide (j < j_end))
    Nat.one_pos (fun j hj => by have h := of_decide_eq_true hj; omega)
    (fun j c' hj => gemm_large_scalar1_upd a b N K block_k k_end block_i i_end j hk hi
      (by have h := of_decide_eq_true hj; omega) c')
    block_j t2.1 t2.2 hlo2 s2.1.2.1 s2.1.2.2
  generalize forLoop j_end (fun j => decide (j < j_end)) (1) _ t2.1 t2.2 = t3 at s3 ⊢
  have hlo3 : block_j ≤ t3.1 := by have := s3.1.1; omega
  obtain ⟨⟨_, hle, hf⟩, hex⟩ := s3
  have hex' : ¬ t3.1 < j_end := of_decide_eq_false hex
  have he : t3.1 = j_end := by omega
  rw [he] at hf
  exact hf

theorem mdot_blk_zero {T : Type} [CommRing T] (a b : Nat → T) (N K x : Nat) :
    mdot_blk a b N K 0 K x = mdot a b N K x := by
  unfold mdot_blk mdot
  rw [Finset.range_eq_Ico]

/-- What the body of the `block_i` loop does to its tile: afterwards the tile holds the
exact products, whatever it held before, and nothing else has changed. -/
theorem gemm_large_tile_upd {T : Type} [CommRing T] (vs : Nat) (hvs : 0 < vs)
    (a b : Nat → T) (M N K mbs kbs block_j j_end block_i : Nat) (hkbs : 0 < kbs)
    (hj1 : block_j ≤ j_end) (hj2 : j_end ≤ N) (hbi : block_i ≤ M) (c : Buffer T) :
    Updated c (gemm_large_tile (Arith.exact T) vs a b M N K mbs kbs block_j j_end block_i c)
      (fun x => (block_i ≤ x / N ∧ x / N < min (block_i + mbs) M) ∧
        (block_j ≤ x % N ∧ x % N < j_end))
      (mdot a b N K) := by
  unfold gemm_large_tile
  simp only []
  have hi : block_i ≤ min (block_i + mbs) M := Nat.le_min.2 ⟨Nat.le_add_right _ _, hbi⟩
  generalize min (block_i + mbs) M = i_end at hi ⊢
  have hz := gemm_large_zero_upd (T := T) N block_j j_end block_i i_end hj2 c
  generalize gemm_large_zero (Arith.exact T) N block_j j_end block_i i_end c = c1 at hz ⊢
  have h := forLoop_spec
    (fun bk c' => Updated c c'
      (fun x => (block_i ≤ x / N ∧ x / N < i_end) ∧ (block_j ≤ x % N ∧ x % N < j_end))
      (fun x => mdot_blk a b N K 0 (min bk K) x))
    (fun bk => decide (bk < K)) kbs
    (gemm_large_block (Arith.exact T) vs a b N K kbs block_j j_end block_i i_end)
    K hkbs (fun bk hbk => of_decide_eq_true hbk) ?_ K 0 c1 (by omega)
    (hz.upd_congr _ _ (fun _ => Iff.rfl) (fun x _ => by simp [mdot_blk]))
  · obtain ⟨hf, hex⟩ := h
    have hex' : ¬ _ < K := of_decide_eq_false hex
    refine hf.upd_congr _ _ (fun _ => Iff.rfl) (fun x _ => ?_)
    rw [Nat.min_eq_right (by omega), mdot_blk_zero]
  · intro bk c' h3 hc
    have hc' : bk < K := of_decide_eq_true hc
    have h2 := (gemm_large_block_upd vs hvs a b N K kbs block_j j_end block_i i_end bk
      (by omega) hj1 hj2 hi c').upd_congr
      (fun x => (block_i ≤ x / N ∧ x / N < i_end) ∧ (block_j ≤ x % N ∧ x % N < j_end)) _
      (fun x => And.comm) (fun _ _ => rfl)
    refine Updated.upd_seq h3 h2 _ _ (fun x => (or_self_iff).symm) (fun x hq => ?_)
      (fun x hp hq => (hq hp).elim)
    show mdot_blk a b N K 0 (min (bk + kbs) K) x
      = c'.val x + mdot_blk a b N K bk (min (bk + kbs) K) x
    rw [h3.1 x hq]
    show mdot_blk a b N K 0 (min (bk + kbs) K) x
      = mdot_blk a b N K 0 (min bk K) x + mdot_blk a b N K bk (min (bk + kbs) K) x
    rw [Nat.min_eq_left (Nat.le_of_lt hc')]
    unfold mdot_blk
    rw [Finset.sum_Ico_consecutive _ (Nat.zero_le _)
      (Nat.le_min.2 ⟨Nat.le_add_right _ _, Nat.le_of_lt hc'⟩)]

/-- What `gemm_large_kernel` leaves: every element `(i, j)` with `i < M`, `j < N` holds
the exact sum, whatever `c` held before, and nothing else has changed. -/
theorem gemm_large_kernel_upd {T : Type} [CommRing T] (vs : Nat) (hvs : 0 < vs)
    (a b : Nat → T) (c : Buffer T) (M N K : Nat) :
    Updated c (gemm_large_kernel (Arith.exact T) vs a b c M N K)
      (fun x => x / N < M ∧ x % N < N) (mdot a b N K) := by
  unfold gemm_large_kernel
  simp only []
  refine (sweep_upd_clip (fun x => x % N) (fun x => x / N < M) c (mdot a b N K) N 128 _
    (by norm_num) (fun block_j c' hbj => ?_)).upd_congr _ _ (fun x => And.comm) (fun _ _ => rfl)
  refine (sweep_upd_clip (fun x => x / N)
    (fun x => block_j ≤ x % N ∧ x % N < min (block_j + 128) N) c' (mdot a b N K) M 64 _
    (by norm_num) (fun block_i c'' hbi => ?_)).upd_congr _ _ (fun x => And.comm) (fun _ _ => rfl)
  exact gemm_large_tile_upd vs hvs a b M N K 64 128 block_j (min (block_j + 128) N) block_i
    (by norm_num) (Nat.le_min.2 ⟨Nat.le_add_right _ _, Nat.le_of_lt hbj⟩)
    (Nat.min_le_right _ _) (Nat.le_of_lt hbi) c''

theorem add_storeu_val {T : Type} (A : Arith T) (c : Buffer T) (j vs : Nat) (r : Vec T)
    (x : Nat) :
    (Vec.add_storeu A c j vs r).val x =
      if j ≤ x ∧ x < j + vs then A.add (r (x - j)) (c.val x) else c.val x := by
  unfold Vec.add_storeu
  rw [storeu_val]
  by_cases h : j ≤ x ∧ x < j + vs
  · simp only [h, and_self, if_true, Vec.add, Buffer.loadu]
    rw [Nat.add_sub_cancel' h.1]
  · simp only [h, if_false]

theorem Below.below_add_storeu {T : Type} (A : Arith T) (j vs : Nat) (r : Vec T)
    (c : Buffer T) (x : Nat) (h : j + vs ≤ x) :
    (Vec.add_storeu A c j vs r).val x = c.val x := by
  rw [add_storeu_val, if_neg (by omega)]

theorem Below.below_forLoop {T : Type} (B : Nat) (cond : Nat → Bool) (step : Nat)
    (body : Nat → Buffer T → Buffer T) (hb : ∀ i, cond i = true → Below B (body i)) :
    ∀ (fuel i : Nat), Below B (fun c => (forLoop fuel cond step body i c).2) := by
  intro fuel
  induction fuel with
  | zero => intro i c x _; rfl
  | succ f ih =>
    intro i c x h
    cases hc : cond i with
    | false => simp [Etl.forLoop, hc]
    | true =>
      simp only [Etl.forLoop, hc, if_true]
      rw [ih (i + step) _ x h]
      exact hb i hc c x h

theorem forLoop_chain_below {T : Type} (B : Nat) (cond : Nat → Bool) (step : Nat)
    (body : Nat → Buffer T → Buffer T) (hb : ∀ i, cond i = true → Below B (body i))
    (fuel : Nat) (c0 : Buffer T) (s : Nat × Buffer T) (x : Nat) (hx : B ≤ x)
    (h : s.2.val x = c0.val x) :
    (forLoop fuel cond step body s.1 s.2).2.val x = c0.val x := by
  rw [Below.below_forLoop B cond step body hb fuel s.1 s.2 x hx, h]

theorem gevm_large_cols8_below {T : Type} (A : Arith T) (vs : Nat) (aa : Nat → T) (n : Nat)
    (bb : Nat → T) (block_k m_end j B : Nat) (h : j + vs * 8 ≤ B) :
    Below B (gevm_large_cols8 A vs aa n bb block_k m_end j) := by
  intro c x hx
  dsimp only [gevm_large_cols8]
  iterate 8 rw [Below.below_add_storeu _ _ _ _ _ _ (by omega)]

theorem gevm_large_cols4_below {T : Type} (A : Arith T) (vs : Nat) (aa : Nat → T) (n : Nat)
    (bb : Nat → T) (block_k m_end j B : Nat) (h : j + vs * 4 ≤ B) :
    Below B (gevm_large_cols4 A vs aa n bb block_k m_end j) := by
  intro c x hx
  dsimp only [gevm_large_cols4]
  iterate 4 rw [Below.below_add_storeu _ _ _ _ _ _ (by omega)]

theorem gevm_large_cols1_below {T : Type} (A : Arith T) (vs : Nat) (aa : Nat → T) (n : Nat)
    (bb : Nat → T) (block_k m_end j B : Nat) (h : j + vs ≤ B) :
    Below B (gevm_large_cols1 A vs aa n bb block_k m_end j) := by
  intro c x hx
  dsimp only [gevm_large_cols1]
  rw [Below.below_add_storeu _ _ _ _ _ _ (by omega)]

theorem gevm_large_col_below {T : Type} (A : Arith T) (aa : Nat → T) (n : Nat)
    (bb : Nat → T) (block_k m_end j B : Nat) (h : j < B) :
    Below B (gevm_large_col A aa n bb block_k m_end j) := by
  intro c x hx
  dsimp only [gevm_large_col]
  rw [add_assign_val_ne _ _ _ _ _ (by omega)]

/-- A column block of `gevm_large_kernel` stores nothing at or after its `n_end`. -/
theorem gevm_large_block_below {T : Type} (A : Arith T) (vs : Nat) (hvs : 0 < vs)
    (aa : Nat → T) (m n : Nat)
    (bb : Nat → T) (n_block m_block block_j block_k : Nat) :
    Below (min (block_j + n_block) n &&& neg_size_t vs)
      (gevm_large_block A vs aa m n bb n_block m_block block_j block_k) := by
  intro c x hx
  have e8 := forLoop_chain_below (min (block_j + n_block) n &&& neg_size_t vs)
    (fun j => decide (j + vs * 8 - 1 < min (block_j + n_block) n &&& neg_size_t vs)) (vs * 8)
    (gevm_large_cols8 A vs aa n bb block_k (min (block_k + m_block) m))
    (fun j hj => gevm_large_cols8_below A vs aa n bb block_k _ j _
      (by have h := of_decide_eq_true hj; omega))
    (min (block_j + n_block) n &&& neg_size_t vs) c (block_j, c) x hx rfl
  have e4 := forLoop_chain_below (min (block_j + n_block) n &&& neg_size_t vs)
    (fun j => decide (j + vs * 4 - 1 < min (block_j + n_block) n &&& neg_size_t vs)) (vs * 4)
    (gevm_large_cols4 A vs aa n bb block_k (min (block_k + m_block) m))
    (fun j hj => gevm_large_cols4_below A vs aa n bb block_k _ j _
      (by have h := of_decide_eq_true hj; omega))
    (min (block_j + n_block) n &&& neg_size_t vs) c (_, _) x hx e8
  have e1 := forLoop_chain_below (min (block_j + n_block) n &&& neg_size_t vs)
    (fun j => decide (j + vs - 1 < min (block_j + n_block) n &&& neg_size_t vs)) vs
    (gevm_large_cols1 A vs aa n bb block_k (min (block_k + m_block) m))
    (fun j hj => gevm_large_cols1_below A vs aa n bb block_k _ j _
      (by have h := of_decide_eq_true hj; omega))
    (min (block_j + n_block) n &&& neg_size_t vs) c (_, _) x hx e4
  have e0 := forLoop_chain_below (min (block_j + n_block) n &&& neg_size_t vs)
    (fun j => decide (j < min (block_j + n_block) n &&& neg_size_t vs)) 1
    (gevm_large_col A aa n bb block_k (min (block_k + m_block) m))
    (fun j hj => gevm_large_col_below A aa n bb block_k _ j _
      (by have h := of_decide_eq_true hj; omega))
    (min (block_j + n_block) n &&& neg_size_t vs) c (_, _) x hx e1
  exact e0

/-- The large GEVM kernel never stores to a column at or after
`n - n % vec_size`: every `n_end` is masked down to a multiple of `vec_size`. -/
theorem gevm_large_kernel_below {T : Type} (A : Arith T) (p : Nat) (hp : p < 64)
    (sizeof_T : Nat) (aa : Nat → T) (m n : Nat) (hn : n < 2 ^ 64) (bb : Nat → T) :
    Below (2 ^ p * (n / 2 ^ p)) (gevm_large_kernel A (2 ^ p) sizeof_T aa m n bb) := by
  have hpos : 0 < 2 ^ p := Nat.pos_pow_of_pos p (by norm_num)
  unfold gevm_large_kernel
  refine Below.below_forLoop _ _ _ _ (fun block_j _ => ?_) n 0
  refine Below.below_forLoop _ _ _ _ (fun block_k _ => ?_) m 0
  intro c x hx
  refine gevm_large_block_below A (2 ^ p) hpos aa m n bb _ _ block_j block_k c x ?_
  rw [land_neg_pow p _ hp (lt_of_le_of_lt (Nat.min_le_right _ _) hn)]
  exact le_trans (Nat.mul_le_mul_left _ (Nat.div_le_div_right (Nat.min_le_right _ _))) hx

/-- C5: for every `m`, `n`, every power-of-two `vec_size = 2^p` and all `aa`, `bb`,
`gevm_small_kernel` leaves `cc[j] = Σ_{k<m} aa[k] * bb[k*n+j]` in every column `j < n`,
the leftover columns of the scalar loop included (exact arithmetic). -/
theorem gevm_small_kernel_correct {T : Type} [CommRing T] (p m n : Nat) (aa bb : Nat → T)
    (cc : Buffer T) (j : Nat) (hj : j < n) :
    (gevm_small_kernel (Arith.exact T) (2 ^ p) aa m n bb cc).val j =
      ∑ k ∈ Finset.range m, aa k * bb (k * n + j) :=
  ((gevm_small_kernel_fill (2 ^ p) (Nat.pos_pow_of_pos p (by norm_num)) aa bb m n cc).1 j hj).1

/-- Witness of C5: column 6 of a 3 x 7 product with 4 lanes (a leftover column). -/
theorem gevm_small_kernel_correct_witness :
    (gevm_small_kernel (Arith.exact Int) (2 ^ 2) (fun x => (x : Int) + 1) 3 7
        (fun x => (x : Int)) ⟨fun _ => 9, fun _ => 0⟩).val 6 =
      ∑ k ∈ Finset.range 3, ((k : Int) + 1) * ((k * 7 + 6 : Nat) : Int) :=
  gevm_small_kernel_correct 2 3 7 _ _ _ 6 (by decide)

/-- C7: for every `M`, `N`, `K`, every power-of-two `vec_size = 2^p` and all `a`, `b`,
`gemm_small_kernel` leaves `c[i*N+j] = Σ_{k<K} a[i*K+k] * b[k*N+j]` for every `i < M`,
`j < N`, and that element receives exactly one store during the call: it is produced
by exactly one column group and row sub-group (exact arithmetic). -/
theorem gemm_small_kernel_correct {T : Type} [CommRing T] (p M N K : Nat) (a b : Nat → T)
    (c : Buffer T) (i j : Nat) (hi : i < M) (hj : j < N) :
    (gemm_small_kernel (Arith.exact T) (2 ^ p) a b c M N K).val (i * N + j) =
        ∑ k ∈ Finset.range K, a (i * K + k) * b (k * N + j) ∧
      (gemm_small_kernel (Arith.exact T) (2 ^ p) a b c M N K).stores (i * N + j) =
        c.stores (i * N + j) + 1 := by
  have h := (gemm_small_kernel_fill (2 ^ p) (Nat.pos_pow_of_pos p (by norm_num)) a b c M N K).1
    (i * N + j) (by show (i * N + j) / N < M ∧ (i * N + j) % N < N; rw [(row_div N i j hj).1, (row_div N i j hj).2]; exact ⟨hi, hj⟩)
  rw [mdot_at a b N K i j hj] at h
  exact h

/-- Witness of C7: element (2, 4) of a 3 x 5 x 2 product with 2 lanes (a scalar column). -/
theorem gemm_small_kernel_correct_witness :
    (gemm_small_kernel (Arith.exact Int) (2 ^ 1) (fun x => (x : Int)) (fun x => (x : Int) + 1)
        ⟨fun _ => 9, fun _ => 0⟩ 3 5 2).val (2 * 5 + 4) =
        ∑ k ∈ Finset.range 2, ((2 * 2 + k : Nat) : Int) * (((k * 5 + 4 : Nat) : Int) + 1) ∧
      (gemm_small_kernel (Arith.exact Int) (2 ^ 1) (fun x => (x : Int)) (fun x => (x : Int) + 1)
        ⟨fun _ => 9, fun _ => 0⟩ 3 5 2).stores (2 * 5 + 4) = 0 + 1 :=
  gemm_small_kernel_correct 1 3 5 2 _ _ _ 2 4 (by decide) (by decide)

/-- C8: for every `M`, `N`, `K` (multiples of the block sizes or not), every power-of-two
`vec_size = 2^p`, all `a`, `b` and every initial content of `c`, `gemm_large_kernel`
leaves `c[i*N+j] = Σ_{k<K} a[i*K+k] * b[k*N+j]` for every `i < M`, `j < N` (exact
arithmetic). -/
theorem gemm_large_kernel_correct {T : Type} [CommRing T] (p M N K : Nat) (a b : Nat → T)
    (c : Buffer T) (i j : Nat) (hi : i < M) (hj : j < N) :
    (gemm_large_kernel (Arith.exact T) (2 ^ p) a b c M N K).val (i * N + j) =
      ∑ k ∈ Finset.range K, a (i * K + k) * b (k * N + j) := by
  have h := (gemm_large_kernel_upd (2 ^ p) (Nat.pos_pow_of_pos p (by norm_num)) a b c M N K).1
    (i * N + j) (by show (i * N + j) / N < M ∧ (i * N + j) % N < N; rw [(row_div N i j hj).1, (row_div N i j hj).2]; exact ⟨hi, hj⟩)
  rw [mdot_at a b N K i j hj] at h
  exact h

/-- Witness of C8: element (1, 2) of a 2 x 3 x 2 product with 2 lanes, from a
destination that held 9 everywhere. -/
theorem gemm_large_kernel_correct_witness :
    (gemm_large_kernel (Arith.exact Int) (2 ^ 1) (fun x => (x : Int)) (fun x => (x : Int) + 1)
        ⟨fun _ => 9, fun _ => 0⟩ 2 3 2).val (1 * 3 + 2) =
      ∑ k ∈ Finset.range 2, ((1 * 2 + k : Nat) : Int) * (((k * 3 + 2 : Nat) : Int) + 1) :=
  gemm_large_kernel_correct 1 2 3 2 _ _ _ 1 2 (by decide) (by decide)

theorem gevm_memory {T : Type} (cfg : Config) (A : Arith T) (a b c : Dense T) :
    (gevm cfg A a b c).2.2.memory =
      if b.rows * b.columns < cfg.gevm_small_threshold then
        gevm_small_kernel A cfg.vec_size a.memory.val b.rows b.columns b.memory.val c.memory
      else
        gevm_large_kernel A cfg.vec_size cfg.sizeof_T a.memory.val b.rows b.columns
          b.memory.val (c.assign_zero A).memory := by
  unfold gevm
  simp only [Dense.size, Dense.ensure_cpu_up_to_date, Dense.memory_start]
  split <;> rfl

theorem gemm_memory {T : Type} (cfg : Config) (A : Arith T) (a b c : Dense T) :
    (gemm cfg A a b c).2.2.memory =
      if b.rows * b.columns ≤ cfg.gemm_small_threshold then
        gemm_small_kernel A cfg.vec_size a.memory.val b.memory.val c.memory
          a.rows b.columns a.columns
      else
        gemm_large_kernel A cfg.vec_size a.memory.val b.memory.val c.memory
          a.rows b.columns a.columns := by
  unfold gemm
  simp only [Dense.size, Dense.ensure_cpu_up_to_date, Dense.memory_start]
  split <;> rfl

theorem assign_zero_val {T : Type} (A : Arith T) (c : Dense T) (x : Nat) (h : x < c.size) :
    (c.assign_zero A).memory.val x = A.zero := by
  simp [Dense.assign_zero, Dense.with_memory, h]

/-- C6 (defect): for every threshold `thr`, every `sizeof(T)` and every lane count
`2^(q+1)` (2, 4, ..., `2^63`), the row-major `gevm` with `m = thr + 1` rows and
`n = vec_size + 1` columns of ones runs the large kernel and leaves 0 in the last
column `n - 1`, whose exact value `Σ_{k<m} a[k] * b[k,n-1]` is `thr + 1`; the kernel
itself leaves that column of a zeroed `cc` at 0. -/
theorem gevm_large_tail_mismatch (thr sz : Nat) (q : Fin 63) :
    (gevm_large_kernel (Arith.exact Int) (2 ^ (q.val + 1)) sz (fun _ => 1) (thr + 1)
        (2 ^ (q.val + 1) + 1) (fun _ => 1) ⟨fun _ => 0, fun _ => 0⟩).val (2 ^ (q.val + 1)) = 0 ∧
      (gevm ⟨2 ^ (q.val + 1), false, 0, thr, 0, sz⟩ (Arith.exact Int)
        ⟨thr + 1, 1, true, false, ⟨fun _ => 1, fun _ => 0⟩, true, false⟩
        ⟨thr + 1, 2 ^ (q.val + 1) + 1, true, false, ⟨fun _ => 1, fun _ => 0⟩, true, false⟩
        ⟨2 ^ (q.val + 1) + 1, 1, true, false, ⟨fun _ => 7, fun _ => 0⟩, true, false⟩).2.2.memory.val
        (2 ^ (q.val + 1)) = 0 ∧
      ∑ _k ∈ Finset.range (thr + 1), (1 : Int) * 1 = (thr : Int) + 1 := by
  have hq : q.val + 1 < 64 := by have := q.isLt; omega
  have hvs2 : 2 ≤ 2 ^ (q.val + 1) := by
    calc 2 = 2 ^ 1 := rfl
      _ ≤ 2 ^ (q.val + 1) := Nat.pow_le_pow_right (by norm_num) (by omega)
  have hvs64 : 2 ^ (q.val + 1) ≤ 2 ^ 63 := Nat.pow_le_pow_right (by norm_num) (by omega)
  have hN : 2 ^ (q.val + 1) + 1 < 2 ^ 64 := by
    have : (2 : Nat) ^ 63 + 1 < 2 ^ 64 := by norm_num
    omega
  have hB : 2 ^ (q.val + 1) * ((2 ^ (q.val + 1) + 1) / 2 ^ (q.val + 1)) ≤ 2 ^ (q.val + 1) := by
    have : (2 ^ (q.val + 1) + 1) / 2 ^ (q.val + 1) = 1 := by
      rw [Nat.add_div_left 1 (by omega : 0 < 2 ^ (q.val + 1))]
      have h1 : 1 / 2 ^ (q.val + 1) = 0 := Nat.div_eq_of_lt (by omega)
      rw [h1]
    rw [this, Nat.mul_one]
  refine ⟨?_, ?_, ?_⟩
  · rw [gevm_large_kernel_below (Arith.exact Int) (q.val + 1) hq sz _ _ _ hN _ _ _ hB]
  · rw [gevm_memory]
    have hsz : ¬ (thr + 1) * (2 ^ (q.val + 1) + 1) < thr := by
      have : thr + 1 ≤ (thr + 1) * (2 ^ (q.val + 1) + 1) := Nat.le_mul_of_pos_right _ (by omega)
      omega
    simp only [hsz, if_false]
    rw [gevm_large_kernel_below (Arith.exact Int) (q.val + 1) hq sz _ _ _ hN _ _ _ hB,
      assign_zero_val _ _ _ (by simp [Dense.size])]
    rfl
  · simp

theorem index_inj {T : Type} (c : Dense T) (i j i2 j2 : Nat) (hi : i < c.rows)
    (hj : j < c.columns) (hi2 : i2 < c.rows) (hj2 : j2 < c.columns) :
    c.index i2 j2 = c.index i j ↔ (i2 = i ∧ j2 = j) := by
  unfold Dense.index
  constructor
  · intro h
    by_cases hr : c.row_major = true
    · simp only [hr, if_true] at h
      have h1 := (eq_row_iff c.columns i j (i2 * c.columns + j2) hj).1 h
      rw [(row_div c.columns i2 j2 hj2).1, (row_div c.columns i2 j2 hj2).2] at h1
      exact h1
    · simp only [hr] at h
      have h1 := (eq_row_iff c.rows j i (j2 * c.rows + i2) hi).1 h
      rw [(row_div c.rows j2 i2 hi2).1, (row_div c.rows j2 i2 hi2).2] at h1
      exact ⟨h1.2, h1.1⟩
  · rintro ⟨rfl, rfl⟩
    rfl

theorem index_lt_size {T : Type} (c : Dense T) (i j : Nat) (hi : i < c.rows)
    (hj : j < c.columns) : c.index i j < c.size := by
  unfold Dense.index Dense.size
  split
  · calc i * c.columns + j < i * c.columns + c.columns := by omega
      _ = (i + 1) * c.columns := by ring
      _ ≤ c.rows * c.columns := Nat.mul_le_mul_right _ hi
  · calc j * c.rows + i < j * c.rows + c.rows := by omega
      _ = c.rows * (j + 1) := by ring
      _ ≤ c.rows * c.columns := Nat.mul_le_mul_left _ hj

theorem index_same {T : Type} (c c0 : Dense T) (hs : c.same_shape c0) (i j : Nat) :
    c.index i j = c0.index i j := by
  unfold Dense.index
  rw [hs.1, hs.2.1, hs.2.2]

/-- The `j` loop of the layout-agnostic `gemm`, for fixed `i` and `k`: every element
of row `i` receives its term, the other rows are unchanged. -/
theorem gemm_fallback_cols {T : Type} [CommRing T] (c0 c : Dense T) (i n : Nat)
    (v : Nat → T) (hs : c.same_shape c0) (hi : i < c0.rows) (hn : n = c0.columns) :
    ((forLoop n (fun j => decide (j < n)) 1
        (fun j (c : Dense T) =>
          c.with_memory (c.memory.add_assign (Arith.exact T) (c.index i j) (v j)))
        0 c).2).same_shape c0 ∧
      ∀ i2 j2, i2 < c0.rows → j2 < c0.columns →
        ((forLoop n (fun j => decide (j < n)) 1
          (fun j (c : Dense T) =>
            c.with_memory (c.memory.add_assign (Arith.exact T) (c.index i j) (v j)))
          0 c).2).memory.val (c0.index i2 j2) =
          if i2 = i then c.memory.val (c0.index i2 j2) + v j2
          else c.memory.val (c0.index i2 j2) := by
  generalize hv : forLoop n (fun j => decide (j < n)) 1
        (fun j (c : Dense T) =>
          c.with_memory (c.memory.add_assign (Arith.exact T) (c.index i j) (v j)))
        0 c = r
  let Inv : Nat → Dense T → Prop := fun j d =>
    j ≤ n ∧ d.same_shape c0 ∧
      ∀ i2 j2, i2 < c0.rows → j2 < c0.columns →
        d.memory.val (c0.index i2 j2) =
          if i2 = i ∧ j2 < j then c.memory.val (c0.index i2 j2) + v j2
          else c.memory.val (c0.index i2 j2)
  have hV : Inv r.1 r.2 ∧ decide (r.1 < n) = false := by
    rw [← hv]
    refine forLoop_spec Inv _ 1 _ n (by norm_num) (fun j hj => of_decide_eq_true hj) ?_
      n 0 c (by omega) ?_
    · intro j d hI hj
      have hj := of_decide_eq_true hj
      obtain ⟨_, hd, hval⟩ := hI
      refine ⟨by omega, hd, ?_⟩
      intro i2 j2 hi2 hj2
      show (d.memory.add_assign (Arith.exact T) (d.index i j) (v j)).val (c0.index i2 j2) = _
      rw [index_same d c0 hd]
      by_cases he : i2 = i ∧ j2 = j
      · obtain ⟨rfl, rfl⟩ := he
        rw [add_assign_val_eq, hval i2 j2 hi2 hj2, if_neg (by omega), if_pos ⟨rfl, by omega⟩]
        rfl
      · have hne : c0.index i2 j2 ≠ c0.index i j := by
          intro h
          exact he ((index_inj c0 i j i2 j2 hi (by omega) hi2 hj2).1 h)
        rw [add_assign_val_ne _ _ _ _ _ hne, hval i2 j2 hi2 hj2]
        by_cases h1 : i2 = i ∧ j2 < j
        · rw [if_pos h1, if_pos ⟨h1.1, by omega⟩]
        · rw [if_neg h1, if_neg]
          intro h2
          apply he
          refine ⟨h2.1, ?_⟩
          by_contra h3
          exact h1 ⟨h2.1, by omega⟩
    · refine ⟨by omega, hs, ?_⟩
      intro i2 j2 _ _
      rw [if_neg (by omega)]
  obtain ⟨⟨hle, hd, hval⟩, hc⟩ := hV
  have hend : r.1 = n := by
    have := of_decide_eq_false hc
    omega
  refine ⟨hd, ?_⟩
  intro i2 j2 hi2 hj2
  rw [hval i2 j2 hi2 hj2, hend]
  by_cases h1 : i2 = i
  · rw [if_pos ⟨h1, by omega⟩, if_pos h1]
  · rw [if_neg (fun h => h1 h.1), if_neg h1]

/-- The `k` loop of the layout-agnostic `gemm`, for a fixed row `i`: every element of
row `i` receives its whole dot product, the other rows are unchanged. -/
theorem gemm_fallback_row {T : Type} [CommRing T] (a b c0 c : Dense T) (i : Nat)
    (hs : c.same_shape c0) (hi : i < c0.rows) (hn : b.columns = c0.columns) :
    ((forLoop a.columns (fun k => decide (k < a.columns)) 1
        (fun k (c : Dense T) =>
          (forLoop b.columns (fun j => decide (j < b.columns)) 1
            (fun j (c : Dense T) =>
              c.with_memory (c.memory.add_assign (Arith.exact T) (c.index i j)
                ((Arith.exact T).mul (a.at2 i k) (b.at2 k j))))
            0 c).2)
        0 c).2).same_shape c0 ∧
      ∀ i2 j2, i2 < c0.rows → j2 < c0.columns →
        ((forLoop a.columns (fun k => decide (k < a.columns)) 1
          (fun k (c : Dense T) =>
            (forLoop b.columns (fun j => decide (j < b.columns)) 1
              (fun j (c : Dense T) =>
                c.with_memory (c.memory.add_assign (Arith.exact T) (c.index i j)
                  ((Arith.exact T).mul (a.at2 i k) (b.at2 k j))))
              0 c).2)
          0 c).2).memory.val (c0.index i2 j2) =
          if i2 = i then
            c.memory.val (c0.index i2 j2) + ∑ k ∈ Finset.range a.columns, a.at2 i k * b.at2 k j2
          else c.memory.val (c0.index i2 j2) := by
  generalize hv : forLoop a.columns (fun k => decide (k < a.columns)) 1
        (fun k (c : Dense T) =>
          (forLoop b.columns (fun j => decide (j < b.columns)) 1
            (fun j (c : Dense T) =>
              c.with_memory (c.memory.add_assign (Arith.exact T) (c.index i j)
                ((Arith.exact T).mul (a.at2 i k) (b.at2 k j))))
            0 c).2)
        0 c = r
  let Inv : Nat → Dense T → Prop := fun k d =>
    k ≤ a.columns ∧ d.same_shape c0 ∧
      ∀ i2 j2, i2 < c0.rows → j2 < c0.columns →
        d.memory.val (c0.index i2 j2) =
          if i2 = i then
            c.memory.val (c0.index i2 j2) + ∑ k2 ∈ Finset.range k, a.at2 i k2 * b.at2 k2 j2
          else c.memory.val (c0.index i2 j2)
  have hV : Inv r.1 r.2 ∧ decide (r.1 < a.columns) = false := by
    rw [← hv]
    refine forLoop_spec Inv _ 1 _ a.columns (by norm_num) (fun k hk => of_decide_eq_true hk) ?_
      a.columns 0 c (by omega) ?_
    · intro k d hI hk
      have hk := of_decide_eq_true hk
      obtain ⟨_, hd, hval⟩ := hI
      have hc := gemm_fallback_cols c0 d i b.columns
        (fun j => (Arith.exact T).mul (a.at2 i k) (b.at2 k j)) hd hi hn
      refine ⟨by omega, hc.1, ?_⟩
      intro i2 j2 hi2 hj2
      rw [hc.2 i2 j2 hi2 hj2, hval i2 j2 hi2 hj2]
      by_cases h1 : i2 = i
      · rw [if_pos h1, if_pos h1, if_pos h1, Finset.sum_range_succ]
        simp only [exact_mul, add_assoc]
      · rw [if_neg h1, if_neg h1, if_neg h1]
    · refine ⟨by omega, hs, ?_⟩
      intro i2 j2 _ _
      simp
  obtain ⟨⟨hle, hd, hval⟩, hc⟩ := hV
  have hend : r.1 = a.columns := by
    have := of_decide_eq_false hc
    omega
  refine ⟨hd, ?_⟩
  intro i2 j2 hi2 hj2
  rw [hval i2 j2 hi2 hj2, hend]

/-- The layout-agnostic `gemm` leaves the exact product in every logical element of
`c`, whatever the storage order of each operand. -/
theorem gemm_fallback_at2 {T : Type} [CommRing T] (a b c : Dense T)
    (hm : a.rows = c.rows) (hn : b.columns = c.columns) (i j : Nat) (hi : i < c.rows)
    (hj : j < c.columns) :
    (gemm_fallback (Arith.exact T) a b c).at2 i j =
      ∑ k ∈ Finset.range a.columns, a.at2 i k * b.at2 k j := by
  dsimp only [gemm_fallback]
  generalize hv : forLoop a.rows (fun i => decide (i < a.rows)) 1
    (fun i (c : Dense T) =>
      (forLoop a.columns (fun k => decide (k < a.columns)) 1
        (fun k (c : Dense T) =>
          (forLoop b.columns (fun j => decide (j < b.columns)) 1
            (fun j (c : Dense T) =>
              c.with_memory (c.memory.add_assign (Arith.exact T) (c.index i j)
                ((Arith.exact T).mul (a.at2 i k) (b.at2 k j))))
            0 c).2)
        0 c).2)
    0 (c.assign_zero (Arith.exact T)) = r
  let Inv : Nat → Dense T → Prop := fun i d =>
    i ≤ a.rows ∧ d.same_shape c ∧
      ∀ i2 j2, i2 < c.rows → j2 < c.columns →
        d.memory.val (c.index i2 j2) =
          if i2 < i then ∑ k ∈ Finset.range a.columns, a.at2 i2 k * b.at2 k j2 else 0
  have hV : Inv r.1 r.2 ∧ decide (r.1 < a.rows) = false := by
    rw [← hv]
    refine forLoop_spec Inv _ 1 _ a.rows (by norm_num) (fun k hk => of_decide_eq_true hk) ?_
      a.rows 0 _ (by omega) ?_
    · intro i d hI hi
      have hi := of_decide_eq_true hi
      obtain ⟨_, hd, hval⟩ := hI
      have hc := gemm_fallback_row a b c d i hd (by omega) hn
      refine ⟨by omega, hc.1, ?_⟩
      intro i2 j2 hi2 hj2
      rw [hc.2 i2 j2 hi2 hj2, hval i2 j2 hi2 hj2]
      by_cases h1 : i2 = i
      · subst h1
        rw [if_pos rfl, if_neg (by omega), if_pos (by omega), zero_add]
      · rw [if_neg h1]
        by_cases h2 : i2 < i
        · rw [if_pos h2, if_pos (by omega)]
        · rw [if_neg h2, if_neg (by omega)]
    · refine ⟨by omega, ⟨rfl, rfl, rfl⟩, ?_⟩
      intro i2 j2 hi2 hj2
      rw [if_neg (by omega)]
      exact assign_zero_val _ c _ (index_lt_size c i2 j2 hi2 hj2)
  obtain ⟨⟨hle, hd, hval⟩, hc⟩ := hV
  have hend : r.1 = a.rows := by
    have := of_decide_eq_false hc
    omega
  show r.2.memory.val (r.2.index i j) = _
  rw [index_same r.2 c hd, hval i j hi hj, hend, if_pos (by omega)]

theorem gemm_shape {T : Type} (cfg : Config) (A : Arith T) (a b c : Dense T) :
    ((gemm cfg A a b c).2.2).same_shape c := by
  unfold gemm
  dsimp only
  split <;> exact ⟨rfl, rfl, rfl⟩

/-- The row-major `gemm` leaves the exact product in every logical element of `c`,
whichever kernel the threshold selects. -/
theorem gemm_at2 {T : Type} [CommRing T] (cfg : Config) (hvs : 0 < cfg.vec_size)
    (a b c : Dense T) (hrm : all_row_major a b c = true) (hn : c.columns = b.columns)
    (i j : Nat) (hi : i < a.rows) (hj : j < b.columns) :
    (gemm cfg (Arith.exact T) a b c).2.2.at2 i j =
      ∑ k ∈ Finset.range a.columns, a.at2 i k * b.at2 k j := by
  unfold all_row_major at hrm
  have hc : c.row_major = true := (Bool.and_eq_true_iff.1 hrm).2
  have ha : a.row_major = true := (Bool.and_eq_true_iff.1 (Bool.and_eq_true_iff.1 hrm).1).1
  have hb : b.row_major = true := (Bool.and_eq_true_iff.1 (Bool.and_eq_true_iff.1 hrm).1).2
  have hx : (fun x => x / b.columns < a.rows ∧ x % b.columns < b.columns)
      (i * b.columns + j) := by
    show (i * b.columns + j) / b.columns < a.rows ∧
      (i * b.columns + j) % b.columns < b.columns
    rw [(row_div _ i j hj).1, (row_div _ i j hj).2]
    exact ⟨hi, hj⟩
  have hidx : (gemm cfg (Arith.exact T) a b c).2.2.index i j = i * b.columns + j := by
    rw [index_same _ c (gemm_shape cfg _ a b c)]
    simp only [Dense.index, hc, if_true, hn]
  have hsum : mdot a.memory.val b.memory.val b.columns a.columns (i * b.columns + j) =
      ∑ k ∈ Finset.range a.columns, a.at2 i k * b.at2 k j := by
    rw [mdot_at _ _ _ _ i j hj]
    simp only [Dense.at2, Dense.index, ha, hb, if_true]
  show (gemm cfg (Arith.exact T) a b c).2.2.memory.val
    ((gemm cfg (Arith.exact T) a b c).2.2.index i j) = _
  rw [hidx, gemm_memory, ← hsum]
  split
  · exact ((gemm_small_kernel_fill _ hvs _ _ _ _ _ _).1 _ hx).1
  · exact (gemm_large_kernel_upd _ hvs _ _ _ _ _ _).1 _ hx

/-- C10: with exact arithmetic, for every `M`, `N`, `K` and operands of any storage
order whose logical values equal those of the row-major `A` and `B`, the layout-agnostic
`gemm` (`c = 0`, then `c(i,j) += a(i,k) * b(k,j)` in `i`, `k`, `j` order) leaves in
every logical element `(i, j)` the value the row-major `gemm` leaves there, whether the
latter runs `gemm_small_kernel` or `gemm_large_kernel`. -/
theorem gemm_fallback_equiv {T : Type} [CommRing T] (cfg : Config) (hvs : 0 < cfg.vec_size)
    (M N K : Nat) (a b c a2 b2 c2 : Dense T) (hrm : all_row_major a b c = true)
    (hM : a.rows = M) (hK : a.columns = K) (hN : b.columns = N) (hcN : c.columns = N)
    (hM2 : a2.rows = M) (hK2 : a2.columns = K) (hN2 : b2.columns = N)
    (hcM2 : c2.rows = M) (hcN2 : c2.columns = N)
    (ha : ∀ i, i < M → ∀ k, k < K → a2.at2 i k = a.at2 i k)
    (hb : ∀ k, k < K → ∀ j, j < N → b2.at2 k j = b.at2 k j)
    (i j : Nat) (hi : i < M) (hj : j < N) :
    (gemm_fallback (Arith.exact T) a2 b2 c2).at2 i j =
      (gemm cfg (Arith.exact T) a b c).2.2.at2 i j := by
  rw [gemm_fallback_at2 a2 b2 c2 (by omega) (by omega) i j (by omega) (by omega),
    gemm_at2 cfg hvs a b c hrm (by omega) i j (by omega) (by omega), hK, hK2]
  apply Finset.sum_congr rfl
  intro k hk
  have hk := Finset.mem_range.1 hk
  rw [ha i hi k hk, hb k hk j hj]

/-- Witness of C10: a 2 x 2 x 2 product, `A` and `C` column-major in the fallback. -/
theorem gemm_fallback_equiv_witness :
    (gemm_fallback (Arith.exact Int)
        ⟨2, 2, false, false, ⟨fun x => ((x % 2) * 2 + x / 2 : Nat) + 1, fun _ => 0⟩, true, false⟩
        ⟨2, 2, true, false, ⟨fun x => (x : Int) + 5, fun _ => 0⟩, true, false⟩
        ⟨2, 2, false, false, ⟨fun _ => 9, fun _ => 0⟩, true, false⟩).at2 1 0 =
      (gemm ⟨2, false, 0, 0, 100, 4⟩ (Arith.exact Int)
        ⟨2, 2, true, false, ⟨fun x => (x : Int) + 1, fun _ => 0⟩, true, false⟩
        ⟨2, 2, true, false, ⟨fun x => (x : Int) + 5, fun _ => 0⟩, true, false⟩
        ⟨2, 2, true, false, ⟨fun _ => 3, fun _ => 0⟩, true, false⟩).2.2.at2 1 0 :=
  gemm_fallback_equiv ⟨2, false, 0, 0, 100, 4⟩ (by decide) 2 2 2
    ⟨2, 2, true, false, ⟨fun x => (x : Int) + 1, fun _ => 0⟩, true, false⟩
    ⟨2, 2, true, false, ⟨fun x => (x : Int) + 5, fun _ => 0⟩, true, false⟩
    ⟨2, 2, true, false, ⟨fun _ => 3, fun _ => 0⟩, true, false⟩
    ⟨2, 2, false, false, ⟨fun x => ((x % 2) * 2 + x / 2 : Nat) + 1, fun _ => 0⟩, true, false⟩
    ⟨2, 2, true, false, ⟨fun x => (x : Int) + 5, fun _ => 0⟩, true, false⟩
    ⟨2, 2, false, false, ⟨fun _ => 9, fun _ => 0⟩, true, false⟩
    rfl rfl rfl rfl rfl rfl rfl rfl rfl rfl (by decide) (by decide) 1 0 (by decide) (by decide)

theorem fold_left_zero {T : Type} (step : T → Nat → T) (z : T) : fold_left step z 0 = z := rfl

theorem fold_left_succ {T : Type} (step : T → Nat → T) (z : T) (n : Nat) :
    fold_left step z (n + 1) = step (fold_left step z n) n := by
  unfold fold_left
  rw [List.range_succ, List.foldl_append]
  rfl

theorem fold_left_exact {T : Type} [CommRing T] (f : Nat → T) (n : Nat) :
    fold_left (fun acc k => (Arith.exact T).add acc (f k)) (Arith.exact T).zero n =
      ∑ k ∈ Finset.range n, f k := by
  induction n with
  | zero => simp [fold_left_zero]
  | succ n ih => rw [fold_left_succ, ih, Finset.sum_range_succ, exact_add]

/-- The `k` loop of the layout-agnostic `gemv`, for a fixed row `i`: element `i`
takes `n` further accumulation steps, every other element is unchanged. -/
theorem gemv_fallback_row {T : Type} (A : Arith T) (c : Dense T) (i n : Nat) (v : Nat → T)
    (x : Nat) :
    ((forLoop n (fun k => decide (k < n)) 1
        (fun k (c : Dense T) => c.with_memory (c.memory.add_assign A i (v k))) 0 c).2).memory.val x =
      if x = i then (List.range n).foldl (fun acc k => A.add acc (v k)) (c.memory.val i)
      else c.memory.val x := by
  generalize hv : forLoop n (fun k => decide (k < n)) 1
        (fun k (c : Dense T) => c.with_memory (c.memory.add_assign A i (v k))) 0 c = r
  let Inv : Nat → Dense T → Prop := fun k d =>
    k ≤ n ∧ ∀ y, d.memory.val y =
      if y = i then fold_left (fun acc k => A.add acc (v k)) (c.memory.val i) k
      else c.memory.val y
  have hV : Inv r.1 r.2 ∧ decide (r.1 < n) = false := by
    rw [← hv]
    refine forLoop_spec Inv _ 1 _ n (by norm_num) (fun k hk => of_decide_eq_true hk) ?_
      n 0 c (by omega) ?_
    · intro k d hI hk
      have hk := of_decide_eq_true hk
      obtain ⟨_, hval⟩ := hI
      refine ⟨by omega, ?_⟩
      intro y
      show (d.memory.add_assign A i (v k)).val y = _
      by_cases hy : y = i
      · subst hy
        rw [add_assign_val_eq, hval y, if_pos rfl, if_pos rfl, fold_left_succ]
      · rw [add_assign_val_ne _ _ _ _ _ hy, hval y, if_neg hy, if_neg hy]
    · refine ⟨by omega, ?_⟩
      intro y
      by_cases hy : y = i
      · subst hy
        rw [if_pos rfl, fold_left_zero]
      · rw [if_neg hy]
  obtain ⟨⟨hle, hval⟩, hc⟩ := hV
  have hend : r.1 = n := by
    have := of_decide_eq_false hc
    omega
  rw [hval x, hend]
  rfl

/-- The layout-agnostic `gemv` leaves in `c(i)` the left-to-right fold of
`acc + a(i,k) * b(k)` from `T()`, for any interpretation of `+` and `*`. -/
theorem gemv_fallback_at1 {T : Type} (A : Arith T) (a b c : Dense T) (hc : a.rows ≤ c.size)
    (i : Nat) (hi : i < a.rows) :
    (gemv_fallback A a b c).at1 i =
      fold_left (fun acc k => A.add acc (A.mul (a.at2 i k) (b.at1 k))) A.zero a.columns := by
  dsimp only [gemv_fallback]
  generalize hv : forLoop a.rows (fun i => decide (i < a.rows)) 1
    (fun i (c : Dense T) =>
      (forLoop a.columns (fun k => decide (k < a.columns)) 1
        (fun k (c : Dense T) =>
          c.with_memory (c.memory.add_assign A i (A.mul (a.at2 i k) (b.at1 k))))
        0 c).2)
    0 (c.assign_zero A) = r
  let Inv : Nat → Dense T → Prop := fun i d =>
    i ≤ a.rows ∧ ∀ y, y < a.rows → d.memory.val y =
      if y < i then
        fold_left (fun acc k => A.add acc (A.mul (a.at2 y k) (b.at1 k))) A.zero a.columns
      else A.zero
  have hV : Inv r.1 r.2 ∧ decide (r.1 < a.rows) = false := by
    rw [← hv]
    refine forLoop_spec Inv _ 1 _ a.rows (by norm_num) (fun k hk => of_decide_eq_true hk) ?_
      a.rows 0 _ (by omega) ?_
    · intro i d hI hi
      have hi := of_decide_eq_true hi
      obtain ⟨_, hval⟩ := hI
      refine ⟨by omega, ?_⟩
      intro y hy
      rw [gemv_fallback_row A d i a.columns (fun k => A.mul (a.at2 i k) (b.at1 k)) y]
      by_cases h1 : y = i
      · subst h1
        rw [if_pos rfl, if_pos (by omega), hval y hy, if_neg (by omega)]
        rfl
      · rw [if_neg h1, hval y hy]
        by_cases h2 : y < i
        · rw [if_pos h2, if_pos (by omega)]
        · rw [if_neg h2, if_neg (by omega)]
    · refine ⟨by omega, ?_⟩
      intro y hy
      rw [if_neg (by omega)]
      exact assign_zero_val A c y (by omega)
  obtain ⟨⟨hle, hval⟩, hcnd⟩ := hV
  have hend : r.1 = a.rows := by
    have := of_decide_eq_false hcnd
    omega
  show r.2.memory.val i = _
  rw [hval i hi, hend, if_pos hi]

/-- The `j` loop of the layout-agnostic `gevm`, for a fixed `k`: every element
`j < n` takes one accumulation step, every other element is unchanged. -/
theorem gevm_fallback_cols {T : Type} (A : Arith T) (c : Dense T) (n : Nat) (v : Nat → T)
    (x : Nat) :
    ((forLoop n (fun j => decide (j < n)) 1
        (fun j (c : Dense T) => c.with_memory (c.memory.add_assign A j (v j))) 0 c).2).memory.val x =
      if x < n then A.add (c.memory.val x) (v x) else c.memory.val x := by
  generalize hv : forLoop n (fun j => decide (j < n)) 1
        (fun j (c : Dense T) => c.with_memory (c.memory.add_assign A j (v j))) 0 c = r
  let Inv : Nat → Dense T → Prop := fun j d =>
    j ≤ n ∧ ∀ y, d.memory.val y =
      if y < j then A.add (c.memory.val y) (v y) else c.memory.val y
  have hV : Inv r.1 r.2 ∧ decide (r.1 < n) = false := by
    rw [← hv]
    refine forLoop_spec Inv _ 1 _ n (by norm_num) (fun k hk => of_decide_eq_true hk) ?_
      n 0 c (by omega) ?_
    · intro j d hI hj
      have hj := of_decide_eq_true hj
      obtain ⟨_, hval⟩ := hI
      refine ⟨by omega, ?_⟩
      intro y
      show (d.memory.add_assign A j (v j)).val y = _
      by_cases hy : y = j
      · subst hy
        rw [add_assign_val_eq, hval y, if_neg (by omega), if_pos (by omega)]
      · rw [add_assign_val_ne _ _ _ _ _ hy, hval y]
        by_cases h2 : y < j
        · rw [if_pos h2, if_pos (by omega)]
        · rw [if_neg h2, if_neg (by omega)]
    · refine ⟨by omega, ?_⟩
      intro y
      rw [if_neg (by omega)]
  obtain ⟨⟨hle, hval⟩, hc⟩ := hV
  have hend : r.1 = n := by
    have := of_decide_eq_false hc
    omega
  rw [hval x, hend]

/-- The layout-agnostic `gevm` leaves in `c(j)` the left-to-right fold of
`acc + a(k) * b(k,j)` from `T()`, for any interpretation of `+` and `*`. -/
theorem gevm_fallback_at1 {T : Type} (A : Arith T) (a b c : Dense T) (hc : b.columns ≤ c.size)
    (j : Nat) (hj : j < b.columns) :
    (gevm_fallback A a b c).at1 j =
      fold_left (fun acc k => A.add acc (A.mul (a.at1 k) (b.at2 k j))) A.zero a.rows := by
  dsimp only [gevm_fallback]
  generalize hv : forLoop a.rows (fun k => decide (k < a.rows)) 1
    (fun k (c : Dense T) =>
      (forLoop b.columns (fun j => decide (j < b.columns)) 1
        (fun j (c : Dense T) =>
          c.with_memory (c.memory.add_assign A j (A.mul (a.at1 k) (b.at2 k j))))
        0 c).2)
    0 (c.assign_zero A) = r
  let Inv : Nat → Dense T → Prop := fun k d =>
    k ≤ a.rows ∧ ∀ y, y < b.columns → d.memory.val y =
      fold_left (fun acc k => A.add acc (A.mul (a.at1 k) (b.at2 k y))) A.zero k
  have hV : Inv r.1 r.2 ∧ decide (r.1 < a.rows) = false := by
    rw [← hv]
    refine forLoop_spec Inv _ 1 _ a.rows (by norm_num) (fun k hk => of_decide_eq_true hk) ?_
      a.rows 0 _ (by omega) ?_
    · intro k d hI hk
      have hk := of_decide_eq_true hk
      obtain ⟨_, hval⟩ := hI
      refine ⟨by omega, ?_⟩
      intro y hy
      rw [gevm_fallback_cols A d b.columns (fun j => A.mul (a.at1 k) (b.at2 k j)) y,
        if_pos hy, hval y hy, fold_left_succ]
    · refine ⟨by omega, ?_⟩
      intro y hy
      rw [fold_left_zero]
      exact assign_zero_val A c y (by omega)
  obtain ⟨⟨hle, hval⟩, hcnd⟩ := hV
  have hend : r.1 = a.rows := by
    have := of_decide_eq_false hcnd
    omega
  show r.2.memory.val j = _
  rw [hval j hj, hend]

/-- C11: for any interpretation `A` of `+` and `*` (no law assumed), the
layout-agnostic `gemv` leaves in every `c(i)`, `i < m`, the left-to-right fold over
`k = 0, ..., n-1` of `acc + a(i,k) * b(k)` from `T()`, whatever `c` held before; with
exact arithmetic that is `Σ_{k<n} a(i,k) * b(k)`.  The destination holds at least `m`
elements. -/
theorem gemv_fallback_natural_order {T R : Type} [CommRing R] (A : Arith T)
    (a b c : Dense T) (mem : Buffer T) (a2 b2 c2 : Dense R)
    (hc : a.rows ≤ c.size) (hc2 : a2.rows ≤ c2.size) :
    (∀ i, i < a.rows →
      (gemv_fallback A a b c).at1 i =
          fold_left (fun acc k => A.add acc (A.mul (a.at2 i k) (b.at1 k))) A.zero a.columns ∧
        (gemv_fallback A a b (c.with_memory mem)).at1 i = (gemv_fallback A a b c).at1 i) ∧
    (∀ i, i < a2.rows →
      (gemv_fallback (Arith.exact R) a2 b2 c2).at1 i =
        ∑ k ∈ Finset.range a2.columns, a2.at2 i k * b2.at1 k) := by
  refine ⟨fun i hi => ⟨gemv_fallback_at1 A a b c hc i hi, ?_⟩, fun i hi => ?_⟩
  · rw [gemv_fallback_at1 A a b c hc i hi]
    exact gemv_fallback_at1 A a b (c.with_memory mem) hc i hi
  · rw [gemv_fallback_at1 _ a2 b2 c2 hc2 i hi]
    exact fold_left_exact (fun k => a2.at2 i k * b2.at1 k) a2.columns

/-- Witness of C11: a column-major 2 x 2 matrix, saturating arithmetic with bound 100
for the fold and the integers for the exact sum. -/
theorem gemv_fallback_natural_order_witness :
    (gemv_fallback (Arith.sat 100)
        ⟨2, 2, false, false, ⟨fun x => (x : Int) + 60, fun _ => 0⟩, true, false⟩
        ⟨2, 1, true, false, ⟨fun x => (x : Int) + 1, fun _ => 0⟩, true, false⟩
        ⟨2, 1, true, false, ⟨fun _ => 9, fun _ => 0⟩, true, false⟩).at1 1 =
      fold_left (fun acc k => (Arith.sat 100).add acc ((Arith.sat 100).mul
        ((⟨2, 2, false, false, ⟨fun x => (x : Int) + 60, fun _ => 0⟩, true, false⟩ :
          Dense Int).at2 1 k)
        ((⟨2, 1, true, false, ⟨fun x => (x : Int) + 1, fun _ => 0⟩, true, false⟩ :
          Dense Int).at1 k))) (Arith.sat 100).zero 2 ∧
    (gemv_fallback (Arith.exact Int)
        ⟨2, 2, false, false, ⟨fun x => (x : Int) + 60, fun _ => 0⟩, true, false⟩
        ⟨2, 1, true, false, ⟨fun x => (x : Int) + 1, fun _ => 0⟩, true, false⟩
        ⟨2, 1, true, false, ⟨fun _ => 9, fun _ => 0⟩, true, false⟩).at1 1 =
      ∑ k ∈ Finset.range 2,
        (⟨2, 2, false, false, ⟨fun x => (x : Int) + 60, fun _ => 0⟩, true, false⟩ :
          Dense Int).at2 1 k *
        (⟨2, 1, true, false, ⟨fun x => (x : Int) + 1, fun _ => 0⟩, true, false⟩ :
          Dense Int).at1 k :=
  ⟨((gemv_fallback_natural_order (Arith.sat 100)
      ⟨2, 2, false, false, ⟨fun x => (x : Int) + 60, fun _ => 0⟩, true, false⟩
      ⟨2, 1, true, false, ⟨fun x => (x : Int) + 1, fun _ => 0⟩, true, false⟩
      ⟨2, 1, true, false, ⟨fun _ => 9, fun _ => 0⟩, true, false⟩
      ⟨fun _ => 3, fun _ => 0⟩
      ⟨2, 2, false, false, ⟨fun x => (x : Int) + 60, fun _ => 0⟩, true, false⟩
      ⟨2, 1, true, false, ⟨fun x => (x : Int) + 1, fun _ => 0⟩, true, false⟩
      ⟨2, 1, true, false, ⟨fun _ => 9, fun _ => 0⟩, true, false⟩
      (by decide) (by decide)).1 1 (by decide)).1,
   (gemv_fallback_natural_order (Arith.sat 100)
      ⟨2, 2, false, false, ⟨fun x => (x : Int) + 60, fun _ => 0⟩, true, false⟩
      ⟨2, 1, true, false, ⟨fun x => (x : Int) + 1, fun _ => 0⟩, true, false⟩
      ⟨2, 1, true, false, ⟨fun _ => 9, fun _ => 0⟩, true, false⟩
      ⟨fun _ => 3, fun _ => 0⟩
      ⟨2, 2, false, false, ⟨fun x => (x : Int) + 60, fun _ => 0⟩, true, false⟩
      ⟨2, 1, true, false, ⟨fun x => (x : Int) + 1, fun _ => 0⟩, true, false⟩
      ⟨2, 1, true, false, ⟨fun _ => 9, fun _ => 0⟩, true, false⟩
      (by decide) (by decide)).2 1 (by decide)⟩

/-- C12: with exact arithmetic, for every `m`, `n`, the layout-agnostic `gevm` on
operands of any storage order leaves `c(j) = Σ_{k<m} a(k) * b(k,j)` in every `j < n`,
which is the value `gevm_small_kernel` (any power-of-two `vec_size`) leaves in `cc[j]`
on the row-major flattening `bb[k*n+j] = b(k,j)`, `aa[k] = a(k)`.  The destination
holds at least `n` elements. -/
theorem gevm_fallback_equiv {T : Type} [CommRing T] (p m n : Nat) (a b c : Dense T)
    (aa bb : Nat → T) (cc : Buffer T) (hm : a.rows = m) (hn : b.columns = n)
    (hc : n ≤ c.size) (ha : ∀ k, k < m → aa k = a.at1 k)
    (hb : ∀ k, k < m → ∀ j, j < n → bb (k * n + j) = b.at2 k j) (j : Nat) (hj : j < n) :
    (gevm_fallback (Arith.exact T) a b c).at1 j = ∑ k ∈ Finset.range m, a.at1 k * b.at2 k j ∧
      (gevm_fallback (Arith.exact T) a b c).at1 j =
        (gevm_small_kernel (Arith.exact T) (2 ^ p) aa m n bb cc).val j := by
  have h1 : (gevm_fallback (Arith.exact T) a b c).at1 j =
      ∑ k ∈ Finset.range m, a.at1 k * b.at2 k j := by
    rw [gevm_fallback_at1 _ a b c (by omega) j (by omega), hm]
    exact fold_left_exact (fun k => a.at1 k * b.at2 k j) m
  refine ⟨h1, ?_⟩
  rw [h1, ((gevm_small_kernel_fill (2 ^ p) (Nat.pos_pow_of_pos p (by norm_num)) aa bb m n cc).1
    j hj).1]
  unfold cdot
  apply Finset.sum_congr rfl
  intro k hk
  have hk := Finset.mem_range.1 hk
  rw [ha k hk, hb k hk j hj]

/-- Witness of C12: a column-major 2 x 3 matrix `b`, 2 lanes. -/
theorem gevm_fallback_equiv_witness :
    (gevm_fallback (Arith.exact Int)
        ⟨2, 1, true, false, ⟨fun k => (k : Int) + 1, fun _ => 0⟩, true, false⟩
        ⟨2, 3, false, false, ⟨fun x => (x : Int) + 5, fun _ => 0⟩, true, false⟩
        ⟨3, 1, true, false, ⟨fun _ => 9, fun _ => 0⟩, true, false⟩).at1 2 =
      (gevm_small_kernel (Arith.exact Int) (2 ^ 1) (fun k => (k : Int) + 1) 2 3
        (fun x => ((x % 3 * 2 + x / 3 : Nat) : Int) + 5) ⟨fun _ => 4, fun _ => 0⟩).val 2 :=
  (gevm_fallback_equiv 1 2 3
    ⟨2, 1, true, false, ⟨fun k => (k : Int) + 1, fun _ => 0⟩, true, false⟩
    ⟨2, 3, false, false, ⟨fun x => (x : Int) + 5, fun _ => 0⟩, true, false⟩
    ⟨3, 1, true, false, ⟨fun _ => 9, fun _ => 0⟩, true, false⟩
    (fun k => (k : Int) + 1) (fun x => ((x % 3 * 2 + x / 3 : Nat) : Int) + 5)
    ⟨fun _ => 4, fun _ => 0⟩ rfl rfl (by decide) (fun _ _ => rfl) (by decide) 2 (by decide)).2

theorem gemv_runs_calls {T : Type} (cfg : Config) (A : Arith T) (a b c : Dense T) :
    (gemv cfg A a b c).2.2 =
      ((gemv_calls cfg a).foldl (fun d k => k.run cfg A a b d) c).invalidate_gpu := by
  unfold gemv gemv_calls
  dsimp only
  by_cases h : a.size < cfg.gemv_small_threshold
  · have h2 : a.ensure_cpu_up_to_date.size < cfg.gemv_small_threshold := h
    rw [if_pos h, if_pos h2]
    rfl
  · have h2 : ¬ a.ensure_cpu_up_to_date.size < cfg.gemv_small_threshold := h
    rw [if_neg h, if_neg h2]
    rfl

theorem gevm_runs_calls {T : Type} (cfg : Config) (A : Arith T) (a b c : Dense T) :
    (gevm cfg A a b c).2.2 =
      ((gevm_calls cfg b).foldl (fun d k => k.run cfg A a b d) c).invalidate_gpu := by
  unfold gevm gevm_calls
  dsimp only
  by_cases h : b.size < cfg.gevm_small_threshold
  · have h2 : b.ensure_cpu_up_to_date.size < cfg.gevm_small_threshold := h
    rw [if_pos h, if_pos h2]
    rfl
  · have h2 : ¬ b.ensure_cpu_up_to_date.size < cfg.gevm_small_threshold := h
    rw [if_neg h, if_neg h2]
    rfl

theorem gemm_runs_calls {T : Type} (cfg : Config) (A : Arith T) (a b c : Dense T) :
    (gemm cfg A a b c).2.2 =
      ((gemm_calls cfg b).foldl (fun d k => k.run cfg A a b d) c).invalidate_gpu := by
  unfold gemm gemm_calls
  dsimp only
  by_cases h : b.size ≤ cfg.gemm_small_threshold
  · have h2 : b.ensure_cpu_up_to_date.size ≤ cfg.gemm_small_threshold := h
    rw [if_pos h, if_pos h2]
    rfl
  · have h2 : ¬ b.ensure_cpu_up_to_date.size ≤ cfg.gemm_small_threshold := h
    rw [if_neg h, if_neg h2]
    rfl

/-- C13: the row-major `gemv` and `gevm` leave the destination that running their
call lists leaves; `gemv` calls `gemv_small_kernel` exactly when `size(a) = M*N` is
below `gemv_small_threshold` and `gemv_large_kernel` exactly when it is at or above;
`gevm` calls `gevm_small_kernel` exactly when `size(b) = M*N` is below
`gevm_small_threshold` and `c = 0` then `gevm_large_kernel` exactly when it is at or
above; each call list holds exactly one kernel. -/
theorem size_band_gemv_gevm {T : Type} (cfg : Config) (A : Arith T) (a b c : Dense T) :
    (gemv cfg A a b c).2.2 =
        ((gemv_calls cfg a).foldl (fun d k => k.run cfg A a b d) c).invalidate_gpu ∧
      (gevm cfg A a b c).2.2 =
        ((gevm_calls cfg b).foldl (fun d k => k.run cfg A a b d) c).invalidate_gpu ∧
      (gemv_calls cfg a = [Call.gemv_small] ↔
        a.rows * a.columns < cfg.gemv_small_threshold) ∧
      (gemv_calls cfg a = [Call.gemv_large] ↔
        cfg.gemv_small_threshold ≤ a.rows * a.columns) ∧
      (gevm_calls cfg b = [Call.gevm_small] ↔
        b.rows * b.columns < cfg.gevm_small_threshold) ∧
      (gevm_calls cfg b = [Call.assign_zero, Call.gevm_large] ↔
        cfg.gevm_small_threshold ≤ b.rows * b.columns) ∧
      (gemv_calls cfg a).countP Call.is_kernel = 1 ∧
      (gevm_calls cfg b).countP Call.is_kernel = 1 := by
  refine ⟨gemv_runs_calls cfg A a b c, gevm_runs_calls cfg A a b c, ?_, ?_, ?_, ?_, ?_, ?_⟩
  · unfold gemv_calls Dense.size
    by_cases h : a.rows * a.columns < cfg.gemv_small_threshold <;> simp [h]
  · unfold gemv_calls Dense.size
    by_cases h : a.rows * a.columns < cfg.gemv_small_threshold <;> simp [h]
    omega
  · unfold gevm_calls Dense.size
    by_cases h : b.rows * b.columns < cfg.gevm_small_threshold <;> simp [h]
  · unfold gevm_calls Dense.size
    by_cases h : b.rows * b.columns < cfg.gevm_small_threshold <;> simp [h]
    omega
  · unfold gemv_calls Dense.size
    by_cases h : a.rows * a.columns < cfg.gemv_small_threshold <;> simp [h, Call.is_kernel]
  · unfold gevm_calls Dense.size
    by_cases h : b.rows * b.columns < cfg.gevm_small_threshold <;> simp [h, Call.is_kernel]

/-- C14 (defect): for every threshold `thr`, the row-major `gemm` on a `1 x thr` by
`thr x 1` product, whose compared size `size(b)` is exactly `gemm_small_threshold`,
calls `gemm_small_kernel` and leaves what that kernel leaves (the test is `<=`),
whereas `gemv` and `gevm` at a compared size equal to their threshold call the large
kernel (their test is `<`). -/
theorem gemm_threshold_equal_runs_small (thr vs sz : Nat) (adv : Bool) :
    (⟨thr, 1, true, false, ⟨fun _ => 1, fun _ => 0⟩, true, false⟩ : Dense Int).size = thr ∧
      gemm_calls ⟨vs, adv, thr, thr, thr, sz⟩
        (⟨thr, 1, true, false, ⟨fun _ => 1, fun _ => 0⟩, true, false⟩ : Dense Int) =
          [Call.gemm_small] ∧
      (gemm ⟨vs, adv, thr, thr, thr, sz⟩ (Arith.exact Int)
          ⟨1, thr, true, false, ⟨fun _ => 1, fun _ => 0⟩, true, false⟩
          ⟨thr, 1, true, false, ⟨fun _ => 1, fun _ => 0⟩, true, false⟩
          ⟨1, 1, true, false, ⟨fun _ => 0, fun _ => 0⟩, true, false⟩).2.2.memory =
        gemm_small_kernel (Arith.exact Int) vs (fun _ => 1) (fun _ => 1)
          ⟨fun _ => 0, fun _ => 0⟩ 1 1 thr ∧
      gemv_calls ⟨vs, adv, thr, thr, thr, sz⟩
        (⟨thr, 1, true, false, ⟨fun _ => 1, fun _ => 0⟩, true, false⟩ : Dense Int) =
          [Call.gemv_large] ∧
      gevm_calls ⟨vs, adv, thr, thr, thr, sz⟩
        (⟨thr, 1, true, false, ⟨fun _ => 1, fun _ => 0⟩, true, false⟩ : Dense Int) =
          [Call.assign_zero, Call.gevm_large] := by
  refine ⟨by simp [Dense.size], by simp [gemm_calls, Dense.size], ?_,
    by simp [gemv_calls, Dense.size], by simp [gevm_calls, Dense.size]⟩
  rw [gemm_memory]
  simp [Dense.size]

/-- C15 (counterexample): with `gemm_small_threshold = 2`, `A` of 3 x 1 and `B` of
1 x 1, the larger operand has 3 > 2 elements, yet the row-major `gemm` calls
`gemm_small_kernel`: it compares `size(B) = 1`. -/
theorem gemm_ignores_larger_operand :
    2 < max (⟨3, 1, true, false, ⟨fun _ => 1, fun _ => 0⟩, true, false⟩ : Dense Int).size
        (⟨1, 1, true, false, ⟨fun _ => 1, fun _ => 0⟩, true, false⟩ : Dense Int).size ∧
      gemm_calls ⟨2, false, 0, 0, 2, 4⟩
        (⟨1, 1, true, false, ⟨fun _ => 1, fun _ => 0⟩, true, false⟩ : Dense Int) =
          [Call.gemm_small] ∧
      (gemm ⟨2, false, 0, 0, 2, 4⟩ (Arith.exact Int)
          ⟨3, 1, true, false, ⟨fun _ => 1, fun _ => 0⟩, true, false⟩
          ⟨1, 1, true, false, ⟨fun _ => 1, fun _ => 0⟩, true, false⟩
          ⟨3, 1, true, false, ⟨fun _ => 0, fun _ => 0⟩, true, false⟩).2.2.memory =
        gemm_small_kernel (Arith.exact Int) 2 (fun _ => 1) (fun _ => 1)
          ⟨fun _ => 0, fun _ => 0⟩ 3 1 1 := by
  refine ⟨by decide, by decide, ?_⟩
  rw [gemm_memory]
  rfl

/-- C15 (amended): for `M, N, K ≥ 1` and operands of the documented shapes, `gemv`
selects by `size(A) = M*N` and `gevm` by `size(B) = M*N`, each the element count of
the larger operand; `gemm` selects by `size(B) = K*N` alone (small below the
threshold, large above it), and `size(B)` is the element count of the larger operand
exactly when `M ≤ N`. -/
theorem compared_size {T : Type} (cfg : Config) (M N K : Nat) (hM : 1 ≤ M) (hN : 1 ≤ N)
    (hK : 1 ≤ K) (a1 b1 a2 b2 a3 b3 : Dense T)
    (h1 : a1.rows = M ∧ a1.columns = N ∧ b1.rows = N ∧ b1.columns = 1)
    (h2 : a2.rows = M ∧ a2.columns = 1 ∧ b2.rows = M ∧ b2.columns = N)
    (h3 : a3.rows = M ∧ a3.columns = K ∧ b3.rows = K ∧ b3.columns = N) :
    (max a1.size b1.size = M * N ∧
      (gemv_calls cfg a1 = [Call.gemv_small] ↔ max a1.size b1.size < cfg.gemv_small_threshold) ∧
      (gemv_calls cfg a1 = [Call.gemv_large] ↔
        cfg.gemv_small_threshold ≤ max a1.size b1.size)) ∧
    (max a2.size b2.size = M * N ∧
      (gevm_calls cfg b2 = [Call.gevm_small] ↔ max a2.size b2.size < cfg.gevm_small_threshold) ∧
      (gevm_calls cfg b2 = [Call.assign_zero, Call.gevm_large] ↔
        cfg.gevm_small_threshold ≤ max a2.size b2.size)) ∧
    (b3.size = K * N ∧
      (b3.size < cfg.gemm_small_threshold → gemm_calls cfg b3 = [Call.gemm_small]) ∧
      (cfg.gemm_small_threshold < b3.size → gemm_calls cfg b3 = [Call.gemm_large]) ∧
      (max a3.size b3.size = b3.size ↔ M ≤ N)) := by
  obtain ⟨h11, h12, h13, h14⟩ := h1
  obtain ⟨h21, h22, h23, h24⟩ := h2
  obtain ⟨h31, h32, h33, h34⟩ := h3
  have e1 : max a1.size b1.size = a1.size := by
    unfold Dense.size
    rw [h11, h12, h13, h14, Nat.mul_one]
    exact max_eq_left (Nat.le_mul_of_pos_left N (by omega))
  have e2 : max a2.size b2.size = b2.size := by
    unfold Dense.size
    rw [h21, h22, h23, h24, Nat.mul_one]
    exact max_eq_right (Nat.le_mul_of_pos_right M (by omega))
  refine ⟨⟨?_, ?_, ?_⟩, ⟨?_, ?_, ?_⟩, ?_, ?_, ?_, ?_⟩
  · rw [e1]
    unfold Dense.size
    rw [h11, h12]
  · rw [e1]
    unfold gemv_calls
    by_cases h : a1.size < cfg.gemv_small_threshold <;> simp [h]
  · rw [e1]
    unfold gemv_calls
    by_cases h : a1.size < cfg.gemv_small_threshold <;> simp [h]
    omega
  · rw [e2]
    unfold Dense.size
    rw [h23, h24]
  · rw [e2]
    unfold gevm_calls
    by_cases h : b2.size < cfg.gevm_small_threshold <;> simp [h]
  · rw [e2]
    unfold gevm_calls
    by_cases h : b2.size < cfg.gevm_small_threshold <;> simp [h]
    omega
  · unfold Dense.size
    rw [h33, h34]
  · intro h
    unfold gemm_calls
    rw [if_pos (by omega)]
  · intro h
    unfold gemm_calls
    rw [if_neg (by omega)]
  · unfold Dense.size
    rw [h31, h32, h33, h34, Nat.mul_comm M K]
    constructor
    · intro h
      have h5 : K * M ≤ K * N := by
        rw [← h]
        exact le_max_left _ _
      exact Nat.le_of_mul_le_mul_left h5 (by omega)
    · intro h
      exact max_eq_right (Nat.mul_le_mul_left K h)

/-- Witness of C15 (amended): `M = 2`, `N = 3`, `K = 4`, thresholds 10. -/
theorem compared_size_witness :
    (gemv_calls ⟨2, false, 10, 10, 10, 4⟩
        (⟨2, 3, true, false, ⟨fun _ => 1, fun _ => 0⟩, true, false⟩ : Dense Int) =
          [Call.gemv_small] ↔
      max (⟨2, 3, true, false, ⟨fun _ => 1, fun _ => 0⟩, true, false⟩ : Dense Int).size
        (⟨3, 1, true, false, ⟨fun _ => 1, fun _ => 0⟩, true, false⟩ : Dense Int).size < 10) ∧
    (max (⟨2, 4, true, false, ⟨fun _ => 1, fun _ => 0⟩, true, false⟩ : Dense Int).size
        (⟨4, 3, true, false, ⟨fun _ => 1, fun _ => 0⟩, true, false⟩ : Dense Int).size =
      (⟨4, 3, true, false, ⟨fun _ => 1, fun _ => 0⟩, true, false⟩ : Dense Int).size ↔ 2 ≤ 3) :=
  ⟨(compared_size ⟨2, false, 10, 10, 10, 4⟩ 2 3 4 (by decide) (by decide) (by decide)
    ⟨2, 3, true, false, ⟨fun _ => 1, fun _ => 0⟩, true, false⟩
    ⟨3, 1, true, false, ⟨fun _ => 1, fun _ => 0⟩, true, false⟩
    ⟨2, 1, true, false, ⟨fun _ => 1, fun _ => 0⟩, true, false⟩
    ⟨2, 3, true, false, ⟨fun _ => 1, fun _ => 0⟩, true, false⟩
    ⟨2, 4, true, false, ⟨fun _ => 1, fun _ => 0⟩, true, false⟩
    ⟨4, 3, true, false, ⟨fun _ => 1, fun _ => 0⟩, true, false⟩
    ⟨rfl, rfl, rfl, rfl⟩ ⟨rfl, rfl, rfl, rfl⟩ ⟨rfl, rfl, rfl, rfl⟩).1.2.1,
   (compared_size ⟨2, false, 10, 10, 10, 4⟩ 2 3 4 (by decide) (by decide) (by decide)
    ⟨2, 3, true, false, ⟨fun _ => 1, fun _ => 0⟩, true, false⟩
    ⟨3, 1, true, false, ⟨fun _ => 1, fun _ => 0⟩, true, false⟩
    ⟨2, 1, true, false, ⟨fun _ => 1, fun _ => 0⟩, true, false⟩
    ⟨2, 3, true, false, ⟨fun _ => 1, fun _ => 0⟩, true, false⟩
    ⟨2, 4, true, false, ⟨fun _ => 1, fun _ => 0⟩, true, false⟩
    ⟨4, 3, true, false, ⟨fun _ => 1, fun _ => 0⟩, true, false⟩
    ⟨rfl, rfl, rfl, rfl⟩ ⟨rfl, rfl, rfl, rfl⟩ ⟨rfl, rfl, rfl, rfl⟩).2.2.2.2.2⟩

/-- C18: for every `n < 2^64` and `vec_size = 2^p` (`p < 64`), `size_t(-vec_size)` is
`2^64 - vec_size` and `n & size_t(-vec_size)` is `vec_size * (n / vec_size)`, the
largest multiple of `vec_size` that is at most `n`; `last` is that value when the
remainder loop is enabled and `n` when `advanced_padding` and `Padded` are both true;
`n_end` of `gevm_large_kernel` is the same rounding of `min(block_j + n_block, n)`. -/
theorem vectorized_bound (p n : Nat) (hp : p < 64) (hn : n < 2 ^ 64)
    (adv padded : Bool) (block_j n_block : Nat) :
    neg_size_t (2 ^ p) = 2 ^ 64 - 2 ^ p ∧
      n &&& neg_size_t (2 ^ p) = 2 ^ p * (n / 2 ^ p) ∧
      2 ^ p * (n / 2 ^ p) ≤ n ∧
      (∀ q, 2 ^ p ∣ q → q ≤ n → q ≤ 2 ^ p * (n / 2 ^ p)) ∧
      gemv_last (2 ^ p) (!adv || !padded) n =
        (if adv = true ∧ padded = true then n else 2 ^ p * (n / 2 ^ p)) ∧
      min (block_j + n_block) n &&& neg_size_t (2 ^ p) =
        2 ^ p * (min (block_j + n_block) n / 2 ^ p) := by
  have hpos : 0 < 2 ^ p := Nat.pos_pow_of_pos p (by norm_num)
  refine ⟨neg_size_t_pow p hp, land_neg_pow p n hp hn, Nat.mul_div_le n (2 ^ p), ?_, ?_,
    land_neg_pow p _ hp (lt_of_le_of_lt (Nat.min_le_right _ _) hn)⟩
  · rintro q ⟨t, rfl⟩ hq
    exact Nat.mul_le_mul_left _ ((Nat.le_div_iff_mul_le hpos).2 (by rw [Nat.mul_comm]; exact hq))
  · cases adv <;> cases padded <;> simp [gemv_last, land_neg_pow p n hp hn]

/-- Witness of C18: `n = 13`, 4 lanes, remainder loop enabled. -/
theorem vectorized_bound_witness : gemv_last (2 ^ 2) (!false || !true) 13 =
    (if false = true ∧ true = true then 13 else 2 ^ 2 * (13 / 2 ^ 2)) :=
  (vectorized_bound 2 13 (by decide) (by decide) false true 0 0).2.2.2.2.1

/-- C20: for every `m`, `n < 2^64`, `vec_size = 2^p` and all `aa`, `bb`, when `n` is a
multiple of `vec_size` or the remainder loop is disabled, `gemv_large_kernel` and
`gemv_small_kernel` leave the same value in every row `i < m`: the sum of
`aa[i*n+k] * bb[k]` over the columns `k` of the vector chunks, each column once (a
unit vector `bb` at such a column against an all-ones `aa` gives 1); that sum is
`Σ_{k<n} aa[i*n+k] * bb[k]` when `vec_size` divides `n`, and when the pad elements of
`bb` are 0 (exact arithmetic). -/
theorem gemv_kernels_agree {T : Type} [CommRing T] (p : Nat) (hp : p < 64)
    (adv padded : Bool) (m n : Nat) (hn : n < 2 ^ 64)
    (h : 2 ^ p ∣ n ∨ (adv = true ∧ padded = true)) (aa bb : Nat → T) (cc cc2 : Buffer T)
    (i : Nat) (hi : i < m) :
    (gemv_large_kernel (Arith.exact T) (2 ^ p) adv padded aa m n bb cc).val i =
        (gemv_small_kernel (Arith.exact T) (2 ^ p) adv padded aa m n bb cc2).val i ∧
      (gemv_large_kernel (Arith.exact T) (2 ^ p) adv padded aa m n bb cc).val i =
        ∑ k ∈ Finset.range (round_up (2 ^ p) n), aa (i * n + k) * bb k ∧
      (∀ k0, k0 < round_up (2 ^ p) n →
        (gemv_large_kernel (Arith.exact Int) (2 ^ p) adv padded (fun _ => 1) m n
          (fun k => if k = k0 then 1 else 0) ⟨fun _ => 0, fun _ => 0⟩).val i = 1) ∧
      (2 ^ p ∣ n →
        (gemv_large_kernel (Arith.exact T) (2 ^ p) adv padded aa m n bb cc).val i =
          ∑ k ∈ Finset.range n, aa (i * n + k) * bb k) ∧
      ((∀ k, n ≤ k → k < round_up (2 ^ p) n → bb k = 0) →
        (gemv_large_kernel (Arith.exact T) (2 ^ p) adv padded aa m n bb cc).val i =
          ∑ k ∈ Finset.range n, aa (i * n + k) * bb k) := by
  have hpos : 0 < 2 ^ p := Nat.pos_pow_of_pos p (by norm_num)
  have hle : n ≤ round_up (2 ^ p) n := le_round_up _ _ hpos
  -- the closed form shared by the two kernels
  have key : ∀ (R : Type) [CommRing R] (a b : Nat → R) (c : Buffer R),
      (gemv_large_kernel (Arith.exact R) (2 ^ p) adv padded a m n b c).val i =
          ∑ k ∈ Finset.range (round_up (2 ^ p) n), a (i * n + k) * b k ∧
        (gemv_small_kernel (Arith.exact R) (2 ^ p) adv padded a m n b c).val i =
          ∑ k ∈ Finset.range (round_up (2 ^ p) n), a (i * n + k) * b k := by
    intro R _ a b c
    rw [gemv_large_kernel_val (2 ^ p) hpos, gemv_small_kernel_val (2 ^ p) hpos, if_pos hi,
      if_pos hi]
    unfold gemv_large_value gemv_small_value
    rcases h with hd | ⟨ha, hpd⟩
    · have hr : round_up (2 ^ p) n = n := round_up_of_dvd _ _ hpos hd
      cases hrem : (!adv || !padded)
      · simp [gemv_last]
      · have hl : gemv_last (2 ^ p) true n = n := by
          rw [gemv_last_eq p n hp hn]
          exact Nat.mul_div_cancel' hd
        simp [hl, hr]
    · subst ha
      subst hpd
      simp [gemv_last]
  have hsum : (∀ k, n ≤ k → k < round_up (2 ^ p) n → bb k = 0) →
      ∑ k ∈ Finset.range (round_up (2 ^ p) n), aa (i * n + k) * bb k =
        ∑ k ∈ Finset.range n, aa (i * n + k) * bb k := by
    intro hz
    rw [← Finset.sum_range_add_sum_Ico _ hle]
    have : ∑ k ∈ Finset.Ico n (round_up (2 ^ p) n), aa (i * n + k) * bb k = 0 := by
      apply Finset.sum_eq_zero
      intro k hk
      have hk := Finset.mem_Ico.1 hk
      rw [hz k hk.1 hk.2, mul_zero]
    rw [this, add_zero]
  refine ⟨?_, (key T aa bb cc).1, ?_, ?_, ?_⟩
  · rw [(key T aa bb cc).1, (key T aa bb cc2).2]
  · intro k0 hk0
    rw [(key Int _ _ _).1, Finset.sum_eq_single k0]
    · simp
    · intro k _ hne
      simp [hne]
    · intro hnot
      exact absurd (Finset.mem_range.2 hk0) hnot
  · intro hd
    rw [(key T aa bb cc).1, round_up_of_dvd _ _ hpos hd]
  · intro hz
    rw [(key T aa bb cc).1, hsum hz]

/-- Witness of C20: a 5 x 8 product with 4 lanes, remainder loop enabled. -/
theorem gemv_kernels_agree_witness :
    (gemv_large_kernel (Arith.exact Int) (2 ^ 2) false false (fun x => (x : Int)) 5 8
        (fun x => (x : Int) + 1) ⟨fun _ => 7, fun _ => 0⟩).val 3 =
      (gemv_small_kernel (Arith.exact Int) (2 ^ 2) false false (fun x => (x : Int)) 5 8
        (fun x => (x : Int) + 1) ⟨fun _ => 2, fun _ => 0⟩).val 3 :=
  (gemv_kernels_agree 2 (by decide) false false 5 8 (by decide) (Or.inl (by decide))
    (fun x => (x : Int)) (fun x => (x : Int) + 1) ⟨fun _ => 7, fun _ => 0⟩
    ⟨fun _ => 2, fun _ => 0⟩ 3 (by decide)).1

theorem fold_range_self {T : Type} (step : T → Nat → T) (z : T) (k0 : Nat) :
    fold_range step z k0 k0 = z := by
  simp [fold_range]

theorem fold_range_succ {T : Type} (step : T → Nat → T) (z : T) (k0 k : Nat) (h : k0 ≤ k) :
    fold_range step z k0 (k + 1) = step (fold_range step z k0 k) k := by
  unfold fold_range
  have e : k + 1 - k0 = (k - k0) + 1 := by omega
  rw [e, List.range'_concat, List.foldl_append]
  have e2 : k0 + 1 * (k - k0) = k := by omega
  rw [e2]
  rfl

theorem fold_left_eq_range {T : Type} (step : T → Nat → T) (z : T) (n : Nat) :
    fold_left step z n = fold_range step z 0 n := by
  unfold fold_left fold_range
  rw [List.range_eq_range', Nat.sub_zero]

theorem fold_range_append {T : Type} (step : T → Nat → T) (z : T) (k0 k1 : Nat) (h : k0 ≤ k1) :
    ∀ k2, k1 ≤ k2 →
      fold_range step (fold_range step z k0 k1) k1 k2 = fold_range step z k0 k2 := by
  intro k2 h2
  induction k2, h2 using Nat.le_induction with
  | base => rw [fold_range_self]
  | succ k hk ih =>
    rw [fold_range_succ step _ k1 k hk, ih, fold_range_succ step z k0 k (by omega)]

theorem fold_range_congr {T : Type} (s1 s2 : T → Nat → T) (z : T) (k0 k1 : Nat)
    (h : ∀ acc k, s1 acc k = s2 acc k) : fold_range s1 z k0 k1 = fold_range s2 z k0 k1 := by
  have : s1 = s2 := funext (fun acc => funext (fun k => h acc k))
  rw [this]

theorem fold_left_congr {T : Type} (s1 s2 : T → Nat → T) (z : T) (n : Nat)
    (h : ∀ acc k, s1 acc k = s2 acc k) : fold_left s1 z n = fold_left s2 z n := by
  have : s1 = s2 := funext (fun acc => funext (fun k => h acc k))
  rw [this]

theorem gemm_vec_step_at {T : Type} (A : Arith T) (a b : Nat → T) (N K i c : Nat) (h : c < N) :
    gemm_vec_step A a b N K (i * N + c) =
      fun acc k => A.fmadd (a (i * K + k)) (b (k * N + c)) acc := by
  unfold gemm_vec_step
  rw [(row_div N i c h).1, (row_div N i c h).2]

theorem gemm_scalar_step_at {T : Type} (A : Arith T) (a b : Nat → T) (N K i c : Nat)
    (h : c < N) :
    gemm_scalar_step A a b N K (i * N + c) =
      fun acc k => A.add acc (A.mul (a (i * K + k)) (b (k * N + c))) := by
  unfold gemm_scalar_step
  rw [(row_div N i c h).1, (row_div N i c h).2]

theorem Filled.fill_congr_val {T : Type} {c0 c : Buffer T} {P : Nat → Prop} {V : Nat → T}
    (h : Filled c0 c P V) (W : Nat → T) (hW : ∀ x, P x → V x = W x) : Filled c0 c P W :=
  ⟨fun x hx => ⟨by rw [← hW x hx]; exact (h.1 x hx).1, (h.1 x hx).2⟩, h.2⟩

theorem forLoop_fst_dvd {S : Type} (d : Nat) (cond : Nat → Bool) (step : Nat)
    (body : Nat → S → S) (hd : d ∣ step) :
    ∀ (fuel i : Nat) (s : S), d ∣ i → d ∣ (forLoop fuel cond step body i s).1 := by
  intro fuel
  induction fuel with
  | zero => intro i s hi; exact hi
  | succ f ih =>
    intro i s hi
    cases hc : cond i with
    | false => simpa [forLoop, hc] using hi
    | true =>
      simp only [forLoop, hc, if_true]
      exact ih _ _ (Dvd.dvd.add hi hd)

/-- The variant of `sweep_fill` whose body may use that its index is at least the
start index `j0` of the loop. -/
theorem sweep_fill_from {T : Type} (g : Nat → Nat) (C : Nat → Prop) (cc : Buffer T)
    (V : Nat → T)
    (n step : Nat) (body : Nat → Buffer T → Buffer T) (cond : Nat → Bool) (hstep : 0 < step)
    (hcond : ∀ j, cond j = true → j + step ≤ n)
    (lo j0 : Nat) (c0 : Buffer T) (hlo : lo ≤ j0) (h0 : j0 ≤ n)
    (hbody : ∀ j c, j0 ≤ j → cond j = true →
      Filled c (body j c) (fun x => (j ≤ g x ∧ g x < j + step) ∧ C x) V)
    (hf : Filled cc c0 (fun x => (lo ≤ g x ∧ g x < j0) ∧ C x) V) :
    (j0 ≤ (forLoop n cond step body j0 c0).1 ∧ (forLoop n cond step body j0 c0).1 ≤ n ∧
      Filled cc (forLoop n cond step body j0 c0).2
        (fun x => (lo ≤ g x ∧ g x < (forLoop n cond step body j0 c0).1) ∧ C x) V) ∧
      cond (forLoop n cond step body j0 c0).1 = false := by
  refine forLoop_spec (fun j c => j0 ≤ j ∧ j ≤ n ∧
      Filled cc c (fun x => (lo ≤ g x ∧ g x < j) ∧ C x) V) cond step body n hstep
    (fun j hj => by have := hcond j hj; omega) ?_ n j0 c0 (by omega) ⟨le_refl _, h0, hf⟩
  rintro j c ⟨h1, h2, h3⟩ hc
  refine ⟨by omega, hcond j hc, ?_⟩
  refine Filled.fill_seq h3 (hbody j c h1 hc) _ (fun x => ?_) (fun x hp hq => ?_)
  · constructor
    · rintro ⟨⟨ha, hb⟩, hC⟩
      by_cases hlt : g x < j
      · exact Or.inl ⟨⟨ha, hlt⟩, hC⟩
      · exact Or.inr ⟨⟨by omega, hb⟩, hC⟩
    · rintro (⟨⟨ha, hb⟩, hC⟩ | ⟨⟨ha, hb⟩, hC⟩)
      · exact ⟨⟨ha, by omega⟩, hC⟩
      · exact ⟨⟨by omega, hb⟩, hC⟩
  · have := hp.1.2
    have := hq.1.1
    omega

theorem gemm_vec_value_at {T : Type} (A : Arith T) (a b : Nat → T) (N K i c : Nat) (h : c < N) :
    gemm_vec_value A a b N K (i * N + c) =
      fold_left (fun acc k => A.fmadd (a (i * K + k)) (b (k * N + c)) acc) A.zero K := by
  unfold gemm_vec_value
  rw [gemm_vec_step_at A a b N K i c h]

theorem gemm_scalar_value_at {T : Type} (A : Arith T) (a b : Nat → T) (N K i c : Nat)
    (h : c < N) :
    gemm_scalar_value A a b N K (i * N + c) =
      fold_left (fun acc k => A.add acc (A.mul (a (i * K + k)) (b (k * N + c)))) A.zero K := by
  unfold gemm_scalar_value
  rw [gemm_scalar_step_at A a b N K i c h]

theorem gemm_value_vec {T : Type} (A : Arith T) (n0 : Nat) (a b : Nat → T) (N K x : Nat)
    (h : x % N < n0) : gemm_value A n0 a b N K x = gemm_vec_value A a b N K x := by
  unfold gemm_value gemm_vec_value gemm_step
  rw [if_pos h]

theorem gemm_value_scalar {T : Type} (A : Arith T) (n0 : Nat) (a b : Nat → T) (N K x : Nat)
    (h : ¬ x % N < n0) : gemm_value A n0 a b N K x = gemm_scalar_value A a b N K x := by
  unfold gemm_value gemm_scalar_value gemm_step
  rw [if_neg h]

theorem gemm_small_c8_r1_gfill {T : Type} (A : Arith T) (vs : Nat) (a b : Nat → T)
    (N K j i : Nat) (hj : j + vs * 8 ≤ N) (c : Buffer T) :
    Filled c (gemm_small_c8_r1 A vs a b N K j i c)
      (fun x => (i ≤ x / N ∧ x / N < i + 1) ∧ (j ≤ x % N ∧ x % N < j + vs * 8))
      (gemm_vec_value A a b N K) := by
  unfold gemm_small_c8_r1
  simp only []
  generalize hv : forLoop K (fun k => decide (k < K)) 1 _ 0 _ = v
  let Inv : Nat → Vec T × Vec T × Vec T × Vec T × Vec T × Vec T × Vec T × Vec T → Prop :=
    fun k r => k ≤ K ∧
      (∀ l, r.1 l = fold_left (fun acc x => A.fmadd (a (i * K + x)) (b (x * N + j + vs * 0 + l)) acc) A.zero k) ∧
      (∀ l, r.2.1 l = fold_left (fun acc x => A.fmadd (a (i * K + x)) (b (x * N + j + vs * 1 + l)) acc) A.zero k) ∧
      (∀ l, r.2.2.1 l = fold_left (fun acc x => A.fmadd (a (i * K + x)) (b (x * N + j + vs * 2 + l)) acc) A.zero k) ∧
      (∀ l, r.2.2.2.1 l = fold_left (fun acc x => A.fmadd (a (i * K + x)) (b (x * N + j + vs * 3 + l)) acc) A.zero k) ∧
      (∀ l, r.2.2.2.2.1 l = fold_left (fun acc x => A.fmadd (a (i * K + x)) (b (x * N + j + vs * 4 + l)) acc) A.zero k) ∧
      (∀ l, r.2.2.2.2.2.1 l = fold_left (fun acc x => A.fmadd (a (i * K + x)) (b (x * N + j + vs * 5 + l)) acc) A.zero k) ∧
      (∀ l, r.2.2.2.2.2.2.1 l = fold_left (fun acc x => A.fmadd (a (i * K + x)) (b (x * N + j + vs * 6 + l)) acc) A.zero k) ∧
      (∀ l, r.2.2.2.2.2.2.2 l = fold_left (fun acc x => A.fmadd (a (i * K + x)) (b (x * N + j + vs * 7 + l)) acc) A.zero k)
  have hV : Inv v.1 v.2 ∧ decide (v.1 < K) = false := by
    rw [← hv]
    refine forLoop_spec Inv _ 1 _ K Nat.one_pos (fun k hk => by simpa using hk) ?_ K 0 _
      (by omega) ?_
    · rintro k ⟨r1, r2, r3, r4, r5, r6, r7, r8⟩ ⟨hk, h1, h2, h3, h4, h5, h6, h7, h8⟩ hc
      have hc' : k < K := by simpa using hc
      try dsimp only at h1 h2 h3 h4 h5 h6 h7 h8
      refine ⟨hc', ?_, ?_, ?_, ?_, ?_, ?_, ?_, ?_⟩
      all_goals
        intro l
        simp only [Vec.fmadd, Vec.set, Vec.loadu, fold_left_succ, h1, h2, h3, h4, h5, h6, h7, h8]
    · simp [Inv, Vec.zero, fold_left_zero]
  obtain ⟨⟨hk, h1, h2, h3, h4, h5, h6, h7, h8⟩, hex⟩ := hV
  have hke : v.1 = K := by
    have : ¬ v.1 < K := by simpa using hex
    omega
  rw [hke] at h1 h2 h3 h4 h5 h6 h7 h8
  have u0 := Filled.fill_refl c (gemm_vec_value A a b N K)
  have u1 := u0.fill_storeu_row N i (j + 0 * vs) vs (i * N + j + 0 * vs) v.2.1
    (by ring) (by omega)
    (fun l hl => by
      rw [h1 l, gemm_vec_value_at A a b N K i (j + 0 * vs + l) (by omega)]
      exact fold_left_congr _ _ _ _ (fun acc k => by congr 2; ring))
    (fun x hx => hx.elim)
  have u2 := u1.fill_storeu_row N i (j + 1 * vs) vs (i * N + j + 1 * vs) v.2.2.1
    (by ring) (by omega)
    (fun l hl => by
      rw [h2 l, gemm_vec_value_at A a b N K i (j + 1 * vs + l) (by omega)]
      exact fold_left_congr _ _ _ _ (fun acc k => by congr 2; ring))
    (fun x hx => by simp only [false_or] at hx; omega)
  have u3 := u2.fill_storeu_row N i (j + 2 * vs) vs (i * N + j + 2 * vs) v.2.2.2.1
    (by ring) (by omega)
    (fun l hl => by
      rw [h3 l, gemm_vec_value_at A a b N K i (j + 2 * vs + l) (by omega)]
      exact fold_left_congr _ _ _ _ (fun acc k => by congr 2; ring))
    (fun x hx => by simp only [false_or] at hx; omega)
  have u4 := u3.fill_storeu_row N i (j + 3 * vs) vs (i * N + j + 3 * vs) v.2.2.2.2.1
    (by ring) (by omega)
    (fun l hl => by
      rw [h4 l, gemm_vec_value_at A a b N K i (j + 3 * vs + l) (by omega)]
      exact fold_left_congr _ _ _ _ (fun acc k => by congr 2; ring))
    (fun x hx => by simp only [false_or] at hx; omega)
  have u5 := u4.fill_storeu_row N i (j + 4 * vs) vs (i * N + j + 4 * vs) v.2.2.2.2.2.1
    (by ring) (by omega)
    (fun l hl => by
      rw [h5 l, gemm_vec_value_at A a b N K i (j + 4 * vs + l) (by omega)]
      exact fold_left_congr _ _ _ _ (fun acc k => by congr 2; ring))
    (fun x hx => by simp only [false_or] at hx; omega)
  have u6 := u5.fill_storeu_row N i (j + 5 * vs) vs (i * N + j + 5 * vs) v.2.2.2.2.2.2.1
    (by ring) (by omega)
    (fun l hl => by
      rw [h6 l, gemm_vec_value_at A a b N K i (j + 5 * vs + l) (by omega)]
      exact fold_left_congr _ _ _ _ (fun acc k => by congr 2; ring))
    (fun x hx => by simp only [false_or] at hx; omega)
  have u7 := u6.fill_storeu_row N i (j + 6 * vs) vs (i * N + j + 6 * vs) v.2.2.2.2.2.2.2.1
    (by ring) (by omega)
    (fun l hl => by
      rw [h7 l, gemm_vec_value_at A a b N K i (j + 6 * vs + l) (by omega)]
      exact fold_left_congr _ _ _ _ (fun acc k => by congr 2; ring))
    (fun x hx => by simp only [false_or] at hx; omega)
  have u8 := u7.fill_storeu_row N i (j + 7 * vs) vs (i * N + j + 7 * vs) v.2.2.2.2.2.2.2.2
    (by ring) (by omega)
    (fun l hl => by
      rw [h8 l, gemm_vec_value_at A a b N K i (j + 7 * vs + l) (by omega)]
      exact fold_left_congr _ _ _ _ (fun acc k => by congr 2; ring))
    (fun x hx => by simp only [false_or] at hx; omega)
  exact u8.fill_congr _ (fun x => by simp only [false_or]; omega)

theorem gemm_small_c4_r2_gfill {T : Type} (A : Arith T) (vs : Nat) (a b : Nat → T)
    (N K j i : Nat) (hj : j + 4 * vs ≤ N) (c : Buffer T) :
    Filled c (gemm_small_c4_r2 A vs a b N K j i c)
      (fun x => (i ≤ x / N ∧ x / N < i + 2) ∧ (j ≤ x % N ∧ x % N < j + 4 * vs))
      (gemm_vec_value A a b N K) := by
  unfold gemm_small_c4_r2
  simp only []
  generalize hv : forLoop K (fun k => decide (k < K)) 1 _ 0 _ = v
  let Inv : Nat → Vec T × Vec T × Vec T × Vec T × Vec T × Vec T × Vec T × Vec T → Prop :=
    fun k r => k ≤ K ∧
      (∀ l, r.1 l = fold_left (fun acc x => A.fmadd (a ((i + 0) * K + x)) (b (x * N + j + vs * 0 + l)) acc) A.zero k) ∧
      (∀ l, r.2.1 l = fold_left (fun acc x => A.fmadd (a ((i + 1) * K + x)) (b (x * N + j + vs * 0 + l)) acc) A.zero k) ∧
      (∀ l, r.2.2.1 l = fold_left (fun acc x => A.fmadd (a ((i + 0) * K + x)) (b (x * N + j + vs * 1 + l)) acc) A.zero k) ∧
      (∀ l, r.2.2.2.1 l = fold_left (fun acc x => A.fmadd (a ((i + 1) * K + x)) (b (x * N + j + vs * 1 + l)) acc) A.zero k) ∧
      (∀ l, r.2.2.2.2.1 l = fold_left (fun acc x => A.fmadd (a ((i + 0) * K + x)) (b (x * N + j + vs * 2 + l)) acc) A.zero k) ∧
      (∀ l, r.2.2.2.2.2.1 l = fold_left (fun acc x => A.fmadd (a ((i + 1) * K + x)) (b (x * N + j + vs * 2 + l)) acc) A.zero k) ∧
      (∀ l, r.2.2.2.2.2.2.1 l = fold_left (fun acc x => A.fmadd (a ((i + 0) * K + x)) (b (x * N + j + vs * 3 + l)) acc) A.zero k) ∧
      (∀ l, r.2.2.2.2.2.2.2 l = fold_left (fun acc x => A.fmadd (a ((i + 1) * K + x)) (b (x * N + j + vs * 3 + l)) acc) A.zero k)
  have hV : Inv v.1 v.2 ∧ decide (v.1 < K) = false := by
    rw [← hv]
    refine forLoop_spec Inv _ 1 _ K Nat.one_pos (fun k hk => by simpa using hk) ?_ K 0 _
      (by omega) ?_
    · rintro k ⟨r11, r12, r21, r22, r31, r32, r41, r42⟩ ⟨hk, h1, h2, h3, h4, h5, h6, h7, h8⟩ hc
      have hc' : k < K := by simpa using hc
      try dsimp only at h1 h2 h3 h4 h5 h6 h7 h8
      refine ⟨hc', ?_, ?_, ?_, ?_, ?_, ?_, ?_, ?_⟩
      all_goals
        intro l
        simp only [Vec.fmadd, Vec.set, Vec.loadu, fold_left_succ, h1, h2, h3, h4, h5, h6, h7, h8]
    · simp [Inv, Vec.zero, fold_left_zero]
  obtain ⟨⟨hk, h1, h2, h3, h4, h5, h6, h7, h8⟩, hex⟩ := hV
  have hke : v.1 = K := by
    have : ¬ v.1 < K := by simpa using hex
    omega
  rw [hke] at h1 h2 h3 h4 h5 h6 h7 h8
  have u0 := Filled.fill_refl c (gemm_vec_value A a b N K)
  have u1 := u0.fill_storeu_row N (i + 0) (j + 0 * vs) vs ((i + 0) * N + j + 0 * vs) v.2.1
    (by ring) (by omega)
    (fun l hl => by
      rw [h1 l, gemm_vec_value_at A a b N K (i + 0) (j + 0 * vs + l) (by omega)]
      exact fold_left_congr _ _ _ _ (fun acc k => by congr 2; ring))
    (fun x hx => hx.elim)
  have u2 := u1.fill_storeu_row N (i + 1) (j + 0 * vs) vs ((i + 1) * N + j + 0 * vs) v.2.2.1
    (by ring) (by omega)
    (fun l hl => by
      rw [h2 l, gemm_vec_value_at A a b N K (i + 1) (j + 0 * vs + l) (by omega)]
      exact fold_left_congr _ _ _ _ (fun acc k => by congr 2; ring))
    (fun x hx => by simp only [false_or] at hx; omega)
  have u3 := u2.fill_storeu_row N (i + 0) (j + 1 * vs) vs ((i + 0) * N + j + 1 * vs) v.2.2.2.1
    (by ring) (by omega)
    (fun l hl => by
      rw [h3 l, gemm_vec_value_at A a b N K (i + 0) (j + 1 * vs + l) (by omega)]
      exact fold_left_congr _ _ _ _ (fun acc k => by congr 2; ring))
    (fun x hx => by simp only [false_or] at hx; omega)
  have u4 := u3.fill_storeu_row N (i + 1) (j + 1 * vs) vs ((i + 1) * N + j + 1 * vs) v.2.2.2.2.1
    (by ring) (by omega)
    (fun l hl => by
      rw [h4 l, gemm_vec_value_at A a b N K (i + 1) (j + 1 * vs + l) (by omega)]
      exact fold_left_congr _ _ _ _ (fun acc k => by congr 2; ring))
    (fun x hx => by simp only [false_or] at hx; omega)
  have u5 := u4.fill_storeu_row N (i + 0) (j + 2 * vs) vs ((i + 0) * N + j + 2 * vs) v.2.2.2.2.2.1
    (by ring) (by omega)
    (fun l hl => by
      rw [h5 l, gemm_vec_value_at A a b N K (i + 0) (j + 2 * vs + l) (by omega)]
      exact fold_left_congr _ _ _ _ (fun acc k => by congr 2; ring))
    (fun x hx => by simp only [false_or] at hx; omega)
  have u6 := u5.fill_storeu_row N (i + 1) (j + 2 * vs) vs ((i + 1) * N + j + 2 * vs) v.2.2.2.2.2.2.1
    (by ring) (by omega)
    (fun l hl => by
      rw [h6 l, gemm_vec_value_at A a b N K (i + 1) (j + 2 * vs + l) (by omega)]
      exact fold_left_congr _ _ _ _ (fun acc k => by congr 2; ring))
    (fun x hx => by simp only [false_or] at hx; omega)
  have u7 := u6.fill_storeu_row N (i + 0) (j + 3 * vs) vs ((i + 0) * N + j + 3 * vs) v.2.2.2.2.2.2.2.1
    (by ring) (by omega)
    (fun l hl => by
      rw [h7 l, gemm_vec_value_at A a b N K (i + 0) (j + 3 * vs + l) (by omega)]
      exact fold_left_congr _ _ _ _ (fun acc k => by congr 2; ring))
    (fun x hx => by simp only [false_or] at hx; omega)
  have u8 := u7.fill_storeu_row N (i + 1) (j + 3 * vs) vs ((i + 1) * N + j + 3 * vs) v.2.2.2.2.2.2.2.2
    (by ring) (by omega)
    (fun l hl => by
      rw [h8 l, gemm_vec_value_at A a b N K (i + 1) (j + 3 * vs + l) (by omega)]
      exact fold_left_congr _ _ _ _ (fun acc k => by congr 2; ring))
    (fun x hx => by simp only [false_or] at hx; omega)
  exact u8.fill_congr _ (fun x => by simp only [false_or]; omega)

theorem gemm_small_c4_r1_gfill {T : Type} (A : Arith T) (vs : Nat) (a b : Nat → T)
    (N K j i : Nat) (hj : j + 4 * vs ≤ N) (c : Buffer T) :
    Filled c (gemm_small_c4_r1 A vs a b N K j i c)
      (fun x => (i ≤ x / N ∧ x / N < i + 1) ∧ (j ≤ x % N ∧ x % N < j + 4 * vs))
      (gemm_vec_value A a b N K) := by
  unfold gemm_small_c4_r1
  simp only []
  generalize hv : forLoop K (fun k => decide (k < K)) 1 _ 0 _ = v
  let Inv : Nat → Vec T × Vec T × Vec T × Vec T → Prop :=
    fun k r => k ≤ K ∧
      (∀ l, r.1 l = fold_left (fun acc x => A.fmadd (a ((i + 0) * K + x)) (b (x * N + j + vs * 0 + l)) acc) A.zero k) ∧
      (∀ l, r.2.1 l = fold_left (fun acc x => A.fmadd (a ((i + 0) * K + x)) (b (x * N + j + vs * 1 + l)) acc) A.zero k) ∧
      (∀ l, r.2.2.1 l = fold_left (fun acc x => A.fmadd (a ((i + 0) * K + x)) (b (x * N + j + vs * 2 + l)) acc) A.zero k) ∧
      (∀ l, r.2.2.2 l = fold_left (fun acc x => A.fmadd (a ((i + 0) * K + x)) (b (x * N + j + vs * 3 + l)) acc) A.zero k)
  have hV : Inv v.1 v.2 ∧ decide (v.1 < K) = false := by
    rw [← hv]
    refine forLoop_spec Inv _ 1 _ K Nat.one_pos (fun k hk => by simpa using hk) ?_ K 0 _
      (by omega) ?_
    · rintro k ⟨r11, r21, r31, r41⟩ ⟨hk, h1, h2, h3, h4⟩ hc
      have hc' : k < K := by simpa using hc
      try dsimp only at h1 h2 h3 h4
      refine ⟨hc', ?_, ?_, ?_, ?_⟩
      all_goals
        intro l
        simp only [Vec.fmadd, Vec.set, Vec.loadu, fold_left_succ, h1, h2, h3, h4]
    · simp [Inv, Vec.zero, fold_left_zero]
  obtain ⟨⟨hk, h1, h2, h3, h4⟩, hex⟩ := hV
  have hke : v.1 = K := by
    have : ¬ v.1 < K := by simpa using hex
    omega
  rw [hke] at h1 h2 h3 h4
  have u0 := Filled.fill_refl c (gemm_vec_value A a b N K)
  have u1 := u0.fill_storeu_row N i (j + 0 * vs) vs (i * N + j + 0 * vs) v.2.1
    (by ring) (by omega)
    (fun l hl => by
      rw [h1 l, gemm_vec_value_at A a b N K i (j + 0 * vs + l) (by omega)]
      exact fold_left_congr _ _ _ _ (fun acc k => by congr 2; ring))
    (fun x hx => hx.elim)
  have u2 := u1.fill_storeu_row N i (j + 1 * vs) vs (i * N + j + 1 * vs) v.2.2.1
    (by ring) (by omega)
    (fun l hl => by
      rw [h2 l, gemm_vec_value_at A a b N K i (j + 1 * vs + l) (by omega)]
      exact fold_left_congr _ _ _ _ (fun acc k => by congr 2; ring))
    (fun x hx => by simp only [false_or] at hx; omega)
  have u3 := u2.fill_storeu_row N i (j + 2 * vs) vs (i * N + j + 2 * vs) v.2.2.2.1
    (by ring) (by omega)
    (fun l hl => by
      rw [h3 l, gemm_vec_value_at A a b N K i (j + 2 * vs + l) (by omega)]
      exact fold_left_congr _ _ _ _ (fun acc k => by congr 2; ring))
    (fun x hx => by simp only [false_or] at hx; omega)
  have u4 := u3.fill_storeu_row N i (j + 3 * vs) vs (i * N + j + 3 * vs) v.2.2.2.2
    (by ring) (by omega)
    (fun l hl => by
      rw [h4 l, gemm_vec_value_at A a b N K i (j + 3 * vs + l) (by omega)]
      exact fold_left_congr _ _ _ _ (fun acc k => by congr 2; ring))
    (fun x hx => by simp only [false_or] at hx; omega)
  exact u4.fill_congr _ (fun x => by simp only [false_or]; omega)

theorem gemm_small_c2_r4_gfill {T : Type} (A : Arith T) (vs : Nat) (a b : Nat → T)
    (N K j i : Nat) (hj : j + 2 * vs ≤ N) (c : Buffer T) :
    Filled c (gemm_small_c2_r4 A vs a b N K j i c)
      (fun x => (i ≤ x / N ∧ x / N < i + 4) ∧ (j ≤ x % N ∧ x % N < j + 2 * vs))
      (gemm_vec_value A a b N K) := by
  unfold gemm_small_c2_r4
  simp only []
  generalize hv : forLoop K (fun k => decide (k < K)) 1 _ 0 _ = v
  let Inv : Nat → Vec T × Vec T × Vec T × Vec T × Vec T × Vec T × Vec T × Vec T → Prop :=
    fun k r => k ≤ K ∧
      (∀ l, r.1 l = fold_left (fun acc x => A.fmadd (a ((i + 0) * K + x)) (b (x * N + j + vs * 0 + l)) acc) A.zero k) ∧
      (∀ l, r.2.1 l = fold_left (fun acc x => A.fmadd (a ((i + 1) * K + x)) (b (x * N + j + vs * 0 + l)) acc) A.zero k) ∧
      (∀ l, r.2.2.1 l = fold_left (fun acc x => A.fmadd (a ((i + 2) * K + x)) (b (x * N + j + vs * 0 + l)) acc) A.zero k) ∧
      (∀ l, r.2.2.2.1 l = fold_left (fun acc x => A.fmadd (a ((i + 3) * K + x)) (b (x * N + j + vs * 0 + l)) acc) A.zero k) ∧
      (∀ l, r.2.2.2.2.1 l = fold_left (fun acc x => A.fmadd (a ((i + 0) * K + x)) (b (x * N + j + vs * 1 + l)) acc) A.zero k) ∧
      (∀ l, r.2.2.2.2.2.1 l = fold_left (fun acc x => A.fmadd (a ((i + 1) * K + x)) (b (x * N + j + vs * 1 + l)) acc) A.zero k) ∧
      (∀ l, r.2.2.2.2.2.2.1 l = fold_left (fun acc x => A.fmadd (a ((i + 2) * K + x)) (b (x * N + j + vs * 1 + l)) acc) A.zero k) ∧
      (∀ l, r.2.2.2.2.2.2.2 l = fold_left (fun acc x => A.fmadd (a ((i + 3) * K + x)) (b (x * N + j + vs * 1 + l)) acc) A.zero k)
  have hV : Inv v.1 v.2 ∧ decide (v.1 < K) = false := by
    rw [← hv]
    refine forLoop_spec Inv _ 1 _ K Nat.one_pos (fun k hk => by simpa using hk) ?_ K 0 _
      (by omega) ?_
    · rintro k ⟨r11, r12, r13, r14, r21, r22, r23, r24⟩ ⟨hk, h1, h2, h3, h4, h5, h6, h7, h8⟩ hc
      have hc' : k < K := by simpa using hc
      try dsimp only at h1 h2 h3 h4 h5 h6 h7 h8
      refine ⟨hc', ?_, ?_, ?_, ?_, ?_, ?_, ?_, ?_⟩
      all_goals
        intro l
        simp only [Vec.fmadd, Vec.set, Vec.loadu, fold_left_succ, h1, h2, h3, h4, h5, h6, h7, h8]
    · simp [Inv, Vec.zero, fold_left_zero]
  obtain ⟨⟨hk, h1, h2, h3, h4, h5, h6, h7, h8⟩, hex⟩ := hV
  have hke : v.1 = K := by
    have : ¬ v.1 < K := by simpa using hex
    omega
  rw [hke] at h1 h2 h3 h4 h5 h6 h7 h8
  have u0 := Filled.fill_refl c (gemm_vec_value A a b N K)
  have u1 := u0.fill_storeu_row N (i + 0) (j + 0 * vs) vs ((i + 0) * N + j + 0 * vs) v.2.1
    (by ring) (by omega)
    (fun l hl => by
      rw [h1 l, gemm_vec_value_at A a b N K (i + 0) (j + 0 * vs + l) (by omega)]
      exact fold_left_congr _ _ _ _ (fun acc k => by congr 2; ring))
    (fun x hx => hx.elim)
  have u2 := u1.fill_storeu_row N (i + 1) (j + 0 * vs) vs ((i + 1) * N + j + 0 * vs) v.2.2.1
    (by ring) (by omega)
    (fun l hl => by
      rw [h2 l, gemm_vec_value_at A a b N K (i + 1) (j + 0 * vs + l) (by omega)]
      exact fold_left_congr _ _ _ _ (fun acc k => by congr 2; ring))
    (fun x hx => by simp only [false_or] at hx; omega)
  have u3 := u2.fill_storeu_row N (i + 2) (j + 0 * vs) vs ((i + 2) * N + j + 0 * vs) v.2.2.2.1
    (by ring) (by omega)
    (fun l hl => by
      rw [h3 l, gemm_vec_value_at A a b N K (i + 2) (j + 0 * vs + l) (by omega)]
      exact fold_left_congr _ _ _ _ (fun acc k => by congr 2; ring))
    (fun x hx => by simp only [false_or] at hx; omega)
  have u4 := u3.fill_storeu_row N (i + 3) (j + 0 * vs) vs ((i + 3) * N + j + 0 * vs) v.2.2.2.2.1
    (by ring) (by omega)
    (fun l hl => by
      rw [h4 l, gemm_vec_value_at A a b N K (i + 3) (j + 0 * vs + l) (by omega)]
      exact fold_left_congr _ _ _ _ (fun acc k => by congr 2; ring))
    (fun x hx => by simp only [false_or] at hx; omega)
  have u5 := u4.fill_storeu_row N (i + 0) (j + 1 * vs) vs ((i + 0) * N + j + 1 * vs) v.2.2.2.2.2.1
    (by ring) (by omega)
    (fun l hl => by
      rw [h5 l, gemm_vec_value_at A a b N K (i + 0) (j + 1 * vs + l) (by omega)]
      exact fold_left_congr _ _ _ _ (fun acc k => by congr 2; ring))
    (fun x hx => by simp only [false_or] at hx; omega)
  have u6 := u5.fill_storeu_row N (i + 1) (j + 1 * vs) vs ((i + 1) * N + j + 1 * vs) v.2.2.2.2.2.2.1
    (by ring) (by omega)
    (fun l hl => by
      rw [h6 l, gemm_vec_value_at A a b N K (i + 1) (j + 1 * vs + l) (by omega)]
      exact fold_left_congr _ _ _ _ (fun acc k => by congr 2; ring))
    (fun x hx => by simp only [false_or] at hx; omega)
  have u7 := u6.fill_storeu_row N (i + 2) (j + 1 * vs) vs ((i + 2) * N + j + 1 * vs) v.2.2.2.2.2.2.2.1
    (by ring) (by omega)
    (fun l hl => by
      rw [h7 l, gemm_vec_value_at A a b N K (i + 2) (j + 1 * vs + l) (by omega)]
      exact fold_left_congr _ _ _ _ (fun acc k => by congr 2; ring))
    (fun x hx => by simp only [false_or] at hx; omega)
  have u8 := u7.fill_storeu_row N (i + 3) (j + 1 * vs) vs ((i + 3) * N + j + 1 * vs) v.2.2.2.2.2.2.2.2
    (by ring) (by omega)
    (fun l hl => by
      rw [h8 l, gemm_vec_value_at A a b N K (i + 3) (j + 1 * vs + l) (by omega)]
      exact fold_left_congr _ _ _ _ (fun acc k => by congr 2; ring))
    (fun x hx => by simp only [false_or] at hx; omega)
  exact u8.fill_congr _ (fun x => by simp only [false_or]; omega)

theorem gemm_small_c2_r2_gfill {T : Type} (A : Arith T) (vs : Nat) (a b : Nat → T)
    (N K j i : Nat) (hj : j + 2 * vs ≤ N) (c : Buffer T) :
    Filled c (gemm_small_c2_r2 A vs a b N K j i c)
      (fun x => (i ≤ x / N ∧ x / N < i + 2) ∧ (j ≤ x % N ∧ x % N < j + 2 * vs))
      (gemm_vec_value A a b N K) := by
  unfold gemm_small_c2_r2
  simp only []
  generalize hv : forLoop K (fun k => decide (k < K)) 1 _ 0 _ = v
  let Inv : Nat → Vec T × Vec T × Vec T × Vec T → Prop :=
    fun k r => k ≤ K ∧
      (∀ l, r.1 l = fold_left (fun acc x => A.fmadd (a ((i + 0) * K + x)) (b (x * N + j + vs * 0 + l)) acc) A.zero k) ∧
      (∀ l, r.2.1 l = fold_left (fun acc x => A.fmadd (a ((i + 1) * K + x)) (b (x * N + j + vs * 0 + l)) acc) A.zero k) ∧
      (∀ l, r.2.2.1 l = fold_left (fun acc x => A.fmadd (a ((i + 0) * K + x)) (b (x * N + j + vs * 1 + l)) acc) A.zero k) ∧
      (∀ l, r.2.2.2 l = fold_left (fun acc x => A.fmadd (a ((i + 1) * K + x)) (b (x * N + j + vs * 1 + l)) acc) A.zero k)
  have hV : Inv v.1 v.2 ∧ decide (v.1 < K) = false := by
    rw [← hv]
    refine forLoop_spec Inv _ 1 _ K Nat.one_pos (fun k hk => by simpa using hk) ?_ K 0 _
      (by omega) ?_
    · rintro k ⟨r11, r12, r21, r22⟩ ⟨hk, h1, h2, h3, h4⟩ hc
      have hc' : k < K := by simpa using hc
      try dsimp only at h1 h2 h3 h4
      refine ⟨hc', ?_, ?_, ?_, ?_⟩
      all_goals
        intro l
        simp only [Vec.fmadd, Vec.set, Vec.loadu, fold_left_succ, h1, h2, h3, h4]
    · simp [Inv, Vec.zero, fold_left_zero]
  obtain ⟨⟨hk, h1, h2, h3, h4⟩, hex⟩ := hV
  have hke : v.1 = K := by
    have : ¬ v.1 < K := by simpa using hex
    omega
  rw [hke] at h1 h2 h3 h4
  have u0 := Filled.fill_refl c (gemm_vec_value A a b N K)
  have u1 := u0.fill_storeu_row N (i + 0) (j + 0 * vs) vs ((i + 0) * N + j + 0 * vs) v.2.1
    (by ring) (by omega)
    (fun l hl => by
      rw [h1 l, gemm_vec_value_at A a b N K (i + 0) (j + 0 * vs + l) (by omega)]
      exact fold_left_congr _ _ _ _ (fun acc k => by congr 2; ring))
    (fun x hx => hx.elim)
  have u2 := u1.fill_storeu_row N (i + 1) (j + 0 * vs) vs ((i + 1) * N + j + 0 * vs) v.2.2.1
    (by ring) (by omega)
    (fun l hl => by
      rw [h2 l, gemm_vec_value_at A a b N K (i + 1) (j + 0 * vs + l) (by omega)]
      exact fold_left_congr _ _ _ _ (fun acc k => by congr 2; ring))
    (fun x hx => by simp only [false_or] at hx; omega)
  have u3 := u2.fill_storeu_row N (i + 0) (j + 1 * vs) vs ((i + 0) * N + j + 1 * vs) v.2.2.2.1
    (by ring) (by omega)
    (fun l hl => by
      rw [h3 l, gemm_vec_value_at A a b N K (i + 0) (j + 1 * vs + l) (by omega)]
      exact fold_left_congr _ _ _ _ (fun acc k => by congr 2; ring))
    (fun x hx => by simp only [false_or] at hx; omega)
  have u4 := u3.fill_storeu_row N (i + 1) (j + 1 * vs) vs ((i + 1) * N + j + 1 * vs) v.2.2.2.2
    (by ring) (by omega)
    (fun l hl => by
      rw [h4 l, gemm_vec_value_at A a b N K (i + 1) (j + 1 * vs + l) (by omega)]
      exact fold_left_congr _ _ _ _ (fun acc k => by congr 2; ring))
    (fun x hx => by simp only [false_or] at hx; omega)
  exact u4.fill_congr _ (fun x => by simp only [false_or]; omega)

theorem gemm_small_c2_r1_gfill {T : Type} (A : Arith T) (vs : Nat) (a b : Nat → T)
    (N K j i : Nat) (hj : j + 2 * vs ≤ N) (c : Buffer T) :
    Filled c (gemm_small_c2_r1 A vs a b N K j i c)
      (fun x => (i ≤ x / N ∧ x / N < i + 1) ∧ (j ≤ x % N ∧ x % N < j + 2 * vs))
      (gemm_vec_value A a b N K) := by
  unfold gemm_small_c2_r1
  simp only []
  generalize hv : forLoop K (fun k => decide (k < K)) 1 _ 0 _ = v
  let Inv : Nat → Vec T × Vec T → Prop :=
    fun k r => k ≤ K ∧
      (∀ l, r.1 l = fold_left (fun acc x => A.fmadd (a ((i + 0) * K + x)) (b (x * N + j + vs * 0 + l)) acc) A.zero k) ∧
      (∀ l, r.2 l = fold_left (fun acc x => A.fmadd (a ((i + 0) * K + x)) (b (x * N + j + vs * 1 + l)) acc) A.zero k)
  have hV : Inv v.1 v.2 ∧ decide (v.1 < K) = false := by
    rw [← hv]
    refine forLoop_spec Inv _ 1 _ K Nat.one_pos (fun k hk => by simpa using hk) ?_ K 0 _
      (by omega) ?_
    · rintro k ⟨r11, r21⟩ ⟨hk, h1, h2⟩ hc
      have hc' : k < K := by simpa using hc
      try dsimp only at h1 h2
      refine ⟨hc', ?_, ?_⟩
      all_goals
        intro l
        simp only [Vec.fmadd, Vec.set, Vec.loadu, fold_left_succ, h1, h2]
    · simp [Inv, Vec.zero, fold_left_zero]
  obtain ⟨⟨hk, h1, h2⟩, hex⟩ := hV
  have hke : v.1 = K := by
    have : ¬ v.1 < K := by simpa using hex
    omega
  rw [hke] at h1 h2
  have u0 := Filled.fill_refl c (gemm_vec_value A a b N K)
  have u1 := u0.fill_storeu_row N (i + 0) (j + 0 * vs) vs ((i + 0) * N + j + 0 * vs) v.2.1
    (by ring) (by omega)
    (fun l hl => by
      rw [h1 l, gemm_vec_value_at A a b N K (i + 0) (j + 0 * vs + l) (by omega)]
      exact fold_left_congr _ _ _ _ (fun acc k => by congr 2; ring))
    (fun x hx => hx.elim)
  have u2 := u1.fill_storeu_row N (i + 0) (j + 1 * vs) vs ((i + 0) * N + j + 1 * vs) v.2.2
    (by ring) (by omega)
    (fun l hl => by
      rw [h2 l, gemm_vec_value_at A a b N K (i + 0) (j + 1 * vs + l) (by omega)]
      exact fold_left_congr _ _ _ _ (fun acc k => by congr 2; ring))
    (fun x hx => by simp only [false_or] at hx; omega)
  exact u2.fill_congr _ (fun x => by simp only [false_or]; omega)

theorem gemm_small_c1_r2_gfill {T : Type} (A : Arith T) (vs : Nat) (a b : Nat → T)
    (N K j i : Nat) (hj : j + vs ≤ N) (c : Buffer T) :
    Filled c (gemm_small_c1_r2 A vs a b N K j i c)
      (fun x => (i ≤ x / N ∧ x / N < i + 2) ∧ (j ≤ x % N ∧ x % N < j + vs))
      (gemm_vec_value A a b N K) := by
  unfold gemm_small_c1_r2
  simp only []
  generalize hv : forLoop K (fun k => decide (k < K)) 1 _ 0 _ = v
  let Inv : Nat → Vec T × Vec T → Prop :=
    fun k r => k ≤ K ∧
      (∀ l, r.1 l = fold_left (fun acc x => A.fmadd (a ((i + 0) * K + x)) (b (x * N + j + vs * 0 + l)) acc) A.zero k) ∧
      (∀ l, r.2 l = fold_left (fun acc x => A.fmadd (a ((i + 1) * K + x)) (b (x * N + j + vs * 0 + l)) acc) A.zero k)
  have hV : Inv v.1 v.2 ∧ decide (v.1 < K) = false := by
    rw [← hv]
    refine forLoop_spec Inv _ 1 _ K Nat.one_pos (fun k hk => by simpa using hk) ?_ K 0 _
      (by omega) ?_
    · rintro k ⟨r1, r2⟩ ⟨hk, h1, h2⟩ hc
      have hc' : k < K := by simpa using hc
      try dsimp only at h1 h2
      refine ⟨hc', ?_, ?_⟩
      all_goals
        intro l
        simp only [Vec.fmadd, Vec.set, Vec.loadu, fold_left_succ, h1, h2]
    · simp [Inv, Vec.zero, fold_left_zero]
  obtain ⟨⟨hk, h1, h2⟩, hex⟩ := hV
  have hke : v.1 = K := by
    have : ¬ v.1 < K := by simpa using hex
    omega
  rw [hke] at h1 h2
  have u0 := Filled.fill_refl c (gemm_vec_value A a b N K)
  have u1 := u0.fill_storeu_row N (i + 0) (j) vs ((i + 0) * N + j) v.2.1
    (by ring) (by omega)
    (fun l hl => by
      rw [h1 l, gemm_vec_value_at A a b N K (i + 0) (j + l) (by omega)]
      exact fold_left_congr _ _ _ _ (fun acc k => by congr 2; ring))
    (fun x hx => hx.elim)
  have u2 := u1.fill_storeu_row N (i + 1) (j) vs ((i + 1) * N + j) v.2.2
    (by ring) (by omega)
    (fun l hl => by
      rw [h2 l, gemm_vec_value_at A a b N K (i + 1) (j + l) (by omega)]
      exact fold_left_congr _ _ _ _ (fun acc k => by congr 2; ring))
    (fun x hx => by simp only [false_or] at hx; omega)
  exact u2.fill_congr _ (fun x => by simp only [false_or]; omega)

theorem gemm_small_c1_r1_gfill {T : Type} (A : Arith T) (vs : Nat) (a b : Nat → T)
    (N K j i : Nat) (hj : j + vs ≤ N) (c : Buffer T) :
    Filled c (gemm_small_c1_r1 A vs a b N K j i c)
      (fun x => (i ≤ x / N ∧ x / N < i + 1) ∧ (j ≤ x % N ∧ x % N < j + vs))
      (gemm_vec_value A a b N K) := by
  unfold gemm_small_c1_r1
  simp only []
  generalize hv : forLoop K (fun k => decide (k < K)) 1 _ 0 _ = v
  let Inv : Nat → Vec T → Prop :=
    fun k r => k ≤ K ∧
      (∀ l, r l = fold_left (fun acc x => A.fmadd (a ((i + 0) * K + x)) (b (x * N + j + vs * 0 + l)) acc) A.zero k)
  have hV : Inv v.1 v.2 ∧ decide (v.1 < K) = false := by
    rw [← hv]
    refine forLoop_spec Inv _ 1 _ K Nat.one_pos (fun k hk => by simpa using hk) ?_ K 0 _
      (by omega) ?_
    · rintro k r1 ⟨hk, h1⟩ hc
      have hc' : k < K := by simpa using hc
      try dsimp only at h1
      refine ⟨hc', ?_⟩
      all_goals
        intro l
        simp only [Vec.fmadd, Vec.set, Vec.loadu, fold_left_succ, h1]
    · simp [Inv, Vec.zero, fold_left_zero]
  obtain ⟨⟨hk, h1⟩, hex⟩ := hV
  have hke : v.1 = K := by
    have : ¬ v.1 < K := by simpa using hex
    omega
  rw [hke] at h1
  have u0 := Filled.fill_refl c (gemm_vec_value A a b N K)
  have u1 := u0.fill_storeu_row N (i + 0) (j) vs ((i + 0) * N + j) v.2
    (by ring) (by omega)
    (fun l hl => by
      rw [h1 l, gemm_vec_value_at A a b N K (i + 0) (j + l) (by omega)]
      exact fold_left_congr _ _ _ _ (fun acc k => by congr 2; ring))
    (fun x hx => hx.elim)
  exact u1.fill_congr _ (fun x => by simp only [false_or]; omega)

theorem gemm_small_s2_r2_gfill {T : Type} (A : Arith T) (a b : Nat → T)
    (N K j i : Nat) (hj : j + 2 ≤ N) (c : Buffer T) :
    Filled c (gemm_small_s2_r2 A a b N K j i c)
      (fun x => (i ≤ x / N ∧ x / N < i + 2) ∧ (j ≤ x % N ∧ x % N < j + 2))
      (gemm_scalar_value A a b N K) := by
  unfold gemm_small_s2_r2
  simp only []
  generalize hv : forLoop K (fun k => decide (k < K)) 1 _ 0 _ = v
  let Inv : Nat → T × T × T × T → Prop :=
    fun k r => k ≤ K ∧
      r.1 = fold_left (fun acc x => A.add acc (A.mul (a ((i + 0) * K + x)) (b (x * N + (j + 0))))) A.zero k ∧
      r.2.1 = fold_left (fun acc x => A.add acc (A.mul (a ((i + 1) * K + x)) (b (x * N + (j + 0))))) A.zero k ∧
      r.2.2.1 = fold_left (fun acc x => A.add acc (A.mul (a ((i + 0) * K + x)) (b (x * N + (j + 1))))) A.zero k ∧
      r.2.2.2 = fold_left (fun acc x => A.add acc (A.mul (a ((i + 1) * K + x)) (b (x * N + (j + 1))))) A.zero k
  have hV : Inv v.1 v.2 ∧ decide (v.1 < K) = false := by
    rw [← hv]
    refine forLoop_spec Inv _ 1 _ K Nat.one_pos (fun k hk => by simpa using hk) ?_ K 0 _
      (by omega) ?_
    · rintro k ⟨r11, r12, r21, r22⟩ ⟨hk, h1, h2, h3, h4⟩ hc
      have hc' : k < K := by simpa using hc
      try dsimp only at h1 h2 h3 h4
      refine ⟨hc', ?_, ?_, ?_, ?_⟩
      all_goals
        simp only [fold_left_succ, h1, h2, h3, h4]
    · simp [Inv, fold_left_zero]
  obtain ⟨⟨hk, h1, h2, h3, h4⟩, hex⟩ := hV
  have hke : v.1 = K := by
    have : ¬ v.1 < K := by simpa using hex
    omega
  rw [hke] at h1 h2 h3 h4
  have u0 := Filled.fill_refl c (gemm_scalar_value A a b N K)
  have u1 := u0.fill_write_row N (i + 0) ((j + 0)) ((i + 0) * N + (j + 0)) v.2.1
    (by ring) (by omega)
    (by rw [h1, gemm_scalar_value_at A a b N K (i + 0) ((j + 0)) (by omega)])
    (fun x hx => hx.elim)
  have u2 := u1.fill_write_row N (i + 0) ((j + 1)) ((i + 0) * N + (j + 1)) v.2.2.2.1
    (by ring) (by omega)
    (by rw [h3, gemm_scalar_value_at A a b N K (i + 0) ((j + 1)) (by omega)])
    (fun x hx => by simp only [false_or] at hx; omega)
  have u3 := u2.fill_write_row N (i + 1) ((j + 0)) ((i + 1) * N + (j + 0)) v.2.2.1
    (by ring) (by omega)
    (by rw [h2, gemm_scalar_value_at A a b N K (i + 1) ((j + 0)) (by omega)])
    (fun x hx => by simp only [false_or] at hx; omega)
  have u4 := u3.fill_write_row N (i + 1) ((j + 1)) ((i + 1) * N + (j + 1)) v.2.2.2.2
    (by ring) (by omega)
    (by rw [h4, gemm_scalar_value_at A a b N K (i + 1) ((j + 1)) (by omega)])
    (fun x hx => by simp only [false_or] at hx; omega)
  exact u4.fill_congr _ (fun x => by simp only [false_or]; omega)

theorem gemm_small_s2_r1_gfill {T : Type} (A : Arith T) (a b : Nat → T)
    (N K j i : Nat) (hj : j + 2 ≤ N) (c : Buffer T) :
    Filled c (gemm_small_s2_r1 A a b N K j i c)
      (fun x => (i ≤ x / N ∧ x / N < i + 1) ∧ (j ≤ x % N ∧ x % N < j + 2))
      (gemm_scalar_value A a b N K) := by
  unfold gemm_small_s2_r1
  simp only []
  generalize hv : forLoop K (fun k => decide (k < K)) 1 _ 0 _ = v
  let Inv : Nat → T × T → Prop :=
    fun k r => k ≤ K ∧
      r.1 = fold_left (fun acc x => A.add acc (A.mul (a (i * K + x)) (b (x * N + (j + 0))))) A.zero k ∧
      r.2 = fold_left (fun acc x => A.add acc (A.mul (a (i * K + x)) (b (x * N + (j + 1))))) A.zero k
  have hV : Inv v.1 v.2 ∧ decide (v.1 < K) = false := by
    rw [← hv]
    refine forLoop_spec Inv _ 1 _ K Nat.one_pos (fun k hk => by simpa using hk) ?_ K 0 _
      (by omega) ?_
    · rintro k ⟨r1, r2⟩ ⟨hk, h1, h2⟩ hc
      have hc' : k < K := by simpa using hc
      try dsimp only at h1 h2
      refine ⟨hc', ?_, ?_⟩
      all_goals
        simp only [fold_left_succ, h1, h2]
    · simp [Inv, fold_left_zero]
  obtain ⟨⟨hk, h1, h2⟩, hex⟩ := hV
  have hke : v.1 = K := by
    have : ¬ v.1 < K := by simpa using hex
    omega
  rw [hke] at h1 h2
  have u0 := Filled.fill_refl c (gemm_scalar_value A a b N K)
  have u1 := u0.fill_write_row N i ((j + 0)) (i * N + (j + 0)) v.2.1
    (by ring) (by omega)
    (by rw [h1, gemm_scalar_value_at A a b N K i ((j + 0)) (by omega)])
    (fun x hx => hx.elim)
  have u2 := u1.fill_write_row N i ((j + 1)) (i * N + (j + 1)) v.2.2
    (by ring) (by omega)
    (by rw [h2, gemm_scalar_value_at A a b N K i ((j + 1)) (by omega)])
    (fun x hx => by simp only [false_or] at hx; omega)
  exact u2.fill_congr _ (fun x => by simp only [false_or]; omega)

theorem gemm_small_s1_r2_gfill {T : Type} (A : Arith T) (a b : Nat → T)
    (N K j i : Nat) (hj : j + 1 ≤ N) (c : Buffer T) :
    Filled c (gemm_small_s1_r2 A a b N K j i c)
      (fun x => (i ≤ x / N ∧ x / N < i + 2) ∧ (j ≤ x % N ∧ x % N < j + 1))
      (gemm_scalar_value A a b N K) := by
  unfold gemm_small_s1_r2
  simp only []
  generalize hv : forLoop K (fun k => decide (k < K)) 1 _ 0 _ = v
  let Inv : Nat → T × T → Prop :=
    fun k r => k ≤ K ∧
      r.1 = fold_left (fun acc x => A.add acc (A.mul (a ((i + 0) * K + x)) (b (x * N + j)))) A.zero k ∧
      r.2 = fold_left (fun acc x => A.add acc (A.mul (a ((i + 1) * K + x)) (b (x * N + j)))) A.zero k
  have hV : Inv v.1 v.2 ∧ decide (v.1 < K) = false := by
    rw [← hv]
    refine forLoop_spec Inv _ 1 _ K Nat.one_pos (fun k hk => by simpa using hk) ?_ K 0 _
      (by omega) ?_
    · rintro k ⟨r1, r2⟩ ⟨hk, h1, h2⟩ hc
      have hc' : k < K := by simpa using hc
      try dsimp only at h1 h2
      refine ⟨hc', ?_, ?_⟩
      all_goals
        simp only [fold_left_succ, h1, h2]
    · simp [Inv, fold_left_zero]
  obtain ⟨⟨hk, h1, h2⟩, hex⟩ := hV
  have hke : v.1 = K := by
    have : ¬ v.1 < K := by simpa using hex
    omega
  rw [hke] at h1 h2
  have u0 := Filled.fill_refl c (gemm_scalar_value A a b N K)
  have u1 := u0.fill_write_row N (i + 0) (j) ((i + 0) * N + j) v.2.1
    (by ring) (by omega)
    (by rw [h1, gemm_scalar_value_at A a b N K (i + 0) (j) (by omega)])
    (fun x hx => hx.elim)
  have u2 := u1.fill_write_row N (i + 1) (j) ((i + 1) * N + j) v.2.2
    (by ring) (by omega)
    (by rw [h2, gemm_scalar_value_at A a b N K (i + 1) (j) (by omega)])
    (fun x hx => by simp only [false_or] at hx; omega)
  exact u2.fill_congr _ (fun x => by simp only [false_or]; omega)

theorem gemm_small_s1_r1_gfill {T : Type} (A : Arith T) (a b : Nat → T)
    (N K j i : Nat) (hj : j + 1 ≤ N) (c : Buffer T) :
    Filled c (gemm_small_s1_r1 A a b N K j i c)
      (fun x => (i ≤ x / N ∧ x / N < i + 1) ∧ (j ≤ x % N ∧ x % N < j + 1))
      (gemm_scalar_value A a b N K) := by
  unfold gemm_small_s1_r1
  simp only []
  generalize hv : forLoop K (fun k => decide (k < K)) 1 _ 0 _ = v
  let Inv : Nat → T → Prop :=
    fun k r => k ≤ K ∧
      r = fold_left (fun acc x => A.add acc (A.mul (a (i * K + x)) (b (x * N + j)))) A.zero k
  have hV : Inv v.1 v.2 ∧ decide (v.1 < K) = false := by
    rw [← hv]
    refine forLoop_spec Inv _ 1 _ K Nat.one_pos (fun k hk => by simpa using hk) ?_ K 0 _
      (by omega) ?_
    · rintro k r1 ⟨hk, h1⟩ hc
      have hc' : k < K := by simpa using hc
      try dsimp only at h1
      refine ⟨hc', ?_⟩
      all_goals
        simp only [fold_left_succ, h1]
    · simp [Inv, fold_left_zero]
  obtain ⟨⟨hk, h1⟩, hex⟩ := hV
  have hke : v.1 = K := by
    have : ¬ v.1 < K := by simpa using hex
    omega
  rw [hke] at h1
  have u0 := Filled.fill_refl c (gemm_scalar_value A a b N K)
  have u1 := u0.fill_write_row N i (j) (i * N + j) v.2
    (by ring) (by omega)
    (by rw [h1, gemm_scalar_value_at A a b N K i (j) (by omega)])
    (fun x hx => hx.elim)
  exact u1.fill_congr _ (fun x => by simp only [false_or]; omega)

theorem gemm_small_cols8_gfill {T : Type} (A : Arith T) (vs : Nat) (a b : Nat → T)
    (M N K j : Nat) (hj : j + vs * 8 ≤ N) (c : Buffer T) :
    Filled c (gemm_small_cols8 A vs a b M N K j c)
      (fun x => (j ≤ x % N ∧ x % N < j + vs * 8) ∧ x / N < M) (gemm_vec_value A a b N K) := by
  unfold gemm_small_cols8
  try simp only []
  have s0 := sweep_fill (fun x => x / N) (fun x => j ≤ x % N ∧ x % N < j + vs * 8) c
    (gemm_vec_value A a b N K) M 1 (gemm_small_c8_r1 A vs a b N K j) (fun i => decide (i < M))
    (by norm_num) (fun i hi => by have h := of_decide_eq_true hi; omega)
    (fun i c' _ => gemm_small_c8_r1_gfill A vs a b N K j i hj c') 0 0 c (Nat.zero_le _) (Nat.zero_le _)
    ((Filled.fill_refl c _).fill_congr _ (fun x => by simp))
  generalize forLoop M (fun i => decide (i < M)) 1 _ 0 c = t0 at s0 ⊢
  obtain ⟨⟨_, hle, hf⟩, hex⟩ := s0
  have hex' : ¬ t0.1 < M := by simpa using hex
  exact hf.fill_congr _ (fun x => by beta_reduce; generalize x / N = q; generalize x % N = r; omega)

theorem gemm_small_cols4_gfill {T : Type} (A : Arith T) (vs : Nat) (a b : Nat → T)
    (M N K j : Nat) (hj : j + 4 * vs ≤ N) (c : Buffer T) :
    Filled c (gemm_small_cols4 A vs a b M N K j c)
      (fun x => (j ≤ x % N ∧ x % N < j + 4 * vs) ∧ x / N < M) (gemm_vec_value A a b N K) := by
  unfold gemm_small_cols4
  try simp only []
  have s0 := sweep_fill (fun x => x / N) (fun x => j ≤ x % N ∧ x % N < j + 4 * vs) c
    (gemm_vec_value A a b N K) M 2 (gemm_small_c4_r2 A vs a b N K j) (fun i => decide (i + 1 < M))
    (by norm_num) (fun i hi => by have h := of_decide_eq_true hi; omega)
    (fun i c' _ => gemm_small_c4_r2_gfill A vs a b N K j i hj c') 0 0 c (Nat.zero_le _) (Nat.zero_le _)
    ((Filled.fill_refl c _).fill_congr _ (fun x => by simp))
  generalize forLoop M (fun i => decide (i + 1 < M)) 2 _ 0 c = t0 at s0 ⊢
  obtain ⟨⟨_, hle, hf⟩, hex⟩ := s0
  have hex' : ¬ t0.1 + 1 < M := by simpa using hex
  by_cases hlt : t0.1 < M
  · rw [if_pos hlt]
    exact Filled.fill_seq hf (gemm_small_c4_r1_gfill A vs a b N K j t0.1 hj t0.2) _
      (fun x => by beta_reduce; generalize x / N = q; generalize x % N = r; omega)
      (fun x hp hq => by beta_reduce at hp hq; generalize x / N = q at hp hq
                         generalize x % N = r at hp hq; omega)
  · rw [if_neg hlt]
    exact hf.fill_congr _ (fun x => by beta_reduce; generalize x / N = q; generalize x % N = r; omega)

theorem gemm_small_cols2_gfill {T : Type} (A : Arith T) (vs : Nat) (a b : Nat → T)
    (M N K j : Nat) (hj : j + 2 * vs ≤ N) (c : Buffer T) :
    Filled c (gemm_small_cols2 A vs a b M N K j c)
      (fun x => (j ≤ x % N ∧ x % N < j + 2 * vs) ∧ x / N < M) (gemm_vec_value A a b N K) := by
  unfold gemm_small_cols2
  try simp only []
  have s0 := sweep_fill (fun x => x / N) (fun x => j ≤ x % N ∧ x % N < j + 2 * vs) c
    (gemm_vec_value A a b N K) M 4 (gemm_small_c2_r4 A vs a b N K j) (fun i => decide (i + 3 < M))
    (by norm_num) (fun i hi => by have h := of_decide_eq_true hi; omega)
    (fun i c' _ => gemm_small_c2_r4_gfill A vs a b N K j i hj c') 0 0 c (Nat.zero_le _) (Nat.zero_le _)
    ((Filled.fill_refl c _).fill_congr _ (fun x => by simp))
  generalize forLoop M (fun i => decide (i + 3 < M)) 4 _ 0 c = t0 at s0 ⊢
  have s1 := sweep_fill (fun x => x / N) (fun x => j ≤ x % N ∧ x % N < j + 2 * vs) c
    (gemm_vec_value A a b N K) M 2 (gemm_small_c2_r2 A vs a b N K j) (fun i => decide (i + 1 < M))
    (by norm_num) (fun i hi => by have h := of_decide_eq_true hi; omega)
    (fun i c' _ => gemm_small_c2_r2_gfill A vs a b N K j i hj c') 0 t0.1 t0.2 (Nat.zero_le _) s0.1.2.1
    s0.1.2.2
  generalize forLoop M (fun i => decide (i + 1 < M)) 2 _ t0.1 t0.2 = t1 at s1 ⊢
  obtain ⟨⟨_, hle, hf⟩, hex⟩ := s1
  have hex' : ¬ t1.1 + 1 < M := by simpa using hex
  by_cases hlt : t1.1 < M
  · rw [if_pos hlt]
    exact Filled.fill_seq hf (gemm_small_c2_r1_gfill A vs a b N K j t1.1 hj t1.2) _
      (fun x => by beta_reduce; generalize x / N = q; generalize x % N = r; omega)
      (fun x hp hq => by beta_reduce at hp hq; generalize x / N = q at hp hq
                         generalize x % N = r at hp hq; omega)
  · rw [if_neg hlt]
    exact hf.fill_congr _ (fun x => by beta_reduce; generalize x / N = q; generalize x % N = r; omega)

theorem gemm_small_cols1_gfill {T : Type} (A : Arith T) (vs : Nat) (a b : Nat → T)
    (M N K j : Nat) (hj : j + vs ≤ N) (c : Buffer T) :
    Filled c (gemm_small_cols1 A vs a b M N K j c)
      (fun x => (j ≤ x % N ∧ x % N < j + vs) ∧ x / N < M) (gemm_vec_value A a b N K) := by
  unfold gemm_small_cols1
  try simp only []
  have s0 := sweep_fill (fun x => x / N) (fun x => j ≤ x % N ∧ x % N < j + vs) c
    (gemm_vec_value A a b N K) M 2 (gemm_small_c1_r2 A vs a b N K j) (fun i => decide (i + 1 < M))
    (by norm_num) (fun i hi => by have h := of_decide_eq_true hi; omega)
    (fun i c' _ => gemm_small_c1_r2_gfill A vs a b N K j i hj c') 0 0 c (Nat.zero_le _) (Nat.zero_le _)
    ((Filled.fill_refl c _).fill_congr _ (fun x => by simp))
  generalize forLoop M (fun i => decide (i + 1 < M)) 2 _ 0 c = t0 at s0 ⊢
  obtain ⟨⟨_, hle, hf⟩, hex⟩ := s0
  have hex' : ¬ t0.1 + 1 < M := by simpa using hex
  by_cases hlt : t0.1 < M
  · rw [if_pos hlt]
    exact Filled.fill_seq hf (gemm_small_c1_r1_gfill A vs a b N K j t0.1 hj t0.2) _
      (fun x => by beta_reduce; generalize x / N = q; generalize x % N = r; omega)
      (fun x hp hq => by beta_reduce at hp hq; generalize x / N = q at hp hq
                         generalize x % N = r at hp hq; omega)
  · rw [if_neg hlt]
    exact hf.fill_congr _ (fun x => by beta_reduce; generalize x / N = q; generalize x % N = r; omega)

theorem gemm_small_scalar2_gfill {T : Type} (A : Arith T) (a b : Nat → T)
    (M N K j : Nat) (hj : j + 2 ≤ N) (c : Buffer T) :
    Filled c (gemm_small_scalar2 A a b M N K j c)
      (fun x => (j ≤ x % N ∧ x % N < j + 2) ∧ x / N < M) (gemm_scalar_value A a b N K) := by
  unfold gemm_small_scalar2
  try simp only []
  have s0 := sweep_fill (fun x => x / N) (fun x => j ≤ x % N ∧ x % N < j + 2) c
    (gemm_scalar_value A a b N K) M 2 (gemm_small_s2_r2 A a b N K j) (fun i => decide (i + 1 < M))
    (by norm_num) (fun i hi => by have h := of_decide_eq_true hi; omega)
    (fun i c' _ => gemm_small_s2_r2_gfill A a b N K j i hj c') 0 0 c (Nat.zero_le _) (Nat.zero_le _)
    ((Filled.fill_refl c _).fill_congr _ (fun x => by simp))
  generalize forLoop M (fun i => decide (i + 1 < M)) 2 _ 0 c = t0 at s0 ⊢
  obtain ⟨⟨_, hle, hf⟩, hex⟩ := s0
  have hex' : ¬ t0.1 + 1 < M := by simpa using hex
  by_cases hlt : t0.1 < M
  · rw [if_pos hlt]
    exact Filled.fill_seq hf (gemm_small_s2_r1_gfill A a b N K j t0.1 hj t0.2) _
      (fun x => by beta_reduce; generalize x / N = q; generalize x % N = r; omega)
      (fun x hp hq => by beta_reduce at hp hq; generalize x / N = q at hp hq
                         generalize x % N = r at hp hq; omega)
  · rw [if_neg hlt]
    exact hf.fill_congr _ (fun x => by beta_reduce; generalize x / N = q; generalize x % N = r; omega)

theorem gemm_small_scalar1_gfill {T : Type} (A : Arith T) (a b : Nat → T)
    (M N K j : Nat) (hj : j + 1 ≤ N) (c : Buffer T) :
    Filled c (gemm_small_scalar1 A a b M N K j c)
      (fun x => (j ≤ x % N ∧ x % N < j + 1) ∧ x / N < M) (gemm_scalar_value A a b N K) := by
  unfold gemm_small_scalar1
  try simp only []
  have s0 := sweep_fill (fun x => x / N) (fun x => j ≤ x % N ∧ x % N < j + 1) c
    (gemm_scalar_value A a b N K) M 2 (gemm_small_s1_r2 A a b N K j) (fun i => decide (i + 1 < M))
    (by norm_num) (fun i hi => by have h := of_decide_eq_true hi; omega)
    (fun i c' _ => gemm_small_s1_r2_gfill A a b N K j i hj c') 0 0 c (Nat.zero_le _) (Nat.zero_le _)
    ((Filled.fill_refl c _).fill_congr _ (fun x => by simp))
  generalize forLoop M (fun i => decide (i + 1 < M)) 2 _ 0 c = t0 at s0 ⊢
  obtain ⟨⟨_, hle, hf⟩, hex⟩ := s0
  have hex' : ¬ t0.1 + 1 < M := by simpa using hex
  by_cases hlt : t0.1 < M
  · rw [if_pos hlt]
    exact Filled.fill_seq hf (gemm_small_s1_r1_gfill A a b N K j t0.1 hj t0.2) _
      (fun x => by beta_reduce; generalize x / N = q; generalize x % N = r; omega)
      (fun x hp hq => by beta_reduce at hp hq; generalize x / N = q at hp hq
                         generalize x % N = r at hp hq; omega)
  · rw [if_neg hlt]
    exact hf.fill_congr _ (fun x => by beta_reduce; generalize x / N = q; generalize x % N = r; omega)

/-- What `gemm_small_kernel` leaves under any interpretation of the arithmetic: every
element `(i, j)` with `i < M`, `j < N` stored exactly once, with the fold of its
accumulation step over `k = 0, ..., K - 1`, and nothing else touched. -/
theorem gemm_small_kernel_gfill {T : Type} (A : Arith T) (vs : Nat) (hvs : 0 < vs)
    (a b : Nat → T) (c : Buffer T) (M N K : Nat) :
    Filled c (gemm_small_kernel A vs a b c M N K)
      (fun x => x / N < M ∧ x % N < N) (gemm_value A (vs * (N / vs)) a b N K) := by
  unfold gemm_small_kernel
  try simp only []
  have s0 := sweep_fill (fun x => x % N) (fun x => x / N < M) c
    (gemm_vec_value A a b N K) N (vs * 8) (gemm_small_cols8 A vs a b M N K) (fun j => decide (j + vs * 8 - 1 < N))
    (by omega) (fun j hj => by have h := of_decide_eq_true hj; omega)
    (fun j c' hj => gemm_small_cols8_gfill A vs a b M N K j
      (by have h := of_decide_eq_true hj; omega) c')
    0 0 c (Nat.zero_le _) (Nat.zero_le _)
    ((Filled.fill_refl c _).fill_congr _ (fun x => by simp))
  have d0 := forLoop_fst_dvd vs (fun j => decide (j + vs * 8 - 1 < N)) (vs * 8)
    (gemm_small_cols8 A vs a b M N K) (Dvd.intro _ rfl) N 0 c (dvd_zero _)
  generalize forLoop N (fun j => decide (j + vs * 8 - 1 < N)) (vs * 8) _ 0 c = t0 at s0 d0 ⊢
  have s1 := sweep_fill (fun x => x % N) (fun x => x / N < M) c
    (gemm_vec_value A a b N K) N (4 * vs) (gemm_small_cols4 A vs a b M N K) (fun j => decide (j + 4 * vs - 1 < N))
    (by omega) (fun j hj => by have h := of_decide_eq_true hj; omega)
    (fun j c' hj => gemm_small_cols4_gfill A vs a b M N K j
      (by have h := of_decide_eq_true hj; omega) c')
    0 t0.1 t0.2 (Nat.zero_le _) s0.1.2.1
    s0.1.2.2
  have d1 := forLoop_fst_dvd vs (fun j => decide (j + 4 * vs - 1 < N)) (4 * vs)
    (gemm_small_cols4 A vs a b M N K) (Dvd.intro_left _ rfl) N t0.1 t0.2 d0
  generalize forLoop N (fun j => decide (j + 4 * vs - 1 < N)) (4 * vs) _ t0.1 t0.2 = t1 at s1 d1 ⊢
  have s2 := sweep_fill (fun x => x % N) (fun x => x / N < M) c
    (gemm_vec_value A a b N K) N (2 * vs) (gemm_small_cols2 A vs a b M N K) (fun j => decide (j + 2 * vs - 1 < N))
    (by omega) (fun j hj => by have h := of_decide_eq_true hj; omega)
    (fun j c' hj => gemm_small_cols2_gfill A vs a b M N K j
      (by have h := of_decide_eq_true hj; omega) c')
    0 t1.1 t1.2 (Nat.zero_le _) s1.1.2.1
    s1.1.2.2
  have d2 := forLoop_fst_dvd vs (fun j => decide (j + 2 * vs - 1 < N)) (2 * vs)
    (gemm_small_cols2 A vs a b M N K) (Dvd.intro_left _ rfl) N t1.1 t1.2 d1
  generalize forLoop N (fun j => decide (j + 2 * vs - 1 < N)) (2 * vs) _ t1.1 t1.2 = t2 at s2 d2 ⊢
  have s3 := sweep_fill (fun x => x % N) (fun x => x / N < M) c
    (gemm_vec_value A a b N K) N (vs) (gemm_small_cols1 A vs a b M N K) (fun j => decide (j + vs - 1 < N))
    hvs (fun j hj => by have h := of_decide_eq_true hj; omega)
    (fun j c' hj => gemm_small_cols1_gfill A vs a b M N K j
      (by have h := of_decide_eq_true hj; omega) c')
    0 t2.1 t2.2 (Nat.zero_le _) s2.1.2.1
    s2.1.2.2
  have d3 := forLoop_fst_dvd vs (fun j => decide (j + vs - 1 < N)) (vs)
    (gemm_small_cols1 A vs a b M N K) (dvd_refl _) N t2.1 t2.2 d2
  generalize forLoop N (fun j => decide (j + vs - 1 < N)) (vs) _ t2.1 t2.2 = t3 at s3 d3 ⊢
  obtain ⟨⟨_, hle3, hf3⟩, hex3⟩ := s3
  have hex3' : ¬ t3.1 + vs - 1 < N := by simpa using hex3
  have ht3 : t3.1 = vs * (N / vs) := by
    obtain ⟨q, hq⟩ := d3
    have hdiv : N / vs = q := by
      apply Nat.div_eq_of_lt_le
      · rw [Nat.mul_comm, ← hq]; exact hle3
      · have e : (q + 1) * vs = vs * q + vs := by ring
        rw [e, ← hq]; omega
    rw [hdiv, hq]
  have hf3' := hf3.fill_congr_val (gemm_value A (vs * (N / vs)) a b N K)
    (fun x hx => (gemm_value_vec A _ a b N K x (by rw [← ht3]; exact hx.1.2)).symm)
  have s4 := sweep_fill_from (fun x => x % N) (fun x => x / N < M) c
    (gemm_value A (vs * (N / vs)) a b N K) N 2 (gemm_small_scalar2 A a b M N K)
    (fun j => decide (j + 1 < N)) (by norm_num)
    (fun j hj => by have h := of_decide_eq_true hj; omega)
    0 t3.1 t3.2 (Nat.zero_le _) hle3
    (fun j c' hj0 hj => (gemm_small_scalar2_gfill A a b M N K j
      (by have h := of_decide_eq_true hj; omega) c').fill_congr_val _
      (fun x hx => (gemm_value_scalar A _ a b N K x
        (by rw [← ht3]; exact Nat.not_lt.2 (le_trans hj0 hx.1.1))).symm))
    hf3'
  generalize forLoop N (fun j => decide (j + 1 < N)) 2 _ t3.1 t3.2 = t4 at s4 ⊢
  obtain ⟨⟨hge, hle, hf⟩, hex⟩ := s4
  have hex' : ¬ t4.1 + 1 < N := by simpa using hex
  by_cases hlt : t4.1 < N
  · rw [if_pos hlt]
    exact Filled.fill_seq hf ((gemm_small_scalar1_gfill A a b M N K t4.1 (by omega) t4.2).fill_congr_val _
      (fun x hx => (gemm_value_scalar A _ a b N K x
        (by rw [← ht3]; exact Nat.not_lt.2 (le_trans hge hx.1.1))).symm)) _
      (fun x => by beta_reduce; generalize x / N = q; generalize x % N = r; omega)
      (fun x hp hq => by beta_reduce at hp hq; generalize x / N = q at hp hq
                         generalize x % N = r at hp hq; omega)
  · rw [if_neg hlt]
    exact hf.fill_congr _ (fun x => by beta_reduce; generalize x / N = q; generalize x % N = r; omega)

theorem gemm_value_at {T : Type} (A : Arith T) (n0 : Nat) (a b : Nat → T) (N K i j : Nat)
    (hj : j < N) :
    gemm_value A n0 a b N K (i * N + j) =
      if j < n0 then
        fold_left (fun acc k => A.fmadd (a (i * K + k)) (b (k * N + j)) acc) A.zero K
      else fold_left (fun acc k => A.add acc (A.mul (a (i * K + k)) (b (k * N + j)))) A.zero K := by
  by_cases h : j < n0
  · rw [if_pos h, gemm_value_vec A n0 a b N K _ (by rw [(row_div N i j hj).2]; exact h),
      gemm_vec_value_at A a b N K i j hj]
  · rw [if_neg h, gemm_value_scalar A n0 a b N K _ (by rw [(row_div N i j hj).2]; exact h),
      gemm_scalar_value_at A a b N K i j hj]

/-- C17: for any interpretation `A` of `+`, `*` and `fmadd` (no law assumed), every
`M`, `N`, `K` and `vec_size = 2^p`, `gemm_small_kernel` leaves in `c[i*N+j]` (`i < M`,
`j < N`) the left-to-right fold over `k = 0, ..., K-1` from `T()` of
`fmadd(a[i*K+k], b[k*N+j], acc)` when `j` is below the largest multiple of `vec_size`
that is at most `N`, and of `acc + a[i*K+k] * b[k*N+j]` in the other columns; the
element receives exactly one store, which holds the complete fold. -/
theorem gemm_small_kernel_order {T : Type} (A : Arith T) (p M N K : Nat) (a b : Nat → T)
    (c : Buffer T) (i j : Nat) (hi : i < M) (hj : j < N) :
    (gemm_small_kernel A (2 ^ p) a b c M N K).val (i * N + j) =
        (if j < 2 ^ p * (N / 2 ^ p) then
          fold_left (fun acc k => A.fmadd (a (i * K + k)) (b (k * N + j)) acc) A.zero K
        else
          fold_left (fun acc k => A.add acc (A.mul (a (i * K + k)) (b (k * N + j)))) A.zero K) ∧
      (gemm_small_kernel A (2 ^ p) a b c M N K).stores (i * N + j) =
        c.stores (i * N + j) + 1 := by
  have h := (gemm_small_kernel_gfill A (2 ^ p) (Nat.pos_pow_of_pos p (by norm_num)) a b c M N K).1
    (i * N + j) (by
      show (i * N + j) / N < M ∧ (i * N + j) % N < N
      rw [(row_div N i j hj).1, (row_div N i j hj).2]
      exact ⟨hi, hj⟩)
  rw [gemm_value_at A _ a b N K i j hj] at h
  exact h

/-- Witness of C17: element (1, 2), a scalar column, of a 2 x 3 x 2 product with 2
lanes in saturating arithmetic. -/
theorem gemm_small_kernel_order_witness :
    (gemm_small_kernel (Arith.sat 100) (2 ^ 1) (fun x => (x : Int) + 7) (fun x => (x : Int) + 1)
        ⟨fun _ => 9, fun _ => 0⟩ 2 3 2).val (1 * 3 + 2) =
        (if 2 < 2 ^ 1 * (3 / 2 ^ 1) then
          fold_left (fun acc k => (Arith.sat 100).fmadd (((1 * 2 + k : Nat) : Int) + 7)
            (((k * 3 + 2 : Nat) : Int) + 1) acc) (Arith.sat 100).zero 2
        else
          fold_left (fun acc k => (Arith.sat 100).add acc ((Arith.sat 100).mul
            (((1 * 2 + k : Nat) : Int) + 7) (((k * 3 + 2 : Nat) : Int) + 1)))
            (Arith.sat 100).zero 2) ∧
      (gemm_small_kernel (Arith.sat 100) (2 ^ 1) (fun x => (x : Int) + 7)
        (fun x => (x : Int) + 1) ⟨fun _ => 9, fun _ => 0⟩ 2 3 2).stores (1 * 3 + 2) = 0 + 1 :=
  gemm_small_kernel_order (Arith.sat 100) 1 2 3 2 _ _ _ 1 2 (by decide) (by decide)

theorem gemm_large_zero_gupd {T : Type} (A : Arith T) (N block_j j_end block_i i_end : Nat)
    (hj : j_end ≤ N) (c : Buffer T) :
    Updated c (gemm_large_zero A N block_j j_end block_i i_end c)
      (fun x => (block_i ≤ x / N ∧ x / N < i_end) ∧ (block_j ≤ x % N ∧ x % N < j_end))
      (fun _ => A.zero) := by
  unfold gemm_large_zero
  refine (sweep_fill_clip (fun x => x / N) (fun x => block_j ≤ x % N ∧ x % N < j_end) c
    (fun _ => A.zero) i_end 1 block_i _ Nat.one_pos (fun i c' hi => ?_)).updated
  refine (sweep_fill_clip (fun x => x % N) (fun x => x / N = i) c'
    (fun _ => A.zero) j_end 1 block_j _ Nat.one_pos (fun j c'' hjl => ?_)).fill_congr _
      (fun x => ?_)
  · refine ((Filled.fill_refl c'' (fun _ => A.zero)).fill_write_row N i j (i * N + j) _ rfl
      (by omega) rfl (fun x hx => hx.elim)).fill_congr _ (fun x => ?_)
    simp only [false_or]
    omega
  · beta_reduce
    generalize x / N = q
    generalize x % N = r
    omega

/-- Two successive element-wise updates of disjoint sets by the same map `F`. -/
theorem Updated.upd_seq_map {T : Type} {c0 c c' : Buffer T} {P Q : Nat → Prop}
    {F : T → Nat → T} (h1 : Updated c0 c P (fun x => F (c0.val x) x))
    (h2 : Updated c c' Q (fun x => F (c.val x) x)) (hd : ∀ x, P x → ¬ Q x)
    (R : Nat → Prop) (hR : ∀ x, R x ↔ P x ∨ Q x) :
    Updated c0 c' R (fun x => F (c0.val x) x) :=
  Updated.upd_seq h1 h2 R _ hR
    (fun x hq => by
      show F (c0.val x) x = F (c.val x) x
      rw [h1.2 x (fun hp => hd x hp hq)])
    (fun _ _ _ => rfl)

/-- A loop whose body maps the slab `j ≤ g x < j + step` (within `C`) by `F` maps,
slab after slab, the range from `lo` to its exit index. -/
theorem sweep_map {T : Type} (g : Nat → Nat) (C : Nat → Prop) (cc : Buffer T)
    (F : T → Nat → T)
    (n step : Nat) (body : Nat → Buffer T → Buffer T) (cond : Nat → Bool) (hstep : 0 < step)
    (hcond : ∀ j, cond j = true → j + step ≤ n)
    (lo j0 : Nat) (c0 : Buffer T) (hlo : lo ≤ j0) (h0 : j0 ≤ n)
    (hbody : ∀ j c, j0 ≤ j → cond j = true →
      Updated c (body j c) (fun x => (j ≤ g x ∧ g x < j + step) ∧ C x)
        (fun x => F (c.val x) x))
    (hf : Updated cc c0 (fun x => (lo ≤ g x ∧ g x < j0) ∧ C x) (fun x => F (cc.val x) x)) :
    (j0 ≤ (forLoop n cond step body j0 c0).1 ∧ (forLoop n cond step body j0 c0).1 ≤ n ∧
      Updated cc (forLoop n cond step body j0 c0).2
        (fun x => (lo ≤ g x ∧ g x < (forLoop n cond step body j0 c0).1) ∧ C x)
        (fun x => F (cc.val x) x)) ∧
      cond (forLoop n cond step body j0 c0).1 = false := by
  refine forLoop_spec (fun j c => j0 ≤ j ∧ j ≤ n ∧
      Updated cc c (fun x => (lo ≤ g x ∧ g x < j) ∧ C x) (fun x => F (cc.val x) x))
    cond step body n hstep
    (fun j hj => by have := hcond j hj; omega) ?_ n j0 c0 (by omega) ⟨le_refl _, h0, hf⟩
  rintro j c ⟨h1, h2, h3⟩ hc
  refine ⟨by omega, hcond j hc, ?_⟩
  refine Updated.upd_seq_map h3 (hbody j c h1 hc) (fun x hp hq => ?_) _ (fun x => ?_)
  · have := hp.1.2
    have := hq.1.1
    omega
  · constructor
    · rintro ⟨⟨ha, hb⟩, hC⟩
      by_cases hlt : g x < j
      · exact Or.inl ⟨⟨ha, hlt⟩, hC⟩
      · exact Or.inr ⟨⟨by omega, hb⟩, hC⟩
    · rintro (⟨⟨ha, hb⟩, hC⟩ | ⟨⟨ha, hb⟩, hC⟩)
      · exact ⟨⟨ha, by omega⟩, hC⟩
      · exact ⟨⟨by omega, hb⟩, hC⟩

/-- The variant of `sweep_upd_clip` whose body may use that its index is a multiple
of the step. -/
theorem sweep_upd_clip_dvd {T : Type} (g : Nat → Nat) (C : Nat → Prop) (cc : Buffer T)
    (V : Nat → T) (n step : Nat) (body : Nat → Buffer T → Buffer T) (hstep : 0 < step)
    (hbody : ∀ j c, j < n → step ∣ j →
      Updated c (body j c) (fun x => (j ≤ g x ∧ g x < min (j + step) n) ∧ C x) V) :
    Updated cc (forLoop n (fun j => decide (j < n)) step body 0 cc).2
      (fun x => g x < n ∧ C x) V := by
  have h := forLoop_spec
    (fun j c => step ∣ j ∧ Updated cc c (fun x => g x < min j n ∧ C x) V)
    (fun j => decide (j < n)) step body n hstep (fun j hj => of_decide_eq_true hj) ?_ n 0 cc
    (by omega) ⟨dvd_zero _, (Updated.upd_refl cc V).upd_congr _ _ (fun x => by
      constructor
      · rintro ⟨h1, _⟩
        rw [Nat.zero_min] at h1
        omega
      · intro h; exact h.elim) (fun _ _ => rfl)⟩
  · obtain ⟨⟨_, hf⟩, hex⟩ := h
    have hex' : ¬ (forLoop n (fun j => decide (j < n)) step body 0 cc).1 < n :=
      of_decide_eq_false hex
    exact hf.upd_congr _ _ (fun x => by rw [Nat.min_eq_right (by omega)]) (fun _ _ => rfl)
  · rintro j c ⟨hd, h3⟩ hc
    have hc' : j < n := of_decide_eq_true hc
    refine ⟨Dvd.dvd.add hd (dvd_refl _), ?_⟩
    refine Updated.upd_seq h3 (hbody j c hc' hd) _ _ (fun x => ?_) (fun _ _ => rfl)
      (fun _ _ _ => rfl)
    beta_reduce
    generalize g x = y
    rw [Nat.min_eq_left (Nat.le_of_lt hc')]
    generalize hm : min (j + step) n = e
    have he : j < e ∧ e ≤ n := by
      rcases Nat.le_total (j + step) n with h | h
      · rw [Nat.min_eq_left h] at hm; omega
      · rw [Nat.min_eq_right h] at hm; omega
    constructor
    · rintro ⟨ha, hC⟩
      by_cases hlt : y < j
      · exact Or.inl ⟨hlt, hC⟩
      · exact Or.inr ⟨⟨by omega, ha⟩, hC⟩
    · rintro (⟨ha, hC⟩ | ⟨⟨ha, hb⟩, hC⟩)
      · exact ⟨by omega, hC⟩
      · exact ⟨hb, hC⟩

theorem le_mul_div_of_dvd (vs t N : Nat) (hvs : 0 < vs) (hd : vs ∣ t) (h : t ≤ N) :
    t ≤ vs * (N / vs) := by
  obtain ⟨q, rfl⟩ := hd
  exact Nat.mul_le_mul_left _ ((Nat.le_div_iff_mul_le hvs).2 (by rw [Nat.mul_comm]; exact h))

theorem mul_div_le_of_window (vs t N : Nat) (hvs : 0 < vs) (hd : vs ∣ t) (h : N < t + vs) :
    vs * (N / vs) ≤ t := by
  obtain ⟨q, rfl⟩ := hd
  apply Nat.mul_le_mul_left
  have h2 : N < vs * (q + 1) := by rw [Nat.mul_add, Nat.mul_one]; exact h
  have h3 : N / vs < q + 1 := (Nat.div_lt_iff_lt_mul hvs).2 (by rw [Nat.mul_comm]; exact h2)
  omega

theorem gemm_large_c4_r2_gupd {T : Type} (A : Arith T) (vs : Nat) (a b : Nat → T)
    (N K block_k k_end j i : Nat) (hk : block_k ≤ k_end) (hj : j + vs * 4 ≤ N) (c : Buffer T) :
    Updated c (gemm_large_c4_r2 A vs a b N K block_k k_end j i c)
      (fun x => (i ≤ x / N ∧ x / N < i + 2) ∧ (j ≤ x % N ∧ x % N < j + vs * 4))
      (fun x => fold_range (gemm_vec_step A a b N K x) (c.val x) block_k k_end) := by
  unfold gemm_large_c4_r2
  simp only []
  generalize hv : forLoop k_end (fun k => decide (k < k_end)) 1 _ block_k _ = v
  let Inv : Nat → Vec T × Vec T × Vec T × Vec T × Vec T × Vec T × Vec T × Vec T → Prop :=
    fun k r => block_k ≤ k ∧ k ≤ k_end ∧
      (∀ l, r.1 l = fold_range
        (fun acc x => A.fmadd (a ((i + 0) * K + x)) (b (x * N + j + l)) acc)
        (c.val ((i + 0) * N + j + l)) block_k k) ∧
      (∀ l, r.2.1 l = fold_range
        (fun acc x => A.fmadd (a ((i + 0) * K + x)) (b (x * N + (j + vs * 1) + l)) acc)
        (c.val ((i + 0) * N + (j + vs * 1) + l)) block_k k) ∧
      (∀ l, r.2.2.1 l = fold_range
        (fun acc x => A.fmadd (a ((i + 0) * K + x)) (b (x * N + (j + vs * 2) + l)) acc)
        (c.val ((i + 0) * N + (j + vs * 2) + l)) block_k k) ∧
      (∀ l, r.2.2.2.1 l = fold_range
        (fun acc x => A.fmadd (a ((i + 0) * K + x)) (b (x * N + (j + vs * 3) + l)) acc)
        (c.val ((i + 0) * N + (j + vs * 3) + l)) block_k k) ∧
      (∀ l, r.2.2.2.2.1 l = fold_range
        (fun acc x => A.fmadd (a ((i + 1) * K + x)) (b (x * N + j + l)) acc)
        (c.val ((i + 1) * N + j + l)) block_k k) ∧
      (∀ l, r.2.2.2.2.2.1 l = fold_range
        (fun acc x => A.fmadd (a ((i + 1) * K + x)) (b (x * N + (j + vs * 1) + l)) acc)
        (c.val ((i + 1) * N + (j + vs * 1) + l)) block_k k) ∧
      (∀ l, r.2.2.2.2.2.2.1 l = fold_range
        (fun acc x => A.fmadd (a ((i + 1) * K + x)) (b (x * N + (j + vs * 2) + l)) acc)
        (c.val ((i + 1) * N + (j + vs * 2) + l)) block_k k) ∧
      (∀ l, r.2.2.2.2.2.2.2 l = fold_range
        (fun acc x => A.fmadd (a ((i + 1) * K + x)) (b (x * N + (j + vs * 3) + l)) acc)
        (c.val ((i + 1) * N + (j + vs * 3) + l)) block_k k)
  have hV : Inv v.1 v.2 ∧ decide (v.1 < k_end) = false := by
    rw [← hv]
    refine forLoop_spec Inv _ 1 _ k_end Nat.one_pos (fun k hk => by simpa using hk) ?_ k_end
      block_k _ (by omega) ?_
    · rintro k ⟨r11, r12, r13, r14, r21, r22, r23, r24⟩ ⟨hbk, hk, h1, h2, h3, h4, h5, h6, h7, h8⟩ hc
      have hc' : k < k_end := by simpa using hc
      try dsimp only at h1 h2 h3 h4 h5 h6 h7 h8
      refine ⟨by omega, hc', ?_, ?_, ?_, ?_, ?_, ?_, ?_, ?_⟩
      all_goals
        intro l
        simp only [Vec.fmadd, Vec.set, Vec.loadu, fold_range_succ _ _ _ _ hbk, h1, h2, h3, h4, h5, h6, h7, h8]
    · simp [Inv, Buffer.loadu, hk, fold_range_self]
  obtain ⟨⟨hbk, hk', h1, h2, h3, h4, h5, h6, h7, h8⟩, hex⟩ := hV
  have hke : v.1 = k_end := by
    have : ¬ v.1 < k_end := by simpa using hex
    omega
  rw [hke] at h1 h2 h3 h4 h5 h6 h7 h8
  have u0 := Updated.upd_refl c
    (fun x => fold_range (gemm_vec_step A a b N K x) (c.val x) block_k k_end)
  have u1 := u0.upd_storeu_row N (i + 0) (j) vs ((i + 0) * N + j) v.2.1
    rfl (by omega)
    (fun l hl => by
      rw [h1 l]
      show _ = fold_range (gemm_vec_step A a b N K ((i + 0) * N + (j + l)))
        (c.val ((i + 0) * N + (j + l))) block_k k_end
      rw [gemm_vec_step_at A a b N K (i + 0) (j + l) (by omega),
        show (i + 0) * N + j + l = (i + 0) * N + (j + l) by ring]
      exact fold_range_congr _ _ _ _ _ (fun acc k => by congr 2; ring))
  have u2 := u1.upd_storeu_row N (i + 0) ((j + vs * 1)) vs ((i + 0) * N + (j + vs * 1)) v.2.2.1
    rfl (by omega)
    (fun l hl => by
      rw [h2 l]
      show _ = fold_range (gemm_vec_step A a b N K ((i + 0) * N + ((j + vs * 1) + l)))
        (c.val ((i + 0) * N + ((j + vs * 1) + l))) block_k k_end
      rw [gemm_vec_step_at A a b N K (i + 0) ((j + vs * 1) + l) (by omega),
        show (i + 0) * N + (j + vs * 1) + l = (i + 0) * N + ((j + vs * 1) + l) by ring]
      exact fold_range_congr _ _ _ _ _ (fun acc k => by congr 2; ring))
  have u3 := u2.upd_storeu_row N (i + 0) ((j + vs * 2)) vs ((i + 0) * N + (j + vs * 2)) v.2.2.2.1
    rfl (by omega)
    (fun l hl => by
      rw [h3 l]
      show _ = fold_range (gemm_vec_step A a b N K ((i + 0) * N + ((j + vs * 2) + l)))
        (c.val ((i + 0) * N + ((j + vs * 2) + l))) block_k k_end
      rw [gemm_vec_step_at A a b N K (i + 0) ((j + vs * 2) + l) (by omega),
        show (i + 0) * N + (j + vs * 2) + l = (i + 0) * N + ((j + vs * 2) + l) by ring]
      exact fold_range_congr _ _ _ _ _ (fun acc k => by congr 2; ring))
  have u4 := u3.upd_storeu_row N (i + 0) ((j + vs * 3)) vs ((i + 0) * N + (j + vs * 3)) v.2.2.2.2.1
    rfl (by omega)
    (fun l hl => by
      rw [h4 l]
      show _ = fold_range (gemm_vec_step A a b N K ((i + 0) * N + ((j + vs * 3) + l)))
        (c.val ((i + 0) * N + ((j + vs * 3) + l))) block_k k_end
      rw [gemm_vec_step_at A a b N K (i + 0) ((j + vs * 3) + l) (by omega),
        show (i + 0) * N + (j + vs * 3) + l = (i + 0) * N + ((j + vs * 3) + l) by ring]
      exact fold_range_congr _ _ _ _ _ (fun acc k => by congr 2; ring))
  have u5 := u4.upd_storeu_row N (i + 1) (j) vs ((i + 1) * N + j) v.2.2.2.2.2.1
    rfl (by omega)
    (fun l hl => by
      rw [h5 l]
      show _ = fold_range (gemm_vec_step A a b N K ((i + 1) * N + (j + l)))
        (c.val ((i + 1) * N + (j + l))) block_k k_end
      rw [gemm_vec_step_at A a b N K (i + 1) (j + l) (by omega),
        show (i + 1) * N + j + l = (i + 1) * N + (j + l) by ring]
      exact fold_range_congr _ _ _ _ _ (fun acc k => by congr 2; ring))
  have u6 := u5.upd_storeu_row N (i + 1) ((j + vs * 1)) vs ((i + 1) * N + (j + vs * 1)) v.2.2.2.2.2.2.1
    rfl (by omega)
    (fun l hl => by
      rw [h6 l]
      show _ = fold_range (gemm_vec_step A a b N K ((i + 1) * N + ((j + vs * 1) + l)))
        (c.val ((i + 1) * N + ((j + vs * 1) + l))) block_k k_end
      rw [gemm_vec_step_at A a b N K (i + 1) ((j + vs * 1) + l) (by omega),
        show (i + 1) * N + (j + vs * 1) + l = (i + 1) * N + ((j + vs * 1) + l) by ring]
      exact fold_range_congr _ _ _ _ _ (fun acc k => by congr 2; ring))
  have u7 := u6.upd_storeu_row N (i + 1) ((j + vs * 2)) vs ((i + 1) * N + (j + vs * 2)) v.2.2.2.2.2.2.2.1
    rfl (by omega)
    (fun l hl => by
      rw [h7 l]
      show _ = fold_range (gemm_vec_step A a b N K ((i + 1) * N + ((j + vs * 2) + l)))
        (c.val ((i + 1) * N + ((j + vs * 2) + l))) block_k k_end
      rw [gemm_vec_step_at A a b N K (i + 1) ((j + vs * 2) + l) (by omega),
        show (i + 1) * N + (j + vs * 2) + l = (i + 1) * N + ((j + vs * 2) + l) by ring]
      exact fold_range_congr _ _ _ _ _ (fun acc k => by congr 2; ring))
  have u8 := u7.upd_storeu_row N (i + 1) ((j + vs * 3)) vs ((i + 1) * N + (j + vs * 3)) v.2.2.2.2.2.2.2.2
    rfl (by omega)
    (fun l hl => by
      rw [h8 l]
      show _ = fold_range (gemm_vec_step A a b N K ((i + 1) * N + ((j + vs * 3) + l)))
        (c.val ((i + 1) * N + ((j + vs * 3) + l))) block_k k_end
      rw [gemm_vec_step_at A a b N K (i + 1) ((j + vs * 3) + l) (by omega),
        show (i + 1) * N + (j + vs * 3) + l = (i + 1) * N + ((j + vs * 3) + l) by ring]
      exact fold_range_congr _ _ _ _ _ (fun acc k => by congr 2; ring))
  exact u8.upd_congr _ _ (fun x => by simp only [false_or]; omega) (fun _ _ => rfl)

theorem gemm_large_c4_r1_gupd {T : Type} (A : Arith T) (vs : Nat) (a b : Nat → T)
    (N K block_k k_end j i : Nat) (hk : block_k ≤ k_end) (hj : j + vs * 4 ≤ N) (c : Buffer T) :
    Updated c (gemm_large_c4_r1 A vs a b N K block_k k_end j i c)
      (fun x => (i ≤ x / N ∧ x / N < i + 1) ∧ (j ≤ x % N ∧ x % N < j + vs * 4))
      (fun x => fold_range (gemm_vec_step A a b N K x) (c.val x) block_k k_end) := by
  unfold gemm_large_c4_r1
  simp only []
  generalize hv : forLoop k_end (fun k => decide (k < k_end)) 1 _ block_k _ = v
  let Inv : Nat → Vec T × Vec T × Vec T × Vec T → Prop :=
    fun k r => block_k ≤ k ∧ k ≤ k_end ∧
      (∀ l, r.1 l = fold_range
        (fun acc x => A.fmadd (a ((i + 0) * K + x)) (b (x * N + j + l)) acc)
        (c.val ((i + 0) * N + j + l)) block_k k) ∧
      (∀ l, r.2.1 l = fold_range
        (fun acc x => A.fmadd (a ((i + 0) * K + x)) (b (x * N + (j + vs * 1) + l)) acc)
        (c.val ((i + 0) * N + (j + vs * 1) + l)) block_k k) ∧
      (∀ l, r.2.2.1 l = fold_range
        (fun acc x => A.fmadd (a ((i + 0) * K + x)) (b (x * N + (j + vs * 2) + l)) acc)
        (c.val ((i + 0) * N + (j + vs * 2) + l)) block_k k) ∧
      (∀ l, r.2.2.2 l = fold_range
        (fun acc x => A.fmadd (a ((i + 0) * K + x)) (b (x * N + (j + vs * 3) + l)) acc)
        (c.val ((i + 0) * N + (j + vs * 3) + l)) block_k k)
  have hV : Inv v.1 v.2 ∧ decide (v.1 < k_end) = false := by
    rw [← hv]
    refine forLoop_spec Inv _ 1 _ k_end Nat.one_pos (fun k hk => by simpa using hk) ?_ k_end
      block_k _ (by omega) ?_
    · rintro k ⟨r1, r2, r3, r4⟩ ⟨hbk, hk, h1, h2, h3, h4⟩ hc
      have hc' : k < k_end := by simpa using hc
      try dsimp only at h1 h2 h3 h4
      refine ⟨by omega, hc', ?_, ?_, ?_, ?_⟩
      all_goals
        intro l
        simp only [Vec.fmadd, Vec.set, Vec.loadu, fold_range_succ _ _ _ _ hbk, h1, h2, h3, h4]
    · simp [Inv, Buffer.loadu, hk, fold_range_self]
  obtain ⟨⟨hbk, hk', h1, h2, h3, h4⟩, hex⟩ := hV
  have hke : v.1 = k_end := by
    have : ¬ v.1 < k_end := by simpa using hex
    omega
  rw [hke] at h1 h2 h3 h4
  have u0 := Updated.upd_refl c
    (fun x => fold_range (gemm_vec_step A a b N K x) (c.val x) block_k k_end)
  have u1 := u0.upd_storeu_row N (i + 0) (j) vs ((i + 0) * N + j) v.2.1
    rfl (by omega)
    (fun l hl => by
      rw [h1 l]
      show _ = fold_range (gemm_vec_step A a b N K ((i + 0) * N + (j + l)))
        (c.val ((i + 0) * N + (j + l))) block_k k_end
      rw [gemm_vec_step_at A a b N K (i + 0) (j + l) (by omega),
        show (i + 0) * N + j + l = (i + 0) * N + (j + l) by ring]
      exact fold_range_congr _ _ _ _ _ (fun acc k => by congr 2; ring))
  have u2 := u1.upd_storeu_row N (i + 0) ((j + vs * 1)) vs ((i + 0) * N + (j + vs * 1)) v.2.2.1
    rfl (by omega)
    (fun l hl => by
      rw [h2 l]
      show _ = fold_range (gemm_vec_step A a b N K ((i + 0) * N + ((j + vs * 1) + l)))
        (c.val ((i + 0) * N + ((j + vs * 1) + l))) block_k k_end
      rw [gemm_vec_step_at A a b N K (i + 0) ((j + vs * 1) + l) (by omega),
        show (i + 0) * N + (j + vs * 1) + l = (i + 0) * N + ((j + vs * 1) + l) by ring]
      exact fold_range_congr _ _ _ _ _ (fun acc k => by congr 2; ring))
  have u3 := u2.upd_storeu_row N (i + 0) ((j + vs * 2)) vs ((i + 0) * N + (j + vs * 2)) v.2.2.2.1
    rfl (by omega)
    (fun l hl => by
      rw [h3 l]
      show _ = fold_range (gemm_vec_step A a b N K ((i + 0) * N + ((j + vs * 2) + l)))
        (c.val ((i + 0) * N + ((j + vs * 2) + l))) block_k k_end
      rw [gemm_vec_step_at A a b N K (i + 0) ((j + vs * 2) + l) (by omega),
        show (i + 0) * N + (j + vs * 2) + l = (i + 0) * N + ((j + vs * 2) + l) by ring]
      exact fold_range_congr _ _ _ _ _ (fun acc k => by congr 2; ring))
  have u4 := u3.upd_storeu_row N (i + 0) ((j + vs * 3)) vs ((i + 0) * N + (j + vs * 3)) v.2.2.2.2
    rfl (by omega)
    (fun l hl => by
      rw [h4 l]
      show _ = fold_range (gemm_vec_step A a b N K ((i + 0) * N + ((j + vs * 3) + l)))
        (c.val ((i + 0) * N + ((j + vs * 3) + l))) block_k k_end
      rw [gemm_vec_step_at A a b N K (i + 0) ((j + vs * 3) + l) (by omega),
        show (i + 0) * N + (j + vs * 3) + l = (i + 0) * N + ((j + vs * 3) + l) by ring]
      exact fold_range_congr _ _ _ _ _ (fun acc k => by congr 2; ring))
  exact u4.upd_congr _ _ (fun x => by simp only [false_or]; omega) (fun _ _ => rfl)

theorem gemm_large_c2_r4_gupd {T : Type} (A : Arith T) (vs : Nat) (a b : Nat → T)
    (N K block_k k_end j i : Nat) (hk : block_k ≤ k_end) (hj : j + vs * 2 ≤ N) (c : Buffer T) :
    Updated c (gemm_large_c2_r4 A vs a b N K block_k k_end j i c)
      (fun x => (i ≤ x / N ∧ x / N < i + 4) ∧ (j ≤ x % N ∧ x % N < j + vs * 2))
      (fun x => fold_range (gemm_vec_step A a b N K x) (c.val x) block_k k_end) := by
  unfold gemm_large_c2_r4
  simp only []
  generalize hv : forLoop k_end (fun k => decide (k < k_end)) 1 _ block_k _ = v
  let Inv : Nat → Vec T × Vec T × Vec T × Vec T × Vec T × Vec T × Vec T × Vec T → Prop :=
    fun k r => block_k ≤ k ∧ k ≤ k_end ∧
      (∀ l, r.1 l = fold_range
        (fun acc x => A.fmadd (a ((i + 0) * K + x)) (b (x * N + j + l)) acc)
        (c.val ((i + 0) * N + j + l)) block_k k) ∧
      (∀ l, r.2.1 l = fold_range
        (fun acc x => A.fmadd (a ((i + 0) * K + x)) (b (x * N + (j + vs) + l)) acc)
        (c.val ((i + 0) * N + (j + vs) + l)) block_k k) ∧
      (∀ l, r.2.2.1 l = fold_range
        (fun acc x => A.fmadd (a ((i + 1) * K + x)) (b (x * N + j + l)) acc)
        (c.val ((i + 1) * N + j + l)) block_k k) ∧
      (∀ l, r.2.2.2.1 l = fold_range
        (fun acc x => A.fmadd (a ((i + 1) * K + x)) (b (x * N + (j + vs) + l)) acc)
        (c.val ((i + 1) * N + (j + vs) + l)) block_k k) ∧
      (∀ l, r.2.2.2.2.1 l = fold_range
        (fun acc x => A.fmadd (a ((i + 2) * K + x)) (b (x * N + j + l)) acc)
        (c.val ((i + 2) * N + j + l)) block_k k) ∧
      (∀ l, r.2.2.2.2.2.1 l = fold_range
        (fun acc x => A.fmadd (a ((i + 2) * K + x)) (b (x * N + (j + vs) + l)) acc)
        (c.val ((i + 2) * N + (j + vs) + l)) block_k k) ∧
      (∀ l, r.2.2.2.2.2.2.1 l = fold_range
        (fun acc x => A.fmadd (a ((i + 3) * K + x)) (b (x * N + j + l)) acc)
        (c.val ((i + 3) * N + j + l)) block_k k) ∧
      (∀ l, r.2.2.2.2.2.2.2 l = fold_range
        (fun acc x => A.fmadd (a ((i + 3) * K + x)) (b (x * N + (j + vs) + l)) acc)
        (c.val ((i + 3) * N + (j + vs) + l)) block_k k)
  have hV : Inv v.1 v.2 ∧ decide (v.1 < k_end) = false := by
    rw [← hv]
    refine forLoop_spec Inv _ 1 _ k_end Nat.one_pos (fun k hk => by simpa using hk) ?_ k_end
      block_k _ (by omega) ?_
    · rintro k ⟨r11, r12, r21, r22, r31, r32, r41, r42⟩ ⟨hbk, hk, h1, h2, h3, h4, h5, h6, h7, h8⟩ hc
      have hc' : k < k_end := by simpa using hc
      try dsimp only at h1 h2 h3 h4 h5 h6 h7 h8
      refine ⟨by omega, hc', ?_, ?_, ?_, ?_, ?_, ?_, ?_, ?_⟩
      all_goals
        intro l
        simp only [Vec.fmadd, Vec.set, Vec.loadu, fold_range_succ _ _ _ _ hbk, h1, h2, h3, h4, h5, h6, h7, h8]
    · simp [Inv, Buffer.loadu, hk, fold_range_self]
  obtain ⟨⟨hbk, hk', h1, h2, h3, h4, h5, h6, h7, h8⟩, hex⟩ := hV
  have hke : v.1 = k_end := by
    have : ¬ v.1 < k_end := by simpa using hex
    omega
  rw [hke] at h1 h2 h3 h4 h5 h6 h7 h8
  have u0 := Updated.upd_refl c
    (fun x => fold_range (gemm_vec_step A a b N K x) (c.val x) block_k k_end)
  have u1 := u0.upd_storeu_row N (i + 0) (j) vs ((i + 0) * N + j) v.2.1
    rfl (by omega)
    (fun l hl => by
      rw [h1 l]
      show _ = fold_range (gemm_vec_step A a b N K ((i + 0) * N + (j + l)))
        (c.val ((i + 0) * N + (j + l))) block_k k_end
      rw [gemm_vec_step_at A a b N K (i + 0) (j + l) (by omega),
        show (i + 0) * N + j + l = (i + 0) * N + (j + l) by ring]
      exact fold_range_congr _ _ _ _ _ (fun acc k => by congr 2; ring))
  have u2 := u1.upd_storeu_row N (i + 0) ((j + vs)) vs ((i + 0) * N + (j + vs)) v.2.2.1
    rfl (by omega)
    (fun l hl => by
      rw [h2 l]
      show _ = fold_range (gemm_vec_step A a b N K ((i + 0) * N + ((j + vs) + l)))
        (c.val ((i + 0) * N + ((j + vs) + l))) block_k k_end
      rw [gemm_vec_step_at A a b N K (i + 0) ((j + vs) + l) (by omega),
        show (i + 0) * N + (j + vs) + l = (i + 0) * N + ((j + vs) + l) by ring]
      exact fold_range_congr _ _ _ _ _ (fun acc k => by congr 2; ring))
  have u3 := u2.upd_storeu_row N (i + 1) (j) vs ((i + 1) * N + j) v.2.2.2.1
    rfl (by omega)
    (fun l hl => by
      rw [h3 l]
      show _ = fold_range (gemm_vec_step A a b N K ((i + 1) * N + (j + l)))
        (c.val ((i + 1) * N + (j + l))) block_k k_end
      rw [gemm_vec_step_at A a b N K (i + 1) (j + l) (by omega),
        show (i + 1) * N + j + l = (i + 1) * N + (j + l) by ring]
      exact fold_range_congr _ _ _ _ _ (fun acc k => by congr 2; ring))
  have u4 := u3.upd_storeu_row N (i + 1) ((j + vs)) vs ((i + 1) * N + (j + vs)) v.2.2.2.2.1
    rfl (by omega)
    (fun l hl => by
      rw [h4 l]
      show _ = fold_range (gemm_vec_step A a b N K ((i + 1) * N + ((j + vs) + l)))
        (c.val ((i + 1) * N + ((j + vs) + l))) block_k k_end
      rw [gemm_vec_step_at A a b N K (i + 1) ((j + vs) + l) (by omega),
        show (i + 1) * N + (j + vs) + l = (i + 1) * N + ((j + vs) + l) by ring]
      exact fold_range_congr _ _ _ _ _ (fun acc k => by congr 2; ring))
  have u5 := u4.upd_storeu_row N (i + 2) (j) vs ((i + 2) * N + j) v.2.2.2.2.2.1
    rfl (by omega)
    (fun l hl => by
      rw [h5 l]
      show _ = fold_range (gemm_vec_step A a b N K ((i + 2) * N + (j + l)))
        (c.val ((i + 2) * N + (j + l))) block_k k_end
      rw [gemm_vec_step_at A a b N K (i + 2) (j + l) (by omega),
        show (i + 2) * N + j + l = (i + 2) * N + (j + l) by ring]
      exact fold_range_congr _ _ _ _ _ (fun acc k => by congr 2; ring))
  have u6 := u5.upd_storeu_row N (i + 2) ((j + vs)) vs ((i + 2) * N + (j + vs)) v.2.2.2.2.2.2.1
    rfl (by omega)
    (fun l hl => by
      rw [h6 l]
      show _ = fold_range (gemm_vec_step A a b N K ((i + 2) * N + ((j + vs) + l)))
        (c.val ((i + 2) * N + ((j + vs) + l))) block_k k_end
      rw [gemm_vec_step_at A a b N K (i + 2) ((j + vs) + l) (by omega),
        show (i + 2) * N + (j + vs) + l = (i + 2) * N + ((j + vs) + l) by ring]
      exact fold_range_congr _ _ _ _ _ (fun acc k => by congr 2; ring))
  have u7 := u6.upd_storeu_row N (i + 3) (j) vs ((i + 3) * N + j) v.2.2.2.2.2.2.2.1
    rfl (by omega)
    (fun l hl => by
      rw [h7 l]
      show _ = fold_range (gemm_vec_step A a b N K ((i + 3) * N + (j + l)))
        (c.val ((i + 3) * N + (j + l))) block_k k_end
      rw [gemm_vec_step_at A a b N K (i + 3) (j + l) (by omega),
        show (i + 3) * N + j + l = (i + 3) * N + (j + l) by ring]
      exact fold_range_congr _ _ _ _ _ (fun acc k => by congr 2; ring))
  have u8 := u7.upd_storeu_row N (i + 3) ((j + vs)) vs ((i + 3) * N + (j + vs)) v.2.2.2.2.2.2.2.2
    rfl (by omega)
    (fun l hl => by
      rw [h8 l]
      show _ = fold_range (gemm_vec_step A a b N K ((i + 3) * N + ((j + vs) + l)))
        (c.val ((i + 3) * N + ((j + vs) + l))) block_k k_end
      rw [gemm_vec_step_at A a b N K (i + 3) ((j + vs) + l) (by omega),
        show (i + 3) * N + (j + vs) + l = (i + 3) * N + ((j + vs) + l) by ring]
      exact fold_range_congr _ _ _ _ _ (fun acc k => by congr 2; ring))
  exact u8.upd_congr _ _ (fun x => by simp only [false_or]; omega) (fun _ _ => rfl)

theorem gemm_large_c2_r2_gupd {T : Type} (A : Arith T) (vs : Nat) (a b : Nat → T)
    (N K block_k k_end j i : Nat) (hk : block_k ≤ k_end) (hj : j + vs * 2 ≤ N) (c : Buffer T) :
    Updated c (gemm_large_c2_r2 A vs a b N K block_k k_end j i c)
      (fun x => (i ≤ x / N ∧ x / N < i + 2) ∧ (j ≤ x % N ∧ x % N < j + vs * 2))
      (fun x => fold_range (gemm_vec_step A a b N K x) (c.val x) block_k k_end) := by
  unfold gemm_large_c2_r2
  simp only []
  generalize hv : forLoop k_end (fun k => decide (k < k_end)) 1 _ block_k _ = v
  let Inv : Nat → Vec T × Vec T × Vec T × Vec T → Prop :=
    fun k r => block_k ≤ k ∧ k ≤ k_end ∧
      (∀ l, r.1 l = fold_range
        (fun acc x => A.fmadd (a ((i + 0) * K + x)) (b (x * N + j + l)) acc)
        (c.val ((i + 0) * N + j + l)) block_k k) ∧
      (∀ l, r.2.1 l = fold_range
        (fun acc x => A.fmadd (a ((i + 0) * K + x)) (b (x * N + (j + vs) + l)) acc)
        (c.val ((i + 0) * N + (j + vs) + l)) block_k k) ∧
      (∀ l, r.2.2.1 l = fold_range
        (fun acc x => A.fmadd (a ((i + 1) * K + x)) (b (x * N + j + l)) acc)
        (c.val ((i + 1) * N + j + l)) block_k k) ∧
      (∀ l, r.2.2.2 l = fold_range
        (fun acc x => A.fmadd (a ((i + 1) * K + x)) (b (x * N + (j + vs) + l)) acc)
        (c.val ((i + 1) * N + (j + vs) + l)) block_k k)
  have hV : Inv v.1 v.2 ∧ decide (v.1 < k_end) = false := by
    rw [← hv]
    refine forLoop_spec Inv _ 1 _ k_end Nat.one_pos (fun k hk => by simpa using hk) ?_ k_end
      block_k _ (by omega) ?_
    · rintro k ⟨r11, r12, r21, r22⟩ ⟨hbk, hk, h1, h2, h3, h4⟩ hc
      have hc' : k < k_end := by simpa using hc
      try dsimp only at h1 h2 h3 h4
      refine ⟨by omega, hc', ?_, ?_, ?_, ?_⟩
      all_goals
        intro l
        simp only [Vec.fmadd, Vec.set, Vec.loadu, fold_range_succ _ _ _ _ hbk, h1, h2, h3, h4]
    · simp [Inv, Buffer.loadu, hk, fold_range_self]
  obtain ⟨⟨hbk, hk', h1, h2, h3, h4⟩, hex⟩ := hV
  have hke : v.1 = k_end := by
    have : ¬ v.1 < k_end := by simpa using hex
    omega
  rw [hke] at h1 h2 h3 h4
  have u0 := Updated.upd_refl c
    (fun x => fold_range (gemm_vec_step A a b N K x) (c.val x) block_k k_end)
  have u1 := u0.upd_storeu_row N (i + 0) (j) vs ((i + 0) * N + j) v.2.1
    rfl (by omega)
    (fun l hl => by
      rw [h1 l]
      show _ = fold_range (gemm_vec_step A a b N K ((i + 0) * N + (j + l)))
        (c.val ((i + 0) * N + (j + l))) block_k k_end
      rw [gemm_vec_step_at A a b N K (i + 0) (j + l) (by omega),
        show (i + 0) * N + j + l = (i + 0) * N + (j + l) by ring]
      exact fold_range_congr _ _ _ _ _ (fun acc k => by congr 2; ring))
  have u2 := u1.upd_storeu_row N (i + 0) ((j + vs)) vs ((i + 0) * N + (j + vs)) v.2.2.1
    rfl (by omega)
    (fun l hl => by
      rw [h2 l]
      show _ = fold_range (gemm_vec_step A a b N K ((i + 0) * N + ((j + vs) + l)))
        (c.val ((i + 0) * N + ((j + vs) + l))) block_k k_end
      rw [gemm_vec_step_at A a b N K (i + 0) ((j + vs) + l) (by omega),
        show (i + 0) * N + (j + vs) + l = (i + 0) * N + ((j + vs) + l) by ring]
      exact fold_range_congr _ _ _ _ _ (fun acc k => by congr 2; ring))
  have u3 := u2.upd_storeu_row N (i + 1) (j) vs ((i + 1) * N + j) v.2.2.2.1
    rfl (by omega)
    (fun l hl => by
      rw [h3 l]
      show _ = fold_range (gemm_vec_step A a b N K ((i + 1) * N + (j + l)))
        (c.val ((i + 1) * N + (j + l))) block_k k_end
      rw [gemm_vec_step_at A a b N K (i + 1) (j + l) (by omega),
        show (i + 1) * N + j + l = (i + 1) * N + (j + l) by ring]
      exact fold_range_congr _ _ _ _ _ (fun acc k => by congr 2; ring))
  have u4 := u3.upd_storeu_row N (i + 1) ((j + vs)) vs ((i + 1) * N + (j + vs)) v.2.2.2.2
    rfl (by omega)
    (fun l hl => by
      rw [h4 l]
      show _ = fold_range (gemm_vec_step A a b N K ((i + 1) * N + ((j + vs) + l)))
        (c.val ((i + 1) * N + ((j + vs) + l))) block_k k_end
      rw [gemm_vec_step_at A a b N K (i + 1) ((j + vs) + l) (by omega),
        show (i + 1) * N + (j + vs) + l = (i + 1) * N + ((j + vs) + l) by ring]
      exact fold_range_congr _ _ _ _ _ (fun acc k => by congr 2; ring))
  exact u4.upd_congr _ _ (fun x => by simp only [false_or]; omega) (fun _ _ => rfl)

theorem gemm_large_c2_r1_gupd {T : Type} (A : Arith T) (vs : Nat) (a b : Nat → T)
    (N K block_k k_end j i : Nat) (hk : block_k ≤ k_end) (hj : j + vs * 2 ≤ N) (c : Buffer T) :
    Updated c (gemm_large_c2_r1 A vs a b N K block_k k_end j i c)
      (fun x => (i ≤ x / N ∧ x / N < i + 1) ∧ (j ≤ x % N ∧ x % N < j + vs * 2))
      (fun x => fold_range (gemm_vec_step A a b N K x) (c.val x) block_k k_end) := by
  unfold gemm_large_c2_r1
  simp only []
  generalize hv : forLoop k_end (fun k => decide (k < k_end)) 1 _ block_k _ = v
  let Inv : Nat → Vec T × Vec T → Prop :=
    fun k r => block_k ≤ k ∧ k ≤ k_end ∧
      (∀ l, r.1 l = fold_range
        (fun acc x => A.fmadd (a ((i + 0) * K + x)) (b (x * N + j + l)) acc)
        (c.val ((i + 0) * N + j + l)) block_k k) ∧
      (∀ l, r.2 l = fold_range
        (fun acc x => A.fmadd (a ((i + 0) * K + x)) (b (x * N + (j + vs) + l)) acc)
        (c.val ((i + 0) * N + (j + vs) + l)) block_k k)
  have hV : Inv v.1 v.2 ∧ decide (v.1 < k_end) = false := by
    rw [← hv]
    refine forLoop_spec Inv _ 1 _ k_end Nat.one_pos (fun k hk => by simpa using hk) ?_ k_end
      block_k _ (by omega) ?_
    · rintro k ⟨r1, r2⟩ ⟨hbk, hk, h1, h2⟩ hc
      have hc' : k < k_end := by simpa using hc
      try dsimp only at h1 h2
      refine ⟨by omega, hc', ?_, ?_⟩
      all_goals
        intro l
        simp only [Vec.fmadd, Vec.set, Vec.loadu, fold_range_succ _ _ _ _ hbk, h1, h2]
    · simp [Inv, Buffer.loadu, hk, fold_range_self]
  obtain ⟨⟨hbk, hk', h1, h2⟩, hex⟩ := hV
  have hke : v.1 = k_end := by
    have : ¬ v.1 < k_end := by simpa using hex
    omega
  rw [hke] at h1 h2
  have u0 := Updated.upd_refl c
    (fun x => fold_range (gemm_vec_step A a b N K x) (c.val x) block_k k_end)
  have u1 := u0.upd_storeu_row N (i + 0) (j) vs ((i + 0) * N + j) v.2.1
    rfl (by omega)
    (fun l hl => by
      rw [h1 l]
      show _ = fold_range (gemm_vec_step A a b N K ((i + 0) * N + (j + l)))
        (c.val ((i + 0) * N + (j + l))) block_k k_end
      rw [gemm_vec_step_at A a b N K (i + 0) (j + l) (by omega),
        show (i + 0) * N + j + l = (i + 0) * N + (j + l) by ring]
      exact fold_range_congr _ _ _ _ _ (fun acc k => by congr 2; ring))
  have u2 := u1.upd_storeu_row N (i + 0) ((j + vs)) vs ((i + 0) * N + (j + vs)) v.2.2
    rfl (by omega)
    (fun l hl => by
      rw [h2 l]
      show _ = fold_range (gemm_vec_step A a b N K ((i + 0) * N + ((j + vs) + l)))
        (c.val ((i + 0) * N + ((j + vs) + l))) block_k k_end
      rw [gemm_vec_step_at A a b N K (i + 0) ((j + vs) + l) (by omega),
        show (i + 0) * N + (j + vs) + l = (i + 0) * N + ((j + vs) + l) by ring]
      exact fold_range_congr _ _ _ _ _ (fun acc k => by congr 2; ring))
  exact u2.upd_congr _ _ (fun x => by simp only [false_or]; omega) (fun _ _ => rfl)

theorem gemm_large_c1_r1_gupd {T : Type} (A : Arith T) (vs : Nat) (a b : Nat → T)
    (N K block_k k_end j i : Nat) (hk : block_k ≤ k_end) (hj : j + vs ≤ N) (c : Buffer T) :
    Updated c (gemm_large_c1_r1 A vs a b N K block_k k_end j i c)
      (fun x => (i ≤ x / N ∧ x / N < i + 1) ∧ (j ≤ x % N ∧ x % N < j + vs))
      (fun x => fold_range (gemm_vec_step A a b N K x) (c.val x) block_k k_end) := by
  unfold gemm_large_c1_r1
  simp only []
  generalize hv : forLoop k_end (fun k => decide (k < k_end)) 1 _ block_k _ = v
  let Inv : Nat → Vec T → Prop :=
    fun k r => block_k ≤ k ∧ k ≤ k_end ∧
      (∀ l, r l = fold_range
        (fun acc x => A.fmadd (a ((i + 0) * K + x)) (b (x * N + j + l)) acc)
        (c.val ((i + 0) * N + j + l)) block_k k)
  have hV : Inv v.1 v.2 ∧ decide (v.1 < k_end) = false := by
    rw [← hv]
    refine forLoop_spec Inv _ 1 _ k_end Nat.one_pos (fun k hk => by simpa using hk) ?_ k_end
      block_k _ (by omega) ?_
    · rintro k r1 ⟨hbk, hk, h1⟩ hc
      have hc' : k < k_end := by simpa using hc
      try dsimp only at h1
      refine ⟨by omega, hc', ?_⟩
      all_goals
        intro l
        simp only [Vec.fmadd, Vec.set, Vec.loadu, fold_range_succ _ _ _ _ hbk, h1]
    · simp [Inv, Buffer.loadu, hk, fold_range_self]
  obtain ⟨⟨hbk, hk', h1⟩, hex⟩ := hV
  have hke : v.1 = k_end := by
    have : ¬ v.1 < k_end := by simpa using hex
    omega
  rw [hke] at h1
  have u0 := Updated.upd_refl c
    (fun x => fold_range (gemm_vec_step A a b N K x) (c.val x) block_k k_end)
  have u1 := u0.upd_storeu_row N (i + 0) (j) vs ((i + 0) * N + j) v.2
    rfl (by omega)
    (fun l hl => by
      rw [h1 l]
      show _ = fold_range (gemm_vec_step A a b N K ((i + 0) * N + (j + l)))
        (c.val ((i + 0) * N + (j + l))) block_k k_end
      rw [gemm_vec_step_at A a b N K (i + 0) (j + l) (by omega),
        show (i + 0) * N + j + l = (i + 0) * N + (j + l) by ring]
      exact fold_range_congr _ _ _ _ _ (fun acc k => by congr 2; ring))
  exact u1.upd_congr _ _ (fun x => by simp only [false_or]; omega) (fun _ _ => rfl)

theorem gemm_large_s1_r1_gupd {T : Type} (A : Arith T) (a b : Nat → T)
    (N K block_k k_end j i : Nat) (hk : block_k ≤ k_end) (hj : j + 1 ≤ N) (c : Buffer T) :
    Updated c (gemm_large_s1_r1 A a b N K block_k k_end j i c)
      (fun x => (i ≤ x / N ∧ x / N < i + 1) ∧ (j ≤ x % N ∧ x % N < j + 1))
      (fun x => fold_range (gemm_scalar_step A a b N K x) (c.val x) block_k k_end) := by
  unfold gemm_large_s1_r1
  simp only []
  generalize hv : forLoop k_end (fun k => decide (k < k_end)) 1 _ block_k _ = v
  have hV : (block_k ≤ v.1 ∧ v.1 ≤ k_end ∧
      v.2 = fold_range (fun acc x => A.add acc (A.mul (a (i * K + x)) (b (x * N + j))))
        (c.val (i * N + j)) block_k v.1) ∧
      decide (v.1 < k_end) = false := by
    rw [← hv]
    refine forLoop_spec (fun k (r : T) => block_k ≤ k ∧ k ≤ k_end ∧
        r = fold_range (fun acc x => A.add acc (A.mul (a (i * K + x)) (b (x * N + j))))
          (c.val (i * N + j)) block_k k)
      _ 1 _ k_end Nat.one_pos (fun k hk => by simpa using hk) ?_ k_end block_k _ (by omega) ?_
    · rintro k r ⟨hbk, hk, h1⟩ hc
      have hc' : k < k_end := by simpa using hc
      refine ⟨by omega, hc', ?_⟩
      simp only [fold_range_succ _ _ _ _ hbk, h1]
    · simp [hk, fold_range_self]
  obtain ⟨⟨hbk, hk', h1⟩, hex⟩ := hV
  have hke : v.1 = k_end := by
    have : ¬ v.1 < k_end := by simpa using hex
    omega
  rw [hke] at h1
  have u1 := (Updated.upd_refl c
    (fun x => fold_range (gemm_scalar_step A a b N K x) (c.val x) block_k k_end)).upd_write_row
    N i j (i * N + j) v.2 rfl (by omega)
    (by
      rw [h1]
      show _ = fold_range (gemm_scalar_step A a b N K (i * N + j)) (c.val (i * N + j))
        block_k k_end
      rw [gemm_scalar_step_at A a b N K i j (by omega)])
  exact u1.upd_congr _ _ (fun x => by simp only [false_or]; omega) (fun _ _ => rfl)


theorem gemm_large_cols4_gupd {T : Type} (A : Arith T) (vs : Nat) (a b : Nat → T)
    (N K block_k k_end block_i i_end j : Nat) (hk : block_k ≤ k_end) (hi : block_i ≤ i_end)
    (hj : j + vs * 4 ≤ N) (c : Buffer T) :
    Updated c (gemm_large_cols4 A vs a b N K block_k k_end block_i i_end j c)
      (fun x => (j ≤ x % N ∧ x % N < j + vs * 4) ∧ (block_i ≤ x / N ∧ x / N < i_end))
      (fun x => fold_range (gemm_vec_step A a b N K x) (c.val x) block_k k_end) := by
  unfold gemm_large_cols4
  try simp only []
  have s0 := sweep_map (fun x => x / N) (fun x => j ≤ x % N ∧ x % N < j + vs * 4) c
    (fun v x => fold_range (gemm_vec_step A a b N K x) v block_k k_end) i_end 2
    (gemm_large_c4_r2 A vs a b N K block_k k_end j)
    (fun i => decide (i + 1 < i_end))
    (by norm_num) (fun i hi => by have h := of_decide_eq_true hi; omega)
    block_i block_i c (le_refl _) hi
    (fun i c' _ _ => gemm_large_c4_r2_gupd A vs a b N K block_k k_end j i hk hj c')
    (Updated.empty c _ _ (fun x h => by omega))
  generalize forLoop i_end (fun i => decide (i + 1 < i_end)) 2 _ block_i c = t0 at s0 ⊢
  have hlo0 : block_i ≤ t0.1 := by have := s0.1.1; omega
  obtain ⟨⟨_, hle, hf⟩, hex⟩ := s0
  have hex' : ¬ t0.1 + 1 < i_end := of_decide_eq_false hex
  by_cases hlt : t0.1 < i_end
  · rw [if_pos hlt]
    exact Updated.upd_seq_map (F := (fun v x => fold_range (gemm_vec_step A a b N K x) v block_k k_end)) hf
      (gemm_large_c4_r1_gupd A vs a b N K block_k k_end j t0.1 hk hj t0.2)
      (fun x hp hq => by beta_reduce at hp hq; generalize x / N = q at hp hq
                         generalize x % N = r at hp hq; omega) _
      (fun x => by beta_reduce; generalize x / N = q; generalize x % N = r; omega)
  · rw [if_neg hlt]
    exact hf.upd_congr _ _ (fun x => by beta_reduce; generalize x / N = q; generalize x % N = r; omega)
      (fun _ _ => rfl)

theorem gemm_large_cols2_gupd {T : Type} (A : Arith T) (vs : Nat) (a b : Nat → T)
    (N K block_k k_end block_i i_end j : Nat) (hk : block_k ≤ k_end) (hi : block_i ≤ i_end)
    (hj : j + vs * 2 ≤ N) (c : Buffer T) :
    Updated c (gemm_large_cols2 A vs a b N K block_k k_end block_i i_end j c)
      (fun x => (j ≤ x % N ∧ x % N < j + vs * 2) ∧ (block_i ≤ x / N ∧ x / N < i_end))
      (fun x => fold_range (gemm_vec_step A a b N K x) (c.val x) block_k k_end) := by
  unfold gemm_large_cols2
  try simp only []
  have s0 := sweep_map (fun x => x / N) (fun x => j ≤ x % N ∧ x % N < j + vs * 2) c
    (fun v x => fold_range (gemm_vec_step A a b N K x) v block_k k_end) i_end 4
    (gemm_large_c2_r4 A vs a b N K block_k k_end j)
    (fun i => decide (i + 3 < i_end))
    (by norm_num) (fun i hi => by have h := of_decide_eq_true hi; omega)
    block_i block_i c (le_refl _) hi
    (fun i c' _ _ => gemm_large_c2_r4_gupd A vs a b N K block_k k_end j i hk hj c')
    (Updated.empty c _ _ (fun x h => by omega))
  generalize forLoop i_end (fun i => decide (i + 3 < i_end)) 4 _ block_i c = t0 at s0 ⊢
  have hlo0 : block_i ≤ t0.1 := by have := s0.1.1; omega
  have s1 := sweep_map (fun x => x / N) (fun x => j ≤ x % N ∧ x % N < j + vs * 2) c
    (fun v x => fold_range (gemm_vec_step A a b N K x) v block_k k_end) i_end 2
    (gemm_large_c2_r2 A vs a b N K block_k k_end j)
    (fun i => decide (i + 2 - 1 < i_end))
    (by norm_num) (fun i hi => by have h := of_decide_eq_true hi; omega)
    block_i t0.1 t0.2 hlo0 s0.1.2.1
    (fun i c' _ _ => gemm_large_c2_r2_gupd A vs a b N K block_k k_end j i hk hj c')
    s0.1.2.2
  generalize forLoop i_end (fun i => decide (i + 2 - 1 < i_end)) 2 _ t0.1 t0.2 = t1 at s1 ⊢
  have hlo1 : block_i ≤ t1.1 := by have := s1.1.1; omega
  obtain ⟨⟨_, hle, hf⟩, hex⟩ := s1
  have hex' : ¬ t1.1 + 2 - 1 < i_end := of_decide_eq_false hex
  by_cases hlt : t1.1 < i_end
  · rw [if_pos hlt]
    exact Updated.upd_seq_map (F := (fun v x => fold_range (gemm_vec_step A a b N K x) v block_k k_end)) hf
      (gemm_large_c2_r1_gupd A vs a b N K block_k k_end j t1.1 hk hj t1.2)
      (fun x hp hq => by beta_reduce at hp hq; generalize x / N = q at hp hq
                         generalize x % N = r at hp hq; omega) _
      (fun x => by beta_reduce; generalize x / N = q; generalize x % N = r; omega)
  · rw [if_neg hlt]
    exact hf.upd_congr _ _ (fun x => by beta_reduce; generalize x / N = q; generalize x % N = r; omega)
      (fun _ _ => rfl)

theorem gemm_large_cols1_gupd {T : Type} (A : Arith T) (vs : Nat) (a b : Nat → T)
    (N K block_k k_end block_i i_end j : Nat) (hk : block_k ≤ k_end) (hi : block_i ≤ i_end)
    (hj : j + vs ≤ N) (c : Buffer T) :
    Updated c (gemm_large_cols1 A vs a b N K block_k k_end block_i i_end j c)
      (fun x => (j ≤ x % N ∧ x % N < j + vs) ∧ (block_i ≤ x / N ∧ x / N < i_end))
      (fun x => fold_range (gemm_vec_step A a b N K x) (c.val x) block_k k_end) := by
  unfold gemm_large_cols1
  try simp only []
  have s0 := sweep_map (fun x => x / N) (fun x => j ≤ x % N ∧ x % N < j + vs) c
    (fun v x => fold_range (gemm_vec_step A a b N K x) v block_k k_end) i_end 1
    (gemm_large_c1_r1 A vs a b N K block_k k_end j)
    (fun i => decide (i < i_end))
    (by norm_num) (fun i hi => by have h := of_decide_eq_true hi; omega)
    block_i block_i c (le_refl _) hi
    (fun i c' _ _ => gemm_large_c1_r1_gupd A vs a b N K block_k k_end j i hk hj c')
    (Updated.empty c _ _ (fun x h => by omega))
  generalize forLoop i_end (fun i => decide (i < i_end)) 1 _ block_i c = t0 at s0 ⊢
  have hlo0 : block_i ≤ t0.1 := by have := s0.1.1; omega
  obtain ⟨⟨_, hle, hf⟩, hex⟩ := s0
  have hex' : ¬ t0.1 < i_end := of_decide_eq_false hex
  exact hf.upd_congr _ _ (fun x => by beta_reduce; generalize x / N = q; generalize x % N = r; omega)
    (fun _ _ => rfl)

theorem gemm_large_scalar1_gupd {T : Type} (A : Arith T) (a b : Nat → T)
    (N K block_k k_end block_i i_end j : Nat) (hk : block_k ≤ k_end) (hi : block_i ≤ i_end)
    (hj : j + 1 ≤ N) (c : Buffer T) :
    Updated c (gemm_large_scalar1 A a b N K block_k k_end block_i i_end j c)
      (fun x => (j ≤ x % N ∧ x % N < j + 1) ∧ (block_i ≤ x / N ∧ x / N < i_end))
      (fun x => fold_range (gemm_scalar_step A a b N K x) (c.val x) block_k k_end) := by
  unfold gemm_large_scalar1
  try simp only []
  have s0 := sweep_map (fun x => x / N) (fun x => j ≤ x % N ∧ x % N < j + 1) c
    (fun v x => fold_range (gemm_scalar_step A a b N K x) v block_k k_end) i_end 1
    (gemm_large_s1_r1 A a b N K block_k k_end j)
    (fun i => decide (i < i_end))
    (by norm_num) (fun i hi => by have h := of_decide_eq_true hi; omega)
    block_i block_i c (le_refl _) hi
    (fun i c' _ _ => gemm_large_s1_r1_gupd A a b N K block_k k_end j i hk hj c')
    (Updated.empty c _ _ (fun x h => by omega))
  generalize forLoop i_end (fun i => decide (i < i_end)) 1 _ block_i c = t0 at s0 ⊢
  have hlo0 : block_i ≤ t0.1 := by have := s0.1.1; omega
  obtain ⟨⟨_, hle, hf⟩, hex⟩ := s0
  have hex' : ¬ t0.1 < i_end := of_decide_eq_false hex
  exact hf.upd_congr _ _ (fun x => by beta_reduce; generalize x / N = q; generalize x % N = r; omega)
    (fun _ _ => rfl)

/-- What one pass of the `block_k` loop does to its tile under any interpretation of
the arithmetic: every element of the tile takes the accumulation steps of the shared
indices `block_k .. min (block_k + k_block_size) K`, in order, from the value it
held; `n0` separates the vectorised columns from the scalar ones. -/
theorem gemm_large_block_gupd {T : Type} (A : Arith T) (vs : Nat) (hvs : 0 < vs) (n0 : Nat)
    (a b : Nat → T) (N K kbs block_j j_end block_i i_end block_k : Nat) (hbk : block_k ≤ K)
    (hj1 : block_j ≤ j_end) (hj2 : j_end ≤ N) (hi : block_i ≤ i_end) (hd : vs ∣ block_j)
    (h1 : ∀ t, vs ∣ t → t ≤ j_end → t ≤ n0)
    (h2 : ∀ t, vs ∣ t → j_end < t + vs → t < j_end → n0 ≤ t) (c : Buffer T) :
    Updated c (gemm_large_block A vs a b N K kbs block_j j_end block_i i_end block_k c)
      (fun x => (block_j ≤ x % N ∧ x % N < j_end) ∧ (block_i ≤ x / N ∧ x / N < i_end))
      (fun x => fold_range (gemm_step A n0 a b N K x) (c.val x) block_k
        (min (block_k + kbs) K)) := by
  unfold gemm_large_block
  simp only []
  have hk : block_k ≤ min (block_k + kbs) K := Nat.le_min.2 ⟨Nat.le_add_right _ _, hbk⟩
  generalize min (block_k + kbs) K = k_end at hk ⊢
  have s0 := sweep_map (fun x => x % N) (fun x => block_i ≤ x / N ∧ x / N < i_end) c
    (fun v x => fold_range (gemm_vec_step A a b N K x) v block_k k_end) j_end (vs * 4)
    (gemm_large_cols4 A vs a b N K block_k k_end block_i i_end)
    (fun j => decide (j + vs * 4 - 1 < j_end))
    (by omega) (fun j hj => by have h := of_decide_eq_true hj; omega)
    block_j block_j c (le_refl _) hj1
    (fun j c' _ hj => gemm_large_cols4_gupd A vs a b N K block_k k_end block_i i_end j hk hi
      (by have h := of_decide_eq_true hj; omega) c')
    (Updated.empty c _ _ (fun x h => by omega))
  have d0 := forLoop_fst_dvd vs (fun j => decide (j + vs * 4 - 1 < j_end)) (vs * 4)
    (gemm_large_cols4 A vs a b N K block_k k_end block_i i_end) (Dvd.intro _ rfl) j_end block_j c hd
  generalize forLoop j_end (fun j => decide (j + vs * 4 - 1 < j_end)) (vs * 4) _ block_j c = t0 at s0 d0 ⊢
  have hlo0 : block_j ≤ t0.1 := by have := s0.1.1; omega
  have s1 := sweep_map (fun x => x % N) (fun x => block_i ≤ x / N ∧ x / N < i_end) c
    (fun v x => fold_range (gemm_vec_step A a b N K x) v block_k k_end) j_end (vs * 2)
    (gemm_large_cols2 A vs a b N K block_k k_end block_i i_end)
    (fun j => decide (j + vs * 2 - 1 < j_end))
    (by omega) (fun j hj => by have h := of_decide_eq_true hj; omega)
    block_j t0.1 t0.2 hlo0 s0.1.2.1
    (fun j c' _ hj => gemm_large_cols2_gupd A vs a b N K block_k k_end block_i i_end j hk hi
      (by have h := of_decide_eq_true hj; omega) c')
    s0.1.2.2
  have d1 := forLoop_fst_dvd vs (fun j => decide (j + vs * 2 - 1 < j_end)) (vs * 2)
    (gemm_large_cols2 A vs a b N K block_k k_end block_i i_end) (Dvd.intro _ rfl) j_end t0.1 t0.2 d0
  generalize forLoop j_end (fun j => decide (j + vs * 2 - 1 < j_end)) (vs * 2) _ t0.1 t0.2 = t1 at s1 d1 ⊢
  have hlo1 : block_j ≤ t1.1 := by have := s1.1.1; omega
  have s2 := sweep_map (fun x => x % N) (fun x => block_i ≤ x / N ∧ x / N < i_end) c
    (fun v x => fold_range (gemm_vec_step A a b N K x) v block_k k_end) j_end (vs)
    (gemm_large_cols1 A vs a b N K block_k k_end block_i i_end)
    (fun j => decide (j + vs - 1 < j_end))
    hvs (fun j hj => by have h := of_decide_eq_true hj; omega)
    block_j t1.1 t1.2 hlo1 s1.1.2.1
    (fun j c' _ hj => gemm_large_cols1_gupd A vs a b N K block_k k_end block_i i_end j hk hi
      (by have h := of_decide_eq_true hj; omega) c')
    s1.1.2.2
  have d2 := forLoop_fst_dvd vs (fun j => decide (j + vs - 1 < j_end)) (vs)
    (gemm_large_cols1 A vs a b N K block_k k_end block_i i_end) (dvd_refl _) j_end t1.1 t1.2 d1
  generalize forLoop j_end (fun j => decide (j + vs - 1 < j_end)) (vs) _ t1.1 t1.2 = t2 at s2 d2 ⊢
  have hlo2 : block_j ≤ t2.1 := by have := s2.1.1; omega
  obtain ⟨⟨_, hle2, hf2⟩, hex2⟩ := s2
  have hex2' : ¬ t2.1 + vs - 1 < j_end := of_decide_eq_false hex2
  have ht : t2.1 ≤ n0 := h1 t2.1 d2 hle2
  have hf2' : Updated c t2.2
      (fun x => (block_j ≤ x % N ∧ x % N < t2.1) ∧ (block_i ≤ x / N ∧ x / N < i_end))
      (fun x => fold_range (gemm_step A n0 a b N K x) (c.val x) block_k k_end) :=
    hf2.upd_congr _ _ (fun _ => Iff.rfl) (fun x hx => by
      show fold_range (gemm_step A n0 a b N K x) (c.val x) block_k k_end =
        fold_range (gemm_vec_step A a b N K x) (c.val x) block_k k_end
      unfold gemm_step
      rw [if_pos (lt_of_lt_of_le hx.1.2 ht)])
  have s3 := sweep_map (fun x => x % N) (fun x => block_i ≤ x / N ∧ x / N < i_end) c
    (fun v x => fold_range (gemm_step A n0 a b N K x) v block_k k_end) j_end 1
    (gemm_large_scalar1 A a b N K block_k k_end block_i i_end)
    (fun j => decide (j < j_end))
    Nat.one_pos (fun j hj => by have h := of_decide_eq_true hj; omega)
    block_j t2.1 t2.2 hlo2 hle2
    (fun j c' hj0 hj => (gemm_large_scalar1_gupd A a b N K block_k k_end block_i i_end j hk hi
      (by have h := of_decide_eq_true hj; omega) c').upd_congr _ _ (fun _ => Iff.rfl)
      (fun x hx => by
        have hj' : j < j_end := of_decide_eq_true hj
        have hn0 : n0 ≤ t2.1 := h2 t2.1 d2 (by omega) (by omega)
        show fold_range (gemm_step A n0 a b N K x) (c'.val x) block_k k_end =
          fold_range (gemm_scalar_step A a b N K x) (c'.val x) block_k k_end
        unfold gemm_step
        rw [if_neg (Nat.not_lt.2 (le_trans hn0 (le_trans hj0 hx.1.1)))]))
    hf2'
  generalize forLoop j_end (fun j => decide (j < j_end)) 1 _ t2.1 t2.2 = t3 at s3 ⊢
  obtain ⟨⟨_, hle, hf⟩, hex⟩ := s3
  have hex' : ¬ t3.1 < j_end := of_decide_eq_false hex
  have he : t3.1 = j_end := by omega
  rw [he] at hf
  exact hf

/-- What the body of the `block_i` loop does to its tile under any interpretation of
the arithmetic: afterwards every element of the tile holds the fold of its
accumulation step over `k = 0, ..., K - 1` from `T()`, whatever it held before. -/
theorem gemm_large_tile_gupd {T : Type} (A : Arith T) (vs : Nat) (hvs : 0 < vs) (n0 : Nat)
    (a b : Nat → T) (M N K mbs kbs block_j j_end block_i : Nat) (hkbs : 0 < kbs)
    (hj1 : block_j ≤ j_end) (hj2 : j_end ≤ N) (hbi : block_i ≤ M) (hd : vs ∣ block_j)
    (h1 : ∀ t, vs ∣ t → t ≤ j_end → t ≤ n0)
    (h2 : ∀ t, vs ∣ t → j_end < t + vs → t < j_end → n0 ≤ t) (c : Buffer T) :
    Updated c (gemm_large_tile A vs a b M N K mbs kbs block_j j_end block_i c)
      (fun x => (block_i ≤ x / N ∧ x / N < min (block_i + mbs) M) ∧
        (block_j ≤ x % N ∧ x % N < j_end))
      (gemm_value A n0 a b N K) := by
  unfold gemm_large_tile
  simp only []
  have hi : block_i ≤ min (block_i + mbs) M := Nat.le_min.2 ⟨Nat.le_add_right _ _, hbi⟩
  generalize min (block_i + mbs) M = i_end at hi ⊢
  have hz := gemm_large_zero_gupd A N block_j j_end block_i i_end hj2 c
  generalize gemm_large_zero A N block_j j_end block_i i_end c = c1 at hz ⊢
  have h := forLoop_spec
    (fun bk c' => Updated c c'
      (fun x => (block_i ≤ x / N ∧ x / N < i_end) ∧ (block_j ≤ x % N ∧ x % N < j_end))
      (fun x => fold_range (gemm_step A n0 a b N K x) A.zero 0 (min bk K)))
    (fun bk => decide (bk < K)) kbs
    (gemm_large_block A vs a b N K kbs block_j j_end block_i i_end)
    K hkbs (fun bk hbk => of_decide_eq_true hbk) ?_ K 0 c1 (by omega)
    (hz.upd_congr _ _ (fun _ => Iff.rfl) (fun x _ => by
      show fold_range (gemm_step A n0 a b N K x) A.zero 0 (min 0 K) = A.zero
      rw [Nat.zero_min, fold_range_self]))
  · obtain ⟨hf, hex⟩ := h
    have hex' : ¬ _ < K := of_decide_eq_false hex
    refine hf.upd_congr _ _ (fun _ => Iff.rfl) (fun x _ => ?_)
    rw [Nat.min_eq_right (by omega)]
    unfold gemm_value
    rw [fold_left_eq_range]
  · intro bk c' h3 hc
    have hc' : bk < K := of_decide_eq_true hc
    have h2' := (gemm_large_block_gupd A vs hvs n0 a b N K kbs block_j j_end block_i i_end bk
      (by omega) hj1 hj2 hi hd h1 h2 c').upd_congr
      (fun x => (block_i ≤ x / N ∧ x / N < i_end) ∧ (block_j ≤ x % N ∧ x % N < j_end)) _
      (fun x => And.comm) (fun _ _ => rfl)
    refine Updated.upd_seq h3 h2' _ _ (fun x => (or_self_iff).symm) (fun x hq => ?_)
      (fun x hp hq => (hq hp).elim)
    show fold_range (gemm_step A n0 a b N K x) A.zero 0 (min (bk + kbs) K)
      = fold_range (gemm_step A n0 a b N K x) (c'.val x) bk (min (bk + kbs) K)
    rw [h3.1 x hq]
    show fold_range (gemm_step A n0 a b N K x) A.zero 0 (min (bk + kbs) K)
      = fold_range (gemm_step A n0 a b N K x)
          (fold_range (gemm_step A n0 a b N K x) A.zero 0 (min bk K)) bk (min (bk + kbs) K)
    rw [Nat.min_eq_left (Nat.le_of_lt hc'), fold_range_append _ _ 0 bk (Nat.zero_le _) _
      (Nat.le_min.2 ⟨Nat.le_add_right _ _, Nat.le_of_lt hc'⟩)]

theorem add_le_of_dvd_lt (vs t e : Nat) (ht : vs ∣ t) (he : vs ∣ e) (h : t < e) : t + vs ≤ e := by
  obtain ⟨p, rfl⟩ := ht
  obtain ⟨q, rfl⟩ := he
  have hpq : p < q := by
    by_contra hn
    have : vs * q ≤ vs * p := Nat.mul_le_mul_left _ (by omega)
    omega
  have : vs * (p + 1) ≤ vs * q := Nat.mul_le_mul_left _ hpq
  rw [Nat.mul_add, Nat.mul_one] at this
  exact this

/-- What `gemm_large_kernel` leaves under any interpretation of the arithmetic, when
`vec_size` divides the column block size 128: every element `(i, j)` with `i < M`,
`j < N` holds the fold of its accumulation step over `k = 0, ..., K - 1` from `T()`,
whatever `c` held before, and nothing else has changed. -/
theorem gemm_large_kernel_gupd {T : Type} (A : Arith T) (vs : Nat) (hvs : 0 < vs)
    (hd : vs ∣ 128) (a b : Nat → T) (c : Buffer T) (M N K : Nat) :
    Updated c (gemm_large_kernel A vs a b c M N K)
      (fun x => x / N < M ∧ x % N < N) (gemm_value A (vs * (N / vs)) a b N K) := by
  unfold gemm_large_kernel
  simp only []
  refine (sweep_upd_clip_dvd (fun x => x % N) (fun x => x / N < M) c
    (gemm_value A (vs * (N / vs)) a b N K) N 128 _
    (by norm_num) (fun block_j c' hbj hdj => ?_)).upd_congr _ _ (fun x => And.comm)
    (fun _ _ => rfl)
  refine (sweep_upd_clip (fun x => x / N)
    (fun x => block_j ≤ x % N ∧ x % N < min (block_j + 128) N) c'
    (gemm_value A (vs * (N / vs)) a b N K) M 64 _
    (by norm_num) (fun block_i c'' hbi => ?_)).upd_congr _ _ (fun x => And.comm)
    (fun _ _ => rfl)
  have hvj : vs ∣ block_j := dvd_trans hd hdj
  refine gemm_large_tile_gupd A vs hvs _ a b M N K 64 128 block_j (min (block_j + 128) N)
    block_i (by norm_num) (Nat.le_min.2 ⟨Nat.le_add_right _ _, Nat.le_of_lt hbj⟩)
    (Nat.min_le_right _ _) (Nat.le_of_lt hbi) hvj ?_ ?_ c''
  · intro t ht hle
    exact le_mul_div_of_dvd vs t N hvs ht (le_trans hle (Nat.min_le_right _ _))
  · intro t ht hwin hlt
    rcases Nat.le_total (block_j + 128) N with h | h
    · rw [Nat.min_eq_left h] at hwin hlt
      have := add_le_of_dvd_lt vs t (block_j + 128) ht (Dvd.dvd.add hvj hd) hlt
      omega
    · rw [Nat.min_eq_right h] at hwin
      exact mul_div_le_of_window vs t N hvs ht hwin


/-- C19: for any interpretation `A` of `+`, `*` and `fmadd` (no law assumed), every
`M`, `N`, `K`, every `vec_size = 2^p` dividing 128 (`p ≤ 7`), all `a`, `b` and any
initial contents `c`, `c2` of the two destinations, `gemm_large_kernel` and
`gemm_small_kernel` leave the same value in every `c[i*N+j]`, `i < M`, `j < N`: the
fold of the element's accumulation step over `k = 0, ..., K-1` from `T()`. -/
theorem gemm_kernels_identical {T : Type} (A : Arith T) (p : Nat) (hp : p ≤ 7)
    (M N K : Nat) (a b : Nat → T) (c c2 : Buffer T) (i j : Nat) (hi : i < M) (hj : j < N) :
    (gemm_large_kernel A (2 ^ p) a b c M N K).val (i * N + j) =
        (gemm_small_kernel A (2 ^ p) a b c2 M N K).val (i * N + j) ∧
      (gemm_large_kernel A (2 ^ p) a b c M N K).val (i * N + j) =
        gemm_value A (2 ^ p * (N / 2 ^ p)) a b N K (i * N + j) := by
  have hpos : 0 < 2 ^ p := Nat.pos_pow_of_pos p (by norm_num)
  have hd : 2 ^ p ∣ 128 := by
    have h := pow_dvd_pow 2 hp
    norm_num at h
    exact h
  have hx : (fun x => x / N < M ∧ x % N < N) (i * N + j) := by
    show (i * N + j) / N < M ∧ (i * N + j) % N < N
    rw [(row_div N i j hj).1, (row_div N i j hj).2]
    exact ⟨hi, hj⟩
  have hl := (gemm_large_kernel_gupd A (2 ^ p) hpos hd a b c M N K).1 _ hx
  have hs := ((gemm_small_kernel_gfill A (2 ^ p) hpos a b c2 M N K).1 _ hx).1
  exact ⟨by rw [hl, hs], hl⟩

/-- Witness of C19: element (1, 2) of a 2 x 3 x 2 product with 2 lanes in saturating
arithmetic, from destinations that held 9 and 4. -/
theorem gemm_kernels_identical_witness :
    (gemm_large_kernel (Arith.sat 100) (2 ^ 1) (fun x => (x : Int) + 7) (fun x => (x : Int) + 1)
        ⟨fun _ => 9, fun _ => 0⟩ 2 3 2).val (1 * 3 + 2) =
      (gemm_small_kernel (Arith.sat 100) (2 ^ 1) (fun x => (x : Int) + 7)
        (fun x => (x : Int) + 1) ⟨fun _ => 4, fun _ => 0⟩ 2 3 2).val (1 * 3 + 2) :=
  (gemm_kernels_identical (Arith.sat 100) 1 (by decide) 2 3 2 _ _ _ _ 1 2 (by decide)
    (by decide)).1

theorem forLoop_inv {S : Type} (Inv : Nat → S → Prop) (cond : Nat → Bool) (step : Nat)
    (body : Nat → S → S)
    (hbody : ∀ i s, Inv i s → cond i = true → Inv (i + step) (body i s)) :
    ∀ (fuel i : Nat) (s : S), Inv i s →
      Inv (forLoop fuel cond step body i s).1 (forLoop fuel cond step body i s).2 := by
  intro fuel
  induction fuel with
  | zero => intro i s h; exact h
  | succ f ih =>
    intro i s h
    cases hc : cond i with
    | false => simpa [forLoop, hc] using h
    | true =>
      simp only [forLoop, hc, if_true]
      exact ih _ _ (hbody i s h hc)

theorem hadd_closed {T : Type} (A : Arith T) (P : T → Prop) (hP : Closed A P) (vs : Nat)
    (r : Vec T) (h : ∀ l, l < vs → P (r l)) : P (Vec.hadd A vs r) := by
  induction vs using Nat.strong_induction_on with
  | _ vs ih =>
    match vs with
    | 0 => exact hP.1
    | 1 => exact h 0 (by omega)
    | k + 2 =>
      exact hP.2.1 _ _ (ih (k + 1) (by omega) (fun l hl => h l (by omega))) (h (k + 1) (by omega))

theorem row_idx_lt (m n r c : Nat) (hr : r < m) (hc : c < n) : r * n + c < m * n := by
  calc r * n + c < r * n + n := by omega
    _ = (r + 1) * n := by ring
    _ ≤ m * n := Nat.mul_le_mul_right _ hr

theorem row_idx_lt3 (m n r k l : Nat) (hr : r < m) (hc : k + l < n) :
    r * n + k + l < m * n := by
  rw [Nat.add_assoc]
  exact row_idx_lt m n r (k + l) hr hc

theorem slip_idx_lt0 (m n i k : Nat) (hi : i + 2 ≤ m) (hk : k < n) :
    i + 0 * n + k < m * n := by
  have h1 : (i + 2) * n ≤ m * n := Nat.mul_le_mul_right _ hi
  have h2 : i ≤ i * n := Nat.le_mul_of_pos_right _ (by omega)
  have h3 : (i + 2) * n = i * n + 2 * n := by ring
  omega

theorem slip_idx_lt1 (m n i k : Nat) (hi : i + 2 ≤ m) (hk : k < n) :
    i + 1 * n + k < m * n := by
  have h1 : (i + 2) * n ≤ m * n := Nat.mul_le_mul_right _ hi
  have h2 : i ≤ i * n := Nat.le_mul_of_pos_right _ (by omega)
  have h3 : (i + 2) * n = i * n + 2 * n := by ring
  omega

theorem write_stores_ne {T : Type} (c : Buffer T) (x : Nat) (v : T) (y : Nat) (h : y ≠ x) :
    (c.write x v).stores y = c.stores y := by
  simp [Buffer.write, h]

theorem add_assign_stores_ne {T : Type} (A : Arith T) (c : Buffer T) (x : Nat) (v : T)
    (y : Nat) (h : y ≠ x) : (c.add_assign A x v).stores y = c.stores y := by
  simp [Buffer.add_assign, Buffer.write, h]

theorem gemv_small_rows8_closed {T : Type} (A : Arith T) (P : T → Prop) (hP : Closed A P)
    (vs : Nat) (rem : Bool) (last m n : Nat) (hl1 : vs ∣ last) (hl2 : last ≤ n)
    (aa bb : Nat → T) (ha : ∀ x, x < m * n → P (aa x)) (hb : ∀ k, k < n → P (bb k))
    (i : Nat) (hi : i + 8 ≤ m) (cc : Buffer T) :
    (∀ x, i ≤ x → x < i + 8 → P ((gemv_small_rows8 A vs rem last aa n bb i cc).val x)) ∧
      ∀ x, ¬ (i ≤ x ∧ x < i + 8) →
        (gemv_small_rows8 A vs rem last aa n bb i cc).val x = cc.val x ∧
        (gemv_small_rows8 A vs rem last aa n bb i cc).stores x = cc.stores x := by
  obtain ⟨hz, hadd, hmul, hfm⟩ := id hP
  unfold gemv_small_rows8
  simp only []
  let Inv : Nat → Vec T × Vec T × Vec T × Vec T × Vec T × Vec T × Vec T × Vec T → Prop := fun k r => vs ∣ k ∧ k ≤ last ∧
      (∀ l, l < vs → P (r.1 l)) ∧
      (∀ l, l < vs → P (r.2.1 l)) ∧
      (∀ l, l < vs → P (r.2.2.1 l)) ∧
      (∀ l, l < vs → P (r.2.2.2.1 l)) ∧
      (∀ l, l < vs → P (r.2.2.2.2.1 l)) ∧
      (∀ l, l < vs → P (r.2.2.2.2.2.1 l)) ∧
      (∀ l, l < vs → P (r.2.2.2.2.2.2.1 l)) ∧
      (∀ l, l < vs → P (r.2.2.2.2.2.2.2 l))
  generalize hv : forLoop last (fun k => decide (k < last)) vs _ 0 _ = v
  have hV : Inv v.1 v.2 := by
    rw [← hv]
    refine forLoop_inv Inv _ _ _ ?_ last _ _ ⟨dvd_zero _, Nat.zero_le _, fun _ _ => hz, fun _ _ => hz, fun _ _ => hz, fun _ _ => hz, fun _ _ => hz, fun _ _ => hz, fun _ _ => hz, fun _ _ => hz⟩
    rintro k ⟨r1, r2, r3, r4, r5, r6, r7, r8⟩ ⟨hk, hkl, h1, h2, h3, h4, h5, h6, h7, h8⟩ hc
    have hc' : k < last := of_decide_eq_true hc
    have hkv : k + vs ≤ last :=
      add_le_of_dvd_lt vs (k) last hk hl1 hc'
    try dsimp only at h1 h2 h3 h4 h5 h6 h7 h8
    refine ⟨Dvd.dvd.add hk (dvd_refl _), by omega, ?_, ?_, ?_, ?_, ?_, ?_, ?_, ?_⟩
    · intro l hl
      exact hfm _ _ _ (ha _ (row_idx_lt3 m n (i + 0) k l (by omega) (by omega)))
          (hb _ (by omega)) (h1 l hl)
    · intro l hl
      exact hfm _ _ _ (ha _ (row_idx_lt3 m n (i + 1) k l (by omega) (by omega)))
          (hb _ (by omega)) (h2 l hl)
    · intro l hl
      exact hfm _ _ _ (ha _ (row_idx_lt3 m n (i + 2) k l (by omega) (by omega)))
          (hb _ (by omega)) (h3 l hl)
    · intro l hl
      exact hfm _ _ _ (ha _ (row_idx_lt3 m n (i + 3) k l (by omega) (by omega)))
          (hb _ (by omega)) (h4 l hl)
    · intro l hl
      exact hfm _ _ _ (ha _ (row_idx_lt3 m n (i + 4) k l (by omega) (by omega)))
          (hb _ (by omega)) (h5 l hl)
    · intro l hl
      exact hfm _ _ _ (ha _ (row_idx_lt3 m n (i + 5) k l (by omega) (by omega)))
          (hb _ (by omega)) (h6 l hl)
    · intro l hl
      exact hfm _ _ _ (ha _ (row_idx_lt3 m n (i + 6) k l (by omega) (by omega)))
          (hb _ (by omega)) (h7 l hl)
    · intro l hl
      exact hfm _ _ _ (ha _ (row_idx_lt3 m n (i + 7) k l (by omega) (by omega)))
          (hb _ (by omega)) (h8 l hl)
  obtain ⟨hk, hkl, h1, h2, h3, h4, h5, h6, h7, h8⟩ := hV
  have g1 : P (Vec.hadd A vs v.2.1) := hadd_closed A P hP vs _ h1
  have g2 : P (Vec.hadd A vs v.2.2.1) := hadd_closed A P hP vs _ h2
  have g3 : P (Vec.hadd A vs v.2.2.2.1) := hadd_closed A P hP vs _ h3
  have g4 : P (Vec.hadd A vs v.2.2.2.2.1) := hadd_closed A P hP vs _ h4
  have g5 : P (Vec.hadd A vs v.2.2.2.2.2.1) := hadd_closed A P hP vs _ h5
  have g6 : P (Vec.hadd A vs v.2.2.2.2.2.2.1) := hadd_closed A P hP vs _ h6
  have g7 : P (Vec.hadd A vs v.2.2.2.2.2.2.2.1) := hadd_closed A P hP vs _ h7
  have g8 : P (Vec.hadd A vs v.2.2.2.2.2.2.2.2) := hadd_closed A P hP vs _ h8
  generalize hc0 : Buffer.write _ (i + 7) _ = c0
  generalize v.1 = k0
  have hW := forLoop_inv (fun (_ : Nat) (c : Buffer T) =>
      P (c.val (i + 0)) ∧ P (c.val (i + 1)) ∧ P (c.val (i + 2)) ∧ P (c.val (i + 3)) ∧ P (c.val (i + 4)) ∧ P (c.val (i + 5)) ∧ P (c.val (i + 6)) ∧ P (c.val (i + 7)) ∧
      ∀ y, ¬ (i ≤ y ∧ y < i + 8) → c.val y = cc.val y ∧ c.stores y = cc.stores y)
    (fun k => rem && decide (k < n)) 1
    (fun k cc =>
      let cc := cc.add_assign A (i + 0) (A.mul (aa ((i + 0) * n + k)) (bb k))
      let cc := cc.add_assign A (i + 1) (A.mul (aa ((i + 1) * n + k)) (bb k))
      let cc := cc.add_assign A (i + 2) (A.mul (aa ((i + 2) * n + k)) (bb k))
      let cc := cc.add_assign A (i + 3) (A.mul (aa ((i + 3) * n + k)) (bb k))
      let cc := cc.add_assign A (i + 4) (A.mul (aa ((i + 4) * n + k)) (bb k))
      let cc := cc.add_assign A (i + 5) (A.mul (aa ((i + 5) * n + k)) (bb k))
      let cc := cc.add_assign A (i + 6) (A.mul (aa ((i + 6) * n + k)) (bb k))
      let cc := cc.add_assign A (i + 7) (A.mul (aa ((i + 7) * n + k)) (bb k))
      cc)
    ?_ n k0 c0 ?_
  · obtain ⟨h1, h2, h3, h4, h5, h6, h7, h8, hf⟩ := hW
    refine ⟨fun x hx1 hx2 => ?_, hf⟩
    obtain ⟨d, rfl⟩ : ∃ d, x = i + d := ⟨x - i, by omega⟩
    have hd : d < 8 := by omega
    interval_cases d
    · exact h1
    · exact h2
    · exact h3
    · exact h4
    · exact h5
    · exact h6
    · exact h7
    · exact h8
  · rintro k c ⟨h1, h2, h3, h4, h5, h6, h7, h8, hf⟩ hc
    have hk' : k < n := of_decide_eq_true (Bool.and_eq_true_iff.1 hc).2
    refine ⟨?_, ?_, ?_, ?_, ?_, ?_, ?_, ?_, fun y hy => ?_⟩
    · simp (disch := omega) only [add_assign_val_ne, add_assign_val_eq]
      exact hadd _ _ h1 (hmul _ _ (ha _ (row_idx_lt m n (i + 0) k (by omega) hk')) (hb k hk'))
    · simp (disch := omega) only [add_assign_val_ne, add_assign_val_eq]
      exact hadd _ _ h2 (hmul _ _ (ha _ (row_idx_lt m n (i + 1) k (by omega) hk')) (hb k hk'))
    · simp (disch := omega) only [add_assign_val_ne, add_assign_val_eq]
      exact hadd _ _ h3 (hmul _ _ (ha _ (row_idx_lt m n (i + 2) k (by omega) hk')) (hb k hk'))
    · simp (disch := omega) only [add_assign_val_ne, add_assign_val_eq]
      exact hadd _ _ h4 (hmul _ _ (ha _ (row_idx_lt m n (i + 3) k (by omega) hk')) (hb k hk'))
    · simp (disch := omega) only [add_assign_val_ne, add_assign_val_eq]
      exact hadd _ _ h5 (hmul _ _ (ha _ (row_idx_lt m n (i + 4) k (by omega) hk')) (hb k hk'))
    · simp (disch := omega) only [add_assign_val_ne, add_assign_val_eq]
      exact hadd _ _ h6 (hmul _ _ (ha _ (row_idx_lt m n (i + 5) k (by omega) hk')) (hb k hk'))
    · simp (disch := omega) only [add_assign_val_ne, add_assign_val_eq]
      exact hadd _ _ h7 (hmul _ _ (ha _ (row_idx_lt m n (i + 6) k (by omega) hk')) (hb k hk'))
    · simp (disch := omega) only [add_assign_val_ne, add_assign_val_eq]
      exact hadd _ _ h8 (hmul _ _ (ha _ (row_idx_lt m n (i + 7) k (by omega) hk')) (hb k hk'))
    · have hf' := hf y hy
      constructor
      · simp (disch := omega) only [add_assign_val_ne]
        exact hf'.1
      · simp (disch := omega) only [add_assign_stores_ne]
        exact hf'.2
  · subst hc0
    refine ⟨?_, ?_, ?_, ?_, ?_, ?_, ?_, ?_, fun y hy => ?_⟩
    · simp (disch := omega) only [write_val_ne, write_val_eq]
      exact g1
    · simp (disch := omega) only [write_val_ne, write_val_eq]
      exact g2
    · simp (disch := omega) only [write_val_ne, write_val_eq]
      exact g3
    · simp (disch := omega) only [write_val_ne, write_val_eq]
      exact g4
    · simp (disch := omega) only [write_val_ne, write_val_eq]
      exact g5
    · simp (disch := omega) only [write_val_ne, write_val_eq]
      exact g6
    · simp (disch := omega) only [write_val_ne, write_val_eq]
      exact g7
    · simp (disch := omega) only [write_val_ne, write_val_eq]
      exact g8
    · constructor <;> simp (disch := omega) only [write_val_ne, write_stores_ne]

theorem gemv_small_rows2_closed {T : Type} (A : Arith T) (P : T → Prop) (hP : Closed A P)
    (vs : Nat) (rem : Bool) (last m n : Nat) (hl1 : vs ∣ last) (hl2 : last ≤ n)
    (aa bb : Nat → T) (ha : ∀ x, x < m * n → P (aa x)) (hb : ∀ k, k < n → P (bb k))
    (i : Nat) (hi : i + 2 ≤ m) (cc : Buffer T) :
    (∀ x, i ≤ x → x < i + 2 → P ((gemv_small_rows2 A vs rem last aa n bb i cc).val x)) ∧
      ∀ x, ¬ (i ≤ x ∧ x < i + 2) →
        (gemv_small_rows2 A vs rem last aa n bb i cc).val x = cc.val x ∧
        (gemv_small_rows2 A vs rem last aa n bb i cc).stores x = cc.stores x := by
  obtain ⟨hz, hadd, hmul, hfm⟩ := id hP
  unfold gemv_small_rows2
  simp only []
  let Inv : Nat → Vec T × Vec T → Prop := fun k r => vs ∣ k ∧ k ≤ last ∧
      (∀ l, l < vs → P (r.1 l)) ∧
      (∀ l, l < vs → P (r.2 l))
  generalize hv : forLoop last (fun k => decide (k < last)) vs _ 0 _ = v
  have hV : Inv v.1 v.2 := by
    rw [← hv]
    refine forLoop_inv Inv _ _ _ ?_ last _ _ ⟨dvd_zero _, Nat.zero_le _, fun _ _ => hz, fun _ _ => hz⟩
    rintro k ⟨r1, r2⟩ ⟨hk, hkl, h1, h2⟩ hc
    have hc' : k < last := of_decide_eq_true hc
    have hkv : k + vs ≤ last :=
      add_le_of_dvd_lt vs (k) last hk hl1 hc'
    try dsimp only at h1 h2
    refine ⟨Dvd.dvd.add hk (dvd_refl _), by omega, ?_, ?_⟩
    · intro l hl
      exact hfm _ _ _ (ha _ (row_idx_lt3 m n (i + 0) k l (by omega) (by omega)))
          (hb _ (by omega)) (h1 l hl)
    · intro l hl
      exact hfm _ _ _ (ha _ (row_idx_lt3 m n (i + 1) k l (by omega) (by omega)))
          (hb _ (by omega)) (h2 l hl)
  obtain ⟨hk, hkl, h1, h2⟩ := hV
  have g1 : P (Vec.hadd A vs v.2.1) := hadd_closed A P hP vs _ h1
  have g2 : P (Vec.hadd A vs v.2.2) := hadd_closed A P hP vs _ h2
  generalize hc0 : Buffer.write _ (i + 1) _ = c0
  generalize v.1 = k0
  have hW := forLoop_inv (fun (_ : Nat) (c : Buffer T) =>
      P (c.val (i + 0)) ∧ P (c.val (i + 1)) ∧
      ∀ y, ¬ (i ≤ y ∧ y < i + 2) → c.val y = cc.val y ∧ c.stores y = cc.stores y)
    (fun k => rem && decide (k < n)) 1
    (fun k cc =>
      let cc := cc.add_assign A (i + 0) (A.mul (aa ((i + 0) * n + k)) (bb k))
      let cc := cc.add_assign A (i + 1) (A.mul (aa ((i + 1) * n + k)) (bb k))
      cc)
    ?_ n k0 c0 ?_
  · obtain ⟨h1, h2, hf⟩ := hW
    refine ⟨fun x hx1 hx2 => ?_, hf⟩
    obtain ⟨d, rfl⟩ : ∃ d, x = i + d := ⟨x - i, by omega⟩
    have hd : d < 2 := by omega
    interval_cases d
    · exact h1
    · exact h2
  · rintro k c ⟨h1, h2, hf⟩ hc
    have hk' : k < n := of_decide_eq_true (Bool.and_eq_true_iff.1 hc).2
    refine ⟨?_, ?_, fun y hy => ?_⟩
    · simp (disch := omega) only [add_assign_val_ne, add_assign_val_eq]
      exact hadd _ _ h1 (hmul _ _ (ha _ (row_idx_lt m n (i + 0) k (by omega) hk')) (hb k hk'))
    · simp (disch := omega) only [add_assign_val_ne, add_assign_val_eq]
      exact hadd _ _ h2 (hmul _ _ (ha _ (row_idx_lt m n (i + 1) k (by omega) hk')) (hb k hk'))
    · have hf' := hf y hy
      constructor
      · simp (disch := omega) only [add_assign_val_ne]
        exact hf'.1
      · simp (disch := omega) only [add_assign_stores_ne]
        exact hf'.2
  · subst hc0
    refine ⟨?_, ?_, fun y hy => ?_⟩
    · simp (disch := omega) only [write_val_ne, write_val_eq]
      exact g1
    · simp (disch := omega) only [write_val_ne, write_val_eq]
      exact g2
    · constructor <;> simp (disch := omega) only [write_val_ne, write_stores_ne]

theorem gemv_small_row1_closed {T : Type} (A : Arith T) (P : T → Prop) (hP : Closed A P)
    (vs : Nat) (rem : Bool) (last m n : Nat) (hl1 : vs ∣ last) (hl2 : last ≤ n)
    (aa bb : Nat → T) (ha : ∀ x, x < m * n → P (aa x)) (hb : ∀ k, k < n → P (bb k))
    (i : Nat) (hi : i + 1 ≤ m) (cc : Buffer T) :
    (∀ x, i ≤ x → x < i + 1 → P ((gemv_small_row1 A vs rem last aa n bb i cc).val x)) ∧
      ∀ x, ¬ (i ≤ x ∧ x < i + 1) →
        (gemv_small_row1 A vs rem last aa n bb i cc).val x = cc.val x ∧
        (gemv_small_row1 A vs rem last aa n bb i cc).stores x = cc.stores x := by
  obtain ⟨hz, hadd, hmul, hfm⟩ := id hP
  unfold gemv_small_row1
  simp only []
  let Inv : Nat → Vec T → Prop := fun k r => vs ∣ k ∧ k ≤ last ∧
      (∀ l, l < vs → P (r l))
  generalize hv : forLoop last (fun k => decide (k < last)) vs _ 0 _ = v
  have hV : Inv v.1 v.2 := by
    rw [← hv]
    refine forLoop_inv Inv _ _ _ ?_ last _ _ ⟨dvd_zero _, Nat.zero_le _, fun _ _ => hz⟩
    rintro k r1 ⟨hk, hkl, h1⟩ hc
    have hc' : k < last := of_decide_eq_true hc
    have hkv : k + vs ≤ last :=
      add_le_of_dvd_lt vs (k) last hk hl1 hc'
    try dsimp only at h1
    refine ⟨Dvd.dvd.add hk (dvd_refl _), by omega, ?_⟩
    · intro l hl
      exact hfm _ _ _ (ha _ (row_idx_lt3 m n (i + 0) k l (by omega) (by omega)))
          (hb _ (by omega)) (h1 l hl)
  obtain ⟨hk, hkl, h1⟩ := hV
  have g1 : P (Vec.hadd A vs v.2) := hadd_closed A P hP vs _ h1
  generalize v.1 = k0
  have hW := forLoop_inv (fun (_ : Nat) (r : T) => P r)
    (fun k => rem && decide (k < n)) 1
    (fun k result => A.add result (A.mul (aa (i * n + k)) (bb k)))
    (fun k r hr hc => hadd _ _ hr (hmul _ _
      (ha _ (row_idx_lt m n i k (by omega) (of_decide_eq_true (Bool.and_eq_true_iff.1 hc).2)))
      (hb k (of_decide_eq_true (Bool.and_eq_true_iff.1 hc).2)))) n k0 _ g1
  refine ⟨fun x hx1 hx2 => ?_, fun x hx => ?_⟩
  · have hx : x = i := by omega
    subst hx
    rw [write_val_eq]
    exact hW
  · rw [write_val_ne _ _ _ _ (by omega), write_stores_ne _ _ _ _ (by omega)]
    exact ⟨rfl, rfl⟩

theorem gemv_large_rows8_closed {T : Type} (A : Arith T) (P : T → Prop) (hP : Closed A P)
    (vs : Nat) (rem : Bool) (last m n : Nat) (hl1 : vs ∣ last) (hl2 : last ≤ n)
    (aa bb : Nat → T) (ha : ∀ x, x < m * n → P (aa x)) (hb : ∀ k, k < n → P (bb k))
    (i : Nat) (hi : i + 8 ≤ m) (cc : Buffer T) :
    (∀ x, i ≤ x → x < i + 8 → P ((gemv_large_rows8 A vs rem last aa n bb i cc).val x)) ∧
      ∀ x, ¬ (i ≤ x ∧ x < i + 8) →
        (gemv_large_rows8 A vs rem last aa n bb i cc).val x = cc.val x ∧
        (gemv_large_rows8 A vs rem last aa n bb i cc).stores x = cc.stores x := by
  obtain ⟨hz, hadd, hmul, hfm⟩ := id hP
  unfold gemv_large_rows8
  simp only []
  let Inv : Nat → Vec T × Vec T × Vec T × Vec T × Vec T × Vec T × Vec T × Vec T → Prop := fun k r => vs ∣ k ∧ k ≤ last ∧
      (∀ l, l < vs → P (r.1 l)) ∧
      (∀ l, l < vs → P (r.2.1 l)) ∧
      (∀ l, l < vs → P (r.2.2.1 l)) ∧
      (∀ l, l < vs → P (r.2.2.2.1 l)) ∧
      (∀ l, l < vs → P (r.2.2.2.2.1 l)) ∧
      (∀ l, l < vs → P (r.2.2.2.2.2.1 l)) ∧
      (∀ l, l < vs → P (r.2.2.2.2.2.2.1 l)) ∧
      (∀ l, l < vs → P (r.2.2.2.2.2.2.2 l))
  generalize hv4 : forLoop last (fun k => decide (k + vs * 3 < last)) (vs * 4) _ 0 _ = v4
  have hV4 : Inv v4.1 v4.2 := by
    rw [← hv4]
    refine forLoop_inv Inv _ _ _ ?_ last _ _ ⟨dvd_zero _, Nat.zero_le _, fun _ _ => hz, fun _ _ => hz, fun _ _ => hz, fun _ _ => hz, fun _ _ => hz, fun _ _ => hz, fun _ _ => hz, fun _ _ => hz⟩
    rintro k ⟨r1, r2, r3, r4, r5, r6, r7, r8⟩ ⟨hk, hkl, h1, h2, h3, h4, h5, h6, h7, h8⟩ hc
    have hc' : k + vs * 3 < last := of_decide_eq_true hc
    have hkv : k + vs * 3 + vs ≤ last :=
      add_le_of_dvd_lt vs (k + vs * 3) last (Dvd.dvd.add hk (Dvd.intro _ rfl)) hl1 hc'
    try dsimp only at h1 h2 h3 h4 h5 h6 h7 h8
    refine ⟨Dvd.dvd.add hk (Dvd.intro _ rfl), by omega, ?_, ?_, ?_, ?_, ?_, ?_, ?_, ?_⟩
    · intro l hl
      exact hfm _ _ _ (ha _ (row_idx_lt3 m n (i + 0) (k + 3 * vs) l (by omega) (by omega)))
          (hb _ (by omega)) (hfm _ _ _ (ha _ (row_idx_lt3 m n (i + 0) (k + 2 * vs) l (by omega) (by omega)))
          (hb _ (by omega)) (hfm _ _ _ (ha _ (row_idx_lt3 m n (i + 0) (k + 1 * vs) l (by omega) (by omega)))
          (hb _ (by omega)) (hfm _ _ _ (ha _ (row_idx_lt3 m n (i + 0) (k + 0 * vs) l (by omega) (by omega)))
          (hb _ (by omega)) (h1 l hl))))
    · intro l hl
      exact hfm _ _ _ (ha _ (row_idx_lt3 m n (i + 1) (k + 3 * vs) l (by omega) (by omega)))
          (hb _ (by omega)) (hfm _ _ _ (ha _ (row_idx_lt3 m n (i + 1) (k + 2 * vs) l (by omega) (by omega)))
          (hb _ (by omega)) (hfm _ _ _ (ha _ (row_idx_lt3 m n (i + 1) (k + 1 * vs) l (by omega) (by omega)))
          (hb _ (by omega)) (hfm _ _ _ (ha _ (row_idx_lt3 m n (i + 1) (k + 0 * vs) l (by omega) (by omega)))
          (hb _ (by omega)) (h2 l hl))))
    · intro l hl
      exact hfm _ _ _ (ha _ (row_idx_lt3 m n (i + 2) (k + 3 * vs) l (by omega) (by omega)))
          (hb _ (by omega)) (hfm _ _ _ (ha _ (row_idx_lt3 m n (i + 2) (k + 2 * vs) l (by omega) (by omega)))
          (hb _ (by omega)) (hfm _ _ _ (ha _ (row_idx_lt3 m n (i + 2) (k + 1 * vs) l (by omega) (by omega)))
          (hb _ (by omega)) (hfm _ _ _ (ha _ (row_idx_lt3 m n (i + 2) (k + 0 * vs) l (by omega) (by omega)))
          (hb _ (by omega)) (h3 l hl))))
    · intro l hl
      exact hfm _ _ _ (ha _ (row_idx_lt3 m n (i + 3) (k + 3 * vs) l (by omega) (by omega)))
          (hb _ (by omega)) (hfm _ _ _ (ha _ (row_idx_lt3 m n (i + 3) (k + 2 * vs) l (by omega) (by omega)))
          (hb _ (by omega)) (hfm _ _ _ (ha _ (row_idx_lt3 m n (i + 3) (k + 1 * vs) l (by omega) (by omega)))
          (hb _ (by omega)) (hfm _ _ _ (ha _ (row_idx_lt3 m n (i + 3) (k + 0 * vs) l (by omega) (by omega)))
          (hb _ (by omega)) (h4 l hl))))
    · intro l hl
      exact hfm _ _ _ (ha _ (row_idx_lt3 m n (i + 4) (k + 3 * vs) l (by omega) (by omega)))
          (hb _ (by omega)) (hfm _ _ _ (ha _ (row_idx_lt3 m n (i + 4) (k + 2 * vs) l (by omega) (by omega)))
          (hb _ (by omega)) (hfm _ _ _ (ha _ (row_idx_lt3 m n (i + 4) (k + 1 * vs) l (by omega) (by omega)))
          (hb _ (by omega)) (hfm _ _ _ (ha _ (row_idx_lt3 m n (i + 4) (k + 0 * vs) l (by omega) (by omega)))
          (hb _ (by omega)) (h5 l hl))))
    · intro l hl
      exact hfm _ _ _ (ha _ (row_idx_lt3 m n (i + 5) (k + 3 * vs) l (by omega) (by omega)))
          (hb _ (by omega)) (hfm _ _ _ (ha _ (row_idx_lt3 m n (i + 5) (k + 2 * vs) l (by omega) (by omega)))
          (hb _ (by omega)) (hfm _ _ _ (ha _ (row_idx_lt3 m n (i + 5) (k + 1 * vs) l (by omega) (by omega)))
          (hb _ (by omega)) (hfm _ _ _ (ha _ (row_idx_lt3 m n (i + 5) (k + 0 * vs) l (by omega) (by omega)))
          (hb _ (by omega)) (h6 l hl))))
    · intro l hl
      exact hfm _ _ _ (ha _ (row_idx_lt3 m n (i + 6) (k + 3 * vs) l (by omega) (by omega)))
          (hb _ (by omega)) (hfm _ _ _ (ha _ (row_idx_lt3 m n (i + 6) (k + 2 * vs) l (by omega) (by omega)))
          (hb _ (by omega)) (hfm _ _ _ (ha _ (row_idx_lt3 m n (i + 6) (k + 1 * vs) l (by omega) (by omega)))
          (hb _ (by omega)) (hfm _ _ _ (ha _ (row_idx_lt3 m n (i + 6) (k + 0 * vs) l (by omega) (by omega)))
          (hb _ (by omega)) (h7 l hl))))
    · intro l hl
      exact hfm _ _ _ (ha _ (row_idx_lt3 m n (i + 7) (k + 3 * vs) l (by omega) (by omega)))
          (hb _ (by omega)) (hfm _ _ _ (ha _ (row_idx_lt3 m n (i + 7) (k + 2 * vs) l (by omega) (by omega)))
          (hb _ (by omega)) (hfm _ _ _ (ha _ (row_idx_lt3 m n (i + 7) (k + 1 * vs) l (by omega) (by omega)))
          (hb _ (by omega)) (hfm _ _ _ (ha _ (row_idx_lt3 m n (i + 7) (k + 0 * vs) l (by omega) (by omega)))
          (hb _ (by omega)) (h8 l hl))))
  generalize hv2 : forLoop last (fun k => decide (k + vs < last)) (vs * 2) _ v4.1 v4.2 = v2
  have hV2 : Inv v2.1 v2.2 := by
    rw [← hv2]
    refine forLoop_inv Inv _ _ _ ?_ last _ _ hV4
    rintro k ⟨r1, r2, r3, r4, r5, r6, r7, r8⟩ ⟨hk, hkl, h1, h2, h3, h4, h5, h6, h7, h8⟩ hc
    have hc' : k + vs < last := of_decide_eq_true hc
    have hkv : k + vs + vs ≤ last :=
      add_le_of_dvd_lt vs (k + vs) last (Dvd.dvd.add hk (dvd_refl _)) hl1 hc'
    try dsimp only at h1 h2 h3 h4 h5 h6 h7 h8
    refine ⟨Dvd.dvd.add hk (Dvd.intro _ rfl), by omega, ?_, ?_, ?_, ?_, ?_, ?_, ?_, ?_⟩
    · intro l hl
      exact hfm _ _ _ (ha _ (row_idx_lt3 m n (i + 0) (k + 1 * vs) l (by omega) (by omega)))
          (hb _ (by omega)) (hfm _ _ _ (ha _ (row_idx_lt3 m n (i + 0) (k + 0 * vs) l (by omega) (by omega)))
          (hb _ (by omega)) (h1 l hl))
    · intro l hl
      exact hfm _ _ _ (ha _ (row_idx_lt3 m n (i + 1) (k + 1 * vs) l (by omega) (by omega)))
          (hb _ (by omega)) (hfm _ _ _ (ha _ (row_idx_lt3 m n (i + 1) (k + 0 * vs) l (by omega) (by omega)))
          (hb _ (by omega)) (h2 l hl))
    · intro l hl
      exact hfm _ _ _ (ha _ (row_idx_lt3 m n (i + 2) (k + 1 * vs) l (by omega) (by omega)))
          (hb _ (by omega)) (hfm _ _ _ (ha _ (row_idx_lt3 m n (i + 2) (k + 0 * vs) l (by omega) (by omega)))
          (hb _ (by omega)) (h3 l hl))
    · intro l hl
      exact hfm _ _ _ (ha _ (row_idx_lt3 m n (i + 3) (k + 1 * vs) l (by omega) (by omega)))
          (hb _ (by omega)) (hfm _ _ _ (ha _ (row_idx_lt3 m n (i + 3) (k + 0 * vs) l (by omega) (by omega)))
          (hb _ (by omega)) (h4 l hl))
    · intro l hl
      exact hfm _ _ _ (ha _ (row_idx_lt3 m n (i + 4) (k + 1 * vs) l (by omega) (by omega)))
          (hb _ (by omega)) (hfm _ _ _ (ha _ (row_idx_lt3 m n (i + 4) (k + 0 * vs) l (by omega) (by omega)))
          (hb _ (by omega)) (h5 l hl))
    · intro l hl
      exact hfm _ _ _ (ha _ (row_idx_lt3 m n (i + 5) (k + 1 * vs) l (by omega) (by omega)))
          (hb _ (by omega)) (hfm _ _ _ (ha _ (row_idx_lt3 m n (i + 5) (k + 0 * vs) l (by omega) (by omega)))
          (hb _ (by omega)) (h6 l hl))
    · intro l hl
      exact hfm _ _ _ (ha _ (row_idx_lt3 m n (i + 6) (k + 1 * vs) l (by omega) (by omega)))
          (hb _ (by omega)) (hfm _ _ _ (ha _ (row_idx_lt3 m n (i + 6) (k + 0 * vs) l (by omega) (by omega)))
          (hb _ (by omega)) (h7 l hl))
    · intro l hl
      exact hfm _ _ _ (ha _ (row_idx_lt3 m n (i + 7) (k + 1 * vs) l (by omega) (by omega)))
          (hb _ (by omega)) (hfm _ _ _ (ha _ (row_idx_lt3 m n (i + 7) (k + 0 * vs) l (by omega) (by omega)))
          (hb _ (by omega)) (h8 l hl))
  clear hV4 hv4 hv2
  obtain ⟨hk, hkl, h1, h2, h3, h4, h5, h6, h7, h8⟩ := hV2
  generalize hv : (if v2.1 < last then _ else v2 : Nat × Vec T × Vec T × Vec T × Vec T × Vec T × Vec T × Vec T × Vec T) = v
  have hV : (∀ l, l < vs → P (v.2.1 l)) ∧
      (∀ l, l < vs → P (v.2.2.1 l)) ∧
      (∀ l, l < vs → P (v.2.2.2.1 l)) ∧
      (∀ l, l < vs → P (v.2.2.2.2.1 l)) ∧
      (∀ l, l < vs → P (v.2.2.2.2.2.1 l)) ∧
      (∀ l, l < vs → P (v.2.2.2.2.2.2.1 l)) ∧
      (∀ l, l < vs → P (v.2.2.2.2.2.2.2.1 l)) ∧
      (∀ l, l < vs → P (v.2.2.2.2.2.2.2.2 l)) := by
    rw [← hv]
    by_cases hlt : v2.1 < last
    · have hkv : v2.1 + vs ≤ last := add_le_of_dvd_lt vs v2.1 last hk hl1 hlt
      rw [if_pos hlt]
      refine ⟨?_, ?_, ?_, ?_, ?_, ?_, ?_, ?_⟩
      · intro l hl
        exact hfm _ _ _ (ha _ (row_idx_lt3 m n (i + 0) v2.1 l (by omega) (by omega)))
          (hb _ (by omega)) (h1 l hl)
      · intro l hl
        exact hfm _ _ _ (ha _ (row_idx_lt3 m n (i + 1) v2.1 l (by omega) (by omega)))
          (hb _ (by omega)) (h2 l hl)
      · intro l hl
        exact hfm _ _ _ (ha _ (row_idx_lt3 m n (i + 2) v2.1 l (by omega) (by omega)))
          (hb _ (by omega)) (h3 l hl)
      · intro l hl
        exact hfm _ _ _ (ha _ (row_idx_lt3 m n (i + 3) v2.1 l (by omega) (by omega)))
          (hb _ (by omega)) (h4 l hl)
      · intro l hl
        exact hfm _ _ _ (ha _ (row_idx_lt3 m n (i + 4) v2.1 l (by omega) (by omega)))
          (hb _ (by omega)) (h5 l hl)
      · intro l hl
        exact hfm _ _ _ (ha _ (row_idx_lt3 m n (i + 5) v2.1 l (by omega) (by omega)))
          (hb _ (by omega)) (h6 l hl)
      · intro l hl
        exact hfm _ _ _ (ha _ (row_idx_lt3 m n (i + 6) v2.1 l (by omega) (by omega)))
          (hb _ (by omega)) (h7 l hl)
      · intro l hl
        exact hfm _ _ _ (ha _ (row_idx_lt3 m n (i + 7) v2.1 l (by omega) (by omega)))
          (hb _ (by omega)) (h8 l hl)
    · rw [if_neg hlt]
      exact ⟨h1, h2, h3, h4, h5, h6, h7, h8⟩
  clear hv h1 h2 h3 h4 h5 h6 h7 h8 hk hkl
  obtain ⟨h1, h2, h3, h4, h5, h6, h7, h8⟩ := hV
  have g1 : P (Vec.hadd A vs v.2.1) := hadd_closed A P hP vs _ h1
  have g2 : P (Vec.hadd A vs v.2.2.1) := hadd_closed A P hP vs _ h2
  have g3 : P (Vec.hadd A vs v.2.2.2.1) := hadd_closed A P hP vs _ h3
  have g4 : P (Vec.hadd A vs v.2.2.2.2.1) := hadd_closed A P hP vs _ h4
  have g5 : P (Vec.hadd A vs v.2.2.2.2.2.1) := hadd_closed A P hP vs _ h5
  have g6 : P (Vec.hadd A vs v.2.2.2.2.2.2.1) := hadd_closed A P hP vs _ h6
  have g7 : P (Vec.hadd A vs v.2.2.2.2.2.2.2.1) := hadd_closed A P hP vs _ h7
  have g8 : P (Vec.hadd A vs v.2.2.2.2.2.2.2.2) := hadd_closed A P hP vs _ h8
  generalize hc0 : Buffer.write _ (i + 7) _ = c0
  generalize v.1 = k0
  have hW := forLoop_inv (fun (_ : Nat) (c : Buffer T) =>
      P (c.val (i + 0)) ∧ P (c.val (i + 1)) ∧ P (c.val (i + 2)) ∧ P (c.val (i + 3)) ∧ P (c.val (i + 4)) ∧ P (c.val (i + 5)) ∧ P (c.val (i + 6)) ∧ P (c.val (i + 7)) ∧
      ∀ y, ¬ (i ≤ y ∧ y < i + 8) → c.val y = cc.val y ∧ c.stores y = cc.stores y)
    (fun k => rem && decide (k < n)) 1
    (fun k cc =>
      let cc := cc.add_assign A (i + 0) (A.mul (aa ((i + 0) * n + k)) (bb k))
      let cc := cc.add_assign A (i + 1) (A.mul (aa ((i + 1) * n + k)) (bb k))
      let cc := cc.add_assign A (i + 2) (A.mul (aa ((i + 2) * n + k)) (bb k))
      let cc := cc.add_assign A (i + 3) (A.mul (aa ((i + 3) * n + k)) (bb k))
      let cc := cc.add_assign A (i + 4) (A.mul (aa ((i + 4) * n + k)) (bb k))
      let cc := cc.add_assign A (i + 5) (A.mul (aa ((i + 5) * n + k)) (bb k))
      let cc := cc.add_assign A (i + 6) (A.mul (aa ((i + 6) * n + k)) (bb k))
      let cc := cc.add_assign A (i + 7) (A.mul (aa ((i + 7) * n + k)) (bb k))
      cc)
    ?_ n k0 c0 ?_
  · obtain ⟨h1, h2, h3, h4, h5, h6, h7, h8, hf⟩ := hW
    refine ⟨fun x hx1 hx2 => ?_, hf⟩
    obtain ⟨d, rfl⟩ : ∃ d, x = i + d := ⟨x - i, by omega⟩
    have hd : d < 8 := by omega
    interval_cases d
    · exact h1
    · exact h2
    · exact h3
    · exact h4
    · exact h5
    · exact h6
    · exact h7
    · exact h8
  · rintro k c ⟨h1, h2, h3, h4, h5, h6, h7, h8, hf⟩ hc
    have hk' : k < n := of_decide_eq_true (Bool.and_eq_true_iff.1 hc).2
    refine ⟨?_, ?_, ?_, ?_, ?_, ?_, ?_, ?_, fun y hy => ?_⟩
    · simp (disch := omega) only [add_assign_val_ne, add_assign_val_eq]
      exact hadd _ _ h1 (hmul _ _ (ha _ (row_idx_lt m n (i + 0) k (by omega) hk')) (hb k hk'))
    · simp (disch := omega) only [add_assign_val_ne, add_assign_val_eq]
      exact hadd _ _ h2 (hmul _ _ (ha _ (row_idx_lt m n (i + 1) k (by omega) hk')) (hb k hk'))
    · simp (disch := omega) only [add_assign_val_ne, add_assign_val_eq]
      exact hadd _ _ h3 (hmul _ _ (ha _ (row_idx_lt m n (i + 2) k (by omega) hk')) (hb k hk'))
    · simp (disch := omega) only [add_assign_val_ne, add_assign_val_eq]
      exact hadd _ _ h4 (hmul _ _ (ha _ (row_idx_lt m n (i + 3) k (by omega) hk')) (hb k hk'))
    · simp (disch := omega) only [add_assign_val_ne, add_assign_val_eq]
      exact hadd _ _ h5 (hmul _ _ (ha _ (row_idx_lt m n (i + 4) k (by omega) hk')) (hb k hk'))
    · simp (disch := omega) only [add_assign_val_ne, add_assign_val_eq]
      exact hadd _ _ h6 (hmul _ _ (ha _ (row_idx_lt m n (i + 5) k (by omega) hk')) (hb k hk'))
    · simp (disch := omega) only [add_assign_val_ne, add_assign_val_eq]
      exact hadd _ _ h7 (hmul _ _ (ha _ (row_idx_lt m n (i + 6) k (by omega) hk')) (hb k hk'))
    · simp (disch := omega) only [add_assign_val_ne, add_assign_val_eq]
      exact hadd _ _ h8 (hmul _ _ (ha _ (row_idx_lt m n (i + 7) k (by omega) hk')) (hb k hk'))
    · have hf' := hf y hy
      constructor
      · simp (disch := omega) only [add_assign_val_ne]
        exact hf'.1
      · simp (disch := omega) only [add_assign_stores_ne]
        exact hf'.2
  · subst hc0
    refine ⟨?_, ?_, ?_, ?_, ?_, ?_, ?_, ?_, fun y hy => ?_⟩
    · simp (disch := omega) only [write_val_ne, write_val_eq]
      exact g1
    · simp (disch := omega) only [write_val_ne, write_val_eq]
      exact g2
    · simp (disch := omega) only [write_val_ne, write_val_eq]
      exact g3
    · simp (disch := omega) only [write_val_ne, write_val_eq]
      exact g4
    · simp (disch := omega) only [write_val_ne, write_val_eq]
      exact g5
    · simp (disch := omega) only [write_val_ne, write_val_eq]
      exact g6
    · simp (disch := omega) only [write_val_ne, write_val_eq]
      exact g7
    · simp (disch := omega) only [write_val_ne, write_val_eq]
      exact g8
    · constructor <;> simp (disch := omega) only [write_val_ne, write_stores_ne]

theorem gemv_large_rows2_closed {T : Type} (A : Arith T) (P : T → Prop) (hP : Closed A P)
    (vs : Nat) (rem : Bool) (last m n : Nat) (hl1 : vs ∣ last) (hl2 : last ≤ n)
    (aa bb : Nat → T) (ha : ∀ x, x < m * n → P (aa x)) (hb : ∀ k, k < n → P (bb k))
    (i : Nat) (hi : i + 2 ≤ m) (cc : Buffer T) :
    (∀ x, i ≤ x → x < i + 2 → P ((gemv_large_rows2 A vs rem last aa n bb i cc).val x)) ∧
      ∀ x, ¬ (i ≤ x ∧ x < i + 2) →
        (gemv_large_rows2 A vs rem last aa n bb i cc).val x = cc.val x ∧
        (gemv_large_rows2 A vs rem last aa n bb i cc).stores x = cc.stores x := by
  obtain ⟨hz, hadd, hmul, hfm⟩ := id hP
  unfold gemv_large_rows2
  simp only []
  let Inv : Nat → Vec T × Vec T → Prop := fun k r => vs ∣ k ∧ k ≤ last ∧
      (∀ l, l < vs → P (r.1 l)) ∧
      (∀ l, l < vs → P (r.2 l))
  generalize hv4 : forLoop last (fun k => decide (k + vs * 3 < last)) (vs * 4) _ 0 _ = v4
  have hV4 : Inv v4.1 v4.2 := by
    rw [← hv4]
    refine forLoop_inv Inv _ _ _ ?_ last _ _ ⟨dvd_zero _, Nat.zero_le _, fun _ _ => hz, fun _ _ => hz⟩
    rintro k ⟨r1, r2⟩ ⟨hk, hkl, h1, h2⟩ hc
    have hc' : k + vs * 3 < last := of_decide_eq_true hc
    have hkv : k + vs * 3 + vs ≤ last :=
      add_le_of_dvd_lt vs (k + vs * 3) last (Dvd.dvd.add hk (Dvd.intro _ rfl)) hl1 hc'
    try dsimp only at h1 h2
    refine ⟨Dvd.dvd.add hk (Dvd.intro _ rfl), by omega, ?_, ?_⟩
    · intro l hl
      exact hfm _ _ _ (ha _ (row_idx_lt3 m n (i + 0) (k + 3 * vs) l (by omega) (by omega)))
          (hb _ (by omega)) (hfm _ _ _ (ha _ (row_idx_lt3 m n (i + 0) (k + 2 * vs) l (by omega) (by omega)))
          (hb _ (by omega)) (hfm _ _ _ (ha _ (row_idx_lt3 m n (i + 0) (k + 1 * vs) l (by omega) (by omega)))
          (hb _ (by omega)) (hfm _ _ _ (ha _ (row_idx_lt3 m n (i + 0) (k + 0 * vs) l (by omega) (by omega)))
          (hb _ (by omega)) (h1 l hl))))
    · intro l hl
      exact hfm _ _ _ (ha _ (row_idx_lt3 m n (i + 1) (k + 3 * vs) l (by omega) (by omega)))
          (hb _ (by omega)) (hfm _ _ _ (ha _ (row_idx_lt3 m n (i + 1) (k + 2 * vs) l (by omega) (by omega)))
          (hb _ (by omega)) (hfm _ _ _ (ha _ (row_idx_lt3 m n (i + 1) (k + 1 * vs) l (by omega) (by omega)))
          (hb _ (by omega)) (hfm _ _ _ (ha _ (row_idx_lt3 m n (i + 1) (k + 0 * vs) l (by omega) (by omega)))
          (hb _ (by omega)) (h2 l hl))))
  generalize hv2 : forLoop last (fun k => decide (k + vs < last)) (vs * 2) _ v4.1 v4.2 = v2
  have hV2 : Inv v2.1 v2.2 := by
    rw [← hv2]
    refine forLoop_inv Inv _ _ _ ?_ last _ _ hV4
    rintro k ⟨r1, r2⟩ ⟨hk, hkl, h1, h2⟩ hc
    have hc' : k + vs < last := of_decide_eq_true hc
    have hkv : k + vs + vs ≤ last :=
      add_le_of_dvd_lt vs (k + vs) last (Dvd.dvd.add hk (dvd_refl _)) hl1 hc'
    try dsimp only at h1 h2
    refine ⟨Dvd.dvd.add hk (Dvd.intro _ rfl), by omega, ?_, ?_⟩
    · intro l hl
      exact hfm _ _ _ (ha _ (row_idx_lt3 m n (i + 0) (k + 1 * vs) l (by omega) (by omega)))
          (hb _ (by omega)) (hfm _ _ _ (ha _ (row_idx_lt3 m n (i + 0) (k + 0 * vs) l (by omega) (by omega)))
          (hb _ (by omega)) (h1 l hl))
    · intro l hl
      exact hfm _ _ _ (ha _ (row_idx_lt3 m n (i + 1) (k + 1 * vs) l (by omega) (by omega)))
          (hb _ (by omega)) (hfm _ _ _ (ha _ (row_idx_lt3 m n (i + 1) (k + 0 * vs) l (by omega) (by omega)))
          (hb _ (by omega)) (h2 l hl))
  clear hV4 hv4 hv2
  obtain ⟨hk, hkl, h1, h2⟩ := hV2
  generalize hv : (if v2.1 < last then _ else v2 : Nat × Vec T × Vec T) = v
  have hV : (∀ l, l < vs → P (v.2.1 l)) ∧
      (∀ l, l < vs → P (v.2.2 l)) := by
    rw [← hv]
    by_cases hlt : v2.1 < last
    · have hkv : v2.1 + vs ≤ last := add_le_of_dvd_lt vs v2.1 last hk hl1 hlt
      rw [if_pos hlt]
      refine ⟨?_, ?_⟩
      · intro l hl
        exact hfm _ _ _ (ha _ (row_idx_lt3 m n (i + 0) v2.1 l (by omega) (by omega)))
          (hb _ (by omega)) (h1 l hl)
      · intro l hl
        exact hfm _ _ _ (ha _ (row_idx_lt3 m n (i + 1) v2.1 l (by omega) (by omega)))
          (hb _ (by omega)) (h2 l hl)
    · rw [if_neg hlt]
      exact ⟨h1, h2⟩
  clear hv h1 h2 hk hkl
  obtain ⟨h1, h2⟩ := hV
  have g1 : P (Vec.hadd A vs v.2.1) := hadd_closed A P hP vs _ h1
  have g2 : P (Vec.hadd A vs v.2.2) := hadd_closed A P hP vs _ h2
  generalize hc0 : Buffer.write _ (i + 1) _ = c0
  generalize v.1 = k0
  have hW := forLoop_inv (fun (_ : Nat) (c : Buffer T) =>
      P (c.val (i + 0)) ∧ P (c.val (i + 1)) ∧
      ∀ y, ¬ (i ≤ y ∧ y < i + 2) → c.val y = cc.val y ∧ c.stores y = cc.stores y)
    (fun k => rem && decide (k < n)) 1
    (fun k cc =>
      let cc := cc.add_assign A (i + 0) (A.mul (aa (i + 0 * n + k)) (bb k))
      let cc := cc.add_assign A (i + 1) (A.mul (aa (i + 1 * n + k)) (bb k))
      cc)
    ?_ n k0 c0 ?_
  · obtain ⟨h1, h2, hf⟩ := hW
    refine ⟨fun x hx1 hx2 => ?_, hf⟩
    obtain ⟨d, rfl⟩ : ∃ d, x = i + d := ⟨x - i, by omega⟩
    have hd : d < 2 := by omega
    interval_cases d
    · exact h1
    · exact h2
  · rintro k c ⟨h1, h2, hf⟩ hc
    have hk' : k < n := of_decide_eq_true (Bool.and_eq_true_iff.1 hc).2
    refine ⟨?_, ?_, fun y hy => ?_⟩
    · simp (disch := omega) only [add_assign_val_ne, add_assign_val_eq]
      exact hadd _ _ h1 (hmul _ _ (ha _ (slip_idx_lt0 m n i k (by omega) hk')) (hb k hk'))
    · simp (disch := omega) only [add_assign_val_ne, add_assign_val_eq]
      exact hadd _ _ h2 (hmul _ _ (ha _ (slip_idx_lt1 m n i k (by omega) hk')) (hb k hk'))
    · have hf' := hf y hy
      constructor
      · simp (disch := omega) only [add_assign_val_ne]
        exact hf'.1
      · simp (disch := omega) only [add_assign_stores_ne]
        exact hf'.2
  · subst hc0
    refine ⟨?_, ?_, fun y hy => ?_⟩
    · simp (disch := omega) only [write_val_ne, write_val_eq]
      exact g1
    · simp (disch := omega) only [write_val_ne, write_val_eq]
      exact g2
    · constructor <;> simp (disch := omega) only [write_val_ne, write_stores_ne]

theorem gemv_large_row1_closed {T : Type} (A : Arith T) (P : T → Prop) (hP : Closed A P)
    (vs : Nat) (rem : Bool) (last m n : Nat) (hl1 : vs ∣ last) (hl2 : last ≤ n)
    (aa bb : Nat → T) (ha : ∀ x, x < m * n → P (aa x)) (hb : ∀ k, k < n → P (bb k))
    (i : Nat) (hi : i + 1 ≤ m) (cc : Buffer T) :
    (∀ x, i ≤ x → x < i + 1 → P ((gemv_large_row1 A vs rem last aa n bb i cc).val x)) ∧
      ∀ x, ¬ (i ≤ x ∧ x < i + 1) →
        (gemv_large_row1 A vs rem last aa n bb i cc).val x = cc.val x ∧
        (gemv_large_row1 A vs rem last aa n bb i cc).stores x = cc.stores x := by
  obtain ⟨hz, hadd, hmul, hfm⟩ := id hP
  unfold gemv_large_row1
  simp only []
  let Inv : Nat → Vec T → Prop := fun k r => vs ∣ k ∧ k ≤ last ∧
      (∀ l, l < vs → P (r l))
  generalize hv : forLoop last (fun k => decide (k < last)) vs _ 0 _ = v
  have hV : Inv v.1 v.2 := by
    rw [← hv]
    refine forLoop_inv Inv _ _ _ ?_ last _ _ ⟨dvd_zero _, Nat.zero_le _, fun _ _ => hz⟩
    rintro k r1 ⟨hk, hkl, h1⟩ hc
    have hc' : k < last := of_decide_eq_true hc
    have hkv : k + vs ≤ last :=
      add_le_of_dvd_lt vs (k) last hk hl1 hc'
    try dsimp only at h1
    refine ⟨Dvd.dvd.add hk (dvd_refl _), by omega, ?_⟩
    · intro l hl
      exact hfm _ _ _ (ha _ (row_idx_lt3 m n (i + 0) k l (by omega) (by omega)))
          (hb _ (by omega)) (h1 l hl)
  obtain ⟨hk, hkl, h1⟩ := hV
  have g1 : P (Vec.hadd A vs v.2) := hadd_closed A P hP vs _ h1
  generalize v.1 = k0
  have hW := forLoop_inv (fun (_ : Nat) (r : T) => P r)
    (fun k => rem && decide (k < n)) 1
    (fun k result => A.add result (A.mul (aa (i * n + k)) (bb k)))
    (fun k r hr hc => hadd _ _ hr (hmul _ _
      (ha _ (row_idx_lt m n i k (by omega) (of_decide_eq_true (Bool.and_eq_true_iff.1 hc).2)))
      (hb k (of_decide_eq_true (Bool.and_eq_true_iff.1 hc).2)))) n k0 _ g1
  refine ⟨fun x hx1 hx2 => ?_, fun x hx => ?_⟩
  · have hx : x = i := by omega
    subst hx
    rw [write_val_eq]
    exact hW
  · rw [write_val_ne _ _ _ _ (by omega), write_stores_ne _ _ _ _ (by omega)]
    exact ⟨rfl, rfl⟩
/-- Every value `gemv_small_kernel` leaves in the rows below `m` is built from `T()`,
the elements `aa[x]`, `x < m * n`, and `bb[k]`, `k < n`, by the operations of `A`; no
index at or past `m` is stored to. -/
theorem gemv_small_kernel_closed {T : Type} (A : Arith T) (P : T → Prop) (hP : Closed A P)
    (vs : Nat) (adv padded : Bool) (m n : Nat)
    (hl1 : vs ∣ gemv_last vs (!adv || !padded) n) (hl2 : gemv_last vs (!adv || !padded) n ≤ n)
    (aa bb : Nat → T) (ha : ∀ x, x < m * n → P (aa x)) (hb : ∀ k, k < n → P (bb k))
    (cc : Buffer T) :
    (∀ x, x < m → P ((gemv_small_kernel A vs adv padded aa m n bb cc).val x)) ∧
      ∀ x, m ≤ x →
        (gemv_small_kernel A vs adv padded aa m n bb cc).val x = cc.val x ∧
        (gemv_small_kernel A vs adv padded aa m n bb cc).stores x = cc.stores x := by
  unfold gemv_small_kernel
  simp only []
  generalize (!adv || !padded) = rem at hl1 hl2 ⊢
  generalize gemv_last vs rem n = last at hl1 hl2 ⊢
  let Inv : Nat → Buffer T → Prop := fun i c => i ≤ m ∧ (∀ x, x < i → P (c.val x)) ∧
    ∀ x, i ≤ x → c.val x = cc.val x ∧ c.stores x = cc.stores x
  have hstep : ∀ (R : Nat) (body : Nat → Buffer T → Buffer T),
      (∀ i c, i + R ≤ m → (∀ x, i ≤ x → x < i + R → P ((body i c).val x)) ∧
        ∀ x, ¬ (i ≤ x ∧ x < i + R) →
          (body i c).val x = c.val x ∧ (body i c).stores x = c.stores x) →
      ∀ i c, Inv i c → i + R ≤ m → Inv (i + R) (body i c) := by
    intro R body hB i c hI hi
    obtain ⟨_, hp, hf⟩ := hI
    obtain ⟨hB1, hB2⟩ := hB i c hi
    refine ⟨hi, fun x hx => ?_, fun x hx => ?_⟩
    · by_cases h1 : i ≤ x
      · exact hB1 x h1 hx
      · rw [(hB2 x (fun h => h1 h.1)).1]
        exact hp x (by omega)
    · rw [(hB2 x (fun h => by omega)).1, (hB2 x (fun h => by omega)).2]
      exact hf x (by omega)
  generalize hs8 : forLoop m (fun i => decide (i + 7 < m)) 8 _ 0 cc = s8
  have h8 : Inv s8.1 s8.2 := by
    rw [← hs8]
    refine forLoop_inv Inv _ 8 _ (fun i c hI hc => ?_) m 0 cc
      ⟨Nat.zero_le _, fun x hx => absurd hx (by omega), fun x _ => ⟨rfl, rfl⟩⟩
    have hc' : i + 7 < m := of_decide_eq_true hc
    exact hstep 8 _ (fun i c hi => gemv_small_rows8_closed A P hP vs rem last m n hl1 hl2
      aa bb ha hb i hi c) i c hI (by omega)
  generalize hs2 : forLoop m (fun i => decide (i + 1 < m)) 2 _ s8.1 s8.2 = s2
  have h2 : Inv s2.1 s2.2 ∧ decide (s2.1 + 1 < m) = false := by
    rw [← hs2]
    refine forLoop_spec Inv _ 2 _ m (by norm_num) (fun k hk => ?_) (fun i c hI hc => ?_) m _ _
      (by omega) h8
    · have : k + 1 < m := of_decide_eq_true hk
      omega
    · have hc' : i + 1 < m := of_decide_eq_true hc
      exact hstep 2 _ (fun i c hi => gemv_small_rows2_closed A P hP vs rem last m n hl1 hl2
        aa bb ha hb i hi c) i c hI (by omega)
  obtain ⟨hI2, hex⟩ := h2
  have hex' : ¬ s2.1 + 1 < m := of_decide_eq_false hex
  by_cases hlt : s2.1 < m
  · rw [if_pos hlt]
    have h1 := hstep 1 _ (fun i c hi => gemv_small_row1_closed A P hP vs rem last m n hl1 hl2
      aa bb ha hb i hi c) s2.1 s2.2 hI2 (by omega)
    exact ⟨fun x hx => h1.2.1 x (by omega), fun x hx => h1.2.2 x (by omega)⟩
  · rw [if_neg hlt]
    exact ⟨fun x hx => hI2.2.1 x (by omega), fun x hx => hI2.2.2 x (by omega)⟩

/-- Every value `gemv_large_kernel` leaves in the rows below `m` is built from `T()`,
the elements `aa[x]`, `x < m * n`, and `bb[k]`, `k < n`, by the operations of `A`; no
index at or past `m` is stored to. -/
theorem gemv_large_kernel_closed {T : Type} (A : Arith T) (P : T → Prop) (hP : Closed A P)
    (vs : Nat) (adv padded : Bool) (m n : Nat)
    (hl1 : vs ∣ gemv_last vs (!adv || !padded) n) (hl2 : gemv_last vs (!adv || !padded) n ≤ n)
    (aa bb : Nat → T) (ha : ∀ x, x < m * n → P (aa x)) (hb : ∀ k, k < n → P (bb k))
    (cc : Buffer T) :
    (∀ x, x < m → P ((gemv_large_kernel A vs adv padded aa m n bb cc).val x)) ∧
      ∀ x, m ≤ x →
        (gemv_large_kernel A vs adv padded aa m n bb cc).val x = cc.val x ∧
        (gemv_large_kernel A vs adv padded aa m n bb cc).stores x = cc.stores x := by
  unfold gemv_large_kernel
  simp only []
  generalize (!adv || !padded) = rem at hl1 hl2 ⊢
  generalize gemv_last vs rem n = last at hl1 hl2 ⊢
  let Inv : Nat → Buffer T → Prop := fun i c => i ≤ m ∧ (∀ x, x < i → P (c.val x)) ∧
    ∀ x, i ≤ x → c.val x = cc.val x ∧ c.stores x = cc.stores x
  have hstep : ∀ (R : Nat) (body : Nat → Buffer T → Buffer T),
      (∀ i c, i + R ≤ m → (∀ x, i ≤ x → x < i + R → P ((body i c).val x)) ∧
        ∀ x, ¬ (i ≤ x ∧ x < i + R) →
          (body i c).val x = c.val x ∧ (body i c).stores x = c.stores x) →
      ∀ i c, Inv i c → i + R ≤ m → Inv (i + R) (body i c) := by
    intro R body hB i c hI hi
    obtain ⟨_, hp, hf⟩ := hI
    obtain ⟨hB1, hB2⟩ := hB i c hi
    refine ⟨hi, fun x hx => ?_, fun x hx => ?_⟩
    · by_cases h1 : i ≤ x
      · exact hB1 x h1 hx
      · rw [(hB2 x (fun h => h1 h.1)).1]
        exact hp x (by omega)
    · rw [(hB2 x (fun h => by omega)).1, (hB2 x (fun h => by omega)).2]
      exact hf x (by omega)
  generalize hs8 : forLoop m (fun i => decide (i + 7 < m)) 8 _ 0 cc = s8
  have h8 : Inv s8.1 s8.2 := by
    rw [← hs8]
    refine forLoop_inv Inv _ 8 _ (fun i c hI hc => ?_) m 0 cc
      ⟨Nat.zero_le _, fun x hx => absurd hx (by omega), fun x _ => ⟨rfl, rfl⟩⟩
    have hc' : i + 7 < m := of_decide_eq_true hc
    exact hstep 8 _ (fun i c hi => gemv_large_rows8_closed A P hP vs rem last m n hl1 hl2
      aa bb ha hb i hi c) i c hI (by omega)
  generalize hs2 : forLoop m (fun i => decide (i + 1 < m)) 2 _ s8.1 s8.2 = s2
  have h2 : Inv s2.1 s2.2 ∧ decide (s2.1 + 1 < m) = false := by
    rw [← hs2]
    refine forLoop_spec Inv _ 2 _ m (by norm_num) (fun k hk => ?_) (fun i c hI hc => ?_) m _ _
      (by omega) h8
    · have : k + 1 < m := of_decide_eq_true hk
      omega
    · have hc' : i + 1 < m := of_decide_eq_true hc
      exact hstep 2 _ (fun i c hi => gemv_large_rows2_closed A P hP vs rem last m n hl1 hl2
        aa bb ha hb i hi c) i c hI (by omega)
  obtain ⟨hI2, hex⟩ := h2
  have hex' : ¬ s2.1 + 1 < m := of_decide_eq_false hex
  by_cases hlt : s2.1 < m
  · rw [if_pos hlt]
    have h1 := hstep 1 _ (fun i c hi => gemv_large_row1_closed A P hP vs rem last m n hl1 hl2
      aa bb ha hb i hi c) s2.1 s2.2 hI2 (by omega)
    exact ⟨fun x hx => h1.2.1 x (by omega), fun x hx => h1.2.2 x (by omega)⟩
  · rw [if_neg hlt]
    exact ⟨fun x hx => hI2.2.1 x (by omega), fun x hx => hI2.2.2 x (by omega)⟩

theorem checked_closed {T : Type} (A : Arith T) :
    Closed (Arith.checked A) (fun o => o.isSome = true) := by
  refine ⟨rfl, ?_, ?_, ?_⟩
  · intro x y hx hy
    cases x <;> cases y <;> simp_all [Arith.checked]
  · intro x y hx hy
    cases x <;> cases y <;> simp_all [Arith.checked]
  · intro x y z hx hy hz
    cases x <;> cases y <;> cases z <;> simp_all [Arith.checked]

/-- C16: with the remainder loop enabled, for every `m`, `n < 2^64` and
`vec_size = 2^p`, when `aa` and `bb` are arrays of exactly `m * n` and `n` elements
whose out-of-bounds reads give a missing value that every operation propagates,
`gemv_small_kernel` and `gemv_large_kernel` leave a present value in every `cc[i]`,
`i < m`: no read of `aa` at or past `m * n` and no read of `bb` at or past `n` reaches
a result; and they store to no index of `cc` at or past `m`. -/
theorem gemv_reads_in_bounds {T : Type} (A : Arith T) (p : Nat) (hp : p < 64)
    (adv padded : Bool) (hrem : (!adv || !padded) = true) (m n : Nat) (hn : n < 2 ^ 64)
    (aa bb : Nat → T) (cc : Buffer (Option T)) :
    (∀ i, i < m →
      ((gemv_small_kernel (Arith.checked A) (2 ^ p) adv padded (checked_view (m * n) aa) m n
        (checked_view n bb) cc).val i).isSome = true ∧
      ((gemv_large_kernel (Arith.checked A) (2 ^ p) adv padded (checked_view (m * n) aa) m n
        (checked_view n bb) cc).val i).isSome = true) ∧
    (∀ x, m ≤ x →
      (gemv_small_kernel (Arith.checked A) (2 ^ p) adv padded (checked_view (m * n) aa) m n
        (checked_view n bb) cc).stores x = cc.stores x ∧
      (gemv_large_kernel (Arith.checked A) (2 ^ p) adv padded (checked_view (m * n) aa) m n
        (checked_view n bb) cc).stores x = cc.stores x) := by
  have hl1 : 2 ^ p ∣ gemv_last (2 ^ p) (!adv || !padded) n := by
    rw [hrem]
    exact gemv_last_dvd p n hp hn
  have hl2 : gemv_last (2 ^ p) (!adv || !padded) n ≤ n := by
    rw [hrem]
    exact gemv_last_le p n hp hn
  have ha : ∀ x, x < m * n → (checked_view (m * n) aa x).isSome = true := by
    intro x hx
    simp [checked_view, hx]
  have hb : ∀ k, k < n → (checked_view n bb k).isSome = true := by
    intro k hk
    simp [checked_view, hk]
  have hs := gemv_small_kernel_closed (Arith.checked A) _ (checked_closed A) (2 ^ p) adv padded
    m n hl1 hl2 _ _ ha hb cc
  have hl := gemv_large_kernel_closed (Arith.checked A) _ (checked_closed A) (2 ^ p) adv padded
    m n hl1 hl2 _ _ ha hb cc
  exact ⟨fun i hi => ⟨hs.1 i hi, hl.1 i hi⟩, fun x hx => ⟨(hs.2 x hx).2, (hl.2 x hx).2⟩⟩

/-- Witness of C16: row 4 of a 6 x 5 product with 4 lanes; index 6 is not stored to. -/
theorem gemv_reads_in_bounds_witness :
    ((gemv_large_kernel (Arith.checked (Arith.exact Int)) (2 ^ 2) false false
        (checked_view (6 * 5) (fun x => (x : Int))) 6 5 (checked_view 5 (fun x => (x : Int) + 1))
        ⟨fun _ => none, fun _ => 0⟩).val 4).isSome = true ∧
      (gemv_large_kernel (Arith.checked (Arith.exact Int)) (2 ^ 2) false false
        (checked_view (6 * 5) (fun x => (x : Int))) 6 5 (checked_view 5 (fun x => (x : Int) + 1))
        ⟨fun _ => none, fun _ => 0⟩).stores 6 = 0 :=
  ⟨((gemv_reads_in_bounds (Arith.exact Int) 2 (by decide) false false rfl 6 5 (by decide)
      (fun x => (x : Int)) (fun x => (x : Int) + 1) ⟨fun _ => none, fun _ => 0⟩).1 4
      (by decide)).2,
   ((gemv_reads_in_bounds (Arith.exact Int) 2 (by decide) false false rfl 6 5 (by decide)
      (fun x => (x : Int)) (fun x => (x : Int) + 1) ⟨fun _ => none, fun _ => 0⟩).2 6
      (by decide)).2⟩

theorem forLoop_two {S : Type} (cond : Nat → Bool) (step : Nat) (body : Nat → S → S)
    (fuel i : Nat) (s : S) (h0 : cond i = true) (h1 : cond (i + step) = true)
    (h2 : cond (i + step + step) = false) :
    forLoop (fuel + 2) cond step body i s =
      (i + step + step, body (i + step) (body i s)) := by
  show (if cond i then forLoop (fuel + 1) cond step body (i + step) (body i s) else (i, s)) = _
  rw [if_pos h0]
  show (if cond (i + step) then
    forLoop fuel cond step body (i + step + step) (body (i + step) (body i s))
    else (i + step, body i s)) = _
  rw [if_pos h1]
  cases fuel with
  | zero => rfl
  | succ f =>
    show (if cond (i + step + step) then _ else _) = _
    rw [if_neg (by rw [h2]; decide)]

theorem forLoop_none {S : Type} (cond : Nat → Bool) (step : Nat) (body : Nat → S → S)
    (fuel i : Nat) (s : S) (h0 : cond i = false) :
    forLoop fuel cond step body i s = (i, s) := by
  cases fuel with
  | zero => rfl
  | succ f =>
    show (if cond i then _ else _) = _
    rw [if_neg (by rw [h0]; decide)]

theorem hadd_top {T : Type} (A : Arith T) (vs : Nat) (r : Vec T) :
    Vec.hadd A (vs + 2) r = A.add (Vec.hadd A (vs + 1) r) (r (vs + 1)) := rfl

theorem gemv_runs_fresh {T : Type} (cfg : Config) (A : Arith T) (a b c : Dense T) :
    (gemv cfg A a b c).2.2 =
      ((gemv_calls cfg a).foldl
        (fun d k => k.run cfg A a.ensure_cpu_up_to_date b.ensure_cpu_up_to_date d)
        c).invalidate_gpu := by
  unfold gemv gemv_calls
  dsimp only
  by_cases h : a.size < cfg.gemv_small_threshold
  · have h2 : a.ensure_cpu_up_to_date.size < cfg.gemv_small_threshold := h
    rw [if_pos h, if_pos h2]
    rfl
  · have h2 : ¬ a.ensure_cpu_up_to_date.size < cfg.gemv_small_threshold := h
    rw [if_neg h, if_neg h2]
    rfl

theorem gevm_runs_fresh {T : Type} (cfg : Config) (A : Arith T) (a b c : Dense T) :
    (gevm cfg A a b c).2.2 =
      ((gevm_calls cfg b).foldl
        (fun d k => k.run cfg A a.ensure_cpu_up_to_date b.ensure_cpu_up_to_date d)
        c).invalidate_gpu := by
  unfold gevm gevm_calls
  dsimp only
  by_cases h : b.size < cfg.gevm_small_threshold
  · have h2 : b.ensure_cpu_up_to_date.size < cfg.gevm_small_threshold := h
    rw [if_pos h, if_pos h2]
    rfl
  · have h2 : ¬ b.ensure_cpu_up_to_date.size < cfg.gevm_small_threshold := h
    rw [if_neg h, if_neg h2]
    rfl

theorem gemm_runs_fresh {T : Type} (cfg : Config) (A : Arith T) (a b c : Dense T) :
    (gemm cfg A a b c).2.2 =
      ((gemm_calls cfg b).foldl
        (fun d k => k.run cfg A a.ensure_cpu_up_to_date b.ensure_cpu_up_to_date d)
        c).invalidate_gpu := by
  unfold gemm gemm_calls
  dsimp only
  by_cases h : b.size ≤ cfg.gemm_small_threshold
  · have h2 : b.ensure_cpu_up_to_date.size ≤ cfg.gemm_small_threshold := h
    rw [if_pos h, if_pos h2]
    rfl
  · have h2 : ¬ b.ensure_cpu_up_to_date.size ≤ cfg.gemm_small_threshold := h
    rw [if_neg h, if_neg h2]
    rfl

theorem engine_run_cons (ps : Bool) (threads : Nat) (k : EngineCall) (ks : List EngineCall)
    (ctx : Context) :
    engine_run ps threads ctx (k :: ks) =
      (EngineCall.step ps threads ctx k).bind (fun c => engine_run ps threads c ks) := by
  show (match EngineCall.step ps threads ctx k with
    | none => none
    | some ctx2 => engine_run ps threads ctx2 ks) = _
  cases EngineCall.step ps threads ctx k <;> rfl

theorem engine_run_append (ps : Bool) (threads : Nat) (xs ys : List EngineCall) :
    ∀ ctx, engine_run ps threads ctx (xs ++ ys) =
      (engine_run ps threads ctx xs).bind (fun c => engine_run ps threads c ys) := by
  induction xs with
  | nil => intro ctx; rfl
  | cons k ks ih =>
    intro ctx
    rw [List.cons_append, engine_run_cons, engine_run_cons]
    cases h : EngineCall.step ps threads ctx k with
    | none => rfl
    | some c => exact ih c

theorem acquire_some (ps : Bool) (threads : Nat) (ctx c : Context)
    (h : conf_thread_engine.acquire ps threads ctx = some c) :
    ps = true ∧ ctx.serial = false ∧ 1 < threads ∧ c.serial = true := by
  unfold conf_thread_engine.acquire at h
  cases hps : ps <;> cases hs : ctx.serial <;> by_cases ht : threads > 1 <;>
    simp [hps, hs, ht] at h
  subst h
  exact ⟨rfl, rfl, ht, rfl⟩

theorem acquire_enabled (ps : Bool) (threads : Nat) (ctx : Context) :
    (conf_thread_engine.acquire ps threads ctx).isSome = true ↔
      ps = true ∧ ctx.serial = false ∧ 1 < threads := by
  unfold conf_thread_engine.acquire
  cases hps : ps <;> cases hs : ctx.serial <;> by_cases ht : threads > 1 <;> simp [ht]

/-- From a context with `serial` set, an assertion-free run without `wait` makes no
`acquire` and keeps `serial` set. -/
theorem engine_run_serial (ps : Bool) (threads : Nat) (mid : List EngineCall)
    (hw : EngineCall.wait ∉ mid) :
    ∀ ctx c, ctx.serial = true → engine_run ps threads ctx mid = some c →
      c.serial = true ∧ EngineCall.acquire ∉ mid := by
  induction mid with
  | nil =>
    intro ctx c hs h
    simp only [engine_run, Option.some.injEq] at h
    subst h
    exact ⟨hs, List.not_mem_nil _⟩
  | cons k ks ih =>
    intro ctx c hs h
    have hw1 : EngineCall.wait ≠ k := fun e => hw (e ▸ List.mem_cons_self _ _)
    have hw2 : EngineCall.wait ∉ ks := fun e => hw (List.mem_cons_of_mem _ e)
    cases k with
    | acquire =>
      exfalso
      have : conf_thread_engine.acquire ps threads ctx = none := by
        unfold conf_thread_engine.acquire
        cases ps <;> simp [hs]
      simp [engine_run, EngineCall.step, this] at h
    | schedule =>
      have h2 : engine_run ps threads ctx ks = some c := by
        simpa [engine_run, EngineCall.step, conf_thread_engine.schedule] using h
      have := ih hw2 ctx c hs h2
      refine ⟨this.1, ?_⟩
      intro hm
      rcases List.mem_cons.1 hm with e | e
      · cases e
      · exact this.2 e
    | wait => exact absurd rfl hw1

/-- C30: on the state `local_context().serial`, `acquire` passes its assertions exactly
when parallel support is on, `serial` is false and there are at least two threads, and
it then sets `serial`; `wait` clears `serial`.  Hence in every assertion-free run two
calls of `acquire` have a `wait` between them, `serial` is set at every point after an
`acquire` up to the next `wait`, and right after a `wait` the flag is clear, so that a
new `acquire` passes whenever the two constants allow it. -/
theorem serial_flag_protocol (ps : Bool) (threads : Nat) (ctx : Context)
    (pre mid post : List EngineCall) :
    ((conf_thread_engine.acquire ps threads ctx).isSome = true ↔
      ps = true ∧ ctx.serial = false ∧ 1 < threads) ∧
    (∀ c, conf_thread_engine.acquire ps threads ctx = some c → c.serial = true) ∧
    (conf_thread_engine.wait ctx).serial = false ∧
    ((engine_run ps threads ctx
        (pre ++ EngineCall.acquire :: (mid ++ EngineCall.acquire :: post))).isSome = true →
      EngineCall.wait ∈ mid) ∧
    (∀ c, EngineCall.wait ∉ mid →
      engine_run ps threads ctx (pre ++ EngineCall.acquire :: mid) = some c →
      c.serial = true) ∧
    (∀ c, engine_run ps threads ctx (pre ++ [EngineCall.wait]) = some c →
      c.serial = false ∧
      (ps = true → 1 < threads →
        (engine_run ps threads ctx
          (pre ++ [EngineCall.wait, EngineCall.acquire])).isSome = true)) := by
  refine ⟨acquire_enabled ps threads ctx, fun c h => (acquire_some ps threads ctx c h).2.2.2,
    rfl, ?_, ?_, ?_⟩
  · intro h
    by_contra hw
    rw [engine_run_append] at h
    cases h1 : engine_run ps threads ctx pre with
    | none => simp [h1] at h
    | some c1 =>
      rw [h1, Option.some_bind, engine_run_cons] at h
      cases h2 : EngineCall.step ps threads c1 EngineCall.acquire with
      | none => simp [h2] at h
      | some c2 =>
        rw [h2, Option.some_bind, engine_run_append] at h
        have hs2 : c2.serial = true := (acquire_some ps threads c1 c2 h2).2.2.2
        cases h3 : engine_run ps threads c2 mid with
        | none => simp [h3] at h
        | some c3 =>
          have hs3 := (engine_run_serial ps threads mid hw c2 c3 hs2 h3).1
          rw [h3, Option.some_bind, engine_run_cons] at h
          have h4 : EngineCall.step ps threads c3 EngineCall.acquire = none := by
            show conf_thread_engine.acquire ps threads c3 = none
            unfold conf_thread_engine.acquire
            cases ps <;> simp [hs3]
          simp [h4] at h
  · intro c hw h
    rw [engine_run_append] at h
    cases h1 : engine_run ps threads ctx pre with
    | none => simp [h1] at h
    | some c1 =>
      rw [h1, Option.some_bind, engine_run_cons] at h
      cases h2 : EngineCall.step ps threads c1 EngineCall.acquire with
      | none => simp [h2] at h
      | some c2 =>
        rw [h2, Option.some_bind] at h
        exact (engine_run_serial ps threads mid hw c2 c
          (acquire_some ps threads c1 c2 h2).2.2.2 h).1
  · intro c h
    rw [engine_run_append] at h
    have e : pre ++ [EngineCall.wait, EngineCall.acquire] =
        (pre ++ [EngineCall.wait]) ++ [EngineCall.acquire] := by simp
    cases h1 : engine_run ps threads ctx pre with
    | none => simp [h1] at h
    | some c1 =>
      rw [h1, Option.some_bind] at h
      have hc : c = conf_thread_engine.wait c1 := by
        simpa [engine_run, EngineCall.step] using h.symm
      refine ⟨by rw [hc]; rfl, fun hps ht => ?_⟩
      rw [e, engine_run_append, engine_run_append, h1, Option.some_bind, h, Option.some_bind,
        engine_run_cons]
      have h5 := (acquire_enabled ps threads c).2 ⟨hps, by rw [hc]; rfl, ht⟩
      cases h6 : EngineCall.step ps threads c EngineCall.acquire with
      | none =>
        have : conf_thread_engine.acquire ps threads c = none := h6
        rw [this] at h5
        exact absurd h5 (by simp)
      | some c4 => rfl

/-- Witness of C30: the run `acquire, schedule, wait, acquire, wait` with 4 threads is
assertion-free, and its two calls of `acquire` have a `wait` between them. -/
theorem serial_flag_protocol_witness :
    (engine_run true 4 ⟨false⟩
        ([] ++ EngineCall.acquire ::
          ([EngineCall.schedule, EngineCall.wait] ++ EngineCall.acquire ::
            [EngineCall.wait]))).isSome = true ∧
      EngineCall.wait ∈ [EngineCall.schedule, EngineCall.wait] :=
  ⟨by decide,
   (serial_flag_protocol true 4 ⟨false⟩ [] [EngineCall.schedule, EngineCall.wait]
      [EngineCall.wait]).2.2.2.1 (by decide)⟩

/-- C28: each of the operators `=`, `+=`, `-=`, `*=`, `>>=`, `/=`, `%=` of
`hermitian_matrix` taking an ETL expression `rhs`, whatever the validation and the
evaluation do, throws `hermitian_exception` exactly when `is_hermitian(rhs)` is false,
and when it throws the matrix is the one it was before the call. -/
theorem hermitian_rejects_atomically {M E : Type} (is_hermitian : E → Bool)
    (validate_assign validate_expression : M → E → Bool)
    (assign_evaluate add_evaluate sub_evaluate mul_evaluate div_evaluate mod_evaluate :
      E → M → M) (self : M) (rhs : E) :
    ((hermitian_matrix.assign is_hermitian validate_assign assign_evaluate self rhs).status =
        Status.thrown AdapterException.hermitian_exception ↔ is_hermitian rhs = false) ∧
    (is_hermitian rhs = false →
      (hermitian_matrix.assign is_hermitian validate_assign assign_evaluate self rhs).matrix = self) ∧
    ((hermitian_matrix.add_assign is_hermitian validate_expression add_evaluate self rhs).status =
        Status.thrown AdapterException.hermitian_exception ↔ is_hermitian rhs = false) ∧
    (is_hermitian rhs = false →
      (hermitian_matrix.add_assign is_hermitian validate_expression add_evaluate self rhs).matrix = self) ∧
    ((hermitian_matrix.sub_assign is_hermitian validate_expression sub_evaluate self rhs).status =
        Status.thrown AdapterException.hermitian_exception ↔ is_hermitian rhs = false) ∧
    (is_hermitian rhs = false →
      (hermitian_matrix.sub_assign is_hermitian validate_expression sub_evaluate self rhs).matrix = self) ∧
    ((hermitian_matrix.mul_assign is_hermitian validate_expression mul_evaluate self rhs).status =
        Status.thrown AdapterException.hermitian_exception ↔ is_hermitian rhs = false) ∧
    (is_hermitian rhs = false →
      (hermitian_matrix.mul_assign is_hermitian validate_expression mul_evaluate self rhs).matrix = self) ∧
    ((hermitian_matrix.shr_assign is_hermitian validate_expression mul_evaluate self rhs).status =
        Status.thrown AdapterException.hermitian_exception ↔ is_hermitian rhs = false) ∧
    (is_hermitian rhs = false →
      (hermitian_matrix.shr_assign is_hermitian validate_expression mul_evaluate self rhs).matrix = self) ∧
    ((hermitian_matrix.div_assign is_hermitian validate_expression div_evaluate self rhs).status =
        Status.thrown AdapterException.hermitian_exception ↔ is_hermitian rhs = false) ∧
    (is_hermitian rhs = false →
      (hermitian_matrix.div_assign is_hermitian validate_expression div_evaluate self rhs).matrix = self) ∧
    ((hermitian_matrix.mod_assign is_hermitian validate_expression mod_evaluate self rhs).status =
        Status.thrown AdapterException.hermitian_exception ↔ is_hermitian rhs = false) ∧
    (is_hermitian rhs = false →
      (hermitian_matrix.mod_assign is_hermitian validate_expression mod_evaluate self rhs).matrix = self) := by
  unfold hermitian_matrix.assign hermitian_matrix.add_assign hermitian_matrix.sub_assign
    hermitian_matrix.mul_assign hermitian_matrix.shr_assign hermitian_matrix.div_assign
    hermitian_matrix.mod_assign
  cases h : is_hermitian rhs
  · simp
  · cases validate_assign self rhs <;> cases validate_expression self rhs <;> simp

/-- Witness of C28: a 2 x 2 matrix of integers, with `is_hermitian` the test of
symmetry and `assign_evaluate` the copy; the right-hand side `[[1, 2], [3, 4]]` is not
symmetric, and the matrix stays `[[5, 6], [6, 7]]`. -/
theorem hermitian_rejects_atomically_witness :
    (fun (e : List (List Int)) => decide (e = e.transpose)) [[1, 2], [3, 4]] = false ∧
      (hermitian_matrix.assign (fun (e : List (List Int)) => decide (e = e.transpose))
        (fun m e => decide (m.length = e.length)) (fun e _ => e) [[5, 6], [6, 7]]
        [[1, 2], [3, 4]]).matrix = [[5, 6], [6, 7]] :=
  ⟨by decide,
   (hermitian_rejects_atomically (fun (e : List (List Int)) => decide (e = e.transpose))
      (fun m e => decide (m.length = e.length)) (fun m e => decide (m.length = e.length))
      (fun e _ => e) (fun e _ => e) (fun e _ => e) (fun e _ => e) (fun e _ => e)
      (fun e _ => e) [[5, 6], [6, 7]] [[1, 2], [3, 4]]).2.1 (by decide)⟩

/-- C29 (defect): on the zero matrix of any dimension `d + 1`, which is strictly lower
triangular, the scalar form `m += 1` returns normally and leaves a matrix that is not
strictly lower triangular (its diagonal holds 1), whereas the expression form `m += e`
with `e` the matrix of ones throws `strictly_lower_exception` and leaves the matrix as
it was. -/
theorem strictly_lower_scalar_add_breaks (d : Nat) :
    StrictlyLower (d + 1) (fun _ _ => (0 : Int)) ∧
    (strictly_lower_matrix.add_assign_scalar scalar_add_apply
      (fun _ _ => (0 : Int)) (1 : Int)).status = Status.returned ∧
    (strictly_lower_matrix.add_assign_scalar scalar_add_apply
      (fun _ _ => (0 : Int)) (1 : Int)).matrix 0 0 = 1 ∧
    ¬ StrictlyLower (d + 1)
      (strictly_lower_matrix.add_assign_scalar scalar_add_apply
        (fun _ _ => (0 : Int)) (1 : Int)).matrix ∧
    (strictly_lower_matrix.add_assign (is_strictly_lower_triangular (d + 1))
      (fun _ _ => true) add_evaluate (fun _ _ => (0 : Int)) (fun _ _ => (1 : Int))).status =
        Status.thrown AdapterException.strictly_lower_exception ∧
    (strictly_lower_matrix.add_assign (is_strictly_lower_triangular (d + 1))
      (fun _ _ => true) add_evaluate (fun _ _ => (0 : Int)) (fun _ _ => (1 : Int))).matrix =
        (fun _ _ => (0 : Int)) := by
  have hno : is_strictly_lower_triangular (d + 1) (fun _ _ => (1 : Int)) = false := by
    unfold is_strictly_lower_triangular
    rw [decide_eq_false_iff_not]
    intro h
    exact absurd (h 0 (Nat.succ_pos d) 0 (Nat.succ_pos d) (Nat.le_refl 0)) (by decide)
  refine ⟨fun _ _ _ _ _ => rfl, rfl, rfl, ?_, ?_, ?_⟩
  · intro h
    exact absurd (h 0 0 (Nat.succ_pos d) (Nat.succ_pos d) (Nat.le_refl 0)) (by decide)
  · unfold strictly_lower_matrix.add_assign
    rw [hno]
    rfl
  · unfold strictly_lower_matrix.add_assign
    rw [hno]
    rfl

/-- C22: with the remainder loop disabled (`advanced_padding` and `Padded`), for every
`m`, `n` and `vec_size = 2^p`, `gemv_small_kernel` writes to `cc[i]`, `i < m`, the sum
of `aa[i*n + k] * bb[k]` over `k < n'`, where `n'` is the least multiple of `vec_size`
that is at least `n`; hence, when the pad elements `bb[n .. n'-1]` are zero, `cc[i]` is
the sum over `k < n`, whatever `aa` holds past its rows (exact arithmetic). -/
theorem gemv_padded_correct {T : Type} [CommRing T] (p m n : Nat) (aa bb : Nat → T)
    (cc : Buffer T) (i : Nat) (hi : i < m) :
    (gemv_small_kernel (Arith.exact T) (2 ^ p) true true aa m n bb cc).val i =
        ∑ k ∈ Finset.range (round_up (2 ^ p) n), aa (i * n + k) * bb k ∧
      (2 ^ p ∣ round_up (2 ^ p) n ∧ n ≤ round_up (2 ^ p) n ∧ round_up (2 ^ p) n < n + 2 ^ p) ∧
      ((∀ k, n ≤ k → k < round_up (2 ^ p) n → bb k = 0) →
        (gemv_small_kernel (Arith.exact T) (2 ^ p) true true aa m n bb cc).val i =
          ∑ k ∈ Finset.range n, aa (i * n + k) * bb k) := by
  have hvs : 0 < 2 ^ p := Nat.pow_pos (by decide)
  have hval : (gemv_small_kernel (Arith.exact T) (2 ^ p) true true aa m n bb cc).val i =
      ∑ k ∈ Finset.range (round_up (2 ^ p) n), aa (i * n + k) * bb k := by
    rw [gemv_small_kernel_val (2 ^ p) hvs true true m n aa bb cc i, if_pos hi]
    simp [gemv_small_value, gemv_last]
  refine ⟨hval, ⟨round_up_dvd _ _, le_round_up _ _ hvs, round_up_lt _ _ hvs⟩, fun hz => ?_⟩
  rw [hval, ← Finset.sum_range_add_sum_Ico _ (le_round_up (2 ^ p) n hvs)]
  rw [Finset.sum_eq_zero (s := Finset.Ico n (round_up (2 ^ p) n)), add_zero]
  intro k hk
  rw [Finset.mem_Ico] at hk
  rw [hz k hk.1 hk.2, mul_zero]

/-- Witness of C22: row 1 of a 2 x 3 product with 4 lanes, `bb = [1, 2, 3, 0, ...]`. -/
theorem gemv_padded_correct_witness :
    (gemv_small_kernel (Arith.exact Int) (2 ^ 2) true true (fun x => (x : Int) + 1) 2 3
        (fun k => if k < 3 then (k : Int) + 1 else 0) ⟨fun _ => 9, fun _ => 0⟩).val 1 =
      ∑ k ∈ Finset.range 3, (((1 * 3 + k : Nat) : Int) + 1) * (if k < 3 then (k : Int) + 1 else 0) :=
  (gemv_padded_correct 2 2 3 (fun x => (x : Int) + 1)
    (fun k => if k < 3 then (k : Int) + 1 else 0) ⟨fun _ => 9, fun _ => 0⟩ 1 (by decide)).2.2
    (fun k h1 _ => by rw [if_neg (by omega)])

/-- The value `gemv_small_kernel` leaves in `cc[0]` for one row of `2 * vec_size`
columns, `vec_size ≥ 2`: the horizontal sum ends with the addition of a lane that holds
two fused multiply-adds. -/
theorem gemv_small_one_row {T : Type} (A : Arith T) (vs : Nat) (adv padded : Bool)
    (hl : gemv_last (vs + 2) (!adv || !padded) (2 * (vs + 2)) = 2 * (vs + 2))
    (aa bb : Nat → T) (cc : Buffer T) :
    ∃ X, (gemv_small_kernel A (vs + 2) adv padded aa 1 (2 * (vs + 2)) bb cc).val 0 =
      A.add X (A.fmadd (aa ((0 + 0) * (2 * (vs + 2)) + (0 + (vs + 2)) + (vs + 1)))
        (bb (0 + (vs + 2) + (vs + 1)))
        (A.fmadd (aa ((0 + 0) * (2 * (vs + 2)) + 0 + (vs + 1))) (bb (0 + (vs + 1))) A.zero)) := by
  unfold gemv_small_kernel
  dsimp only
  rw [hl]
  rw [forLoop_none (fun i => decide (i + 7 < 1)) 8 _ 1 0 cc (by decide)]
  dsimp only
  rw [forLoop_none (fun i => decide (i + 1 < 1)) 2 _ 1 0 cc (by decide)]
  dsimp only
  rw [if_pos (by decide)]
  unfold gemv_small_row1
  dsimp only
  have e : 2 * (vs + 2) = (2 * vs + 2) + 2 := by ring
  have h2 := forLoop_two (fun k => decide (k < 2 * (vs + 2))) (vs + 2)
    (fun k r1 => Vec.fmadd A (Vec.loadu aa ((0 + 0) * (2 * (vs + 2)) + k)) (Vec.load bb k) r1)
    (2 * vs + 2) 0 (Vec.zero A) (by simp) (by simp) (by simp; omega)
  rw [← e] at h2
  rw [h2]
  dsimp only
  rw [forLoop_none _ 1 _ (2 * (vs + 2)) (0 + (vs + 2) + (vs + 2)) _
    (by simp; intro _; omega)]
  dsimp only
  rw [write_val_eq, hadd_top]
  exact ⟨_, rfl⟩

theorem gemv_last_double (q : Fin 62) (rem : Bool) :
    gemv_last (2 ^ (q.val + 1)) rem (2 * 2 ^ (q.val + 1)) = 2 * 2 ^ (q.val + 1) := by
  cases rem with
  | false => rfl
  | true =>
    have hq := q.isLt
    have hn : 2 * 2 ^ (q.val + 1) < 2 ^ 64 := by
      have : 2 * 2 ^ (q.val + 1) = 2 ^ (q.val + 2) := by ring
      rw [this]
      exact Nat.pow_lt_pow_right (by decide) (by omega)
    rw [gemv_last_eq (q.val + 1) _ (by omega) hn]
    rw [Nat.mul_div_cancel _ (Nat.pow_pos (by decide))]
    ring

/-- The value `gemv_small_kernel` leaves in `cc[0]` for one row of `2 * vec_size`
columns: the horizontal sum of the lanes, each lane holding two fused multiply-adds. -/
theorem gemv_small_one_row_hadd {T : Type} (A : Arith T) (v : Nat) (adv padded : Bool)
    (hl : gemv_last (v + 1) (!adv || !padded) (2 * (v + 1)) = 2 * (v + 1))
    (aa bb : Nat → T) (cc : Buffer T) :
    (gemv_small_kernel A (v + 1) adv padded aa 1 (2 * (v + 1)) bb cc).val 0 =
      Vec.hadd A (v + 1) (fun l => A.fmadd (aa (v + 1 + l)) (bb (v + 1 + l))
        (A.fmadd (aa l) (bb l) A.zero)) := by
  unfold gemv_small_kernel
  dsimp only
  rw [hl]
  rw [forLoop_none (fun i => decide (i + 7 < 1)) 8 _ 1 0 cc (by decide)]
  dsimp only
  rw [forLoop_none (fun i => decide (i + 1 < 1)) 2 _ 1 0 cc (by decide)]
  dsimp only
  rw [if_pos (by decide)]
  unfold gemv_small_row1
  dsimp only
  have e : 2 * (v + 1) = 2 * v + 2 := by ring
  have h2 := forLoop_two (fun k => decide (k < 2 * (v + 1))) (v + 1)
    (fun k r1 => Vec.fmadd A (Vec.loadu aa ((0 + 0) * (2 * (v + 1)) + k)) (Vec.load bb k) r1)
    (2 * v) 0 (Vec.zero A) (by simp) (by simp) (by simp; omega)
  rw [← e] at h2
  rw [h2]
  dsimp only
  rw [forLoop_none _ 1 _ (2 * (v + 1)) (0 + (v + 1) + (v + 1)) _
    (by simp; intro _; omega)]
  dsimp only
  rw [write_val_eq]
  congr 1
  funext l
  simp [Vec.fmadd, Vec.loadu, Vec.load, Vec.zero]

theorem gemv_last_one_two (rem : Bool) : gemv_last (0 + 1) rem (2 * (0 + 1)) = 2 * (0 + 1) := by
  cases rem <;> decide

theorem sat_add_comm (B x y : Int) : (Arith.sat B).add x y = (Arith.sat B).add y x := by
  show clamp B (x + y) = clamp B (y + x)
  rw [add_comm]

theorem sat_mul_comm (B x y : Int) : (Arith.sat B).mul x y = (Arith.sat B).mul y x := by
  show clamp B (x * y) = clamp B (y * x)
  rw [mul_comm]

/-- Expressions equal up to the order of operands have the same value in every
arithmetic with commutative `+` and `*`. -/
theorem CommEq_eval {T : Type} (A : Arith T) (fa fb : Nat → T)
    (hadd : ∀ x y, A.add x y = A.add y x) (hmul : ∀ x y, A.mul x y = A.mul y x)
    {e f : Expr} (h : Expr.CommEq e f) : Expr.eval A fa fb e = Expr.eval A fa fb f := by
  induction h with
  | same e => rfl
  | flip _ ih => exact ih.symm
  | chain _ _ ih1 ih2 => exact ih1.trans ih2
  | swap_add l r => exact hadd _ _
  | swap_mul l r => exact hmul _ _
  | under_add _ _ ih1 ih2 => show A.add _ _ = A.add _ _; rw [ih1, ih2]
  | under_mul _ _ ih1 ih2 => show A.mul _ _ = A.mul _ _; rw [ih1, ih2]

theorem eval_hadd {T : Type} (A : Arith T) (fa fb : Nat → T) (r : Vec Expr) :
    ∀ n, Expr.eval A fa fb (Vec.hadd Arith.free n r) =
      Vec.hadd A n (fun l => Expr.eval A fa fb (r l))
  | 0 => rfl
  | 1 => rfl
  | n + 2 => by
    show A.add (Expr.eval A fa fb (Vec.hadd Arith.free (n + 1) r)) _ = A.add _ _
    rw [eval_hadd A fa fb r (n + 1)]

theorem eval_fold_left {T : Type} (A : Arith T) (fa fb : Nat → T) (n : Nat) :
    Expr.eval A fa fb
        (fold_left (fun acc k => Expr.add acc (Expr.mul (Expr.a k) (Expr.b k))) Expr.zero n) =
      fold_left (fun acc k => A.add acc (A.mul (fa k) (fb k))) A.zero n := by
  induction n with
  | zero => rfl
  | succ n ih =>
    rw [fold_left_succ, fold_left_succ, ← ih]
    rfl

theorem hadd_sat_zero (r : Vec Int) :
    ∀ n, (∀ l, l < n → r l = 0) → Vec.hadd (Arith.sat 1) n r = 0
  | 0, _ => rfl
  | 1, h => h 0 (by decide)
  | n + 2, h => by
    show clamp 1 (Vec.hadd (Arith.sat 1) (n + 1) r + r (n + 1)) = 0
    rw [hadd_sat_zero r (n + 1) (fun l hl => h l (by omega)), h (n + 1) (by omega)]
    decide

theorem sat_naive_low (vs : Nat) :
    ∀ j, j < vs →
      fold_left (fun acc k => (Arith.sat 1).add acc
        ((Arith.sat 1).mul (ones_then_minus vs k) 1)) (Arith.sat 1).zero (j + 1) = 1 := by
  intro j
  induction j with
  | zero =>
    intro h
    rw [fold_left_succ, fold_left_zero]
    simp only [ones_then_minus, if_pos h]
    decide
  | succ j ih =>
    intro h
    rw [fold_left_succ, ih (by omega)]
    simp only [ones_then_minus, if_pos h]
    decide

theorem sat_naive_high (vs : Nat) (hvs : 0 < vs) :
    ∀ j, fold_left (fun acc k => (Arith.sat 1).add acc
        ((Arith.sat 1).mul (ones_then_minus vs k) 1)) (Arith.sat 1).zero (vs + (j + 2)) = -1 := by
  have hlow := sat_naive_low vs (vs - 1) (by omega)
  rw [Nat.sub_add_cancel hvs] at hlow
  intro j
  induction j with
  | zero =>
    have e : vs + (0 + 2) = vs + 1 + 1 := by ring
    rw [e, fold_left_succ, fold_left_succ, hlow]
    simp only [ones_then_minus, if_neg (Nat.lt_irrefl vs),
      if_neg (show ¬ vs + 1 < vs by omega)]
    decide
  | succ j ih =>
    have e : vs + (j + 1 + 2) = vs + (j + 2) + 1 := by ring
    rw [e, fold_left_succ, ih]
    simp only [ones_then_minus, if_neg (show ¬ vs + (j + 2) < vs by omega)]
    decide

/-- The lanes of the kernel on the row of ones and minus ones, with the product and the
sum of each multiply-add taken apart. -/
theorem sat_lane_split (vs l : Nat) (h : l < vs) :
    (Arith.sat 1).add ((Arith.sat 1).mul (ones_then_minus vs (vs + l)) 1)
      ((Arith.sat 1).add ((Arith.sat 1).mul (ones_then_minus vs l) 1) (Arith.sat 1).zero) = 0 := by
  simp only [ones_then_minus, if_pos h, if_neg (show ¬ vs + l < vs by omega)]
  decide

/-- The lanes of the kernel on the row of ones and minus ones, fused. -/
theorem sat_lane_fused (vs l : Nat) (h : l < vs) :
    (Arith.sat 1).fmadd (ones_then_minus vs (vs + l)) 1
      ((Arith.sat 1).fmadd (ones_then_minus vs l) 1 (Arith.sat 1).zero) = 0 := by
  simp only [ones_then_minus, if_pos h, if_neg (show ¬ vs + l < vs by omega)]
  decide

/-- The scalar double loop of `gemv` on one row: the left-to-right fold. -/
theorem gemv_fallback_one_row {U : Type} (A : Arith U) (n : Nat) (ua ub : Nat → U)
    (uc : Buffer U) :
    (gemv_fallback A
        ⟨1, n, false, false, ⟨ua, fun _ => 0⟩, true, true⟩
        ⟨n, 1, false, false, ⟨ub, fun _ => 0⟩, true, true⟩
        ⟨1, 1, false, false, uc, true, true⟩).at1 0 =
      fold_left (fun acc k => A.add acc (A.mul (ua k) (ub k))) A.zero n := by
  rw [gemv_fallback_at1 A _ _ _ (Nat.le_refl 1) 0 Nat.one_pos]
  apply fold_left_congr
  intro acc k
  simp [Dense.at2, Dense.at1, Dense.index]

theorem two_pow_succ_eq (q : Nat) : ∃ v, 2 ^ (q + 1) = v + 2 :=
  ⟨2 ^ (q + 1) - 2, by
    have h1 : 2 * 2 ^ q = 2 ^ (q + 1) := by ring
    have h2 : 0 < 2 ^ q := Nat.pow_pos (by decide)
    omega⟩

/-- The horizontal sum of the lanes of two multiply-adds is not the left-to-right sum,
in whatever order the operands of `+` and `*` are written, from two lanes on. -/
theorem hadd_not_CommEq_fold (vs : Nat) (hvs : 2 ≤ vs) :
    ¬ Expr.CommEq
      (Vec.hadd Arith.free vs (fun l =>
        Expr.add (Expr.mul (Expr.a (vs + l)) (Expr.b (vs + l)))
          (Expr.add (Expr.mul (Expr.a l) (Expr.b l)) Expr.zero)))
      (fold_left (fun acc k => Expr.add acc (Expr.mul (Expr.a k) (Expr.b k))) Expr.zero
        (2 * vs)) := by
  intro h
  have hev := CommEq_eval (Arith.sat 1) (ones_then_minus vs) (fun _ => 1)
    (sat_add_comm 1) (sat_mul_comm 1) h
  rw [eval_hadd, eval_fold_left] at hev
  have hk : Vec.hadd (Arith.sat 1) vs (fun l =>
      Expr.eval (Arith.sat 1) (ones_then_minus vs) (fun _ => 1)
        (Expr.add (Expr.mul (Expr.a (vs + l)) (Expr.b (vs + l)))
          (Expr.add (Expr.mul (Expr.a l) (Expr.b l)) Expr.zero))) = 0 :=
    hadd_sat_zero _ vs (fun l hl => sat_lane_split vs l hl)
  have e : 2 * vs = vs + ((vs - 2) + 2) := by omega
  rw [hk, e, sat_naive_high vs (by omega)] at hev
  exact absurd hev (by decide)


/-- C26: the accumulation order of the vectorized GEMV differs from the naive
left-to-right summation.  With `+` and `*` uninterpreted, for one row of
`n = 2 * vec_size` columns and every `vec_size = 2^(q+1) ≥ 2`, the expression
`gemv_small_kernel` leaves in `cc[0]` is the horizontal sum of the per-lane partial sums,
the scalar double loop of `gemv` leaves `((T() + a0*b0) + a1*b1) + ...`, and the two are
not the same expression, in whatever order the operands of each `+` and `*` are written:
they differ in how the sum is associated.  With one lane (`vec_size = 1`, `n = 2`) the
two are the same up to the order of operands, the kernel then summing left to right.  In
saturating arithmetic, whose `+` and `*` are commutative and not associative, the two
routines give different values, 0 and -1, on the row of `vec_size` ones followed by
minus ones, times ones.  In exact arithmetic both give the sum of `a_k * b_k` over
`k < n`. -/
theorem accumulation_order_differs {T : Type} [CommRing T] (q : Fin 62) (adv padded : Bool)
    (cc : Buffer Expr) (aa bb : Nat → T) (dd : Buffer T) (ee : Buffer Int) :
    (gemv_small_kernel Arith.free (2 ^ (q.val + 1)) adv padded Expr.a 1
        (2 * 2 ^ (q.val + 1)) Expr.b cc).val 0 =
      Vec.hadd Arith.free (2 ^ (q.val + 1)) (fun l =>
        Expr.add (Expr.mul (Expr.a (2 ^ (q.val + 1) + l)) (Expr.b (2 ^ (q.val + 1) + l)))
          (Expr.add (Expr.mul (Expr.a l) (Expr.b l)) Expr.zero)) ∧
    (gemv_fallback Arith.free
        ⟨1, 2 * 2 ^ (q.val + 1), false, false, ⟨Expr.a, fun _ => 0⟩, true, true⟩
        ⟨2 * 2 ^ (q.val + 1), 1, false, false, ⟨Expr.b, fun _ => 0⟩, true, true⟩
        ⟨1, 1, false, false, cc, true, true⟩).at1 0 =
      fold_left (fun acc k => Expr.add acc (Expr.mul (Expr.a k) (Expr.b k))) Expr.zero
        (2 * 2 ^ (q.val + 1)) ∧
    ¬ Expr.CommEq
      ((gemv_small_kernel Arith.free (2 ^ (q.val + 1)) adv padded Expr.a 1
        (2 * 2 ^ (q.val + 1)) Expr.b cc).val 0)
      ((gemv_fallback Arith.free
        ⟨1, 2 * 2 ^ (q.val + 1), false, false, ⟨Expr.a, fun _ => 0⟩, true, true⟩
        ⟨2 * 2 ^ (q.val + 1), 1, false, false, ⟨Expr.b, fun _ => 0⟩, true, true⟩
        ⟨1, 1, false, false, cc, true, true⟩).at1 0) ∧
    Expr.CommEq
      ((gemv_small_kernel Arith.free 1 adv padded Expr.a 1 2 Expr.b cc).val 0)
      ((gemv_fallback Arith.free
        ⟨1, 2, false, false, ⟨Expr.a, fun _ => 0⟩, true, true⟩
        ⟨2, 1, false, false, ⟨Expr.b, fun _ => 0⟩, true, true⟩
        ⟨1, 1, false, false, cc, true, true⟩).at1 0) ∧
    (∀ B x y : Int, (Arith.sat B).add x y = (Arith.sat B).add y x ∧
      (Arith.sat B).mul x y = (Arith.sat B).mul y x) ∧
    (gemv_small_kernel (Arith.sat 1) (2 ^ (q.val + 1)) adv padded
        (ones_then_minus (2 ^ (q.val + 1))) 1 (2 * 2 ^ (q.val + 1)) (fun _ => 1) ee).val 0 = 0 ∧
    (gemv_fallback (Arith.sat 1)
        ⟨1, 2 * 2 ^ (q.val + 1), false, false,
          ⟨ones_then_minus (2 ^ (q.val + 1)), fun _ => 0⟩, true, true⟩
        ⟨2 * 2 ^ (q.val + 1), 1, false, false, ⟨fun _ => 1, fun _ => 0⟩, true, true⟩
        ⟨1, 1, false, false, ee, true, true⟩).at1 0 = -1 ∧
    (gemv_small_kernel (Arith.exact T) (2 ^ (q.val + 1)) adv padded aa 1
        (2 * 2 ^ (q.val + 1)) bb dd).val 0 =
      ∑ k ∈ Finset.range (2 * 2 ^ (q.val + 1)), aa k * bb k ∧
    (gemv_fallback (Arith.exact T)
        ⟨1, 2 * 2 ^ (q.val + 1), false, false, ⟨aa, fun _ => 0⟩, true, true⟩
        ⟨2 * 2 ^ (q.val + 1), 1, false, false, ⟨bb, fun _ => 0⟩, true, true⟩
        ⟨1, 1, false, false, dd, true, true⟩).at1 0 =
      ∑ k ∈ Finset.range (2 * 2 ^ (q.val + 1)), aa k * bb k := by
  have hvs : 0 < 2 ^ (q.val + 1) := Nat.pow_pos (by decide)
  obtain ⟨v, hv⟩ := two_pow_succ_eq q.val
  have hl := gemv_last_double q (!adv || !padded)
  have hk : ∀ {U : Type} (A : Arith U) (ua ub : Nat → U) (uc : Buffer U),
      (gemv_small_kernel A (2 ^ (q.val + 1)) adv padded ua 1 (2 * 2 ^ (q.val + 1)) ub uc).val 0 =
        Vec.hadd A (2 ^ (q.val + 1)) (fun l =>
          A.fmadd (ua (2 ^ (q.val + 1) + l)) (ub (2 ^ (q.val + 1) + l))
            (A.fmadd (ua l) (ub l) A.zero)) := by
    intro U A ua ub uc
    have e : 2 ^ (q.val + 1) = (v + 1) + 1 := hv
    rw [e] at hl ⊢
    exact gemv_small_one_row_hadd A (v + 1) adv padded hl ua ub uc
  have hkf := hk Arith.free Expr.a Expr.b cc
  have hnf := gemv_fallback_one_row Arith.free (2 * 2 ^ (q.val + 1)) Expr.a Expr.b cc
  refine ⟨hkf, hnf, ?_, ?_, fun B x y => ⟨sat_add_comm B x y, sat_mul_comm B x y⟩, ?_, ?_, ?_, ?_⟩
  · rw [hkf, hnf]
    exact hadd_not_CommEq_fold (2 ^ (q.val + 1)) (by omega)
  · have h1 : (gemv_small_kernel Arith.free 1 adv padded Expr.a 1 2 Expr.b cc).val 0 =
        Expr.add (Expr.mul (Expr.a 1) (Expr.b 1))
          (Expr.add (Expr.mul (Expr.a 0) (Expr.b 0)) Expr.zero) :=
      gemv_small_one_row_hadd Arith.free 0 adv padded (gemv_last_one_two _) Expr.a Expr.b cc
    have h2 := gemv_fallback_one_row Arith.free 2 Expr.a Expr.b cc
    rw [h1, h2]
    show Expr.CommEq _
      (Expr.add (Expr.add Expr.zero (Expr.mul (Expr.a 0) (Expr.b 0)))
        (Expr.mul (Expr.a 1) (Expr.b 1)))
    exact Expr.CommEq.chain (Expr.CommEq.swap_add _ _)
      (Expr.CommEq.under_add (Expr.CommEq.swap_add _ _) (Expr.CommEq.same _))
  · rw [hk (Arith.sat 1)]
    exact hadd_sat_zero _ _ (fun l hl => sat_lane_fused _ l hl)
  · rw [gemv_fallback_one_row (Arith.sat 1)]
    have e : 2 * 2 ^ (q.val + 1) = 2 ^ (q.val + 1) + ((2 ^ (q.val + 1) - 2) + 2) := by omega
    rw [e]
    exact sat_naive_high _ hvs _
  · rw [gemv_small_kernel_val _ hvs, if_pos (by decide)]
    unfold gemv_small_value
    rw [gemv_last_double q, round_up_of_dvd _ _ hvs (Dvd.intro_left _ rfl)]
    simp
  · rw [gemv_fallback_one_row (Arith.exact T)]
    exact fold_left_exact (fun k => aa k * bb k) _

/-- C27: freshness side effects of the vectorized path.  Each row-major entry point
`gemv`, `gevm`, `gemm`, run one call after the other with a record of its calls, makes on
either branch of its size test exactly these calls, in this order:
`a.ensure_cpu_up_to_date()`, then `b.ensure_cpu_up_to_date()`, then its kernel (the small
or the large one; `gevm` assigns `c = 0` before the large one), then `c.invalidate_gpu()`.
So every routine run on the destination finds `a` and `b` with the host flag set and their
contents as given, and finds the accelerator flag of `c` as given; `c.invalidate_gpu()`
comes last and finds the destination the kernel left, and afterwards the accelerator flag
of `c` is cleared.  The contents of `a` and `b` are unchanged, and the operands at the end
are those of the entry point. -/
theorem freshness_side_effects {T : Type} (cfg : Config) (A : Arith T) (a b c : Dense T) :
    ((gemv_traced cfg A a b c).log =
        [⟨Action.ensure_cpu_up_to_date Operand.a, a, b, c⟩,
         ⟨Action.ensure_cpu_up_to_date Operand.b, a.ensure_cpu_up_to_date, b, c⟩] ++
        (if a.size < cfg.gemv_small_threshold then
           [⟨Action.run Call.gemv_small, a.ensure_cpu_up_to_date, b.ensure_cpu_up_to_date, c⟩,
            ⟨Action.invalidate_gpu Operand.c, a.ensure_cpu_up_to_date, b.ensure_cpu_up_to_date,
              Call.gemv_small.run cfg A a.ensure_cpu_up_to_date
                b.ensure_cpu_up_to_date c⟩]
         else
           [⟨Action.run Call.gemv_large, a.ensure_cpu_up_to_date, b.ensure_cpu_up_to_date, c⟩,
            ⟨Action.invalidate_gpu Operand.c, a.ensure_cpu_up_to_date, b.ensure_cpu_up_to_date,
              Call.gemv_large.run cfg A a.ensure_cpu_up_to_date
                b.ensure_cpu_up_to_date c⟩]) ∧
      ((gemv_traced cfg A a b c).a, (gemv_traced cfg A a b c).b,
        (gemv_traced cfg A a b c).c) = gemv cfg A a b c ∧
      (∀ s ∈ (gemv_traced cfg A a b c).log, ∀ k, s.action = Action.run k →
        s.a.cpu_up_to_date = true ∧ s.b.cpu_up_to_date = true ∧
        s.a.memory = a.memory ∧ s.b.memory = b.memory ∧
        s.c.gpu_up_to_date = c.gpu_up_to_date) ∧
      (gemv_traced cfg A a b c).c.gpu_up_to_date = false ∧
      (gemv_traced cfg A a b c).a.memory = a.memory ∧
      (gemv_traced cfg A a b c).b.memory = b.memory) ∧
    ((gevm_traced cfg A a b c).log =
        [⟨Action.ensure_cpu_up_to_date Operand.a, a, b, c⟩,
         ⟨Action.ensure_cpu_up_to_date Operand.b, a.ensure_cpu_up_to_date, b, c⟩] ++
        (if b.size < cfg.gevm_small_threshold then
           [⟨Action.run Call.gevm_small, a.ensure_cpu_up_to_date, b.ensure_cpu_up_to_date, c⟩,
            ⟨Action.invalidate_gpu Operand.c, a.ensure_cpu_up_to_date, b.ensure_cpu_up_to_date,
              Call.gevm_small.run cfg A a.ensure_cpu_up_to_date
                b.ensure_cpu_up_to_date c⟩]
         else
           [⟨Action.run Call.assign_zero, a.ensure_cpu_up_to_date, b.ensure_cpu_up_to_date, c⟩,
            ⟨Action.run Call.gevm_large, a.ensure_cpu_up_to_date, b.ensure_cpu_up_to_date, (c.assign_zero A)⟩,
            ⟨Action.invalidate_gpu Operand.c, a.ensure_cpu_up_to_date, b.ensure_cpu_up_to_date,
              Call.gevm_large.run cfg A a.ensure_cpu_up_to_date
                b.ensure_cpu_up_to_date (c.assign_zero A)⟩]) ∧
      ((gevm_traced cfg A a b c).a, (gevm_traced cfg A a b c).b,
        (gevm_traced cfg A a b c).c) = gevm cfg A a b c ∧
      (∀ s ∈ (gevm_traced cfg A a b c).log, ∀ k, s.action = Action.run k →
        s.a.cpu_up_to_date = true ∧ s.b.cpu_up_to_date = true ∧
        s.a.memory = a.memory ∧ s.b.memory = b.memory ∧
        s.c.gpu_up_to_date = c.gpu_up_to_date) ∧
      (gevm_traced cfg A a b c).c.gpu_up_to_date = false ∧
      (gevm_traced cfg A a b c).a.memory = a.memory ∧
      (gevm_traced cfg A a b c).b.memory = b.memory) ∧
    ((gemm_traced cfg A a b c).log =
        [⟨Action.ensure_cpu_up_to_date Operand.a, a, b, c⟩,
         ⟨Action.ensure_cpu_up_to_date Operand.b, a.ensure_cpu_up_to_date, b, c⟩] ++
        (if b.size ≤ cfg.gemm_small_threshold then
           [⟨Action.run Call.gemm_small, a.ensure_cpu_up_to_date, b.ensure_cpu_up_to_date, c⟩,
            ⟨Action.invalidate_gpu Operand.c, a.ensure_cpu_up_to_date, b.ensure_cpu_up_to_date,
              Call.gemm_small.run cfg A a.ensure_cpu_up_to_date
                b.ensure_cpu_up_to_date c⟩]
         else
           [⟨Action.run Call.gemm_large, a.ensure_cpu_up_to_date, b.ensure_cpu_up_to_date, c⟩,
            ⟨Action.invalidate_gpu Operand.c, a.ensure_cpu_up_to_date, b.ensure_cpu_up_to_date,
              Call.gemm_large.run cfg A a.ensure_cpu_up_to_date
                b.ensure_cpu_up_to_date c⟩]) ∧
      ((gemm_traced cfg A a b c).a, (gemm_traced cfg A a b c).b,
        (gemm_traced cfg A a b c).c) = gemm cfg A a b c ∧
      (∀ s ∈ (gemm_traced cfg A a b c).log, ∀ k, s.action = Action.run k →
        s.a.cpu_up_to_date = true ∧ s.b.cpu_up_to_date = true ∧
        s.a.memory = a.memory ∧ s.b.memory = b.memory ∧
        s.c.gpu_up_to_date = c.gpu_up_to_date) ∧
      (gemm_traced cfg A a b c).c.gpu_up_to_date = false ∧
      (gemm_traced cfg A a b c).a.memory = a.memory ∧
      (gemm_traced cfg A a b c).b.memory = b.memory) := by
  refine ⟨?_, ?_, ?_⟩
  · by_cases h : a.size < cfg.gemv_small_threshold
    · have h2 : a.ensure_cpu_up_to_date.size < cfg.gemv_small_threshold := h
      have ht : gemv_traced cfg A a b c =
          ⟨a.ensure_cpu_up_to_date, b.ensure_cpu_up_to_date,
            (Call.gemv_small.run cfg A a.ensure_cpu_up_to_date b.ensure_cpu_up_to_date c).invalidate_gpu,
            [⟨Action.ensure_cpu_up_to_date Operand.a, a, b, c⟩,
             ⟨Action.ensure_cpu_up_to_date Operand.b, a.ensure_cpu_up_to_date, b, c⟩,
             ⟨Action.run Call.gemv_small, a.ensure_cpu_up_to_date, b.ensure_cpu_up_to_date, c⟩,
             ⟨Action.invalidate_gpu Operand.c, a.ensure_cpu_up_to_date, b.ensure_cpu_up_to_date, Call.gemv_small.run cfg A a.ensure_cpu_up_to_date b.ensure_cpu_up_to_date c⟩]⟩ := by
        unfold gemv_traced
        dsimp only [Trace.call, Action.apply]
        rw [if_pos h2]
        rfl
      rw [ht]
      refine ⟨?_, ?_, ?_, rfl, rfl, rfl⟩
      · rw [if_pos h]
        rfl
      · unfold gemv
        dsimp only
        rw [if_pos h2]
        rfl
      · intro s hs k hk
        simp only [List.mem_cons, List.mem_singleton, List.not_mem_nil, or_false] at hs
        rcases hs with rfl | rfl | rfl | rfl <;>
          first | exact ⟨rfl, rfl, rfl, rfl, rfl⟩ | cases hk
    · have h2 : ¬ a.ensure_cpu_up_to_date.size < cfg.gemv_small_threshold := h
      have ht : gemv_traced cfg A a b c =
          ⟨a.ensure_cpu_up_to_date, b.ensure_cpu_up_to_date,
            (Call.gemv_large.run cfg A a.ensure_cpu_up_to_date b.ensure_cpu_up_to_date c).invalidate_gpu,
            [⟨Action.ensure_cpu_up_to_date Operand.a, a, b, c⟩,
             ⟨Action.ensure_cpu_up_to_date Operand.b, a.ensure_cpu_up_to_date, b, c⟩,
             ⟨Action.run Call.gemv_large, a.ensure_cpu_up_to_date, b.ensure_cpu_up_to_date, c⟩,
             ⟨Action.invalidate_gpu Operand.c, a.ensure_cpu_up_to_date, b.ensure_cpu_up_to_date, Call.gemv_large.run cfg A a.ensure_cpu_up_to_date b.ensure_cpu_up_to_date c⟩]⟩ := by
        unfold gemv_traced
        dsimp only [Trace.call, Action.apply]
        rw [if_neg h2]
        rfl
      rw [ht]
      refine ⟨?_, ?_, ?_, rfl, rfl, rfl⟩
      · rw [if_neg h]
        rfl
      · unfold gemv
        dsimp only
        rw [if_neg h2]
        rfl
      · intro s hs k hk
        simp only [List.mem_cons, List.mem_singleton, List.not_mem_nil, or_false] at hs
        rcases hs with rfl | rfl | rfl | rfl <;>
          first | exact ⟨rfl, rfl, rfl, rfl, rfl⟩ | cases hk
  · by_cases h : b.size < cfg.gevm_small_threshold
    · have h2 : b.ensure_cpu_up_to_date.size < cfg.gevm_small_threshold := h
      have ht : gevm_traced cfg A a b c =
          ⟨a.ensure_cpu_up_to_date, b.ensure_cpu_up_to_date,
            (Call.gevm_small.run cfg A a.ensure_cpu_up_to_date b.ensure_cpu_up_to_date c).invalidate_gpu,
            [⟨Action.ensure_cpu_up_to_date Operand.a, a, b, c⟩,
             ⟨Action.ensure_cpu_up_to_date Operand.b, a.ensure_cpu_up_to_date, b, c⟩,
             ⟨Action.run Call.gevm_small, a.ensure_cpu_up_to_date, b.ensure_cpu_up_to_date, c⟩,
             ⟨Action.invalidate_gpu Operand.c, a.ensure_cpu_up_to_date, b.ensure_cpu_up_to_date, Call.gevm_small.run cfg A a.ensure_cpu_up_to_date b.ensure_cpu_up_to_date c⟩]⟩ := by
        unfold gevm_traced
        dsimp only [Trace.call, Action.apply]
        rw [if_pos h2]
        rfl
      rw [ht]
      refine ⟨?_, ?_, ?_, rfl, rfl, rfl⟩
      · rw [if_pos h]
        rfl
      · unfold gevm
        dsimp only
        rw [if_pos h2]
        rfl
      · intro s hs k hk
        simp only [List.mem_cons, List.mem_singleton, List.not_mem_nil, or_false] at hs
        rcases hs with rfl | rfl | rfl | rfl <;>
          first | exact ⟨rfl, rfl, rfl, rfl, rfl⟩ | cases hk
    · have h2 : ¬ b.ensure_cpu_up_to_date.size < cfg.gevm_small_threshold := h
      have ht : gevm_traced cfg A a b c =
          ⟨a.ensure_cpu_up_to_date, b.ensure_cpu_up_to_date,
            (Call.gevm_large.run cfg A a.ensure_cpu_up_to_date b.ensure_cpu_up_to_date (c.assign_zero A)).invalidate_gpu,
            [⟨Action.ensure_cpu_up_to_date Operand.a, a, b, c⟩,
             ⟨Action.ensure_cpu_up_to_date Operand.b, a.ensure_cpu_up_to_date, b, c⟩,
             ⟨Action.run Call.assign_zero, a.ensure_cpu_up_to_date, b.ensure_cpu_up_to_date, c⟩,
             ⟨Action.run Call.gevm_large, a.ensure_cpu_up_to_date, b.ensure_cpu_up_to_date, (c.assign_zero A)⟩,
             ⟨Action.invalidate_gpu Operand.c, a.ensure_cpu_up_to_date, b.ensure_cpu_up_to_date, Call.gevm_large.run cfg A a.ensure_cpu_up_to_date b.ensure_cpu_up_to_date (c.assign_zero A)⟩]⟩ := by
        unfold gevm_traced
        dsimp only [Trace.call, Action.apply]
        rw [if_neg h2]
        rfl
      rw [ht]
      refine ⟨?_, ?_, ?_, rfl, rfl, rfl⟩
      · rw [if_neg h]
        rfl
      · unfold gevm
        dsimp only
        rw [if_neg h2]
        rfl
      · intro s hs k hk
        simp only [List.mem_cons, List.mem_singleton, List.not_mem_nil, or_false] at hs
        rcases hs with rfl | rfl | rfl | rfl | rfl <;>
          first | exact ⟨rfl, rfl, rfl, rfl, rfl⟩ | cases hk
  · by_cases h : b.size ≤ cfg.gemm_small_threshold
    · have h2 : b.ensure_cpu_up_to_date.size ≤ cfg.gemm_small_threshold := h
      have ht : gemm_traced cfg A a b c =
          ⟨a.ensure_cpu_up_to_date, b.ensure_cpu_up_to_date,
            (Call.gemm_small.run cfg A a.ensure_cpu_up_to_date b.ensure_cpu_up_to_date c).invalidate_gpu,
            [⟨Action.ensure_cpu_up_to_date Operand.a, a, b, c⟩,
             ⟨Action.ensure_cpu_up_to_date Operand.b, a.ensure_cpu_up_to_date, b, c⟩,
             ⟨Action.run Call.gemm_small, a.ensure_cpu_up_to_date, b.ensure_cpu_up_to_date, c⟩,
             ⟨Action.invalidate_gpu Operand.c, a.ensure_cpu_up_to_date, b.ensure_cpu_up_to_date, Call.gemm_small.run cfg A a.ensure_cpu_up_to_date b.ensure_cpu_up_to_date c⟩]⟩ := by
        unfold gemm_traced
        dsimp only [Trace.call, Action.apply]
        rw [if_pos h2]
        rfl
      rw [ht]
      refine ⟨?_, ?_, ?_, rfl, rfl, rfl⟩
      · rw [if_pos h]
        rfl
      · unfold gemm
        dsimp only
        rw [if_pos h2]
        rfl
      · intro s hs k hk
        simp only [List.mem_cons, List.mem_singleton, List.not_mem_nil, or_false] at hs
        rcases hs with rfl | rfl | rfl | rfl <;>
          first | exact ⟨rfl, rfl, rfl, rfl, rfl⟩ | cases hk
    · have h2 : ¬ b.ensure_cpu_up_to_date.size ≤ cfg.gemm_small_threshold := h
      have ht : gemm_traced cfg A a b c =
          ⟨a.ensure_cpu_up_to_date, b.ensure_cpu_up_to_date,
            (Call.gemm_large.run cfg A a.ensure_cpu_up_to_date b.ensure_cpu_up_to_date c).invalidate_gpu,
            [⟨Action.ensure_cpu_up_to_date Operand.a, a, b, c⟩,
             ⟨Action.ensure_cpu_up_to_date Operand.b, a.ensure_cpu_up_to_date, b, c⟩,
             ⟨Action.run Call.gemm_large, a.ensure_cpu_up_to_date, b.ensure_cpu_up_to_date, c⟩,
             ⟨Action.invalidate_gpu Operand.c, a.ensure_cpu_up_to_date, b.ensure_cpu_up_to_date, Call.gemm_large.run cfg A a.ensure_cpu_up_to_date b.ensure_cpu_up_to_date c⟩]⟩ := by
        unfold gemm_traced
        dsimp only [Trace.call, Action.apply]
        rw [if_neg h2]
        rfl
      rw [ht]
      refine ⟨?_, ?_, ?_, rfl, rfl, rfl⟩
      · rw [if_neg h]
        rfl
      · unfold gemm
        dsimp only
        rw [if_neg h2]
        rfl
      · intro s hs k hk
        simp only [List.mem_cons, List.mem_singleton, List.not_mem_nil, or_false] at hs
        rcases hs with rfl | rfl | rfl | rfl <;>
          first | exact ⟨rfl, rfl, rfl, rfl, rfl⟩ | cases hk

/-! ## GEVM large kernel, exact arithmetic -/

/-- The sum `Σ_k aa[k] * bb[k * n + x]` over the rows `k0 .. k1`. -/
theorem cdot_blk_split {T : Type} [CommRing T] (aa bb : Nat → T) (n k0 k1 k2 x : Nat)
    (h1 : k0 ≤ k1) (h2 : k1 ≤ k2) :
    ∑ k ∈ Ico k0 k1, aa k * bb (k * n + x) + ∑ k ∈ Ico k1 k2, aa k * bb (k * n + x) =
      ∑ k ∈ Ico k0 k2, aa k * bb (k * n + x) :=
  Finset.sum_Ico_consecutive _ h1 h2

/-- One accumulating vector store after an update that has not reached its lanes. -/
theorem Updated.upd_add_storeu {T : Type} [CommRing T] {c0 c : Buffer T} {P : Nat → Prop}
    {G : Nat → T} (h : Updated c0 c P (fun x => c0.val x + G x)) (idx vs : Nat) (r : Vec T)
    (hr : ∀ l, l < vs → r l = G (idx + l)) (hd : ∀ l, l < vs → ¬ P (idx + l)) :
    Updated c0 (Vec.add_storeu (Arith.exact T) c idx vs r)
      (fun x => P x ∨ (idx ≤ x ∧ x < idx + vs)) (fun x => c0.val x + G x) := by
  unfold Vec.add_storeu
  refine h.upd_storeu idx vs _ (fun l hl => ?_)
  show r l + c.val (idx + l) = c0.val (idx + l) + G (idx + l)
  rw [hr l hl, h.2 _ (hd l hl), add_comm]

theorem gevm_large_cols8_acc {T : Type} [CommRing T] (vs : Nat) (aa bb : Nat → T)
    (n block_k m_end j : Nat) (hk : block_k ≤ m_end) (cc : Buffer T) :
    Updated cc (gevm_large_cols8 (Arith.exact T) vs aa n bb block_k m_end j cc)
      (fun x => (j ≤ x ∧ x < j + vs * 8) ∧ True)
      (fun x => cc.val x + ∑ k ∈ Ico block_k m_end, aa k * bb (k * n + x)) := by
  unfold gevm_large_cols8
  simp only []
  generalize hv : forLoop m_end (fun k => decide (k < m_end)) 1 _ block_k _ = v
  let Inv : Nat → Vec T × Vec T × Vec T × Vec T × Vec T × Vec T × Vec T × Vec T → Prop :=
    fun k r => block_k ≤ k ∧ k ≤ m_end ∧
      (∀ l, r.1 l = ∑ x ∈ Ico block_k k, aa x * bb (x * n + j + 0 * vs + l)) ∧
      (∀ l, r.2.1 l = ∑ x ∈ Ico block_k k, aa x * bb (x * n + j + 1 * vs + l)) ∧
      (∀ l, r.2.2.1 l = ∑ x ∈ Ico block_k k, aa x * bb (x * n + j + 2 * vs + l)) ∧
      (∀ l, r.2.2.2.1 l = ∑ x ∈ Ico block_k k, aa x * bb (x * n + j + 3 * vs + l)) ∧
      (∀ l, r.2.2.2.2.1 l = ∑ x ∈ Ico block_k k, aa x * bb (x * n + j + 4 * vs + l)) ∧
      (∀ l, r.2.2.2.2.2.1 l = ∑ x ∈ Ico block_k k, aa x * bb (x * n + j + 5 * vs + l)) ∧
      (∀ l, r.2.2.2.2.2.2.1 l = ∑ x ∈ Ico block_k k, aa x * bb (x * n + j + 6 * vs + l)) ∧
      (∀ l, r.2.2.2.2.2.2.2 l = ∑ x ∈ Ico block_k k, aa x * bb (x * n + j + 7 * vs + l))
  have hV : Inv v.1 v.2 ∧ decide (v.1 < m_end) = false := by
    rw [← hv]
    refine forLoop_spec Inv _ 1 _ m_end Nat.one_pos (fun k hk => by simpa using hk) ?_ m_end
      block_k _ (by omega) ?_
    · rintro k ⟨r1, r2, r3, r4, r5, r6, r7, r8⟩ ⟨hbk, hk2, h1, h2, h3, h4, h5, h6, h7, h8⟩ hc
      have hc' : k < m_end := by simpa using hc
      try dsimp only at h1 h2 h3 h4 h5 h6 h7 h8
      refine ⟨by omega, hc', ?_, ?_, ?_, ?_, ?_, ?_, ?_, ?_⟩
      all_goals
        intro l
        simp only [fmadd_set_step, Finset.sum_Ico_succ_top hbk, h1, h2, h3, h4, h5, h6, h7, h8]
    · simp [Inv, Vec.zero, hk]
  obtain ⟨⟨hbk, hk2, h1, h2, h3, h4, h5, h6, h7, h8⟩, hex⟩ := hV
  have hke : v.1 = m_end := by
    have : ¬ v.1 < m_end := by simpa using hex
    omega
  rw [hke] at h1 h2 h3 h4 h5 h6 h7 h8
  have u0 : Updated cc cc (fun _ => False)
      (fun x => cc.val x + ∑ k ∈ Ico block_k m_end, aa k * bb (k * n + x)) :=
    Updated.upd_refl cc _
  have u1 := u0.upd_add_storeu (j + 0 * vs) vs v.2.1
    (fun l _ => by simp only [h1, Nat.add_assoc])
    (fun l hl hx => hx.elim)
  have u2 := u1.upd_add_storeu (j + 1 * vs) vs v.2.2.1
    (fun l _ => by simp only [h2, Nat.add_assoc])
    (fun l hl hx => by simp only [false_or] at hx; omega)
  have u3 := u2.upd_add_storeu (j + 2 * vs) vs v.2.2.2.1
    (fun l _ => by simp only [h3, Nat.add_assoc])
    (fun l hl hx => by simp only [false_or] at hx; omega)
  have u4 := u3.upd_add_storeu (j + 3 * vs) vs v.2.2.2.2.1
    (fun l _ => by simp only [h4, Nat.add_assoc])
    (fun l hl hx => by simp only [false_or] at hx; omega)
  have u5 := u4.upd_add_storeu (j + 4 * vs) vs v.2.2.2.2.2.1
    (fun l _ => by simp only [h5, Nat.add_assoc])
    (fun l hl hx => by simp only [false_or] at hx; omega)
  have u6 := u5.upd_add_storeu (j + 5 * vs) vs v.2.2.2.2.2.2.1
    (fun l _ => by simp only [h6, Nat.add_assoc])
    (fun l hl hx => by simp only [false_or] at hx; omega)
  have u7 := u6.upd_add_storeu (j + 6 * vs) vs v.2.2.2.2.2.2.2.1
    (fun l _ => by simp only [h7, Nat.add_assoc])
    (fun l hl hx => by simp only [false_or] at hx; omega)
  have u8 := u7.upd_add_storeu (j + 7 * vs) vs v.2.2.2.2.2.2.2.2
    (fun l _ => by simp only [h8, Nat.add_assoc])
    (fun l hl hx => by simp only [false_or] at hx; omega)
  exact u8.upd_congr _ _ (fun x => by simp only [and_true, false_or]; omega)
    (fun _ _ => rfl)

theorem gevm_large_cols4_acc {T : Type} [CommRing T] (vs : Nat) (aa bb : Nat → T)
    (n block_k m_end j : Nat) (hk : block_k ≤ m_end) (cc : Buffer T) :
    Updated cc (gevm_large_cols4 (Arith.exact T) vs aa n bb block_k m_end j cc)
      (fun x => (j ≤ x ∧ x < j + vs * 4) ∧ True)
      (fun x => cc.val x + ∑ k ∈ Ico block_k m_end, aa k * bb (k * n + x)) := by
  unfold gevm_large_cols4
  simp only []
  generalize hv : forLoop m_end (fun k => decide (k < m_end)) 1 _ block_k _ = v
  let Inv : Nat → Vec T × Vec T × Vec T × Vec T → Prop :=
    fun k r => block_k ≤ k ∧ k ≤ m_end ∧
      (∀ l, r.1 l = ∑ x ∈ Ico block_k k, aa x * bb (x * n + j + 0 * vs + l)) ∧
      (∀ l, r.2.1 l = ∑ x ∈ Ico block_k k, aa x * bb (x * n + j + 1 * vs + l)) ∧
      (∀ l, r.2.2.1 l = ∑ x ∈ Ico block_k k, aa x * bb (x * n + j + 2 * vs + l)) ∧
      (∀ l, r.2.2.2 l = ∑ x ∈ Ico block_k k, aa x * bb (x * n + j + 3 * vs + l))
  have hV : Inv v.1 v.2 ∧ decide (v.1 < m_end) = false := by
    rw [← hv]
    refine forLoop_spec Inv _ 1 _ m_end Nat.one_pos (fun k hk => by simpa using hk) ?_ m_end
      block_k _ (by omega) ?_
    · rintro k ⟨r1, r2, r3, r4⟩ ⟨hbk, hk2, h1, h2, h3, h4⟩ hc
      have hc' : k < m_end := by simpa using hc
      try dsimp only at h1 h2 h3 h4
      refine ⟨by omega, hc', ?_, ?_, ?_, ?_⟩
      all_goals
        intro l
        simp only [fmadd_set_step, Finset.sum_Ico_succ_top hbk, h1, h2, h3, h4]
    · simp [Inv, Vec.zero, hk]
  obtain ⟨⟨hbk, hk2, h1, h2, h3, h4⟩, hex⟩ := hV
  have hke : v.1 = m_end := by
    have : ¬ v.1 < m_end := by simpa using hex
    omega
  rw [hke] at h1 h2 h3 h4
  have u0 : Updated cc cc (fun _ => False)
      (fun x => cc.val x + ∑ k ∈ Ico block_k m_end, aa k * bb (k * n + x)) :=
    Updated.upd_refl cc _
  have u1 := u0.upd_add_storeu (j + 0 * vs) vs v.2.1
    (fun l _ => by simp only [h1, Nat.add_assoc])
    (fun l hl hx => hx.elim)
  have u2 := u1.upd_add_storeu (j + 1 * vs) vs v.2.2.1
    (fun l _ => by simp only [h2, Nat.add_assoc])
    (fun l hl hx => by simp only [false_or] at hx; omega)
  have u3 := u2.upd_add_storeu (j + 2 * vs) vs v.2.2.2.1
    (fun l _ => by simp only [h3, Nat.add_assoc])
    (fun l hl hx => by simp only [false_or] at hx; omega)
  have u4 := u3.upd_add_storeu (j + 3 * vs) vs v.2.2.2.2
    (fun l _ => by simp only [h4, Nat.add_assoc])
    (fun l hl hx => by simp only [false_or] at hx; omega)
  exact u4.upd_congr _ _ (fun x => by simp only [and_true, false_or]; omega)
    (fun _ _ => rfl)

theorem gevm_large_cols1_acc {T : Type} [CommRing T] (vs : Nat) (aa bb : Nat → T)
    (n block_k m_end j : Nat) (hk : block_k ≤ m_end) (cc : Buffer T) :
    Updated cc (gevm_large_cols1 (Arith.exact T) vs aa n bb block_k m_end j cc)
      (fun x => (j ≤ x ∧ x < j + vs * 1) ∧ True)
      (fun x => cc.val x + ∑ k ∈ Ico block_k m_end, aa k * bb (k * n + x)) := by
  unfold gevm_large_cols1
  simp only []
  generalize hv : forLoop m_end (fun k => decide (k < m_end)) 1 _ block_k _ = v
  let Inv : Nat → Vec T → Prop :=
    fun k r => block_k ≤ k ∧ k ≤ m_end ∧
      (∀ l, r l = ∑ x ∈ Ico block_k k, aa x * bb (x * n + j + 0 * vs + l))
  have hV : Inv v.1 v.2 ∧ decide (v.1 < m_end) = false := by
    rw [← hv]
    refine forLoop_spec Inv _ 1 _ m_end Nat.one_pos (fun k hk => by simpa using hk) ?_ m_end
      block_k _ (by omega) ?_
    · rintro k r1 ⟨hbk, hk2, h1⟩ hc
      have hc' : k < m_end := by simpa using hc
      try dsimp only at h1
      refine ⟨by omega, hc', ?_⟩
      all_goals
        intro l
        simp only [fmadd_set_step, Finset.sum_Ico_succ_top hbk, h1]
    · simp [Inv, Vec.zero, hk]
  obtain ⟨⟨hbk, hk2, h1⟩, hex⟩ := hV
  have hke : v.1 = m_end := by
    have : ¬ v.1 < m_end := by simpa using hex
    omega
  rw [hke] at h1
  have u0 : Updated cc cc (fun _ => False)
      (fun x => cc.val x + ∑ k ∈ Ico block_k m_end, aa k * bb (k * n + x)) :=
    Updated.upd_refl cc _
  have u1 := u0.upd_add_storeu (j + 0 * vs) vs v.2
    (fun l _ => by simp only [h1, Nat.add_assoc])
    (fun l hl hx => hx.elim)
  exact u1.upd_congr _ _ (fun x => by simp only [and_true, false_or]; omega)
    (fun _ _ => rfl)

theorem dvd_window_eq (vs e n_end : Nat) (hvs : 0 < vs) (hd1 : vs ∣ e) (hd2 : vs ∣ n_end)
    (h1 : e ≤ n_end) (h2 : ¬ e + vs - 1 < n_end) : e = n_end := by
  obtain ⟨a, rfl⟩ := hd1
  obtain ⟨b, rfl⟩ := hd2
  have hab : a ≤ b := Nat.le_of_mul_le_mul_left h1 hvs
  have : ¬ a < b := by
    intro hlt
    have : vs * (a + 1) ≤ vs * b := Nat.mul_le_mul_left _ hlt
    rw [Nat.mul_add, Nat.mul_one] at this
    omega
  have : a = b := by omega
  rw [this]

/-- The three vectorised loops of one pass of the `block_k` loop of
`gevm_large_kernel`, when the block starts at a multiple of `vec_size`: they add the
contribution of the rows `block_k .. m_end` to the columns `block_j .. n_end`, and they
end at `n_end`. -/
theorem gevm_large_vector_loops_acc {T : Type} [CommRing T] (vs : Nat) (hvs : 0 < vs)
    (aa bb : Nat → T) (n block_j n_end block_k m_end : Nat) (hk : block_k ≤ m_end)
    (hdj : vs ∣ block_j) (hde : vs ∣ n_end) (hje : block_j ≤ n_end) (cc : Buffer T)
    (s8 s4 s1 : Nat × Buffer T)
    (h8 : s8 = forLoop n_end (fun j => decide (j + vs * 8 - 1 < n_end)) (vs * 8)
      (gevm_large_cols8 (Arith.exact T) vs aa n bb block_k m_end) block_j cc)
    (h4 : s4 = forLoop n_end (fun j => decide (j + vs * 4 - 1 < n_end)) (vs * 4)
      (gevm_large_cols4 (Arith.exact T) vs aa n bb block_k m_end) s8.1 s8.2)
    (h1 : s1 = forLoop n_end (fun j => decide (j + vs - 1 < n_end)) vs
      (gevm_large_cols1 (Arith.exact T) vs aa n bb block_k m_end) s4.1 s4.2) :
    s1.1 = n_end ∧
      Updated cc s1.2 (fun x => (block_j ≤ x ∧ x < n_end) ∧ True)
        (fun x => cc.val x + ∑ k ∈ Ico block_k m_end, aa k * bb (k * n + x)) := by
  have t8 := sweep_acc (fun x => x) (fun _ => True) cc
    (fun x => ∑ k ∈ Ico block_k m_end, aa k * bb (k * n + x)) n_end (vs * 8)
    (gevm_large_cols8 (Arith.exact T) vs aa n bb block_k m_end)
    (fun j => decide (j + vs * 8 - 1 < n_end))
    (by omega) (fun j hj => by have h := of_decide_eq_true hj; omega)
    (fun j c _ => gevm_large_cols8_acc vs aa bb n block_k m_end j hk c)
    block_j block_j cc (le_refl _) hje (Updated.empty cc _ _ (fun x h => by omega))
  rw [← h8] at t8
  have d8 : vs ∣ s8.1 := by
    rw [h8]
    exact forLoop_fst_dvd vs _ (vs * 8) _ (Dvd.intro _ rfl) n_end block_j cc hdj
  have t4 := sweep_acc (fun x => x) (fun _ => True) cc
    (fun x => ∑ k ∈ Ico block_k m_end, aa k * bb (k * n + x)) n_end (vs * 4)
    (gevm_large_cols4 (Arith.exact T) vs aa n bb block_k m_end)
    (fun j => decide (j + vs * 4 - 1 < n_end))
    (by omega) (fun j hj => by have h := of_decide_eq_true hj; omega)
    (fun j c _ => gevm_large_cols4_acc vs aa bb n block_k m_end j hk c)
    block_j s8.1 s8.2 t8.1.1 t8.1.2.1 t8.1.2.2
  rw [← h4] at t4
  have d4 : vs ∣ s4.1 := by
    rw [h4]
    exact forLoop_fst_dvd vs _ (vs * 4) _ (Dvd.intro _ rfl) n_end s8.1 s8.2 d8
  have t1 := sweep_acc (fun x => x) (fun _ => True) cc
    (fun x => ∑ k ∈ Ico block_k m_end, aa k * bb (k * n + x)) n_end vs
    (gevm_large_cols1 (Arith.exact T) vs aa n bb block_k m_end)
    (fun j => decide (j + vs - 1 < n_end))
    hvs (fun j hj => by have h := of_decide_eq_true hj; omega)
    (fun j c _ => by simpa using gevm_large_cols1_acc vs aa bb n block_k m_end j hk c)
    block_j s4.1 s4.2 (le_trans t8.1.1 t4.1.1) t4.1.2.1 t4.1.2.2
  rw [← h1] at t1
  have d1 : vs ∣ s1.1 := by
    rw [h1]
    exact forLoop_fst_dvd vs _ vs _ (dvd_refl _) n_end s4.1 s4.2 d4
  obtain ⟨⟨_, hle, hf⟩, hex⟩ := t1
  have he : s1.1 = n_end := dvd_window_eq vs s1.1 n_end hvs d1 hde hle (of_decide_eq_false hex)
  rw [he] at hf
  exact ⟨he, hf⟩

/-- One pass of the `block_k` loop of `gevm_large_kernel` on a block that starts at a
multiple of `vec_size = 2^p`: the scalar remainder loop starts at its bound and does
nothing, and the pass adds the contribution of the rows
`block_k .. min (block_k + m_block) m` to the columns from `block_j` up to
`min (block_j + n_block) n` rounded down to a multiple of `vec_size`. -/
theorem gevm_large_block_acc {T : Type} [CommRing T] (p : Nat) (hp : p < 64)
    (aa bb : Nat → T) (m n : Nat) (hn : n < 2 ^ 64) (n_block m_block block_j block_k : Nat)
    (hbk : block_k ≤ m) (hdj : 2 ^ p ∣ block_j) (hj : block_j ≤ n) (cc : Buffer T) :
    decide ((gevm_large_vector_loops (Arith.exact T) (2 ^ p) aa m n bb n_block m_block
        block_j block_k cc).1 < min (block_j + n_block) n &&& neg_size_t (2 ^ p)) = false ∧
      gevm_large_block (Arith.exact T) (2 ^ p) aa m n bb n_block m_block block_j block_k cc =
        (gevm_large_vector_loops (Arith.exact T) (2 ^ p) aa m n bb n_block m_block
          block_j block_k cc).2 ∧
      Updated cc
        (gevm_large_block (Arith.exact T) (2 ^ p) aa m n bb n_block m_block block_j block_k cc)
        (fun x => block_j ≤ x ∧ x < 2 ^ p * (min (block_j + n_block) n / 2 ^ p))
        (fun x => cc.val x +
          ∑ k ∈ Ico block_k (min (block_k + m_block) m), aa k * bb (k * n + x)) := by
  have hvs : 0 < 2 ^ p := Nat.pow_pos (by decide)
  have hlt : min (block_j + n_block) n < 2 ^ 64 := lt_of_le_of_lt (Nat.min_le_right _ _) hn
  have hk : block_k ≤ min (block_k + m_block) m := Nat.le_min.2 ⟨Nat.le_add_right _ _, hbk⟩
  have hje : block_j ≤ 2 ^ p * (min (block_j + n_block) n / 2 ^ p) :=
    le_mul_div_of_dvd _ _ _ hvs hdj (Nat.le_min.2 ⟨Nat.le_add_right _ _, hj⟩)
  have hde : 2 ^ p ∣ 2 ^ p * (min (block_j + n_block) n / 2 ^ p) := Dvd.intro _ rfl
  unfold gevm_large_block gevm_large_vector_loops
  simp only []
  rw [land_neg_pow p _ hp hlt]
  generalize min (block_k + m_block) m = m_end at hk ⊢
  generalize 2 ^ p * (min (block_j + n_block) n / 2 ^ p) = n_end at hje hde ⊢
  have h := gevm_large_vector_loops_acc (2 ^ p) hvs aa bb n block_j n_end block_k m_end hk hdj
    hde hje cc _ _ _ rfl rfl rfl
  obtain ⟨he, hu⟩ := h
  have hdead : decide ((forLoop n_end (fun j => decide (j + 2 ^ p - 1 < n_end)) (2 ^ p)
      (gevm_large_cols1 (Arith.exact T) (2 ^ p) aa n bb block_k m_end)
      (forLoop n_end (fun j => decide (j + 2 ^ p * 4 - 1 < n_end)) (2 ^ p * 4)
        (gevm_large_cols4 (Arith.exact T) (2 ^ p) aa n bb block_k m_end)
        (forLoop n_end (fun j => decide (j + 2 ^ p * 8 - 1 < n_end)) (2 ^ p * 8)
          (gevm_large_cols8 (Arith.exact T) (2 ^ p) aa n bb block_k m_end) block_j cc).1
        (forLoop n_end (fun j => decide (j + 2 ^ p * 8 - 1 < n_end)) (2 ^ p * 8)
          (gevm_large_cols8 (Arith.exact T) (2 ^ p) aa n bb block_k m_end) block_j cc).2).1
      (forLoop n_end (fun j => decide (j + 2 ^ p * 4 - 1 < n_end)) (2 ^ p * 4)
        (gevm_large_cols4 (Arith.exact T) (2 ^ p) aa n bb block_k m_end)
        (forLoop n_end (fun j => decide (j + 2 ^ p * 8 - 1 < n_end)) (2 ^ p * 8)
          (gevm_large_cols8 (Arith.exact T) (2 ^ p) aa n bb block_k m_end) block_j cc).1
        (forLoop n_end (fun j => decide (j + 2 ^ p * 8 - 1 < n_end)) (2 ^ p * 8)
          (gevm_large_cols8 (Arith.exact T) (2 ^ p) aa n bb block_k m_end) block_j cc).2).2).1
      < n_end) = false := by
    rw [he]
    exact decide_eq_false (Nat.lt_irrefl _)
  refine ⟨hdead, ?_, ?_⟩
  · rw [forLoop_none (fun j => decide (j < n_end)) 1 _ n_end _ _ hdead]
  · rw [forLoop_none (fun j => decide (j < n_end)) 1 _ n_end _ _ hdead]
    exact hu.upd_congr _ _ (fun x => by simp) (fun _ _ => rfl)

theorem round_down_min (vs t n : Nat) (hvs : 0 < vs) (hd : vs ∣ t) :
    vs * (min t n / vs) = min t (vs * (n / vs)) := by
  by_cases h : t ≤ n
  · have h1 : t ≤ vs * (n / vs) := le_mul_div_of_dvd vs t n hvs hd h
    rw [Nat.min_eq_left h, Nat.min_eq_left h1, Nat.mul_div_cancel' hd]
  · have h1 : vs * (n / vs) ≤ n := Nat.mul_div_le n vs
    rw [Nat.min_eq_right (by omega), Nat.min_eq_right (by omega)]

/-- The `block_k` loop of `gevm_large_kernel` on a block of columns that starts at a
multiple of `vec_size = 2^p`: it adds the whole column sums to the vectorised
columns of the block. -/
theorem gevm_large_rows_acc {T : Type} [CommRing T] (p : Nat) (hp : p < 64)
    (aa bb : Nat → T) (m n : Nat) (hn : n < 2 ^ 64) (n_block m_block block_j : Nat)
    (hmb : 0 < m_block) (hdj : 2 ^ p ∣ block_j) (hj : block_j ≤ n) (cc : Buffer T) :
    Updated cc
      (forLoop m (fun block_k => decide (block_k < m)) m_block
        (gevm_large_block (Arith.exact T) (2 ^ p) aa m n bb n_block m_block block_j) 0 cc).2
      (fun x => block_j ≤ x ∧ x < 2 ^ p * (min (block_j + n_block) n / 2 ^ p))
      (fun x => cc.val x + cdot aa bb m n x) := by
  have h := forLoop_spec
    (fun bk c' => Updated cc c'
      (fun x => block_j ≤ x ∧ x < 2 ^ p * (min (block_j + n_block) n / 2 ^ p))
      (fun x => cc.val x + ∑ k ∈ Ico 0 (min bk m), aa k * bb (k * n + x)))
    (fun bk => decide (bk < m)) m_block
    (gevm_large_block (Arith.exact T) (2 ^ p) aa m n bb n_block m_block block_j)
    m hmb (fun bk hbk => of_decide_eq_true hbk) ?_ m 0 cc (by omega)
    ⟨fun x _ => by simp, fun _ _ => rfl⟩
  · obtain ⟨hf, hex⟩ := h
    have hex' : ¬ _ < m := of_decide_eq_false hex
    refine hf.upd_congr _ _ (fun _ => Iff.rfl) (fun x _ => ?_)
    rw [Nat.min_eq_right (by omega), cdot, Finset.range_eq_Ico]
  · intro bk c' h3 hc
    have hc' : bk < m := of_decide_eq_true hc
    have h2 := (gevm_large_block_acc p hp aa bb m n hn n_block m_block block_j bk
      (Nat.le_of_lt hc') hdj hj c').2.2
    refine ⟨fun x hx => ?_, fun x hx => ?_⟩
    · have e1 := h2.1 x hx
      have e3 := h3.1 x hx
      dsimp only at e1 e3 ⊢
      rw [e1, e3, Nat.min_eq_left (Nat.le_of_lt hc'), add_assoc,
        cdot_blk_split aa bb n 0 bk _ x (Nat.zero_le _)
          (Nat.le_min.2 ⟨Nat.le_add_right _ _, Nat.le_of_lt hc'⟩)]
    · have e1 := h2.2 x hx
      have e3 := h3.2 x hx
      rw [e1, e3]

/-- What `gevm_large_kernel` does to an arbitrary destination when `vec_size = 2^p`
divides the column block size: it adds the column sums to the columns below
`n - n mod vec_size`, and changes no other value. -/
theorem gevm_large_kernel_acc {T : Type} [CommRing T] (p : Nat) (hp : p < 64)
    (sizeof_T : Nat) (hs : 0 < (32 * 1024) / sizeof_T) (hd : 2 ^ p ∣ (32 * 1024) / sizeof_T)
    (aa bb : Nat → T) (m n : Nat) (hn : n < 2 ^ 64) (cc : Buffer T) :
    Updated cc (gevm_large_kernel (Arith.exact T) (2 ^ p) sizeof_T aa m n bb cc)
      (fun x => x < 2 ^ p * (n / 2 ^ p)) (fun x => cc.val x + cdot aa bb m n x) := by
  have hvs : 0 < 2 ^ p := Nat.pow_pos (by decide)
  unfold gevm_large_kernel
  simp only []
  generalize (32 * 1024) / sizeof_T = nb at hs hd ⊢
  have hmb : 0 < (if n < nb then 8 else 4) := by split <;> decide
  generalize (if n < nb then 8 else 4) = mb at hmb ⊢
  have h := forLoop_spec
    (fun bj c' => nb ∣ bj ∧ Updated cc c' (fun x => x < min bj (2 ^ p * (n / 2 ^ p)))
      (fun x => cc.val x + cdot aa bb m n x))
    (fun bj => decide (bj < n)) nb
    (fun bj c' => (forLoop m (fun block_k => decide (block_k < m)) mb
      (gevm_large_block (Arith.exact T) (2 ^ p) aa m n bb nb mb bj) 0 c').2)
    n hs (fun bj hbj => of_decide_eq_true hbj) ?_ n 0 cc (by omega)
    ⟨dvd_zero _, Updated.empty cc _ _ (fun x h => by simp at h)⟩
  · obtain ⟨⟨_, hf⟩, hex⟩ := h
    have hex' : ¬ _ < n := of_decide_eq_false hex
    have h0 : 2 ^ p * (n / 2 ^ p) ≤ n := Nat.mul_div_le n _
    refine hf.upd_congr _ _ (fun x => ?_) (fun _ _ => rfl)
    rw [Nat.min_eq_right (by omega)]
  · intro bj c' ⟨hdb, h3⟩ hc
    have hc' : bj < n := of_decide_eq_true hc
    have hdj : 2 ^ p ∣ bj := Dvd.dvd.trans hd hdb
    have hle : bj ≤ 2 ^ p * (n / 2 ^ p) := le_mul_div_of_dvd _ _ _ hvs hdj (Nat.le_of_lt hc')
    have h2 := gevm_large_rows_acc p hp aa bb m n hn nb mb bj hmb hdj (Nat.le_of_lt hc') c'
    rw [round_down_min _ _ _ hvs (Dvd.dvd.add hdj hd)] at h2
    refine ⟨Dvd.dvd.add hdb (dvd_refl _), ?_⟩
    rw [Nat.min_eq_left hle] at h3
    refine Updated.seq_acc h3 h2 (fun x h1 h2 => by omega) _ (fun x => ?_)
    have : bj ≤ min (bj + nb) (2 ^ p * (n / 2 ^ p)) := Nat.le_min.2 ⟨Nat.le_add_right _ _, hle⟩
    omega

/-- C21: for every `m`, `n < 2^64`, `vec_size = 2^p` dividing the column block size
`n_block = (32 * 1024) / sizeof(T) > 0` and every initial destination `d`, with
`n0 = n - n mod vec_size`: after `gevm_large_kernel`, `cc[j]` is `d[j]` plus the sum of
`aa[k] * bb[k*n + j]` over `k < m` for every `j < n0`, and `cc[j] = d[j]` for every
`j ≥ n0`; and in every pass of the `block_k` loop the `Remainder non-vectorized loop`
starts with its condition false, so that the pass is its three vectorised loops
(exact arithmetic). -/
theorem gevm_large_kernel_effect {T : Type} [CommRing T] (p : Nat) (hp : p < 64)
    (sizeof_T : Nat) (hs : 0 < (32 * 1024) / sizeof_T) (hd : 2 ^ p ∣ (32 * 1024) / sizeof_T)
    (aa bb : Nat → T) (m n : Nat) (hn : n < 2 ^ 64) (d : Buffer T) :
    (∀ j, j < n - n % 2 ^ p →
      (gevm_large_kernel (Arith.exact T) (2 ^ p) sizeof_T aa m n bb d).val j =
        d.val j + ∑ k ∈ Finset.range m, aa k * bb (k * n + j)) ∧
    (∀ j, n - n % 2 ^ p ≤ j →
      (gevm_large_kernel (Arith.exact T) (2 ^ p) sizeof_T aa m n bb d).val j = d.val j) ∧
    (∀ (m_block block_j block_k : Nat) (c : Buffer T),
      (32 * 1024) / sizeof_T ∣ block_j → block_j < n → block_k < m →
      decide ((gevm_large_vector_loops (Arith.exact T) (2 ^ p) aa m n bb
          ((32 * 1024) / sizeof_T) m_block block_j block_k c).1 <
        min (block_j + (32 * 1024) / sizeof_T) n &&& neg_size_t (2 ^ p)) = false ∧
      gevm_large_block (Arith.exact T) (2 ^ p) aa m n bb ((32 * 1024) / sizeof_T) m_block
          block_j block_k c =
        (gevm_large_vector_loops (Arith.exact T) (2 ^ p) aa m n bb
          ((32 * 1024) / sizeof_T) m_block block_j block_k c).2) := by
  have h := gevm_large_kernel_acc p hp sizeof_T hs hd aa bb m n hn d
  have e : n - n % 2 ^ p = 2 ^ p * (n / 2 ^ p) := by
    have := Nat.div_add_mod n (2 ^ p)
    omega
  rw [e]
  refine ⟨fun j hj => h.1 j hj, fun j hj => h.2 j (by omega), ?_⟩
  intro m_block block_j block_k c hdb hbj hbk
  have hb := gevm_large_block_acc p hp aa bb m n hn ((32 * 1024) / sizeof_T) m_block block_j
    block_k (Nat.le_of_lt hbk) (Dvd.dvd.trans hd hdb) (Nat.le_of_lt hbj) c
  exact ⟨hb.1, hb.2.1⟩

/-- Witness of C21: `m = 2`, `n = 5`, 2 lanes, `sizeof(T) = 4`, column 3 of a
destination that holds 7 everywhere. -/
theorem gevm_large_kernel_effect_witness :
    (gevm_large_kernel (Arith.exact Int) (2 ^ 1) 4 (fun x => (x : Int) + 1) 2 5
        (fun x => (x : Int)) ⟨fun _ => 7, fun _ => 0⟩).val 3 =
      7 + ∑ k ∈ Finset.range 2, ((k : Int) + 1) * ((k * 5 + 3 : Nat) : Int) :=
  (gevm_large_kernel_effect 1 (by decide) 4 (by decide) (by decide) (fun x => (x : Int) + 1)
    (fun x => (x : Int)) 2 5 (by decide) ⟨fun _ => 7, fun _ => 0⟩).1 3 (by decide)

/-! ## GEMV kernels with the remainder loop disabled -/

theorem gemv_small_rows8_padded {T : Type} (A : Arith T) (P : T → Prop) (hP : Closed A P)
    (vs : Nat) (last L m n : Nat) (hL : vs ∣ L) (hlL : last ≤ L)
    (aa bb : Nat → T) (ha : ∀ r c, r < m → c < L → P (aa (r * n + c)))
    (hb : ∀ k, k < L → P (bb k))
    (i : Nat) (hi : i + 8 ≤ m) (cc : Buffer T) :
    (∀ x, i ≤ x → x < i + 8 → P ((gemv_small_rows8 A vs false last aa n bb i cc).val x)) ∧
      ∀ x, ¬ (i ≤ x ∧ x < i + 8) →
        (gemv_small_rows8 A vs false last aa n bb i cc).val x = cc.val x ∧
        (gemv_small_rows8 A vs false last aa n bb i cc).stores x = cc.stores x := by
  obtain ⟨hz, hadd, hmul, hfm⟩ := id hP
  have ha' : ∀ r k l, r < m → k + l < L → P (aa (r * n + k + l)) := fun r k l hr h => by
    rw [Nat.add_assoc]
    exact ha r (k + l) hr h
  unfold gemv_small_rows8
  simp only []
  let Inv : Nat → Vec T × Vec T × Vec T × Vec T × Vec T × Vec T × Vec T × Vec T → Prop := fun k r => vs ∣ k ∧ k ≤ L ∧
      (∀ l, l < vs → P (r.1 l)) ∧
      (∀ l, l < vs → P (r.2.1 l)) ∧
      (∀ l, l < vs → P (r.2.2.1 l)) ∧
      (∀ l, l < vs → P (r.2.2.2.1 l)) ∧
      (∀ l, l < vs → P (r.2.2.2.2.1 l)) ∧
      (∀ l, l < vs → P (r.2.2.2.2.2.1 l)) ∧
      (∀ l, l < vs → P (r.2.2.2.2.2.2.1 l)) ∧
      (∀ l, l < vs → P (r.2.2.2.2.2.2.2 l))
  generalize hv : forLoop last (fun k => decide (k < last)) vs _ 0 _ = v
  have hV : Inv v.1 v.2 := by
    rw [← hv]
    refine forLoop_inv Inv _ _ _ ?_ last _ _ ⟨dvd_zero _, Nat.zero_le _, fun _ _ => hz, fun _ _ => hz, fun _ _ => hz, fun _ _ => hz, fun _ _ => hz, fun _ _ => hz, fun _ _ => hz, fun _ _ => hz⟩
    rintro k ⟨r1, r2, r3, r4, r5, r6, r7, r8⟩ ⟨hk, hkl, h1, h2, h3, h4, h5, h6, h7, h8⟩ hc
    have hc' : k < last := of_decide_eq_true hc
    have hkv : k + vs ≤ L :=
      add_le_of_dvd_lt vs (k) L hk hL (by omega)
    try dsimp only at h1 h2 h3 h4 h5 h6 h7 h8
    refine ⟨Dvd.dvd.add hk (dvd_refl _), by omega, ?_, ?_, ?_, ?_, ?_, ?_, ?_, ?_⟩
    · intro l hl
      exact hfm _ _ _ (ha' (i + 0) k l (by omega) (by omega))
          (hb _ (by omega)) (h1 l hl)
    · intro l hl
      exact hfm _ _ _ (ha' (i + 1) k l (by omega) (by omega))
          (hb _ (by omega)) (h2 l hl)
    · intro l hl
      exact hfm _ _ _ (ha' (i + 2) k l (by omega) (by omega))
          (hb _ (by omega)) (h3 l hl)
    · intro l hl
      exact hfm _ _ _ (ha' (i + 3) k l (by omega) (by omega))
          (hb _ (by omega)) (h4 l hl)
    · intro l hl
      exact hfm _ _ _ (ha' (i + 4) k l (by omega) (by omega))
          (hb _ (by omega)) (h5 l hl)
    · intro l hl
      exact hfm _ _ _ (ha' (i + 5) k l (by omega) (by omega))
          (hb _ (by omega)) (h6 l hl)
    · intro l hl
      exact hfm _ _ _ (ha' (i + 6) k l (by omega) (by omega))
          (hb _ (by omega)) (h7 l hl)
    · intro l hl
      exact hfm _ _ _ (ha' (i + 7) k l (by omega) (by omega))
          (hb _ (by omega)) (h8 l hl)
  obtain ⟨hk, hkl, h1, h2, h3, h4, h5, h6, h7, h8⟩ := hV
  have g1 : P (Vec.hadd A vs v.2.1) := hadd_closed A P hP vs _ h1
  have g2 : P (Vec.hadd A vs v.2.2.1) := hadd_closed A P hP vs _ h2
  have g3 : P (Vec.hadd A vs v.2.2.2.1) := hadd_closed A P hP vs _ h3
  have g4 : P (Vec.hadd A vs v.2.2.2.2.1) := hadd_closed A P hP vs _ h4
  have g5 : P (Vec.hadd A vs v.2.2.2.2.2.1) := hadd_closed A P hP vs _ h5
  have g6 : P (Vec.hadd A vs v.2.2.2.2.2.2.1) := hadd_closed A P hP vs _ h6
  have g7 : P (Vec.hadd A vs v.2.2.2.2.2.2.2.1) := hadd_closed A P hP vs _ h7
  have g8 : P (Vec.hadd A vs v.2.2.2.2.2.2.2.2) := hadd_closed A P hP vs _ h8
  generalize hc0 : Buffer.write _ (i + 7) _ = c0
  generalize v.1 = k0
  have hW := forLoop_inv (fun (_ : Nat) (c : Buffer T) =>
      P (c.val (i + 0)) ∧ P (c.val (i + 1)) ∧ P (c.val (i + 2)) ∧ P (c.val (i + 3)) ∧ P (c.val (i + 4)) ∧ P (c.val (i + 5)) ∧ P (c.val (i + 6)) ∧ P (c.val (i + 7)) ∧
      ∀ y, ¬ (i ≤ y ∧ y < i + 8) → c.val y = cc.val y ∧ c.stores y = cc.stores y)
    (fun k => false && decide (k < n)) 1
    (fun k cc =>
      let cc := cc.add_assign A (i + 0) (A.mul (aa ((i + 0) * n + k)) (bb k))
      let cc := cc.add_assign A (i + 1) (A.mul (aa ((i + 1) * n + k)) (bb k))
      let cc := cc.add_assign A (i + 2) (A.mul (aa ((i + 2) * n + k)) (bb k))
      let cc := cc.add_assign A (i + 3) (A.mul (aa ((i + 3) * n + k)) (bb k))
      let cc := cc.add_assign A (i + 4) (A.mul (aa ((i + 4) * n + k)) (bb k))
      let cc := cc.add_assign A (i + 5) (A.mul (aa ((i + 5) * n + k)) (bb k))
      let cc := cc.add_assign A (i + 6) (A.mul (aa ((i + 6) * n + k)) (bb k))
      let cc := cc.add_assign A (i + 7) (A.mul (aa ((i + 7) * n + k)) (bb k))
      cc)
    ?_ n k0 c0 ?_
  · obtain ⟨h1, h2, h3, h4, h5, h6, h7, h8, hf⟩ := hW
    refine ⟨fun x hx1 hx2 => ?_, hf⟩
    obtain ⟨d, rfl⟩ : ∃ d, x = i + d := ⟨x - i, by omega⟩
    have hd : d < 8 := by omega
    interval_cases d
    · exact h1
    · exact h2
    · exact h3
    · exact h4
    · exact h5
    · exact h6
    · exact h7
    · exact h8
  · rintro k c ⟨h1, h2, h3, h4, h5, h6, h7, h8, hf⟩ hc
    exact absurd hc (by simp)
  · subst hc0
    refine ⟨?_, ?_, ?_, ?_, ?_, ?_, ?_, ?_, fun y hy => ?_⟩
    · simp (disch := omega) only [write_val_ne, write_val_eq]
      exact g1
    · simp (disch := omega) only [write_val_ne, write_val_eq]
      exact g2
    · simp (disch := omega) only [write_val_ne, write_val_eq]
      exact g3
    · simp (disch := omega) only [write_val_ne, write_val_eq]
      exact g4
    · simp (disch := omega) only [write_val_ne, write_val_eq]
      exact g5
    · simp (disch := omega) only [write_val_ne, write_val_eq]
      exact g6
    · simp (disch := omega) only [write_val_ne, write_val_eq]
      exact g7
    · simp (disch := omega) only [write_val_ne, write_val_eq]
      exact g8
    · constructor <;> simp (disch := omega) only [write_val_ne, write_stores_ne]

theorem gemv_small_rows2_padded {T : Type} (A : Arith T) (P : T → Prop) (hP : Closed A P)
    (vs : Nat) (last L m n : Nat) (hL : vs ∣ L) (hlL : last ≤ L)
    (aa bb : Nat → T) (ha : ∀ r c, r < m → c < L → P (aa (r * n + c)))
    (hb : ∀ k, k < L → P (bb k))
    (i : Nat) (hi : i + 2 ≤ m) (cc : Buffer T) :
    (∀ x, i ≤ x → x < i + 2 → P ((gemv_small_rows2 A vs false last aa n bb i cc).val x)) ∧
      ∀ x, ¬ (i ≤ x ∧ x < i + 2) →
        (gemv_small_rows2 A vs false last aa n bb i cc).val x = cc.val x ∧
        (gemv_small_rows2 A vs false last aa n bb i cc).stores x = cc.stores x := by
  obtain ⟨hz, hadd, hmul, hfm⟩ := id hP
  have ha' : ∀ r k l, r < m → k + l < L → P (aa (r * n + k + l)) := fun r k l hr h => by
    rw [Nat.add_assoc]
    exact ha r (k + l) hr h
  unfold gemv_small_rows2
  simp only []
  let Inv : Nat → Vec T × Vec T → Prop := fun k r => vs ∣ k ∧ k ≤ L ∧
      (∀ l, l < vs → P (r.1 l)) ∧
      (∀ l, l < vs → P (r.2 l))
  generalize hv : forLoop last (fun k => decide (k < last)) vs _ 0 _ = v
  have hV : Inv v.1 v.2 := by
    rw [← hv]
    refine forLoop_inv Inv _ _ _ ?_ last _ _ ⟨dvd_zero _, Nat.zero_le _, fun _ _ => hz, fun _ _ => hz⟩
    rintro k ⟨r1, r2⟩ ⟨hk, hkl, h1, h2⟩ hc
    have hc' : k < last := of_decide_eq_true hc
    have hkv : k + vs ≤ L :=
      add_le_of_dvd_lt vs (k) L hk hL (by omega)
    try dsimp only at h1 h2
    refine ⟨Dvd.dvd.add hk (dvd_refl _), by omega, ?_, ?_⟩
    · intro l hl
      exact hfm _ _ _ (ha' (i + 0) k l (by omega) (by omega))
          (hb _ (by omega)) (h1 l hl)
    · intro l hl
      exact hfm _ _ _ (ha' (i + 1) k l (by omega) (by omega))
          (hb _ (by omega)) (h2 l hl)
  obtain ⟨hk, hkl, h1, h2⟩ := hV
  have g1 : P (Vec.hadd A vs v.2.1) := hadd_closed A P hP vs _ h1
  have g2 : P (Vec.hadd A vs v.2.2) := hadd_closed A P hP vs _ h2
  generalize hc0 : Buffer.write _ (i + 1) _ = c0
  generalize v.1 = k0
  have hW := forLoop_inv (fun (_ : Nat) (c : Buffer T) =>
      P (c.val (i + 0)) ∧ P (c.val (i + 1)) ∧
      ∀ y, ¬ (i ≤ y ∧ y < i + 2) → c.val y = cc.val y ∧ c.stores y = cc.stores y)
    (fun k => false && decide (k < n)) 1
    (fun k cc =>
      let cc := cc.add_assign A (i + 0) (A.mul (aa ((i + 0) * n + k)) (bb k))
      let cc := cc.add_assign A (i + 1) (A.mul (aa ((i + 1) * n + k)) (bb k))
      cc)
    ?_ n k0 c0 ?_
  · obtain ⟨h1, h2, hf⟩ := hW
    refine ⟨fun x hx1 hx2 => ?_, hf⟩
    obtain ⟨d, rfl⟩ : ∃ d, x = i + d := ⟨x - i, by omega⟩
    have hd : d < 2 := by omega
    interval_cases d
    · exact h1
    · exact h2
  · rintro k c ⟨h1, h2, hf⟩ hc
    exact absurd hc (by simp)
  · subst hc0
    refine ⟨?_, ?_, fun y hy => ?_⟩
    · simp (disch := omega) only [write_val_ne, write_val_eq]
      exact g1
    · simp (disch := omega) only [write_val_ne, write_val_eq]
      exact g2
    · constructor <;> simp (disch := omega) only [write_val_ne, write_stores_ne]

theorem gemv_small_row1_padded {T : Type} (A : Arith T) (P : T → Prop) (hP : Closed A P)
    (vs : Nat) (last L m n : Nat) (hL : vs ∣ L) (hlL : last ≤ L)
    (aa bb : Nat → T) (ha : ∀ r c, r < m → c < L → P (aa (r * n + c)))
    (hb : ∀ k, k < L → P (bb k))
    (i : Nat) (hi : i + 1 ≤ m) (cc : Buffer T) :
    (∀ x, i ≤ x → x < i + 1 → P ((gemv_small_row1 A vs false last aa n bb i cc).val x)) ∧
      ∀ x, ¬ (i ≤ x ∧ x < i + 1) →
        (gemv_small_row1 A vs false last aa n bb i cc).val x = cc.val x ∧
        (gemv_small_row1 A vs false last aa n bb i cc).stores x = cc.stores x := by
  obtain ⟨hz, hadd, hmul, hfm⟩ := id hP
  have ha' : ∀ r k l, r < m → k + l < L → P (aa (r * n + k + l)) := fun r k l hr h => by
    rw [Nat.add_assoc]
    exact ha r (k + l) hr h
  unfold gemv_small_row1
  simp only []
  let Inv : Nat → Vec T → Prop := fun k r => vs ∣ k ∧ k ≤ L ∧
      (∀ l, l < vs → P (r l))
  generalize hv : forLoop last (fun k => decide (k < last)) vs _ 0 _ = v
  have hV : Inv v.1 v.2 := by
    rw [← hv]
    refine forLoop_inv Inv _ _ _ ?_ last _ _ ⟨dvd_zero _, Nat.zero_le _, fun _ _ => hz⟩
    rintro k r1 ⟨hk, hkl, h1⟩ hc
    have hc' : k < last := of_decide_eq_true hc
    have hkv : k + vs ≤ L :=
      add_le_of_dvd_lt vs (k) L hk hL (by omega)
    try dsimp only at h1
    refine ⟨Dvd.dvd.add hk (dvd_refl _), by omega, ?_⟩
    · intro l hl
      exact hfm _ _ _ (ha' (i + 0) k l (by omega) (by omega))
          (hb _ (by omega)) (h1 l hl)
  obtain ⟨hk, hkl, h1⟩ := hV
  have g1 : P (Vec.hadd A vs v.2) := hadd_closed A P hP vs _ h1
  generalize v.1 = k0
  have hW := forLoop_inv (fun (_ : Nat) (r : T) => P r)
    (fun k => false && decide (k < n)) 1
    (fun k result => A.add result (A.mul (aa (i * n + k)) (bb k)))
    (fun k r hr hc => absurd hc (by simp)) n k0 _ g1
  refine ⟨fun x hx1 hx2 => ?_, fun x hx => ?_⟩
  · have hx : x = i := by omega
    subst hx
    rw [write_val_eq]
    exact hW
  · rw [write_val_ne _ _ _ _ (by omega), write_stores_ne _ _ _ _ (by omega)]
    exact ⟨rfl, rfl⟩

theorem gemv_large_rows8_padded {T : Type} (A : Arith T) (P : T → Prop) (hP : Closed A P)
    (vs : Nat) (last L m n : Nat) (hL : vs ∣ L) (hlL : last ≤ L)
    (aa bb : Nat → T) (ha : ∀ r c, r < m → c < L → P (aa (r * n + c)))
    (hb : ∀ k, k < L → P (bb k))
    (i : Nat) (hi : i + 8 ≤ m) (cc : Buffer T) :
    (∀ x, i ≤ x → x < i + 8 → P ((gemv_large_rows8 A vs false last aa n bb i cc).val x)) ∧
      ∀ x, ¬ (i ≤ x ∧ x < i + 8) →
        (gemv_large_rows8 A vs false last aa n bb i cc).val x = cc.val x ∧
        (gemv_large_rows8 A vs false last aa n bb i cc).stores x = cc.stores x := by
  obtain ⟨hz, hadd, hmul, hfm⟩ := id hP
  have ha' : ∀ r k l, r < m → k + l < L → P (aa (r * n + k + l)) := fun r k l hr h => by
    rw [Nat.add_assoc]
    exact ha r (k + l) hr h
  unfold gemv_large_rows8
  simp only []
  let Inv : Nat → Vec T × Vec T × Vec T × Vec T × Vec T × Vec T × Vec T × Vec T → Prop := fun k r => vs ∣ k ∧ k ≤ L ∧
      (∀ l, l < vs → P (r.1 l)) ∧
      (∀ l, l < vs → P (r.2.1 l)) ∧
      (∀ l, l < vs → P (r.2.2.1 l)) ∧
      (∀ l, l < vs → P (r.2.2.2.1 l)) ∧
      (∀ l, l < vs → P (r.2.2.2.2.1 l)) ∧
      (∀ l, l < vs → P (r.2.2.2.2.2.1 l)) ∧
      (∀ l, l < vs → P (r.2.2.2.2.2.2.1 l)) ∧
      (∀ l, l < vs → P (r.2.2.2.2.2.2.2 l))
  generalize hv4 : forLoop last (fun k => decide (k + vs * 3 < last)) (vs * 4) _ 0 _ = v4
  have hV4 : Inv v4.1 v4.2 := by
    rw [← hv4]
    refine forLoop_inv Inv _ _ _ ?_ last _ _ ⟨dvd_zero _, Nat.zero_le _, fun _ _ => hz, fun _ _ => hz, fun _ _ => hz, fun _ _ => hz, fun _ _ => hz, fun _ _ => hz, fun _ _ => hz, fun _ _ => hz⟩
    rintro k ⟨r1, r2, r3, r4, r5, r6, r7, r8⟩ ⟨hk, hkl, h1, h2, h3, h4, h5, h6, h7, h8⟩ hc
    have hc' : k + vs * 3 < last := of_decide_eq_true hc
    have hkv : k + vs * 3 + vs ≤ L :=
      add_le_of_dvd_lt vs (k + vs * 3) L (Dvd.dvd.add hk (Dvd.intro _ rfl)) hL (by omega)
    try dsimp only at h1 h2 h3 h4 h5 h6 h7 h8
    refine ⟨Dvd.dvd.add hk (Dvd.intro _ rfl), by omega, ?_, ?_, ?_, ?_, ?_, ?_, ?_, ?_⟩
    · intro l hl
      exact hfm _ _ _ (ha' (i + 0) (k + 3 * vs) l (by omega) (by omega))
          (hb _ (by omega)) (hfm _ _ _ (ha' (i + 0) (k + 2 * vs) l (by omega) (by omega))
          (hb _ (by omega)) (hfm _ _ _ (ha' (i + 0) (k + 1 * vs) l (by omega) (by omega))
          (hb _ (by omega)) (hfm _ _ _ (ha' (i + 0) (k + 0 * vs) l (by omega) (by omega))
          (hb _ (by omega)) (h1 l hl))))
    · intro l hl
      exact hfm _ _ _ (ha' (i + 1) (k + 3 * vs) l (by omega) (by omega))
          (hb _ (by omega)) (hfm _ _ _ (ha' (i + 1) (k + 2 * vs) l (by omega) (by omega))
          (hb _ (by omega)) (hfm _ _ _ (ha' (i + 1) (k + 1 * vs) l (by omega) (by omega))
          (hb _ (by omega)) (hfm _ _ _ (ha' (i + 1) (k + 0 * vs) l (by omega) (by omega))
          (hb _ (by omega)) (h2 l hl))))
    · intro l hl
      exact hfm _ _ _ (ha' (i + 2) (k + 3 * vs) l (by omega) (by omega))
          (hb _ (by omega)) (hfm _ _ _ (ha' (i + 2) (k + 2 * vs) l (by omega) (by omega))
          (hb _ (by omega)) (hfm _ _ _ (ha' (i + 2) (k + 1 * vs) l (by omega) (by omega))
          (hb _ (by omega)) (hfm _ _ _ (ha' (i + 2) (k + 0 * vs) l (by omega) (by omega))
          (hb _ (by omega)) (h3 l hl))))
    · intro l hl
      exact hfm _ _ _ (ha' (i + 3) (k + 3 * vs) l (by omega) (by omega))
          (hb _ (by omega)) (hfm _ _ _ (ha' (i + 3) (k + 2 * vs) l (by omega) (by omega))
          (hb _ (by omega)) (hfm _ _ _ (ha' (i + 3) (k + 1 * vs) l (by omega) (by omega))
          (hb _ (by omega)) (hfm _ _ _ (ha' (i + 3) (k + 0 * vs) l (by omega) (by omega))
          (hb _ (by omega)) (h4 l hl))))
    · intro l hl
      exact hfm _ _ _ (ha' (i + 4) (k + 3 * vs) l (by omega) (by omega))
          (hb _ (by omega)) (hfm _ _ _ (ha' (i + 4) (k + 2 * vs) l (by omega) (by omega))
          (hb _ (by omega)) (hfm _ _ _ (ha' (i + 4) (k + 1 * vs) l (by omega) (by omega))
          (hb _ (by omega)) (hfm _ _ _ (ha' (i + 4) (k + 0 * vs) l (by omega) (by omega))
          (hb _ (by omega)) (h5 l hl))))
    · intro l hl
      exact hfm _ _ _ (ha' (i + 5) (k + 3 * vs) l (by omega) (by omega))
          (hb _ (by omega)) (hfm _ _ _ (ha' (i + 5) (k + 2 * vs) l (by omega) (by omega))
          (hb _ (by omega)) (hfm _ _ _ (ha' (i + 5) (k + 1 * vs) l (by omega) (by omega))
          (hb _ (by omega)) (hfm _ _ _ (ha' (i + 5) (k + 0 * vs) l (by omega) (by omega))
          (hb _ (by omega)) (h6 l hl))))
    · intro l hl
      exact hfm _ _ _ (ha' (i + 6) (k + 3 * vs) l (by omega) (by omega))
          (hb _ (by omega)) (hfm _ _ _ (ha' (i + 6) (k + 2 * vs) l (by omega) (by omega))
          (hb _ (by omega)) (hfm _ _ _ (ha' (i + 6) (k + 1 * vs) l (by omega) (by omega))
          (hb _ (by omega)) (hfm _ _ _ (ha' (i + 6) (k + 0 * vs) l (by omega) (by omega))
          (hb _ (by omega)) (h7 l hl))))
    · intro l hl
      exact hfm _ _ _ (ha' (i + 7) (k + 3 * vs) l (by omega) (by omega))
          (hb _ (by omega)) (hfm _ _ _ (ha' (i + 7) (k + 2 * vs) l (by omega) (by omega))
          (hb _ (by omega)) (hfm _ _ _ (ha' (i + 7) (k + 1 * vs) l (by omega) (by omega))
          (hb _ (by omega)) (hfm _ _ _ (ha' (i + 7) (k + 0 * vs) l (by omega) (by omega))
          (hb _ (by omega)) (h8 l hl))))
  generalize hv2 : forLoop last (fun k => decide (k + vs < last)) (vs * 2) _ v4.1 v4.2 = v2
  have hV2 : Inv v2.1 v2.2 := by
    rw [← hv2]
    refine forLoop_inv Inv _ _ _ ?_ last _ _ hV4
    rintro k ⟨r1, r2, r3, r4, r5, r6, r7, r8⟩ ⟨hk, hkl, h1, h2, h3, h4, h5, h6, h7, h8⟩ hc
    have hc' : k + vs < last := of_decide_eq_true hc
    have hkv : k + vs + vs ≤ L :=
      add_le_of_dvd_lt vs (k + vs) L (Dvd.dvd.add hk (dvd_refl _)) hL (by omega)
    try dsimp only at h1 h2 h3 h4 h5 h6 h7 h8
    refine ⟨Dvd.dvd.add hk (Dvd.intro _ rfl), by omega, ?_, ?_, ?_, ?_, ?_, ?_, ?_, ?_⟩
    · intro l hl
      exact hfm _ _ _ (ha' (i + 0) (k + 1 * vs) l (by omega) (by omega))
          (hb _ (by omega)) (hfm _ _ _ (ha' (i + 0) (k + 0 * vs) l (by omega) (by omega))
          (hb _ (by omega)) (h1 l hl))
    · intro l hl
      exact hfm _ _ _ (ha' (i + 1) (k + 1 * vs) l (by omega) (by omega))
          (hb _ (by omega)) (hfm _ _ _ (ha' (i + 1) (k + 0 * vs) l (by omega) (by omega))
          (hb _ (by omega)) (h2 l hl))
    · intro l hl
      exact hfm _ _ _ (ha' (i + 2) (k + 1 * vs) l (by omega) (by omega))
          (hb _ (by omega)) (hfm _ _ _ (ha' (i + 2) (k + 0 * vs) l (by omega) (by omega))
          (hb _ (by omega)) (h3 l hl))
    · intro l hl
      exact hfm _ _ _ (ha' (i + 3) (k + 1 * vs) l (by omega) (by omega))
          (hb _ (by omega)) (hfm _ _ _ (ha' (i + 3) (k + 0 * vs) l (by omega) (by omega))
          (hb _ (by omega)) (h4 l hl))
    · intro l hl
      exact hfm _ _ _ (ha' (i + 4) (k + 1 * vs) l (by omega) (by omega))
          (hb _ (by omega)) (hfm _ _ _ (ha' (i + 4) (k + 0 * vs) l (by omega) (by omega))
          (hb _ (by omega)) (h5 l hl))
    · intro l hl
      exact hfm _ _ _ (ha' (i + 5) (k + 1 * vs) l (by omega) (by omega))
          (hb _ (by omega)) (hfm _ _ _ (ha' (i + 5) (k + 0 * vs) l (by omega) (by omega))
          (hb _ (by omega)) (h6 l hl))
    · intro l hl
      exact hfm _ _ _ (ha' (i + 6) (k + 1 * vs) l (by omega) (by omega))
          (hb _ (by omega)) (hfm _ _ _ (ha' (i + 6) (k + 0 * vs) l (by omega) (by omega))
          (hb _ (by omega)) (h7 l hl))
    · intro l hl
      exact hfm _ _ _ (ha' (i + 7) (k + 1 * vs) l (by omega) (by omega))
          (hb _ (by omega)) (hfm _ _ _ (ha' (i + 7) (k + 0 * vs) l (by omega) (by omega))
          (hb _ (by omega)) (h8 l hl))
  clear hV4 hv4 hv2
  obtain ⟨hk, hkl, h1, h2, h3, h4, h5, h6, h7, h8⟩ := hV2
  generalize hv : (if v2.1 < last then _ else v2 : Nat × Vec T × Vec T × Vec T × Vec T × Vec T × Vec T × Vec T × Vec T) = v
  have hV : (∀ l, l < vs → P (v.2.1 l)) ∧
      (∀ l, l < vs → P (v.2.2.1 l)) ∧
      (∀ l, l < vs → P (v.2.2.2.1 l)) ∧
      (∀ l, l < vs → P (v.2.2.2.2.1 l)) ∧
      (∀ l, l < vs → P (v.2.2.2.2.2.1 l)) ∧
      (∀ l, l < vs → P (v.2.2.2.2.2.2.1 l)) ∧
      (∀ l, l < vs → P (v.2.2.2.2.2.2.2.1 l)) ∧
      (∀ l, l < vs → P (v.2.2.2.2.2.2.2.2 l)) := by
    rw [← hv]
    by_cases hlt : v2.1 < last
    · have hkv : v2.1 + vs ≤ L := add_le_of_dvd_lt vs v2.1 L hk hL (by omega)
      rw [if_pos hlt]
      refine ⟨?_, ?_, ?_, ?_, ?_, ?_, ?_, ?_⟩
      · intro l hl
        exact hfm _ _ _ (ha' (i + 0) v2.1 l (by omega) (by omega))
          (hb _ (by omega)) (h1 l hl)
      · intro l hl
        exact hfm _ _ _ (ha' (i + 1) v2.1 l (by omega) (by omega))
          (hb _ (by omega)) (h2 l hl)
      · intro l hl
        exact hfm _ _ _ (ha' (i + 2) v2.1 l (by omega) (by omega))
          (hb _ (by omega)) (h3 l hl)
      · intro l hl
        exact hfm _ _ _ (ha' (i + 3) v2.1 l (by omega) (by omega))
          (hb _ (by omega)) (h4 l hl)
      · intro l hl
        exact hfm _ _ _ (ha' (i + 4) v2.1 l (by omega) (by omega))
          (hb _ (by omega)) (h5 l hl)
      · intro l hl
        exact hfm _ _ _ (ha' (i + 5) v2.1 l (by omega) (by omega))
          (hb _ (by omega)) (h6 l hl)
      · intro l hl
        exact hfm _ _ _ (ha' (i + 6) v2.1 l (by omega) (by omega))
          (hb _ (by omega)) (h7 l hl)
      · intro l hl
        exact hfm _ _ _ (ha' (i + 7) v2.1 l (by omega) (by omega))
          (hb _ (by omega)) (h8 l hl)
    · rw [if_neg hlt]
      exact ⟨h1, h2, h3, h4, h5, h6, h7, h8⟩
  clear hv h1 h2 h3 h4 h5 h6 h7 h8 hk hkl
  obtain ⟨h1, h2, h3, h4, h5, h6, h7, h8⟩ := hV
  have g1 : P (Vec.hadd A vs v.2.1) := hadd_closed A P hP vs _ h1
  have g2 : P (Vec.hadd A vs v.2.2.1) := hadd_closed A P hP vs _ h2
  have g3 : P (Vec.hadd A vs v.2.2.2.1) := hadd_closed A P hP vs _ h3
  have g4 : P (Vec.hadd A vs v.2.2.2.2.1) := hadd_closed A P hP vs _ h4
  have g5 : P (Vec.hadd A vs v.2.2.2.2.2.1) := hadd_closed A P hP vs _ h5
  have g6 : P (Vec.hadd A vs v.2.2.2.2.2.2.1) := hadd_closed A P hP vs _ h6
  have g7 : P (Vec.hadd A vs v.2.2.2.2.2.2.2.1) := hadd_closed A P hP vs _ h7
  have g8 : P (Vec.hadd A vs v.2.2.2.2.2.2.2.2) := hadd_closed A P hP vs _ h8
  generalize hc0 : Buffer.write _ (i + 7) _ = c0
  generalize v.1 = k0
  have hW := forLoop_inv (fun (_ : Nat) (c : Buffer T) =>
      P (c.val (i + 0)) ∧ P (c.val (i + 1)) ∧ P (c.val (i + 2)) ∧ P (c.val (i + 3)) ∧ P (c.val (i + 4)) ∧ P (c.val (i + 5)) ∧ P (c.val (i + 6)) ∧ P (c.val (i + 7)) ∧
      ∀ y, ¬ (i ≤ y ∧ y < i + 8) → c.val y = cc.val y ∧ c.stores y = cc.stores y)
    (fun k => false && decide (k < n)) 1
    (fun k cc =>
      let cc := cc.add_assign A (i + 0) (A.mul (aa ((i + 0) * n + k)) (bb k))
      let cc := cc.add_assign A (i + 1) (A.mul (aa ((i + 1) * n + k)) (bb k))
      let cc := cc.add_assign A (i + 2) (A.mul (aa ((i + 2) * n + k)) (bb k))
      let cc := cc.add_assign A (i + 3) (A.mul (aa ((i + 3) * n + k)) (bb k))
      let cc := cc.add_assign A (i + 4) (A.mul (aa ((i + 4) * n + k)) (bb k))
      let cc := cc.add_assign A (i + 5) (A.mul (aa ((i + 5) * n + k)) (bb k))
      let cc := cc.add_assign A (i + 6) (A.mul (aa ((i + 6) * n + k)) (bb k))
      let cc := cc.add_assign A (i + 7) (A.mul (aa ((i + 7) * n + k)) (bb k))
      cc)
    ?_ n k0 c0 ?_
  · obtain ⟨h1, h2, h3, h4, h5, h6, h7, h8, hf⟩ := hW
    refine ⟨fun x hx1 hx2 => ?_, hf⟩
    obtain ⟨d, rfl⟩ : ∃ d, x = i + d := ⟨x - i, by omega⟩
    have hd : d < 8 := by omega
    interval_cases d
    · exact h1
    · exact h2
    · exact h3
    · exact h4
    · exact h5
    · exact h6
    · exact h7
    · exact h8
  · rintro k c ⟨h1, h2, h3, h4, h5, h6, h7, h8, hf⟩ hc
    exact absurd hc (by simp)
  · subst hc0
    refine ⟨?_, ?_, ?_, ?_, ?_, ?_, ?_, ?_, fun y hy => ?_⟩
    · simp (disch := omega) only [write_val_ne, write_val_eq]
      exact g1
    · simp (disch := omega) only [write_val_ne, write_val_eq]
      exact g2
    · simp (disch := omega) only [write_val_ne, write_val_eq]
      exact g3
    · simp (disch := omega) only [write_val_ne, write_val_eq]
      exact g4
    · simp (disch := omega) only [write_val_ne, write_val_eq]
      exact g5
    · simp (disch := omega) only [write_val_ne, write_val_eq]
      exact g6
    · simp (disch := omega) only [write_val_ne, write_val_eq]
      exact g7
    · simp (disch := omega) only [write_val_ne, write_val_eq]
      exact g8
    · constructor <;> simp (disch := omega) only [write_val_ne, write_stores_ne]

theorem gemv_large_rows2_padded {T : Type} (A : Arith T) (P : T → Prop) (hP : Closed A P)
    (vs : Nat) (last L m n : Nat) (hL : vs ∣ L) (hlL : last ≤ L)
    (aa bb : Nat → T) (ha : ∀ r c, r < m → c < L → P (aa (r * n + c)))
    (hb : ∀ k, k < L → P (bb k))
    (i : Nat) (hi : i + 2 ≤ m) (cc : Buffer T) :
    (∀ x, i ≤ x → x < i + 2 → P ((gemv_large_rows2 A vs false last aa n bb i cc).val x)) ∧
      ∀ x, ¬ (i ≤ x ∧ x < i + 2) →
        (gemv_large_rows2 A vs false last aa n bb i cc).val x = cc.val x ∧
        (gemv_large_rows2 A vs false last aa n bb i cc).stores x = cc.stores x := by
  obtain ⟨hz, hadd, hmul, hfm⟩ := id hP
  have ha' : ∀ r k l, r < m → k + l < L → P (aa (r * n + k + l)) := fun r k l hr h => by
    rw [Nat.add_assoc]
    exact ha r (k + l) hr h
  unfold gemv_large_rows2
  simp only []
  let Inv : Nat → Vec T × Vec T → Prop := fun k r => vs ∣ k ∧ k ≤ L ∧
      (∀ l, l < vs → P (r.1 l)) ∧
      (∀ l, l < vs → P (r.2 l))
  generalize hv4 : forLoop last (fun k => decide (k + vs * 3 < last)) (vs * 4) _ 0 _ = v4
  have hV4 : Inv v4.1 v4.2 := by
    rw [← hv4]
    refine forLoop_inv Inv _ _ _ ?_ last _ _ ⟨dvd_zero _, Nat.zero_le _, fun _ _ => hz, fun _ _ => hz⟩
    rintro k ⟨r1, r2⟩ ⟨hk, hkl, h1, h2⟩ hc
    have hc' : k + vs * 3 < last := of_decide_eq_true hc
    have hkv : k + vs * 3 + vs ≤ L :=
      add_le_of_dvd_lt vs (k + vs * 3) L (Dvd.dvd.add hk (Dvd.intro _ rfl)) hL (by omega)
    try dsimp only at h1 h2
    refine ⟨Dvd.dvd.add hk (Dvd.intro _ rfl), by omega, ?_, ?_⟩
    · intro l hl
      exact hfm _ _ _ (ha' (i + 0) (k + 3 * vs) l (by omega) (by omega))
          (hb _ (by omega)) (hfm _ _ _ (ha' (i + 0) (k + 2 * vs) l (by omega) (by omega))
          (hb _ (by omega)) (hfm _ _ _ (ha' (i + 0) (k + 1 * vs) l (by omega) (by omega))
          (hb _ (by omega)) (hfm _ _ _ (ha' (i + 0) (k + 0 * vs) l (by omega) (by omega))
          (hb _ (by omega)) (h1 l hl))))
    · intro l hl
      exact hfm _ _ _ (ha' (i + 1) (k + 3 * vs) l (by omega) (by omega))
          (hb _ (by omega)) (hfm _ _ _ (ha' (i + 1) (k + 2 * vs) l (by omega) (by omega))
          (hb _ (by omega)) (hfm _ _ _ (ha' (i + 1) (k + 1 * vs) l (by omega) (by omega))
          (hb _ (by omega)) (hfm _ _ _ (ha' (i + 1) (k + 0 * vs) l (by omega) (by omega))
          (hb _ (by omega)) (h2 l hl))))
  generalize hv2 : forLoop last (fun k => decide (k + vs < last)) (vs * 2) _ v4.1 v4.2 = v2
  have hV2 : Inv v2.1 v2.2 := by
    rw [← hv2]
    refine forLoop_inv Inv _ _ _ ?_ last _ _ hV4
    rintro k ⟨r1, r2⟩ ⟨hk, hkl, h1, h2⟩ hc
    have hc' : k + vs < last := of_decide_eq_true hc
    have hkv : k + vs + vs ≤ L :=
      add_le_of_dvd_lt vs (k + vs) L (Dvd.dvd.add hk (dvd_refl _)) hL (by omega)
    try dsimp only at h1 h2
    refine ⟨Dvd.dvd.add hk (Dvd.intro _ rfl), by omega, ?_, ?_⟩
    · intro l hl
      exact hfm _ _ _ (ha' (i + 0) (k + 1 * vs) l (by omega) (by omega))
          (hb _ (by omega)) (hfm _ _ _ (ha' (i + 0) (k + 0 * vs) l (by omega) (by omega))
          (hb _ (by omega)) (h1 l hl))
    · intro l hl
      exact hfm _ _ _ (ha' (i + 1) (k + 1 * vs) l (by omega) (by omega))
          (hb _ (by omega)) (hfm _ _ _ (ha' (i + 1) (k + 0 * vs) l (by omega) (by omega))
          (hb _ (by omega)) (h2 l hl))
  clear hV4 hv4 hv2
  obtain ⟨hk, hkl, h1, h2⟩ := hV2
  generalize hv : (if v2.1 < last then _ else v2 : Nat × Vec T × Vec T) = v
  have hV : (∀ l, l < vs → P (v.2.1 l)) ∧
      (∀ l, l < vs → P (v.2.2 l)) := by
    rw [← hv]
    by_cases hlt : v2.1 < last
    · have hkv : v2.1 + vs ≤ L := add_le_of_dvd_lt vs v2.1 L hk hL (by omega)
      rw [if_pos hlt]
      refine ⟨?_, ?_⟩
      · intro l hl
        exact hfm _ _ _ (ha' (i + 0) v2.1 l (by omega) (by omega))
          (hb _ (by omega)) (h1 l hl)
      · intro l hl
        exact hfm _ _ _ (ha' (i + 1) v2.1 l (by omega) (by omega))
          (hb _ (by omega)) (h2 l hl)
    · rw [if_neg hlt]
      exact ⟨h1, h2⟩
  clear hv h1 h2 hk hkl
  obtain ⟨h1, h2⟩ := hV
  have g1 : P (Vec.hadd A vs v.2.1) := hadd_closed A P hP vs _ h1
  have g2 : P (Vec.hadd A vs v.2.2) := hadd_closed A P hP vs _ h2
  generalize hc0 : Buffer.write _ (i + 1) _ = c0
  generalize v.1 = k0
  have hW := forLoop_inv (fun (_ : Nat) (c : Buffer T) =>
      P (c.val (i + 0)) ∧ P (c.val (i + 1)) ∧
      ∀ y, ¬ (i ≤ y ∧ y < i + 2) → c.val y = cc.val y ∧ c.stores y = cc.stores y)
    (fun k => false && decide (k < n)) 1
    (fun k cc =>
      let cc := cc.add_assign A (i + 0) (A.mul (aa (i + 0 * n + k)) (bb k))
      let cc := cc.add_assign A (i + 1) (A.mul (aa (i + 1 * n + k)) (bb k))
      cc)
    ?_ n k0 c0 ?_
  · obtain ⟨h1, h2, hf⟩ := hW
    refine ⟨fun x hx1 hx2 => ?_, hf⟩
    obtain ⟨d, rfl⟩ : ∃ d, x = i + d := ⟨x - i, by omega⟩
    have hd : d < 2 := by omega
    interval_cases d
    · exact h1
    · exact h2
  · rintro k c ⟨h1, h2, hf⟩ hc
    exact absurd hc (by simp)
  · subst hc0
    refine ⟨?_, ?_, fun y hy => ?_⟩
    · simp (disch := omega) only [write_val_ne, write_val_eq]
      exact g1
    · simp (disch := omega) only [write_val_ne, write_val_eq]
      exact g2
    · constructor <;> simp (disch := omega) only [write_val_ne, write_stores_ne]

theorem gemv_large_row1_padded {T : Type} (A : Arith T) (P : T → Prop) (hP : Closed A P)
    (vs : Nat) (last L m n : Nat) (hL : vs ∣ L) (hlL : last ≤ L)
    (aa bb : Nat → T) (ha : ∀ r c, r < m → c < L → P (aa (r * n + c)))
    (hb : ∀ k, k < L → P (bb k))
    (i : Nat) (hi : i + 1 ≤ m) (cc : Buffer T) :
    (∀ x, i ≤ x → x < i + 1 → P ((gemv_large_row1 A vs false last aa n bb i cc).val x)) ∧
      ∀ x, ¬ (i ≤ x ∧ x < i + 1) →
        (gemv_large_row1 A vs false last aa n bb i cc).val x = cc.val x ∧
        (gemv_large_row1 A vs false last aa n bb i cc).stores x = cc.stores x := by
  obtain ⟨hz, hadd, hmul, hfm⟩ := id hP
  have ha' : ∀ r k l, r < m → k + l < L → P (aa (r * n + k + l)) := fun r k l hr h => by
    rw [Nat.add_assoc]
    exact ha r (k + l) hr h
  unfold gemv_large_row1
  simp only []
  let Inv : Nat → Vec T → Prop := fun k r => vs ∣ k ∧ k ≤ L ∧
      (∀ l, l < vs → P (r l))
  generalize hv : forLoop last (fun k => decide (k < last)) vs _ 0 _ = v
  have hV : Inv v.1 v.2 := by
    rw [← hv]
    refine forLoop_inv Inv _ _ _ ?_ last _ _ ⟨dvd_zero _, Nat.zero_le _, fun _ _ => hz⟩
    rintro k r1 ⟨hk, hkl, h1⟩ hc
    have hc' : k < last := of_decide_eq_true hc
    have hkv : k + vs ≤ L :=
      add_le_of_dvd_lt vs (k) L hk hL (by omega)
    try dsimp only at h1
    refine ⟨Dvd.dvd.add hk (dvd_refl _), by omega, ?_⟩
    · intro l hl
      exact hfm _ _ _ (ha' (i + 0) k l (by omega) (by omega))
          (hb _ (by omega)) (h1 l hl)
  obtain ⟨hk, hkl, h1⟩ := hV
  have g1 : P (Vec.hadd A vs v.2) := hadd_closed A P hP vs _ h1
  generalize v.1 = k0
  have hW := forLoop_inv (fun (_ : Nat) (r : T) => P r)
    (fun k => false && decide (k < n)) 1
    (fun k result => A.add result (A.mul (aa (i * n + k)) (bb k)))
    (fun k r hr hc => absurd hc (by simp)) n k0 _ g1
  refine ⟨fun x hx1 hx2 => ?_, fun x hx => ?_⟩
  · have hx : x = i := by omega
    subst hx
    rw [write_val_eq]
    exact hW
  · rw [write_val_ne _ _ _ _ (by omega), write_stores_ne _ _ _ _ (by omega)]
    exact ⟨rfl, rfl⟩

/-- With the remainder loop disabled, every value `gemv_small_kernel` leaves in the
rows below `m` is built from `T()`, the elements `aa[r * n + c]`, `r < m`,
`c < round_up vs n`, and `bb[k]`, `k < round_up vs n`, by the operations of `A`; no
index at or past `m` is stored to. -/
theorem gemv_small_kernel_padded {T : Type} (A : Arith T) (P : T → Prop) (hP : Closed A P)
    (vs : Nat) (hvs : 0 < vs) (m n : Nat)
    (aa bb : Nat → T) (ha : ∀ r c, r < m → c < round_up vs n → P (aa (r * n + c)))
    (hb : ∀ k, k < round_up vs n → P (bb k)) (cc : Buffer T) :
    (∀ x, x < m → P ((gemv_small_kernel A vs true true aa m n bb cc).val x)) ∧
      ∀ x, m ≤ x →
        (gemv_small_kernel A vs true true aa m n bb cc).val x = cc.val x ∧
        (gemv_small_kernel A vs true true aa m n bb cc).stores x = cc.stores x := by
  have hL : vs ∣ round_up vs n := round_up_dvd vs n
  have hlL : n ≤ round_up vs n := le_round_up vs n hvs
  generalize round_up vs n = L at ha hb hL hlL
  unfold gemv_small_kernel
  simp only []
  have e1 : (!true || !true) = false := rfl
  rw [e1]
  have e2 : gemv_last vs false n = n := rfl
  rw [e2]
  let Inv : Nat → Buffer T → Prop := fun i c => i ≤ m ∧ (∀ x, x < i → P (c.val x)) ∧
    ∀ x, i ≤ x → c.val x = cc.val x ∧ c.stores x = cc.stores x
  have hstep : ∀ (R : Nat) (body : Nat → Buffer T → Buffer T),
      (∀ i c, i + R ≤ m → (∀ x, i ≤ x → x < i + R → P ((body i c).val x)) ∧
        ∀ x, ¬ (i ≤ x ∧ x < i + R) →
          (body i c).val x = c.val x ∧ (body i c).stores x = c.stores x) →
      ∀ i c, Inv i c → i + R ≤ m → Inv (i + R) (body i c) := by
    intro R body hB i c hI hi
    obtain ⟨_, hp, hf⟩ := hI
    obtain ⟨hB1, hB2⟩ := hB i c hi
    refine ⟨hi, fun x hx => ?_, fun x hx => ?_⟩
    · by_cases h1 : i ≤ x
      · exact hB1 x h1 hx
      · rw [(hB2 x (fun h => h1 h.1)).1]
        exact hp x (by omega)
    · rw [(hB2 x (fun h => by omega)).1, (hB2 x (fun h => by omega)).2]
      exact hf x (by omega)
  generalize hs8 : forLoop m (fun i => decide (i + 7 < m)) 8 _ 0 cc = s8
  have h8 : Inv s8.1 s8.2 := by
    rw [← hs8]
    refine forLoop_inv Inv _ 8 _ (fun i c hI hc => ?_) m 0 cc
      ⟨Nat.zero_le _, fun x hx => absurd hx (by omega), fun x _ => ⟨rfl, rfl⟩⟩
    have hc' : i + 7 < m := of_decide_eq_true hc
    exact hstep 8 _ (fun i c hi => gemv_small_rows8_padded A P hP vs n L m n hL hlL
      aa bb ha hb i hi c) i c hI (by omega)
  generalize hs2 : forLoop m (fun i => decide (i + 1 < m)) 2 _ s8.1 s8.2 = s2
  have h2 : Inv s2.1 s2.2 ∧ decide (s2.1 + 1 < m) = false := by
    rw [← hs2]
    refine forLoop_spec Inv _ 2 _ m (by norm_num) (fun k hk => ?_) (fun i c hI hc => ?_) m _ _
      (by omega) h8
    · have : k + 1 < m := of_decide_eq_true hk
      omega
    · have hc' : i + 1 < m := of_decide_eq_true hc
      exact hstep 2 _ (fun i c hi => gemv_small_rows2_padded A P hP vs n L m n hL hlL
        aa bb ha hb i hi c) i c hI (by omega)
  obtain ⟨hI2, hex⟩ := h2
  have hex' : ¬ s2.1 + 1 < m := of_decide_eq_false hex
  by_cases hlt : s2.1 < m
  · rw [if_pos hlt]
    have h1 := hstep 1 _ (fun i c hi => gemv_small_row1_padded A P hP vs n L m n hL hlL
      aa bb ha hb i hi c) s2.1 s2.2 hI2 (by omega)
    exact ⟨fun x hx => h1.2.1 x (by omega), fun x hx => h1.2.2 x (by omega)⟩
  · rw [if_neg hlt]
    exact ⟨fun x hx => hI2.2.1 x (by omega), fun x hx => hI2.2.2 x (by omega)⟩

/-- With the remainder loop disabled, every value `gemv_large_kernel` leaves in the
rows below `m` is built from `T()`, the elements `aa[r * n + c]`, `r < m`,
`c < round_up vs n`, and `bb[k]`, `k < round_up vs n`, by the operations of `A`; no
index at or past `m` is stored to. -/
theorem gemv_large_kernel_padded {T : Type} (A : Arith T) (P : T → Prop) (hP : Closed A P)
    (vs : Nat) (hvs : 0 < vs) (m n : Nat)
    (aa bb : Nat → T) (ha : ∀ r c, r < m → c < round_up vs n → P (aa (r * n + c)))
    (hb : ∀ k, k < round_up vs n → P (bb k)) (cc : Buffer T) :
    (∀ x, x < m → P ((gemv_large_kernel A vs true true aa m n bb cc).val x)) ∧
      ∀ x, m ≤ x →
        (gemv_large_kernel A vs true true aa m n bb cc).val x = cc.val x ∧
        (gemv_large_kernel A vs true true aa m n bb cc).stores x = cc.stores x := by
  have hL : vs ∣ round_up vs n := round_up_dvd vs n
  have hlL : n ≤ round_up vs n := le_round_up vs n hvs
  generalize round_up vs n = L at ha hb hL hlL
  unfold gemv_large_kernel
  simp only []
  have e1 : (!true || !true) = false := rfl
  rw [e1]
  have e2 : gemv_last vs false n = n := rfl
  rw [e2]
  let Inv : Nat → Buffer T → Prop := fun i c => i ≤ m ∧ (∀ x, x < i → P (c.val x)) ∧
    ∀ x, i ≤ x → c.val x = cc.val x ∧ c.stores x = cc.stores x
  have hstep : ∀ (R : Nat) (body : Nat → Buffer T → Buffer T),
      (∀ i c, i + R ≤ m → (∀ x, i ≤ x → x < i + R → P ((body i c).val x)) ∧
        ∀ x, ¬ (i ≤ x ∧ x < i + R) →
          (body i c).val x = c.val x ∧ (body i c).stores x = c.stores x) →
      ∀ i c, Inv i c → i + R ≤ m → Inv (i + R) (body i c) := by
    intro R body hB i c hI hi
    obtain ⟨_, hp, hf⟩ := hI
    obtain ⟨hB1, hB2⟩ := hB i c hi
    refine ⟨hi, fun x hx => ?_, fun x hx => ?_⟩
    · by_cases h1 : i ≤ x
      · exact hB1 x h1 hx
      · rw [(hB2 x (fun h => h1 h.1)).1]
        exact hp x (by omega)
    · rw [(hB2 x (fun h => by omega)).1, (hB2 x (fun h => by omega)).2]
      exact hf x (by omega)
  generalize hs8 : forLoop m (fun i => decide (i + 7 < m)) 8 _ 0 cc = s8
  have h8 : Inv s8.1 s8.2 := by
    rw [← hs8]
    refine forLoop_inv Inv _ 8 _ (fun i c hI hc => ?_) m 0 cc
      ⟨Nat.zero_le _, fun x hx => absurd hx (by omega), fun x _ => ⟨rfl, rfl⟩⟩
    have hc' : i + 7 < m := of_decide_eq_true hc
    exact hstep 8 _ (fun i c hi => gemv_large_rows8_padded A P hP vs n L m n hL hlL
      aa bb ha hb i hi c) i c hI (by omega)
  generalize hs2 : forLoop m (fun i => decide (i + 1 < m)) 2 _ s8.1 s8.2 = s2
  have h2 : Inv s2.1 s2.2 ∧ decide (s2.1 + 1 < m) = false := by
    rw [← hs2]
    refine forLoop_spec Inv _ 2 _ m (by norm_num) (fun k hk => ?_) (fun i c hI hc => ?_) m _ _
      (by omega) h8
    · have : k + 1 < m := of_decide_eq_true hk
      omega
    · have hc' : i + 1 < m := of_decide_eq_true hc
      exact hstep 2 _ (fun i c hi => gemv_large_rows2_padded A P hP vs n L m n hL hlL
        aa bb ha hb i hi c) i c hI (by omega)
  obtain ⟨hI2, hex⟩ := h2
  have hex' : ¬ s2.1 + 1 < m := of_decide_eq_false hex
  by_cases hlt : s2.1 < m
  · rw [if_pos hlt]
    have h1 := hstep 1 _ (fun i c hi => gemv_large_row1_padded A P hP vs n L m n hL hlL
      aa bb ha hb i hi c) s2.1 s2.2 hI2 (by omega)
    exact ⟨fun x hx => h1.2.1 x (by omega), fun x hx => h1.2.2 x (by omega)⟩
  · rw [if_neg hlt]
    exact ⟨fun x hx => hI2.2.1 x (by omega), fun x hx => hI2.2.2 x (by omega)⟩

/-- C23: with the remainder loop disabled (`advanced_padding` and `Padded`), for every
`m ≥ 1`, `n` and `vec_size = 2^p`, with `n'` the least multiple of `vec_size` at or
above `n`: when `aa` is an array of exactly `(m - 1) * n + n'` elements and `bb` one of
exactly `n'` elements, whose out-of-bounds reads give a missing value that every
operation propagates, `gemv_small_kernel` and `gemv_large_kernel` leave a present
value in every `cc[i]`, `i < m`: no read of `aa` at or past `(m - 1) * n + n'` and no
read of `bb` at or past `n'` reaches a result; they store to no index of `cc` at or
past `m`; and `(m - 1) * n + n' = m * n + (n' - n)`. -/
theorem gemv_padded_reads_in_bounds {T : Type} (A : Arith T) (p m n : Nat) (hm : 1 ≤ m)
    (aa bb : Nat → T) (cc : Buffer (Option T)) :
    (∀ i, i < m →
      ((gemv_small_kernel (Arith.checked A) (2 ^ p) true true
        (checked_view ((m - 1) * n + round_up (2 ^ p) n) aa) m n
        (checked_view (round_up (2 ^ p) n) bb) cc).val i).isSome = true ∧
      ((gemv_large_kernel (Arith.checked A) (2 ^ p) true true
        (checked_view ((m - 1) * n + round_up (2 ^ p) n) aa) m n
        (checked_view (round_up (2 ^ p) n) bb) cc).val i).isSome = true) ∧
    (∀ x, m ≤ x →
      (gemv_small_kernel (Arith.checked A) (2 ^ p) true true
        (checked_view ((m - 1) * n + round_up (2 ^ p) n) aa) m n
        (checked_view (round_up (2 ^ p) n) bb) cc).stores x = cc.stores x ∧
      (gemv_large_kernel (Arith.checked A) (2 ^ p) true true
        (checked_view ((m - 1) * n + round_up (2 ^ p) n) aa) m n
        (checked_view (round_up (2 ^ p) n) bb) cc).stores x = cc.stores x) ∧
    (2 ^ p ∣ round_up (2 ^ p) n ∧ n ≤ round_up (2 ^ p) n ∧ round_up (2 ^ p) n < n + 2 ^ p ∧
      (m - 1) * n + round_up (2 ^ p) n = m * n + (round_up (2 ^ p) n - n)) := by
  have hvs : 0 < 2 ^ p := Nat.pow_pos (by decide)
  have hle : n ≤ round_up (2 ^ p) n := le_round_up _ _ hvs
  have ha : ∀ r c, r < m → c < round_up (2 ^ p) n →
      (checked_view ((m - 1) * n + round_up (2 ^ p) n) aa (r * n + c)).isSome = true := by
    intro r c hr hc
    have h1 : r * n ≤ (m - 1) * n := Nat.mul_le_mul_right _ (by omega)
    have h2 : r * n + c < (m - 1) * n + round_up (2 ^ p) n := by omega
    simp [checked_view, h2]
  have hb : ∀ k, k < round_up (2 ^ p) n →
      (checked_view (round_up (2 ^ p) n) bb k).isSome = true := by
    intro k hk
    simp [checked_view, hk]
  have hs := gemv_small_kernel_padded (Arith.checked A) _ (checked_closed A) (2 ^ p) hvs
    m n _ _ ha hb cc
  have hl := gemv_large_kernel_padded (Arith.checked A) _ (checked_closed A) (2 ^ p) hvs
    m n _ _ ha hb cc
  refine ⟨fun i hi => ⟨hs.1 i hi, hl.1 i hi⟩, fun x hx => ⟨(hs.2 x hx).2, (hl.2 x hx).2⟩,
    round_up_dvd _ _, hle, round_up_lt _ _ hvs, ?_⟩
  obtain ⟨k, rfl⟩ : ∃ k, m = k + 1 := ⟨m - 1, by omega⟩
  have e : (k + 1) * n = k * n + n := by ring
  rw [Nat.add_sub_cancel, e]
  omega

/-- Witness of C23: row 5 of a 6 x 5 product with 4 lanes (`n' = 8`), and index 6 of
`cc`, which is not stored to. -/
theorem gemv_padded_reads_in_bounds_witness :
    ((gemv_large_kernel (Arith.checked (Arith.exact Int)) (2 ^ 2) true true
        (checked_view ((6 - 1) * 5 + round_up (2 ^ 2) 5) (fun x => (x : Int))) 6 5
        (checked_view (round_up (2 ^ 2) 5) (fun x => (x : Int) + 1))
        ⟨fun _ => none, fun _ => 0⟩).val 5).isSome = true ∧
      (gemv_small_kernel (Arith.checked (Arith.exact Int)) (2 ^ 2) true true
        (checked_view ((6 - 1) * 5 + round_up (2 ^ 2) 5) (fun x => (x : Int))) 6 5
        (checked_view (round_up (2 ^ 2) 5) (fun x => (x : Int) + 1))
        ⟨fun _ => none, fun _ => 0⟩).stores 6 = 0 :=
  ⟨((gemv_padded_reads_in_bounds (Arith.exact Int) 2 6 5 (by decide)
      (fun x => (x : Int)) (fun x => (x : Int) + 1) ⟨fun _ => none, fun _ => 0⟩).1 5
      (by decide)).2,
   ((gemv_padded_reads_in_bounds (Arith.exact Int) 2 6 5 (by decide)
      (fun x => (x : Int)) (fun x => (x : Int) + 1) ⟨fun _ => none, fun _ => 0⟩).2.1 6
      (by decide)).1⟩

/-! ## Accesses within the extents -/

theorem flat_lt (m n r t x : Nat) (hr : r < m) (ht : t < n) (hx : x = r * n + t) :
    x < m * n := by
  rw [hx]
  calc r * n + t < r * n + n := by omega
    _ = (r + 1) * n := by ring
    _ ≤ m * n := Nat.mul_le_mul_right _ hr

theorem flat_le (m n r t x : Nat) (hr : r < m) (ht : t ≤ n) (hx : x = r * n + t) :
    x ≤ m * n := by
  rw [hx]
  calc r * n + t ≤ r * n + n := by omega
    _ = (r + 1) * n := by ring
    _ ≤ m * n := Nat.mul_le_mul_right _ hr

theorem Within.within_refl {T : Type} (c : Buffer T) (B : Nat) (P : T → Prop)
    (h : ∀ x, x < B → P (c.val x)) : Within c B P c :=
  ⟨h, fun _ _ => ⟨rfl, rfl⟩⟩

theorem Within.within_write {T : Type} {c0 c : Buffer T} {B : Nat} {P : T → Prop}
    (h : Within c0 B P c) (x : Nat) (v : T) (hx : x < B) (hv : P v) :
    Within c0 B P (c.write x v) := by
  refine ⟨fun y hy => ?_, fun y hy => ?_⟩
  · rw [write_val]
    split
    · exact hv
    · exact h.1 y hy
  · rw [write_val_ne _ _ _ _ (by omega), write_stores_ne _ _ _ _ (by omega)]
    exact h.2 y hy

theorem Within.within_add_assign {T : Type} {A : Arith T} {c0 c : Buffer T} {B : Nat}
    {P : T → Prop} (h : Within c0 B P c) (hP : Closed A P) (x : Nat) (v : T) (hx : x < B)
    (hv : P v) : Within c0 B P (c.add_assign A x v) :=
  h.within_write x _ hx (hP.2.1 _ _ (h.1 x hx) hv)

theorem Within.within_storeu {T : Type} {c0 c : Buffer T} {B : Nat} {P : T → Prop}
    (h : Within c0 B P c) (idx vs : Nat) (r : Vec T) (hx : idx + vs ≤ B)
    (hr : ∀ l, l < vs → P (r l)) : Within c0 B P (Vec.storeu c idx vs r) := by
  refine ⟨fun y hy => ?_, fun y hy => ?_⟩
  · rw [storeu_val]
    split
    · exact hr _ (by omega)
    · exact h.1 y hy
  · rw [storeu_val, storeu_stores, if_neg (by omega), if_neg (by omega)]
    exact h.2 y hy

theorem Within.within_add_storeu {T : Type} {A : Arith T} {c0 c : Buffer T} {B : Nat}
    {P : T → Prop} (h : Within c0 B P c) (hP : Closed A P) (idx vs : Nat) (r : Vec T)
    (hx : idx + vs ≤ B) (hr : ∀ l, l < vs → P (r l)) :
    Within c0 B P (Vec.add_storeu A c idx vs r) :=
  h.within_storeu idx vs _ hx (fun l hl => hP.2.1 _ _ (hr l hl) (h.1 _ (by omega)))

theorem Within.within_loadu {T : Type} {c0 c : Buffer T} {B : Nat} {P : T → Prop}
    (h : Within c0 B P c) (idx vs : Nat) (hx : idx + vs ≤ B) :
    ∀ l, l < vs → P (c.loadu idx l) :=
  fun l hl => h.1 _ (by omega)

theorem Within.within_forLoop {T : Type} {c0 : Buffer T} {B : Nat} {P : T → Prop}
    (cond : Nat → Bool) (step : Nat) (body : Nat → Buffer T → Buffer T)
    (hb : ∀ i c, Within c0 B P c → cond i = true → Within c0 B P (body i c))
    (fuel i : Nat) (c : Buffer T) (h : Within c0 B P c) :
    Within c0 B P (forLoop fuel cond step body i c).2 :=
  forLoop_inv (fun _ c => Within c0 B P c) cond step body hb fuel i c h

/-! ## Accesses of the GEVM and GEMM kernels -/

theorem gevm_small_cols8_within {T : Type} (A : Arith T) (P : T → Prop) (hP : Closed A P)
    (vs : Nat) (aa bb : Nat → T) (m n j : Nat)
    (hj : j + vs * 8 ≤ n) (ha : ∀ k, k < m → P (aa k)) (hb : ∀ x, x < m * n → P (bb x))
    (c0 c : Buffer T) (h : Within c0 (n) P c) :
    Within c0 (n) P (gevm_small_cols8 A vs aa m n bb j c) := by
  obtain ⟨hz, hadd, hmul, hfm⟩ := id hP
  unfold gevm_small_cols8
  simp only []
  generalize hv : forLoop m (fun k => decide (k < m)) 1 _ _ _ = v
  have hV : (∀ l, l < vs → P (v.2.1 l)) ∧ (∀ l, l < vs → P (v.2.2.1 l)) ∧ (∀ l, l < vs → P (v.2.2.2.1 l)) ∧ (∀ l, l < vs → P (v.2.2.2.2.1 l)) ∧ (∀ l, l < vs → P (v.2.2.2.2.2.1 l)) ∧ (∀ l, l < vs → P (v.2.2.2.2.2.2.1 l)) ∧ (∀ l, l < vs → P (v.2.2.2.2.2.2.2.1 l)) ∧ (∀ l, l < vs → P (v.2.2.2.2.2.2.2.2 l)) := by
    rw [← hv]
    refine forLoop_inv (fun (_ : Nat) (r : Vec T × Vec T × Vec T × Vec T × Vec T × Vec T × Vec T × Vec T) =>
        (∀ l, l < vs → P (r.1 l)) ∧ (∀ l, l < vs → P (r.2.1 l)) ∧ (∀ l, l < vs → P (r.2.2.1 l)) ∧ (∀ l, l < vs → P (r.2.2.2.1 l)) ∧ (∀ l, l < vs → P (r.2.2.2.2.1 l)) ∧ (∀ l, l < vs → P (r.2.2.2.2.2.1 l)) ∧ (∀ l, l < vs → P (r.2.2.2.2.2.2.1 l)) ∧ (∀ l, l < vs → P (r.2.2.2.2.2.2.2 l)))
      _ 1 _ ?_ _ _ _ ?_
    · rintro k ⟨r1, r2, r3, r4, r5, r6, r7, r8⟩ ⟨h1, h2, h3, h4, h5, h6, h7, h8⟩ hc
      have hk : k < m := of_decide_eq_true hc
      refine ⟨?_, ?_, ?_, ?_, ?_, ?_, ?_, ?_⟩
      · intro l hl
        exact hfm _ _ _ (ha k (by omega))
          (hb _ (flat_lt m n k (j + 0 * vs + l) _ (by omega) (by omega) (by omega))) (h1 l hl)
      · intro l hl
        exact hfm _ _ _ (ha k (by omega))
          (hb _ (flat_lt m n k (j + 1 * vs + l) _ (by omega) (by omega) (by omega))) (h2 l hl)
      · intro l hl
        exact hfm _ _ _ (ha k (by omega))
          (hb _ (flat_lt m n k (j + 2 * vs + l) _ (by omega) (by omega) (by omega))) (h3 l hl)
      · intro l hl
        exact hfm _ _ _ (ha k (by omega))
          (hb _ (flat_lt m n k (j + 3 * vs + l) _ (by omega) (by omega) (by omega))) (h4 l hl)
      · intro l hl
        exact hfm _ _ _ (ha k (by omega))
          (hb _ (flat_lt m n k (j + 4 * vs + l) _ (by omega) (by omega) (by omega))) (h5 l hl)
      · intro l hl
        exact hfm _ _ _ (ha k (by omega))
          (hb _ (flat_lt m n k (j + 5 * vs + l) _ (by omega) (by omega) (by omega))) (h6 l hl)
      · intro l hl
        exact hfm _ _ _ (ha k (by omega))
          (hb _ (flat_lt m n k (j + 6 * vs + l) _ (by omega) (by omega) (by omega))) (h7 l hl)
      · intro l hl
        exact hfm _ _ _ (ha k (by omega))
          (hb _ (flat_lt m n k (j + 7 * vs + l) _ (by omega) (by omega) (by omega))) (h8 l hl)
    · refine ⟨?_, ?_, ?_, ?_, ?_, ?_, ?_, ?_⟩
      · exact fun _ _ => hz
      · exact fun _ _ => hz
      · exact fun _ _ => hz
      · exact fun _ _ => hz
      · exact fun _ _ => hz
      · exact fun _ _ => hz
      · exact fun _ _ => hz
      · exact fun _ _ => hz
  obtain ⟨h1, h2, h3, h4, h5, h6, h7, h8⟩ := hV
  have w1 := h.within_storeu (j + 0 * vs) vs v.2.1 (by omega) h1
  have w2 := w1.within_storeu (j + 1 * vs) vs v.2.2.1 (by omega) h2
  have w3 := w2.within_storeu (j + 2 * vs) vs v.2.2.2.1 (by omega) h3
  have w4 := w3.within_storeu (j + 3 * vs) vs v.2.2.2.2.1 (by omega) h4
  have w5 := w4.within_storeu (j + 4 * vs) vs v.2.2.2.2.2.1 (by omega) h5
  have w6 := w5.within_storeu (j + 5 * vs) vs v.2.2.2.2.2.2.1 (by omega) h6
  have w7 := w6.within_storeu (j + 6 * vs) vs v.2.2.2.2.2.2.2.1 (by omega) h7
  have w8 := w7.within_storeu (j + 7 * vs) vs v.2.2.2.2.2.2.2.2 (by omega) h8
  exact w8

theorem gevm_small_cols4_within {T : Type} (A : Arith T) (P : T → Prop) (hP : Closed A P)
    (vs : Nat) (aa bb : Nat → T) (m n j : Nat)
    (hj : j + vs * 4 ≤ n) (ha : ∀ k, k < m → P (aa k)) (hb : ∀ x, x < m * n → P (bb x))
    (c0 c : Buffer T) (h : Within c0 (n) P c) :
    Within c0 (n) P (gevm_small_cols4 A vs aa m n bb j c) := by
  obtain ⟨hz, hadd, hmul, hfm⟩ := id hP
  unfold gevm_small_cols4
  simp only []
  generalize hv : forLoop m (fun k => decide (k < m)) 1 _ _ _ = v
  have hV : (∀ l, l < vs → P (v.2.1 l)) ∧ (∀ l, l < vs → P (v.2.2.1 l)) ∧ (∀ l, l < vs → P (v.2.2.2.1 l)) ∧ (∀ l, l < vs → P (v.2.2.2.2 l)) := by
    rw [← hv]
    refine forLoop_inv (fun (_ : Nat) (r : Vec T × Vec T × Vec T × Vec T) =>
        (∀ l, l < vs → P (r.1 l)) ∧ (∀ l, l < vs → P (r.2.1 l)) ∧ (∀ l, l < vs → P (r.2.2.1 l)) ∧ (∀ l, l < vs → P (r.2.2.2 l)))
      _ 1 _ ?_ _ _ _ ?_
    · rintro k ⟨r1, r2, r3, r4⟩ ⟨h1, h2, h3, h4⟩ hc
      have hk : k < m := of_decide_eq_true hc
      refine ⟨?_, ?_, ?_, ?_⟩
      · intro l hl
        exact hfm _ _ _ (ha k (by omega))
          (hb _ (flat_lt m n k (j + 0 * vs + l) _ (by omega) (by omega) (by omega))) (h1 l hl)
      · intro l hl
        exact hfm _ _ _ (ha k (by omega))
          (hb _ (flat_lt m n k (j + 1 * vs + l) _ (by omega) (by omega) (by omega))) (h2 l hl)
      · intro l hl
        exact hfm _ _ _ (ha k (by omega))
          (hb _ (flat_lt m n k (j + 2 * vs + l) _ (by omega) (by omega) (by omega))) (h3 l hl)
      · intro l hl
        exact hfm _ _ _ (ha k (by omega))
          (hb _ (flat_lt m n k (j + 3 * vs + l) _ (by omega) (by omega) (by omega))) (h4 l hl)
    · refine ⟨?_, ?_, ?_, ?_⟩
      · exact fun _ _ => hz
      · exact fun _ _ => hz
      · exact fun _ _ => hz
      · exact fun _ _ => hz
  obtain ⟨h1, h2, h3, h4⟩ := hV
  have w1 := h.within_storeu (j + 0 * vs) vs v.2.1 (by omega) h1
  have w2 := w1.within_storeu (j + 1 * vs) vs v.2.2.1 (by omega) h2
  have w3 := w2.within_storeu (j + 2 * vs) vs v.2.2.2.1 (by omega) h3
  have w4 := w3.within_storeu (j + 3 * vs) vs v.2.2.2.2 (by omega) h4
  exact w4

theorem gevm_small_cols1_within {T : Type} (A : Arith T) (P : T → Prop) (hP : Closed A P)
    (vs : Nat) (aa bb : Nat → T) (m n j : Nat)
    (hj : j + vs * 1 ≤ n) (ha : ∀ k, k < m → P (aa k)) (hb : ∀ x, x < m * n → P (bb x))
    (c0 c : Buffer T) (h : Within c0 (n) P c) :
    Within c0 (n) P (gevm_small_cols1 A vs aa m n bb j c) := by
  obtain ⟨hz, hadd, hmul, hfm⟩ := id hP
  unfold gevm_small_cols1
  simp only []
  generalize hv : forLoop m (fun k => decide (k < m)) 1 _ _ _ = v
  have hV : (∀ l, l < vs → P (v.2 l)) := by
    rw [← hv]
    refine forLoop_inv (fun (_ : Nat) (r : Vec T) =>
        (∀ l, l < vs → P (r l)))
      _ 1 _ ?_ _ _ _ ?_
    · rintro k r1 h1 hc
      have hk : k < m := of_decide_eq_true hc
      refine ?_
      · intro l hl
        exact hfm _ _ _ (ha k (by omega))
          (hb _ (flat_lt m n k (j + 0 * vs + l) _ (by omega) (by omega) (by omega))) (h1 l hl)
    · refine ?_
      · exact fun _ _ => hz
  have h1 := hV
  have w1 := h.within_storeu (j + 0 * vs) vs v.2 (by omega) h1
  exact w1

theorem gevm_small_col_within {T : Type} (A : Arith T) (P : T → Prop) (hP : Closed A P)
    (aa bb : Nat → T) (m n j : Nat)
    (hj : j < n) (ha : ∀ k, k < m → P (aa k)) (hb : ∀ x, x < m * n → P (bb x))
    (c0 c : Buffer T) (h : Within c0 n P c) :
    Within c0 n P (gevm_small_col A aa m n bb j c) := by
  obtain ⟨hz, hadd, hmul, hfm⟩ := id hP
  unfold gevm_small_col
  simp only []
  refine h.within_write j _ hj ?_
  refine forLoop_inv (fun (_ : Nat) (r : T) => P r) _ 1 _ ?_ _ _ _ hz
  intro k r hr hc
  have hk : k < m := of_decide_eq_true hc
  exact hadd _ _ hr (hmul _ _ (ha k hk) (hb _ (flat_lt m n k j _ hk hj rfl)))

theorem gevm_large_cols8_within {T : Type} (A : Arith T) (P : T → Prop) (hP : Closed A P)
    (vs : Nat) (aa bb : Nat → T) (m n block_k m_end j : Nat)
    (hm : m_end ≤ m) (hj : j + vs * 8 ≤ n) (ha : ∀ k, k < m → P (aa k))
    (hb : ∀ x, x < m * n → P (bb x))
    (c0 c : Buffer T) (h : Within c0 (n) P c) :
    Within c0 (n) P (gevm_large_cols8 A vs aa n bb block_k m_end j c) := by
  obtain ⟨hz, hadd, hmul, hfm⟩ := id hP
  unfold gevm_large_cols8
  simp only []
  generalize hv : forLoop m_end (fun k => decide (k < m_end)) 1 _ _ _ = v
  have hV : (∀ l, l < vs → P (v.2.1 l)) ∧ (∀ l, l < vs → P (v.2.2.1 l)) ∧ (∀ l, l < vs → P (v.2.2.2.1 l)) ∧ (∀ l, l < vs → P (v.2.2.2.2.1 l)) ∧ (∀ l, l < vs → P (v.2.2.2.2.2.1 l)) ∧ (∀ l, l < vs → P (v.2.2.2.2.2.2.1 l)) ∧ (∀ l, l < vs → P (v.2.2.2.2.2.2.2.1 l)) ∧ (∀ l, l < vs → P (v.2.2.2.2.2.2.2.2 l)) := by
    rw [← hv]
    refine forLoop_inv (fun (_ : Nat) (r : Vec T × Vec T × Vec T × Vec T × Vec T × Vec T × Vec T × Vec T) =>
        (∀ l, l < vs → P (r.1 l)) ∧ (∀ l, l < vs → P (r.2.1 l)) ∧ (∀ l, l < vs → P (r.2.2.1 l)) ∧ (∀ l, l < vs → P (r.2.2.2.1 l)) ∧ (∀ l, l < vs → P (r.2.2.2.2.1 l)) ∧ (∀ l, l < vs → P (r.2.2.2.2.2.1 l)) ∧ (∀ l, l < vs → P (r.2.2.2.2.2.2.1 l)) ∧ (∀ l, l < vs → P (r.2.2.2.2.2.2.2 l)))
      _ 1 _ ?_ _ _ _ ?_
    · rintro k ⟨r1, r2, r3, r4, r5, r6, r7, r8⟩ ⟨h1, h2, h3, h4, h5, h6, h7, h8⟩ hc
      have hk : k < m_end := of_decide_eq_true hc
      refine ⟨?_, ?_, ?_, ?_, ?_, ?_, ?_, ?_⟩
      · intro l hl
        exact hfm _ _ _ (ha k (by omega))
          (hb _ (flat_lt m n k (j + 0 * vs + l) _ (by omega) (by omega) (by omega))) (h1 l hl)
      · intro l hl
        exact hfm _ _ _ (ha k (by omega))
          (hb _ (flat_lt m n k (j + 1 * vs + l) _ (by omega) (by omega) (by omega))) (h2 l hl)
      · intro l hl
        exact hfm _ _ _ (ha k (by omega))
          (hb _ (flat_lt m n k (j + 2 * vs + l) _ (by omega) (by omega) (by omega))) (h3 l hl)
      · intro l hl
        exact hfm _ _ _ (ha k (by omega))
          (hb _ (flat_lt m n k (j + 3 * vs + l) _ (by omega) (by omega) (by omega))) (h4 l hl)
      · intro l hl
        exact hfm _ _ _ (ha k (by omega))
          (hb _ (flat_lt m n k (j + 4 * vs + l) _ (by omega) (by omega) (by omega))) (h5 l hl)
      · intro l hl
        exact hfm _ _ _ (ha k (by omega))
          (hb _ (flat_lt m n k (j + 5 * vs + l) _ (by omega) (by omega) (by omega))) (h6 l hl)
      · intro l hl
        exact hfm _ _ _ (ha k (by omega))
          (hb _ (flat_lt m n k (j + 6 * vs + l) _ (by omega) (by omega) (by omega))) (h7 l hl)
      · intro l hl
        exact hfm _ _ _ (ha k (by omega))
          (hb _ (flat_lt m n k (j + 7 * vs + l) _ (by omega) (by omega) (by omega))) (h8 l hl)
    · refine ⟨?_, ?_, ?_, ?_, ?_, ?_, ?_, ?_⟩
      · exact fun _ _ => hz
      · exact fun _ _ => hz
      · exact fun _ _ => hz
      · exact fun _ _ => hz
      · exact fun _ _ => hz
      · exact fun _ _ => hz
      · exact fun _ _ => hz
      · exact fun _ _ => hz
  obtain ⟨h1, h2, h3, h4, h5, h6, h7, h8⟩ := hV
  have w1 := h.within_add_storeu hP (j + 0 * vs) vs v.2.1 (by omega) h1
  have w2 := w1.within_add_storeu hP (j + 1 * vs) vs v.2.2.1 (by omega) h2
  have w3 := w2.within_add_storeu hP (j + 2 * vs) vs v.2.2.2.1 (by omega) h3
  have w4 := w3.within_add_storeu hP (j + 3 * vs) vs v.2.2.2.2.1 (by omega) h4
  have w5 := w4.within_add_storeu hP (j + 4 * vs) vs v.2.2.2.2.2.1 (by omega) h5
  have w6 := w5.within_add_storeu hP (j + 5 * vs) vs v.2.2.2.2.2.2.1 (by omega) h6
  have w7 := w6.within_add_storeu hP (j + 6 * vs) vs v.2.2.2.2.2.2.2.1 (by omega) h7
  have w8 := w7.within_add_storeu hP (j + 7 * vs) vs v.2.2.2.2.2.2.2.2 (by omega) h8
  exact w8

theorem gevm_large_cols4_within {T : Type} (A : Arith T) (P : T → Prop) (hP : Closed A P)
    (vs : Nat) (aa bb : Nat → T) (m n block_k m_end j : Nat)
    (hm : m_end ≤ m) (hj : j + vs * 4 ≤ n) (ha : ∀ k, k < m → P (aa k))
    (hb : ∀ x, x < m * n → P (bb x))
    (c0 c : Buffer T) (h : Within c0 (n) P c) :
    Within c0 (n) P (gevm_large_cols4 A vs aa n bb block_k m_end j c) := by
  obtain ⟨hz, hadd, hmul, hfm⟩ := id hP
  unfold gevm_large_cols4
  simp only []
  generalize hv : forLoop m_end (fun k => decide (k < m_end)) 1 _ _ _ = v
  have hV : (∀ l, l < vs → P (v.2.1 l)) ∧ (∀ l, l < vs → P (v.2.2.1 l)) ∧ (∀ l, l < vs → P (v.2.2.2.1 l)) ∧ (∀ l, l < vs → P (v.2.2.2.2 l)) := by
    rw [← hv]
    refine forLoop_inv (fun (_ : Nat) (r : Vec T × Vec T × Vec T × Vec T) =>
        (∀ l, l < vs → P (r.1 l)) ∧ (∀ l, l < vs → P (r.2.1 l)) ∧ (∀ l, l < vs → P (r.2.2.1 l)) ∧ (∀ l, l < vs → P (r.2.2.2 l)))
      _ 1 _ ?_ _ _ _ ?_
    · rintro k ⟨r1, r2, r3, r4⟩ ⟨h1, h2, h3, h4⟩ hc
      have hk : k < m_end := of_decide_eq_true hc
      refine ⟨?_, ?_, ?_, ?_⟩
      · intro l hl
        exact hfm _ _ _ (ha k (by omega))
          (hb _ (flat_lt m n k (j + 0 * vs + l) _ (by omega) (by omega) (by omega))) (h1 l hl)
      · intro l hl
        exact hfm _ _ _ (ha k (by omega))
          (hb _ (flat_lt m n k (j + 1 * vs + l) _ (by omega) (by omega) (by omega))) (h2 l hl)
      · intro l hl
        exact hfm _ _ _ (ha k (by omega))
          (hb _ (flat_lt m n k (j + 2 * vs + l) _ (by omega) (by omega) (by omega))) (h3 l hl)
      · intro l hl
        exact hfm _ _ _ (ha k (by omega))
          (hb _ (flat_lt m n k (j + 3 * vs + l) _ (by omega) (by omega) (by omega))) (h4 l hl)
    · refine ⟨?_, ?_, ?_, ?_⟩
      · exact fun _ _ => hz
      · exact fun _ _ => hz
      · exact fun _ _ => hz
      · exact fun _ _ => hz
  obtain ⟨h1, h2, h3, h4⟩ := hV
  have w1 := h.within_add_storeu hP (j + 0 * vs) vs v.2.1 (by omega) h1
  have w2 := w1.within_add_storeu hP (j + 1 * vs) vs v.2.2.1 (by omega) h2
  have w3 := w2.within_add_storeu hP (j + 2 * vs) vs v.2.2.2.1 (by omega) h3
  have w4 := w3.within_add_storeu hP (j + 3 * vs) vs v.2.2.2.2 (by omega) h4
  exact w4

theorem gevm_large_cols1_within {T : Type} (A : Arith T) (P : T → Prop) (hP : Closed A P)
    (vs : Nat) (aa bb : Nat → T) (m n block_k m_end j : Nat)
    (hm : m_end ≤ m) (hj : j + vs * 1 ≤ n) (ha : ∀ k, k < m → P (aa k))
    (hb : ∀ x, x < m * n → P (bb x))
    (c0 c : Buffer T) (h : Within c0 (n) P c) :
    Within c0 (n) P (gevm_large_cols1 A vs aa n bb block_k m_end j c) := by
  obtain ⟨hz, hadd, hmul, hfm⟩ := id hP
  unfold gevm_large_cols1
  simp only []
  generalize hv : forLoop m_end (fun k => decide (k < m_end)) 1 _ _ _ = v
  have hV : (∀ l, l < vs → P (v.2 l)) := by
    rw [← hv]
    refine forLoop_inv (fun (_ : Nat) (r : Vec T) =>
        (∀ l, l < vs → P (r l)))
      _ 1 _ ?_ _ _ _ ?_
    · rintro k r1 h1 hc
      have hk : k < m_end := of_decide_eq_true hc
      refine ?_
      · intro l hl
        exact hfm _ _ _ (ha k (by omega))
          (hb _ (flat_lt m n k (j + 0 * vs + l) _ (by omega) (by omega) (by omega))) (h1 l hl)
    · refine ?_
      · exact fun _ _ => hz
  have h1 := hV
  have w1 := h.within_add_storeu hP (j + 0 * vs) vs v.2 (by omega) h1
  exact w1

theorem gevm_large_col_within {T : Type} (A : Arith T) (P : T → Prop) (hP : Closed A P)
    (aa bb : Nat → T) (m n block_k m_end j : Nat)
    (hm : m_end ≤ m) (hj : j < n) (ha : ∀ k, k < m → P (aa k)) (hb : ∀ x, x < m * n → P (bb x))
    (c0 c : Buffer T) (h : Within c0 n P c) :
    Within c0 n P (gevm_large_col A aa n bb block_k m_end j c) := by
  obtain ⟨hz, hadd, hmul, hfm⟩ := id hP
  unfold gevm_large_col
  simp only []
  refine h.within_add_assign hP j _ hj ?_
  refine forLoop_inv (fun (_ : Nat) (r : T) => P r) _ 1 _ ?_ _ _ _ hz
  intro k r hr hc
  have hk : k < m_end := of_decide_eq_true hc
  exact hadd _ _ hr (hmul _ _ (ha k (by omega)) (hb _ (flat_lt m n k j _ (by omega) hj rfl)))

theorem gemm_large_c4_r2_within {T : Type} (A : Arith T) (P : T → Prop) (hP : Closed A P)
    (vs : Nat) (a b : Nat → T) (M N K block_k k_end j i : Nat)
    (hk : k_end ≤ K) (hi : i + 2 ≤ M) (hj : j + vs * 4 ≤ N)
    (ha : ∀ x, x < M * K → P (a x)) (hb : ∀ x, x < K * N → P (b x))
    (c0 c : Buffer T) (h : Within c0 (M * N) P c) :
    Within c0 (M * N) P (gemm_large_c4_r2 A vs a b N K block_k k_end j i c) := by
  obtain ⟨hz, hadd, hmul, hfm⟩ := id hP
  unfold gemm_large_c4_r2
  simp only []
  generalize hv : forLoop k_end (fun k => decide (k < k_end)) 1 _ _ _ = v
  have hV : (∀ l, l < vs → P (v.2.1 l)) ∧ (∀ l, l < vs → P (v.2.2.1 l)) ∧ (∀ l, l < vs → P (v.2.2.2.1 l)) ∧ (∀ l, l < vs → P (v.2.2.2.2.1 l)) ∧ (∀ l, l < vs → P (v.2.2.2.2.2.1 l)) ∧ (∀ l, l < vs → P (v.2.2.2.2.2.2.1 l)) ∧ (∀ l, l < vs → P (v.2.2.2.2.2.2.2.1 l)) ∧ (∀ l, l < vs → P (v.2.2.2.2.2.2.2.2 l)) := by
    rw [← hv]
    refine forLoop_inv (fun (_ : Nat) (r : Vec T × Vec T × Vec T × Vec T × Vec T × Vec T × Vec T × Vec T) =>
        (∀ l, l < vs → P (r.1 l)) ∧ (∀ l, l < vs → P (r.2.1 l)) ∧ (∀ l, l < vs → P (r.2.2.1 l)) ∧ (∀ l, l < vs → P (r.2.2.2.1 l)) ∧ (∀ l, l < vs → P (r.2.2.2.2.1 l)) ∧ (∀ l, l < vs → P (r.2.2.2.2.2.1 l)) ∧ (∀ l, l < vs → P (r.2.2.2.2.2.2.1 l)) ∧ (∀ l, l < vs → P (r.2.2.2.2.2.2.2 l)))
      _ 1 _ ?_ _ _ _ ?_
    · rintro k ⟨r1, r2, r3, r4, r5, r6, r7, r8⟩ ⟨h1, h2, h3, h4, h5, h6, h7, h8⟩ hc
      have hk : k < k_end := of_decide_eq_true hc
      refine ⟨?_, ?_, ?_, ?_, ?_, ?_, ?_, ?_⟩
      · intro l hl
        exact hfm _ _ _ (ha _ (flat_lt M K (i + 0) k _ (by omega) (by omega) rfl))
          (hb _ (flat_lt K N k (j + l) _ (by omega) (by omega) (by omega))) (h1 l hl)
      · intro l hl
        exact hfm _ _ _ (ha _ (flat_lt M K (i + 0) k _ (by omega) (by omega) rfl))
          (hb _ (flat_lt K N k ((j + vs * 1) + l) _ (by omega) (by omega) (by omega))) (h2 l hl)
      · intro l hl
        exact hfm _ _ _ (ha _ (flat_lt M K (i + 0) k _ (by omega) (by omega) rfl))
          (hb _ (flat_lt K N k ((j + vs * 2) + l) _ (by omega) (by omega) (by omega))) (h3 l hl)
      · intro l hl
        exact hfm _ _ _ (ha _ (flat_lt M K (i + 0) k _ (by omega) (by omega) rfl))
          (hb _ (flat_lt K N k ((j + vs * 3) + l) _ (by omega) (by omega) (by omega))) (h4 l hl)
      · intro l hl
        exact hfm _ _ _ (ha _ (flat_lt M K (i + 1) k _ (by omega) (by omega) rfl))
          (hb _ (flat_lt K N k (j + l) _ (by omega) (by omega) (by omega))) (h5 l hl)
      · intro l hl
        exact hfm _ _ _ (ha _ (flat_lt M K (i + 1) k _ (by omega) (by omega) rfl))
          (hb _ (flat_lt K N k ((j + vs * 1) + l) _ (by omega) (by omega) (by omega))) (h6 l hl)
      · intro l hl
        exact hfm _ _ _ (ha _ (flat_lt M K (i + 1) k _ (by omega) (by omega) rfl))
          (hb _ (flat_lt K N k ((j + vs * 2) + l) _ (by omega) (by omega) (by omega))) (h7 l hl)
      · intro l hl
        exact hfm _ _ _ (ha _ (flat_lt M K (i + 1) k _ (by omega) (by omega) rfl))
          (hb _ (flat_lt K N k ((j + vs * 3) + l) _ (by omega) (by omega) (by omega))) (h8 l hl)
    · refine ⟨?_, ?_, ?_, ?_, ?_, ?_, ?_, ?_⟩
      · exact h.within_loadu _ vs (flat_le M N (i + 0) (j + vs) _ (by omega) (by omega) (by omega))
      · exact h.within_loadu _ vs (flat_le M N (i + 0) ((j + vs * 1) + vs) _ (by omega) (by omega) (by omega))
      · exact h.within_loadu _ vs (flat_le M N (i + 0) ((j + vs * 2) + vs) _ (by omega) (by omega) (by omega))
      · exact h.within_loadu _ vs (flat_le M N (i + 0) ((j + vs * 3) + vs) _ (by omega) (by omega) (by omega))
      · exact h.within_loadu _ vs (flat_le M N (i + 1) (j + vs) _ (by omega) (by omega) (by omega))
      · exact h.within_loadu _ vs (flat_le M N (i + 1) ((j + vs * 1) + vs) _ (by omega) (by omega) (by omega))
      · exact h.within_loadu _ vs (flat_le M N (i + 1) ((j + vs * 2) + vs) _ (by omega) (by omega) (by omega))
      · exact h.within_loadu _ vs (flat_le M N (i + 1) ((j + vs * 3) + vs) _ (by omega) (by omega) (by omega))
  obtain ⟨h1, h2, h3, h4, h5, h6, h7, h8⟩ := hV
  have w1 := h.within_storeu ((i + 0) * N + j) vs v.2.1
    (flat_le M N (i + 0) (j + vs) _ (by omega) (by omega) (by omega)) h1
  have w2 := w1.within_storeu ((i + 0) * N + (j + vs * 1)) vs v.2.2.1
    (flat_le M N (i + 0) ((j + vs * 1) + vs) _ (by omega) (by omega) (by omega)) h2
  have w3 := w2.within_storeu ((i + 0) * N + (j + vs * 2)) vs v.2.2.2.1
    (flat_le M N (i + 0) ((j + vs * 2) + vs) _ (by omega) (by omega) (by omega)) h3
  have w4 := w3.within_storeu ((i + 0) * N + (j + vs * 3)) vs v.2.2.2.2.1
    (flat_le M N (i + 0) ((j + vs * 3) + vs) _ (by omega) (by omega) (by omega)) h4
  have w5 := w4.within_storeu ((i + 1) * N + j) vs v.2.2.2.2.2.1
    (flat_le M N (i + 1) (j + vs) _ (by omega) (by omega) (by omega)) h5
  have w6 := w5.within_storeu ((i + 1) * N + (j + vs * 1)) vs v.2.2.2.2.2.2.1
    (flat_le M N (i + 1) ((j + vs * 1) + vs) _ (by omega) (by omega) (by omega)) h6
  have w7 := w6.within_storeu ((i + 1) * N + (j + vs * 2)) vs v.2.2.2.2.2.2.2.1
    (flat_le M N (i + 1) ((j + vs * 2) + vs) _ (by omega) (by omega) (by omega)) h7
  have w8 := w7.within_storeu ((i + 1) * N + (j + vs * 3)) vs v.2.2.2.2.2.2.2.2
    (flat_le M N (i + 1) ((j + vs * 3) + vs) _ (by omega) (by omega) (by omega)) h8
  exact w8

theorem gemm_large_c4_r1_within {T : Type} (A : Arith T) (P : T → Prop) (hP : Closed A P)
    (vs : Nat) (a b : Nat → T) (M N K block_k k_end j i : Nat)
    (hk : k_end ≤ K) (hi : i + 1 ≤ M) (hj : j + vs * 4 ≤ N)
    (ha : ∀ x, x < M * K → P (a x)) (hb : ∀ x, x < K * N → P (b x))
    (c0 c : Buffer T) (h : Within c0 (M * N) P c) :
    Within c0 (M * N) P (gemm_large_c4_r1 A vs a b N K block_k k_end j i c) := by
  obtain ⟨hz, hadd, hmul, hfm⟩ := id hP
  unfold gemm_large_c4_r1
  simp only []
  generalize hv : forLoop k_end (fun k => decide (k < k_end)) 1 _ _ _ = v
  have hV : (∀ l, l < vs → P (v.2.1 l)) ∧ (∀ l, l < vs → P (v.2.2.1 l)) ∧ (∀ l, l < vs → P (v.2.2.2.1 l)) ∧ (∀ l, l < vs → P (v.2.2.2.2 l)) := by
    rw [← hv]
    refine forLoop_inv (fun (_ : Nat) (r : Vec T × Vec T × Vec T × Vec T) =>
        (∀ l, l < vs → P (r.1 l)) ∧ (∀ l, l < vs → P (r.2.1 l)) ∧ (∀ l, l < vs → P (r.2.2.1 l)) ∧ (∀ l, l < vs → P (r.2.2.2 l)))
      _ 1 _ ?_ _ _ _ ?_
    · rintro k ⟨r1, r2, r3, r4⟩ ⟨h1, h2, h3, h4⟩ hc
      have hk : k < k_end := of_decide_eq_true hc
      refine ⟨?_, ?_, ?_, ?_⟩
      · intro l hl
        exact hfm _ _ _ (ha _ (flat_lt M K (i + 0) k _ (by omega) (by omega) rfl))
          (hb _ (flat_lt K N k (j + l) _ (by omega) (by omega) (by omega))) (h1 l hl)
      · intro l hl
        exact hfm _ _ _ (ha _ (flat_lt M K (i + 0) k _ (by omega) (by omega) rfl))
          (hb _ (flat_lt K N k ((j + vs * 1) + l) _ (by omega) (by omega) (by omega))) (h2 l hl)
      · intro l hl
        exact hfm _ _ _ (ha _ (flat_lt M K (i + 0) k _ (by omega) (by omega) rfl))
          (hb _ (flat_lt K N k ((j + vs * 2) + l) _ (by omega) (by omega) (by omega))) (h3 l hl)
      · intro l hl
        exact hfm _ _ _ (ha _ (flat_lt M K (i + 0) k _ (by omega) (by omega) rfl))
          (hb _ (flat_lt K N k ((j + vs * 3) + l) _ (by omega) (by omega) (by omega))) (h4 l hl)
    · refine ⟨?_, ?_, ?_, ?_⟩
      · exact h.within_loadu _ vs (flat_le M N (i + 0) (j + vs) _ (by omega) (by omega) (by omega))
      · exact h.within_loadu _ vs (flat_le M N (i + 0) ((j + vs * 1) + vs) _ (by omega) (by omega) (by omega))
      · exact h.within_loadu _ vs (flat_le M N (i + 0) ((j + vs * 2) + vs) _ (by omega) (by omega) (by omega))
      · exact h.within_loadu _ vs (flat_le M N (i + 0) ((j + vs * 3) + vs) _ (by omega) (by omega) (by omega))
  obtain ⟨h1, h2, h3, h4⟩ := hV
  have w1 := h.within_storeu ((i + 0) * N + j) vs v.2.1
    (flat_le M N (i + 0) (j + vs) _ (by omega) (by omega) (by omega)) h1
  have w2 := w1.within_storeu ((i + 0) * N + (j + vs * 1)) vs v.2.2.1
    (flat_le M N (i + 0) ((j + vs * 1) + vs) _ (by omega) (by omega) (by omega)) h2
  have w3 := w2.within_storeu ((i + 0) * N + (j + vs * 2)) vs v.2.2.2.1
    (flat_le M N (i + 0) ((j + vs * 2) + vs) _ (by omega) (by omega) (by omega)) h3
  have w4 := w3.within_storeu ((i + 0) * N + (j + vs * 3)) vs v.2.2.2.2
    (flat_le M N (i + 0) ((j + vs * 3) + vs) _ (by omega) (by omega) (by omega)) h4
  exact w4

theorem gemm_large_c2_r4_within {T : Type} (A : Arith T) (P : T → Prop) (hP : Closed A P)
    (vs : Nat) (a b : Nat → T) (M N K block_k k_end j i : Nat)
    (hk : k_end ≤ K) (hi : i + 4 ≤ M) (hj : j + vs * 2 ≤ N)
    (ha : ∀ x, x < M * K → P (a x)) (hb : ∀ x, x < K * N → P (b x))
    (c0 c : Buffer T) (h : Within c0 (M * N) P c) :
    Within c0 (M * N) P (gemm_large_c2_r4 A vs a b N K block_k k_end j i c) := by
  obtain ⟨hz, hadd, hmul, hfm⟩ := id hP
  unfold gemm_large_c2_r4
  simp only []
  generalize hv : forLoop k_end (fun k => decide (k < k_end)) 1 _ _ _ = v
  have hV : (∀ l, l < vs → P (v.2.1 l)) ∧ (∀ l, l < vs → P (v.2.2.1 l)) ∧ (∀ l, l < vs → P (v.2.2.2.1 l)) ∧ (∀ l, l < vs → P (v.2.2.2.2.1 l)) ∧ (∀ l, l < vs → P (v.2.2.2.2.2.1 l)) ∧ (∀ l, l < vs → P (v.2.2.2.2.2.2.1 l)) ∧ (∀ l, l < vs → P (v.2.2.2.2.2.2.2.1 l)) ∧ (∀ l, l < vs → P (v.2.2.2.2.2.2.2.2 l)) := by
    rw [← hv]
    refine forLoop_inv (fun (_ : Nat) (r : Vec T × Vec T × Vec T × Vec T × Vec T × Vec T × Vec T × Vec T) =>
        (∀ l, l < vs → P (r.1 l)) ∧ (∀ l, l < vs → P (r.2.1 l)) ∧ (∀ l, l < vs → P (r.2.2.1 l)) ∧ (∀ l, l < vs → P (r.2.2.2.1 l)) ∧ (∀ l, l < vs → P (r.2.2.2.2.1 l)) ∧ (∀ l, l < vs → P (r.2.2.2.2.2.1 l)) ∧ (∀ l, l < vs → P (r.2.2.2.2.2.2.1 l)) ∧ (∀ l, l < vs → P (r.2.2.2.2.2.2.2 l)))
      _ 1 _ ?_ _ _ _ ?_
    · rintro k ⟨r1, r2, r3, r4, r5, r6, r7, r8⟩ ⟨h1, h2, h3, h4, h5, h6, h7, h8⟩ hc
      have hk : k < k_end := of_decide_eq_true hc
      refine ⟨?_, ?_, ?_, ?_, ?_, ?_, ?_, ?_⟩
      · intro l hl
        exact hfm _ _ _ (ha _ (flat_lt M K (i + 0) k _ (by omega) (by omega) rfl))
          (hb _ (flat_lt K N k (j + l) _ (by omega) (by omega) (by omega))) (h1 l hl)
      · intro l hl
        exact hfm _ _ _ (ha _ (flat_lt M K (i + 0) k _ (by omega) (by omega) rfl))
          (hb _ (flat_lt K N k ((j + vs) + l) _ (by omega) (by omega) (by omega))) (h2 l hl)
      · intro l hl
        exact hfm _ _ _ (ha _ (flat_lt M K (i + 1) k _ (by omega) (by omega) rfl))
          (hb _ (flat_lt K N k (j + l) _ (by omega) (by omega) (by omega))) (h3 l hl)
      · intro l hl
        exact hfm _ _ _ (ha _ (flat_lt M K (i + 1) k _ (by omega) (by omega) rfl))
          (hb _ (flat_lt K N k ((j + vs) + l) _ (by omega) (by omega) (by omega))) (h4 l hl)
      · intro l hl
        exact hfm _ _ _ (ha _ (flat_lt M K (i + 2) k _ (by omega) (by omega) rfl))
          (hb _ (flat_lt K N k (j + l) _ (by omega) (by omega) (by omega))) (h5 l hl)
      · intro l hl
        exact hfm _ _ _ (ha _ (flat_lt M K (i + 2) k _ (by omega) (by omega) rfl))
          (hb _ (flat_lt K N k ((j + vs) + l) _ (by omega) (by omega) (by omega))) (h6 l hl)
      · intro l hl
        exact hfm _ _ _ (ha _ (flat_lt M K (i + 3) k _ (by omega) (by omega) rfl))
          (hb _ (flat_lt K N k (j + l) _ (by omega) (by omega) (by omega))) (h7 l hl)
      · intro l hl
        exact hfm _ _ _ (ha _ (flat_lt M K (i + 3) k _ (by omega) (by omega) rfl))
          (hb _ (flat_lt K N k ((j + vs) + l) _ (by omega) (by omega) (by omega))) (h8 l hl)
    · refine ⟨?_, ?_, ?_, ?_, ?_, ?_, ?_, ?_⟩
      · exact h.within_loadu _ vs (flat_le M N (i + 0) (j + vs) _ (by omega) (by omega) (by omega))
      · exact h.within_loadu _ vs (flat_le M N (i + 0) ((j + vs) + vs) _ (by omega) (by omega) (by omega))
      · exact h.within_loadu _ vs (flat_le M N (i + 1) (j + vs) _ (by omega) (by omega) (by omega))
      · exact h.within_loadu _ vs (flat_le M N (i + 1) ((j + vs) + vs) _ (by omega) (by omega) (by omega))
      · exact h.within_loadu _ vs (flat_le M N (i + 2) (j + vs) _ (by omega) (by omega) (by omega))
      · exact h.within_loadu _ vs (flat_le M N (i + 2) ((j + vs) + vs) _ (by omega) (by omega) (by omega))
      · exact h.within_loadu _ vs (flat_le M N (i + 3) (j + vs) _ (by omega) (by omega) (by omega))
      · exact h.within_loadu _ vs (flat_le M N (i + 3) ((j + vs) + vs) _ (by omega) (by omega) (by omega))
  obtain ⟨h1, h2, h3, h4, h5, h6, h7, h8⟩ := hV
  have w1 := h.within_storeu ((i + 0) * N + j) vs v.2.1
    (flat_le M N (i + 0) (j + vs) _ (by omega) (by omega) (by omega)) h1
  have w2 := w1.within_storeu ((i + 0) * N + (j + vs)) vs v.2.2.1
    (flat_le M N (i + 0) ((j + vs) + vs) _ (by omega) (by omega) (by omega)) h2
  have w3 := w2.within_storeu ((i + 1) * N + j) vs v.2.2.2.1
    (flat_le M N (i + 1) (j + vs) _ (by omega) (by omega) (by omega)) h3
  have w4 := w3.within_storeu ((i + 1) * N + (j + vs)) vs v.2.2.2.2.1
    (flat_le M N (i + 1) ((j + vs) + vs) _ (by omega) (by omega) (by omega)) h4
  have w5 := w4.within_storeu ((i + 2) * N + j) vs v.2.2.2.2.2.1
    (flat_le M N (i + 2) (j + vs) _ (by omega) (by omega) (by omega)) h5
  have w6 := w5.within_storeu ((i + 2) * N + (j + vs)) vs v.2.2.2.2.2.2.1
    (flat_le M N (i + 2) ((j + vs) + vs) _ (by omega) (by omega) (by omega)) h6
  have w7 := w6.within_storeu ((i + 3) * N + j) vs v.2.2.2.2.2.2.2.1
    (flat_le M N (i + 3) (j + vs) _ (by omega) (by omega) (by omega)) h7
  have w8 := w7.within_storeu ((i + 3) * N + (j + vs)) vs v.2.2.2.2.2.2.2.2
    (flat_le M N (i + 3) ((j + vs) + vs) _ (by omega) (by omega) (by omega)) h8
  exact w8

theorem gemm_large_c2_r2_within {T : Type} (A : Arith T) (P : T → Prop) (hP : Closed A P)
    (vs : Nat) (a b : Nat → T) (M N K block_k k_end j i : Nat)
    (hk : k_end ≤ K) (hi : i + 2 ≤ M) (hj : j + vs * 2 ≤ N)
    (ha : ∀ x, x < M * K → P (a x)) (hb : ∀ x, x < K * N → P (b x))
    (c0 c : Buffer T) (h : Within c0 (M * N) P c) :
    Within c0 (M * N) P (gemm_large_c2_r2 A vs a b N K block_k k_end j i c) := by
  obtain ⟨hz, hadd, hmul, hfm⟩ := id hP
  unfold gemm_large_c2_r2
  simp only []
  generalize hv : forLoop k_end (fun k => decide (k < k_end)) 1 _ _ _ = v
  have hV : (∀ l, l < vs → P (v.2.1 l)) ∧ (∀ l, l < vs → P (v.2.2.1 l)) ∧ (∀ l, l < vs → P (v.2.2.2.1 l)) ∧ (∀ l, l < vs → P (v.2.2.2.2 l)) := by
    rw [← hv]
    refine forLoop_inv (fun (_ : Nat) (r : Vec T × Vec T × Vec T × Vec T) =>
        (∀ l, l < vs → P (r.1 l)) ∧ (∀ l, l < vs → P (r.2.1 l)) ∧ (∀ l, l < vs → P (r.2.2.1 l)) ∧ (∀ l, l < vs → P (r.2.2.2 l)))
      _ 1 _ ?_ _ _ _ ?_
    · rintro k ⟨r1, r2, r3, r4⟩ ⟨h1, h2, h3, h4⟩ hc
      have hk : k < k_end := of_decide_eq_true hc
      refine ⟨?_, ?_, ?_, ?_⟩
      · intro l hl
        exact hfm _ _ _ (ha _ (flat_lt M K (i + 0) k _ (by omega) (by omega) rfl))
          (hb _ (flat_lt K N k (j + l) _ (by omega) (by omega) (by omega))) (h1 l hl)
      · intro l hl
        exact hfm _ _ _ (ha _ (flat_lt M K (i + 0) k _ (by omega) (by omega) rfl))
          (hb _ (flat_lt K N k ((j + vs) + l) _ (by omega) (by omega) (by omega))) (h2 l hl)
      · intro l hl
        exact hfm _ _ _ (ha _ (flat_lt M K (i + 1) k _ (by omega) (by omega) rfl))
          (hb _ (flat_lt K N k (j + l) _ (by omega) (by omega) (by omega))) (h3 l hl)
      · intro l hl
        exact hfm _ _ _ (ha _ (flat_lt M K (i + 1) k _ (by omega) (by omega) rfl))
          (hb _ (flat_lt K N k ((j + vs) + l) _ (by omega) (by omega) (by omega))) (h4 l hl)
    · refine ⟨?_, ?_, ?_, ?_⟩
      · exact h.within_loadu _ vs (flat_le M N (i + 0) (j + vs) _ (by omega) (by omega) (by omega))
      · exact h.within_loadu _ vs (flat_le M N (i + 0) ((j + vs) + vs) _ (by omega) (by omega) (by omega))
      · exact h.within_loadu _ vs (flat_le M N (i + 1) (j + vs) _ (by omega) (by omega) (by omega))
      · exact h.within_loadu _ vs (flat_le M N (i + 1) ((j + vs) + vs) _ (by omega) (by omega) (by omega))
  obtain ⟨h1, h2, h3, h4⟩ := hV
  have w1 := h.within_storeu ((i + 0) * N + j) vs v.2.1
    (flat_le M N (i + 0) (j + vs) _ (by omega) (by omega) (by omega)) h1
  have w2 := w1.within_storeu ((i + 0) * N + (j + vs)) vs v.2.2.1
    (flat_le M N (i + 0) ((j + vs) + vs) _ (by omega) (by omega) (by omega)) h2
  have w3 := w2.within_storeu ((i + 1) * N + j) vs v.2.2.2.1
    (flat_le M N (i + 1) (j + vs) _ (by omega) (by omega) (by omega)) h3
  have w4 := w3.within_storeu ((i + 1) * N + (j + vs)) vs v.2.2.2.2
    (flat_le M N (i + 1) ((j + vs) + vs) _ (by omega) (by omega) (by omega)) h4
  exact w4

theorem gemm_large_c2_r1_within {T : Type} (A : Arith T) (P : T → Prop) (hP : Closed A P)
    (vs : Nat) (a b : Nat → T) (M N K block_k k_end j i : Nat)
    (hk : k_end ≤ K) (hi : i + 1 ≤ M) (hj : j + vs * 2 ≤ N)
    (ha : ∀ x, x < M * K → P (a x)) (hb : ∀ x, x < K * N → P (b x))
    (c0 c : Buffer T) (h : Within c0 (M * N) P c) :
    Within c0 (M * N) P (gemm_large_c2_r1 A vs a b N K block_k k_end j i c) := by
  obtain ⟨hz, hadd, hmul, hfm⟩ := id hP
  unfold gemm_large_c2_r1
  simp only []
  generalize hv : forLoop k_end (fun k => decide (k < k_end)) 1 _ _ _ = v
  have hV : (∀ l, l < vs → P (v.2.1 l)) ∧ (∀ l, l < vs → P (v.2.2 l)) := by
    rw [← hv]
    refine forLoop_inv (fun (_ : Nat) (r : Vec T × Vec T) =>
        (∀ l, l < vs → P (r.1 l)) ∧ (∀ l, l < vs → P (r.2 l)))
      _ 1 _ ?_ _ _ _ ?_
    · rintro k ⟨r1, r2⟩ ⟨h1, h2⟩ hc
      have hk : k < k_end := of_decide_eq_true hc
      refine ⟨?_, ?_⟩
      · intro l hl
        exact hfm _ _ _ (ha _ (flat_lt M K (i + 0) k _ (by omega) (by omega) rfl))
          (hb _ (flat_lt K N k (j + l) _ (by omega) (by omega) (by omega))) (h1 l hl)
      · intro l hl
        exact hfm _ _ _ (ha _ (flat_lt M K (i + 0) k _ (by omega) (by omega) rfl))
          (hb _ (flat_lt K N k ((j + vs) + l) _ (by omega) (by omega) (by omega))) (h2 l hl)
    · refine ⟨?_, ?_⟩
      · exact h.within_loadu _ vs (flat_le M N (i + 0) (j + vs) _ (by omega) (by omega) (by omega))
      · exact h.within_loadu _ vs (flat_le M N (i + 0) ((j + vs) + vs) _ (by omega) (by omega) (by omega))
  obtain ⟨h1, h2⟩ := hV
  have w1 := h.within_storeu ((i + 0) * N + j) vs v.2.1
    (flat_le M N (i + 0) (j + vs) _ (by omega) (by omega) (by omega)) h1
  have w2 := w1.within_storeu ((i + 0) * N + (j + vs)) vs v.2.2
    (flat_le M N (i + 0) ((j + vs) + vs) _ (by omega) (by omega) (by omega)) h2
  exact w2

theorem gemm_large_c1_r1_within {T : Type} (A : Arith T) (P : T → Prop) (hP : Closed A P)
    (vs : Nat) (a b : Nat → T) (M N K block_k k_end j i : Nat)
    (hk : k_end ≤ K) (hi : i + 1 ≤ M) (hj : j + vs ≤ N)
    (ha : ∀ x, x < M * K → P (a x)) (hb : ∀ x, x < K * N → P (b x))
    (c0 c : Buffer T) (h : Within c0 (M * N) P c) :
    Within c0 (M * N) P (gemm_large_c1_r1 A vs a b N K block_k k_end j i c) := by
  obtain ⟨hz, hadd, hmul, hfm⟩ := id hP
  unfold gemm_large_c1_r1
  simp only []
  generalize hv : forLoop k_end (fun k => decide (k < k_end)) 1 _ _ _ = v
  have hV : (∀ l, l < vs → P (v.2 l)) := by
    rw [← hv]
    refine forLoop_inv (fun (_ : Nat) (r : Vec T) =>
        (∀ l, l < vs → P (r l)))
      _ 1 _ ?_ _ _ _ ?_
    · rintro k r1 h1 hc
      have hk : k < k_end := of_decide_eq_true hc
      refine ?_
      · intro l hl
        exact hfm _ _ _ (ha _ (flat_lt M K (i + 0) k _ (by omega) (by omega) rfl))
          (hb _ (flat_lt K N k (j + l) _ (by omega) (by omega) (by omega))) (h1 l hl)
    · refine ?_
      · exact h.within_loadu _ vs (flat_le M N (i + 0) (j + vs) _ (by omega) (by omega) (by omega))
  have h1 := hV
  have w1 := h.within_storeu ((i + 0) * N + j) vs v.2
    (flat_le M N (i + 0) (j + vs) _ (by omega) (by omega) (by omega)) h1
  exact w1

theorem gemm_large_s1_r1_within {T : Type} (A : Arith T) (P : T → Prop) (hP : Closed A P)
    (a b : Nat → T) (M N K block_k k_end j i : Nat)
    (hk : k_end ≤ K) (hi : i + 1 ≤ M) (hj : j + 1 ≤ N)
    (ha : ∀ x, x < M * K → P (a x)) (hb : ∀ x, x < K * N → P (b x))
    (c0 c : Buffer T) (h : Within c0 (M * N) P c) :
    Within c0 (M * N) P (gemm_large_s1_r1 A a b N K block_k k_end j i c) := by
  obtain ⟨hz, hadd, hmul, hfm⟩ := id hP
  unfold gemm_large_s1_r1
  simp only []
  have hx : i * N + j < M * N := flat_lt M N i j _ (by omega) (by omega) rfl
  refine h.within_write _ _ hx ?_
  refine forLoop_inv (fun (_ : Nat) (r : T) => P r) _ 1 _ ?_ _ _ _ (h.1 _ hx)
  intro k r hr hc
  have hk' : k < k_end := of_decide_eq_true hc
  exact hadd _ _ hr (hmul _ _ (ha _ (flat_lt M K i k _ (by omega) (by omega) rfl))
    (hb _ (flat_lt K N k j _ (by omega) (by omega) rfl)))

theorem gevm_small_kernel_within {T : Type} (A : Arith T) (P : T → Prop) (hP : Closed A P)
    (vs : Nat) (hvs : 0 < vs) (aa bb : Nat → T) (m n : Nat)
    (ha : ∀ k, k < m → P (aa k)) (hb : ∀ x, x < m * n → P (bb x))
    (c0 c : Buffer T) (h : Within c0 n P c) :
    Within c0 n P (gevm_small_kernel A vs aa m n bb c) := by
  unfold gevm_small_kernel
  simp only []
  refine Within.within_forLoop _ _ _ (fun j c hc hj => ?_) _ _ _ ?_
  · exact gevm_small_col_within A P hP aa bb m n j (of_decide_eq_true hj) ha hb c0 c hc
  refine Within.within_forLoop _ _ _ (fun j c hc hj => ?_) _ _ _ ?_
  · have hj' := of_decide_eq_true hj
    exact gevm_small_cols1_within A P hP vs aa bb m n j (by omega) ha hb c0 c hc
  refine Within.within_forLoop _ _ _ (fun j c hc hj => ?_) _ _ _ ?_
  · have hj' := of_decide_eq_true hj
    exact gevm_small_cols4_within A P hP vs aa bb m n j (by omega) ha hb c0 c hc
  refine Within.within_forLoop _ _ _ (fun j c hc hj => ?_) _ _ _ h
  have hj' := of_decide_eq_true hj
  exact gevm_small_cols8_within A P hP vs aa bb m n j (by omega) ha hb c0 c hc

theorem gevm_large_block_within {T : Type} (A : Arith T) (P : T → Prop) (hP : Closed A P)
    (vs : Nat) (hvs : 0 < vs) (aa bb : Nat → T) (m n n_block m_block block_j block_k : Nat)
    (ha : ∀ k, k < m → P (aa k)) (hb : ∀ x, x < m * n → P (bb x))
    (c0 c : Buffer T) (h : Within c0 n P c) :
    Within c0 n P (gevm_large_block A vs aa m n bb n_block m_block block_j block_k c) := by
  unfold gevm_large_block
  simp only []
  have hm : min (block_k + m_block) m ≤ m := Nat.min_le_right _ _
  have hn : min (block_j + n_block) n &&& neg_size_t vs ≤ n :=
    le_trans Nat.and_le_left (Nat.min_le_right _ _)
  generalize min (block_k + m_block) m = m_end at hm ⊢
  generalize min (block_j + n_block) n &&& neg_size_t vs = n_end at hn ⊢
  refine Within.within_forLoop _ _ _ (fun j c hc hj => ?_) _ _ _ ?_
  · have hj' := of_decide_eq_true hj
    exact gevm_large_col_within A P hP aa bb m n block_k m_end j hm (by omega) ha hb c0 c hc
  refine Within.within_forLoop _ _ _ (fun j c hc hj => ?_) _ _ _ ?_
  · have hj' := of_decide_eq_true hj
    exact gevm_large_cols1_within A P hP vs aa bb m n block_k m_end j hm (by omega) ha hb
      c0 c hc
  refine Within.within_forLoop _ _ _ (fun j c hc hj => ?_) _ _ _ ?_
  · have hj' := of_decide_eq_true hj
    exact gevm_large_cols4_within A P hP vs aa bb m n block_k m_end j hm (by omega) ha hb
      c0 c hc
  refine Within.within_forLoop _ _ _ (fun j c hc hj => ?_) _ _ _ h
  have hj' := of_decide_eq_true hj
  exact gevm_large_cols8_within A P hP vs aa bb m n block_k m_end j hm (by omega) ha hb
    c0 c hc

theorem gevm_large_kernel_within {T : Type} (A : Arith T) (P : T → Prop) (hP : Closed A P)
    (vs : Nat) (hvs : 0 < vs) (sizeof_T : Nat) (aa bb : Nat → T) (m n : Nat)
    (ha : ∀ k, k < m → P (aa k)) (hb : ∀ x, x < m * n → P (bb x))
    (c0 c : Buffer T) (h : Within c0 n P c) :
    Within c0 n P (gevm_large_kernel A vs sizeof_T aa m n bb c) := by
  unfold gevm_large_kernel
  simp only []
  refine Within.within_forLoop _ _ _ (fun bj c hc _ => ?_) _ _ _ h
  refine Within.within_forLoop _ _ _ (fun bk c hc _ => ?_) _ _ _ hc
  exact gevm_large_block_within A P hP vs hvs aa bb m n _ _ bj bk ha hb c0 c hc

theorem gemm_large_cols4_within {T : Type} (A : Arith T) (P : T → Prop) (hP : Closed A P)
    (vs : Nat) (a b : Nat → T) (M N K block_k k_end block_i i_end j : Nat)
    (hk : k_end ≤ K) (hie : i_end ≤ M) (hj : j + vs * 4 ≤ N)
    (ha : ∀ x, x < M * K → P (a x)) (hb : ∀ x, x < K * N → P (b x))
    (c0 c : Buffer T) (h : Within c0 (M * N) P c) :
    Within c0 (M * N) P (gemm_large_cols4 A vs a b N K block_k k_end block_i i_end j c) := by
  unfold gemm_large_cols4
  try simp only []
  generalize hs0 : forLoop i_end (fun i => decide (i + 1 < i_end)) 2 _ block_i c = t0
  have ht0 : Within c0 (M * N) P t0.2 := by
    rw [← hs0]
    refine Within.within_forLoop _ _ _ (fun i c hc hi => ?_) _ _ _ h
    have hi' := of_decide_eq_true hi
    exact gemm_large_c4_r2_within A P hP vs a b M N K block_k k_end j i hk (by omega) hj ha hb c0 c hc
  by_cases hlt : t0.1 < i_end
  · rw [if_pos hlt]
    exact gemm_large_c4_r1_within A P hP vs a b M N K block_k k_end j t0.1 hk (by omega) hj ha hb c0 _
      ht0
  · rw [if_neg hlt]
    exact ht0

theorem gemm_large_cols2_within {T : Type} (A : Arith T) (P : T → Prop) (hP : Closed A P)
    (vs : Nat) (a b : Nat → T) (M N K block_k k_end block_i i_end j : Nat)
    (hk : k_end ≤ K) (hie : i_end ≤ M) (hj : j + vs * 2 ≤ N)
    (ha : ∀ x, x < M * K → P (a x)) (hb : ∀ x, x < K * N → P (b x))
    (c0 c : Buffer T) (h : Within c0 (M * N) P c) :
    Within c0 (M * N) P (gemm_large_cols2 A vs a b N K block_k k_end block_i i_end j c) := by
  unfold gemm_large_cols2
  try simp only []
  generalize hs0 : forLoop i_end (fun i => decide (i + 3 < i_end)) 4 _ block_i c = t0
  have ht0 : Within c0 (M * N) P t0.2 := by
    rw [← hs0]
    refine Within.within_forLoop _ _ _ (fun i c hc hi => ?_) _ _ _ h
    have hi' := of_decide_eq_true hi
    exact gemm_large_c2_r4_within A P hP vs a b M N K block_k k_end j i hk (by omega) hj ha hb c0 c hc
  generalize hs1 : forLoop i_end (fun i => decide (i + 2 - 1 < i_end)) 2 _ t0.1 t0.2 = t1
  have ht1 : Within c0 (M * N) P t1.2 := by
    rw [← hs1]
    refine Within.within_forLoop _ _ _ (fun i c hc hi => ?_) _ _ _ ht0
    have hi' := of_decide_eq_true hi
    exact gemm_large_c2_r2_within A P hP vs a b M N K block_k k_end j i hk (by omega) hj ha hb c0 c hc
  by_cases hlt : t1.1 < i_end
  · rw [if_pos hlt]
    exact gemm_large_c2_r1_within A P hP vs a b M N K block_k k_end j t1.1 hk (by omega) hj ha hb c0 _
      ht1
  · rw [if_neg hlt]
    exact ht1

theorem gemm_large_cols1_within {T : Type} (A : Arith T) (P : T → Prop) (hP : Closed A P)
    (vs : Nat) (a b : Nat → T) (M N K block_k k_end block_i i_end j : Nat)
    (hk : k_end ≤ K) (hie : i_end ≤ M) (hj : j + vs ≤ N)
    (ha : ∀ x, x < M * K → P (a x)) (hb : ∀ x, x < K * N → P (b x))
    (c0 c : Buffer T) (h : Within c0 (M * N) P c) :
    Within c0 (M * N) P (gemm_large_cols1 A vs a b N K block_k k_end block_i i_end j c) := by
  unfold gemm_large_cols1
  try simp only []
  generalize hs0 : forLoop i_end (fun i => decide (i < i_end)) 1 _ block_i c = t0
  have ht0 : Within c0 (M * N) P t0.2 := by
    rw [← hs0]
    refine Within.within_forLoop _ _ _ (fun i c hc hi => ?_) _ _ _ h
    have hi' := of_decide_eq_true hi
    exact gemm_large_c1_r1_within A P hP vs a b M N K block_k k_end j i hk (by omega) hj ha hb c0 c hc
  exact ht0

theorem gemm_large_scalar1_within {T : Type} (A : Arith T) (P : T → Prop) (hP : Closed A P)
    (a b : Nat → T) (M N K block_k k_end block_i i_end j : Nat)
    (hk : k_end ≤ K) (hie : i_end ≤ M) (hj : j + 1 ≤ N)
    (ha : ∀ x, x < M * K → P (a x)) (hb : ∀ x, x < K * N → P (b x))
    (c0 c : Buffer T) (h : Within c0 (M * N) P c) :
    Within c0 (M * N) P (gemm_large_scalar1 A a b N K block_k k_end block_i i_end j c) := by
  unfold gemm_large_scalar1
  try simp only []
  generalize hs0 : forLoop i_end (fun i => decide (i < i_end)) 1 _ block_i c = t0
  have ht0 : Within c0 (M * N) P t0.2 := by
    rw [← hs0]
    refine Within.within_forLoop _ _ _ (fun i c hc hi => ?_) _ _ _ h
    have hi' := of_decide_eq_true hi
    exact gemm_large_s1_r1_within A P hP a b M N K block_k k_end j i hk (by omega) hj ha hb c0 c hc
  exact ht0

theorem gemm_large_block_within {T : Type} (A : Arith T) (P : T → Prop) (hP : Closed A P)
    (vs : Nat) (hvs : 0 < vs) (a b : Nat → T)
    (M N K kbs block_j j_end block_i i_end block_k : Nat) (hje : j_end ≤ N) (hie : i_end ≤ M)
    (ha : ∀ x, x < M * K → P (a x)) (hb : ∀ x, x < K * N → P (b x))
    (c0 c : Buffer T) (h : Within c0 (M * N) P c) :
    Within c0 (M * N) P
      (gemm_large_block A vs a b N K kbs block_j j_end block_i i_end block_k c) := by
  unfold gemm_large_block
  simp only []
  have hk : min (block_k + kbs) K ≤ K := Nat.min_le_right _ _
  generalize min (block_k + kbs) K = k_end at hk ⊢
  refine Within.within_forLoop _ _ _ (fun j c hc hj => ?_) _ _ _ ?_
  · have hj' := of_decide_eq_true hj
    exact gemm_large_scalar1_within A P hP a b M N K block_k k_end block_i i_end j hk hie
      (by omega) ha hb c0 c hc
  refine Within.within_forLoop _ _ _ (fun j c hc hj => ?_) _ _ _ ?_
  · have hj' := of_decide_eq_true hj
    exact gemm_large_cols1_within A P hP vs a b M N K block_k k_end block_i i_end j hk hie
      (by omega) ha hb c0 c hc
  refine Within.within_forLoop _ _ _ (fun j c hc hj => ?_) _ _ _ ?_
  · have hj' := of_decide_eq_true hj
    exact gemm_large_cols2_within A P hP vs a b M N K block_k k_end block_i i_end j hk hie
      (by omega) ha hb c0 c hc
  refine Within.within_forLoop _ _ _ (fun j c hc hj => ?_) _ _ _ h
  have hj' := of_decide_eq_true hj
  exact gemm_large_cols4_within A P hP vs a b M N K block_k k_end block_i i_end j hk hie
    (by omega) ha hb c0 c hc

theorem gemm_large_zero_within {T : Type} (A : Arith T) (P : T → Prop) (hP : Closed A P)
    (M N block_j j_end block_i i_end : Nat) (hje : j_end ≤ N) (hie : i_end ≤ M)
    (c0 c : Buffer T) (h : Within c0 (M * N) P c) :
    Within c0 (M * N) P (gemm_large_zero A N block_j j_end block_i i_end c) := by
  unfold gemm_large_zero
  refine Within.within_forLoop _ _ _ (fun i c hc hi => ?_) _ _ _ h
  have hi' := of_decide_eq_true hi
  refine Within.within_forLoop _ _ _ (fun j c hc hj => ?_) _ _ _ hc
  have hj' := of_decide_eq_true hj
  exact hc.within_write _ _ (flat_lt M N i j _ (by omega) (by omega) rfl) hP.1

theorem gemm_large_tile_within {T : Type} (A : Arith T) (P : T → Prop) (hP : Closed A P)
    (vs : Nat) (hvs : 0 < vs) (a b : Nat → T)
    (M N K mbs kbs block_j j_end block_i : Nat) (hje : j_end ≤ N)
    (ha : ∀ x, x < M * K → P (a x)) (hb : ∀ x, x < K * N → P (b x))
    (c0 c : Buffer T) (h : Within c0 (M * N) P c) :
    Within c0 (M * N) P (gemm_large_tile A vs a b M N K mbs kbs block_j j_end block_i c) := by
  unfold gemm_large_tile
  simp only []
  have hie : min (block_i + mbs) M ≤ M := Nat.min_le_right _ _
  generalize min (block_i + mbs) M = i_end at hie ⊢
  refine Within.within_forLoop _ _ _ (fun bk c hc _ => ?_) _ _ _
    (gemm_large_zero_within A P hP M N block_j j_end block_i i_end hje hie c0 c h)
  exact gemm_large_block_within A P hP vs hvs a b M N K kbs block_j j_end block_i i_end bk
    hje hie ha hb c0 c hc

theorem gemm_large_kernel_within {T : Type} (A : Arith T) (P : T → Prop) (hP : Closed A P)
    (vs : Nat) (hvs : 0 < vs) (a b : Nat → T) (M N K : Nat)
    (ha : ∀ x, x < M * K → P (a x)) (hb : ∀ x, x < K * N → P (b x))
    (c0 c : Buffer T) (h : Within c0 (M * N) P c) :
    Within c0 (M * N) P (gemm_large_kernel A vs a b c M N K) := by
  unfold gemm_large_kernel
  simp only []
  refine Within.within_forLoop _ _ _ (fun bj c hc _ => ?_) _ _ _ h
  refine Within.within_forLoop _ _ _ (fun bi c hc _ => ?_) _ _ _ hc
  exact gemm_large_tile_within A P hP vs hvs a b M N K _ _ bj _ bi (Nat.min_le_right _ _)
    ha hb c0 c hc

theorem fold_left_closed {T : Type} (P : T → Prop) (step : T → Nat → T) (z : T) (n : Nat)
    (hz : P z) (hs : ∀ acc k, k < n → P acc → P (step acc k)) : P (fold_left step z n) := by
  have : ∀ k, k ≤ n → P (fold_left step z k) := by
    intro k
    induction k with
    | zero => intro _; exact hz
    | succ k ih =>
      intro hk
      rw [fold_left_succ]
      exact hs _ k (by omega) (ih (by omega))
  exact this n (le_refl _)

theorem gemm_value_closed {T : Type} (A : Arith T) (P : T → Prop) (hP : Closed A P)
    (n0 : Nat) (a b : Nat → T) (M N K x : Nat) (hx : x < M * N)
    (ha : ∀ y, y < M * K → P (a y)) (hb : ∀ y, y < K * N → P (b y)) :
    P (gemm_value A n0 a b N K x) := by
  have hN : 0 < N := by
    rcases Nat.eq_zero_or_pos N with h | h
    · rw [h] at hx
      exact absurd hx (by omega)
    · exact h
  have hr : x / N < M := (Nat.div_lt_iff_lt_mul hN).2 hx
  have hc : x % N < N := Nat.mod_lt _ hN
  unfold gemm_value
  refine fold_left_closed P _ _ _ hP.1 (fun acc k hk hacc => ?_)
  have h1 : P (a (x / N * K + k)) := ha _ (flat_lt M K (x / N) k _ hr hk rfl)
  have h2 : P (b (k * N + x % N)) := hb _ (flat_lt K N k (x % N) _ hk hc rfl)
  unfold gemm_step
  split
  · exact hP.2.2.2 _ _ _ h1 h2 hacc
  · exact hP.2.1 _ _ hacc (hP.2.2.1 _ _ h1 h2)

/-- Every value `gemm_small_kernel` leaves below `M * N` is built from `T()`, the
elements `a[x]`, `x < M * K`, and `b[x]`, `x < K * N`, by the operations of `A`; no
index at or past `M * N` is stored to. -/
theorem gemm_small_kernel_within {T : Type} (A : Arith T) (P : T → Prop) (hP : Closed A P)
    (vs : Nat) (hvs : 0 < vs) (a b : Nat → T) (M N K : Nat)
    (ha : ∀ x, x < M * K → P (a x)) (hb : ∀ x, x < K * N → P (b x)) (c : Buffer T) :
    (∀ x, x < M * N → P ((gemm_small_kernel A vs a b c M N K).val x)) ∧
      ∀ x, M * N ≤ x → (gemm_small_kernel A vs a b c M N K).val x = c.val x ∧
        (gemm_small_kernel A vs a b c M N K).stores x = c.stores x := by
  have hf := gemm_small_kernel_gfill A vs hvs a b c M N K
  refine ⟨fun x hx => ?_, fun x hx => ?_⟩
  · have hN : 0 < N := by
      rcases Nat.eq_zero_or_pos N with h | h
      · rw [h] at hx
        exact absurd hx (by omega)
      · exact h
    rw [(hf.1 x ⟨(Nat.div_lt_iff_lt_mul hN).2 hx, Nat.mod_lt _ hN⟩).1]
    exact gemm_value_closed A P hP _ a b M N K x hx ha hb
  · refine hf.2 x (fun h => ?_)
    have hN : 0 < N := by omega
    have := (Nat.div_lt_iff_lt_mul hN).1 h.1
    omega

/-- C24: for all dimensions, every `vec_size = 2^p` and every `sizeof(T)`, when the
operands and the destination are arrays of exactly their logical extents, whose
out-of-bounds reads give a missing value that every operation propagates:
`gevm_small_kernel` and `gevm_large_kernel`, on `aa` of `m`, `bb` of `m * n` and `cc` of
`n` elements, leave a present value in every `cc[x]`, `x < n`, and store to no index
at or past `n`; `gemm_small_kernel` and `gemm_large_kernel`, on `a` of `M * K`, `b` of
`K * N` and `c` of `M * N` elements, leave a present value in every `c[x]`,
`x < M * N`, and store to no index at or past `M * N`.  No read of an operand or of
the destination outside its extent reaches a result. -/
theorem gevm_gemm_within_extents {T : Type} (A : Arith T) (p sizeof_T m n M N K : Nat)
    (aa bb a b d e : Nat → T) (sd se : Nat → Nat) :
    ((∀ x, x < n →
        ((gevm_small_kernel (Arith.checked A) (2 ^ p) (checked_view m aa) m n
          (checked_view (m * n) bb) ⟨checked_view n d, sd⟩).val x).isSome = true ∧
        ((gevm_large_kernel (Arith.checked A) (2 ^ p) sizeof_T (checked_view m aa) m n
          (checked_view (m * n) bb) ⟨checked_view n d, sd⟩).val x).isSome = true) ∧
      (∀ x, n ≤ x →
        (gevm_small_kernel (Arith.checked A) (2 ^ p) (checked_view m aa) m n
          (checked_view (m * n) bb) ⟨checked_view n d, sd⟩).stores x = sd x ∧
        (gevm_large_kernel (Arith.checked A) (2 ^ p) sizeof_T (checked_view m aa) m n
          (checked_view (m * n) bb) ⟨checked_view n d, sd⟩).stores x = sd x)) ∧
    ((∀ x, x < M * N →
        ((gemm_small_kernel (Arith.checked A) (2 ^ p) (checked_view (M * K) a)
          (checked_view (K * N) b) ⟨checked_view (M * N) e, se⟩ M N K).val x).isSome = true ∧
        ((gemm_large_kernel (Arith.checked A) (2 ^ p) (checked_view (M * K) a)
          (checked_view (K * N) b) ⟨checked_view (M * N) e, se⟩ M N K).val x).isSome = true) ∧
      (∀ x, M * N ≤ x →
        (gemm_small_kernel (Arith.checked A) (2 ^ p) (checked_view (M * K) a)
          (checked_view (K * N) b) ⟨checked_view (M * N) e, se⟩ M N K).stores x = se x ∧
        (gemm_large_kernel (Arith.checked A) (2 ^ p) (checked_view (M * K) a)
          (checked_view (K * N) b) ⟨checked_view (M * N) e, se⟩ M N K).stores x = se x)) := by
  have hvs : 0 < 2 ^ p := Nat.pow_pos (by decide)
  have hview : ∀ (len : Nat) (f : Nat → T) (x : Nat), x < len →
      (checked_view len f x).isSome = true := by
    intro len f x hx
    simp [checked_view, hx]
  have hcc : Within (⟨checked_view n d, sd⟩ : Buffer (Option T)) n (fun o => o.isSome = true)
      ⟨checked_view n d, sd⟩ := Within.within_refl _ _ _ (hview n d)
  have hc : Within (⟨checked_view (M * N) e, se⟩ : Buffer (Option T)) (M * N)
      (fun o => o.isSome = true) ⟨checked_view (M * N) e, se⟩ :=
    Within.within_refl _ _ _ (hview (M * N) e)
  have g1 := gevm_small_kernel_within (Arith.checked A) _ (checked_closed A) (2 ^ p) hvs
    (checked_view m aa) (checked_view (m * n) bb) m n (hview m aa) (hview (m * n) bb) _ _ hcc
  have g2 := gevm_large_kernel_within (Arith.checked A) _ (checked_closed A) (2 ^ p) hvs
    sizeof_T (checked_view m aa) (checked_view (m * n) bb) m n (hview m aa) (hview (m * n) bb)
    _ _ hcc
  have g3 := gemm_small_kernel_within (Arith.checked A) _ (checked_closed A) (2 ^ p) hvs
    (checked_view (M * K) a) (checked_view (K * N) b) M N K (hview (M * K) a)
    (hview (K * N) b) ⟨checked_view (M * N) e, se⟩
  have g4 := gemm_large_kernel_within (Arith.checked A) _ (checked_closed A) (2 ^ p) hvs
    (checked_view (M * K) a) (checked_view (K * N) b) M N K (hview (M * K) a)
    (hview (K * N) b) _ _ hc
  exact ⟨⟨fun x hx => ⟨g1.1 x hx, g2.1 x hx⟩, fun x hx => ⟨(g1.2 x hx).2, (g2.2 x hx).2⟩⟩,
    ⟨fun x hx => ⟨g3.1 x hx, g4.1 x hx⟩, fun x hx => ⟨(g3.2 x hx).2, (g4.2 x hx).2⟩⟩⟩

/-! ## Termination: the fuel of every loop is enough -/

theorem runLoop_forLoop {S : Type} (cond : Nat → Bool) (step : Nat)
    (bodyF : Nat → S → Option S) (body : Nat → S → S) (B : Nat) (hstep : 0 < step)
    (hcond : ∀ i, cond i = true → i < B)
    (hb : ∀ i s, cond i = true → bodyF i s = some (body i s)) :
    ∀ (f1 f2 i : Nat) (s : S), B ≤ f1 + i → B ≤ f2 + i →
      runLoop f1 cond step bodyF i s = some (forLoop f2 cond step body i s) := by
  intro f1
  induction f1 with
  | zero =>
    intro f2 i s h1 _
    have hc : cond i = false := by
      cases h : cond i with
      | false => rfl
      | true => exact absurd (hcond i h) (by omega)
    rw [forLoop_none cond step body f2 i s hc]
    show (if cond i then none else some (i, s)) = _
    rw [if_neg (by rw [hc]; decide)]
  | succ f ih =>
    intro f2 i s h1 h2
    cases hc : cond i with
    | false =>
      rw [forLoop_none cond step body f2 i s hc]
      show (if cond i then _ else some (i, s)) = _
      rw [if_neg (by rw [hc]; decide)]
    | true =>
      have hi := hcond i hc
      obtain ⟨g, rfl⟩ : ∃ g, f2 = g + 1 := ⟨f2 - 1, by omega⟩
      show (if cond i then (bodyF i s).bind
        (fun s2 => runLoop f cond step bodyF (i + step) s2) else some (i, s)) =
        some (if cond i then forLoop g cond step body (i + step) (body i s) else (i, s))
      rw [if_pos hc, if_pos hc, hb i s hc, Option.some_bind]
      exact ih g (i + step) (body i s) (by omega) (by omega)

/-- A loop whose condition bounds its index by `B` and whose step is positive, run
with any fuel of at least `B`, gives the result `forLoop` gives with the fuel `B`. -/
theorem runLoop_eq {S : Type} (cond : Nat → Bool) (step : Nat)
    (bodyF : Nat → S → Option S) (body : Nat → S → S) (B : Nat) (hstep : 0 < step)
    (hcond : ∀ i, cond i = true → i < B)
    (hb : ∀ i s, cond i = true → bodyF i s = some (body i s))
    (fuel : Nat) (hf : B ≤ fuel) (i : Nat) (s : S) :
    runLoop fuel cond step bodyF i s = some (forLoop B cond step body i s) :=
  runLoop_forLoop cond step bodyF body B hstep hcond hb fuel B i s (by omega) (by omega)

theorem runLoop_pure {S : Type} (cond : Nat → Bool) (step : Nat) (body : Nat → S → S)
    (B : Nat) (hstep : 0 < step) (hcond : ∀ i, cond i = true → i < B)
    (fuel : Nat) (hf : B ≤ fuel) (i : Nat) (s : S) :
    runLoop fuel cond step (fun k s => some (body k s)) i s =
      some (forLoop B cond step body i s) :=
  runLoop_eq cond step _ body B hstep hcond (fun _ _ _ => rfl) fuel hf i s

theorem gemv_last_le_self (vs : Nat) (rem : Bool) (n : Nat) : gemv_last vs rem n ≤ n := by
  unfold gemv_last
  split
  · exact Nat.and_le_left
  · exact le_refl _

theorem gemv_small_rows8_fuel_eq {T : Type} (fuel : Nat) (A : Arith T) (vec_size : Nat) (remainder : Bool)
    (last : Nat) (aa : Nat → T) (n : Nat) (bb : Nat → T) (i : Nat) (cc : Buffer T)
    (hvs : 0 < vec_size) (h_last : last ≤ fuel) (h_n : n ≤ fuel) :
    gemv_small_rows8_fuel fuel A vec_size remainder last aa n bb i cc = some (gemv_small_rows8 A vec_size remainder last aa n bb i cc) := by
  unfold gemv_small_rows8_fuel gemv_small_rows8
  try simp only []
  rw [runLoop_pure (fun k => decide (k < last)) vec_size _ last (by omega)
    (fun i hi => by simp only [Bool.and_eq_true, decide_eq_true_eq] at hi; omega) fuel h_last]
  simp only [Option.some_bind]
  rw [runLoop_pure (fun k => remainder && decide (k < n)) 1 _ n (by omega)
    (fun i hi => by simp only [Bool.and_eq_true, decide_eq_true_eq] at hi; omega) fuel h_n]
  simp only [Option.some_bind]

theorem gemv_small_rows2_fuel_eq {T : Type} (fuel : Nat) (A : Arith T) (vec_size : Nat) (remainder : Bool)
    (last : Nat) (aa : Nat → T) (n : Nat) (bb : Nat → T) (i : Nat) (cc : Buffer T)
    (hvs : 0 < vec_size) (h_last : last ≤ fuel) (h_n : n ≤ fuel) :
    gemv_small_rows2_fuel fuel A vec_size remainder last aa n bb i cc = some (gemv_small_rows2 A vec_size remainder last aa n bb i cc) := by
  unfold gemv_small_rows2_fuel gemv_small_rows2
  try simp only []
  rw [runLoop_pure (fun k => decide (k < last)) vec_size _ last (by omega)
    (fun i hi => by simp only [Bool.and_eq_true, decide_eq_true_eq] at hi; omega) fuel h_last]
  simp only [Option.some_bind]
  rw [runLoop_pure (fun k => remainder && decide (k < n)) 1 _ n (by omega)
    (fun i hi => by simp only [Bool.and_eq_true, decide_eq_true_eq] at hi; omega) fuel h_n]
  simp only [Option.some_bind]

theorem gemv_small_row1_fuel_eq {T : Type} (fuel : Nat) (A : Arith T) (vec_size : Nat) (remainder : Bool)
    (last : Nat) (aa : Nat → T) (n : Nat) (bb : Nat → T) (i : Nat) (cc : Buffer T)
    (hvs : 0 < vec_size) (h_last : last ≤ fuel) (h_n : n ≤ fuel) :
    gemv_small_row1_fuel fuel A vec_size remainder last aa n bb i cc = some (gemv_small_row1 A vec_size remainder last aa n bb i cc) := by
  unfold gemv_small_row1_fuel gemv_small_row1
  try simp only []
  rw [runLoop_pure (fun k => decide (k < last)) vec_size _ last (by omega)
    (fun i hi => by simp only [Bool.and_eq_true, decide_eq_true_eq] at hi; omega) fuel h_last]
  simp only [Option.some_bind]
  rw [runLoop_pure (fun k => remainder && decide (k < n)) 1 _ n (by omega)
    (fun i hi => by simp only [Bool.and_eq_true, decide_eq_true_eq] at hi; omega) fuel h_n]
  simp only [Option.some_bind]

theorem gemv_small_kernel_fuel_eq {T : Type} (fuel : Nat) (A : Arith T) (vec_size : Nat)
    (advanced_padding Padded : Bool) (aa : Nat → T) (m n : Nat) (bb : Nat → T)
    (cc : Buffer T)
    (hvs : 0 < vec_size) (h_m : m ≤ fuel) (h_n : n ≤ fuel) :
    gemv_small_kernel_fuel fuel A vec_size advanced_padding Padded aa m n bb cc = some (gemv_small_kernel A vec_size advanced_padding Padded aa m n bb cc) := by
  unfold gemv_small_kernel_fuel gemv_small_kernel
  try simp only []
  generalize (!advanced_padding || !Padded) = remainder
  have h_last : gemv_last vec_size remainder n ≤ fuel := le_trans (gemv_last_le_self _ _ _) h_n
  generalize gemv_last vec_size remainder n = last at h_last ⊢
  rw [runLoop_eq (fun i => decide (i + 7 < m)) 8
    (gemv_small_rows8_fuel fuel A vec_size remainder last aa n bb) (gemv_small_rows8 A vec_size remainder last aa n bb) m (by omega)
    (fun i hi => by simp only [Bool.and_eq_true, decide_eq_true_eq] at hi; omega)
    (fun i s _ => gemv_small_rows8_fuel_eq fuel A vec_size remainder last aa n bb i s hvs h_last h_n) fuel h_m]
  simp only [Option.some_bind]
  rw [runLoop_eq (fun i => decide (i + 1 < m)) 2
    (gemv_small_rows2_fuel fuel A vec_size remainder last aa n bb) (gemv_small_rows2 A vec_size remainder last aa n bb) m (by omega)
    (fun i hi => by simp only [Bool.and_eq_true, decide_eq_true_eq] at hi; omega)
    (fun i s _ => gemv_small_rows2_fuel_eq fuel A vec_size remainder last aa n bb i s hvs h_last h_n) fuel h_m]
  simp only [Option.some_bind]
  split
  · exact gemv_small_row1_fuel_eq fuel _ _ _ _ _ _ _ _ _ hvs h_last h_n
  · rfl

theorem gemv_large_rows8_fuel_eq {T : Type} (fuel : Nat) (A : Arith T) (vec_size : Nat) (remainder : Bool)
    (last : Nat) (aa : Nat → T) (n : Nat) (bb : Nat → T) (i : Nat) (cc : Buffer T)
    (hvs : 0 < vec_size) (h_last : last ≤ fuel) (h_n : n ≤ fuel) :
    gemv_large_rows8_fuel fuel A vec_size remainder last aa n bb i cc = some (gemv_large_rows8 A vec_size remainder last aa n bb i cc) := by
  unfold gemv_large_rows8_fuel gemv_large_rows8
  try simp only []
  rw [runLoop_pure (fun k => decide (k + (vec_size * 3) < last)) (vec_size * 4) _ last (by omega)
    (fun i hi => by simp only [Bool.and_eq_true, decide_eq_true_eq] at hi; omega) fuel h_last]
  simp only [Option.some_bind]
  rw [runLoop_pure (fun k => decide (k + vec_size < last)) (vec_size * 2) _ last (by omega)
    (fun i hi => by simp only [Bool.and_eq_true, decide_eq_true_eq] at hi; omega) fuel h_last]
  simp only [Option.some_bind]
  rw [runLoop_pure (fun k => remainder && decide (k < n)) 1 _ n (by omega)
    (fun i hi => by simp only [Bool.and_eq_true, decide_eq_true_eq] at hi; omega) fuel h_n]
  simp only [Option.some_bind]

theorem gemv_large_rows2_fuel_eq {T : Type} (fuel : Nat) (A : Arith T) (vec_size : Nat) (remainder : Bool)
    (last : Nat) (aa : Nat → T) (n : Nat) (bb : Nat → T) (i : Nat) (cc : Buffer T)
    (hvs : 0 < vec_size) (h_last : last ≤ fuel) (h_n : n ≤ fuel) :
    gemv_large_rows2_fuel fuel A vec_size remainder last aa n bb i cc = some (gemv_large_rows2 A vec_size remainder last aa n bb i cc) := by
  unfold gemv_large_rows2_fuel gemv_large_rows2
  try simp only []
  rw [runLoop_pure (fun k => decide (k + (vec_size * 3) < last)) (vec_size * 4) _ last (by omega)
    (fun i hi => by simp only [Bool.and_eq_true, decide_eq_true_eq] at hi; omega) fuel h_last]
  simp only [Option.some_bind]
  rw [runLoop_pure (fun k => decide (k + vec_size < last)) (vec_size * 2) _ last (by omega)
    (fun i hi => by simp only [Bool.and_eq_true, decide_eq_true_eq] at hi; omega) fuel h_last]
  simp only [Option.some_bind]
  rw [runLoop_pure (fun k => remainder && decide (k < n)) 1 _ n (by omega)
    (fun i hi => by simp only [Bool.and_eq_true, decide_eq_true_eq] at hi; omega) fuel h_n]
  simp only [Option.some_bind]

theorem gemv_large_row1_fuel_eq {T : Type} (fuel : Nat) (A : Arith T) (vec_size : Nat) (remainder : Bool)
    (last : Nat) (aa : Nat → T) (n : Nat) (bb : Nat → T) (i : Nat) (cc : Buffer T)
    (hvs : 0 < vec_size) (h_last : last ≤ fuel) (h_n : n ≤ fuel) :
    gemv_large_row1_fuel fuel A vec_size remainder last aa n bb i cc = some (gemv_large_row1 A vec_size remainder last aa n bb i cc) := by
  unfold gemv_large_row1_fuel gemv_large_row1
  try simp only []
  rw [runLoop_pure (fun k => decide (k < last)) vec_size _ last (by omega)
    (fun i hi => by simp only [Bool.and_eq_true, decide_eq_true_eq] at hi; omega) fuel h_last]
  simp only [Option.some_bind]
  rw [runLoop_pure (fun k => remainder && decide (k < n)) 1 _ n (by omega)
    (fun i hi => by simp only [Bool.and_eq_true, decide_eq_true_eq] at hi; omega) fuel h_n]
  simp only [Option.some_bind]

theorem gemv_large_kernel_fuel_eq {T : Type} (fuel : Nat) (A : Arith T) (vec_size : Nat)
    (advanced_padding Padded : Bool) (aa : Nat → T) (m n : Nat) (bb : Nat → T)
    (cc : Buffer T)
    (hvs : 0 < vec_size) (h_m : m ≤ fuel) (h_n : n ≤ fuel) :
    gemv_large_kernel_fuel fuel A vec_size advanced_padding Padded aa m n bb cc = some (gemv_large_kernel A vec_size advanced_padding Padded aa m n bb cc) := by
  unfold gemv_large_kernel_fuel gemv_large_kernel
  try simp only []
  generalize (!advanced_padding || !Padded) = remainder
  have h_last : gemv_last vec_size remainder n ≤ fuel := le_trans (gemv_last_le_self _ _ _) h_n
  generalize gemv_last vec_size remainder n = last at h_last ⊢
  rw [runLoop_eq (fun i => decide (i + 7 < m)) 8
    (gemv_large_rows8_fuel fuel A vec_size remainder last aa n bb) (gemv_large_rows8 A vec_size remainder last aa n bb) m (by omega)
    (fun i hi => by simp only [Bool.and_eq_true, decide_eq_true_eq] at hi; omega)
    (fun i s _ => gemv_large_rows8_fuel_eq fuel A vec_size remainder last aa n bb i s hvs h_last h_n) fuel h_m]
  simp only [Option.some_bind]
  rw [runLoop_eq (fun i => decide (i + 1 < m)) 2
    (gemv_large_rows2_fuel fuel A vec_size remainder last aa n bb) (gemv_large_rows2 A vec_size remainder last aa n bb) m (by omega)
    (fun i hi => by simp only [Bool.and_eq_true, decide_eq_true_eq] at hi; omega)
    (fun i s _ => gemv_large_rows2_fuel_eq fuel A vec_size remainder last aa n bb i s hvs h_last h_n) fuel h_m]
  simp only [Option.some_bind]
  split
  · exact gemv_large_row1_fuel_eq fuel _ _ _ _ _ _ _ _ _ hvs h_last h_n
  · rfl

theorem gevm_small_cols8_fuel_eq {T : Type} (fuel : Nat) (A : Arith T) (vec_size : Nat) (aa : Nat → T) (m n : Nat)
    (bb : Nat → T) (j : Nat) (cc : Buffer T)
    (h_m : m ≤ fuel) :
    gevm_small_cols8_fuel fuel A vec_size aa m n bb j cc = some (gevm_small_cols8 A vec_size aa m n bb j cc) := by
  unfold gevm_small_cols8_fuel gevm_small_cols8
  try simp only []
  rw [runLoop_pure (fun k => decide (k < m)) 1 _ m (by omega)
    (fun i hi => by simp only [Bool.and_eq_true, decide_eq_true_eq] at hi; omega) fuel h_m]
  simp only [Option.some_bind]

theorem gevm_small_cols4_fuel_eq {T : Type} (fuel : Nat) (A : Arith T) (vec_size : Nat) (aa : Nat → T) (m n : Nat)
    (bb : Nat → T) (j : Nat) (cc : Buffer T)
    (h_m : m ≤ fuel) :
    gevm_small_cols4_fuel fuel A vec_size aa m n bb j cc = some (gevm_small_cols4 A vec_size aa m n bb j cc) := by
  unfold gevm_small_cols4_fuel gevm_small_cols4
  try simp only []
  rw [runLoop_pure (fun k => decide (k < m)) 1 _ m (by omega)
    (fun i hi => by simp only [Bool.and_eq_true, decide_eq_true_eq] at hi; omega) fuel h_m]
  simp only [Option.some_bind]

theorem gevm_small_cols1_fuel_eq {T : Type} (fuel : Nat) (A : Arith T) (vec_size : Nat) (aa : Nat → T) (m n : Nat)
    (bb : Nat → T) (j : Nat) (cc : Buffer T)
    (h_m : m ≤ fuel) :
    gevm_small_cols1_fuel fuel A vec_size aa m n bb j cc = some (gevm_small_cols1 A vec_size aa m n bb j cc) := by
  unfold gevm_small_cols1_fuel gevm_small_cols1
  try simp only []
  rw [runLoop_pure (fun k => decide (k < m)) 1 _ m (by omega)
    (fun i hi => by simp only [Bool.and_eq_true, decide_eq_true_eq] at hi; omega) fuel h_m]
  simp only [Option.some_bind]

theorem gevm_small_col_fuel_eq {T : Type} (fuel : Nat) (A : Arith T) (aa : Nat → T) (m n : Nat)
    (bb : Nat → T) (j : Nat) (cc : Buffer T)
    (h_m : m ≤ fuel) :
    gevm_small_col_fuel fuel A aa m n bb j cc = some (gevm_small_col A aa m n bb j cc) := by
  unfold gevm_small_col_fuel gevm_small_col
  try simp only []
  rw [runLoop_pure (fun k => decide (k < m)) 1 _ m (by omega)
    (fun i hi => by simp only [Bool.and_eq_true, decide_eq_true_eq] at hi; omega) fuel h_m]
  simp only [Option.some_bind]

theorem gevm_small_kernel_fuel_eq {T : Type} (fuel : Nat) (A : Arith T) (vec_size : Nat) (aa : Nat → T) (m n : Nat)
    (bb : Nat → T) (cc : Buffer T)
    (hvs : 0 < vec_size) (h_n : n ≤ fuel) (h_m : m ≤ fuel) :
    gevm_small_kernel_fuel fuel A vec_size aa m n bb cc = some (gevm_small_kernel A vec_size aa m n bb cc) := by
  unfold gevm_small_kernel_fuel gevm_small_kernel
  try simp only []
  rw [runLoop_eq (fun j => decide (j + vec_size * 8 - 1 < n)) (vec_size * 8)
    (gevm_small_cols8_fuel fuel A vec_size aa m n bb) (gevm_small_cols8 A vec_size aa m n bb) n (by omega)
    (fun i hi => by simp only [Bool.and_eq_true, decide_eq_true_eq] at hi; omega)
    (fun i s _ => gevm_small_cols8_fuel_eq fuel A vec_size aa m n bb i s h_m) fuel h_n]
  simp only [Option.some_bind]
  rw [runLoop_eq (fun j => decide (j + vec_size * 4 - 1 < n)) (vec_size * 4)
    (gevm_small_cols4_fuel fuel A vec_size aa m n bb) (gevm_small_cols4 A vec_size aa m n bb) n (by omega)
    (fun i hi => by simp only [Bool.and_eq_true, decide_eq_true_eq] at hi; omega)
    (fun i s _ => gevm_small_cols4_fuel_eq fuel A vec_size aa m n bb i s h_m) fuel h_n]
  simp only [Option.some_bind]
  rw [runLoop_eq (fun j => decide (j + vec_size - 1 < n)) vec_size
    (gevm_small_cols1_fuel fuel A vec_size aa m n bb) (gevm_small_cols1 A vec_size aa m n bb) n (by omega)
    (fun i hi => by simp only [Bool.and_eq_true, decide_eq_true_eq] at hi; omega)
    (fun i s _ => gevm_small_cols1_fuel_eq fuel A vec_size aa m n bb i s h_m) fuel h_n]
  simp only [Option.some_bind]
  rw [runLoop_eq (fun j => decide (j < n)) 1
    (gevm_small_col_fuel fuel A aa m n bb) (gevm_small_col A aa m n bb) n (by omega)
    (fun i hi => by simp only [Bool.and_eq_true, decide_eq_true_eq] at hi; omega)
    (fun i s _ => gevm_small_col_fuel_eq fuel A aa m n bb i s h_m) fuel h_n]
  simp only [Option.some_bind]

theorem gevm_large_cols8_fuel_eq {T : Type} (fuel : Nat) (A : Arith T) (vec_size : Nat) (aa : Nat → T) (n : Nat)
    (bb : Nat → T) (block_k m_end : Nat) (j : Nat) (cc : Buffer T)
    (h_m_end : m_end ≤ fuel) :
    gevm_large_cols8_fuel fuel A vec_size aa n bb block_k m_end j cc = some (gevm_large_cols8 A vec_size aa n bb block_k m_end j cc) := by
  unfold gevm_large_cols8_fuel gevm_large_cols8
  try simp only []
  rw [runLoop_pure (fun k => decide (k < m_end)) 1 _ m_end (by omega)
    (fun i hi => by simp only [Bool.and_eq_true, decide_eq_true_eq] at hi; omega) fuel h_m_end]
  simp only [Option.some_bind]

theorem gevm_large_cols4_fuel_eq {T : Type} (fuel : Nat) (A : Arith T) (vec_size : Nat) (aa : Nat → T) (n : Nat)
    (bb : Nat → T) (block_k m_end : Nat) (j : Nat) (cc : Buffer T)
    (h_m_end : m_end ≤ fuel) :
    gevm_large_cols4_fuel fuel A vec_size aa n bb block_k m_end j cc = some (gevm_large_cols4 A vec_size aa n bb block_k m_end j cc) := by
  unfold gevm_large_cols4_fuel gevm_large_cols4
  try simp only []
  rw [runLoop_pure (fun k => decide (k < m_end)) 1 _ m_end (by omega)
    (fun i hi => by simp only [Bool.and_eq_true, decide_eq_true_eq] at hi; omega) fuel h_m_end]
  simp only [Option.some_bind]

theorem gevm_large_cols1_fuel_eq {T : Type} (fuel : Nat) (A : Arith T) (vec_size : Nat) (aa : Nat → T) (n : Nat)
    (bb : Nat → T) (block_k m_end : Nat) (j : Nat) (cc : Buffer T)
    (h_m_end : m_end ≤ fuel) :
    gevm_large_cols1_fuel fuel A vec_size aa n bb block_k m_end j cc = some (gevm_large_cols1 A vec_size aa n bb block_k m_end j cc) := by
  unfold gevm_large_cols1_fuel gevm_large_cols1
  try simp only []
  rw [runLoop_pure (fun k => decide (k < m_end)) 1 _ m_end (by omega)
    (fun i hi => by simp only [Bool.and_eq_true, decide_eq_true_eq] at hi; omega) fuel h_m_end]
  simp only [Option.some_bind]

theorem gevm_large_col_fuel_eq {T : Type} (fuel : Nat) (A : Arith T) (aa : Nat → T) (n : Nat)
    (bb : Nat → T) (block_k m_end : Nat) (j : Nat) (cc : Buffer T)
    (h_m_end : m_end ≤ fuel) :
    gevm_large_col_fuel fuel A aa n bb block_k m_end j cc = some (gevm_large_col A aa n bb block_k m_end j cc) := by
  unfold gevm_large_col_fuel gevm_large_col
  try simp only []
  rw [runLoop_pure (fun k => decide (k < m_end)) 1 _ m_end (by omega)
    (fun i hi => by simp only [Bool.and_eq_true, decide_eq_true_eq] at hi; omega) fuel h_m_end]
  simp only [Option.some_bind]

theorem gevm_large_block_fuel_eq {T : Type} (fuel : Nat) (A : Arith T) (vec_size : Nat) (aa : Nat → T) (m n : Nat)
    (bb : Nat → T) (n_block m_block block_j : Nat) (block_k : Nat) (cc : Buffer T)
    (hvs : 0 < vec_size) (h_n : n ≤ fuel) (h_m : m ≤ fuel) :
    gevm_large_block_fuel fuel A vec_size aa m n bb n_block m_block block_j block_k cc = some (gevm_large_block A vec_size aa m n bb n_block m_block block_j block_k cc) := by
  unfold gevm_large_block_fuel gevm_large_block
  try simp only []
  have h_m_end : min (block_k + m_block) m ≤ fuel := le_trans (Nat.min_le_right _ _) h_m
  generalize min (block_k + m_block) m = m_end at h_m_end ⊢
  have h_n_end : min (block_j + n_block) n &&& neg_size_t vec_size ≤ fuel := le_trans Nat.and_le_left (le_trans (Nat.min_le_right _ _) h_n)
  generalize min (block_j + n_block) n &&& neg_size_t vec_size = n_end at h_n_end ⊢
  rw [runLoop_eq (fun j => decide (j + vec_size * 8 - 1 < n_end)) (vec_size * 8)
    (gevm_large_cols8_fuel fuel A vec_size aa n bb block_k m_end) (gevm_large_cols8 A vec_size aa n bb block_k m_end) n_end (by omega)
    (fun i hi => by simp only [Bool.and_eq_true, decide_eq_true_eq] at hi; omega)
    (fun i s _ => gevm_large_cols8_fuel_eq fuel A vec_size aa n bb block_k m_end i s h_m_end) fuel h_n_end]
  simp only [Option.some_bind]
  rw [runLoop_eq (fun j => decide (j + vec_size * 4 - 1 < n_end)) (vec_size * 4)
    (gevm_large_cols4_fuel fuel A vec_size aa n bb block_k m_end) (gevm_large_cols4 A vec_size aa n bb block_k m_end) n_end (by omega)
    (fun i hi => by simp only [Bool.and_eq_true, decide_eq_true_eq] at hi; omega)
    (fun i s _ => gevm_large_cols4_fuel_eq fuel A vec_size aa n bb block_k m_end i s h_m_end) fuel h_n_end]
  simp only [Option.some_bind]
  rw [runLoop_eq (fun j => decide (j + vec_size - 1 < n_end)) vec_size
    (gevm_large_cols1_fuel fuel A vec_size aa n bb block_k m_end) (gevm_large_cols1 A vec_size aa n bb block_k m_end) n_end (by omega)
    (fun i hi => by simp only [Bool.and_eq_true, decide_eq_true_eq] at hi; omega)
    (fun i s _ => gevm_large_cols1_fuel_eq fuel A vec_size aa n bb block_k m_end i s h_m_end) fuel h_n_end]
  simp only [Option.some_bind]
  rw [runLoop_eq (fun j => decide (j < n_end)) 1
    (gevm_large_col_fuel fuel A aa n bb block_k m_end) (gevm_large_col A aa n bb block_k m_end) n_end (by omega)
    (fun i hi => by simp only [Bool.and_eq_true, decide_eq_true_eq] at hi; omega)
    (fun i s _ => gevm_large_col_fuel_eq fuel A aa n bb block_k m_end i s h_m_end) fuel h_n_end]
  simp only [Option.some_bind]

theorem gemm_small_c8_r1_fuel_eq {T : Type} (fuel : Nat) (A : Arith T) (vec_size : Nat) (a b : Nat → T)
    (N K j : Nat) (i : Nat) (c : Buffer T)
    (h_K : K ≤ fuel) :
    gemm_small_c8_r1_fuel fuel A vec_size a b N K j i c = some (gemm_small_c8_r1 A vec_size a b N K j i c) := by
  unfold gemm_small_c8_r1_fuel gemm_small_c8_r1
  try simp only []
  rw [runLoop_pure (fun k => decide (k < K)) 1 _ K (by omega)
    (fun i hi => by simp only [Bool.and_eq_true, decide_eq_true_eq] at hi; omega) fuel h_K]
  simp only [Option.some_bind]

theorem gemm_small_c4_r2_fuel_eq {T : Type} (fuel : Nat) (A : Arith T) (vec_size : Nat) (a b : Nat → T)
    (N K j : Nat) (i : Nat) (c : Buffer T)
    (h_K : K ≤ fuel) :
    gemm_small_c4_r2_fuel fuel A vec_size a b N K j i c = some (gemm_small_c4_r2 A vec_size a b N K j i c) := by
  unfold gemm_small_c4_r2_fuel gemm_small_c4_r2
  try simp only []
  rw [runLoop_pure (fun k => decide (k < K)) 1 _ K (by omega)
    (fun i hi => by simp only [Bool.and_eq_true, decide_eq_true_eq] at hi; omega) fuel h_K]
  simp only [Option.some_bind]

theorem gemm_small_c4_r1_fuel_eq {T : Type} (fuel : Nat) (A : Arith T) (vec_size : Nat) (a b : Nat → T)
    (N K j : Nat) (i : Nat) (c : Buffer T)
    (h_K : K ≤ fuel) :
    gemm_small_c4_r1_fuel fuel A vec_size a b N K j i c = some (gemm_small_c4_r1 A vec_size a b N K j i c) := by
  unfold gemm_small_c4_r1_fuel gemm_small_c4_r1
  try simp only []
  rw [runLoop_pure (fun k => decide (k < K)) 1 _ K (by omega)
    (fun i hi => by simp only [Bool.and_eq_true, decide_eq_true_eq] at hi; omega) fuel h_K]
  simp only [Option.some_bind]

theorem gemm_small_c2_r4_fuel_eq {T : Type} (fuel : Nat) (A : Arith T) (vec_size : Nat) (a b : Nat → T)
    (N K j : Nat) (i : Nat) (c : Buffer T)
    (h_K : K ≤ fuel) :
    gemm_small_c2_r4_fuel fuel A vec_size a b N K j i c = some (gemm_small_c2_r4 A vec_size a b N K j i c) := by
  unfold gemm_small_c2_r4_fuel gemm_small_c2_r4
  try simp only []
  rw [runLoop_pure (fun k => decide (k < K)) 1 _ K (by omega)
    (fun i hi => by simp only [Bool.and_eq_true, decide_eq_true_eq] at hi; omega) fuel h_K]
  simp only [Option.some_bind]

theorem gemm_small_c2_r2_fuel_eq {T : Type} (fuel : Nat) (A : Arith T) (vec_size : Nat) (a b : Nat → T)
    (N K j : Nat) (i : Nat) (c : Buffer T)
    (h_K : K ≤ fuel) :
    gemm_small_c2_r2_fuel fuel A vec_size a b N K j i c = some (gemm_small_c2_r2 A vec_size a b N K j i c) := by
  unfold gemm_small_c2_r2_fuel gemm_small_c2_r2
  try simp only []
  rw [runLoop_pure (fun k => decide (k < K)) 1 _ K (by omega)
    (fun i hi => by simp only [Bool.and_eq_true, decide_eq_true_eq] at hi; omega) fuel h_K]
  simp only [Option.some_bind]

theorem gemm_small_c2_r1_fuel_eq {T : Type} (fuel : Nat) (A : Arith T) (vec_size : Nat) (a b : Nat → T)
    (N K j : Nat) (i : Nat) (c : Buffer T)
    (h_K : K ≤ fuel) :
    gemm_small_c2_r1_fuel fuel A vec_size a b N K j i c = some (gemm_small_c2_r1 A vec_size a b N K j i c) := by
  unfold gemm_small_c2_r1_fuel gemm_small_c2_r1
  try simp only []
  rw [runLoop_pure (fun k => decide (k < K)) 1 _ K (by omega)
    (fun i hi => by simp only [Bool.and_eq_true, decide_eq_true_eq] at hi; omega) fuel h_K]
  simp only [Option.some_bind]

theorem gemm_small_c1_r2_fuel_eq {T : Type} (fuel : Nat) (A : Arith T) (vec_size : Nat) (a b : Nat → T)
    (N K j : Nat) (i : Nat) (c : Buffer T)
    (h_K : K ≤ fuel) :
    gemm_small_c1_r2_fuel fuel A vec_size a b N K j i c = some (gemm_small_c1_r2 A vec_size a b N K j i c) := by
  unfold gemm_small_c1_r2_fuel gemm_small_c1_r2
  try simp only []
  rw [runLoop_pure (fun k => decide (k < K)) 1 _ K (by omega)
    (fun i hi => by simp only [Bool.and_eq_true, decide_eq_true_eq] at hi; omega) fuel h_K]
  simp only [Option.some_bind]

theorem gemm_small_c1_r1_fuel_eq {T : Type} (fuel : Nat) (A : Arith T) (vec_size : Nat) (a b : Nat → T)
    (N K j : Nat) (i : Nat) (c : Buffer T)
    (h_K : K ≤ fuel) :
    gemm_small_c1_r1_fuel fuel A vec_size a b N K j i c = some (gemm_small_c1_r1 A vec_size a b N K j i c) := by
  unfold gemm_small_c1_r1_fuel gemm_small_c1_r1
  try simp only []
  rw [runLoop_pure (fun k => decide (k < K)) 1 _ K (by omega)
    (fun i hi => by simp only [Bool.and_eq_true, decide_eq_true_eq] at hi; omega) fuel h_K]
  simp only [Option.some_bind]

theorem gemm_small_s2_r2_fuel_eq {T : Type} (fuel : Nat) (A : Arith T) (a b : Nat → T)
    (N K j : Nat) (i : Nat) (c : Buffer T)
    (h_K : K ≤ fuel) :
    gemm_small_s2_r2_fuel fuel A a b N K j i c = some (gemm_small_s2_r2 A a b N K j i c) := by
  unfold gemm_small_s2_r2_fuel gemm_small_s2_r2
  try simp only []
  rw [runLoop_pure (fun k => decide (k < K)) 1 _ K (by omega)
    (fun i hi => by simp only [Bool.and_eq_true, decide_eq_true_eq] at hi; omega) fuel h_K]
  simp only [Option.some_bind]

theorem gemm_small_s2_r1_fuel_eq {T : Type} (fuel : Nat) (A : Arith T) (a b : Nat → T)
    (N K j : Nat) (i : Nat) (c : Buffer T)
    (h_K : K ≤ fuel) :
    gemm_small_s2_r1_fuel fuel A a b N K j i c = some (gemm_small_s2_r1 A a b N K j i c) := by
  unfold gemm_small_s2_r1_fuel gemm_small_s2_r1
  try simp only []
  rw [runLoop_pure (fun k => decide (k < K)) 1 _ K (by omega)
    (fun i hi => by simp only [Bool.and_eq_true, decide_eq_true_eq] at hi; omega) fuel h_K]
  simp only [Option.some_bind]

theorem gemm_small_s1_r2_fuel_eq {T : Type} (fuel : Nat) (A : Arith T) (a b : Nat → T)
    (N K j : Nat) (i : Nat) (c : Buffer T)
    (h_K : K ≤ fuel) :
    gemm_small_s1_r2_fuel fuel A a b N K j i c = some (gemm_small_s1_r2 A a b N K j i c) := by
  unfold gemm_small_s1_r2_fuel gemm_small_s1_r2
  try simp only []
  rw [runLoop_pure (fun k => decide (k < K)) 1 _ K (by omega)
    (fun i hi => by simp only [Bool.and_eq_true, decide_eq_true_eq] at hi; omega) fuel h_K]
  simp only [Option.some_bind]

theorem gemm_small_s1_r1_fuel_eq {T : Type} (fuel : Nat) (A : Arith T) (a b : Nat → T)
    (N K j : Nat) (i : Nat) (c : Buffer T)
    (h_K : K ≤ fuel) :
    gemm_small_s1_r1_fuel fuel A a b N K j i c = some (gemm_small_s1_r1 A a b N K j i c) := by
  unfold gemm_small_s1_r1_fuel gemm_small_s1_r1
  try simp only []
  rw [runLoop_pure (fun k => decide (k < K)) 1 _ K (by omega)
    (fun i hi => by simp only [Bool.and_eq_true, decide_eq_true_eq] at hi; omega) fuel h_K]
  simp only [Option.some_bind]

theorem gemm_small_cols8_fuel_eq {T : Type} (fuel : Nat) (A : Arith T) (vec_size : Nat) (a b : Nat → T)
    (M N K : Nat) (j : Nat) (c : Buffer T)
    (h_M : M ≤ fuel) (h_K : K ≤ fuel) :
    gemm_small_cols8_fuel fuel A vec_size a b M N K j c = some (gemm_small_cols8 A vec_size a b M N K j c) := by
  unfold gemm_small_cols8_fuel gemm_small_cols8
  try simp only []
  rw [runLoop_eq (fun i => decide (i < M)) 1
    (gemm_small_c8_r1_fuel fuel A vec_size a b N K j) (gemm_small_c8_r1 A vec_size a b N K j) M (by omega)
    (fun i hi => by simp only [Bool.and_eq_true, decide_eq_true_eq] at hi; omega)
    (fun i s _ => gemm_small_c8_r1_fuel_eq fuel A vec_size a b N K j i s h_K) fuel h_M]
  simp only [Option.some_bind]

theorem gemm_small_cols4_fuel_eq {T : Type} (fuel : Nat) (A : Arith T) (vec_size : Nat) (a b : Nat → T)
    (M N K : Nat) (j : Nat) (c : Buffer T)
    (h_M : M ≤ fuel) (h_K : K ≤ fuel) :
    gemm_small_cols4_fuel fuel A vec_size a b M N K j c = some (gemm_small_cols4 A vec_size a b M N K j c) := by
  unfold gemm_small_cols4_fuel gemm_small_cols4
  try simp only []
  rw [runLoop_eq (fun i => decide (i + 1 < M)) 2
    (gemm_small_c4_r2_fuel fuel A vec_size a b N K j) (gemm_small_c4_r2 A vec_size a b N K j) M (by omega)
    (fun i hi => by simp only [Bool.and_eq_true, decide_eq_true_eq] at hi; omega)
    (fun i s _ => gemm_small_c4_r2_fuel_eq fuel A vec_size a b N K j i s h_K) fuel h_M]
  simp only [Option.some_bind]
  split
  · exact gemm_small_c4_r1_fuel_eq fuel _ _ _ _ _ _ _ _ _ h_K
  · rfl

theorem gemm_small_cols2_fuel_eq {T : Type} (fuel : Nat) (A : Arith T) (vec_size : Nat) (a b : Nat → T)
    (M N K : Nat) (j : Nat) (c : Buffer T)
    (h_M : M ≤ fuel) (h_K : K ≤ fuel) :
    gemm_small_cols2_fuel fuel A vec_size a b M N K j c = some (gemm_small_cols2 A vec_size a b M N K j c) := by
  unfold gemm_small_cols2_fuel gemm_small_cols2
  try simp only []
  rw [runLoop_eq (fun i => decide (i + 3 < M)) 4
    (gemm_small_c2_r4_fuel fuel A vec_size a b N K j) (gemm_small_c2_r4 A vec_size a b N K j) M (by omega)
    (fun i hi => by simp only [Bool.and_eq_true, decide_eq_true_eq] at hi; omega)
    (fun i s _ => gemm_small_c2_r4_fuel_eq fuel A vec_size a b N K j i s h_K) fuel h_M]
  simp only [Option.some_bind]
  rw [runLoop_eq (fun i => decide (i + 1 < M)) 2
    (gemm_small_c2_r2_fuel fuel A vec_size a b N K j) (gemm_small_c2_r2 A vec_size a b N K j) M (by omega)
    (fun i hi => by simp only [Bool.and_eq_true, decide_eq_true_eq] at hi; omega)
    (fun i s _ => gemm_small_c2_r2_fuel_eq fuel A vec_size a b N K j i s h_K) fuel h_M]
  simp only [Option.some_bind]
  split
  · exact gemm_small_c2_r1_fuel_eq fuel _ _ _ _ _ _ _ _ _ h_K
  · rfl

theorem gemm_small_cols1_fuel_eq {T : Type} (fuel : Nat) (A : Arith T) (vec_size : Nat) (a b : Nat → T)
    (M N K : Nat) (j : Nat) (c : Buffer T)
    (h_M : M ≤ fuel) (h_K : K ≤ fuel) :
    gemm_small_cols1_fuel fuel A vec_size a b M N K j c = some (gemm_small_cols1 A vec_size a b M N K j c) := by
  unfold gemm_small_cols1_fuel gemm_small_cols1
  try simp only []
  rw [runLoop_eq (fun i => decide (i + 1 < M)) 2
    (gemm_small_c1_r2_fuel fuel A vec_size a b N K j) (gemm_small_c1_r2 A vec_size a b N K j) M (by omega)
    (fun i hi => by simp only [Bool.and_eq_true, decide_eq_true_eq] at hi; omega)
    (fun i s _ => gemm_small_c1_r2_fuel_eq fuel A vec_size a b N K j i s h_K) fuel h_M]
  simp only [Option.some_bind]
  split
  · exact gemm_small_c1_r1_fuel_eq fuel _ _ _ _ _ _ _ _ _ h_K
  · rfl

theorem gemm_small_scalar2_fuel_eq {T : Type} (fuel : Nat) (A : Arith T) (a b : Nat → T)
    (M N K : Nat) (j : Nat) (c : Buffer T)
    (h_M : M ≤ fuel) (h_K : K ≤ fuel) :
    gemm_small_scalar2_fuel fuel A a b M N K j c = some (gemm_small_scalar2 A a b M N K j c) := by
  unfold gemm_small_scalar2_fuel gemm_small_scalar2
  try simp only []
  rw [runLoop_eq (fun i => decide (i + 1 < M)) 2
    (gemm_small_s2_r2_fuel fuel A a b N K j) (gemm_small_s2_r2 A a b N K j) M (by omega)
    (fun i hi => by simp only [Bool.and_eq_true, decide_eq_true_eq] at hi; omega)
    (fun i s _ => gemm_small_s2_r2_fuel_eq fuel A a b N K j i s h_K) fuel h_M]
  simp only [Option.some_bind]
  split
  · exact gemm_small_s2_r1_fuel_eq fuel _ _ _ _ _ _ _ _ h_K
  · rfl

theorem gemm_small_scalar1_fuel_eq {T : Type} (fuel : Nat) (A : Arith T) (a b : Nat → T)
    (M N K : Nat) (j : Nat) (c : Buffer T)
    (h_M : M ≤ fuel) (h_K : K ≤ fuel) :
    gemm_small_scalar1_fuel fuel A a b M N K j c = some (gemm_small_scalar1 A a b M N K j c) := by
  unfold gemm_small_scalar1_fuel gemm_small_scalar1
  try simp only []
  rw [runLoop_eq (fun i => decide (i + 1 < M)) 2
    (gemm_small_s1_r2_fuel fuel A a b N K j) (gemm_small_s1_r2 A a b N K j) M (by omega)
    (fun i hi => by simp only [Bool.and_eq_true, decide_eq_true_eq] at hi; omega)
    (fun i s _ => gemm_small_s1_r2_fuel_eq fuel A a b N K j i s h_K) fuel h_M]
  simp only [Option.some_bind]
  split
  · exact gemm_small_s1_r1_fuel_eq fuel _ _ _ _ _ _ _ _ h_K
  · rfl

theorem gemm_small_kernel_fuel_eq {T : Type} (fuel : Nat) (A : Arith T) (vec_size : Nat) (a b : Nat → T)
    (c : Buffer T) (M N K : Nat)
    (hvs : 0 < vec_size) (h_N : N ≤ fuel) (h_M : M ≤ fuel) (h_K : K ≤ fuel) :
    gemm_small_kernel_fuel fuel A vec_size a b c M N K = some (gemm_small_kernel A vec_size a b c M N K) := by
  unfold gemm_small_kernel_fuel gemm_small_kernel
  try simp only []
  rw [runLoop_eq (fun j => decide (j + vec_size * 8 - 1 < N)) (vec_size * 8)
    (gemm_small_cols8_fuel fuel A vec_size a b M N K) (gemm_small_cols8 A vec_size a b M N K) N (by omega)
    (fun i hi => by simp only [Bool.and_eq_true, decide_eq_true_eq] at hi; omega)
    (fun i s _ => gemm_small_cols8_fuel_eq fuel A vec_size a b M N K i s h_M h_K) fuel h_N]
  simp only [Option.some_bind]
  rw [runLoop_eq (fun j => decide (j + (4 * vec_size) - 1 < N)) (4 * vec_size)
    (gemm_small_cols4_fuel fuel A vec_size a b M N K) (gemm_small_cols4 A vec_size a b M N K) N (by omega)
    (fun i hi => by simp only [Bool.and_eq_true, decide_eq_true_eq] at hi; omega)
    (fun i s _ => gemm_small_cols4_fuel_eq fuel A vec_size a b M N K i s h_M h_K) fuel h_N]
  simp only [Option.some_bind]
  rw [runLoop_eq (fun j => decide (j + (2 * vec_size) - 1 < N)) (2 * vec_size)
    (gemm_small_cols2_fuel fuel A vec_size a b M N K) (gemm_small_cols2 A vec_size a b M N K) N (by omega)
    (fun i hi => by simp only [Bool.and_eq_true, decide_eq_true_eq] at hi; omega)
    (fun i s _ => gemm_small_cols2_fuel_eq fuel A vec_size a b M N K i s h_M h_K) fuel h_N]
  simp only [Option.some_bind]
  rw [runLoop_eq (fun j => decide (j + vec_size - 1 < N)) vec_size
    (gemm_small_cols1_fuel fuel A vec_size a b M N K) (gemm_small_cols1 A vec_size a b M N K) N (by omega)
    (fun i hi => by simp only [Bool.and_eq_true, decide_eq_true_eq] at hi; omega)
    (fun i s _ => gemm_small_cols1_fuel_eq fuel A vec_size a b M N K i s h_M h_K) fuel h_N]
  simp only [Option.some_bind]
  rw [runLoop_eq (fun j => decide (j + 1 < N)) 2
    (gemm_small_scalar2_fuel fuel A a b M N K) (gemm_small_scalar2 A a b M N K) N (by omega)
    (fun i hi => by simp only [Bool.and_eq_true, decide_eq_true_eq] at hi; omega)
    (fun i s _ => gemm_small_scalar2_fuel_eq fuel A a b M N K i s h_M h_K) fuel h_N]
  simp only [Option.some_bind]
  split
  · exact gemm_small_scalar1_fuel_eq fuel _ _ _ _ _ _ _ _ h_M h_K
  · rfl

theorem gemm_large_c4_r2_fuel_eq {T : Type} (fuel : Nat) (A : Arith T) (vec_size : Nat) (a b : Nat → T)
    (N K block_k k_end j : Nat) (i : Nat) (c : Buffer T)
    (h_k_end : k_end ≤ fuel) :
    gemm_large_c4_r2_fuel fuel A vec_size a b N K block_k k_end j i c = some (gemm_large_c4_r2 A vec_size a b N K block_k k_end j i c) := by
  unfold gemm_large_c4_r2_fuel gemm_large_c4_r2
  try simp only []
  rw [runLoop_pure (fun k => decide (k < k_end)) 1 _ k_end (by omega)
    (fun i hi => by simp only [Bool.and_eq_true, decide_eq_true_eq] at hi; omega) fuel h_k_end]
  simp only [Option.some_bind]

theorem gemm_large_c4_r1_fuel_eq {T : Type} (fuel : Nat) (A : Arith T) (vec_size : Nat) (a b : Nat → T)
    (N K block_k k_end j : Nat) (i : Nat) (c : Buffer T)
    (h_k_end : k_end ≤ fuel) :
    gemm_large_c4_r1_fuel fuel A vec_size a b N K block_k k_end j i c = some (gemm_large_c4_r1 A vec_size a b N K block_k k_end j i c) := by
  unfold gemm_large_c4_r1_fuel gemm_large_c4_r1
  try simp only []
  rw [runLoop_pure (fun k => decide (k < k_end)) 1 _ k_end (by omega)
    (fun i hi => by simp only [Bool.and_eq_true, decide_eq_true_eq] at hi; omega) fuel h_k_end]
  simp only [Option.some_bind]

theorem gemm_large_c2_r4_fuel_eq {T : Type} (fuel : Nat) (A : Arith T) (vec_size : Nat) (a b : Nat → T)
    (N K block_k k_end j : Nat) (i : Nat) (c : Buffer T)
    (h_k_end : k_end ≤ fuel) :
    gemm_large_c2_r4_fuel fuel A vec_size a b N K block_k k_end j i c = some (gemm_large_c2_r4 A vec_size a b N K block_k k_end j i c) := by
  unfold gemm_large_c2_r4_fuel gemm_large_c2_r4
  try simp only []
  rw [runLoop_pure (fun k => decide (k < k_end)) 1 _ k_end (by omega)
    (fun i hi => by simp only [Bool.and_eq_true, decide_eq_true_eq] at hi; omega) fuel h_k_end]
  simp only [Option.some_bind]

theorem gemm_large_c2_r2_fuel_eq {T : Type} (fuel : Nat) (A : Arith T) (vec_size : Nat) (a b : Nat → T)
    (N K block_k k_end j : Nat) (i : Nat) (c : Buffer T)
    (h_k_end : k_end ≤ fuel) :
    gemm_large_c2_r2_fuel fuel A vec_size a b N K block_k k_end j i c = some (gemm_large_c2_r2 A vec_size a b N K block_k k_end j i c) := by
  unfold gemm_large_c2_r2_fuel gemm_large_c2_r2
  try simp only []
  rw [runLoop_pure (fun k => decide (k < k_end)) 1 _ k_end (by omega)
    (fun i hi => by simp only [Bool.and_eq_true, decide_eq_true_eq] at hi; omega) fuel h_k_end]
  simp only [Option.some_bind]

theorem gemm_large_c2_r1_fuel_eq {T : Type} (fuel : Nat) (A : Arith T) (vec_size : Nat) (a b : Nat → T)
    (N K block_k k_end j : Nat) (i : Nat) (c : Buffer T)
    (h_k_end : k_end ≤ fuel) :
    gemm_large_c2_r1_fuel fuel A vec_size a b N K block_k k_end j i c = some (gemm_large_c2_r1 A vec_size a b N K block_k k_end j i c) := by
  unfold gemm_large_c2_r1_fuel gemm_large_c2_r1
  try simp only []
  rw [runLoop_pure (fun k => decide (k < k_end)) 1 _ k_end (by omega)
    (fun i hi => by simp only [Bool.and_eq_true, decide_eq_true_eq] at hi; omega) fuel h_k_end]
  simp only [Option.some_bind]

theorem gemm_large_c1_r1_fuel_eq {T : Type} (fuel : Nat) (A : Arith T) (vec_size : Nat) (a b : Nat → T)
    (N K block_k k_end j : Nat) (i : Nat) (c : Buffer T)
    (h_k_end : k_end ≤ fuel) :
    gemm_large_c1_r1_fuel fuel A vec_size a b N K block_k k_end j i c = some (gemm_large_c1_r1 A vec_size a b N K block_k k_end j i c) := by
  unfold gemm_large_c1_r1_fuel gemm_large_c1_r1
  try simp only []
  rw [runLoop_pure (fun k => decide (k < k_end)) 1 _ k_end (by omega)
    (fun i hi => by simp only [Bool.and_eq_true, decide_eq_true_eq] at hi; omega) fuel h_k_end]
  simp only [Option.some_bind]

theorem gemm_large_s1_r1_fuel_eq {T : Type} (fuel : Nat) (A : Arith T) (a b : Nat → T)
    (N K block_k k_end j : Nat) (i : Nat) (c : Buffer T)
    (h_k_end : k_end ≤ fuel) :
    gemm_large_s1_r1_fuel fuel A a b N K block_k k_end j i c = some (gemm_large_s1_r1 A a b N K block_k k_end j i c) := by
  unfold gemm_large_s1_r1_fuel gemm_large_s1_r1
  try simp only []
  rw [runLoop_pure (fun k => decide (k < k_end)) 1 _ k_end (by omega)
    (fun i hi => by simp only [Bool.and_eq_true, decide_eq_true_eq] at hi; omega) fuel h_k_end]
  simp only [Option.some_bind]

theorem gemm_large_cols4_fuel_eq {T : Type} (fuel : Nat) (A : Arith T) (vec_size : Nat) (a b : Nat → T)
    (N K block_k k_end block_i i_end : Nat) (j : Nat) (c : Buffer T)
    (h_i_end : i_end ≤ fuel) (h_k_end : k_end ≤ fuel) :
    gemm_large_cols4_fuel fuel A vec_size a b N K block_k k_end block_i i_end j c = some (gemm_large_cols4 A vec_size a b N K block_k k_end block_i i_end j c) := by
  unfold gemm_large_cols4_fuel gemm_large_cols4
  try simp only []
  rw [runLoop_eq (fun i => decide (i + 1 < i_end)) 2
    (gemm_large_c4_r2_fuel fuel A vec_size a b N K block_k k_end j) (gemm_large_c4_r2 A vec_size a b N K block_k k_end j) i_end (by omega)
    (fun i hi => by simp only [Bool.and_eq_true, decide_eq_true_eq] at hi; omega)
    (fun i s _ => gemm_large_c4_r2_fuel_eq fuel A vec_size a b N K block_k k_end j i s h_k_end) fuel h_i_end]
  simp only [Option.some_bind]
  split
  · exact gemm_large_c4_r1_fuel_eq fuel _ _ _ _ _ _ _ _ _ _ _ h_k_end
  · rfl

theorem gemm_large_cols2_fuel_eq {T : Type} (fuel : Nat) (A : Arith T) (vec_size : Nat) (a b : Nat → T)
    (N K block_k k_end block_i i_end : Nat) (j : Nat) (c : Buffer T)
    (h_i_end : i_end ≤ fuel) (h_k_end : k_end ≤ fuel) :
    gemm_large_cols2_fuel fuel A vec_size a b N K block_k k_end block_i i_end j c = some (gemm_large_cols2 A vec_size a b N K block_k k_end block_i i_end j c) := by
  unfold gemm_large_cols2_fuel gemm_large_cols2
  try simp only []
  rw [runLoop_eq (fun i => decide (i + 3 < i_end)) 4
    (gemm_large_c2_r4_fuel fuel A vec_size a b N K block_k k_end j) (gemm_large_c2_r4 A vec_size a b N K block_k k_end j) i_end (by omega)
    (fun i hi => by simp only [Bool.and_eq_true, decide_eq_true_eq] at hi; omega)
    (fun i s _ => gemm_large_c2_r4_fuel_eq fuel A vec_size a b N K block_k k_end j i s h_k_end) fuel h_i_end]
  simp only [Option.some_bind]
  rw [runLoop_eq (fun i => decide (i + 2 - 1 < i_end)) 2
    (gemm_large_c2_r2_fuel fuel A vec_size a b N K block_k k_end j) (gemm_large_c2_r2 A vec_size a b N K block_k k_end j) i_end (by omega)
    (fun i hi => by simp only [Bool.and_eq_true, decide_eq_true_eq] at hi; omega)
    (fun i s _ => gemm_large_c2_r2_fuel_eq fuel A vec_size a b N K block_k k_end j i s h_k_end) fuel h_i_end]
  simp only [Option.some_bind]
  split
  · exact gemm_large_c2_r1_fuel_eq fuel _ _ _ _ _ _ _ _ _ _ _ h_k_end
  · rfl

theorem gemm_large_cols1_fuel_eq {T : Type} (fuel : Nat) (A : Arith T) (vec_size : Nat) (a b : Nat → T)
    (N K block_k k_end block_i i_end : Nat) (j : Nat) (c : Buffer T)
    (h_i_end : i_end ≤ fuel) (h_k_end : k_end ≤ fuel) :
    gemm_large_cols1_fuel fuel A vec_size a b N K block_k k_end block_i i_end j c = some (gemm_large_cols1 A vec_size a b N K block_k k_end block_i i_end j c) := by
  unfold gemm_large_cols1_fuel gemm_large_cols1
  try simp only []
  rw [runLoop_eq (fun i => decide (i < i_end)) 1
    (gemm_large_c1_r1_fuel fuel A vec_size a b N K block_k k_end j) (gemm_large_c1_r1 A vec_size a b N K block_k k_end j) i_end (by omega)
    (fun i hi => by simp only [Bool.and_eq_true, decide_eq_true_eq] at hi; omega)
    (fun i s _ => gemm_large_c1_r1_fuel_eq fuel A vec_size a b N K block_k k_end j i s h_k_end) fuel h_i_end]
  simp only [Option.some_bind]

theorem gemm_large_scalar1_fuel_eq {T : Type} (fuel : Nat) (A : Arith T) (a b : Nat → T)
    (N K block_k k_end block_i i_end : Nat) (j : Nat) (c : Buffer T)
    (h_i_end : i_end ≤ fuel) (h_k_end : k_end ≤ fuel) :
    gemm_large_scalar1_fuel fuel A a b N K block_k k_end block_i i_end j c = some (gemm_large_scalar1 A a b N K block_k k_end block_i i_end j c) := by
  unfold gemm_large_scalar1_fuel gemm_large_scalar1
  try simp only []
  rw [runLoop_eq (fun i => decide (i < i_end)) 1
    (gemm_large_s1_r1_fuel fuel A a b N K block_k k_end j) (gemm_large_s1_r1 A a b N K block_k k_end j) i_end (by omega)
    (fun i hi => by simp only [Bool.and_eq_true, decide_eq_true_eq] at hi; omega)
    (fun i s _ => gemm_large_s1_r1_fuel_eq fuel A a b N K block_k k_end j i s h_k_end) fuel h_i_end]
  simp only [Option.some_bind]

theorem gemm_large_block_fuel_eq {T : Type} (fuel : Nat) (A : Arith T) (vec_size : Nat) (a b : Nat → T)
    (N K k_block_size block_j j_end block_i i_end : Nat) (block_k : Nat) (c : Buffer T)
    (hvs : 0 < vec_size) (h_j_end : j_end ≤ fuel) (h_i_end : i_end ≤ fuel) (h_K : K ≤ fuel) :
    gemm_large_block_fuel fuel A vec_size a b N K k_block_size block_j j_end block_i i_end block_k c = some (gemm_large_block A vec_size a b N K k_block_size block_j j_end block_i i_end block_k c) := by
  unfold gemm_large_block_fuel gemm_large_block
  try simp only []
  have h_k_end : min (block_k + k_block_size) K ≤ fuel := le_trans (Nat.min_le_right _ _) h_K
  generalize min (block_k + k_block_size) K = k_end at h_k_end ⊢
  rw [runLoop_eq (fun j => decide (j + vec_size * 4 - 1 < j_end)) (vec_size * 4)
    (gemm_large_cols4_fuel fuel A vec_size a b N K block_k k_end block_i i_end) (gemm_large_cols4 A vec_size a b N K block_k k_end block_i i_end) j_end (by omega)
    (fun i hi => by simp only [Bool.and_eq_true, decide_eq_true_eq] at hi; omega)
    (fun i s _ => gemm_large_cols4_fuel_eq fuel A vec_size a b N K block_k k_end block_i i_end i s h_i_end h_k_end) fuel h_j_end]
  simp only [Option.some_bind]
  rw [runLoop_eq (fun j => decide (j + vec_size * 2 - 1 < j_end)) (vec_size * 2)
    (gemm_large_cols2_fuel fuel A vec_size a b N K block_k k_end block_i i_end) (gemm_large_cols2 A vec_size a b N K block_k k_end block_i i_end) j_end (by omega)
    (fun i hi => by simp only [Bool.and_eq_true, decide_eq_true_eq] at hi; omega)
    (fun i s _ => gemm_large_cols2_fuel_eq fuel A vec_size a b N K block_k k_end block_i i_end i s h_i_end h_k_end) fuel h_j_end]
  simp only [Option.some_bind]
  rw [runLoop_eq (fun j => decide (j + vec_size - 1 < j_end)) vec_size
    (gemm_large_cols1_fuel fuel A vec_size a b N K block_k k_end block_i i_end) (gemm_large_cols1 A vec_size a b N K block_k k_end block_i i_end) j_end (by omega)
    (fun i hi => by simp only [Bool.and_eq_true, decide_eq_true_eq] at hi; omega)
    (fun i s _ => gemm_large_cols1_fuel_eq fuel A vec_size a b N K block_k k_end block_i i_end i s h_i_end h_k_end) fuel h_j_end]
  simp only [Option.some_bind]
  rw [runLoop_eq (fun j => decide (j < j_end)) 1
    (gemm_large_scalar1_fuel fuel A a b N K block_k k_end block_i i_end) (gemm_large_scalar1 A a b N K block_k k_end block_i i_end) j_end (by omega)
    (fun i hi => by simp only [Bool.and_eq_true, decide_eq_true_eq] at hi; omega)
    (fun i s _ => gemm_large_scalar1_fuel_eq fuel A a b N K block_k k_end block_i i_end i s h_i_end h_k_end) fuel h_j_end]
  simp only [Option.some_bind]

theorem gevm_large_kernel_fuel_eq {T : Type} (fuel : Nat) (A : Arith T)
    (vec_size sizeof_T : Nat) (aa : Nat → T) (m n : Nat) (bb : Nat → T) (cc : Buffer T)
    (hvs : 0 < vec_size) (hs : 0 < (32 * 1024) / sizeof_T) (h_m : m ≤ fuel) (h_n : n ≤ fuel) :
    gevm_large_kernel_fuel fuel A vec_size sizeof_T aa m n bb cc =
      some (gevm_large_kernel A vec_size sizeof_T aa m n bb cc) := by
  unfold gevm_large_kernel_fuel gevm_large_kernel
  simp only []
  generalize (32 * 1024) / sizeof_T = nb at hs ⊢
  have hmb : 0 < (if n < nb then 8 else 4) := by split <;> decide
  generalize (if n < nb then 8 else 4) = mb at hmb ⊢
  rw [runLoop_eq (fun block_j => decide (block_j < n)) nb
    (fun block_j cc =>
      (runLoop fuel (fun block_k => decide (block_k < m)) mb
        (gevm_large_block_fuel fuel A vec_size aa m n bb nb mb block_j) 0 cc).bind
        fun w => some w.2)
    (fun block_j cc =>
      (forLoop m (fun block_k => decide (block_k < m)) mb
        (gevm_large_block A vec_size aa m n bb nb mb block_j) 0 cc).2)
    n hs (fun i hi => by simp only [decide_eq_true_eq] at hi; omega)
    (fun bj c _ => by
      dsimp only
      rw [runLoop_eq (fun block_k => decide (block_k < m)) mb
        (gevm_large_block_fuel fuel A vec_size aa m n bb nb mb bj)
        (gevm_large_block A vec_size aa m n bb nb mb bj) m hmb
        (fun i hi => by simp only [decide_eq_true_eq] at hi; omega)
        (fun i s _ => gevm_large_block_fuel_eq fuel A vec_size aa m n bb nb mb bj i s hvs
          h_n h_m) fuel h_m]
      rfl)
    fuel h_n]
  rfl

theorem gemm_large_zero_fuel_eq {T : Type} (fuel : Nat) (A : Arith T)
    (N block_j j_end block_i i_end : Nat) (c : Buffer T)
    (h_i_end : i_end ≤ fuel) (h_j_end : j_end ≤ fuel) :
    gemm_large_zero_fuel fuel A N block_j j_end block_i i_end c =
      some (gemm_large_zero A N block_j j_end block_i i_end c) := by
  unfold gemm_large_zero_fuel gemm_large_zero
  rw [runLoop_eq (fun i => decide (i < i_end)) 1
    (fun i (c : Buffer T) =>
      (runLoop fuel (fun j => decide (j < j_end)) 1
        (fun j (c : Buffer T) => some (c.write (i * N + j) A.zero)) block_j c).bind
        fun w => some w.2)
    (fun i (c : Buffer T) =>
      (forLoop j_end (fun j => decide (j < j_end)) 1
        (fun j (c : Buffer T) => c.write (i * N + j) A.zero) block_j c).2)
    i_end Nat.one_pos (fun i hi => by simp only [decide_eq_true_eq] at hi; omega)
    (fun i c _ => by
      dsimp only
      rw [runLoop_pure (fun j => decide (j < j_end)) 1 _ j_end Nat.one_pos
        (fun i hi => by simp only [decide_eq_true_eq] at hi; omega) fuel h_j_end]
      rfl)
    fuel h_i_end]
  rfl

theorem gemm_large_tile_fuel_eq {T : Type} (fuel : Nat) (A : Arith T) (vec_size : Nat)
    (a b : Nat → T) (M N K m_block_size k_block_size block_j j_end : Nat) (block_i : Nat)
    (c : Buffer T) (hvs : 0 < vec_size) (hkbs : 0 < k_block_size)
    (h_M : M ≤ fuel) (h_K : K ≤ fuel) (h_j_end : j_end ≤ fuel) :
    gemm_large_tile_fuel fuel A vec_size a b M N K m_block_size k_block_size block_j j_end
        block_i c =
      some (gemm_large_tile A vec_size a b M N K m_block_size k_block_size block_j j_end
        block_i c) := by
  unfold gemm_large_tile_fuel gemm_large_tile
  simp only []
  have h_i_end : min (block_i + m_block_size) M ≤ fuel := le_trans (Nat.min_le_right _ _) h_M
  generalize min (block_i + m_block_size) M = i_end at h_i_end ⊢
  rw [gemm_large_zero_fuel_eq fuel A N block_j j_end block_i i_end c h_i_end h_j_end]
  simp only [Option.some_bind]
  rw [runLoop_eq (fun block_k => decide (block_k < K)) k_block_size
    (gemm_large_block_fuel fuel A vec_size a b N K k_block_size block_j j_end block_i i_end)
    (gemm_large_block A vec_size a b N K k_block_size block_j j_end block_i i_end)
    K hkbs (fun i hi => by simp only [decide_eq_true_eq] at hi; omega)
    (fun i s _ => gemm_large_block_fuel_eq fuel A vec_size a b N K k_block_size block_j j_end
      block_i i_end i s hvs h_j_end h_i_end h_K) fuel h_K]
  rfl

theorem gemm_large_kernel_fuel_eq {T : Type} (fuel : Nat) (A : Arith T) (vec_size : Nat)
    (a b : Nat → T) (c : Buffer T) (M N K : Nat) (hvs : 0 < vec_size)
    (h_M : M ≤ fuel) (h_N : N ≤ fuel) (h_K : K ≤ fuel) :
    gemm_large_kernel_fuel fuel A vec_size a b c M N K =
      some (gemm_large_kernel A vec_size a b c M N K) := by
  unfold gemm_large_kernel_fuel gemm_large_kernel
  simp only []
  rw [runLoop_eq (fun block_j => decide (block_j < N)) 128
    (fun block_j c =>
      (runLoop fuel (fun block_i => decide (block_i < M)) 64
        (gemm_large_tile_fuel fuel A vec_size a b M N K 64 128 block_j
          (min (block_j + 128) N)) 0 c).bind fun w => some w.2)
    (fun block_j c =>
      (forLoop M (fun block_i => decide (block_i < M)) 64
        (gemm_large_tile A vec_size a b M N K 64 128 block_j (min (block_j + 128) N)) 0 c).2)
    N (by decide) (fun i hi => by simp only [decide_eq_true_eq] at hi; omega)
    (fun bj c _ => by
      dsimp only
      rw [runLoop_eq (fun block_i => decide (block_i < M)) 64
        (gemm_large_tile_fuel fuel A vec_size a b M N K 64 128 bj (min (bj + 128) N))
        (gemm_large_tile A vec_size a b M N K 64 128 bj (min (bj + 128) N)) M (by decide)
        (fun i hi => by simp only [decide_eq_true_eq] at hi; omega)
        (fun i s _ => gemm_large_tile_fuel_eq fuel A vec_size a b M N K 64 128 bj
          (min (bj + 128) N) i s hvs (by decide) h_M h_K
          (le_trans (Nat.min_le_right _ _) h_N)) fuel h_M]
      rfl)
    fuel h_N]
  rfl

/-- C25: for all dimensions (zero included) and every `vec_size ≥ 1`, each of the six
kernels, run with every loop on an explicit fuel, gives a result as soon as the fuel is
at least the dimensions its loops are bounded by (`m` and `n`, or `M`, `N` and `K`),
and that result is the one of the kernel: no loop runs out of fuel, each having a
positive step and a condition that bounds its index.  For `gevm_large_kernel` the step
`n_block = (32 * 1024) / sizeof(T)` of its outer loop is taken to be positive. -/
theorem kernels_terminate {T : Type} (A : Arith T) (vec_size sizeof_T : Nat)
    (hvs : 1 ≤ vec_size) (adv padded : Bool) (aa bb a b : Nat → T) (cc c : Buffer T)
    (m n M N K : Nat) :
    (∀ fuel, m ≤ fuel → n ≤ fuel →
      gemv_small_kernel_fuel fuel A vec_size adv padded aa m n bb cc =
        some (gemv_small_kernel A vec_size adv padded aa m n bb cc) ∧
      gemv_large_kernel_fuel fuel A vec_size adv padded aa m n bb cc =
        some (gemv_large_kernel A vec_size adv padded aa m n bb cc) ∧
      gevm_small_kernel_fuel fuel A vec_size aa m n bb cc =
        some (gevm_small_kernel A vec_size aa m n bb cc) ∧
      (0 < (32 * 1024) / sizeof_T →
        gevm_large_kernel_fuel fuel A vec_size sizeof_T aa m n bb cc =
          some (gevm_large_kernel A vec_size sizeof_T aa m n bb cc))) ∧
    (∀ fuel, M ≤ fuel → N ≤ fuel → K ≤ fuel →
      gemm_small_kernel_fuel fuel A vec_size a b c M N K =
        some (gemm_small_kernel A vec_size a b c M N K) ∧
      gemm_large_kernel_fuel fuel A vec_size a b c M N K =
        some (gemm_large_kernel A vec_size a b c M N K)) :=
  ⟨fun fuel h_m h_n =>
    ⟨gemv_small_kernel_fuel_eq fuel A vec_size adv padded aa m n bb cc hvs h_m h_n,
     gemv_large_kernel_fuel_eq fuel A vec_size adv padded aa m n bb cc hvs h_m h_n,
     gevm_small_kernel_fuel_eq fuel A vec_size aa m n bb cc hvs h_n h_m,
     fun hs => gevm_large_kernel_fuel_eq fuel A vec_size sizeof_T aa m n bb cc hvs hs h_m h_n⟩,
   fun fuel h_M h_N h_K =>
    ⟨gemm_small_kernel_fuel_eq fuel A vec_size a b c M N K hvs h_N h_M h_K,
     gemm_large_kernel_fuel_eq fuel A vec_size a b c M N K hvs h_M h_N h_K⟩⟩

/-- Witness of C25: `gevm_large_kernel` on a 3 x 5 matrix with 2 lanes and
`sizeof(T) = 4`, and `gemm_large_kernel` on a 2 x 3 by 3 x 5 product, with the fuel 5. -/
theorem kernels_terminate_witness :
    gevm_large_kernel_fuel 5 (Arith.exact Int) 2 4 (fun x => (x : Int)) 3 5
        (fun x => (x : Int) + 1) ⟨fun _ => 0, fun _ => 0⟩ =
      some (gevm_large_kernel (Arith.exact Int) 2 4 (fun x => (x : Int)) 3 5
        (fun x => (x : Int) + 1) ⟨fun _ => 0, fun _ => 0⟩) ∧
    gemm_large_kernel_fuel 5 (Arith.exact Int) 2 (fun x => (x : Int)) (fun x => (x : Int) + 1)
        ⟨fun _ => 0, fun _ => 0⟩ 2 5 3 =
      some (gemm_large_kernel (Arith.exact Int) 2 (fun x => (x : Int)) (fun x => (x : Int) + 1)
        ⟨fun _ => 0, fun _ => 0⟩ 2 5 3) :=
  ⟨((kernels_terminate (Arith.exact Int) 2 4 (by decide) false false (fun x => (x : Int))
      (fun x => (x : Int) + 1) (fun x => (x : Int)) (fun x => (x : Int) + 1)
      ⟨fun _ => 0, fun _ => 0⟩ ⟨fun _ => 0, fun _ => 0⟩ 3 5 2 5 3).1 5 (by decide)
      (by decide)).2.2.2 (by decide),
   ((kernels_terminate (Arith.exact Int) 2 4 (by decide) false false (fun x => (x : Int))
      (fun x => (x : Int) + 1) (fun x => (x : Int)) (fun x => (x : Int) + 1)
      ⟨fun _ => 0, fun _ => 0⟩ ⟨fun _ => 0, fun _ => 0⟩ 3 5 2 5 3).2 5 (by decide)
      (by decide) (by decide)).2⟩

/-! ## Compile-time helpers of `tmp.hpp` -/

theorem mul_all_mod (Dims : List Nat) (F : Nat) :
    mul_all F Dims % 2 ^ 64 = (F * Dims.prod) % 2 ^ 64 := by
  induction Dims generalizing F with
  | nil => simp [mul_all]
  | cons d ds ih =>
    simp only [mul_all, List.prod_cons, Nat.mod_mod]
    rw [Nat.mul_mod, ih d, ← Nat.mul_mod]

theorem nth_size_from (S : Nat) (hS : S < 2 ^ 64) (Dims : List Nat) :
    ∀ I F, I ≤ S → nth_size S I F Dims = (F :: Dims)[S - I]? := by
  induction Dims with
  | nil =>
    intro I F hI
    by_cases h : S = I
    · subst h; simp [nth_size]
    · have h2 : S - I = (S - I - 1) + 1 := by omega
      rw [h2]; simp [nth_size, h]
  | cons d ds ih =>
    intro I F hI
    by_cases h : S = I
    · subst h; simp [nth_size]
    · have h2 : S - I = (S - (I + 1)) + 1 := by omega
      have h3 : (I + 1) % 2 ^ 64 = I + 1 := Nat.mod_eq_of_lt (by omega)
      rw [nth_size, if_neg h, h3, h2, List.getElem?_cons_succ]
      exact ih (I + 1) d (by omega)

theorem digit_char_isDigit (d : Nat) (h : d < 10) : (digit_char d).isDigit = true := by
  interval_cases d <;> decide

theorem digit_char_toNat (d : Nat) (h : d < 10) : (digit_char d).toNat - 48 = d := by
  interval_cases d <;> decide

theorem digit_char_ne_comma (d : Nat) (h : d < 10) : digit_char d ≠ ',' := by
  interval_cases d <;> decide

theorem to_string_digits_renders (fuel : Nat) :
    ∀ v acc, v < 10 ^ (fuel + 1) →
      ∃ ds, to_string_digits (fuel + 1) v acc = ds ++ acc ∧ Renders ds v := by
  induction fuel with
  | zero =>
    intro v acc hv
    have hv10 : v < 10 := by simpa using hv
    refine ⟨[digit_char v], ?_, by simp, ?_, ?_⟩
    · have h0 : v / 10 = 0 := Nat.div_eq_of_lt hv10
      have h1 : v % 10 = v := Nat.mod_eq_of_lt hv10
      simp [to_string_digits, h0, h1]
    · intro c hc
      rw [List.mem_singleton] at hc
      subst hc
      exact ⟨digit_char_isDigit v hv10, digit_char_ne_comma v hv10⟩
    · intro a
      simp [parse_digits, digit_char_isDigit v hv10, digit_char_toNat v hv10]
      ring
  | succ fuel ih =>
    intro v acc hv
    have hm : v % 10 < 10 := Nat.mod_lt _ (by decide)
    by_cases h0 : v / 10 = 0
    · have hv10 : v < 10 := by omega
      have h1 : v % 10 = v := Nat.mod_eq_of_lt hv10
      refine ⟨[digit_char v], ?_, by simp, ?_, ?_⟩
      · rw [to_string_digits]; simp [h0, h1]
      · intro c hc
        rw [List.mem_singleton] at hc
        subst hc
        exact ⟨digit_char_isDigit v hv10, digit_char_ne_comma v hv10⟩
      · intro a
        simp [parse_digits, digit_char_isDigit v hv10, digit_char_toNat v hv10]
        ring
    · have hq : v / 10 < 10 ^ (fuel + 1) := by
        rw [Nat.div_lt_iff_lt_mul (by decide)]
        calc v < 10 ^ (fuel + 1 + 1) := hv
          _ = 10 ^ (fuel + 1) * 10 := by ring
      obtain ⟨ds, hds, hne, hdig, hval⟩ := ih (v / 10) (digit_char (v % 10) :: acc) hq
      refine ⟨ds ++ [digit_char (v % 10)], ?_, by simp, ?_, ?_⟩
      · rw [to_string_digits]; simp only [h0, if_false]
        rw [hds]; simp
      · intro c hc
        rcases List.mem_append.1 hc with hc | hc
        · exact hdig c hc
        · rw [List.mem_singleton] at hc
          subst hc
          exact ⟨digit_char_isDigit _ hm, digit_char_ne_comma _ hm⟩
      · intro a
        have happ : ∀ (xs ys : List Char) (b : Nat) (r : Nat),
            parse_digits xs b = some r →
            parse_digits (xs ++ ys) b = parse_digits ys r := by
          intro xs
          induction xs with
          | nil => intro ys b r h; simp [parse_digits] at h; subst h; rfl
          | cons x xs ihx =>
            intro ys b r h
            by_cases hx : x.isDigit = true
            · simp only [parse_digits, hx, if_true, List.cons_append] at h ⊢
              exact ihx ys _ r h
            · simp [parse_digits, hx] at h
        rw [happ ds _ a _ (hval a)]
        simp only [parse_digits, digit_char_isDigit _ hm, digit_char_toNat _ hm, if_true,
          List.length_append, List.length_singleton]
        congr 1
        have := Nat.div_add_mod v 10
        rw [pow_succ]
        nlinarith [Nat.div_add_mod v 10]

theorem lt_ten_pow (v : Nat) : v < 10 ^ (v + 1) :=
  lt_trans (Nat.lt_pow_self (by decide) v) (Nat.pow_lt_pow_right (by decide) (Nat.lt_succ_self v))

theorem to_string_renders (v : Nat) : Renders (to_string v) v := by
  obtain ⟨ds, hds, h⟩ := to_string_digits_renders v v [] (lt_ten_pow v)
  rw [List.append_nil] at hds
  unfold to_string
  rw [hds]; exact h

theorem parse_size_to_string (v : Nat) : parse_size (to_string v) = some v := by
  obtain ⟨hne, _, hval⟩ := to_string_renders v
  unfold parse_size
  rw [if_neg hne, hval 0]; simp

theorem comma_not_mem_to_string (v : Nat) : ',' ∉ to_string v :=
  fun h => ((to_string_renders v).2.1 _ h).2 rfl

theorem concat_sizes_loop (rest : List Nat) (result : List Char) :
    (rest.foldl (fun (st : List Char × List Char) (v : Nat) =>
        let result := st.1 ++ st.2
        let result := result ++ to_string v
        (result, [','])) (result, [','])).1 =
      result ++ (rest.map (fun v => ',' :: to_string v)).flatten := by
  induction rest generalizing result with
  | nil => simp
  | cons v vs ih =>
    rw [List.foldl_cons]
    dsimp only
    rw [ih]
    simp

theorem concat_sizes_cons (s : Nat) (rest : List Nat) :
    concat_sizes (s :: rest) =
      to_string s ++ (rest.map (fun v => ',' :: to_string v)).flatten := by
  unfold concat_sizes
  rw [List.foldl_cons]
  dsimp only
  rw [concat_sizes_loop]
  simp

theorem flatten_eq_intercalate (p : List Char) (ps : List (List Char)) :
    p ++ (ps.map (fun q => ',' :: q)).flatten = [','].intercalate (p :: ps) := by
  induction ps generalizing p with
  | nil => simp [List.intercalate]
  | cons q qs ih =>
    have h := ih q
    simp only [List.intercalate, List.intersperse, List.map_cons, List.flatten_cons] at h ⊢
    rw [← h]
    simp

theorem concat_sizes_intercalate (s : Nat) (rest : List Nat) :
    concat_sizes (s :: rest) = [','].intercalate ((s :: rest).map to_string) := by
  rw [concat_sizes_cons, List.map_cons, ← flatten_eq_intercalate, List.map_map]
  rfl

theorem count_comma_to_string (v : Nat) : (to_string v).count ',' = 0 :=
  List.count_eq_zero.2 (comma_not_mem_to_string v)

theorem count_comma_tail (rest : List Nat) :
    ((rest.map (fun v => ',' :: to_string v)).flatten).count ',' = rest.length := by
  induction rest with
  | nil => simp
  | cons v vs ih =>
    simp only [List.map_cons, List.flatten_cons, List.count_append, ih, List.length_cons]
    rw [List.count_cons_self, count_comma_to_string]
    omega

theorem head_to_string_ne_comma (v : Nat) (l : List Char) :
    (to_string v ++ l).head? ≠ some ',' := by
  rw [List.head?_append_of_ne_nil _ (to_string_renders v).1]
  intro h
  exact comma_not_mem_to_string v (List.mem_of_mem_head? h)

theorem last_to_string_ne_comma (v : Nat) (l : List Char) :
    (l ++ to_string v).getLast? ≠ some ',' := by
  rw [List.getLast?_append_of_ne_nil _ (to_string_renders v).1]
  intro h
  obtain ⟨ys, hys⟩ := List.getLast?_eq_some_iff.1 h
  exact comma_not_mem_to_string v (by rw [hys]; simp)

theorem concat_sizes_ends (s : Nat) (rest : List Nat) :
    ∃ l w, concat_sizes (s :: rest) = l ++ to_string w := by
  rcases List.eq_nil_or_concat rest with h | ⟨L, b, h⟩
  · subst h
    exact ⟨[], s, by rw [concat_sizes_cons]; simp⟩
  · subst h
    refine ⟨to_string s ++ (L.map (fun v => ',' :: to_string v)).flatten ++ [','], b, ?_⟩
    rw [concat_sizes_cons]; simp


/-- C31: `nth_size` selects the `S`-th dimension: for a pack `F, Dims...` (so never
empty) of `n + 1` sizes and every `S ≤ n` (a `std::size_t`),
`nth_size<S, 0, F, Dims...>::value` is the size at position `S` of the pack.  The
recursion stops with the head `F` when `I = S`, and only then: for `I ≠ S` it drops the
head and goes on with `I + 1`, and has no value on a pack of one size. -/
theorem nth_size_selects (S F : Nat) (Dims : List Nat) (hS : S < 2 ^ 64)
    (hn : S ≤ Dims.length) :
    nth_size S 0 F Dims = some ((F :: Dims).get ⟨S, Nat.lt_succ_of_le hn⟩) ∧
    (∀ I, nth_size I I F Dims = some F) ∧
    (∀ I d ds, I ≠ S → I + 1 < 2 ^ 64 →
      nth_size S I F (d :: ds) = nth_size S (I + 1) d ds) ∧
    (∀ I, I ≠ S → nth_size S I F [] = none) := by
  refine ⟨?_, ?_, ?_, ?_⟩
  · rw [nth_size_from S hS Dims 0 F (Nat.zero_le S), Nat.sub_zero]
    have hlt : S < (F :: Dims).length := Nat.lt_succ_of_le hn
    exact List.getElem?_eq_getElem hlt
  · intro I
    cases Dims <;> simp [nth_size]
  · intro I d ds hI hI2
    rw [nth_size, if_neg (fun h => hI h.symm), Nat.mod_eq_of_lt hI2]
  · intro I hI
    rw [nth_size, if_neg (fun h => hI h.symm)]

/-- Witness of C31: the size at position 2 of the pack 5, 6, 7, 8 is 7. -/
theorem nth_size_selects_witness : nth_size 2 0 5 [6, 7, 8] = some 7 :=
  (nth_size_selects 2 5 [6, 7, 8] (by decide) (by decide)).1

/-- C32: `mul_all` is the product of its arguments: for a pack `F, Dims...` (so never
empty) of `std::size_t` sizes, `mul_all<F, Dims...>::value` is the product of all of
them modulo `2^64`, and `mul_all<F>::value` is `F`. -/
theorem mul_all_product (F : Nat) (Dims : List Nat) (h : ∀ d ∈ F :: Dims, d < 2 ^ 64) :
    mul_all F Dims = (F :: Dims).prod % 2 ^ 64 ∧ mul_all F [] = F := by
  refine ⟨?_, rfl⟩
  cases Dims with
  | nil =>
    have hF : F < 2 ^ 64 := h F (List.mem_cons_self _ _)
    rw [mul_all, List.prod_singleton, Nat.mod_eq_of_lt hF]
  | cons d ds =>
    rw [mul_all, Nat.mul_mod, mul_all_mod, ← Nat.mul_mod]
    simp

/-- Witness of C32: the product `2^32 * 2^32 * 3` wraps to 0, and `2 * 3 * 4` is 24. -/
theorem mul_all_product_witness :
    mul_all (2 ^ 32) [2 ^ 32, 3] = 0 ∧ mul_all 2 [3, 4] = 24 :=
  ⟨(mul_all_product (2 ^ 32) [2 ^ 32, 3] (by decide)).1,
   (mul_all_product 2 [3, 4] (by decide)).1⟩

/-- C33: `concat_sizes` joins decimal renderings with single commas: for sizes
`s, rest...`, the result is the decimal string of `s`, then for each later size a `','`
followed by its decimal string.  The decimal string of a size is a non-empty string of
digits that parses back to the size, so the result neither starts nor ends with a
separator, it holds as many commas as there are later sizes (`n - 1` for `n` sizes), and
splitting it on `','` and parsing each piece gives back the sizes.  With no size at all
the loop does not run and the result is the empty string. -/
theorem concat_sizes_joins (s : Nat) (rest : List Nat) :
    concat_sizes (s :: rest) =
      to_string s ++ (rest.map (fun v => ',' :: to_string v)).flatten ∧
    (∀ v, to_string v ≠ [] ∧ (∀ c ∈ to_string v, c.isDigit = true) ∧
      parse_size (to_string v) = some v) ∧
    (concat_sizes (s :: rest)).head? ≠ some ',' ∧
    (concat_sizes (s :: rest)).getLast? ≠ some ',' ∧
    (concat_sizes (s :: rest)).count ',' + 1 = (s :: rest).length ∧
    ((concat_sizes (s :: rest)).splitOn ',').map parse_size = (s :: rest).map some ∧
    concat_sizes [] = [] := by
  refine ⟨concat_sizes_cons s rest, ?_, ?_, ?_, ?_, ?_, rfl⟩
  · intro v
    exact ⟨(to_string_renders v).1, fun c hc => ((to_string_renders v).2.1 c hc).1,
      parse_size_to_string v⟩
  · rw [concat_sizes_cons]
    exact head_to_string_ne_comma s _
  · obtain ⟨l, w, hw⟩ := concat_sizes_ends s rest
    rw [hw]
    exact last_to_string_ne_comma w l
  · rw [concat_sizes_cons, List.count_append, count_comma_to_string, count_comma_tail]
    simp
  · rw [concat_sizes_intercalate, List.splitOn_intercalate _ ',' ?_ (by simp),
      List.map_map]
    · apply List.map_congr_left
      intro v _
      exact parse_size_to_string v
    · intro l hl
      obtain ⟨v, _, rfl⟩ := List.mem_map.1 hl
      exact comma_not_mem_to_string v


end Etl
